import Mathlib

/-!
# ChampSim: address translator and out-of-order core

A shallow embedding of `src/vmem.cc`, `inc/vmem.h` and of the pipeline stages of
`src/ooo_cpu.cc`, followed by theorems about them.

Conventions.
* A C++ `uint64_t` is a `Nat`; every operation that can wrap carries an explicit
  `% 2 ^ 64` (`add64`, `sub64`).
* A call that does not return normally yields `Outcome.fault`: `Fault.exit` for
  `exit(1)` after a printed report, `Fault.abort` for a failed `assert` or an
  uncaught exception, `Fault.undefined` for behaviour the C++ standard leaves
  undefined (`front()` or `pop_front()` of an empty `std::deque`, dereferencing an
  iterator that points to nothing).
* Constants that come from headers outside `src/` (`LOG2_PAGE_SIZE`, the widths and
  sizes of the core) are parameters.
-/

set_option linter.unusedVariables false

namespace ChampSim

/-! ## Outcomes -/

/-- The ways a call can end without returning. -/
inductive Fault where
  | exit
  | abort
  | undefined
  deriving DecidableEq, Repr

/-- Result of a call: a returned value or a fault. -/
inductive Outcome (α : Type) where
  | ok : α → Outcome α
  | fault : Fault → Outcome α
  deriving DecidableEq, Repr

/-- Sequencing of calls: a fault ends the computation. -/
def Outcome.bind {α β : Type} (x : Outcome α) (f : α → Outcome β) : Outcome β :=
  match x with
  | .ok a => f a
  | .fault e => .fault e

instance : Monad Outcome where
  pure := Outcome.ok
  bind := Outcome.bind

/-- The call returned (no fault). -/
def Outcome.returns {α : Type} (x : Outcome α) : Bool :=
  match x with
  | .ok _ => true
  | .fault _ => false

/-- The value a call returned, or `d` after a fault. -/
def Outcome.getD {α : Type} (x : Outcome α) (d : α) : α :=
  match x with
  | .ok a => a
  | .fault _ => d

/-! ## 64-bit arithmetic -/

/-- Addition of two `uint64_t`. -/
def add64 (a b : Nat) : Nat := (a + b) % 2 ^ 64

/-- Subtraction of two `uint64_t` (both below `2 ^ 64`). -/
def sub64 (a b : Nat) : Nat := (a + 2 ^ 64 - b) % 2 ^ 64

/-- The largest `uint64_t`. -/
def UINT64_MAX : Nat := 2 ^ 64 - 1

/-! ## `util.h` helpers used by `vmem.cc` (the header is not part of `src/`) -/

/-- Recursion of `lg2`, bounded by the number of halvings. -/
def lg2_steps : Nat → Nat → Nat
  | 0, _ => 0
  | steps + 1, n => if n < 2 then 0 else 1 + lg2_steps steps (n / 2)

/-- Helper `lg2` of `util.h`: `n < 2 ? 0 : 1 + lg2(n / 2)`, the position of the highest
set bit; 64 halvings bring every `uint64_t` below 2. -/
def lg2 (n : Nat) : Nat := lg2_steps 64 n

/-- Helper `bitmask` of `util.h`: the low `bits` bits set. -/
def bitmask (bits : Nat) : Nat := 2 ^ bits - 1

/-- Helper `splice_bits` of `util.h`: `(upper & ~bitmask(bits)) | (lower & bitmask(bits))`,
the bits of `upper` from position `bits` upwards joined with the low `bits` bits of `lower`. -/
def splice_bits (upper lower bits : Nat) : Nat :=
  (upper / 2 ^ bits) * 2 ^ bits + lower % 2 ^ bits

/-! ## `vmem.h` -/

/-- Macro `VMEM_RESERVE_CAPACITY`: one megabyte. -/
def VMEM_RESERVE_CAPACITY : Nat := 1048576

/-- Macro `PTE_BYTES`. -/
def PTE_BYTES : Nat := 8

/-- The constant `PAGE_SIZE`, as `1 << LOG2_PAGE_SIZE`. -/
def PAGE_SIZE (LOG2_PAGE_SIZE : Nat) : Nat := 2 ^ LOG2_PAGE_SIZE

/-- Macro `__ALIGN_KERNEL_MASK(x, mask)`: `((x) + (mask)) & ~(mask)` on `uint64_t`. -/
def ALIGN_KERNEL_MASK (x mask : Nat) : Nat :=
  add64 x mask &&& (2 ^ 64 - 1 - mask)

/-- Macro `PAGE_ALIGN(addr)`: `ALIGN(addr, PAGE_SIZE)`, i.e. mask `PAGE_SIZE - 1`. -/
def PAGE_ALIGN (LOG2_PAGE_SIZE : Nat) (addr : Nat) : Nat :=
  ALIGN_KERNEL_MASK addr (PAGE_SIZE LOG2_PAGE_SIZE - 1)

/-- Class `VirtualMemory`. The two `std::map`s are association lists searched by key;
`ppage_free_list` (a `std::deque`) is a list whose head is `front()`. -/
structure VirtualMemory where
  vpage_to_ppage_map : List ((Nat × Nat) × Nat) := []
  page_table : List ((Nat × Nat × Nat) × Nat) := []
  next_pte_page : Nat := 0
  pmem_size : Nat := 0
  code_phys_start : Nat := 0
  heap_phys_start : Nat := 0
  mmap_phys_start : Nat := 0
  stack_phys_start : Nat := 0
  code_phys_end : Nat := 0
  heap_phys_end : Nat := 0
  mmap_phys_end : Nat := 0
  stack_phys_end : Nat := 0
  code_virt_start : Nat := 0
  heap_virt_start : Nat := 0
  mmap_virt_start : Nat := 0
  stack_virt_start : Nat := 0
  code_virt_end : Nat := 0
  heap_virt_end : Nat := 0
  mmap_virt_end : Nat := 0
  stack_virt_end : Nat := 0
  ptable_start : Nat := 0
  ptable_size : Nat := 0
  pt_levels : Nat := 0
  page_size : Nat := 0
  ppage_free_list : List Nat := []
  deriving DecidableEq, Repr

/-- The globals `use_pcache`, `code_size`, `heap_size`, `mmap_size`, `stack_size`
that `vmem.cc` declares `extern`. -/
structure Globals where
  use_pcache : Nat := 0
  code_size : Nat := 0
  heap_size : Nat := 0
  mmap_size : Nat := 0
  stack_size : Nat := 0
  deriving DecidableEq, Repr

/-! ## `vmem.cc` -/

/-- Search of a `std::map` (an association list) by key: `find`, and the test that
`insert` makes before it adds a pair. -/
def map_find {κ ν : Type} [DecidableEq κ] (key : κ) : List (κ × ν) → Option ν
  | [] => none
  | (k, v) :: es => if k = key then some v else map_find key es

/-- The free list after `std::partial_sum`: element `i` is
`VMEM_RESERVE_CAPACITY + i * PAGE_SIZE`. -/
def populate_free_list (LOG2_PAGE_SIZE count : Nat) : List Nat :=
  (List.range count).map fun i => add64 VMEM_RESERVE_CAPACITY (i * PAGE_SIZE LOG2_PAGE_SIZE)

/-- Constructor `VirtualMemory::VirtualMemory`. `shuffle seed` stands for
`std::shuffle` driven by `std::mt19937_64{seed}`. The free list is sized from
`capacity - VMEM_RESERVE_CAPACITY` (an unsigned difference); a capacity below the
reserve asks for a deque of about `2 ^ 64 / PAGE_SIZE` elements, which cannot be
allocated. With an empty list `front()` is undefined. -/
def VirtualMemory.construct (LOG2_PAGE_SIZE : Nat) (shuffle : Nat → List Nat → List Nat)
    (capacity pg_size page_table_levels random_seed : Nat) : Outcome VirtualMemory :=
  if capacity < VMEM_RESERVE_CAPACITY then .fault .abort
  else
    let count := sub64 capacity VMEM_RESERVE_CAPACITY / PAGE_SIZE LOG2_PAGE_SIZE
    if capacity % PAGE_SIZE LOG2_PAGE_SIZE ≠ 0 then .fault .abort
    else if ¬ (pg_size = 2 ^ lg2 pg_size ∧ pg_size > 1024) then .fault .abort
    else if count = 0 then .fault .undefined
    else
      match shuffle random_seed (populate_free_list LOG2_PAGE_SIZE count) with
      | [] => .fault .undefined
      | p :: rest =>
        .ok { pt_levels := page_table_levels % 2 ^ 32
              page_size := pg_size % 2 ^ 32
              pmem_size := capacity
              next_pte_page := p
              ppage_free_list := rest }

/-- Method `VirtualMemory::setup_pcache`. Without `use_pcache` nothing happens; otherwise
the layout is computed and the call exits when the stack's physical end lies beyond
`pmem_size`. -/
def setup_pcache (LOG2_PAGE_SIZE : Nat) (g : Globals) (vm : VirtualMemory) :
    Outcome VirtualMemory :=
  if g.use_pcache ≠ 0 then
    let ptable_start := 0x2000
    let ptable_size := vm.pmem_size / PAGE_SIZE LOG2_PAGE_SIZE
    let code_virt_start := 0x0
    let code_virt_end := g.code_size
    let code_phys_start := PAGE_ALIGN LOG2_PAGE_SIZE ptable_size
    let code_phys_end := add64 code_phys_start g.code_size
    let heap_virt_start := 0x555555554000
    let heap_virt_end := add64 heap_virt_start g.heap_size
    let heap_phys_start := PAGE_ALIGN LOG2_PAGE_SIZE code_phys_end
    let heap_phys_end := add64 heap_phys_start g.heap_size
    let mmap_virt_end := 0x7ffff8000000
    let mmap_virt_start := sub64 mmap_virt_end g.mmap_size
    let mmap_phys_start := PAGE_ALIGN LOG2_PAGE_SIZE heap_phys_end
    let mmap_phys_end := add64 mmap_phys_start g.mmap_size
    let stack_virt_end := 0x7ffffffff000
    let stack_virt_start := sub64 stack_virt_end g.stack_size
    let stack_phys_start := PAGE_ALIGN LOG2_PAGE_SIZE mmap_phys_end
    let stack_phys_end := add64 stack_phys_start g.stack_size
    if stack_phys_end > vm.pmem_size then .fault .exit
    else
      .ok { vm with
            ptable_start := ptable_start, ptable_size := ptable_size
            code_virt_start := code_virt_start, code_virt_end := code_virt_end
            code_phys_start := code_phys_start, code_phys_end := code_phys_end
            heap_virt_start := heap_virt_start, heap_virt_end := heap_virt_end
            heap_phys_start := heap_phys_start, heap_phys_end := heap_phys_end
            mmap_virt_start := mmap_virt_start, mmap_virt_end := mmap_virt_end
            mmap_phys_start := mmap_phys_start, mmap_phys_end := mmap_phys_end
            stack_virt_start := stack_virt_start, stack_virt_end := stack_virt_end
            stack_phys_start := stack_phys_start, stack_phys_end := stack_phys_end }
  else .ok vm

/-- Method `VirtualMemory::pcache_va_to_pa`: the first of the four ranges that holds
`vaddr` decides; outside all of them the layout is printed and the call exits. -/
def pcache_va_to_pa (vm : VirtualMemory) (cpu_num vaddr : Nat) : Outcome Nat :=
  if vaddr ≥ vm.code_virt_start ∧ vaddr < vm.code_virt_end then
    .ok (add64 vm.code_phys_start (sub64 vaddr vm.code_virt_start))
  else if vaddr ≥ vm.heap_virt_start ∧ vaddr < vm.heap_virt_end then
    .ok (add64 vm.heap_phys_start (sub64 vaddr vm.heap_virt_start))
  else if vaddr ≥ vm.mmap_virt_start ∧ vaddr < vm.mmap_virt_end then
    .ok (add64 vm.mmap_phys_start (sub64 vaddr vm.mmap_virt_start))
  else if vaddr ≥ vm.stack_virt_start ∧ vaddr < vm.stack_virt_end then
    .ok (add64 vm.stack_phys_start (sub64 vaddr vm.stack_virt_start))
  else .fault .exit

/-- Method `VirtualMemory::va_to_pa`. The argument of `insert` reads
`ppage_free_list.front()` before the map is consulted, so an empty free list is
undefined behaviour whether or not the page is already mapped. -/
def va_to_pa (LOG2_PAGE_SIZE : Nat) (vm : VirtualMemory) (cpu_num vaddr : Nat) :
    Outcome (Nat × VirtualMemory) :=
  match vm.ppage_free_list with
  | [] => .fault .undefined
  | front :: rest =>
    let key := (cpu_num, vaddr >>> LOG2_PAGE_SIZE)
    match map_find key vm.vpage_to_ppage_map with
    | some ppage => .ok (splice_bits ppage vaddr LOG2_PAGE_SIZE, vm)
    | none =>
      .ok (splice_bits front vaddr LOG2_PAGE_SIZE,
           { vm with vpage_to_ppage_map := (key, front) :: vm.vpage_to_ppage_map
                     ppage_free_list := rest })

/-- A sequence of `va_to_pa` calls, each on the state the previous one left; the
result lists the returned addresses in call order. -/
def va_to_pa_seq (LOG2_PAGE_SIZE : Nat) (vm : VirtualMemory) :
    List (Nat × Nat) → Outcome (List Nat × VirtualMemory)
  | [] => .ok ([], vm)
  | (cpu_num, vaddr) :: calls =>
    match va_to_pa LOG2_PAGE_SIZE vm cpu_num vaddr with
    | .fault e => .fault e
    | .ok (pa, vm1) =>
      match va_to_pa_seq LOG2_PAGE_SIZE vm1 calls with
      | .fault e => .fault e
      | .ok (pas, vm2) => .ok (pa :: pas, vm2)

/-! ## Translator: ranges and pages -/

/-- Membership of `x` in the half-open range `[lo, hi)`. -/
def in_range (lo hi x : Nat) : Prop := lo ≤ x ∧ x < hi

instance (lo hi x : Nat) : Decidable (in_range lo hi x) := by
  unfold in_range; exact inferInstance

/-- Two half-open ranges `[a, b)` and `[c, d)` share no address. -/
def ranges_disjoint (a b c d : Nat) : Prop :=
  ∀ x, ¬ (in_range a b x ∧ in_range c d x)

/-- The four virtual ranges of a translator are pairwise disjoint. -/
def virt_ranges_disjoint (vm : VirtualMemory) : Prop :=
  ranges_disjoint vm.code_virt_start vm.code_virt_end vm.heap_virt_start vm.heap_virt_end ∧
  ranges_disjoint vm.code_virt_start vm.code_virt_end vm.mmap_virt_start vm.mmap_virt_end ∧
  ranges_disjoint vm.code_virt_start vm.code_virt_end vm.stack_virt_start vm.stack_virt_end ∧
  ranges_disjoint vm.heap_virt_start vm.heap_virt_end vm.mmap_virt_start vm.mmap_virt_end ∧
  ranges_disjoint vm.heap_virt_start vm.heap_virt_end vm.stack_virt_start vm.stack_virt_end ∧
  ranges_disjoint vm.mmap_virt_start vm.mmap_virt_end vm.stack_virt_start vm.stack_virt_end

/-- The four physical ranges of a translator are pairwise disjoint. -/
def phys_ranges_disjoint (vm : VirtualMemory) : Prop :=
  ranges_disjoint vm.code_phys_start vm.code_phys_end vm.heap_phys_start vm.heap_phys_end ∧
  ranges_disjoint vm.code_phys_start vm.code_phys_end vm.mmap_phys_start vm.mmap_phys_end ∧
  ranges_disjoint vm.code_phys_start vm.code_phys_end vm.stack_phys_start vm.stack_phys_end ∧
  ranges_disjoint vm.heap_phys_start vm.heap_phys_end vm.mmap_phys_start vm.mmap_phys_end ∧
  ranges_disjoint vm.heap_phys_start vm.heap_phys_end vm.stack_phys_start vm.stack_phys_end ∧
  ranges_disjoint vm.mmap_phys_start vm.mmap_phys_end vm.stack_phys_start vm.stack_phys_end

/-- Membership of `vaddr` in one of the four virtual ranges. -/
def in_some_virt_range (vm : VirtualMemory) (vaddr : Nat) : Prop :=
  in_range vm.code_virt_start vm.code_virt_end vaddr ∨
  in_range vm.heap_virt_start vm.heap_virt_end vaddr ∨
  in_range vm.mmap_virt_start vm.mmap_virt_end vaddr ∨
  in_range vm.stack_virt_start vm.stack_virt_end vaddr

/-- Physical page number of an address. -/
def ppage_number (L : Nat) (pa : Nat) : Nat := pa / 2 ^ L

/-- Invariant of the random-map translator: the pages recorded in the map together
with the pages still in the free pool lie in pairwise different physical pages. -/
def pages_distinct (L : Nat) (vm : VirtualMemory) : Prop :=
  ((vm.vpage_to_ppage_map.map Prod.snd ++ vm.ppage_free_list).map (ppage_number L)).Nodup

/-! ## Core: constants and records

The headers `ooo_cpu.h`, `instruction.h`, `block.h`, `champsim.h`, `circular_buffer.hpp`
and `delay_queue.hpp` are not part of `src/`. Their constants are the fields of
`Params`; the records carry the fields that `ooo_cpu.cc` reads and writes. -/

/-- Modelled from the spec: the progress value "in-flight" of the flags `translated`,
`fetched`, `decoded`, `scheduled`, `executed`, whose values are {not-started,
in-flight, completed}; the code tests not-started as `0`. The header that defines
`INFLIGHT` is missing. -/
def INFLIGHT : Nat := 1

/-- Modelled from the spec: the progress value "completed" (see `INFLIGHT`); the header
that defines `COMPLETED` is missing. -/
def COMPLETED : Nat := 2

/-- Constants of the core that `ooo_cpu.cc` takes from headers outside `src/`, and the
mode switches it declares `extern`. -/
structure Params where
  FETCH_WIDTH : Nat
  DECODE_WIDTH : Nat
  DISPATCH_WIDTH : Nat
  RETIRE_WIDTH : Nat
  STA_SIZE : Nat
  MAX_INSTR_DESTINATIONS : Nat
  NUM_INSTR_SOURCES : Nat
  REG_STACK_POINTER : Nat
  REG_FLAGS : Nat
  REG_INSTRUCTION_POINTER : Nat
  BRANCH_DIRECT_JUMP : Nat
  BRANCH_INDIRECT : Nat
  BRANCH_CONDITIONAL : Nat
  BRANCH_DIRECT_CALL : Nat
  BRANCH_INDIRECT_CALL : Nat
  BRANCH_RETURN : Nat
  BRANCH_OTHER : Nat
  BRANCH_MISPREDICT_PENALTY : Nat
  SCHEDULING_LATENCY : Nat
  LOG2_BLOCK_SIZE : Nat
  LOG2_DIB_WINDOW_SIZE : Nat
  DIB_SET : Nat
  FILL_L1 : Nat
  RFO : Nat
  SANITY_CHECK : Bool
  use_pcache : Nat
  use_smm : Nat
  use_direct_segment : Nat
  knob_cloudsuite : Nat
  LOG2_PAGE_SIZE : Nat
  LOAD : Nat
  LQ_WIDTH : Nat
  SQ_WIDTH : Nat
  SCHEDULER_SIZE : Nat
  EXEC_WIDTH : Nat
  EXEC_LATENCY : Nat
  ROB_SIZE : Nat
  deriving DecidableEq, Repr

/-- Record `LSQ_ENTRY` of a load-queue or store-queue slot. `rob_index` is an iterator
into the ROB, kept as the instruction id it points to. The default value is the slot
"reset to empty" that `LSQ_ENTRY empty;` constructs: no address, no producer, progress
not started. -/
structure LSQ_ENTRY where
  instr_id : Nat := 0
  producer_id : Nat := UINT64_MAX
  virtual_address : Nat := 0
  physical_address : Nat := 0
  ip : Nat := 0
  event_cycle : Nat := 0
  rob_index : Option Nat := none
  translated : Nat := 0
  fetched : Nat := 0
  asid : Nat × Nat := (255, 255)
  deriving DecidableEq, Repr

/-- Record `ooo_model_instr`. Arrays are lists indexed from 0; `lq_index` and
`sq_index` hold iterators into `LQ` and `SQ`, kept as slot positions, `none` while an
iterator has never been assigned; the dependency lists hold iterators into the ROB,
kept as instruction ids. -/
structure ooo_model_instr where
  instr_id : Nat := 0
  ip : Nat := 0
  event_cycle : Nat := 0
  is_branch : Nat := 0
  is_memory : Nat := 0
  branch_taken : Nat := 0
  branch_mispredicted : Nat := 0
  branch_type : Nat := 0
  branch_target : Nat := 0
  translated : Nat := 0
  fetched : Nat := 0
  decoded : Nat := 0
  scheduled : Nat := 0
  executed : Nat := 0
  num_reg_ops : Int := 0
  num_mem_ops : Int := 0
  num_tsp_ops : Int := 0
  num_pcache_ops : Int := 0
  num_reg_dependent : Int := 0
  destination_registers : List Nat := []
  source_registers : List Nat := []
  destination_memory : List Nat := []
  source_memory : List Nat := []
  source_added : List Nat := []
  destination_added : List Nat := []
  instruction_pa : Nat := 0
  asid : Nat × Nat := (255, 255)
  registers_instrs_depend_on_me : List Nat := []
  memory_instrs_depend_on_me : List Nat := []
  lq_index : List (Option Nat) := []
  sq_index : List (Option Nat) := []
  deriving DecidableEq, Repr

/-- Record `PACKET`: the fields that the embedded functions fill in. The lists
`instr_depend_on_me`, `lq_index_depend_on_me` and `sq_index_depend_on_me` hold iterators
into `IFETCH_BUFFER`, `LQ` and `SQ`, kept as positions. -/
structure PACKET where
  fill_level : Nat := 0
  cpu : Nat := 0
  address : Nat := 0
  full_addr : Nat := 0
  v_address : Nat := 0
  full_v_addr : Nat := 0
  instr_id : Nat := 0
  ip : Nat := 0
  type : Nat := 0
  asid : Nat × Nat := (255, 255)
  event_cycle : Nat := 0
  instr_depend_on_me : List Nat := []
  lq_index_depend_on_me : List Nat := []
  sq_index_depend_on_me : List Nat := []
  deriving DecidableEq, Repr

/-- Modelled from the spec: the stage buffer `champsim::circular_buffer` (its header is
missing), "a fixed-capacity ordered queue of instruction records"; `entries` lists the
records from the front (oldest) to the back. -/
structure circular_buffer (α : Type) where
  size : Nat := 0
  entries : List α := []
  deriving DecidableEq, Repr

/-- Modelled from the spec: `occupancy()` of the missing `circular_buffer`, the number of
records held. -/
def circular_buffer.occupancy {α : Type} (b : circular_buffer α) : Nat := b.entries.length

/-- Modelled from the spec: `empty()` of the missing `circular_buffer`. -/
def circular_buffer.empty {α : Type} (b : circular_buffer α) : Bool := b.entries.isEmpty

/-- Modelled from the spec: `full()` of the missing `circular_buffer`, "buffer reports
full when at capacity". -/
def circular_buffer.full {α : Type} (b : circular_buffer α) : Bool := b.size ≤ b.entries.length

/-- Modelled from the spec: `push_back` of the missing `circular_buffer`: "push fails
when at capacity", otherwise the record becomes the youngest one. -/
def circular_buffer.push_back {α : Type} (b : circular_buffer α) (x : α) :
    Outcome (circular_buffer α) :=
  if b.full then .fault .abort else .ok { b with entries := b.entries ++ [x] }

/-- Modelled from the spec: `front()` of the missing `circular_buffer`: "pop/front
operate only while non-empty". -/
def circular_buffer.front {α : Type} (b : circular_buffer α) : Outcome α :=
  match b.entries with
  | [] => .fault .undefined
  | x :: _ => .ok x

/-- Modelled from the spec: `pop_front()` of the missing `circular_buffer`: "pop/front
operate only while non-empty"; the oldest record leaves. -/
def circular_buffer.pop_front {α : Type} (b : circular_buffer α) :
    Outcome (circular_buffer α) :=
  match b.entries with
  | [] => .fault .undefined
  | _ :: rest => .ok { b with entries := rest }

/-- Modelled from the spec: the stage buffer `champsim::delay_queue` (its header is
missing), a fixed-capacity ordered queue "with a ready marker per entry"; every record
carries the number of aging steps left until it is ready. -/
structure delay_queue (α : Type) where
  size : Nat := 0
  latency : Nat := 0
  entries : List (α × Nat) := []
  deriving DecidableEq, Repr

/-- Modelled from the spec: `empty()` of the missing `delay_queue`. -/
def delay_queue.empty {α : Type} (q : delay_queue α) : Bool := q.entries.isEmpty

/-- Modelled from the spec: `full()` of the missing `delay_queue`. -/
def delay_queue.full {α : Type} (q : delay_queue α) : Bool := q.size ≤ q.entries.length

/-- Modelled from the spec: `has_ready()` of the missing `delay_queue`: the oldest
record exists and is marked ready. -/
def delay_queue.has_ready {α : Type} (q : delay_queue α) : Bool :=
  match q.entries with
  | [] => false
  | (_, d) :: _ => d == 0

/-- Modelled from the spec: `push_back` of the missing `delay_queue`: fails at
capacity, otherwise appends a record that becomes ready after `latency` aging steps. -/
def delay_queue.push_back {α : Type} (q : delay_queue α) (x : α) : Outcome (delay_queue α) :=
  if q.full then .fault .abort else .ok { q with entries := q.entries ++ [(x, q.latency)] }

/-- Modelled from the spec: `push_back_ready` of the missing `delay_queue`: fails at
capacity, otherwise appends a record that is ready at once. -/
def delay_queue.push_back_ready {α : Type} (q : delay_queue α) (x : α) :
    Outcome (delay_queue α) :=
  if q.full then .fault .abort else .ok { q with entries := q.entries ++ [(x, 0)] }

/-- Modelled from the spec: `front()` of the missing `delay_queue`. -/
def delay_queue.front {α : Type} (q : delay_queue α) : Outcome α :=
  match q.entries with
  | [] => .fault .undefined
  | (x, _) :: _ => .ok x

/-- Modelled from the spec: `pop_front()` of the missing `delay_queue`. -/
def delay_queue.pop_front {α : Type} (q : delay_queue α) : Outcome (delay_queue α) :=
  match q.entries with
  | [] => .fault .undefined
  | _ :: rest => .ok { q with entries := rest }

/-- Modelled from the spec: `operate()` of the missing `delay_queue`, the "per-stage
aging operation" that "advances not-yet-ready entries toward ready". -/
def delay_queue.operate {α : Type} (q : delay_queue α) : delay_queue α :=
  { q with entries := q.entries.map fun e => (e.1, e.2 - 1) }

/-- Record `dib_entry_t`: a way of the decoded-instruction buffer. -/
structure dib_entry_t where
  valid : Bool := false
  lru : Nat := 0
  address : Nat := 0
  deriving DecidableEq, Repr

/-- Class `O3_CPU`: the members that the embedded stages use, with the globals
`warmup_complete[cpu]` and `current_core_cycle[cpu]` of this core. The queues `RTL0`,
`RTL1`, `RTS0`, `RTS1` hold iterators into `LQ` and `SQ`, kept as slot positions, the
front of a queue first; the queue `ready_to_execute` holds iterators into the ROB, kept
as instruction ids. -/
structure O3_CPU where
  cpu : Nat := 0
  warmup_complete : Nat := 0
  current_core_cycle : Nat := 0
  instr_unique_id : Nat := 0
  instrs_to_read_this_cycle : Nat := 0
  fetch_stall : Nat := 0
  fetch_resume_cycle : Nat := 0
  num_branch : Nat := 0
  branch_mispredictions : Nat := 0
  total_rob_occupancy_at_branch_mispredict : Nat := 0
  total_branch_types : List Nat := List.replicate 8 0
  branch_type_misses : List Nat := List.replicate 8 0
  completed_executions : Nat := 0
  num_retired : Nat := 0
  IFETCH_BUFFER : circular_buffer ooo_model_instr := {}
  DECODE_BUFFER : delay_queue ooo_model_instr := {}
  DISPATCH_BUFFER : delay_queue ooo_model_instr := {}
  ROB : circular_buffer ooo_model_instr := {}
  LQ : List LSQ_ENTRY := []
  SQ : List LSQ_ENTRY := []
  STA : List Nat := []
  STA_head : Nat := 0
  STA_tail : Nat := 0
  DIB : List (List dib_entry_t) := []
  RTL0 : List Nat := []
  RTL1 : List Nat := []
  RTS0 : List Nat := []
  RTS1 : List Nat := []
  ready_to_execute : List Nat := []
  inflight_reg_executions : Nat := 0
  inflight_mem_executions : Nat := 0
  deriving DecidableEq, Repr

/-! ## Core: fetch, decode, dispatch (`ooo_cpu.cc`) -/

/-- The locals `reads_sp` ... `reads_other` of `init_instruction`. -/
structure RegScan where
  reads_sp : Bool := false
  writes_sp : Bool := false
  reads_flags : Bool := false
  reads_ip : Bool := false
  writes_ip : Bool := false
  reads_other : Bool := false
  deriving DecidableEq, Repr

/-- Increment of the counter at position `i` of an array of counters. -/
def bump (l : List Nat) (i : Nat) : List Nat := l.set i (l.getD i 0 + 1)

/-- One round of the first loop of `init_instruction`, for destination `i`: scan of
the destination register, count of the operands, and the write of the instruction id
at `STA_tail` for a destination memory operand. -/
def init_destination (P : Params) (i : Nat) (a : ooo_model_instr) (r : RegScan) (s : O3_CPU) :
    Outcome (ooo_model_instr × RegScan × O3_CPU) :=
  let d := a.destination_registers.getD i 0
  let r1 : RegScan :=
    if d = 0 then r
    else if d = P.REG_STACK_POINTER then { r with writes_sp := true }
    else if d = P.REG_INSTRUCTION_POINTER then { r with writes_ip := true }
    else r
  let a1 := if d ≠ 0 then { a with num_reg_ops := a.num_reg_ops + 1 } else a
  if a1.destination_memory.getD i 0 ≠ 0 then
    let a2 := { a1 with num_mem_ops := a1.num_mem_ops + 1 }
    if a2.num_mem_ops > 0 then
      if P.SANITY_CHECK = true ∧ s.STA.getD s.STA_tail 0 < UINT64_MAX ∧ s.STA_head ≠ s.STA_tail
      then .fault .abort
      else
        .ok (a2, r1, { s with
          STA := s.STA.set s.STA_tail s.instr_unique_id
          STA_tail := if s.STA_tail + 1 = P.STA_SIZE then 0 else s.STA_tail + 1 })
    else .ok (a2, r1, s)
  else .ok (a1, r1, s)

/-- The first loop of `init_instruction`, over the destinations `i` of the list. -/
def init_destinations (P : Params) :
    List Nat → ooo_model_instr → RegScan → O3_CPU → Outcome (ooo_model_instr × RegScan × O3_CPU)
  | [], a, r, s => .ok (a, r, s)
  | i :: rest, a, r, s =>
    match init_destination P i a r s with
    | .fault e => .fault e
    | .ok (a1, r1, s1) => init_destinations P rest a1 r1 s1

/-- One round of the second loop of `init_instruction`, for source `i`. -/
def init_source (P : Params) (i : Nat) (a : ooo_model_instr) (r : RegScan) :
    ooo_model_instr × RegScan :=
  let d := a.source_registers.getD i 0
  let r1 : RegScan :=
    if d = 0 then r
    else if d = P.REG_STACK_POINTER then { r with reads_sp := true }
    else if d = P.REG_FLAGS then { r with reads_flags := true }
    else if d = P.REG_INSTRUCTION_POINTER then { r with reads_ip := true }
    else { r with reads_other := true }
  let a1 := if d ≠ 0 then { a with num_reg_ops := a.num_reg_ops + 1 } else a
  let a2 :=
    if a1.source_memory.getD i 0 ≠ 0 then
      let b := { a1 with num_mem_ops := a1.num_mem_ops + 1 }
      let b1 := if P.use_smm ≠ 0 then { b with num_tsp_ops := b.num_tsp_ops + 1 } else b
      if P.use_pcache ≠ 0 then { b1 with num_pcache_ops := b1.num_pcache_ops + 1 } else b1
    else a1
  (a2, r1)

/-- The second loop of `init_instruction`, over the sources `i` of the list. -/
def init_sources (P : Params) : List Nat → ooo_model_instr → RegScan → ooo_model_instr × RegScan
  | [], a, r => (a, r)
  | i :: rest, a, r => init_sources P rest (init_source P i a r).1 (init_source P i a r).2

/-- The branch classification of `init_instruction`. -/
def classify_branch (P : Params) (a : ooo_model_instr) (r : RegScan) : ooo_model_instr :=
  if !r.reads_sp && !r.reads_flags && r.writes_ip && !r.reads_other then
    { a with is_branch := 1, branch_taken := 1, branch_type := P.BRANCH_DIRECT_JUMP }
  else if !r.reads_sp && !r.reads_flags && r.writes_ip && r.reads_other then
    { a with is_branch := 1, branch_taken := 1, branch_type := P.BRANCH_INDIRECT }
  else if !r.reads_sp && r.reads_ip && !r.writes_sp && r.writes_ip && r.reads_flags
      && !r.reads_other then
    { a with is_branch := 1, branch_type := P.BRANCH_CONDITIONAL }
  else if r.reads_sp && r.reads_ip && r.writes_sp && r.writes_ip && !r.reads_flags
      && !r.reads_other then
    { a with is_branch := 1, branch_taken := 1, branch_type := P.BRANCH_DIRECT_CALL }
  else if r.reads_sp && r.reads_ip && r.writes_sp && r.writes_ip && !r.reads_flags
      && r.reads_other then
    { a with is_branch := 1, branch_taken := 1, branch_type := P.BRANCH_INDIRECT_CALL }
  else if r.reads_sp && !r.reads_ip && r.writes_sp && r.writes_ip then
    { a with is_branch := 1, branch_taken := 1, branch_type := P.BRANCH_RETURN }
  else if r.writes_ip then
    { a with is_branch := 1, branch_type := P.BRANCH_OTHER }
  else a

/-- The stack-pointer folding loop of `init_instruction`, over the destinations `i` of
the list. -/
def fold_stack_pointer (P : Params) : List Nat → ooo_model_instr → ooo_model_instr
  | [], a => a
  | i :: rest, a =>
    if a.destination_registers.getD i 0 = P.REG_STACK_POINTER then
      fold_stack_pointer P rest
        { a with destination_registers := a.destination_registers.set i 0
                 num_reg_ops := a.num_reg_ops - 1 }
    else fold_stack_pointer P rest a

/-- Zeroing of the first `n` elements of an array. -/
def zero_first (n : Nat) (l : List Nat) : List Nat :=
  (List.range n).foldl (fun acc i => acc.set i 0) l

/-- The head of `init_instruction`: a new budget `instrs_to_read_this_cycle` when the
old one is used up, then its decrement (within 32 bits, the width of the returned
value). -/
def init_fetch_budget (P : Params) (s : O3_CPU) : O3_CPU :=
  let s0 :=
    if s.instrs_to_read_this_cycle = 0 then
      let room := s.IFETCH_BUFFER.size - s.IFETCH_BUFFER.occupancy
      { s with instrs_to_read_this_cycle := min P.FETCH_WIDTH room }
    else s
  { s0 with instrs_to_read_this_cycle := (s0.instrs_to_read_this_cycle + 2 ^ 32 - 1) % 2 ^ 32 }

/-- The stack-pointer folding of `init_instruction`. -/
def init_stack_pointer_folding (P : Params) (a : ooo_model_instr) (r : RegScan) :
    ooo_model_instr :=
  if r.writes_sp = true ∧ (a.is_branch ≠ 0 ∨ a.num_mem_ops > 0 ∨ r.reads_other = false)
  then fold_stack_pointer P (List.range P.MAX_INSTR_DESTINATIONS) a
  else a

/-- The branch-prediction part of `init_instruction`. The answers of the predictor are
arguments: `btb_result` is what `btb_prediction` returns (target, always-taken) and
`branch_prediction` what `predict_branch` returns. -/
def init_branch_prediction (a : ooo_model_instr) (s : O3_CPU) (btb_result : Nat × Nat)
    (branch_prediction : Nat) : ooo_model_instr × O3_CPU :=
  if a.is_branch ≠ 0 then
    let t0 := { s with num_branch := s.num_branch + 1 }
    let always_taken := btb_result.2
    let predicted_branch_target :=
      if branch_prediction = 0 ∧ always_taken = 0 then 0 else btb_result.1
    if predicted_branch_target ≠ a.branch_target then
      let t1 := { t0 with
        branch_mispredictions := t0.branch_mispredictions + 1
        total_rob_occupancy_at_branch_mispredict :=
          t0.total_rob_occupancy_at_branch_mispredict + t0.ROB.occupancy
        branch_type_misses := bump t0.branch_type_misses a.branch_type }
      if t1.warmup_complete ≠ 0 then
        ({ a with branch_mispredicted := 1 },
         { t1 with fetch_stall := 1, instrs_to_read_this_cycle := 0 })
      else (a, t1)
    else if a.branch_taken = 1 then (a, { t0 with instrs_to_read_this_cycle := 0 })
    else (a, t0)
  else (a, s)

/-- The fast-warmup part of `init_instruction`: before warmup is complete the register
operands are erased. -/
def init_fast_warmup (P : Params) (a : ooo_model_instr) (warmup_complete : Nat) :
    ooo_model_instr :=
  if warmup_complete = 0 then
    { a with source_registers := zero_first P.NUM_INSTR_SOURCES a.source_registers
             destination_registers := zero_first P.MAX_INSTR_DESTINATIONS a.destination_registers
             num_reg_ops := 0 }
  else a

/-- The part of `init_instruction` between the operand loops and the branch
prediction: the memory flag and the branch classification. -/
def init_classify (P : Params) (a : ooo_model_instr) (r : RegScan) : ooo_model_instr :=
  classify_branch P (if a.num_mem_ops > 0 then { a with is_memory := 1 } else a) r

/-- The part of `init_instruction` that clears the target of an instruction that is not
a taken branch. -/
def init_clear_target (a : ooo_model_instr) : ooo_model_instr :=
  if a.is_branch ≠ 1 ∨ a.branch_taken ≠ 1 then { a with branch_target := 0 } else a

/-- The tail of `init_instruction`: branch prediction, event cycle, fast warmup, the
push into `IFETCH_BUFFER` and the increment of `instr_unique_id`. -/
def init_finish (P : Params) (a : ooo_model_instr) (s : O3_CPU) (btb_result : Nat × Nat)
    (branch_prediction : Nat) : Outcome (Nat × O3_CPU) :=
  let as := init_branch_prediction a s btb_result branch_prediction
  let a1 := { as.1 with event_cycle := as.2.current_core_cycle }
  let a2 := init_fast_warmup P a1 as.2.warmup_complete
  match as.2.IFETCH_BUFFER.push_back a2 with
  | .fault e => .fault e
  | .ok buf =>
    let s1 := { as.2 with IFETCH_BUFFER := buf, instr_unique_id := add64 as.2.instr_unique_id 1 }
    .ok (s1.instrs_to_read_this_cycle, s1)

/-- Method `O3_CPU::init_instruction`; for `btb_result` and `branch_prediction` see
`init_branch_prediction`. The result is the returned `instrs_to_read_this_cycle` and
the new state. -/
def init_instruction (P : Params) (s : O3_CPU) (arch_instr : ooo_model_instr)
    (btb_result : Nat × Nat) (branch_prediction : Nat) : Outcome (Nat × O3_CPU) :=
  let s1 := init_fetch_budget P s
  let a0 := { arch_instr with instr_id := s1.instr_unique_id }
  match init_destinations P (List.range P.MAX_INSTR_DESTINATIONS) a0 {} s1 with
  | .fault e => .fault e
  | .ok (a1, r1, s2) =>
    let ar := init_sources P (List.range P.NUM_INSTR_SOURCES) a1 r1
    let a4 := init_classify P ar.1 ar.2
    let s3 := { s2 with total_branch_types := bump s2.total_branch_types a4.branch_type }
    let a6 := init_stack_pointer_folding P (init_clear_target a4) ar.2
    init_finish P a6 s3 btb_result branch_prediction

/-- The loop of `promote_to_decode`; the first argument is `available_fetch_bandwidth`. -/
def promote_to_decode_loop : Nat → O3_CPU → Outcome O3_CPU
  | 0, s => .ok s
  | bw + 1, s =>
    match s.IFETCH_BUFFER.entries with
    | [] => .ok s
    | front :: _ =>
      if s.DECODE_BUFFER.full = false ∧ front.translated = COMPLETED ∧ front.fetched = COMPLETED
      then
        match (if s.warmup_complete = 0 ∨ front.decoded ≠ 0
               then s.DECODE_BUFFER.push_back_ready front
               else s.DECODE_BUFFER.push_back front) with
        | .fault e => .fault e
        | .ok dq =>
          match s.IFETCH_BUFFER.pop_front with
          | .fault e => .fault e
          | .ok ib => promote_to_decode_loop bw { s with DECODE_BUFFER := dq, IFETCH_BUFFER := ib }
      else .ok s

/-- Method `O3_CPU::promote_to_decode`. -/
def promote_to_decode (P : Params) (s : O3_CPU) : Outcome O3_CPU :=
  promote_to_decode_loop P.FETCH_WIDTH s

/-- Modelled from the spec: the missing `eq_addr`, "an address match within the same
aligned window" on a valid way; the result is the position of the first such way. -/
def dib_find (shamt : Nat) (ip : Nat) (dib_set : List dib_entry_t) : Option Nat :=
  let i := dib_set.findIdx fun w => w.valid && (w.address >>> shamt == ip >>> shamt)
  if i < dib_set.length then some i else none

/-- Modelled from the spec: the victim that the missing `lru_comparator` selects, "the
least-recently-used way": the first way of maximal LRU rank. -/
def dib_victim (dib_set : List dib_entry_t) : Nat :=
  let top := (dib_set.map fun w => w.lru).foldl max 0
  dib_set.findIdx fun w => w.lru == top

/-- Modelled from the spec: the missing `lru_updater`, "promote the way to
most-recently-used": the rank of the promoted way becomes 0, every other rank grows by
one. -/
def dib_promote (val : Nat) (dib_set : List dib_entry_t) : List dib_entry_t :=
  dib_set.map fun w => if w.lru = val then { w with lru := 0 } else { w with lru := w.lru + 1 }

/-- Method `O3_CPU::do_dib_update`. -/
def do_dib_update (P : Params) (s : O3_CPU) (instr : ooo_model_instr) : Outcome O3_CPU :=
  let idx := (instr.ip >>> P.LOG2_DIB_WINDOW_SIZE) % P.DIB_SET
  match s.DIB.get? idx with
  | none => .fault .undefined
  | some dib_set =>
    match dib_find P.LOG2_DIB_WINDOW_SIZE instr.ip dib_set with
    | some way =>
      let val := (dib_set.getD way {}).lru
      .ok { s with DIB := s.DIB.set idx (dib_promote val dib_set) }
    | none =>
      if dib_set = [] then .fault .abort
      else
        let way := dib_victim dib_set
        let old := dib_set.getD way {}
        let installed := dib_set.set way { old with valid := true, address := instr.ip }
        .ok { s with DIB := s.DIB.set idx (dib_promote old.lru installed) }

/-- The loop of `decode_instruction`; the first argument is
`available_decode_bandwidth`. -/
def decode_instruction_loop (P : Params) : Nat → O3_CPU → Outcome O3_CPU
  | 0, s => .ok s
  | bw + 1, s =>
    if s.DECODE_BUFFER.has_ready = true ∧ s.DISPATCH_BUFFER.full = false then
      match s.DECODE_BUFFER.front with
      | .fault e => .fault e
      | .ok db_entry =>
        match do_dib_update P s db_entry with
        | .fault e => .fault e
        | .ok s1 =>
          let resolved := db_entry.branch_mispredicted ≠ 0 ∧
            (db_entry.branch_type = P.BRANCH_DIRECT_JUMP ∨
             db_entry.branch_type = P.BRANCH_DIRECT_CALL)
          let db_entry1 := if resolved then { db_entry with branch_mispredicted := 0 } else db_entry
          let s2 :=
            if resolved then
              let resume := add64 s1.current_core_cycle P.BRANCH_MISPREDICT_PENALTY
              { s1 with fetch_resume_cycle := resume }
            else s1
          match (if s2.warmup_complete ≠ 0 then s2.DISPATCH_BUFFER.push_back db_entry1
                 else s2.DISPATCH_BUFFER.push_back_ready db_entry1) with
          | .fault e => .fault e
          | .ok dq =>
            match s2.DECODE_BUFFER.pop_front with
            | .fault e => .fault e
            | .ok db =>
              decode_instruction_loop P bw { s2 with DISPATCH_BUFFER := dq, DECODE_BUFFER := db }
    else .ok s

/-- Method `O3_CPU::decode_instruction`. -/
def decode_instruction (P : Params) (s : O3_CPU) : Outcome O3_CPU :=
  match decode_instruction_loop P P.DECODE_WIDTH s with
  | .fault e => .fault e
  | .ok s1 => .ok { s1 with DECODE_BUFFER := s1.DECODE_BUFFER.operate }

/-- The loop of `dispatch_instruction`; the first argument is
`available_dispatch_bandwidth`. -/
def dispatch_instruction_loop : Nat → O3_CPU → Outcome O3_CPU
  | 0, s => .ok s
  | bw + 1, s =>
    if s.DISPATCH_BUFFER.has_ready = true ∧ s.ROB.full = false then
      match s.DISPATCH_BUFFER.front with
      | .fault e => .fault e
      | .ok x =>
        match s.ROB.push_back x with
        | .fault e => .fault e
        | .ok rob =>
          match s.DISPATCH_BUFFER.pop_front with
          | .fault e => .fault e
          | .ok dq => dispatch_instruction_loop bw { s with ROB := rob, DISPATCH_BUFFER := dq }
    else .ok s

/-- Method `O3_CPU::dispatch_instruction`. -/
def dispatch_instruction (P : Params) (s : O3_CPU) : Outcome O3_CPU :=
  if s.DISPATCH_BUFFER.empty = true then .ok s
  else
    match dispatch_instruction_loop P.DISPATCH_WIDTH s with
    | .fault e => .fault e
    | .ok s1 => .ok { s1 with DISPATCH_BUFFER := s1.DISPATCH_BUFFER.operate }

/-! ## Core: retirement (`ooo_cpu.cc`) -/

/-- The packet that `retire_rob` builds from a store-queue slot. -/
def retire_packet (P : Params) (cpu current_core_cycle : Nat) (sq_it : LSQ_ENTRY) : PACKET :=
  { fill_level := P.FILL_L1
    cpu := cpu
    address := sq_it.physical_address >>> P.LOG2_BLOCK_SIZE
    full_addr := sq_it.physical_address
    v_address := sq_it.virtual_address >>> P.LOG2_BLOCK_SIZE
    full_v_addr := sq_it.virtual_address
    instr_id := sq_it.instr_id
    ip := sq_it.ip
    type := P.RFO
    asid := sq_it.asid
    event_cycle := current_core_cycle }

/-- One call of `L1D_bus.lower_level->add_wq` made by `retire_rob`: the instruction id
of the ROB head and the index of the destination memory operand it was made for, the
packet sent, and the value returned (`-2` is the rejection). -/
structure WqCall where
  rob_id : Nat
  operand : Nat
  packet : PACKET
  result : Int
  deriving DecidableEq, Repr

/-- The memory subsystem admitted the write. -/
def WqCall.accepted (c : WqCall) : Bool := c.result != -2

/-- The `for` loop of `retire_rob` over the destinations `i` of the list, on the ROB
head (`ROB.front()`) and the store queue. `add_wq n p` is the answer of the memory
subsystem to packet `p` when `n` calls went before. The result is `false` when the loop
left through `return`, with the head, the store queue and the calls made so far. -/
def retire_stores (P : Params) (cpu current_core_cycle : Nat) (add_wq : Nat → PACKET → Int) :
    List Nat → ooo_model_instr → List LSQ_ENTRY → List WqCall →
      Outcome (Bool × ooo_model_instr × List LSQ_ENTRY × List WqCall)
  | [], head, SQ, log => .ok (true, head, SQ, log)
  | i :: rest, head, SQ, log =>
    if head.destination_memory.getD i 0 ≠ 0 then
      match head.sq_index.getD i none with
      | none => .fault .undefined
      | some slot =>
        match SQ.get? slot with
        | none => .fault .undefined
        | some sq_it =>
          let data_packet := retire_packet P cpu current_core_cycle sq_it
          let result := add_wq log.length data_packet
          let call : WqCall :=
            { rob_id := head.instr_id, operand := i, packet := data_packet, result := result }
          if result ≠ -2 then
            retire_stores P cpu current_core_cycle add_wq rest
              { head with destination_memory := head.destination_memory.set i 0 }
              (SQ.set slot {}) (log ++ [call])
          else .ok (false, head, SQ, log ++ [call])
    else retire_stores P cpu current_core_cycle add_wq rest head SQ log

/-- The rounds of the `while` loop of `retire_rob` under the tests `!ROB.empty()` and
`ROB.front().executed == COMPLETED`. The numeric argument `rounds` is a bound on the
number of rounds that makes the recursion structural; it is no variable of the code, and
`retire_rob` passes the number of records of the ROB, which no run of the loop exceeds,
every round but the last popping one record (`retire_rob_loop_rounds`,
`retire_rob_loop_exit`). The result carries the new state, the `add_wq` calls made, and
the records released by `ROB.pop_front()` in the order of their release. -/
def retire_rob_loop (P : Params) (add_wq : Nat → PACKET → Int) :
    Nat → O3_CPU → List WqCall → List ooo_model_instr →
      Outcome (O3_CPU × List WqCall × List ooo_model_instr)
  | 0, s, log, out => .ok (s, log, out)
  | rounds + 1, s, log, out =>
    match s.ROB.entries with
    | [] => .ok (s, log, out)
    | head :: rest =>
      if head.executed = COMPLETED then
        match retire_stores P s.cpu s.current_core_cycle add_wq
            (List.range P.MAX_INSTR_DESTINATIONS) head s.SQ log with
        | .fault e => .fault e
        | .ok (false, head1, SQ1, log1) =>
          .ok ({ s with ROB := { s.ROB with entries := head1 :: rest }, SQ := SQ1 }, log1, out)
        | .ok (true, head1, SQ1, log1) =>
          retire_rob_loop P add_wq rounds
            { s with ROB := { s.ROB with entries := rest }
                     SQ := SQ1
                     completed_executions := sub64 s.completed_executions 1
                     num_retired := add64 s.num_retired 1 }
            log1 (out ++ [head1])
      else .ok (s, log, out)

/-- Method `O3_CPU::retire_rob`. The variable `retire_bandwidth`, an `unsigned` of 32
bits, is set to `RETIRE_WIDTH` and never written again, so the test
`retire_bandwidth > 0` of the `while` loop has the same value in every round: with a
value of 0 the loop is not entered, otherwise it goes on until the ROB is empty, the
head is not completed or a write is rejected. -/
def retire_rob (P : Params) (s : O3_CPU) (add_wq : Nat → PACKET → Int) :
    Outcome (O3_CPU × List WqCall × List ooo_model_instr) :=
  let retire_bandwidth := P.RETIRE_WIDTH % 2 ^ 32
  if retire_bandwidth > 0 then retire_rob_loop P add_wq s.ROB.entries.length s [] []
  else .ok (s, [], [])

/-- Successive calls of `retire_rob`, one per tick, each with its own answers of the
memory subsystem: the retries of a stalled head. The result joins the calls made and
the records released. -/
def retire_rob_seq (P : Params) :
    List (Nat → PACKET → Int) → O3_CPU → Outcome (O3_CPU × List WqCall × List ooo_model_instr)
  | [], s => .ok (s, [], [])
  | wq :: wqs, s =>
    match retire_rob P s wq with
    | .fault e => .fault e
    | .ok (s1, log1, out1) =>
      match retire_rob_seq P wqs s1 with
      | .fault e => .fault e
      | .ok (s2, log2, out2) => .ok (s2, log1 ++ log2, out1 ++ out2)

/-! ## Core: tick sequences -/

/-- The instruction ids of a list of records, in order. -/
def ids (l : List ooo_model_instr) : List Nat := l.map fun x => x.instr_id

/-- The instruction ids held by the pipeline from the oldest to the youngest record:
ROB, dispatch buffer, decode buffer, fetch buffer. -/
def pipeline_ids (s : O3_CPU) : List Nat :=
  ids s.ROB.entries ++ ids (s.DISPATCH_BUFFER.entries.map Prod.fst)
    ++ ids (s.DECODE_BUFFER.entries.map Prod.fst) ++ ids s.IFETCH_BUFFER.entries

/-- What the stages outside the five embedded ones (`check_dib`, `translate_fetch`,
`fetch_instruction`, `schedule_instruction`, `execute_instruction`,
`schedule_memory_instruction`, `execute_memory_instruction`,
`complete_inflight_instruction`, `handle_memory_return`) leave alone: they write the
fields of records through iterators, and never `instr_id`, the membership or the order
of the four buffers, or `instr_unique_id`. -/
def same_order (s s' : O3_CPU) : Prop :=
  s'.instr_unique_id = s.instr_unique_id ∧
  ids s'.ROB.entries = ids s.ROB.entries ∧
  ids (s'.DISPATCH_BUFFER.entries.map Prod.fst) = ids (s.DISPATCH_BUFFER.entries.map Prod.fst) ∧
  ids (s'.DECODE_BUFFER.entries.map Prod.fst) = ids (s.DECODE_BUFFER.entries.map Prod.fst) ∧
  ids s'.IFETCH_BUFFER.entries = ids s.IFETCH_BUFFER.entries

/-- One step of a tick sequence: a returning call of one of the five stages, or a step
of another stage. The list holds the records that the step released from the ROB, the
number counts the instructions it read (1 for `init_instruction`). -/
inductive Tick (P : Params) : O3_CPU → O3_CPU → List ooo_model_instr → Nat → Prop
  | init (s s' : O3_CPU) (arch_instr : ooo_model_instr) (btb_result : Nat × Nat)
      (branch_prediction n : Nat) :
      init_instruction P s arch_instr btb_result branch_prediction = .ok (n, s') →
      Tick P s s' [] 1
  | promote (s s' : O3_CPU) : promote_to_decode P s = .ok s' → Tick P s s' [] 0
  | decode (s s' : O3_CPU) : decode_instruction P s = .ok s' → Tick P s s' [] 0
  | dispatch (s s' : O3_CPU) : dispatch_instruction P s = .ok s' → Tick P s s' [] 0
  | retire (s s' : O3_CPU) (add_wq : Nat → PACKET → Int) (log : List WqCall)
      (out : List ooo_model_instr) :
      retire_rob P s add_wq = .ok (s', log, out) → Tick P s s' out 0
  | other (s s' : O3_CPU) : same_order s s' → Tick P s s' [] 0

/-- A tick sequence from `s0` to `s`, with the records released from the ROB so far,
oldest release first, and the number of instructions read so far. -/
inductive Run (P : Params) (s0 : O3_CPU) : O3_CPU → List ooo_model_instr → Nat → Prop
  | start : Run P s0 s0 [] 0
  | step (s s' : O3_CPU) (retired out : List ooo_model_instr) (n k : Nat) :
      Run P s0 s retired n → Tick P s s' out k → Run P s0 s' (retired ++ out) (n + k)

/-! ## Core: bookkeeping used in the statements -/

/-- The members that `init_instruction` passes through its helper steps unchanged. -/
def same_buffers (s s' : O3_CPU) : Prop :=
  s'.IFETCH_BUFFER = s.IFETCH_BUFFER ∧ s'.DECODE_BUFFER = s.DECODE_BUFFER ∧
  s'.DISPATCH_BUFFER = s.DISPATCH_BUFFER ∧ s'.ROB = s.ROB ∧
  s'.instr_unique_id = s.instr_unique_id

/-- A record without its destination memory operands: what `retire_rob` never writes. -/
def forget_dm (e : ooo_model_instr) : ooo_model_instr := { e with destination_memory := [] }

/-- Count of a destination memory operand: 1 while its address is set, 0 once cleared. -/
def pending (x : Nat) : Nat := if x ≠ 0 then 1 else 0

/-- Number of accepted writes in a list of `add_wq` calls for operand `i` of the
instruction `id`. -/
def accepted_writes (log : List WqCall) (id i : Nat) : Nat :=
  log.countP fun c => decide (c.rob_id = id ∧ c.operand = i ∧ c.result ≠ -2)

/-- Bookkeeping of accepted writes between a record `e0` and a later version `e` of it:
for every operand, the accepted writes of the list plus the operand still set in `e`
make up the operand set in `e0`. -/
def track (L : List WqCall) (e0 e : ooo_model_instr) : Prop :=
  ∀ j, accepted_writes L e0.instr_id j + pending (e.destination_memory.getD j 0)
    = pending (e0.destination_memory.getD j 0)

/-- Every destination memory operand of a ROB record that is still set has a store-queue
slot: its `sq_index` iterator was assigned and points into `SQ`. -/
def stores_have_slots (P : Params) (s : O3_CPU) : Prop :=
  ∀ e ∈ s.ROB.entries, ∀ i, i < P.MAX_INSTR_DESTINATIONS → e.destination_memory.getD i 0 ≠ 0 →
    ∃ slot, e.sq_index.getD i none = some slot ∧ slot < s.SQ.length

/-- The two bookkeeping relations of `retire_rob` in one. -/
def follows (L : List WqCall) (e0 e : ooo_model_instr) : Prop :=
  forget_dm e = forget_dm e0 ∧ track L e0 e

/-! ## Concrete states used in the examples -/

/-- A translator with 1 GiB of physical memory, as its constructor leaves the fields
that `setup_pcache` reads. -/
def vm_1GiB : VirtualMemory := { pmem_size := 2 ^ 30, pt_levels := 5, page_size := 4096 }

/-- Flat-segment mode with four regions of 4096 bytes (Scenario C). -/
def scenario_C : Globals :=
  { use_pcache := 1, code_size := 4096, heap_size := 4096, mmap_size := 4096, stack_size := 4096 }

/-- Flat-segment mode with a stack region of 256 MiB and three regions of 4096 bytes. -/
def big_stack : Globals :=
  { use_pcache := 1, code_size := 4096, heap_size := 4096, mmap_size := 4096,
    stack_size := 0x10000000 }

/-- The translator that `setup_pcache` leaves in Scenario C. -/
def layout_C : VirtualMemory := (setup_pcache 12 scenario_C vm_1GiB).getD vm_1GiB

/-- A shuffle that keeps the order of the list. -/
def shuffle_keep : Nat → List Nat → List Nat := fun _ l => l

/-- A random-map translator built over the reserve plus `n` pages of 4096 bytes: one
page becomes `next_pte_page`, the free pool holds `n - 1` pages. -/
def small_vm (n : Nat) : VirtualMemory :=
  (VirtualMemory.construct 12 shuffle_keep (VMEM_RESERVE_CAPACITY + n * 4096) 4096 5 0).getD {}

/-- A choice of the constants of the core for the examples. -/
def sample_params : Params :=
  { FETCH_WIDTH := 6, DECODE_WIDTH := 6, DISPATCH_WIDTH := 6, RETIRE_WIDTH := 5, STA_SIZE := 4
    MAX_INSTR_DESTINATIONS := 2, NUM_INSTR_SOURCES := 4
    REG_STACK_POINTER := 6, REG_FLAGS := 25, REG_INSTRUCTION_POINTER := 26
    BRANCH_DIRECT_JUMP := 1, BRANCH_INDIRECT := 2, BRANCH_CONDITIONAL := 3
    BRANCH_DIRECT_CALL := 4, BRANCH_INDIRECT_CALL := 5, BRANCH_RETURN := 6, BRANCH_OTHER := 7
    BRANCH_MISPREDICT_PENALTY := 1, SCHEDULING_LATENCY := 0
    LOG2_BLOCK_SIZE := 6, LOG2_DIB_WINDOW_SIZE := 4
    DIB_SET := 2, FILL_L1 := 1, RFO := 1, SANITY_CHECK := true, use_pcache := 0, use_smm := 0
    use_direct_segment := 0, knob_cloudsuite := 0, LOG2_PAGE_SIZE := 12, LOAD := 0
    LQ_WIDTH := 2, SQ_WIDTH := 2, SCHEDULER_SIZE := 8, EXEC_WIDTH := 4, EXEC_LATENCY := 1
    ROB_SIZE := 4 }

/-- A core before its first tick: empty buffers of capacity 4, a DIB of two sets with two
ways, an STA ring of four free slots. -/
def core_start : O3_CPU :=
  { IFETCH_BUFFER := { size := 4 }, DECODE_BUFFER := { size := 4 }
    DISPATCH_BUFFER := { size := 4 }, ROB := { size := 4 }
    DIB := [[{}, {}], [{}, {}]]
    STA := [UINT64_MAX, UINT64_MAX, UINT64_MAX, UINT64_MAX] }

/-- The state after a returning call, or `d` after a fault. -/
def after (x : Outcome O3_CPU) (d : O3_CPU) : O3_CPU := x.getD d

/-- One instruction read by `init_instruction`. -/
def core_read_one : O3_CPU :=
  ((init_instruction sample_params core_start { ip := 0x400000 } (0, 0) 0).getD
    (0, core_start)).2

/-- Two instructions read by `init_instruction`. -/
def core_read : O3_CPU :=
  ((init_instruction sample_params core_read_one { ip := 0x400004 } (0, 0) 0).getD
    (0, core_read_one)).2

/-- The effect of translation and fetch on the fetch buffer: both flags completed. -/
def core_fetched : O3_CPU :=
  { core_read with IFETCH_BUFFER := { core_read.IFETCH_BUFFER with
      entries := core_read.IFETCH_BUFFER.entries.map fun x =>
        { x with translated := COMPLETED, fetched := COMPLETED } } }

/-- The two instructions moved into the decode buffer. -/
def core_promoted : O3_CPU :=
  after (promote_to_decode sample_params core_fetched) core_fetched

/-- The two instructions moved into the dispatch buffer. -/
def core_decoded : O3_CPU :=
  after (decode_instruction sample_params core_promoted) core_promoted

/-- The two instructions moved into the ROB. -/
def core_dispatched : O3_CPU :=
  after (dispatch_instruction sample_params core_decoded) core_decoded

/-- The effect of execution on the ROB: both instructions completed. -/
def core_executed : O3_CPU :=
  { core_dispatched with ROB := { core_dispatched.ROB with
      entries := core_dispatched.ROB.entries.map fun x => { x with executed := COMPLETED } } }

/-- A memory subsystem that accepts every write. -/
def wq_accept : Nat → PACKET → Int := fun _ _ => 0

/-- The result of `retire_rob` on `core_executed`. -/
def core_retired : O3_CPU × List WqCall × List ooo_model_instr :=
  (retire_rob sample_params core_executed wq_accept).getD (core_executed, [], [])

/-- A ROB whose head is a completed store with two destination memory operands held in
store-queue slots 0 and 1, followed by an instruction that has not executed. -/
def core_store_head : O3_CPU :=
  { ROB := { size := 4, entries :=
      [{ instr_id := 7, executed := COMPLETED, is_memory := 1
         destination_memory := [0x1000, 0x2000], destination_added := [1, 1]
         sq_index := [some 0, some 1] },
       { instr_id := 8 }] }
    SQ := [{ instr_id := 7, virtual_address := 0x1000, physical_address := 0x5000
             translated := COMPLETED, fetched := COMPLETED },
           { instr_id := 7, virtual_address := 0x2000, physical_address := 0x6000
             translated := COMPLETED, fetched := COMPLETED },
           {}]
    num_retired := 6, completed_executions := 1 }

/-- A memory subsystem that accepts the first write of a call and rejects the rest. -/
def wq_first_only : Nat → PACKET → Int := fun n _ => if n = 0 then 0 else -2

/-- The result of `retire_rob` on `core_store_head` when only the first write is
accepted. -/
def core_stalled : O3_CPU × List WqCall × List ooo_model_instr :=
  (retire_rob sample_params core_store_head wq_first_only).getD (core_store_head, [], [])

/-- The result of a first call that stalls and a retry whose writes are accepted. -/
def core_retried : O3_CPU × List WqCall × List ooo_model_instr :=
  (retire_rob_seq sample_params [wq_first_only, wq_accept] core_store_head).getD
    (core_store_head, [], [])

/-- The rejected call of the stalled attempt. -/
def rejected_call : WqCall :=
  core_stalled.2.1.getLastD { rob_id := 0, operand := 0, packet := {}, result := 0 }

/-- The translator after `va_to_pa(0, 0x1000)` and `va_to_pa(1, 0x1000)` on a pool of
three pages. -/
def two_cores : List Nat × VirtualMemory :=
  (va_to_pa_seq 12 (small_vm 4) [(0, 0x1000), (1, 0x1000)]).getD ([], {})

/-! ## `vmem.cc`: page-table walk -/

/-- Method `VirtualMemory::shamt`: `LOG2_PAGE_SIZE + lg2(page_size / PTE_BYTES) * (level)`.
`lg2` returns `unsigned` and `level` is a `uint32_t`, so the sum is computed in 32 bits. -/
def shamt (LOG2_PAGE_SIZE : Nat) (vm : VirtualMemory) (level : Nat) : Nat :=
  (LOG2_PAGE_SIZE + lg2 (vm.page_size / PTE_BYTES) * level) % 2 ^ 32

/-- Method `VirtualMemory::get_offset`:
`(vaddr >> shamt(level)) & bitmask(lg2(page_size / PTE_BYTES))`. -/
def get_offset (LOG2_PAGE_SIZE : Nat) (vm : VirtualMemory) (vaddr level : Nat) : Nat :=
  (vaddr >>> shamt LOG2_PAGE_SIZE vm level) &&& bitmask (lg2 (vm.page_size / PTE_BYTES))

/-- The key `{ cpu_num, vaddr >> shamt(level + 1), level }` of `get_pte_pa`; `level + 1`
is a `uint32_t` sum. -/
def pte_key (LOG2_PAGE_SIZE : Nat) (vm : VirtualMemory) (cpu_num vaddr level : Nat) :
    Nat × Nat × Nat :=
  (cpu_num, vaddr >>> shamt LOG2_PAGE_SIZE vm ((level + 1) % 2 ^ 32), level)

/-- The value that `get_pte_pa` returns for the page-table page `ppage`:
`splice_bits(ppage, get_offset(vaddr, level) * PTE_BYTES, lg2(page_size))`. -/
def pte_address (LOG2_PAGE_SIZE : Nat) (vm : VirtualMemory) (ppage vaddr level : Nat) : Nat :=
  splice_bits ppage ((get_offset LOG2_PAGE_SIZE vm vaddr level * PTE_BYTES) % 2 ^ 64)
    (lg2 vm.page_size)

/-- Method `VirtualMemory::get_pte_pa`. A shift of a `uint64_t` by 64 or more is
undefined. `insert` is given `next_pte_page`; when the key is new the cursor advances by
`page_size`, and when the advanced cursor is not a multiple of `PAGE_SIZE` it is replaced
by `ppage_free_list.front()`, which is undefined for an empty free list. -/
def get_pte_pa (LOG2_PAGE_SIZE : Nat) (vm : VirtualMemory) (cpu_num vaddr level : Nat) :
    Outcome (Nat × VirtualMemory) :=
  if 64 ≤ shamt LOG2_PAGE_SIZE vm ((level + 1) % 2 ^ 32) ∨ 64 ≤ shamt LOG2_PAGE_SIZE vm level
  then .fault .undefined
  else
    let key := pte_key LOG2_PAGE_SIZE vm cpu_num vaddr level
    match map_find key vm.page_table with
    | some ppage => .ok (pte_address LOG2_PAGE_SIZE vm ppage vaddr level, vm)
    | none =>
      let ppage := vm.next_pte_page
      let next := add64 vm.next_pte_page vm.page_size
      if next % PAGE_SIZE LOG2_PAGE_SIZE ≠ 0 then
        match vm.ppage_free_list with
        | [] => .fault .undefined
        | front :: rest =>
          .ok (pte_address LOG2_PAGE_SIZE vm ppage vaddr level,
               { vm with page_table := (key, ppage) :: vm.page_table
                         next_pte_page := front
                         ppage_free_list := rest })
      else
        .ok (pte_address LOG2_PAGE_SIZE vm ppage vaddr level,
             { vm with page_table := (key, ppage) :: vm.page_table
                       next_pte_page := next })

/-- A call of the random-map translator: `va_to_pa(cpu_num, vaddr)` or
`get_pte_pa(cpu_num, vaddr, level)`. -/
inductive TranslatorCall where
  | va (cpu_num vaddr : Nat)
  | pte (cpu_num vaddr level : Nat)
  deriving DecidableEq, Repr

/-- One call of the translator. -/
def translator_call (LOG2_PAGE_SIZE : Nat) (vm : VirtualMemory) :
    TranslatorCall → Outcome (Nat × VirtualMemory)
  | .va cpu_num vaddr => va_to_pa LOG2_PAGE_SIZE vm cpu_num vaddr
  | .pte cpu_num vaddr level => get_pte_pa LOG2_PAGE_SIZE vm cpu_num vaddr level

/-- A sequence of translator calls, each on the state the previous one left; the result
lists the returned addresses in call order. -/
def translator_calls (LOG2_PAGE_SIZE : Nat) (vm : VirtualMemory) :
    List TranslatorCall → Outcome (List Nat × VirtualMemory)
  | [] => .ok ([], vm)
  | c :: calls =>
    match translator_call LOG2_PAGE_SIZE vm c with
    | .fault e => .fault e
    | .ok (pa, vm1) =>
      match translator_calls LOG2_PAGE_SIZE vm1 calls with
      | .fault e => .fault e
      | .ok (pas, vm2) => .ok (pa :: pas, vm2)

/-- The translator `small_vm 3` after `get_pte_pa(0, 0, 0)`. -/
def pte_first : Nat × VirtualMemory := (get_pte_pa 12 (small_vm 3) 0 0 0).getD (0, {})

/-- Three calls on `small_vm 3`, whose PTE pages have the size of a page: two page-table
walks at level 0 for different address ranges, then the translation of a virtual page. -/
def pte_then_page : List Nat × VirtualMemory :=
  (translator_calls 12 (small_vm 3) [.pte 0 0 0, .pte 0 0x200000 0, .va 0 0x5000]).getD ([], {})

/-- The translator `small_vm 3` after the two page-table walks of `pte_then_page`. -/
def pte_twice : List Nat × VirtualMemory :=
  (translator_calls 12 (small_vm 3) [.pte 0 0 0, .pte 0 0x200000 0]).getD ([], {})

/-- The translator `pte_first` after a `va_to_pa(0, 0x5000)` that follows. -/
def pte_later : List Nat × VirtualMemory :=
  (translator_calls 12 pte_first.2 [.va 0 0x5000]).getD ([], {})

/-! ## Core: load and store queues (`ooo_cpu.cc`) -/

/-- Modelled from the spec: the missing `is_valid<LSQ_ENTRY>`: a slot is valid unless it
is "reset to empty", and the empty slot holds no virtual address (`add_store_queue`
asserts `virtual_address == 0` of the slot that `find_if_not(is_valid)` gives it). -/
def is_valid (e : LSQ_ENTRY) : Bool := e.virtual_address != 0

/-- The algorithm `std::find_if_not(begin, end, is_valid<LSQ_ENTRY>())` on a queue: the
position of the first slot that is not valid, `none` for `end`. -/
def find_if_not_valid (q : List LSQ_ENTRY) : Option Nat :=
  let i := q.findIdx fun e => !is_valid e
  if i < q.length then some i else none

/-- The algorithm `std::all_of(begin, end, is_valid<LSQ_ENTRY>())` on a queue. -/
def all_valid (q : List LSQ_ENTRY) : Bool := q.all is_valid

/-- Write of element `i` of a fixed-size array, kept as a list that may leave out a tail
of elements `d`. -/
def array_set {α : Type} (l : List α) (i : Nat) (v d : α) : List α :=
  if i < l.length then l.set i v else l ++ List.replicate (i - l.length) d ++ [v]

/-- Dereference of an iterator into the ROB: the oldest record with the instruction id
that stands for the iterator. -/
def rob_find (rob : List ooo_model_instr) (id : Nat) : Option ooo_model_instr :=
  rob.find? fun e => e.instr_id == id

/-- Write through an iterator into the ROB: `f` applied to the record with the
instruction id that stands for the iterator. -/
def rob_modify (rob : List ooo_model_instr) (id : Nat) (f : ooo_model_instr → ooo_model_instr) :
    List ooo_model_instr :=
  rob.map fun e => if e.instr_id = id then f e else e

/-- The state after a write through an iterator into the ROB. -/
def update_rob (s : O3_CPU) (id : Nat) (f : ooo_model_instr → ooo_model_instr) : O3_CPU :=
  { s with ROB := { s.ROB with entries := rob_modify s.ROB.entries id f } }

/-- Lines 855-859 of `do_sq_forward_to_lq`: what the load-queue entry receives from the
store-queue entry. -/
def forwarded_entry (P : Params) (sq_entry lq_entry : LSQ_ENTRY) : LSQ_ENTRY :=
  { lq_entry with
    physical_address :=
      splice_bits sq_entry.physical_address lq_entry.virtual_address P.LOG2_BLOCK_SIZE
    translated := COMPLETED
    fetched := COMPLETED }

/-- Lines 861-868 of `do_sq_forward_to_lq`: the writes to the record `lq_entry.rob_index`. -/
def forwarded_instr (P : Params) (current_core_cycle : Nat) (x : ooo_model_instr) :
    ooo_model_instr :=
  let x1 := { x with num_mem_ops := x.num_mem_ops - 1 }
  let x2 := if P.use_pcache ≠ 0 then { x1 with num_pcache_ops := x1.num_pcache_ops - 1 } else x1
  let x3 := if P.use_smm ≠ 0 then { x2 with num_tsp_ops := x2.num_tsp_ops - 1 } else x2
  { x3 with event_cycle := current_core_cycle }

/-- Lines 855-872 of `do_sq_forward_to_lq`, up to the reset of the load-queue entry;
`sq_it` and `lq_it` are the positions of `sq_entry` and `lq_entry`. -/
def do_sq_forward_to_lq_fill (P : Params) (s : O3_CPU) (sq_it lq_it : Nat) : Outcome O3_CPU :=
  match s.SQ.get? sq_it, s.LQ.get? lq_it with
  | some sq_entry, some lq_entry =>
    match lq_entry.rob_index with
    | none => .fault .undefined
    | some id =>
      match rob_find s.ROB.entries id with
      | none => .fault .undefined
      | some x =>
        let x1 := forwarded_instr P s.current_core_cycle x
        if x1.num_mem_ops < 0 then .fault .abort
        else
          let s1 := update_rob s id (forwarded_instr P s.current_core_cycle)
          let s2 := { s1 with LQ := s1.LQ.set lq_it (forwarded_entry P sq_entry lq_entry) }
          if x1.num_mem_ops = 0 then
            .ok { s2 with inflight_mem_executions := (s2.inflight_mem_executions + 1) % 2 ^ 32 }
          else .ok s2
  | _, _ => .fault .undefined

/-- Method `O3_CPU::do_sq_forward_to_lq`: the forwarding, then `lq_entry = empty_entry`. -/
def do_sq_forward_to_lq (P : Params) (s : O3_CPU) (sq_it lq_it : Nat) : Outcome O3_CPU :=
  match do_sq_forward_to_lq_fill P s sq_it lq_it with
  | .fault e => .fault e
  | .ok s1 => .ok { s1 with LQ := s1.LQ.set lq_it {} }

/-- Predicate `instr_mem_will_produce(match_mem)`: `std::find` over the destination
memory operands of `test`. -/
def instr_mem_will_produce (match_mem : Nat) (test : ooo_model_instr) : Bool :=
  test.destination_memory.contains match_mem

/-- Predicate `sq_will_forward(match_id, match_addr)`. -/
def sq_will_forward (match_id match_addr : Nat) (sq_test : LSQ_ENTRY) : Bool :=
  sq_test.fetched == COMPLETED && sq_test.instr_id == match_id &&
    sq_test.virtual_address == match_addr

/-- The records that `std::find_if(reverse_iterator{rob_it}, ROB.rend(), ...)` visits:
those older than the record `rob_it` points to, the nearest first. -/
def older_records (rob : List ooo_model_instr) (id : Nat) : List ooo_model_instr :=
  (rob.take (rob.findIdx fun e => e.instr_id == id)).reverse

/-- Lines 925-926 of `add_load_queue`: the writes to the record `rob_it`. -/
def mark_load_added (data_index lq_it : Nat) (e : ooo_model_instr) : ooo_model_instr :=
  { e with lq_index := array_set e.lq_index data_index (some lq_it) none
           source_added := array_set e.source_added data_index 1 0 }

/-- Lines 928-934 of `add_load_queue`: the writes to the slot `lq_it`, whose old content
is `old`, for the record `x` that `rob_it` points to. -/
def load_queue_entry (P : Params) (current_core_cycle : Nat) (old : LSQ_ENTRY)
    (x : ooo_model_instr) (rob_it data_index : Nat) : LSQ_ENTRY :=
  { old with
    instr_id := x.instr_id
    virtual_address := x.source_memory.getD data_index 0
    ip := x.ip
    rob_index := some rob_it
    asid := x.asid
    event_cycle := add64 current_core_cycle P.SCHEDULING_LATENCY }

/-- Line 944 of `add_load_queue`: `memory_instrs_depend_on_me.push_back(rob_it)`. -/
def add_dependent (rob_it : Nat) (e : ooo_model_instr) : ooo_model_instr :=
  { e with memory_instrs_depend_on_me := e.memory_instrs_depend_on_me ++ [rob_it] }

/-- Method `O3_CPU::add_load_queue`; `rob_it` is the instruction id that stands for the
iterator. -/
def add_load_queue (P : Params) (s : O3_CPU) (rob_it data_index : Nat) : Outcome O3_CPU :=
  match find_if_not_valid s.LQ with
  | none => .fault .abort
  | some lq_it =>
    match rob_find s.ROB.entries rob_it with
    | none => .fault .undefined
    | some x =>
      let s1 := update_rob s rob_it (mark_load_added data_index lq_it)
      let entry :=
        load_queue_entry P s.current_core_cycle (s.LQ.getD lq_it {}) x rob_it data_index
      match (older_records s.ROB.entries rob_it).find?
          (instr_mem_will_produce entry.virtual_address) with
      | some prior =>
        let s2 := update_rob s1 prior.instr_id (add_dependent rob_it)
        let entry1 := { entry with producer_id := prior.instr_id, translated := INFLIGHT }
        let s3 := { s2 with LQ := s2.LQ.set lq_it entry1 }
        let sq_it := s3.SQ.findIdx (sq_will_forward prior.instr_id entry1.virtual_address)
        if sq_it < s3.SQ.length then do_sq_forward_to_lq P s3 sq_it lq_it else .ok s3
      | none => .ok { s1 with LQ := s1.LQ.set lq_it entry, RTL0 := s1.RTL0 ++ [lq_it] }

/-- Lines 970 and 980 of `add_store_queue`: the writes to the record `rob_it`. -/
def mark_store_added (data_index sq_it : Nat) (e : ooo_model_instr) : ooo_model_instr :=
  { e with sq_index := array_set e.sq_index data_index (some sq_it) none
           destination_added := array_set e.destination_added data_index 1 0 }

/-- Lines 971-977 of `add_store_queue`: the writes to the slot `sq_it`, whose old content
is `old`, for the record `x` that `rob_it` points to. -/
def store_queue_entry (P : Params) (current_core_cycle : Nat) (old : LSQ_ENTRY)
    (x : ooo_model_instr) (rob_it data_index : Nat) : LSQ_ENTRY :=
  { old with
    instr_id := x.instr_id
    virtual_address := x.destination_memory.getD data_index 0
    ip := x.ip
    rob_index := some rob_it
    asid := x.asid
    event_cycle := add64 current_core_cycle P.SCHEDULING_LATENCY }

/-- Method `O3_CPU::add_store_queue`; `rob_it` is the instruction id that stands for the
iterator. Without a slot that is not valid `find_if_not` returns `end()`, which the
`assert` dereferences. -/
def add_store_queue (P : Params) (s : O3_CPU) (rob_it data_index : Nat) : Outcome O3_CPU :=
  match find_if_not_valid s.SQ with
  | none => .fault .undefined
  | some sq_it =>
    if (s.SQ.getD sq_it {}).virtual_address ≠ 0 then .fault .abort
    else
      match rob_find s.ROB.entries rob_it with
      | none => .fault .undefined
      | some x =>
        let s1 := update_rob s rob_it (mark_store_added data_index sq_it)
        let entry :=
          store_queue_entry P s.current_core_cycle (s.SQ.getD sq_it {}) x rob_it data_index
        .ok { s1 with
              SQ := s1.SQ.set sq_it entry
              STA := s1.STA.set s1.STA_head UINT64_MAX
              STA_head := if s1.STA_head + 1 = P.STA_SIZE then 0 else s1.STA_head + 1
              RTS0 := s1.RTS0 ++ [sq_it] }

/-- One round of the load loop of `do_memory_scheduling`, for source `i`; the two
numbers are the locals `num_mem_ops` and `num_added`. -/
def schedule_load (P : Params) (rob_it i : Nat) (s : O3_CPU) (num_mem_ops num_added : Nat) :
    Outcome (O3_CPU × Nat × Nat) :=
  match rob_find s.ROB.entries rob_it with
  | none => .fault .undefined
  | some x =>
    if x.source_memory.getD i 0 ≠ 0 then
      if x.source_added.getD i 0 ≠ 0 then .ok (s, num_mem_ops + 1, num_added + 1)
      else if all_valid s.LQ = false then
        match add_load_queue P s rob_it i with
        | .fault e => .fault e
        | .ok s1 => .ok (s1, num_mem_ops + 1, num_added + 1)
      else .ok (s, num_mem_ops + 1, num_added)
    else .ok (s, num_mem_ops, num_added)

/-- One round of the store loop of `do_memory_scheduling`, for destination `i`. -/
def schedule_store (P : Params) (rob_it i : Nat) (s : O3_CPU) (num_mem_ops num_added : Nat) :
    Outcome (O3_CPU × Nat × Nat) :=
  match rob_find s.ROB.entries rob_it with
  | none => .fault .undefined
  | some x =>
    if x.destination_memory.getD i 0 ≠ 0 then
      if x.destination_added.getD i 0 ≠ 0 then .ok (s, num_mem_ops + 1, num_added + 1)
      else if all_valid s.SQ = false then
        if s.STA.getD s.STA_head 0 = x.instr_id then
          match add_store_queue P s rob_it i with
          | .fault e => .fault e
          | .ok s1 => .ok (s1, num_mem_ops + 1, num_added + 1)
        else .ok (s, num_mem_ops + 1, num_added)
      else .ok (s, num_mem_ops + 1, num_added)
    else .ok (s, num_mem_ops, num_added)

/-- The load loop of `do_memory_scheduling`, over the sources `i` of the list. -/
def schedule_loads (P : Params) (rob_it : Nat) :
    List Nat → O3_CPU → Nat → Nat → Outcome (O3_CPU × Nat × Nat)
  | [], s, n, a => .ok (s, n, a)
  | i :: rest, s, n, a =>
    match schedule_load P rob_it i s n a with
    | .fault e => .fault e
    | .ok (s1, n1, a1) => schedule_loads P rob_it rest s1 n1 a1

/-- The store loop of `do_memory_scheduling`, over the destinations `i` of the list. -/
def schedule_stores (P : Params) (rob_it : Nat) :
    List Nat → O3_CPU → Nat → Nat → Outcome (O3_CPU × Nat × Nat)
  | [], s, n, a => .ok (s, n, a)
  | i :: rest, s, n, a =>
    match schedule_store P rob_it i s n a with
    | .fault e => .fault e
    | .ok (s1, n1, a1) => schedule_stores P rob_it rest s1 n1 a1

/-- Lines 839-842 of `do_memory_scheduling`: the writes to the record whose memory
operands are all added. -/
def mark_scheduled (e : ooo_model_instr) : ooo_model_instr :=
  { e with scheduled := COMPLETED, executed := if e.executed = 0 then INFLIGHT else e.executed }

/-- The tail of `do_memory_scheduling`: the `assert`, and the completion of scheduling
when every memory operand is added. -/
def schedule_finish (s : O3_CPU) (rob_it num_mem_ops num_added : Nat) : Outcome O3_CPU :=
  if num_added > num_mem_ops then .fault .abort
  else if num_mem_ops = num_added then .ok (update_rob s rob_it mark_scheduled)
  else .ok s

/-- Method `O3_CPU::do_memory_scheduling`; `rob_it` is the instruction id that stands for
the iterator. -/
def do_memory_scheduling (P : Params) (s : O3_CPU) (rob_it : Nat) : Outcome O3_CPU :=
  match schedule_loads P rob_it (List.range P.NUM_INSTR_SOURCES) s 0 0 with
  | .fault e => .fault e
  | .ok (s1, n1, a1) =>
    match schedule_stores P rob_it (List.range P.MAX_INSTR_DESTINATIONS) s1 n1 a1 with
    | .fault e => .fault e
    | .ok (s2, n2, a2) => schedule_finish s2 rob_it n2 a2

/-- The loop of `schedule_memory_instruction` over the records `rob_it` of the ROB from
the oldest on; the numeric argument is `search_bw`. -/
def schedule_memory_instruction_loop (P : Params) : List Nat → Nat → O3_CPU → Outcome O3_CPU
  | [], _, s => .ok s
  | _ :: _, 0, s => .ok s
  | rob_it :: rest, search_bw + 1, s =>
    match rob_find s.ROB.entries rob_it with
    | none => .fault .undefined
    | some x =>
      match (if x.is_memory ≠ 0 ∧ x.num_reg_dependent = 0 ∧ x.scheduled = INFLIGHT
             then do_memory_scheduling P s rob_it else .ok s) with
      | .fault e => .fault e
      | .ok s1 =>
        match rob_find s1.ROB.entries rob_it with
        | none => .fault .undefined
        | some x1 =>
          schedule_memory_instruction_loop P rest
            (if x1.executed = 0 then search_bw else search_bw + 1) s1

/-- Method `O3_CPU::schedule_memory_instruction`; `search_bw` is `unsigned`, 32 bits
wide. -/
def schedule_memory_instruction (P : Params) (s : O3_CPU) : Outcome O3_CPU :=
  schedule_memory_instruction_loop P (ids s.ROB.entries) (P.SCHEDULER_SIZE % 2 ^ 32) s

/-- The body of the inner loop of `execute_store`, for the record `dependent` and its
source `j`. -/
def execute_store_forward (P : Params) (sq_it dependent j : Nat) (s : O3_CPU) : Outcome O3_CPU :=
  match s.SQ.get? sq_it, rob_find s.ROB.entries dependent with
  | some sq_entry, some dep =>
    if dep.source_memory.getD j 0 ≠ 0 ∧ dep.source_added.getD j 0 ≠ 0 then
      if dep.source_memory.getD j 0 = sq_entry.virtual_address then
        match dep.lq_index.getD j none with
        | none => .fault .undefined
        | some lq_it =>
          match s.LQ.get? lq_it with
          | none => .fault .undefined
          | some lq_entry =>
            if lq_entry.producer_id = sq_entry.instr_id
            then do_sq_forward_to_lq P s sq_it lq_it
            else .ok s
      else .ok s
    else .ok s
  | _, _ => .fault .undefined

/-- The two loops of `execute_store`, over the pairs (dependent, source) of the list. -/
def execute_store_forwards (P : Params) (sq_it : Nat) : List (Nat × Nat) → O3_CPU → Outcome O3_CPU
  | [], s => .ok s
  | (dependent, j) :: rest, s =>
    match execute_store_forward P sq_it dependent j s with
    | .fault e => .fault e
    | .ok s1 => execute_store_forwards P sq_it rest s1

/-- Lines 1158-1159 of `execute_store`: the writes to the record `sq_it->rob_index`. -/
def store_done (current_core_cycle : Nat) (e : ooo_model_instr) : ooo_model_instr :=
  { e with num_mem_ops := e.num_mem_ops - 1, event_cycle := current_core_cycle }

/-- Lines 1155-1156 of `execute_store`: the writes to the store-queue entry. -/
def executed_entry (current_core_cycle : Nat) (sq_entry : LSQ_ENTRY) : LSQ_ENTRY :=
  { sq_entry with fetched := COMPLETED, event_cycle := current_core_cycle }

/-- Lines 1155-1163 of `execute_store`: the writes to the store-queue entry and to its
ROB record; the result carries the record as written. -/
def execute_store_complete (s : O3_CPU) (sq_it : Nat) : Outcome (O3_CPU × ooo_model_instr) :=
  match s.SQ.get? sq_it with
  | none => .fault .undefined
  | some sq_entry =>
    match sq_entry.rob_index with
    | none => .fault .undefined
    | some id =>
      match rob_find s.ROB.entries id with
      | none => .fault .undefined
      | some x =>
        let x1 := store_done s.current_core_cycle x
        if x1.num_mem_ops < 0 then .fault .abort
        else
          let s1 := update_rob s id (store_done s.current_core_cycle)
          let s2 := { s1 with SQ := s1.SQ.set sq_it (executed_entry s.current_core_cycle sq_entry) }
          if x1.num_mem_ops = 0 then
            .ok ({ s2 with inflight_mem_executions := (s2.inflight_mem_executions + 1) % 2 ^ 32 },
                 x1)
          else .ok (s2, x1)

/-- Method `O3_CPU::execute_store`; `sq_it` is the position of the store-queue entry. -/
def execute_store (P : Params) (s : O3_CPU) (sq_it : Nat) : Outcome O3_CPU :=
  match execute_store_complete s sq_it with
  | .fault e => .fault e
  | .ok (s1, x) =>
    execute_store_forwards P sq_it
      (x.memory_instrs_depend_on_me.flatMap fun dependent =>
        (List.range P.NUM_INSTR_SOURCES).map fun j => (dependent, j)) s1

/-- The body of the loop of `do_complete_execution`: what happens to a record
`dependent`. -/
def release_dependent (e : ooo_model_instr) : ooo_model_instr :=
  let e1 := { e with num_reg_dependent := e.num_reg_dependent - 1 }
  if e1.num_reg_dependent = 0 then
    { e1 with scheduled := if e1.is_memory ≠ 0 then INFLIGHT else COMPLETED }
  else e1

/-- The loop of `do_complete_execution` over the records `dependent` of the list. -/
def release_dependents : List Nat → O3_CPU → Outcome O3_CPU
  | [], s => .ok s
  | dependent :: rest, s =>
    match rob_find s.ROB.entries dependent with
    | none => .fault .undefined
    | some dep =>
      if dep.num_reg_dependent - 1 < 0 then .fault .abort
      else release_dependents rest (update_rob s dependent release_dependent)

/-- Line 1318 of `do_complete_execution`: the record is marked as executed. -/
def mark_completed (e : ooo_model_instr) : ooo_model_instr := { e with executed := COMPLETED }

/-- Lines 1319-1329 of `do_complete_execution`: the counters of instructions in
execution (32 bits wide) and of completed executions, for the record `x`. -/
def count_completed (x : ooo_model_instr) (s : O3_CPU) : O3_CPU :=
  let s2 :=
    if x.is_memory = 0
    then { s with inflight_reg_executions := (s.inflight_reg_executions + 2 ^ 32 - 1) % 2 ^ 32 }
    else { s with inflight_mem_executions := (s.inflight_mem_executions + 2 ^ 32 - 1) % 2 ^ 32 }
  { s2 with completed_executions := add64 s2.completed_executions 1 }

/-- Method `O3_CPU::do_complete_execution`; `rob_it` is the instruction id that stands
for the iterator, `BRANCH_MISPREDICT_PENALTY` the penalty. -/
def do_complete_execution (P : Params) (s : O3_CPU) (rob_it : Nat) : Outcome O3_CPU :=
  match rob_find s.ROB.entries rob_it with
  | none => .fault .undefined
  | some x =>
    let s3 := count_completed x (update_rob s rob_it mark_completed)
    match release_dependents x.registers_instrs_depend_on_me s3 with
    | .fault e => .fault e
    | .ok s4 =>
      match rob_find s4.ROB.entries rob_it with
      | none => .fault .undefined
      | some x4 =>
        if x4.branch_mispredicted ≠ 0 then
          .ok { s4 with fetch_resume_cycle := add64 s4.current_core_cycle P.BRANCH_MISPREDICT_PENALTY }
        else .ok s4

/-! ## Core: what the queue operations leave alone -/

/-- The fields of a record that the admission of a load and the forwarding to a load
write; every other field of `e'` is that of `e`. -/
def load_fields (e e' : ooo_model_instr) : Prop :=
  e' = { e with lq_index := e'.lq_index, source_added := e'.source_added
                memory_instrs_depend_on_me := e'.memory_instrs_depend_on_me
                num_mem_ops := e'.num_mem_ops, num_pcache_ops := e'.num_pcache_ops
                num_tsp_ops := e'.num_tsp_ops, event_cycle := e'.event_cycle }

/-- The fields of a record that the admission of a store writes. -/
def store_fields (e e' : ooo_model_instr) : Prop :=
  e' = { e with sq_index := e'.sq_index, destination_added := e'.destination_added }

/-- The fields of a record that the loops of `do_memory_scheduling` write. -/
def lsq_fields (e e' : ooo_model_instr) : Prop :=
  e' = { e with lq_index := e'.lq_index, source_added := e'.source_added
                memory_instrs_depend_on_me := e'.memory_instrs_depend_on_me
                num_mem_ops := e'.num_mem_ops, num_pcache_ops := e'.num_pcache_ops
                num_tsp_ops := e'.num_tsp_ops, event_cycle := e'.event_cycle
                sq_index := e'.sq_index, destination_added := e'.destination_added }

/-- The ROB of `s'` holds the records of the ROB of `s`, in the same order, each changed
only as `F` allows. -/
def rob_mapped (F : ooo_model_instr → ooo_model_instr → Prop) (s s' : O3_CPU) : Prop :=
  ∃ g : ooo_model_instr → ooo_model_instr,
    (∀ e, F e (g e)) ∧ s'.ROB = { s.ROB with entries := s.ROB.entries.map g }

/-- What a round of `do_memory_scheduling` may do to a record: write the fields of
`lsq_fields`, and never take back the mark `destination_added` of an operand. -/
def scheduling_fields (e e' : ooo_model_instr) : Prop :=
  lsq_fields e e' ∧
    ∀ j, e.destination_added.getD j 0 ≠ 0 → e'.destination_added.getD j 0 ≠ 0

/-- The queue has a slot that is not valid. -/
def has_empty_slot (q : List LSQ_ENTRY) : Prop :=
  ∃ slot, slot < q.length ∧ is_valid (q.getD slot {}) = false

/-! ## Concrete states of the load and store queues -/

/-- A core before its first tick, past warmup, with a load queue and a store queue of two
slots. -/
def lsq_start : O3_CPU := { core_start with warmup_complete := 1, LQ := [{}, {}], SQ := [{}, {}] }

/-- A load from address `0x7000`, as read from the trace. -/
def load_A : ooo_model_instr := { ip := 0x400000, source_memory := [0x7000] }

/-- A store to address `0x7000`, as read from the trace. -/
def store_A : ooo_model_instr := { ip := 0x400004, destination_memory := [0x7000] }

/-- The state and the value of a returning call, or `d` after a fault. -/
def after_init (x : Outcome (Nat × O3_CPU)) (d : O3_CPU) : O3_CPU := (x.getD (0, d)).2

/-- The effect of translation and fetch on the fetch buffer: both flags completed. -/
def fetched_all (s : O3_CPU) : O3_CPU :=
  { s with IFETCH_BUFFER := { s.IFETCH_BUFFER with
      entries := s.IFETCH_BUFFER.entries.map fun x =>
        { x with translated := COMPLETED, fetched := COMPLETED } } }

/-- The effect of `do_scheduling` on the memory instructions of the ROB, none of which
waits for a register: `scheduled = INFLIGHT`. -/
def scheduled_all (s : O3_CPU) : O3_CPU :=
  { s with ROB := { s.ROB with
      entries := s.ROB.entries.map fun x =>
        if x.is_memory ≠ 0 then { x with scheduled := INFLIGHT } else x } }

/-- Two instructions read by `init_instruction`, moved through `promote_to_decode`,
`decode_instruction` and `dispatch_instruction` into the ROB, and scheduled. -/
def dispatch_two (a b : ooo_model_instr) : O3_CPU :=
  let s1 := after_init (init_instruction sample_params lsq_start a (0, 0) 0) lsq_start
  let s2 := after_init (init_instruction sample_params s1 b (0, 0) 0) s1
  let s3 := fetched_all s2
  let s4 := after (promote_to_decode sample_params s3) s3
  let s5 := after (decode_instruction sample_params s4) s4
  let s6 := after (dispatch_instruction sample_params s5) s5
  scheduled_all s6

/-- Scenario A: a load (instruction 0) and then a store (instruction 1) to the same
address, dispatched into a ROB of capacity 4. -/
def load_then_store : O3_CPU := dispatch_two load_A store_A

/-- Scenario A after `do_memory_scheduling` of the load. -/
def lts_load_admitted : O3_CPU :=
  after (do_memory_scheduling sample_params load_then_store 0) load_then_store

/-- Scenario A after `do_memory_scheduling` of the load and then of the store. -/
def lts_store_admitted : O3_CPU :=
  after (do_memory_scheduling sample_params lts_load_admitted 1) lts_load_admitted

/-- The effect of the translation of the store in slot `sq_it` (`operate_lsq` and
`handle_memory_return`): the physical address `pa`, `translated = COMPLETED`, and the
move of the slot from `RTS0` to `RTS1`. -/
def store_translated (s : O3_CPU) (sq_it pa : Nat) : O3_CPU :=
  { s with
    SQ := s.SQ.set sq_it { s.SQ.getD sq_it {} with physical_address := pa, translated := COMPLETED }
    RTS0 := s.RTS0.erase sq_it
    RTS1 := s.RTS1 ++ [sq_it] }

/-- Scenario A after the translation of the store. -/
def lts_store_translated : O3_CPU := store_translated lts_store_admitted 0 0x9000

/-- Scenario A after `execute_store` of the store. -/
def lts_store_executed : O3_CPU :=
  after (execute_store sample_params lts_store_translated 0) lts_store_translated

/-- A store (instruction 0) and then a load (instruction 1) from the same address,
dispatched into the ROB. -/
def store_then_load : O3_CPU := dispatch_two store_A load_A

/-- The store admitted to the store queue and translated. -/
def stl_store_translated : O3_CPU :=
  store_translated
    (after (do_memory_scheduling sample_params store_then_load 0) store_then_load) 0 0x9000

/-- The store executed in cycle 10, and the core in cycle 11. -/
def stl_store_executed : O3_CPU :=
  { after (execute_store sample_params { stl_store_translated with current_core_cycle := 10 } 0)
      stl_store_translated with current_core_cycle := 11 }

/-- The record of the store in the ROB of `lts_load_admitted`. -/
def lts_store_record : ooo_model_instr := (rob_find lts_load_admitted.ROB.entries 1).getD {}

/-- The record of the load in the ROB of `load_then_store`. -/
def lts_load_record : ooo_model_instr := (rob_find load_then_store.ROB.entries 0).getD {}

/-- Scenario A after `add_load_queue` for the load. -/
def lts_load_queued : O3_CPU :=
  after (add_load_queue sample_params load_then_store 0 0) load_then_store

/-! ## Core: the store-address ring as a queue -/

/-- The ring `STA` with its two indices holds the queue `q` of instruction ids: `q` lies
in the slots from `STA_head` on, in order and wrapping at the end of the array,
`STA_tail` is the slot after the last id, and every other slot holds `UINT64_MAX`. -/
def ring_holds (n : Nat) (STA : List Nat) (head tail : Nat) (q : List Nat) : Prop :=
  STA.length = n ∧ head < n ∧ q.length ≤ n ∧ tail = (head + q.length) % n ∧
  (∀ k, k < q.length → STA.getD ((head + k) % n) 0 = q.getD k 0) ∧
  (∀ k, q.length ≤ k → k < n → STA.getD ((head + k) % n) 0 = UINT64_MAX)

/-- The ring of a core holds the queue `q`. -/
def sta_ring (P : Params) (s : O3_CPU) (q : List Nat) : Prop :=
  ring_holds P.STA_SIZE s.STA s.STA_head s.STA_tail q

/-- Number of the non-zero destination memory operands of a record: the number of ids
that `init_instruction` writes for it. -/
def store_operands (P : Params) (a : ooo_model_instr) : Nat :=
  ((List.range P.MAX_INSTR_DESTINATIONS).map fun i =>
    pending (a.destination_memory.getD i 0)).sum

/-- One step of a core, with the ids it writes at `STA_tail` and the ids it consumes at
`STA_head`: a returning `init_instruction` for a record of the trace (which has counted
no memory operand yet) writes the new instruction id once per non-zero destination
memory operand; a returning `add_store_queue`, called as `do_memory_scheduling` calls it
(line 815: `STA[STA_head] == rob_it->instr_id`) for an instruction id other than the
marker `UINT64_MAX`, consumes that id; every other step leaves the ring alone. -/
inductive StaTick (P : Params) : O3_CPU → O3_CPU → List Nat → List Nat → Prop
  | init (s s' : O3_CPU) (arch_instr : ooo_model_instr) (btb_result : Nat × Nat)
      (branch_prediction n : Nat) :
      init_instruction P s arch_instr btb_result branch_prediction = .ok (n, s') →
      0 ≤ arch_instr.num_mem_ops →
      StaTick P s s' (List.replicate (store_operands P arch_instr) s.instr_unique_id) []
  | consume (s s' : O3_CPU) (rob_it data_index : Nat) :
      add_store_queue P s rob_it data_index = .ok s' →
      s.STA.getD s.STA_head 0 = rob_it → rob_it ≠ UINT64_MAX →
      StaTick P s s' [] [rob_it]
  | other (s s' : O3_CPU) :
      s'.STA = s.STA → s'.STA_head = s.STA_head → s'.STA_tail = s.STA_tail →
      StaTick P s s' [] []

/-- A sequence of steps from `s0` during which at most `STA_SIZE` store operands are
outstanding (written and not consumed), with the ids written and the ids consumed so
far, each in the order of the writes and of the consumptions. -/
inductive StaRun (P : Params) (s0 : O3_CPU) : O3_CPU → List Nat → List Nat → Prop
  | start : StaRun P s0 s0 [] []
  | step (s s' : O3_CPU) (written consumed w c : List Nat) :
      StaRun P s0 s written consumed → StaTick P s s' w c →
      (written ++ w).length ≤ (consumed ++ c).length + P.STA_SIZE →
      StaRun P s0 s' (written ++ w) (consumed ++ c)

/-- The core `lsq_start` after `init_instruction` for the load `load_A`. -/
def lts_read_load : O3_CPU :=
  after_init (init_instruction sample_params lsq_start load_A (0, 0) 0) lsq_start

/-- The core `lts_read_load` after `init_instruction` for the store `store_A`. -/
def lts_read_store : O3_CPU :=
  after_init (init_instruction sample_params lts_read_load store_A (0, 0) 0) lts_read_load

/-- Scenario A after `add_store_queue` for the store, the load being admitted. -/
def lts_store_queued : O3_CPU :=
  after (add_store_queue sample_params lts_load_admitted 1 0) lts_load_admitted

/-- What forwarding and the execution of a store may do to a record in cycle `cycle`:
write the fields of `load_fields`, and either keep `num_mem_ops` and `event_cycle` or
leave `event_cycle` at `cycle`. -/
def executed_fields (cycle : Nat) (e e' : ooo_model_instr) : Prop :=
  load_fields e e' ∧
    ((e'.num_mem_ops = e.num_mem_ops ∧ e'.event_cycle = e.event_cycle) ∨ e'.event_cycle = cycle)

/-- No entry of the load queue that belongs to the instruction `id` names `producer` as
its producer. -/
def no_entry_waits (q : List LSQ_ENTRY) (id producer : Nat) : Prop :=
  ∀ e ∈ q, e.rob_index = some id → e.producer_id ≠ producer

/-- The entry of the store in the store queue of `lts_store_translated`. -/
def lts_store_entry : LSQ_ENTRY := lts_store_translated.SQ.getD 0 {}

/-- The entry of the load in the load queue of `lts_store_translated`. -/
def lts_load_entry : LSQ_ENTRY := lts_store_translated.LQ.getD 0 {}

/-- The record of the load in the ROB of `lts_store_translated`. -/
def lts_load_waiting : ooo_model_instr := (rob_find lts_store_translated.ROB.entries 0).getD {}

/-- The record of the store in the ROB of `stl_store_executed`. -/
def stl_store_record : ooo_model_instr := (rob_find stl_store_executed.ROB.entries 0).getD {}

/-- The record of the load in the ROB of `stl_store_executed`. -/
def stl_load_record : ooo_model_instr := (rob_find stl_store_executed.ROB.entries 1).getD {}

/-- The state `stl_store_executed` after `add_load_queue` for the load, in cycle 11. -/
def stl_forwarded_late : O3_CPU :=
  after (add_load_queue sample_params stl_store_executed 1 0) stl_store_executed

/-! ## Core: what a stage moves -/

/-- The records of a stage buffer, the oldest first. -/
def records (q : delay_queue ooo_model_instr) : List ooo_model_instr := q.entries.map Prod.fst

/-- The test of `decode_instruction` for a misprediction that is detected at decode: the
flag `branch_mispredicted` is set and the branch is a direct jump or a direct call. -/
def resolved_at_decode (P : Params) (x : ooo_model_instr) : Bool :=
  decide (x.branch_mispredicted ≠ 0 ∧
    (x.branch_type = P.BRANCH_DIRECT_JUMP ∨ x.branch_type = P.BRANCH_DIRECT_CALL))

/-- The record that `decode_instruction` pushes into `DISPATCH_BUFFER` for the record `x`
at the front of `DECODE_BUFFER`. -/
def decoded_record (P : Params) (x : ooo_model_instr) : ooo_model_instr :=
  if resolved_at_decode P x = true then { x with branch_mispredicted := 0 } else x

/-- The target that `init_instruction` compares with the actual target of a branch. -/
def predicted_branch_target (btb_result : Nat × Nat) (branch_prediction : Nat) : Nat :=
  if branch_prediction = 0 ∧ btb_result.2 = 0 then 0 else btb_result.1

/-- The occupancy of `DECODE_BUFFER`, `DISPATCH_BUFFER` and the ROB is within the
capacity. -/
def within_capacity (s : O3_CPU) : Prop :=
  s.DECODE_BUFFER.entries.length ≤ s.DECODE_BUFFER.size ∧
  s.DISPATCH_BUFFER.entries.length ≤ s.DISPATCH_BUFFER.size ∧
  s.ROB.entries.length ≤ s.ROB.size

/-- The capacities of `DECODE_BUFFER`, `DISPATCH_BUFFER` and the ROB are those of `s`. -/
def same_capacity (s s' : O3_CPU) : Prop :=
  s'.DECODE_BUFFER.size = s.DECODE_BUFFER.size ∧
  s'.DISPATCH_BUFFER.size = s.DISPATCH_BUFFER.size ∧
  s'.ROB.size = s.ROB.size

/-- What the stages outside the five embedded ones leave alone in `DECODE_BUFFER`,
`DISPATCH_BUFFER` and the ROB: they write the fields of records through iterators, and
neither push nor pop a record nor change a capacity. -/
def same_occupancy (s s' : O3_CPU) : Prop :=
  same_capacity s s' ∧
  s'.DECODE_BUFFER.entries.length = s.DECODE_BUFFER.entries.length ∧
  s'.DISPATCH_BUFFER.entries.length = s.DISPATCH_BUFFER.entries.length ∧
  s'.ROB.entries.length = s.ROB.entries.length

/-- One step of a tick sequence, as far as the occupancy of the buffers goes: a
returning call of one of the five stages, or a step of another stage. -/
inductive StageTick (P : Params) : O3_CPU → O3_CPU → Prop
  | init (s s' : O3_CPU) (arch_instr : ooo_model_instr) (btb_result : Nat × Nat)
      (branch_prediction n : Nat) :
      init_instruction P s arch_instr btb_result branch_prediction = .ok (n, s') →
      StageTick P s s'
  | promote (s s' : O3_CPU) : promote_to_decode P s = .ok s' → StageTick P s s'
  | decode (s s' : O3_CPU) : decode_instruction P s = .ok s' → StageTick P s s'
  | dispatch (s s' : O3_CPU) : dispatch_instruction P s = .ok s' → StageTick P s s'
  | retire (s s' : O3_CPU) (add_wq : Nat → PACKET → Int) (log : List WqCall)
      (out : List ooo_model_instr) :
      retire_rob P s add_wq = .ok (s', log, out) → StageTick P s s'
  | other (s s' : O3_CPU) : same_occupancy s s' → StageTick P s s'

/-- A tick sequence from `s0` to `s`. -/
inductive StageRun (P : Params) (s0 : O3_CPU) : O3_CPU → Prop
  | start : StageRun P s0 s0
  | step (s s' : O3_CPU) : StageRun P s0 s → StageTick P s s' → StageRun P s0 s'

/-! ## Core: a mispredicted direct jump (Scenario B) -/

/-- What `do_complete_execution` leaves alone in a record of the ROB: the instruction id
and the branch fields. -/
def branch_fields (e e' : ooo_model_instr) : Prop :=
  e'.instr_id = e.instr_id ∧ e'.branch_mispredicted = e.branch_mispredicted ∧
    e'.branch_type = e.branch_type

/-- A direct jump to `0x500000`, as read from the trace: it writes the instruction
pointer and reads no register. -/
def jump_B : ooo_model_instr :=
  { ip := 0x400000, destination_registers := [26], branch_taken := 1, branch_target := 0x500000 }

/-- A core in cycle 5, past warmup. -/
def core_warm : O3_CPU := { core_start with warmup_complete := 1, current_core_cycle := 5 }

/-- The jump read by `init_instruction` past warmup, with a predicted target 0. -/
def jump_read : O3_CPU :=
  after_init (init_instruction sample_params core_warm jump_B (0, 0) 0) core_warm

/-- The jump moved into the decode buffer. -/
def jump_promoted : O3_CPU :=
  after (promote_to_decode sample_params (fetched_all jump_read)) (fetched_all jump_read)

/-- The jump moved into the dispatch buffer. -/
def jump_decoded : O3_CPU := after (decode_instruction sample_params jump_promoted) jump_promoted

/-- The jump moved into the ROB, four cycles later. -/
def jump_dispatched : O3_CPU :=
  { after (dispatch_instruction sample_params jump_decoded) jump_decoded with
    current_core_cycle := 9 }

/-- The jump executed. -/
def jump_completed : O3_CPU :=
  after (do_complete_execution sample_params jump_dispatched 0) jump_dispatched

/-- The jump read by `init_instruction` before warmup is complete, with a predicted
target 0. -/
def jump_cold_read : O3_CPU :=
  after_init (init_instruction sample_params core_start jump_B (0, 0) 0) core_start

/-- The jump read before warmup is complete, moved into the decode buffer. -/
def jump_cold_promoted : O3_CPU :=
  after (promote_to_decode sample_params (fetched_all jump_cold_read)) (fetched_all jump_cold_read)

/-- The jump read before warmup is complete, moved into the dispatch buffer. -/
def jump_cold_decoded : O3_CPU :=
  after (decode_instruction sample_params jump_cold_promoted) jump_cold_promoted

/-- The record of the jump in the fetch buffer of `jump_read`. -/
def jump_record : ooo_model_instr := jump_read.IFETCH_BUFFER.entries.getLastD {}

/-- The record of the jump in the decode buffer of `jump_promoted`. -/
def jump_at_decode : ooo_model_instr := (records jump_promoted.DECODE_BUFFER).headD {}

/-- The record of the jump in the ROB of `jump_dispatched`. -/
def jump_in_rob : ooo_model_instr := (rob_find jump_dispatched.ROB.entries 0).getD {}

/-! ## Core: the fetch budget of a tick -/

/-- Modelled from the spec: the loop of the caller of `init_instruction` (it is outside
`src/`), which reads the next instruction of the trace while the value returned is
positive. `ReadLoop P s0 s k n`: after `k` calls, the first on `s0`, the state is `s`
and the last call returned `n`. -/
inductive ReadLoop (P : Params) (s0 : O3_CPU) : O3_CPU → Nat → Nat → Prop
  | first (s1 : O3_CPU) (arch_instr : ooo_model_instr) (btb_result : Nat × Nat)
      (branch_prediction n : Nat) :
      init_instruction P s0 arch_instr btb_result branch_prediction = .ok (n, s1) →
      ReadLoop P s0 s1 1 n
  | next (s s' : O3_CPU) (k n n' : Nat) (arch_instr : ooo_model_instr)
      (btb_result : Nat × Nat) (branch_prediction : Nat) :
      ReadLoop P s0 s k n → 0 < n →
      init_instruction P s arch_instr btb_result branch_prediction = .ok (n', s') →
      ReadLoop P s0 s' (k + 1) n'

/-- The free slots of the fetch buffer. -/
def fetch_room (s : O3_CPU) : Nat := s.IFETCH_BUFFER.size - s.IFETCH_BUFFER.occupancy

/-! ## Core: a mispredicted conditional branch -/

/-- A taken conditional branch to `0x400100`, as read from the trace: it reads the
instruction pointer and the flags and writes the instruction pointer. -/
def branch_C : ooo_model_instr :=
  { ip := 0x400010, destination_registers := [26], source_registers := [26, 25]
    branch_taken := 1, branch_target := 0x400100 }

/-- The branch read by `init_instruction` before warmup is complete, with a predicted
target 0. -/
def branch_cold_read : O3_CPU :=
  after_init (init_instruction sample_params core_start branch_C (0, 0) 0) core_start

/-- The branch read by `init_instruction` past warmup, with a predicted target 0. -/
def branch_warm_read : O3_CPU :=
  after_init (init_instruction sample_params core_warm branch_C (0, 0) 0) core_warm

/-- The branch read by `init_instruction` past warmup, with its target predicted. -/
def branch_hit_read : O3_CPU :=
  after_init (init_instruction sample_params core_warm branch_C (0x400100, 0) 1) core_warm

/-- The last record of the fetch buffer. -/
def last_read (s : O3_CPU) : ooo_model_instr := s.IFETCH_BUFFER.entries.getLastD {}

/-! ## Translator: the cursor of the page-table pages -/

/-- A random-map translator built over the reserve plus `n` pages of 4096 bytes, with
page-table pages of 2048 bytes. -/
def half_vm (n : Nat) : VirtualMemory :=
  (VirtualMemory.construct 12 shuffle_keep (VMEM_RESERVE_CAPACITY + n * 4096) 2048 5 0).getD {}

/-- The translator `half_vm 3` after `get_pte_pa(0, 0, 0)`. -/
def half_first : Nat × VirtualMemory := (get_pte_pa 12 (half_vm 3) 0 0 0).getD (0, {})

/-! ## Core: a load that finds its producer -/

/-- Lines 945-946 of `add_load_queue`: the entry of the load with its producer `prior`. -/
def waiting_entry (entry : LSQ_ENTRY) (prior : ooo_model_instr) : LSQ_ENTRY :=
  { entry with producer_id := prior.instr_id, translated := INFLIGHT }

/-- The state of `add_load_queue` at line 948, when the producer `prior` of the load has
been marked and the store queue has not been searched yet; `lq_it` is the slot that the
load `x` got. -/
def load_waits (P : Params) (s : O3_CPU) (rob_it data_index lq_it : Nat)
    (x prior : ooo_model_instr) : O3_CPU :=
  { update_rob (update_rob s rob_it (mark_load_added data_index lq_it)) prior.instr_id
      (add_dependent rob_it) with
    LQ := s.LQ.set lq_it
      (waiting_entry
        (load_queue_entry P s.current_core_cycle (s.LQ.getD lq_it {}) x rob_it data_index)
        prior) }

/-- The state `stl_store_translated` after `add_load_queue` for the load: the store is
in the store queue and has not been executed. -/
def stl_load_queued_early : O3_CPU :=
  after (add_load_queue sample_params stl_store_translated 1 0) stl_store_translated

/-- The record of the store in the ROB of `stl_store_translated`. -/
def stl_store_waiting : ooo_model_instr :=
  (rob_find stl_store_translated.ROB.entries 0).getD {}

/-- The record of the load in the ROB of `stl_store_translated`. -/
def stl_load_unqueued : ooo_model_instr :=
  (rob_find stl_store_translated.ROB.entries 1).getD {}

/-! ## Core: the load-queue slots that a store forwards to -/

/-- The tests of lines 1182-1185 of `execute_store` on the source `j` of the record
`dep`: the operand is set, was added to the load queue and reads the virtual address of
the store; the result is the iterator `lq_index[j]`. -/
def operand_slot (sq_entry : LSQ_ENTRY) (dep : ooo_model_instr) (j : Nat) : Option Nat :=
  if dep.source_memory.getD j 0 ≠ 0 ∧ dep.source_added.getD j 0 ≠ 0 ∧
      dep.source_memory.getD j 0 = sq_entry.virtual_address
  then dep.lq_index.getD j none else none

/-- The test of line 1188 of `execute_store` on the slot `k` of the load queue: the
entry names the store as its producer. -/
def waits_for (s : O3_CPU) (sq_entry : LSQ_ENTRY) (k : Nat) : Option Nat :=
  match s.LQ.get? k with
  | some e => if e.producer_id = sq_entry.instr_id then some k else none
  | none => none

/-- The slot of the load queue that the inner loop of `execute_store` forwards to for
the pair (dependent, source), `none` when it forwards to no slot. -/
def forward_target (s : O3_CPU) (sq_entry : LSQ_ENTRY) (dj : Nat × Nat) : Option Nat :=
  ((rob_find s.ROB.entries dj.1).bind fun dep => operand_slot sq_entry dep dj.2).bind
    (waits_for s sq_entry)

/-- The fields of a record that the execution of a store and the forwarding to a load
write; every other field of `e'` is that of `e`. -/
def forward_fields (e e' : ooo_model_instr) : Prop :=
  e' = { e with num_mem_ops := e'.num_mem_ops, num_pcache_ops := e'.num_pcache_ops
                num_tsp_ops := e'.num_tsp_ops, event_cycle := e'.event_cycle }

/-- A load with two source operands that read the address `0x7000`. -/
def load_AA : ooo_model_instr := { ip := 0x400004, source_memory := [0x7000, 0x7000] }

/-- A store (instruction 0) and then the load `load_AA` (instruction 1), dispatched; the
store is admitted and translated, both operands of the load are admitted and wait for
the store, and the core is in cycle 10. -/
def stl2_waiting : O3_CPU :=
  let s0 := dispatch_two store_A load_AA
  let s1 := store_translated (after (do_memory_scheduling sample_params s0 0) s0) 0 0x9000
  { after (do_memory_scheduling sample_params s1 1) s1 with current_core_cycle := 10 }

/-- The state `stl2_waiting` after `execute_store` of the store. -/
def stl2_forwarded : O3_CPU := after (execute_store sample_params stl2_waiting 0) stl2_waiting

/-- The entry of the store in the store queue of `stl2_waiting`. -/
def stl2_store_entry : LSQ_ENTRY := stl2_waiting.SQ.getD 0 {}

/-- The record of the store in the ROB of `stl2_waiting`. -/
def stl2_store_record : ooo_model_instr := (rob_find stl2_waiting.ROB.entries 0).getD {}

/-- The record of the load in the ROB of `stl2_waiting`. -/
def stl2_load_record : ooo_model_instr := (rob_find stl2_waiting.ROB.entries 1).getD {}

/-! ## Core: address generation and execution in the load/store queue (`ooo_cpu.cc`) -/

/-- The buses of the core to the memory subsystem. -/
inductive Bus where
  | ITLB
  | DTLB
  | L1I
  | L1D
  | L1P
  deriving DecidableEq, Repr

/-- One call of `add_rq` on the lower level of a bus: the bus, the packet sent, and the
value returned (`-2` is the rejection). -/
structure RqCall where
  bus : Bus
  packet : PACKET
  result : Int
  deriving DecidableEq, Repr

/-- Method `VirtualMemory::va_to_ptable_pa`; the sum is a 64-bit sum. -/
def va_to_ptable_pa (LOG2_PAGE_SIZE : Nat) (vm : VirtualMemory) (vaddr : Nat) : Outcome Nat :=
  match pcache_va_to_pa vm 0 vaddr with
  | .fault e => .fault e
  | .ok paddr => .ok (add64 vm.ptable_start (paddr >>> LOG2_PAGE_SIZE))

/-- The fields that the translation functions of the load/store queue copy from the
entry into `data_packet`; `address` and `type` are given. -/
def lsq_packet (P : Params) (cpu address type : Nat) (e : LSQ_ENTRY) : PACKET :=
  { fill_level := P.FILL_L1
    cpu := cpu
    address := address
    full_addr := e.virtual_address
    full_v_addr := e.virtual_address
    instr_id := e.instr_id
    ip := e.ip
    type := type
    asid := e.asid
    event_cycle := e.event_cycle }

/-- The page address that `do_translate_load` and `do_translate_store` send. -/
def translation_address (P : Params) (e : LSQ_ENTRY) : Nat :=
  if P.knob_cloudsuite ≠ 0 then splice_bits e.virtual_address e.asid.2 P.LOG2_PAGE_SIZE
  else e.virtual_address >>> P.LOG2_PAGE_SIZE

/-- The write `sq_it->translated = INFLIGHT` or `lq_it->translated = INFLIGHT` when the
request was not rejected. -/
def mark_translating (q : List LSQ_ENTRY) (it : Nat) (e : LSQ_ENTRY) (rq_index : Int) :
    List LSQ_ENTRY :=
  if rq_index ≠ -2 then q.set it { e with translated := INFLIGHT } else q

/-- Method `O3_CPU::do_translate_store_pcache`. `add_rq n bus p` is the answer of the
memory subsystem to the packet `p` sent on `bus` when `n` calls went before. The result
carries the value returned, the new state and the calls made so far. -/
def do_translate_store_pcache (P : Params) (vm : VirtualMemory)
    (add_rq : Nat → Bus → PACKET → Int) (s : O3_CPU) (log : List RqCall) (sq_it : Nat) :
    Outcome (Int × O3_CPU × List RqCall) :=
  match s.SQ.get? sq_it with
  | none => .fault .undefined
  | some e =>
    match va_to_ptable_pa P.LOG2_PAGE_SIZE vm e.virtual_address with
    | .fault f => .fault f
    | .ok pa =>
      let data_packet :=
        { lsq_packet P s.cpu (pa >>> P.LOG2_BLOCK_SIZE) P.LOAD e with
          sq_index_depend_on_me := [sq_it] }
      let rq_index := add_rq log.length .L1P data_packet
      .ok (rq_index, { s with SQ := mark_translating s.SQ sq_it e rq_index },
           log ++ [{ bus := .L1P, packet := data_packet, result := rq_index }])

/-- Method `O3_CPU::do_translate_store`. -/
def do_translate_store (P : Params) (add_rq : Nat → Bus → PACKET → Int) (s : O3_CPU)
    (log : List RqCall) (sq_it : Nat) : Outcome (Int × O3_CPU × List RqCall) :=
  match s.SQ.get? sq_it with
  | none => .fault .undefined
  | some e =>
    let data_packet :=
      { lsq_packet P s.cpu (translation_address P e) P.RFO e with
        sq_index_depend_on_me := [sq_it] }
    let rq_index := add_rq log.length .DTLB data_packet
    .ok (rq_index, { s with SQ := mark_translating s.SQ sq_it e rq_index },
         log ++ [{ bus := .DTLB, packet := data_packet, result := rq_index }])

/-- Method `O3_CPU::do_translate_load_pcache`. -/
def do_translate_load_pcache (P : Params) (vm : VirtualMemory)
    (add_rq : Nat → Bus → PACKET → Int) (s : O3_CPU) (log : List RqCall) (lq_it : Nat) :
    Outcome (Int × O3_CPU × List RqCall) :=
  match s.LQ.get? lq_it with
  | none => .fault .undefined
  | some e =>
    match va_to_ptable_pa P.LOG2_PAGE_SIZE vm e.virtual_address with
    | .fault f => .fault f
    | .ok pa =>
      let data_packet :=
        { lsq_packet P s.cpu (pa >>> P.LOG2_BLOCK_SIZE) P.LOAD e with
          lq_index_depend_on_me := [lq_it] }
      let rq_index := add_rq log.length .L1P data_packet
      .ok (rq_index, { s with LQ := mark_translating s.LQ lq_it e rq_index },
           log ++ [{ bus := .L1P, packet := data_packet, result := rq_index }])

/-- Method `O3_CPU::do_translate_load`. With `use_smm` an entry whose translation has
started is not sent again and the value returned is the initial 0. -/
def do_translate_load (P : Params) (add_rq : Nat → Bus → PACKET → Int) (s : O3_CPU)
    (log : List RqCall) (lq_it : Nat) : Outcome (Int × O3_CPU × List RqCall) :=
  match s.LQ.get? lq_it with
  | none => .fault .undefined
  | some e =>
    let data_packet :=
      { lsq_packet P s.cpu (translation_address P e) P.LOAD e with
        lq_index_depend_on_me := [lq_it] }
    if P.use_smm ≠ 0 ∧ e.translated ≠ 0 then .ok (0, s, log)
    else
      let rq_index := add_rq log.length .DTLB data_packet
      .ok (rq_index, { s with LQ := mark_translating s.LQ lq_it e rq_index },
           log ++ [{ bus := .DTLB, packet := data_packet, result := rq_index }])

/-- Method `O3_CPU::execute_load`. With `use_smm` or `use_pcache` an entry whose fetch
has started sends nothing, and the value returned is that of the local `rq_index`, which
was never assigned. -/
def execute_load (P : Params) (add_rq : Nat → Bus → PACKET → Int) (s : O3_CPU)
    (log : List RqCall) (lq_it : Nat) : Outcome (Int × O3_CPU × List RqCall) :=
  match s.LQ.get? lq_it with
  | none => .fault .undefined
  | some e =>
    let data_packet : PACKET :=
      { fill_level := P.FILL_L1
        cpu := s.cpu
        address := e.physical_address >>> P.LOG2_BLOCK_SIZE
        full_addr := e.physical_address
        v_address := e.virtual_address >>> P.LOG2_BLOCK_SIZE
        full_v_addr := e.virtual_address
        instr_id := e.instr_id
        ip := e.ip
        type := P.LOAD
        asid := e.asid
        event_cycle := e.event_cycle
        lq_index_depend_on_me := [lq_it] }
    if (P.use_smm ≠ 0 ∨ P.use_pcache ≠ 0) ∧ e.fetched ≠ 0 then .fault .undefined
    else
      let rq_index := add_rq log.length .L1D data_packet
      .ok (rq_index,
           { s with LQ := if rq_index ≠ -2 then s.LQ.set lq_it { e with fetched := INFLIGHT }
                          else s.LQ },
           log ++ [{ bus := .L1D, packet := data_packet, result := rq_index }])

/-- The first loop of `operate_lsq` (address generation of stores); the first argument is
what is left of `SQ_WIDTH`. -/
def operate_lsq_translate_stores (P : Params) (vm : VirtualMemory)
    (add_rq : Nat → Bus → PACKET → Int) :
    Nat → O3_CPU → List RqCall → Outcome (O3_CPU × List RqCall)
  | 0, s, log => .ok (s, log)
  | n + 1, s, log =>
    match s.RTS0 with
    | [] => .ok (s, log)
    | front :: _ =>
      if P.use_pcache ≠ 0 then
        match do_translate_store_pcache P vm add_rq s log front with
        | .fault f => .fault f
        | .ok (rq_index, s1, log1) =>
          if rq_index = -2 then .ok (s1, log1)
          else operate_lsq_translate_stores P vm add_rq n { s1 with RTS0 := s1.RTS0.tail } log1
      else if P.use_direct_segment ≠ 0 then
        match s.SQ.get? front with
        | none => .fault .undefined
        | some e =>
          match pcache_va_to_pa vm s.cpu e.virtual_address with
          | .fault f => .fault f
          | .ok pa =>
            let s1 := { s with
              SQ := s.SQ.set front { e with physical_address := pa, translated := COMPLETED }
              RTS1 := s.RTS1 ++ [front] }
            operate_lsq_translate_stores P vm add_rq n { s1 with RTS0 := s1.RTS0.tail } log
      else
        match do_translate_store P add_rq s log front with
        | .fault f => .fault f
        | .ok (rq_index, s1, log1) =>
          if rq_index = -2 then .ok (s1, log1)
          else operate_lsq_translate_stores P vm add_rq n { s1 with RTS0 := s1.RTS0.tail } log1

/-- The second loop of `operate_lsq` (execution of stores); the first argument is what
is left of `SQ_WIDTH`. -/
def operate_lsq_execute_stores (P : Params) : Nat → O3_CPU → Outcome O3_CPU
  | 0, s => .ok s
  | n + 1, s =>
    match s.RTS1 with
    | [] => .ok s
    | front :: _ =>
      match execute_store P s front with
      | .fault f => .fault f
      | .ok s1 => operate_lsq_execute_stores P n { s1 with RTS1 := s1.RTS1.tail }

/-- The write `RTL0.front()->physical_address = vmem.pcache_va_to_pa(...)` followed by
`RTL1.push(RTL0.front())`, with the flag `translated` set to `flag` in between when one
is given. -/
def segment_translate_load (vm : VirtualMemory) (s : O3_CPU) (front : Nat)
    (flag : Option Nat) : Outcome O3_CPU :=
  match s.LQ.get? front with
  | none => .fault .undefined
  | some e =>
    match pcache_va_to_pa vm s.cpu e.virtual_address with
    | .fault f => .fault f
    | .ok pa =>
      let e1 := { e with physical_address := pa }
      let e2 := match flag with
        | some v => { e1 with translated := v }
        | none => e1
      .ok { s with LQ := s.LQ.set front e2, RTL1 := s.RTL1 ++ [front] }

/-- The third loop of `operate_lsq` (address generation of loads); the first argument is
what is left of `LQ_WIDTH`. -/
def operate_lsq_translate_loads (P : Params) (vm : VirtualMemory)
    (add_rq : Nat → Bus → PACKET → Int) :
    Nat → O3_CPU → List RqCall → Outcome (O3_CPU × List RqCall)
  | 0, s, log => .ok (s, log)
  | n + 1, s, log =>
    match s.RTL0 with
    | [] => .ok (s, log)
    | front :: _ =>
      if P.use_pcache ≠ 0 then
        match segment_translate_load vm s front none with
        | .fault f => .fault f
        | .ok s0 =>
          match do_translate_load_pcache P vm add_rq s0 log front with
          | .fault f => .fault f
          | .ok (rq_index, s1, log1) =>
            if rq_index = -2 then .ok (s1, log1)
            else operate_lsq_translate_loads P vm add_rq n { s1 with RTL0 := s1.RTL0.tail } log1
      else if P.use_direct_segment ≠ 0 then
        match segment_translate_load vm s front (some COMPLETED) with
        | .fault f => .fault f
        | .ok s1 =>
          operate_lsq_translate_loads P vm add_rq n { s1 with RTL0 := s1.RTL0.tail } log
      else if P.use_smm ≠ 0 then
        match segment_translate_load vm s front none with
        | .fault f => .fault f
        | .ok s0 =>
          match do_translate_load P add_rq s0 log front with
          | .fault f => .fault f
          | .ok (rq_index, s1, log1) =>
            if rq_index = -2 then .ok (s1, log1)
            else operate_lsq_translate_loads P vm add_rq n { s1 with RTL0 := s1.RTL0.tail } log1
      else
        match do_translate_load P add_rq s log front with
        | .fault f => .fault f
        | .ok (rq_index, s1, log1) =>
          if rq_index = -2 then .ok (s1, log1)
          else operate_lsq_translate_loads P vm add_rq n { s1 with RTL0 := s1.RTL0.tail } log1

/-- The fourth loop of `operate_lsq` (execution of loads); the first argument is what is
left of `LQ_WIDTH`. -/
def operate_lsq_execute_loads (P : Params) (add_rq : Nat → Bus → PACKET → Int) :
    Nat → O3_CPU → List RqCall → Outcome (O3_CPU × List RqCall)
  | 0, s, log => .ok (s, log)
  | n + 1, s, log =>
    match s.RTL1 with
    | [] => .ok (s, log)
    | front :: _ =>
      match execute_load P add_rq s log front with
      | .fault f => .fault f
      | .ok (rq_index, s1, log1) =>
        if rq_index = -2 then .ok (s1, log1)
        else operate_lsq_execute_loads P add_rq n { s1 with RTL1 := s1.RTL1.tail } log1

/-- Method `O3_CPU::operate_lsq`; `vm` is the global `vmem`. The result carries the new
state and the `add_rq` calls made. -/
def operate_lsq (P : Params) (vm : VirtualMemory) (add_rq : Nat → Bus → PACKET → Int)
    (s : O3_CPU) : Outcome (O3_CPU × List RqCall) :=
  match operate_lsq_translate_stores P vm add_rq P.SQ_WIDTH s [] with
  | .fault f => .fault f
  | .ok (s1, log1) =>
    match operate_lsq_execute_stores P P.SQ_WIDTH s1 with
    | .fault f => .fault f
    | .ok s2 =>
      match operate_lsq_translate_loads P vm add_rq P.LQ_WIDTH s2 log1 with
      | .fault f => .fault f
      | .ok (s3, log3) => operate_lsq_execute_loads P add_rq P.LQ_WIDTH s3 log3

/-! ## Concrete states: a rejected translation request -/

/-- The constants of the examples in flat-segment mode (`use_pcache`). -/
def pcache_params : Params := { sample_params with use_pcache := 1 }

/-- A memory subsystem that rejects every read request. -/
def rq_reject : Nat → Bus → PACKET → Int := fun _ _ _ => -2

/-- A load from the heap segment of `layout_C`, as read from the trace. -/
def load_H : ooo_model_instr := { ip := 0x400000, source_memory := [0x555555554010] }

/-- The load `load_H` read, moved into the ROB, scheduled and admitted to the load queue
of a core in flat-segment mode. -/
def pc_load_admitted : O3_CPU :=
  let s1 := after_init (init_instruction pcache_params lsq_start load_H (0, 0) 0) lsq_start
  let s2 := fetched_all s1
  let s3 := after (promote_to_decode pcache_params s2) s2
  let s4 := after (decode_instruction pcache_params s3) s3
  let s5 := after (dispatch_instruction pcache_params s4) s4
  let s6 := scheduled_all s5
  after (do_memory_scheduling pcache_params s6 0) s6

/-- The state and the calls of a returning `operate_lsq`, or `d` without calls after a
fault. -/
def after_lsq (x : Outcome (O3_CPU × List RqCall)) (d : O3_CPU) : O3_CPU × List RqCall :=
  x.getD (d, [])

/-- The state `pc_load_admitted` after an `operate_lsq` whose requests are rejected. -/
def pc_rejected_once : O3_CPU × List RqCall :=
  after_lsq (operate_lsq pcache_params layout_C rq_reject pc_load_admitted) pc_load_admitted

/-- The state `pc_rejected_once` after a second `operate_lsq` whose requests are
rejected. -/
def pc_rejected_twice : O3_CPU × List RqCall :=
  after_lsq (operate_lsq pcache_params layout_C rq_reject pc_rejected_once.1) pc_rejected_once.1

/-! ## Core: translation of the fetch buffer (`ooo_cpu.cc`) -/

/-- Method `O3_CPU::do_check_dib` for the record at position `pos` of the fetch
buffer. -/
def do_check_dib (P : Params) (s : O3_CPU) (pos : Nat) : Outcome O3_CPU :=
  match s.IFETCH_BUFFER.entries.get? pos with
  | none => .fault .undefined
  | some instr =>
    let idx := (instr.ip >>> P.LOG2_DIB_WINDOW_SIZE) % P.DIB_SET
    match s.DIB.get? idx with
    | none => .fault .undefined
    | some dib_set =>
      match dib_find P.LOG2_DIB_WINDOW_SIZE instr.ip dib_set with
      | some way =>
        let instr1 := { instr with
          translated := COMPLETED, fetched := COMPLETED, decoded := COMPLETED
          event_cycle := s.current_core_cycle }
        let val := (dib_set.getD way {}).lru
        .ok { s with
          IFETCH_BUFFER := { s.IFETCH_BUFFER with
            entries := s.IFETCH_BUFFER.entries.set pos instr1 }
          DIB := s.DIB.set idx (dib_promote val dib_set) }
      | none => .ok s

/-- The loop of `check_dib` over the positions of the list. -/
def check_dib_loop (P : Params) : List Nat → O3_CPU → Outcome O3_CPU
  | [], s => .ok s
  | pos :: rest, s =>
    match do_check_dib P s pos with
    | .fault f => .fault f
    | .ok s1 => check_dib_loop P rest s1

/-- Method `O3_CPU::check_dib`: the first `FETCH_WIDTH` records of the fetch buffer. -/
def check_dib (P : Params) (s : O3_CPU) : Outcome O3_CPU :=
  check_dib_loop P (List.range (min s.IFETCH_BUFFER.entries.length P.FETCH_WIDTH)) s

/-- The loop `for (auto dep_it : trace_packet.instr_depend_on_me) dep_it->translated =
INFLIGHT` on the records of the fetch buffer. -/
def mark_inflight (deps : List Nat) (entries : List ooo_model_instr) : List ooo_model_instr :=
  deps.foldl (fun acc i => acc.set i { acc.getD i {} with translated := INFLIGHT }) entries

/-- The fields of `trace_packet` in `do_translate_fetch` and `do_translate_fetch_pcache`
for the run from `begin` to `end`; `address` is given. -/
def trace_packet (P : Params) (s : O3_CPU) (address : Nat) (first : ooo_model_instr)
    (begin_ end_ : Nat) : PACKET :=
  { fill_level := P.FILL_L1
    cpu := s.cpu
    address := address
    full_addr := first.ip
    full_v_addr := first.ip
    instr_id := first.instr_id
    ip := first.ip
    type := P.LOAD
    asid := (0, 0)
    event_cycle := s.current_core_cycle
    instr_depend_on_me := List.range' begin_ (end_ - begin_) }

/-- The end of `do_translate_fetch` and `do_translate_fetch_pcache`: the request on
`bus` and the marking of the run when it is not rejected. -/
def send_trace_packet (add_rq : Nat → Bus → PACKET → Int) (s : O3_CPU) (bus : Bus)
    (p : PACKET) : O3_CPU × List RqCall :=
  let rq_index := add_rq 0 bus p
  (if rq_index ≠ -2 then
     { s with IFETCH_BUFFER := { s.IFETCH_BUFFER with
         entries := mark_inflight p.instr_depend_on_me s.IFETCH_BUFFER.entries } }
   else s,
   [{ bus := bus, packet := p, result := rq_index }])

/-- Method `O3_CPU::do_translate_fetch`; `begin_` and `end_` are positions of the fetch
buffer. -/
def do_translate_fetch (P : Params) (add_rq : Nat → Bus → PACKET → Int) (s : O3_CPU)
    (begin_ end_ : Nat) : Outcome (O3_CPU × List RqCall) :=
  match s.IFETCH_BUFFER.entries.get? begin_ with
  | none => .fault .undefined
  | some first =>
    .ok (send_trace_packet add_rq s .ITLB
      (trace_packet P s (first.ip >>> P.LOG2_PAGE_SIZE) first begin_ end_))

/-- Method `O3_CPU::do_translate_fetch_pcache`. -/
def do_translate_fetch_pcache (P : Params) (vm : VirtualMemory)
    (add_rq : Nat → Bus → PACKET → Int) (s : O3_CPU) (begin_ end_ : Nat) :
    Outcome (O3_CPU × List RqCall) :=
  match s.IFETCH_BUFFER.entries.get? begin_ with
  | none => .fault .undefined
  | some first =>
    match va_to_ptable_pa P.LOG2_PAGE_SIZE vm first.ip with
    | .fault f => .fault f
    | .ok pa =>
      if pa >>> P.LOG2_BLOCK_SIZE = 0 then .fault .abort
      else
        .ok (send_trace_packet add_rq s .L1P
          (trace_packet P s (pa >>> P.LOG2_BLOCK_SIZE) first begin_ end_))

/-- The position `itlb_req_begin`: the first record whose translation has not started,
the length of the buffer for `end()`. -/
def itlb_req_begin (entries : List ooo_model_instr) : Nat :=
  entries.findIdx fun x => x.translated == 0

/-- The position `itlb_req_end`: the first record from `begin_` on whose page is not the
page of `find_addr`, the length of the buffer for `end()`. -/
def itlb_req_end (P : Params) (entries : List ooo_model_instr) (begin_ find_addr : Nat) : Nat :=
  begin_ + (entries.drop begin_).findIdx fun x =>
    (find_addr >>> P.LOG2_PAGE_SIZE) != (x.ip >>> P.LOG2_PAGE_SIZE)

/-- Method `O3_CPU::translate_fetch`; `vm` is the global `vmem`. When the translation of
every record has started, `itlb_req_begin` is `end()`; the address read through it is
not used, since the second search then starts at `end()` and the test of line 329 fails
for a buffer that is not empty. -/
def translate_fetch (P : Params) (vm : VirtualMemory) (add_rq : Nat → Bus → PACKET → Int)
    (s : O3_CPU) : Outcome (O3_CPU × List RqCall) :=
  if s.IFETCH_BUFFER.empty = true then .ok (s, [])
  else
    let begin_ := itlb_req_begin s.IFETCH_BUFFER.entries
    match s.IFETCH_BUFFER.entries.get? begin_ with
    | none => .ok (s, [])
    | some first =>
      let end_ := itlb_req_end P s.IFETCH_BUFFER.entries begin_ first.ip
      if end_ ≠ s.IFETCH_BUFFER.entries.length ∨ begin_ = 0 then
        if P.use_pcache ≠ 0 then do_translate_fetch_pcache P vm add_rq s begin_ end_
        else do_translate_fetch P add_rq s begin_ end_
      else .ok (s, [])

/-! ## Concrete states: a decoded-instruction-buffer hit behind a miss -/

/-- A memory subsystem that accepts every read request. -/
def rq_accept : Nat → Bus → PACKET → Int := fun _ _ _ => 0

/-- The core `core_warm` after `do_dib_update` for an instruction at `0x400040`, as the
decode of an earlier instruction at this address leaves the DIB. -/
def dib_core : O3_CPU :=
  after (do_dib_update sample_params core_warm { ip := 0x400040 }) core_warm

/-- Two instructions of one page read by `init_instruction` on `dib_core`, at
`0x400000` and at `0x400040`. -/
def tf_read : O3_CPU :=
  let s1 := after_init (init_instruction sample_params dib_core { ip := 0x400000 } (0, 0) 0)
    dib_core
  after_init (init_instruction sample_params s1 { ip := 0x400040 } (0, 0) 0) s1

/-- The state `tf_read` after `check_dib`. -/
def tf_checked : O3_CPU := after (check_dib sample_params tf_read) tf_read

/-- The state `tf_checked` after `translate_fetch` with a request that is accepted. -/
def tf_translated : O3_CPU × List RqCall :=
  after_lsq (translate_fetch sample_params {} rq_accept tf_checked) tf_checked

/-! ## Core: register scheduling, execution, completion (`ooo_cpu.cc`) -/

/-- Functor `instr_reg_will_produce(match_reg)`: the record has not completed and
`std::find` meets `match_reg` among its destination registers. -/
def instr_reg_will_produce (match_reg : Nat) (test : ooo_model_instr) : Bool :=
  test.executed != COMPLETED && test.destination_registers.contains match_reg

/-- Line 689 of `do_scheduling`: `registers_instrs_depend_on_me.push_back(rob_it)`. -/
def add_reg_dependent (rob_it : Nat) (e : ooo_model_instr) : ooo_model_instr :=
  { e with registers_instrs_depend_on_me := e.registers_instrs_depend_on_me ++ [rob_it] }

/-- Line 691 of `do_scheduling`: `num_reg_dependent++`. -/
def count_reg_dependent (e : ooo_model_instr) : ooo_model_instr :=
  { e with num_reg_dependent := e.num_reg_dependent + 1 }

/-- The record `prior` that `std::find_if` of `do_scheduling` returns for the source
register `src_reg` of the record `rob_it`, `none` for `ROB.rend()`. -/
def reg_producer (rob : List ooo_model_instr) (rob_it src_reg : Nat) : Option ooo_model_instr :=
  (older_records rob rob_it).find? (instr_reg_will_produce src_reg)

/-- The body of the loop of `do_scheduling` over the source registers, lines 678-693,
for the source register `src_reg` of the record `rob_it`. -/
def do_scheduling_register (rob_it : Nat) (s : O3_CPU) (src_reg : Nat) : O3_CPU :=
  if src_reg ≠ 0 then
    match reg_producer s.ROB.entries rob_it src_reg with
    | none => s
    | some prior =>
      if prior.registers_instrs_depend_on_me.isEmpty = true ∨
          prior.registers_instrs_depend_on_me.getLast? ≠ some rob_it then
        update_rob (update_rob s prior.instr_id (add_reg_dependent rob_it)) rob_it
          count_reg_dependent
      else s
  else s

/-- Lines 696-712 of `do_scheduling`: the flag `scheduled` and the event cycle of the
record, for the values of `warmup_complete[cpu]` and `current_core_cycle[cpu]`. -/
def scheduled_record (P : Params) (warmup_complete current_core_cycle : Nat)
    (e : ooo_model_instr) : ooo_model_instr :=
  if e.is_memory ≠ 0 then { e with scheduled := INFLIGHT }
  else
    { e with
      scheduled := COMPLETED
      event_cycle :=
        if warmup_complete ≠ 0 then
          if e.event_cycle < current_core_cycle
          then add64 current_core_cycle P.SCHEDULING_LATENCY
          else add64 e.event_cycle P.SCHEDULING_LATENCY
        else
          if e.event_cycle < current_core_cycle then current_core_cycle else e.event_cycle }

/-- Method `O3_CPU::do_scheduling`; `rob_it` is the instruction id that stands for the
iterator. -/
def do_scheduling (P : Params) (s : O3_CPU) (rob_it : Nat) : Outcome O3_CPU :=
  match rob_find s.ROB.entries rob_it with
  | none => .fault .undefined
  | some x =>
    .ok (update_rob (x.source_registers.foldl (do_scheduling_register rob_it) s) rob_it
      (scheduled_record P s.warmup_complete s.current_core_cycle))

/-- Lines 637-641 of `schedule_instruction`: the record that has just been scheduled
joins `ready_to_execute` when it is ready; `ROB.size()` is the capacity of the ROB. -/
def schedule_ready (s : O3_CPU) (rob_it : Nat) : Outcome O3_CPU :=
  match rob_find s.ROB.entries rob_it with
  | none => .fault .undefined
  | some x =>
    if x.scheduled = COMPLETED ∧ x.num_reg_dependent = 0 then
      if s.ready_to_execute.length < s.ROB.size
      then .ok { s with ready_to_execute := s.ready_to_execute ++ [rob_it] }
      else .fault .abort
    else .ok s

/-- Lines 634-651 of `schedule_instruction`: `do_scheduling` and the push onto
`ready_to_execute`, for a record with `scheduled == 0`. -/
def schedule_one (P : Params) (s : O3_CPU) (rob_it : Nat) : Outcome O3_CPU :=
  match do_scheduling P s rob_it with
  | .fault e => .fault e
  | .ok s1 => schedule_ready s1 rob_it

/-- The loop of `schedule_instruction` over the records `rob_it` of the ROB from the
oldest on; the numeric argument is `search_bw`. -/
def schedule_instruction_loop (P : Params) : List Nat → Nat → O3_CPU → Outcome O3_CPU
  | [], _, s => .ok s
  | _ :: _, 0, s => .ok s
  | rob_it :: rest, search_bw + 1, s =>
    match rob_find s.ROB.entries rob_it with
    | none => .fault .undefined
    | some x =>
      match (if x.scheduled = 0 then schedule_one P s rob_it else .ok s) with
      | .fault e => .fault e
      | .ok s1 =>
        match rob_find s1.ROB.entries rob_it with
        | none => .fault .undefined
        | some x1 =>
          schedule_instruction_loop P rest
            (if x1.executed = 0 then search_bw else search_bw + 1) s1

/-- Method `O3_CPU::schedule_instruction`. -/
def schedule_instruction (P : Params) (s : O3_CPU) : Outcome O3_CPU :=
  schedule_instruction_loop P (ids s.ROB.entries) P.SCHEDULER_SIZE s

/-- The writes of `do_execution` to the record: the flag `executed` and the event
cycle. -/
def executed_record (P : Params) (warmup_complete current_core_cycle : Nat)
    (e : ooo_model_instr) : ooo_model_instr :=
  { e with
    executed := INFLIGHT
    event_cycle :=
      if warmup_complete ≠ 0 then
        if e.event_cycle < current_core_cycle
        then add64 current_core_cycle P.EXEC_LATENCY
        else add64 e.event_cycle P.EXEC_LATENCY
      else
        if e.event_cycle < current_core_cycle then current_core_cycle else e.event_cycle }

/-- Line 738 of `do_execution`: `inflight_reg_executions++` on 32 bits. -/
def count_execution (s : O3_CPU) : O3_CPU :=
  { s with inflight_reg_executions := (s.inflight_reg_executions + 1) % 2 ^ 32 }

/-- Method `O3_CPU::do_execution`. -/
def do_execution (P : Params) (s : O3_CPU) (rob_it : Nat) : Outcome O3_CPU :=
  match rob_find s.ROB.entries rob_it with
  | none => .fault .undefined
  | some _ =>
    .ok (count_execution
      (update_rob s rob_it (executed_record P s.warmup_complete s.current_core_cycle)))

/-- Line 722 of `execute_instruction`: `ready_to_execute.pop()`. -/
def pop_ready (s : O3_CPU) : O3_CPU := { s with ready_to_execute := s.ready_to_execute.tail }

/-- The loop of `execute_instruction`; the numeric argument is the number of rounds
that the test `exec_issued < EXEC_WIDTH` still lets through. -/
def execute_instruction_loop (P : Params) : Nat → O3_CPU → Outcome O3_CPU
  | 0, s => .ok s
  | n + 1, s =>
    match s.ready_to_execute with
    | [] => .ok s
    | front :: _ =>
      match do_execution P s front with
      | .fault e => .fault e
      | .ok s1 => execute_instruction_loop P n (pop_ready s1)

/-- Method `O3_CPU::execute_instruction`. The counter `exec_issued` has 32 bits: a
width `EXEC_WIDTH` of `2 ^ 32` or more is never reached, and the loop then runs until
the queue is empty. -/
def execute_instruction (P : Params) (s : O3_CPU) : Outcome O3_CPU :=
  execute_instruction_loop P
    (if P.EXEC_WIDTH < 2 ^ 32 then P.EXEC_WIDTH else s.ready_to_execute.length) s

/-- Lines 1386-1404 of `complete_inflight_instruction`: the records `dependent` of the
list that are ready join `ready_to_execute`. -/
def push_ready_dependents (P : Params) : List Nat → O3_CPU → Outcome O3_CPU
  | [], s => .ok s
  | dependent :: rest, s =>
    match rob_find s.ROB.entries dependent with
    | none => .fault .undefined
    | some dep =>
      if dep.scheduled = COMPLETED ∧ dep.num_reg_dependent = 0 then
        if s.ready_to_execute.length < P.ROB_SIZE
        then push_ready_dependents P rest
          { s with ready_to_execute := s.ready_to_execute ++ [dependent] }
        else .fault .abort
      else push_ready_dependents P rest s

/-- Lines 1376-1383 of `complete_inflight_instruction`: the call of
`do_complete_execution` for the record `x` that `rob_it` points to, which the modes
`use_pcache` and `use_smm` hold back. -/
def complete_gated (P : Params) (s : O3_CPU) (rob_it : Nat) (x : ooo_model_instr) :
    Outcome O3_CPU :=
  if P.use_pcache ≠ 0 then
    if x.num_pcache_ops = 0 then do_complete_execution P s rob_it else .ok s
  else if P.use_smm ≠ 0 then
    if x.num_tsp_ops = 0 then do_complete_execution P s rob_it else .ok s
  else do_complete_execution P s rob_it

/-- Lines 1376-1405 of `complete_inflight_instruction`, for a record that passes the
test of line 1373. -/
def complete_one (P : Params) (s : O3_CPU) (rob_it : Nat) (x : ooo_model_instr) :
    Outcome O3_CPU :=
  match complete_gated P s rob_it x with
  | .fault e => .fault e
  | .ok s1 =>
    match rob_find s1.ROB.entries rob_it with
    | none => .fault .undefined
    | some x1 => push_ready_dependents P x1.registers_instrs_depend_on_me s1

/-- The loop of `complete_inflight_instruction` over the records `rob_it` of the ROB
from the oldest on; the numeric argument is `complete_bw`. -/
def complete_inflight_loop (P : Params) : List Nat → Nat → O3_CPU → Outcome O3_CPU
  | [], _, s => .ok s
  | _ :: _, 0, s => .ok s
  | rob_it :: rest, complete_bw + 1, s =>
    match rob_find s.ROB.entries rob_it with
    | none => .fault .undefined
    | some x =>
      if x.executed = INFLIGHT ∧ x.event_cycle ≤ s.current_core_cycle ∧ x.num_mem_ops = 0 then
        match complete_one P s rob_it x with
        | .fault e => .fault e
        | .ok s1 => complete_inflight_loop P rest complete_bw s1
      else complete_inflight_loop P rest (complete_bw + 1) s

/-- Method `O3_CPU::complete_inflight_instruction`. -/
def complete_inflight_instruction (P : Params) (s : O3_CPU) : Outcome O3_CPU :=
  if 0 < s.inflight_reg_executions ∨ 0 < s.inflight_mem_executions then
    complete_inflight_loop P (ids s.ROB.entries) P.EXEC_WIDTH s
  else .ok s

/-- The distinct producers that the loop of `do_scheduling` selects for the source
registers of the list, added to those of `acc`, as instruction ids in the order of
their selection. -/
def distinct_producers (rob : List ooo_model_instr) (rob_it : Nat) :
    List Nat → List Nat → List Nat
  | [], acc => acc
  | src_reg :: rest, acc =>
    if src_reg ≠ 0 then
      match reg_producer rob rob_it src_reg with
      | none => distinct_producers rob rob_it rest acc
      | some prior =>
        if prior.instr_id ∈ acc then distinct_producers rob rob_it rest acc
        else distinct_producers rob rob_it rest (acc ++ [prior.instr_id])
    else distinct_producers rob rob_it rest acc

/-- Line 691 of `do_scheduling` taken `n` times. -/
def add_reg_count (n : Nat) (e : ooo_model_instr) : ooo_model_instr :=
  { e with num_reg_dependent := e.num_reg_dependent + n }

/-- What the loop of `do_scheduling` for the record `rob_it` has done to a record of
the ROB once it has registered `rob_it` on the producers `D`. -/
def register_on (rob_it : Nat) (D : List Nat) (e : ooo_model_instr) : ooo_model_instr :=
  if e.instr_id = rob_it then add_reg_count D.length e
  else if e.instr_id ∈ D then add_reg_dependent rob_it e else e

/-- What `do_scheduling` for the record `rob_it` does to a record of the ROB, when the
distinct producers selected are `D`. -/
def scheduled_on (P : Params) (warmup_complete current_core_cycle rob_it : Nat) (D : List Nat)
    (e : ooo_model_instr) : ooo_model_instr :=
  if e.instr_id = rob_it
  then scheduled_record P warmup_complete current_core_cycle (register_on rob_it D e)
  else register_on rob_it D e

/-- The state with the records of the ROB changed by `g`. -/
def map_rob (s : O3_CPU) (g : ooo_model_instr → ooo_model_instr) : O3_CPU :=
  { s with ROB := { s.ROB with entries := s.ROB.entries.map g } }

/-! ## Concrete states: three instructions and their registers -/

/-- An instruction that writes register 7. -/
def reg_P : ooo_model_instr := { instr_id := 0, ip := 0x400000, destination_registers := [7] }

/-- An instruction that writes register 3. -/
def reg_Q : ooo_model_instr := { instr_id := 1, ip := 0x400004, destination_registers := [3] }

/-- An instruction that reads register 3, register 7 and register 3 again. -/
def reg_X : ooo_model_instr :=
  { instr_id := 2, ip := 0x400008, source_registers := [3, 7, 3, 0],
    destination_registers := [5] }

/-- The three instructions in the ROB of `core_warm`, the two older ones scheduled and
ready to execute. -/
def reg_core : O3_CPU :=
  { core_warm with
    ROB := { size := 4
             entries := [{ reg_P with scheduled := COMPLETED },
                         { reg_Q with scheduled := COMPLETED }, reg_X] }
    ready_to_execute := [0, 1] }

/-- The state `reg_core` after `do_scheduling` for instruction 2. -/
def reg_scheduled : O3_CPU := after (do_scheduling sample_params reg_core 2) reg_core

/-! ## Core: the count of register producers -/

/-- The record `p` holds the record with instruction id `id` back: `p` has not completed
and its list `registers_instrs_depend_on_me` contains the iterator `id`. -/
def holds_back (id : Nat) (p : ooo_model_instr) : Bool :=
  decide (p.executed ≠ COMPLETED ∧ id ∈ p.registers_instrs_depend_on_me)

/-- The invariant of the ROB `rob` and the queue `ready_to_execute` (`q`) under register
scheduling, execution, completion and retirement. -/
structure dep_inv (rob : List ooo_model_instr) (q : List Nat) : Prop where
  ids_nodup : (ids rob).Nodup
  younger : ∀ i p, rob.get? i = some p → ∀ d ∈ p.registers_instrs_depend_on_me,
    ∃ j y, i < j ∧ rob.get? j = some y ∧ y.instr_id = d
  lists_nodup : ∀ p ∈ rob, p.registers_instrs_depend_on_me.Nodup
  counted : ∀ x ∈ rob, x.num_reg_dependent = (rob.countP (holds_back x.instr_id) : Nat)
  unscheduled : ∀ x ∈ rob, x.scheduled = 0 →
    ∀ p ∈ rob, x.instr_id ∉ p.registers_instrs_depend_on_me
  started : ∀ x ∈ rob, x.executed ≠ 0 → x.scheduled = COMPLETED ∧ x.num_reg_dependent = 0
  queue_nodup : q.Nodup
  queued : ∀ id ∈ q, ∃ x, rob_find rob id = some x ∧ x.executed = 0 ∧
    x.scheduled = COMPLETED ∧ x.num_reg_dependent = 0

/-- The fields of a record that the invariant `dep_inv` reads. -/
def dep_view (e : ooo_model_instr) : Nat × Nat × Nat × Int × List Nat :=
  (e.instr_id, e.executed, e.scheduled, e.num_reg_dependent, e.registers_instrs_depend_on_me)

/-- What the loop of `do_complete_execution` over the dependents `L` does to a record
of the ROB. -/
def release_all (L : List Nat) (e : ooo_model_instr) : ooo_model_instr :=
  if e.instr_id ∈ L then release_dependent e else e

/-- What `do_complete_execution` for the record `rob_it`, whose dependents are `L`, does
to a record of the ROB. -/
def completed_on (rob_it : Nat) (L : List Nat) (e : ooo_model_instr) : ooo_model_instr :=
  if e.instr_id = rob_it then mark_completed e else release_all L e

/-- The invariant of a pipeline state: `dep_inv` of the ROB and the queue
`ready_to_execute`, and a ROB within its capacity, which is at most `ROB_SIZE`. -/
def reg_inv (P : Params) (s : O3_CPU) : Prop :=
  dep_inv s.ROB.entries s.ready_to_execute ∧ s.ROB.entries.length ≤ s.ROB.size ∧
    s.ROB.size ≤ P.ROB_SIZE

/-- One step of the register pipeline. A record that has not been scheduled and has no
dependency registered enters the ROB at the back, as in `dispatch_instruction`, under an
instruction id that no record of the ROB has; or one of `schedule_instruction`,
`execute_instruction`, `schedule_memory_instruction`, `complete_inflight_instruction`
and `retire_rob` returns; or another stage runs. The other stages (`operate_lsq` with
`execute_store` and `do_sq_forward_to_lq`, `handle_memory_return`) write the records of
the ROB through iterators, in fields other than those of `dep_view`: they count down
`num_mem_ops`, set `event_cycle` and the marks of the memory operands; they push and pop
no record of the ROB and leave the queue `ready_to_execute` alone. -/
inductive RegTick (P : Params) : O3_CPU → O3_CPU → Prop
  | enter (s : O3_CPU) (x : ooo_model_instr) (rob : circular_buffer ooo_model_instr) :
      x.scheduled = 0 → x.executed = 0 → x.num_reg_dependent = 0 →
      x.registers_instrs_depend_on_me = [] → x.instr_id ∉ ids s.ROB.entries →
      s.ROB.push_back x = .ok rob → RegTick P s { s with ROB := rob }
  | schedule (s s' : O3_CPU) : schedule_instruction P s = .ok s' → RegTick P s s'
  | execute (s s' : O3_CPU) : execute_instruction P s = .ok s' → RegTick P s s'
  | schedule_memory (s s' : O3_CPU) :
      schedule_memory_instruction P s = .ok s' → RegTick P s s'
  | complete (s s' : O3_CPU) : complete_inflight_instruction P s = .ok s' → RegTick P s s'
  | retire (s s' : O3_CPU) (add_wq : Nat → PACKET → Int) (log : List WqCall)
      (out : List ooo_model_instr) :
      retire_rob P s add_wq = .ok (s', log, out) → RegTick P s s'
  | other (s s' : O3_CPU) :
      s'.ROB.entries.map dep_view = s.ROB.entries.map dep_view →
      s'.ROB.size = s.ROB.size → s'.ready_to_execute = s.ready_to_execute →
      RegTick P s s'

/-- A sequence of steps of the register pipeline from `s0` to `s`. -/
inductive RegRun (P : Params) (s0 : O3_CPU) : O3_CPU → Prop
  | start : RegRun P s0 s0
  | step (s s' : O3_CPU) : RegRun P s0 s → RegTick P s s' → RegRun P s0 s'

/-! ## Concrete states: three instructions through the register pipeline -/

/-- The state after `ROB.push_back(x)`. -/
def enter_rob (s : O3_CPU) (x : ooo_model_instr) : O3_CPU :=
  { s with ROB := (s.ROB.push_back x).getD s.ROB }

/-- The instructions `reg_P`, `reg_Q` and `reg_X` in the ROB of `core_warm`. -/
def reg_entered : O3_CPU := enter_rob (enter_rob (enter_rob core_warm reg_P) reg_Q) reg_X

/-- The state `reg_entered` after `schedule_instruction`. -/
def reg_ready : O3_CPU := after (schedule_instruction sample_params reg_entered) reg_entered

/-- The state `reg_ready` after `execute_instruction`, one cycle later. -/
def reg_executing : O3_CPU :=
  { after (execute_instruction sample_params reg_ready) reg_ready with current_core_cycle := 6 }

/-- The state `reg_executing` after `complete_inflight_instruction`. -/
def reg_completed : O3_CPU :=
  after (complete_inflight_instruction sample_params reg_executing) reg_executing

/-! ## Concrete states: a store between two register instructions -/

/-- A core past warmup at cycle 5 with empty buffers, after the trace reader has met a
store under instruction id 1: the id stands at the head of the STA. -/
def mem_start : O3_CPU :=
  { lsq_start with current_core_cycle := 5
                   STA := [1, UINT64_MAX, UINT64_MAX, UINT64_MAX], STA_tail := 1 }

/-- A store to address `0x7000` that reads register 7 and writes register 3. -/
def mem_S : ooo_model_instr :=
  { instr_id := 1, ip := 0x400004, is_memory := 1, num_mem_ops := 1
    destination_memory := [0x7000], source_registers := [7], destination_registers := [3] }

/-- An instruction that reads register 3. -/
def mem_X : ooo_model_instr := { instr_id := 2, ip := 0x400008, source_registers := [3] }

/-- The instructions `reg_P`, `mem_S` and `mem_X` in the ROB of `mem_start`. -/
def mem_entered : O3_CPU := enter_rob (enter_rob (enter_rob mem_start reg_P) mem_S) mem_X

/-- The state `mem_entered` after `schedule_instruction`. -/
def mem_ready : O3_CPU := after (schedule_instruction sample_params mem_entered) mem_entered

/-- The state `mem_ready` after `execute_instruction`, one cycle later. -/
def mem_executing : O3_CPU :=
  { after (execute_instruction sample_params mem_ready) mem_ready with current_core_cycle := 6 }

/-- The state `mem_executing` after `complete_inflight_instruction`: `reg_P` has
completed and the store waits for no register. -/
def mem_released : O3_CPU :=
  after (complete_inflight_instruction sample_params mem_executing) mem_executing

/-- The state `mem_released` after `schedule_memory_instruction`: the store is in the
store queue and has started. -/
def mem_admitted : O3_CPU :=
  after (schedule_memory_instruction sample_params mem_released) mem_released

/-- The state `mem_admitted` after the translation of the store. -/
def mem_translated : O3_CPU := store_translated mem_admitted 0 0x9000

/-- The state `mem_translated` after `execute_store` of the store. -/
def mem_stored : O3_CPU := after (execute_store sample_params mem_translated 0) mem_translated

/-- The state `mem_stored` after `complete_inflight_instruction`: the store has
completed. -/
def mem_completed : O3_CPU :=
  after (complete_inflight_instruction sample_params mem_stored) mem_stored

/-- The result of `retire_rob` on `mem_completed`. -/
def mem_retired : O3_CPU × List WqCall × List ooo_model_instr :=
  (retire_rob sample_params mem_completed wq_accept).getD (mem_completed, [], [])

/-! ## Concrete states: three completed records and a retire width of one -/

/-- The constants of `sample_params` with `RETIRE_WIDTH = 1`. -/
def narrow_params : Params := { sample_params with RETIRE_WIDTH := 1 }

/-- A core whose ROB holds three records, all with `executed == COMPLETED`. -/
def core_three : O3_CPU :=
  { core_warm with
    completed_executions := 3
    ROB := { size := 4, entries :=
      [{ instr_id := 0, ip := 0x400000, scheduled := COMPLETED, executed := COMPLETED },
       { instr_id := 1, ip := 0x400004, scheduled := COMPLETED, executed := COMPLETED },
       { instr_id := 2, ip := 0x400008, scheduled := COMPLETED, executed := COMPLETED }] } }

/-- The result of `retire_rob` on `core_three` with `RETIRE_WIDTH = 1`. -/
def core_three_retired : O3_CPU × List WqCall × List ooo_model_instr :=
  (retire_rob narrow_params core_three wq_accept).getD (core_three, [], [])

/-! ## Examples: the layout of the flat-segment mode -/

/-- Flat-segment mode with a heap region of 992 MiB and three regions of 4096 bytes. -/
def big_heap : Globals :=
  { use_pcache := 1, code_size := 4096, heap_size := 0x3e000000, mmap_size := 4096,
    stack_size := 4096 }

/-- The translator that `setup_pcache` leaves for `big_heap` and 1 GiB of memory. -/
def layout_big_heap : VirtualMemory := (setup_pcache 12 big_heap vm_1GiB).getD vm_1GiB

/-- Flat-segment mode with an mmap region of 6144 bytes, one page and a half, and three
regions of 4096 bytes. -/
def odd_mmap : Globals :=
  { use_pcache := 1, code_size := 4096, heap_size := 4096, mmap_size := 0x1800,
    stack_size := 4096 }

/-- The translator that `setup_pcache` leaves for `odd_mmap` and 1 GiB of memory. -/
def layout_odd_mmap : VirtualMemory := (setup_pcache 12 odd_mmap vm_1GiB).getD vm_1GiB

/-- The branch of `pcache_va_to_pa` that decides for `vaddr`: 0 for code, 1 for heap, 2
for mmap, 3 for stack, `none` for the branch that exits. -/
def pcache_segment (vm : VirtualMemory) (vaddr : Nat) : Option Nat :=
  if vaddr ≥ vm.code_virt_start ∧ vaddr < vm.code_virt_end then some 0
  else if vaddr ≥ vm.heap_virt_start ∧ vaddr < vm.heap_virt_end then some 1
  else if vaddr ≥ vm.mmap_virt_start ∧ vaddr < vm.mmap_virt_end then some 2
  else if vaddr ≥ vm.stack_virt_start ∧ vaddr < vm.stack_virt_end then some 3
  else none

/-! ## Core: the register scan of `init_instruction` -/

/-- The only fields of the record that the two operand loops of `init_instruction`
write: the four counters of operands. -/
def operand_counts (a a' : ooo_model_instr) : Prop :=
  a' = { a with num_reg_ops := a'.num_reg_ops, num_mem_ops := a'.num_mem_ops
                num_tsp_ops := a'.num_tsp_ops, num_pcache_ops := a'.num_pcache_ops }

/-- Some destination register among the first `MAX_INSTR_DESTINATIONS` is `reg`. -/
def writes_reg (P : Params) (a : ooo_model_instr) (reg : Nat) : Bool :=
  (List.range P.MAX_INSTR_DESTINATIONS).any fun i => a.destination_registers.getD i 0 == reg

/-- Some source register among the first `NUM_INSTR_SOURCES` is `reg`. -/
def reads_reg (P : Params) (a : ooo_model_instr) (reg : Nat) : Bool :=
  (List.range P.NUM_INSTR_SOURCES).any fun i => a.source_registers.getD i 0 == reg

/-- The register `d` is none of 0, the stack pointer, the flags and the instruction
pointer. -/
def other_reg (P : Params) (d : Nat) : Bool :=
  d != 0 && d != P.REG_STACK_POINTER && d != P.REG_FLAGS && d != P.REG_INSTRUCTION_POINTER

/-- Some source register among the first `NUM_INSTR_SOURCES` is none of 0, the stack
pointer, the flags and the instruction pointer. -/
def reads_other_reg (P : Params) (a : ooo_model_instr) : Bool :=
  (List.range P.NUM_INSTR_SOURCES).any fun i => other_reg P (a.source_registers.getD i 0)

/-- The registers that the instruction reads and writes, as the two operand loops of
`init_instruction` find them. -/
def scan_registers (P : Params) (a : ooo_model_instr) : RegScan :=
  { reads_sp := reads_reg P a P.REG_STACK_POINTER
    writes_sp := writes_reg P a P.REG_STACK_POINTER
    reads_flags := reads_reg P a P.REG_FLAGS
    reads_ip := reads_reg P a P.REG_INSTRUCTION_POINTER
    writes_ip := writes_reg P a P.REG_INSTRUCTION_POINTER
    reads_other := reads_other_reg P a }

/-- The number of positions of the list at which the array holds a non-zero value. -/
def count_set (l : List Nat) (arr : List Nat) : Nat := l.countP fun i => arr.getD i 0 != 0

/-- The number of destination registers among the first `MAX_INSTR_DESTINATIONS` that
are the stack pointer. -/
def count_sp (P : Params) (a : ooo_model_instr) : Nat :=
  (List.range P.MAX_INSTR_DESTINATIONS).countP
    fun i => a.destination_registers.getD i 0 == P.REG_STACK_POINTER

/-- The register constants are non-zero and pairwise different, as the labels of the
two `switch` statements of `init_instruction` have to be. -/
def distinct_registers (P : Params) : Prop :=
  P.REG_STACK_POINTER ≠ 0 ∧ P.REG_FLAGS ≠ 0 ∧ P.REG_INSTRUCTION_POINTER ≠ 0 ∧
  P.REG_STACK_POINTER ≠ P.REG_FLAGS ∧ P.REG_STACK_POINTER ≠ P.REG_INSTRUCTION_POINTER ∧
  P.REG_FLAGS ≠ P.REG_INSTRUCTION_POINTER

/-- A push: writes the stack pointer and a memory operand, reads the stack pointer and
register 3. -/
def push_A : ooo_model_instr :=
  { ip := 0x400020, destination_registers := [6], source_registers := [6, 3]
    destination_memory := [0x7ffe0] }

/-- The push read by `init_instruction` past warmup. -/
def push_read : O3_CPU :=
  after_init (init_instruction sample_params core_warm push_A (0, 0) 0) core_warm

/-! ## Core: the decoded-instruction buffer -/

/-- The index of the DIB set of `ip`: `(ip >> LOG2_DIB_WINDOW_SIZE) % DIB_SET`. -/
def dib_index (P : Params) (ip : Nat) : Nat := (ip >>> P.LOG2_DIB_WINDOW_SIZE) % P.DIB_SET

/-- The valid bit and the address of every way of a set: what a lookup reads. -/
def dib_tags (dib_set : List dib_entry_t) : List (Bool × Nat) :=
  dib_set.map fun w => (w.valid, w.address)

/-- The set holds a valid way whose address lies in the aligned window of `ip`. -/
def holds_window (shamt ip : Nat) (dib_set : List dib_entry_t) : Prop :=
  ∃ w ∈ dib_set, w.valid = true ∧ w.address >>> shamt = ip >>> shamt

/-- Some valid tag of the list lies in the aligned window of `ip`. -/
def tags_hold (shamt ip : Nat) (tags : List (Bool × Nat)) : Prop :=
  ∃ t ∈ tags, t.1 = true ∧ t.2 >>> shamt = ip >>> shamt

/-- The set of `ip` exists and holds the window of `ip`. -/
def window_cached (P : Params) (s : O3_CPU) (ip : Nat) : Prop :=
  ∃ dib_set, s.DIB.get? (dib_index P ip) = some dib_set ∧
    holds_window P.LOG2_DIB_WINDOW_SIZE ip dib_set

/-- No two ways of the set are valid for the same aligned window. -/
def unique_windows (shamt : Nat) (dib_set : List dib_entry_t) : Prop :=
  (dib_tags dib_set).Pairwise fun a b =>
    ¬(a.1 = true ∧ b.1 = true ∧ a.2 >>> shamt = b.2 >>> shamt)

/-- The record that `do_check_dib` leaves on a hit. -/
def dib_hit_record (instr : ooo_model_instr) (cycle : Nat) : ooo_model_instr :=
  { instr with
    translated := COMPLETED, fetched := COMPLETED, decoded := COMPLETED, event_cycle := cycle }

/-- A way of the set other than the victim holds the window of `ip`. -/
def kept_by_victim (shamt ip : Nat) (dib_set : List dib_entry_t) : Prop :=
  ∃ way w, way ≠ dib_victim dib_set ∧ dib_set.get? way = some w ∧ w.valid = true ∧
    w.address >>> shamt = ip >>> shamt

/-- The calls that write the DIB, `do_check_dib` and `do_dib_update`, and the steps of
the other stages, which leave it alone, in any order. -/
inductive DibRun (P : Params) : O3_CPU → O3_CPU → Prop
  | start (s : O3_CPU) : DibRun P s s
  | check (s t t' : O3_CPU) (pos : Nat) :
    DibRun P s t → do_check_dib P t pos = .ok t' → DibRun P s t'
  | update (s t t' : O3_CPU) (k : ooo_model_instr) :
    DibRun P s t → do_dib_update P t k = .ok t' → DibRun P s t'
  | other (s t t' : O3_CPU) : DibRun P s t → t'.DIB = t.DIB → DibRun P s t'

/-- The runs of `DibRun` in which no `do_dib_update` evicts the window of `ip`: every
update hits, or addresses another set, or installs the window of `ip` itself, or finds
the window of `ip` in a way that is not the victim. -/
inductive DibKeeps (P : Params) (ip : Nat) : O3_CPU → O3_CPU → Prop
  | start (s : O3_CPU) : DibKeeps P ip s s
  | check (s t t' : O3_CPU) (pos : Nat) :
    DibKeeps P ip s t → do_check_dib P t pos = .ok t' → DibKeeps P ip s t'
  | update (s t t' : O3_CPU) (k : ooo_model_instr) :
    DibKeeps P ip s t → do_dib_update P t k = .ok t' →
    (window_cached P t k.ip ∨ dib_index P k.ip ≠ dib_index P ip ∨
      k.ip >>> P.LOG2_DIB_WINDOW_SIZE = ip >>> P.LOG2_DIB_WINDOW_SIZE ∨
      ∃ dib_set, t.DIB.get? (dib_index P ip) = some dib_set ∧
        kept_by_victim P.LOG2_DIB_WINDOW_SIZE ip dib_set) →
    DibKeeps P ip s t'
  | other (s t t' : O3_CPU) : DibKeeps P ip s t → t'.DIB = t.DIB → DibKeeps P ip s t'

/-- A core past warmup with an empty DIB of two sets with two ways of ranks 0 and 1, and
a fetch buffer that holds an instruction of the window of `0x400020` and one of the
window of `0x400000`. -/
def dib_ranked : O3_CPU :=
  { core_warm with
    DIB := [[{}, { lru := 1 }], [{}, { lru := 1 }]]
    IFETCH_BUFFER := { size := 4, entries := [{ ip := 0x400024 }, { ip := 0x400008 }] } }

/-- An instruction of the window of `0x400020`. -/
def dib_B : ooo_model_instr := { ip := 0x400020 }

/-- An instruction of the window of `0x400000`. -/
def dib_A : ooo_model_instr := { ip := 0x400000 }

/-- An instruction of the window of `0x400040`. -/
def dib_C : ooo_model_instr := { ip := 0x400040 }

/-- The DIB after the decode of `dib_B`. -/
def dib_after_B : O3_CPU := after (do_dib_update sample_params dib_ranked dib_B) dib_ranked

/-- The DIB after the decode of `dib_B` and `dib_A`. -/
def dib_after_A : O3_CPU := after (do_dib_update sample_params dib_after_B dib_A) dib_after_B

/-- The state after a hit of the first record of the fetch buffer, which lies in the
window of `dib_B`. -/
def dib_after_hit : O3_CPU := after (do_check_dib sample_params dib_after_A 0) dib_after_A

/-- The state after the decode of `dib_C`. -/
def dib_after_C : O3_CPU :=
  after (do_dib_update sample_params dib_after_hit dib_C) dib_after_hit

/-! ## Core: execution and completion of register instructions -/

/-- What `complete_inflight_instruction` in cycle `cycle` may do to a record, as far as
execution goes: the id, the event cycle and the count of memory operands stay, and the
flag `executed` stays or becomes `COMPLETED` for a record that was `INFLIGHT` with an
event cycle that has passed and no memory operand left. -/
def completes (cycle : Nat) (e e' : ooo_model_instr) : Prop :=
  e'.instr_id = e.instr_id ∧ e'.event_cycle = e.event_cycle ∧
  e'.num_mem_ops = e.num_mem_ops ∧
  (e'.executed = e.executed ∨
    (e'.executed = COMPLETED ∧ e.executed = INFLIGHT ∧ e.event_cycle ≤ cycle ∧
      e.num_mem_ops = 0))

/-- The fields of a record that the completion test reads: the release of a dependent
writes none of them. -/
def exec_fields (e e' : ooo_model_instr) : Prop :=
  e'.instr_id = e.instr_id ∧ e'.event_cycle = e.event_cycle ∧
  e'.num_mem_ops = e.num_mem_ops ∧ e'.executed = e.executed

/-! # Theorems -/

/-! ## Lemmas: masks and alignment -/

theorem land_high_mask (y L : Nat) (hy : y < 2 ^ 64) (hL : L ≤ 64) :
    y &&& (2 ^ 64 - 1 - (2 ^ L - 1)) = y / 2 ^ L * 2 ^ L := by
  have hm : 2 ^ 64 - 1 - (2 ^ L - 1) = 2 ^ L * (2 ^ (64 - L) - 1) := by
    have h1 : 2 ^ L * 2 ^ (64 - L) = 2 ^ 64 := by rw [← pow_add]; congr 1; omega
    have h2 : 1 ≤ 2 ^ L := Nat.one_le_two_pow
    have h3 : 1 ≤ 2 ^ (64 - L) := Nat.one_le_two_pow
    rw [Nat.mul_sub, h1]; omega
  rw [hm, Nat.mul_comm (y / 2 ^ L)]
  apply Nat.eq_of_testBit_eq
  intro i
  rw [Nat.testBit_and, Nat.testBit_mul_pow_two, Nat.testBit_mul_pow_two,
    Nat.testBit_two_pow_sub_one, ← Nat.shiftRight_eq_div_pow, Nat.testBit_shiftRight]
  by_cases hi : i ≥ L
  · have e : L + (i - L) = i := by omega
    rw [e]
    by_cases h64 : i < 64
    · have : i - L < 64 - L := by omega
      simp [hi, this]
    · have hf : y.testBit i = false := by
        apply Nat.testBit_eq_false_of_lt
        calc y < 2 ^ 64 := hy
          _ ≤ 2 ^ i := Nat.pow_le_pow_right (by norm_num) (by omega)
      simp [hf]
  · simp [hi]

theorem add64_lt (a b : Nat) : add64 a b < 2 ^ 64 := by
  unfold add64; exact Nat.mod_lt _ (by positivity)

theorem sub64_lt (a b : Nat) : sub64 a b < 2 ^ 64 := by
  unfold sub64; exact Nat.mod_lt _ (by positivity)

theorem add64_eq (a b : Nat) (h : a + b < 2 ^ 64) : add64 a b = a + b := by
  unfold add64; exact Nat.mod_eq_of_lt h

theorem sub64_eq (a b : Nat) (hb : b ≤ a) (ha : a < 2 ^ 64) : sub64 a b = a - b := by
  unfold sub64
  have : a + 2 ^ 64 - b = (a - b) + 2 ^ 64 := by omega
  rw [this, Nat.add_mod_right]
  exact Nat.mod_eq_of_lt (by omega)

/-- The macro in arithmetic form: add the mask, then round down to a page boundary. -/
theorem PAGE_ALIGN_eq_div (L x : Nat) (hL : L ≤ 64) :
    PAGE_ALIGN L x = add64 x (2 ^ L - 1) / 2 ^ L * 2 ^ L := by
  unfold PAGE_ALIGN ALIGN_KERNEL_MASK PAGE_SIZE
  exact land_high_mask _ L (add64_lt _ _) hL

theorem PAGE_ALIGN_dvd (L x : Nat) (hL : L ≤ 64) : 2 ^ L ∣ PAGE_ALIGN L x := by
  rw [PAGE_ALIGN_eq_div L x hL]; exact Nat.dvd_mul_left _ _

theorem PAGE_ALIGN_lt (L x : Nat) (hL : L ≤ 64) : PAGE_ALIGN L x < 2 ^ 64 := by
  rw [PAGE_ALIGN_eq_div L x hL]
  exact lt_of_le_of_lt (Nat.div_mul_le_self _ _) (add64_lt _ _)

theorem PAGE_ALIGN_ge (L x : Nat) (hL : L ≤ 64) (hx : x + (2 ^ L - 1) < 2 ^ 64) :
    x ≤ PAGE_ALIGN L x := by
  rw [PAGE_ALIGN_eq_div L x hL, add64_eq _ _ hx]
  have hp : 0 < 2 ^ L := by positivity
  have h1 := Nat.div_add_mod (x + (2 ^ L - 1)) (2 ^ L)
  have h2 := Nat.mod_lt (x + (2 ^ L - 1)) hp
  rw [Nat.mul_comm] at h1
  omega

theorem PAGE_ALIGN_le (L x : Nat) (hL : L ≤ 64) (hx : x + (2 ^ L - 1) < 2 ^ 64) :
    PAGE_ALIGN L x ≤ x + (2 ^ L - 1) := by
  rw [PAGE_ALIGN_eq_div L x hL, add64_eq _ _ hx]
  exact Nat.div_mul_le_self _ _

theorem PAGE_ALIGN_least (L x y : Nat) (hL : L ≤ 64) (hx : x + (2 ^ L - 1) < 2 ^ 64)
    (hy : 2 ^ L ∣ y) (hxy : x ≤ y) : PAGE_ALIGN L x ≤ y := by
  rw [PAGE_ALIGN_eq_div L x hL, add64_eq _ _ hx]
  obtain ⟨k, rfl⟩ := hy
  have hp : 0 < 2 ^ L := by positivity
  rw [Nat.mul_comm (2 ^ L) k]
  apply Nat.mul_le_mul_right
  rw [Nat.div_le_iff_le_mul_add_pred hp]
  rw [Nat.mul_comm] at hxy
  rw [Nat.mul_comm]
  omega

/-- What an accepted `setup_pcache` call in flat-segment mode leaves in each field. -/
theorem setup_pcache_fields (L : Nat) (g : Globals) (vm vm' : VirtualMemory)
    (hp : g.use_pcache ≠ 0) (h : setup_pcache L g vm = .ok vm') :
    vm'.pmem_size = vm.pmem_size ∧
    vm'.ptable_start = 0x2000 ∧ vm'.ptable_size = vm.pmem_size / PAGE_SIZE L ∧
    vm'.code_virt_start = 0 ∧ vm'.code_virt_end = g.code_size ∧
    vm'.code_phys_start = PAGE_ALIGN L vm'.ptable_size ∧
    vm'.code_phys_end = add64 vm'.code_phys_start g.code_size ∧
    vm'.heap_virt_start = 0x555555554000 ∧
    vm'.heap_virt_end = add64 0x555555554000 g.heap_size ∧
    vm'.heap_phys_start = PAGE_ALIGN L vm'.code_phys_end ∧
    vm'.heap_phys_end = add64 vm'.heap_phys_start g.heap_size ∧
    vm'.mmap_virt_end = 0x7ffff8000000 ∧
    vm'.mmap_virt_start = sub64 0x7ffff8000000 g.mmap_size ∧
    vm'.mmap_phys_start = PAGE_ALIGN L vm'.heap_phys_end ∧
    vm'.mmap_phys_end = add64 vm'.mmap_phys_start g.mmap_size ∧
    vm'.stack_virt_end = 0x7ffffffff000 ∧
    vm'.stack_virt_start = sub64 0x7ffffffff000 g.stack_size ∧
    vm'.stack_phys_start = PAGE_ALIGN L vm'.mmap_phys_end ∧
    vm'.stack_phys_end = add64 vm'.stack_phys_start g.stack_size ∧
    vm'.stack_phys_end ≤ vm.pmem_size := by
  unfold setup_pcache at h
  simp only [hp, ne_eq, not_false_eq_true, if_true] at h
  split at h
  · exact absurd h (by simp)
  · rename_i hle
    injection h with h
    subst h
    simp only [true_and]
    exact Nat.le_of_not_gt hle

theorem ranges_disjoint_of_le (a b c d : Nat) (h : b ≤ c) : ranges_disjoint a b c d := by
  intro x hx
  unfold in_range at hx
  omega

/-- C9: after an accepted `setup_pcache` with sizes that keep every 64-bit addition
from wrapping, the four physical starts are multiples of `PAGE_SIZE`, every range has
its configured size, the ranges follow each other in the order code, heap, mmap, stack
(so they are pairwise disjoint), and each later start is the least page-aligned
address at or above the end of the range before it. -/
theorem setup_pcache_phys_layout (L : Nat) (g : Globals) (vm vm' : VirtualMemory)
    (hL : L ≤ 64) (hp : g.use_pcache ≠ 0) (h : setup_pcache L g vm = .ok vm')
    (hsz : vm.pmem_size / PAGE_SIZE L + g.code_size + g.heap_size + g.mmap_size
            + g.stack_size + 4 * (PAGE_SIZE L - 1) < 2 ^ 64) :
    (PAGE_SIZE L ∣ vm'.code_phys_start ∧ PAGE_SIZE L ∣ vm'.heap_phys_start ∧
      PAGE_SIZE L ∣ vm'.mmap_phys_start ∧ PAGE_SIZE L ∣ vm'.stack_phys_start) ∧
    (vm'.code_phys_end = vm'.code_phys_start + g.code_size ∧
      vm'.heap_phys_end = vm'.heap_phys_start + g.heap_size ∧
      vm'.mmap_phys_end = vm'.mmap_phys_start + g.mmap_size ∧
      vm'.stack_phys_end = vm'.stack_phys_start + g.stack_size) ∧
    (vm'.code_phys_end ≤ vm'.heap_phys_start ∧ vm'.heap_phys_end ≤ vm'.mmap_phys_start ∧
      vm'.mmap_phys_end ≤ vm'.stack_phys_start) ∧
    phys_ranges_disjoint vm' ∧
    (∀ a, PAGE_SIZE L ∣ a → vm'.code_phys_end ≤ a → vm'.heap_phys_start ≤ a) ∧
    (∀ a, PAGE_SIZE L ∣ a → vm'.heap_phys_end ≤ a → vm'.mmap_phys_start ≤ a) ∧
    (∀ a, PAGE_SIZE L ∣ a → vm'.mmap_phys_end ≤ a → vm'.stack_phys_start ≤ a) := by
  obtain ⟨-, -, hpt, -, -, hcs, hce, -, -, hhs, hhe, -, -, hms, hme, -, -, hss, hse, -⟩ :=
    setup_pcache_fields L g vm vm' hp h
  rw [← hpt] at hsz
  unfold PAGE_SIZE at hsz ⊢
  -- walk down the layout, one range at a time
  have c1 : vm'.ptable_size + (2 ^ L - 1) < 2 ^ 64 := by omega
  have c2 := PAGE_ALIGN_le L _ hL c1
  have c3 := PAGE_ALIGN_ge L _ hL c1
  rw [← hcs] at c2 c3
  have c4 : vm'.code_phys_end = vm'.code_phys_start + g.code_size := by
    rw [hce]; exact add64_eq _ _ (by omega)
  have d1 : vm'.code_phys_end + (2 ^ L - 1) < 2 ^ 64 := by omega
  have d2 := PAGE_ALIGN_le L _ hL d1
  have d3 := PAGE_ALIGN_ge L _ hL d1
  rw [← hhs] at d2 d3
  have d4 : vm'.heap_phys_end = vm'.heap_phys_start + g.heap_size := by
    rw [hhe]; exact add64_eq _ _ (by omega)
  have e1 : vm'.heap_phys_end + (2 ^ L - 1) < 2 ^ 64 := by omega
  have e2 := PAGE_ALIGN_le L _ hL e1
  have e3 := PAGE_ALIGN_ge L _ hL e1
  rw [← hms] at e2 e3
  have e4 : vm'.mmap_phys_end = vm'.mmap_phys_start + g.mmap_size := by
    rw [hme]; exact add64_eq _ _ (by omega)
  have f1 : vm'.mmap_phys_end + (2 ^ L - 1) < 2 ^ 64 := by omega
  have f2 := PAGE_ALIGN_le L _ hL f1
  have f3 := PAGE_ALIGN_ge L _ hL f1
  rw [← hss] at f2 f3
  have f4 : vm'.stack_phys_end = vm'.stack_phys_start + g.stack_size := by
    rw [hse]; exact add64_eq _ _ (by omega)
  refine ⟨⟨?_, ?_, ?_, ?_⟩, ⟨c4, d4, e4, f4⟩, ⟨d3, e3, f3⟩, ?_, ?_, ?_, ?_⟩
  · rw [hcs]; exact PAGE_ALIGN_dvd L _ hL
  · rw [hhs]; exact PAGE_ALIGN_dvd L _ hL
  · rw [hms]; exact PAGE_ALIGN_dvd L _ hL
  · rw [hss]; exact PAGE_ALIGN_dvd L _ hL
  · unfold phys_ranges_disjoint
    refine ⟨?_, ?_, ?_, ?_, ?_, ?_⟩ <;> apply ranges_disjoint_of_le <;> omega
  · intro a ha hle; rw [hhs]; exact PAGE_ALIGN_least L _ a hL d1 ha hle
  · intro a ha hle; rw [hms]; exact PAGE_ALIGN_least L _ a hL e1 ha hle
  · intro a ha hle; rw [hss]; exact PAGE_ALIGN_least L _ a hL f1 ha hle

theorem add64_sub64 (a v s : Nat) (h : s ≤ v) :
    add64 a (sub64 v s) = (a + (v - s)) % 2 ^ 64 := by
  unfold add64 sub64
  have : v + 2 ^ 64 - s = (v - s) + 2 ^ 64 := by omega
  rw [this, Nat.add_mod_right, Nat.add_mod_mod]

theorem pcache_va_to_pa_code (vm : VirtualMemory) (cpu vaddr : Nat)
    (h : in_range vm.code_virt_start vm.code_virt_end vaddr) :
    pcache_va_to_pa vm cpu vaddr
      = .ok ((vm.code_phys_start + (vaddr - vm.code_virt_start)) % 2 ^ 64) := by
  unfold in_range at h
  unfold pcache_va_to_pa
  rw [if_pos ⟨h.1, h.2⟩, add64_sub64 _ _ _ h.1]

theorem pcache_va_to_pa_heap (vm : VirtualMemory) (cpu vaddr : Nat)
    (hc : ¬ in_range vm.code_virt_start vm.code_virt_end vaddr)
    (h : in_range vm.heap_virt_start vm.heap_virt_end vaddr) :
    pcache_va_to_pa vm cpu vaddr
      = .ok ((vm.heap_phys_start + (vaddr - vm.heap_virt_start)) % 2 ^ 64) := by
  unfold in_range at h hc
  unfold pcache_va_to_pa
  rw [if_neg hc, if_pos ⟨h.1, h.2⟩, add64_sub64 _ _ _ h.1]

theorem pcache_va_to_pa_mmap (vm : VirtualMemory) (cpu vaddr : Nat)
    (hc : ¬ in_range vm.code_virt_start vm.code_virt_end vaddr)
    (hh : ¬ in_range vm.heap_virt_start vm.heap_virt_end vaddr)
    (h : in_range vm.mmap_virt_start vm.mmap_virt_end vaddr) :
    pcache_va_to_pa vm cpu vaddr
      = .ok ((vm.mmap_phys_start + (vaddr - vm.mmap_virt_start)) % 2 ^ 64) := by
  unfold in_range at h hc hh
  unfold pcache_va_to_pa
  rw [if_neg hc, if_neg hh, if_pos ⟨h.1, h.2⟩, add64_sub64 _ _ _ h.1]

theorem pcache_va_to_pa_stack (vm : VirtualMemory) (cpu vaddr : Nat)
    (hc : ¬ in_range vm.code_virt_start vm.code_virt_end vaddr)
    (hh : ¬ in_range vm.heap_virt_start vm.heap_virt_end vaddr)
    (hm : ¬ in_range vm.mmap_virt_start vm.mmap_virt_end vaddr)
    (h : in_range vm.stack_virt_start vm.stack_virt_end vaddr) :
    pcache_va_to_pa vm cpu vaddr
      = .ok ((vm.stack_phys_start + (vaddr - vm.stack_virt_start)) % 2 ^ 64) := by
  unfold in_range at h hc hh hm
  unfold pcache_va_to_pa
  rw [if_neg hc, if_neg hh, if_neg hm, if_pos ⟨h.1, h.2⟩, add64_sub64 _ _ _ h.1]

theorem pcache_va_to_pa_outside (vm : VirtualMemory) (cpu vaddr : Nat)
    (h : ¬ in_some_virt_range vm vaddr) :
    pcache_va_to_pa vm cpu vaddr = .fault .exit := by
  unfold in_some_virt_range in_range at h
  unfold pcache_va_to_pa
  push_neg at h
  obtain ⟨hc, hh, hm, hs⟩ := h
  rw [if_neg (by omega), if_neg (by omega), if_neg (by omega), if_neg (by omega)]

/-- C7: after an accepted `setup_pcache` in flat-segment mode whose four virtual
ranges do not overlap, every address of a segment is translated by that segment's
constant offset, `S_phys_start + (vaddr - S_virt_start)` in 64-bit arithmetic; and
with all four sizes 4096 the address `heap_virt_start + 10` maps to
`heap_phys_start + 10`. -/
theorem pcache_va_to_pa_segment_offset (L : Nat) (g : Globals) (vm vm' : VirtualMemory)
    (hp : g.use_pcache ≠ 0) (h : setup_pcache L g vm = .ok vm') :
    (virt_ranges_disjoint vm' → ∀ cpu vaddr,
      (in_range vm'.code_virt_start vm'.code_virt_end vaddr →
        pcache_va_to_pa vm' cpu vaddr
          = .ok ((vm'.code_phys_start + (vaddr - vm'.code_virt_start)) % 2 ^ 64)) ∧
      (in_range vm'.heap_virt_start vm'.heap_virt_end vaddr →
        pcache_va_to_pa vm' cpu vaddr
          = .ok ((vm'.heap_phys_start + (vaddr - vm'.heap_virt_start)) % 2 ^ 64)) ∧
      (in_range vm'.mmap_virt_start vm'.mmap_virt_end vaddr →
        pcache_va_to_pa vm' cpu vaddr
          = .ok ((vm'.mmap_phys_start + (vaddr - vm'.mmap_virt_start)) % 2 ^ 64)) ∧
      (in_range vm'.stack_virt_start vm'.stack_virt_end vaddr →
        pcache_va_to_pa vm' cpu vaddr
          = .ok ((vm'.stack_phys_start + (vaddr - vm'.stack_virt_start)) % 2 ^ 64))) ∧
    (g.code_size = 4096 → g.heap_size = 4096 → g.mmap_size = 4096 → g.stack_size = 4096 →
      4 ≤ L → L ≤ 64 → ∀ cpu,
        pcache_va_to_pa vm' cpu (vm'.heap_virt_start + 10) = .ok (vm'.heap_phys_start + 10)) := by
  constructor
  · intro hd cpu vaddr
    obtain ⟨d1, d2, d3, d4, d5, d6⟩ := hd
    refine ⟨pcache_va_to_pa_code vm' cpu vaddr, ?_, ?_, ?_⟩
    · intro hin
      exact pcache_va_to_pa_heap vm' cpu vaddr (fun hc => d1 vaddr ⟨hc, hin⟩) hin
    · intro hin
      exact pcache_va_to_pa_mmap vm' cpu vaddr (fun hc => d2 vaddr ⟨hc, hin⟩)
        (fun hc => d4 vaddr ⟨hc, hin⟩) hin
    · intro hin
      exact pcache_va_to_pa_stack vm' cpu vaddr (fun hc => d3 vaddr ⟨hc, hin⟩)
        (fun hc => d5 vaddr ⟨hc, hin⟩) (fun hc => d6 vaddr ⟨hc, hin⟩) hin
  · intro hc hh hm hs h4 hL cpu
    obtain ⟨-, -, -, hcvs, hcve, -, -, hhvs, hhve, hhs, -⟩ := setup_pcache_fields L g vm vm' hp h
    have hnc : ¬ in_range vm'.code_virt_start vm'.code_virt_end (vm'.heap_virt_start + 10) := by
      unfold in_range; rw [hcve, hhvs, hc]; omega
    have hin : in_range vm'.heap_virt_start vm'.heap_virt_end (vm'.heap_virt_start + 10) := by
      unfold in_range; rw [hhve, hhvs, hh]; unfold add64; omega
    rw [pcache_va_to_pa_heap vm' cpu _ hnc hin]
    have hdvd : 2 ^ L ∣ vm'.heap_phys_start := by rw [hhs]; exact PAGE_ALIGN_dvd L _ hL
    have hlt : vm'.heap_phys_start < 2 ^ 64 := by rw [hhs]; exact PAGE_ALIGN_lt L _ hL
    have h16 : (16 : Nat) ∣ vm'.heap_phys_start :=
      Nat.dvd_trans (by
        have : (16 : Nat) = 2 ^ 4 := by norm_num
        rw [this]; exact Nat.pow_dvd_pow 2 h4) hdvd
    have : vm'.heap_phys_start + (vm'.heap_virt_start + 10 - vm'.heap_virt_start)
        = vm'.heap_phys_start + 10 := by omega
    rw [this, Nat.mod_eq_of_lt (by omega)]

/-- C8: `pcache_va_to_pa` returns an address exactly for the addresses of the four
half-open virtual ranges and ends in the fatal exit for every other address; the end
of the stack range, and the byte after it, are such addresses whenever the code, heap
and mmap ranges do not reach them. -/
theorem pcache_va_to_pa_returns_iff (vm : VirtualMemory) (cpu vaddr : Nat) :
    ((∃ pa, pcache_va_to_pa vm cpu vaddr = .ok pa) ↔ in_some_virt_range vm vaddr) ∧
    (¬ in_some_virt_range vm vaddr → pcache_va_to_pa vm cpu vaddr = .fault .exit) ∧
    (¬ in_range vm.code_virt_start vm.code_virt_end vm.stack_virt_end →
      ¬ in_range vm.heap_virt_start vm.heap_virt_end vm.stack_virt_end →
      ¬ in_range vm.mmap_virt_start vm.mmap_virt_end vm.stack_virt_end →
        pcache_va_to_pa vm cpu vm.stack_virt_end = .fault .exit) ∧
    (¬ in_range vm.code_virt_start vm.code_virt_end (vm.stack_virt_end + 1) →
      ¬ in_range vm.heap_virt_start vm.heap_virt_end (vm.stack_virt_end + 1) →
      ¬ in_range vm.mmap_virt_start vm.mmap_virt_end (vm.stack_virt_end + 1) →
        pcache_va_to_pa vm cpu (vm.stack_virt_end + 1) = .fault .exit) := by
  refine ⟨⟨?_, ?_⟩, pcache_va_to_pa_outside vm cpu vaddr, ?_, ?_⟩
  · rintro ⟨pa, hpa⟩
    by_contra hout
    rw [pcache_va_to_pa_outside vm cpu vaddr hout] at hpa
    exact absurd hpa (by simp)
  · intro hin
    by_cases hc : in_range vm.code_virt_start vm.code_virt_end vaddr
    · exact ⟨_, pcache_va_to_pa_code vm cpu vaddr hc⟩
    by_cases hh : in_range vm.heap_virt_start vm.heap_virt_end vaddr
    · exact ⟨_, pcache_va_to_pa_heap vm cpu vaddr hc hh⟩
    by_cases hm : in_range vm.mmap_virt_start vm.mmap_virt_end vaddr
    · exact ⟨_, pcache_va_to_pa_mmap vm cpu vaddr hc hh hm⟩
    have hs : in_range vm.stack_virt_start vm.stack_virt_end vaddr := by
      unfold in_some_virt_range at hin; tauto
    exact ⟨_, pcache_va_to_pa_stack vm cpu vaddr hc hh hm hs⟩
  · intro hc hh hm
    apply pcache_va_to_pa_outside
    unfold in_some_virt_range
    have : ¬ in_range vm.stack_virt_start vm.stack_virt_end vm.stack_virt_end := by
      unfold in_range; omega
    tauto
  · intro hc hh hm
    apply pcache_va_to_pa_outside
    unfold in_some_virt_range
    have : ¬ in_range vm.stack_virt_start vm.stack_virt_end (vm.stack_virt_end + 1) := by
      unfold in_range; omega
    tauto

/-! ## Lemmas: the page map and the free pool -/

theorem map_find_mem {κ ν : Type} [DecidableEq κ] (key : κ) (v : ν) (l : List (κ × ν))
    (h : map_find key l = some v) : (key, v) ∈ l := by
  induction l with
  | nil => simp [map_find] at h
  | cons e es ih =>
    obtain ⟨k, w⟩ := e
    unfold map_find at h
    by_cases hk : k = key
    · rw [if_pos hk] at h
      injection h with h
      subst h; subst hk
      exact List.mem_cons_self _ _
    · rw [if_neg hk] at h
      exact List.mem_cons_of_mem _ (ih h)

theorem va_to_pa_cases (L : Nat) (vm vm' : VirtualMemory) (c v pa : Nat)
    (h : va_to_pa L vm c v = .ok (pa, vm')) :
    ∃ front rest, vm.ppage_free_list = front :: rest ∧
      ((∃ pp, map_find (c, v >>> L) vm.vpage_to_ppage_map = some pp ∧
          pa = splice_bits pp v L ∧ vm' = vm) ∨
       (map_find (c, v >>> L) vm.vpage_to_ppage_map = none ∧
          pa = splice_bits front v L ∧
          vm' = { vm with vpage_to_ppage_map := ((c, v >>> L), front) :: vm.vpage_to_ppage_map
                          ppage_free_list := rest })) := by
  unfold va_to_pa at h
  cases hf : vm.ppage_free_list with
  | nil => rw [hf] at h; simp at h
  | cons front rest =>
    rw [hf] at h
    refine ⟨front, rest, rfl, ?_⟩
    cases hm : map_find (c, v >>> L) vm.vpage_to_ppage_map with
    | none =>
      simp only [hm, Outcome.ok.injEq, Prod.mk.injEq] at h
      exact Or.inr ⟨rfl, h.1.symm, h.2.symm⟩
    | some pp =>
      simp only [hm, Outcome.ok.injEq, Prod.mk.injEq] at h
      exact Or.inl ⟨pp, rfl, h.1.symm, h.2.symm⟩

theorem va_to_pa_pages_distinct (L : Nat) (vm vm' : VirtualMemory) (c v pa : Nat)
    (h : va_to_pa L vm c v = .ok (pa, vm')) (hinv : pages_distinct L vm) :
    pages_distinct L vm' := by
  obtain ⟨front, rest, hf, hcase⟩ := va_to_pa_cases L vm vm' c v pa h
  rcases hcase with ⟨pp, -, -, rfl⟩ | ⟨-, -, rfl⟩
  · exact hinv
  · unfold pages_distinct at hinv ⊢
    rw [hf] at hinv
    simp only [List.map_cons, List.cons_append]
    have hperm : (front :: (vm.vpage_to_ppage_map.map Prod.snd ++ rest)).Perm
        (vm.vpage_to_ppage_map.map Prod.snd ++ front :: rest) :=
      (List.perm_middle).symm
    exact ((hperm.map (ppage_number L)).nodup_iff).mpr hinv

theorem va_to_pa_seq_pages_distinct (L : Nat) (calls : List (Nat × Nat)) :
    ∀ (vm vm' : VirtualMemory) (pas : List Nat),
      va_to_pa_seq L vm calls = .ok (pas, vm') → pages_distinct L vm → pages_distinct L vm' := by
  induction calls with
  | nil =>
    intro vm vm' pas h hinv
    simp only [va_to_pa_seq, Outcome.ok.injEq, Prod.mk.injEq] at h
    rw [← h.2]; exact hinv
  | cons call calls ih =>
    intro vm vm' pas h hinv
    obtain ⟨c, v⟩ := call
    unfold va_to_pa_seq at h
    cases h1 : va_to_pa L vm c v with
    | fault e => rw [h1] at h; simp at h
    | ok r =>
      obtain ⟨pa, vm1⟩ := r
      rw [h1] at h
      simp only at h
      cases h2 : va_to_pa_seq L vm1 calls with
      | fault e => rw [h2] at h; simp at h
      | ok r2 =>
        obtain ⟨pas2, vm2⟩ := r2
        rw [h2] at h
        simp only [Outcome.ok.injEq, Prod.mk.injEq] at h
        rw [← h.2]
        exact ih vm1 vm2 pas2 h2 (va_to_pa_pages_distinct L vm vm1 c v pa h1 hinv)

theorem populate_free_list_distinct (L count : Nat)
    (h : VMEM_RESERVE_CAPACITY + count * 2 ^ L < 2 ^ 64) :
    ((populate_free_list L count).map (ppage_number L)).Nodup := by
  unfold populate_free_list
  rw [List.map_map]
  apply List.Nodup.map_on _ (List.nodup_range count)
  intro i hi j hj hij
  rw [List.mem_range] at hi hj
  have hp : 0 < 2 ^ L := by positivity
  have hi' : i * 2 ^ L < count * 2 ^ L := Nat.mul_lt_mul_of_pos_right hi hp
  have hj' : j * 2 ^ L < count * 2 ^ L := Nat.mul_lt_mul_of_pos_right hj hp
  simp only [Function.comp, ppage_number, PAGE_SIZE] at hij
  rw [add64_eq _ _ (by omega), add64_eq _ _ (by omega),
    Nat.add_mul_div_right _ _ hp, Nat.add_mul_div_right _ _ hp] at hij
  omega

theorem construct_pages_distinct (L : Nat) (shuffle : Nat → List Nat → List Nat)
    (capacity pg_size levels seed : Nat) (vm : VirtualMemory)
    (hperm : ∀ l, (shuffle seed l).Perm l) (hcap : capacity < 2 ^ 64)
    (h : VirtualMemory.construct L shuffle capacity pg_size levels seed = .ok vm) :
    vm.vpage_to_ppage_map = [] ∧ pages_distinct L vm := by
  unfold VirtualMemory.construct at h
  split at h
  · simp at h
  rename_i hge
  simp only at h
  split at h
  · simp at h
  split at h
  · simp at h
  split at h
  · simp at h
  split at h
  · simp at h
  rename_i p rest hsh
  simp only [Outcome.ok.injEq] at h
  subst h
  refine ⟨rfl, ?_⟩
  unfold pages_distinct
  simp only [List.map_nil, List.nil_append]
  have hcount : VMEM_RESERVE_CAPACITY
      + sub64 capacity VMEM_RESERVE_CAPACITY / PAGE_SIZE L * 2 ^ L < 2 ^ 64 := by
    rw [sub64_eq _ _ (Nat.le_of_not_lt hge) hcap]
    unfold PAGE_SIZE
    have := Nat.div_mul_le_self (capacity - VMEM_RESERVE_CAPACITY) (2 ^ L)
    omega
  have hnd := populate_free_list_distinct L _ hcount
  have hp := (hperm (populate_free_list L
    (sub64 capacity VMEM_RESERVE_CAPACITY / PAGE_SIZE L))).map (ppage_number L)
  rw [hsh] at hp
  have := (hp.nodup_iff).mpr hnd
  rw [List.map_cons, List.nodup_cons] at this
  exact this.2

theorem ppage_number_splice_bits (L pp v : Nat) :
    ppage_number L (splice_bits pp v L) = ppage_number L pp := by
  unfold ppage_number splice_bits
  have hp : 0 < 2 ^ L := by positivity
  rw [Nat.add_comm, Nat.add_mul_div_right _ _ hp, Nat.div_eq_of_lt (Nat.mod_lt _ hp), Nat.zero_add]

theorem splice_bits_offset (L pp v : Nat) : splice_bits pp v L % 2 ^ L = v % 2 ^ L := by
  unfold splice_bits
  rw [Nat.add_comm, Nat.add_mul_mod_self_right, Nat.mod_mod]

/-- After a returning call the page of the address is the one the map records for
the key of the call. -/
theorem va_to_pa_records (L : Nat) (vm vm' : VirtualMemory) (c v pa : Nat)
    (h : va_to_pa L vm c v = .ok (pa, vm')) :
    ∃ pp, map_find (c, v >>> L) vm'.vpage_to_ppage_map = some pp ∧ pa = splice_bits pp v L := by
  obtain ⟨front, rest, hf, hcase⟩ := va_to_pa_cases L vm vm' c v pa h
  rcases hcase with ⟨pp, hm, hpa, rfl⟩ | ⟨-, hpa, rfl⟩
  · exact ⟨pp, hm, hpa⟩
  · exact ⟨front, by simp [map_find], hpa⟩

/-- A recorded mapping is never changed by a later call. -/
theorem va_to_pa_map_stable (L : Nat) (vm vm' : VirtualMemory) (c v pa : Nat)
    (h : va_to_pa L vm c v = .ok (pa, vm')) (k : Nat × Nat) (p : Nat)
    (hk : map_find k vm.vpage_to_ppage_map = some p) :
    map_find k vm'.vpage_to_ppage_map = some p := by
  obtain ⟨front, rest, hf, hcase⟩ := va_to_pa_cases L vm vm' c v pa h
  rcases hcase with ⟨pp, -, -, rfl⟩ | ⟨hm, -, rfl⟩
  · exact hk
  · simp only [map_find]
    by_cases hkk : (c, v >>> L) = k
    · rw [hkk, hk] at hm; simp at hm
    · rw [if_neg hkk]; exact hk

theorem va_to_pa_seq_map_stable (L : Nat) (calls : List (Nat × Nat)) :
    ∀ (vm vm' : VirtualMemory) (pas : List Nat),
      va_to_pa_seq L vm calls = .ok (pas, vm') → ∀ (k : Nat × Nat) (p : Nat),
      map_find k vm.vpage_to_ppage_map = some p →
      map_find k vm'.vpage_to_ppage_map = some p := by
  induction calls with
  | nil =>
    intro vm vm' pas h k p hk
    simp only [va_to_pa_seq, Outcome.ok.injEq, Prod.mk.injEq] at h
    rw [← h.2]; exact hk
  | cons call calls ih =>
    intro vm vm' pas h k p hk
    obtain ⟨c, v⟩ := call
    unfold va_to_pa_seq at h
    cases h1 : va_to_pa L vm c v with
    | fault e => rw [h1] at h; simp at h
    | ok r =>
      obtain ⟨pa, vm1⟩ := r
      rw [h1] at h
      simp only at h
      cases h2 : va_to_pa_seq L vm1 calls with
      | fault e => rw [h2] at h; simp at h
      | ok r2 =>
        obtain ⟨pas2, vm2⟩ := r2
        rw [h2] at h
        simp only [Outcome.ok.injEq, Prod.mk.injEq] at h
        rw [← h.2]
        exact ih vm1 vm2 pas2 h2 k p (va_to_pa_map_stable L vm vm1 c v pa h1 k p hk)

/-- The part of address stability that the code provides: when a later call for the
same core and virtual page returns, it returns an address of the same physical page,
each address keeps the page offset of its virtual address, and the later call leaves
the translator, its free pool included, unchanged. -/
theorem va_to_pa_same_page (L : Nat) (vm vm1 vm2 vm3 : VirtualMemory) (c v1 v2 pa1 pa2 : Nat)
    (between : List (Nat × Nat)) (pas : List Nat)
    (hv : v1 >>> L = v2 >>> L)
    (h1 : va_to_pa L vm c v1 = .ok (pa1, vm1))
    (hb : va_to_pa_seq L vm1 between = .ok (pas, vm2))
    (h2 : va_to_pa L vm2 c v2 = .ok (pa2, vm3)) :
    ppage_number L pa1 = ppage_number L pa2 ∧ pa1 % 2 ^ L = v1 % 2 ^ L ∧
      pa2 % 2 ^ L = v2 % 2 ^ L ∧ vm3 = vm2 := by
  obtain ⟨pp, hm1, hpa1⟩ := va_to_pa_records L vm vm1 c v1 pa1 h1
  have hm2 := va_to_pa_seq_map_stable L between vm1 vm2 pas hb _ _ hm1
  rw [hv] at hm2
  obtain ⟨front, rest, hf, hcase⟩ := va_to_pa_cases L vm2 vm3 c v2 pa2 h2
  rcases hcase with ⟨pp', hm, hpa2, rfl⟩ | ⟨hm, -, -⟩
  · rw [hm2] at hm
    injection hm with hm
    subst hm
    rw [hpa1, hpa2]
    exact ⟨by rw [ppage_number_splice_bits, ppage_number_splice_bits],
      splice_bits_offset L pp v1, splice_bits_offset L pp v2, rfl⟩
  · rw [hm2] at hm; simp at hm

/-- With an empty free pool every call is undefined, also one for a mapped page. -/
theorem va_to_pa_empty_pool (L : Nat) (vm : VirtualMemory) (c v : Nat)
    (h : vm.ppage_free_list = []) : va_to_pa L vm c v = .fault .undefined := by
  unfold va_to_pa; rw [h]

/-- Calls on pairwise different virtual pages that are not mapped yet: as long as the
pool has a page for each call, every call returns an address and takes one page; as
soon as there are more calls than pages, the sequence ends in undefined behaviour. -/
theorem va_to_pa_seq_fresh_pages (L : Nat) (calls : List (Nat × Nat)) :
    ∀ vm : VirtualMemory,
      (calls.map fun c => (c.1, c.2 >>> L)).Nodup →
      (∀ c ∈ calls, map_find (c.1, c.2 >>> L) vm.vpage_to_ppage_map = none) →
      (calls.length ≤ vm.ppage_free_list.length →
        ∃ pas vm', va_to_pa_seq L vm calls = .ok (pas, vm') ∧ pas.length = calls.length ∧
          vm'.ppage_free_list = vm.ppage_free_list.drop calls.length) ∧
      (vm.ppage_free_list.length < calls.length →
        va_to_pa_seq L vm calls = .fault .undefined) := by
  induction calls with
  | nil =>
    intro vm _ _
    exact ⟨fun _ => ⟨[], vm, rfl, rfl, rfl⟩, fun h => absurd h (by simp)⟩
  | cons call calls ih =>
    intro vm hnd hfresh
    obtain ⟨c, v⟩ := call
    simp only [List.map_cons, List.nodup_cons] at hnd
    have hkey := hfresh (c, v) (List.mem_cons_self _ _)
    simp only at hkey
    cases hpool : vm.ppage_free_list with
    | nil =>
      refine ⟨fun h => absurd h (by simp), fun _ => ?_⟩
      unfold va_to_pa_seq
      rw [va_to_pa_empty_pool L vm c v hpool]
    | cons front rest =>
      have hstep : va_to_pa L vm c v = .ok (splice_bits front v L,
          { vm with vpage_to_ppage_map := ((c, v >>> L), front) :: vm.vpage_to_ppage_map
                    ppage_free_list := rest }) := by
        unfold va_to_pa
        rw [hpool]
        simp only [hkey]
      have hfresh' : ∀ c' ∈ calls, map_find (c'.1, c'.2 >>> L)
          (((c, v >>> L), front) :: vm.vpage_to_ppage_map) = none := by
        intro c' hc'
        unfold map_find
        rw [if_neg]
        · exact hfresh c' (List.mem_cons_of_mem _ hc')
        · intro heq
          apply hnd.1
          rw [heq]
          exact List.mem_map_of_mem (fun c => (c.1, c.2 >>> L)) hc'
      obtain ⟨ih1, ih2⟩ := ih
        { vm with vpage_to_ppage_map := ((c, v >>> L), front) :: vm.vpage_to_ppage_map
                  ppage_free_list := rest } hnd.2 hfresh'
      simp only at ih1 ih2
      constructor
      · intro hlen
        simp only [List.length_cons] at hlen
        obtain ⟨pas, vm', h1, h2, h3⟩ := ih1 (by omega)
        refine ⟨splice_bits front v L :: pas, vm', ?_, by simp [h2], ?_⟩
        · unfold va_to_pa_seq
          rw [hstep]
          simp only [h1]
        · rw [h3]; rfl
      · intro hlen
        simp only [List.length_cons] at hlen
        unfold va_to_pa_seq
        rw [hstep]
        simp only [ih2 (by omega)]

/-- C5: in a state reached from the constructor by returning `va_to_pa` calls, two
different (core, virtual page) keys are recorded with different physical pages, no
recorded page is in a page of the free pool, a call for one core leaves the mappings
of every other core as they were, and two calls in a row with different keys (such
as one virtual page seen from two cores) return addresses of different pages. -/
theorem va_to_pa_distinct_pages (L : Nat) (shuffle : Nat → List Nat → List Nat)
    (capacity pg_size levels seed : Nat) (vm0 vm : VirtualMemory)
    (calls : List (Nat × Nat)) (pas : List Nat)
    (hperm : ∀ l, (shuffle seed l).Perm l) (hcap : capacity < 2 ^ 64)
    (hc : VirtualMemory.construct L shuffle capacity pg_size levels seed = .ok vm0)
    (hr : va_to_pa_seq L vm0 calls = .ok (pas, vm)) :
    (∀ k1 k2 p1 p2, k1 ≠ k2 → map_find k1 vm.vpage_to_ppage_map = some p1 →
      map_find k2 vm.vpage_to_ppage_map = some p2 →
      ppage_number L p1 ≠ ppage_number L p2) ∧
    (∀ k p q, map_find k vm.vpage_to_ppage_map = some p → q ∈ vm.ppage_free_list →
      ppage_number L q ≠ ppage_number L p) ∧
    (∀ c v pa vm', va_to_pa L vm c v = .ok (pa, vm') → ∀ c' vp, c' ≠ c →
      map_find (c', vp) vm'.vpage_to_ppage_map = map_find (c', vp) vm.vpage_to_ppage_map) ∧
    (∀ c1 v1 pa1 vm1 c2 v2 pa2 vm2, (c1, v1 >>> L) ≠ (c2, v2 >>> L) →
      va_to_pa L vm c1 v1 = .ok (pa1, vm1) → va_to_pa L vm1 c2 v2 = .ok (pa2, vm2) →
      ppage_number L pa1 ≠ ppage_number L pa2) := by
  have hinv0 := (construct_pages_distinct L shuffle capacity pg_size levels seed vm0
    hperm hcap hc).2
  have hinv := va_to_pa_seq_pages_distinct L calls vm0 vm pas hr hinv0
  have key : ∀ (w : VirtualMemory), pages_distinct L w →
      ∀ k1 k2 p1 p2, k1 ≠ k2 → map_find k1 w.vpage_to_ppage_map = some p1 →
      map_find k2 w.vpage_to_ppage_map = some p2 →
      ppage_number L p1 ≠ ppage_number L p2 := by
    intro w hw k1 k2 p1 p2 hne h1 h2 heq
    unfold pages_distinct at hw
    rw [List.map_append, List.map_map] at hw
    have hnd := (List.nodup_append.mp hw).1
    have hinj := List.inj_on_of_nodup_map hnd
    have := hinj (map_find_mem _ _ _ h1) (map_find_mem _ _ _ h2) heq
    exact hne (by injection this)
  refine ⟨key vm hinv, ?_, ?_, ?_⟩
  · intro k p q hk hq heq
    unfold pages_distinct at hinv
    rw [List.map_append] at hinv
    have hdis := (List.nodup_append.mp hinv).2.2
    have hp : ppage_number L p ∈ (vm.vpage_to_ppage_map.map Prod.snd).map (ppage_number L) := by
      rw [List.map_map]
      exact List.mem_map.mpr ⟨(k, p), map_find_mem _ _ _ hk, rfl⟩
    have hq' : ppage_number L q ∈ vm.ppage_free_list.map (ppage_number L) :=
      List.mem_map.mpr ⟨q, hq, rfl⟩
    rw [heq] at hq'
    exact hdis hp hq'
  · intro c v pa vm' h c' vp hne
    obtain ⟨front, rest, hf, hcase⟩ := va_to_pa_cases L vm vm' c v pa h
    rcases hcase with ⟨pp, -, -, rfl⟩ | ⟨-, -, rfl⟩
    · rfl
    · simp only [map_find]
      rw [if_neg]
      intro hk
      injection hk with hk1 hk2
      exact hne hk1.symm
  · intro c1 v1 pa1 vm1 c2 v2 pa2 vm2 hne h1 h2
    have hinv1 := va_to_pa_pages_distinct L vm vm1 c1 v1 pa1 h1 hinv
    have hinv2 := va_to_pa_pages_distinct L vm1 vm2 c2 v2 pa2 h2 hinv1
    obtain ⟨pp1, hm1, hpa1⟩ := va_to_pa_records L vm vm1 c1 v1 pa1 h1
    obtain ⟨pp2, hm2, hpa2⟩ := va_to_pa_records L vm1 vm2 c2 v2 pa2 h2
    have hm1' := va_to_pa_map_stable L vm1 vm2 c2 v2 pa2 h2 _ _ hm1
    rw [hpa1, hpa2, ppage_number_splice_bits, ppage_number_splice_bits]
    exact key vm2 hinv2 _ _ _ _ hne hm1' hm2

theorem setup_pcache_scenario_C : setup_pcache 12 scenario_C vm_1GiB = .ok layout_C := by
  decide

/-- C10, amended: an accepted configuration whose sizes keep the code region below the
heap's start, the heap and mmap regions within the span from the heap's start to the
mmap end, and the stack region within the span from the mmap end to the stack end has
four pairwise disjoint virtual ranges. -/
theorem setup_pcache_virt_disjoint (L : Nat) (g : Globals) (vm vm' : VirtualMemory)
    (hp : g.use_pcache ≠ 0) (h : setup_pcache L g vm = .ok vm')
    (hcode : g.code_size ≤ 0x555555554000)
    (hheap : g.heap_size + g.mmap_size ≤ 0x7ffff8000000 - 0x555555554000)
    (hstack : g.stack_size ≤ 0x7ffffffff000 - 0x7ffff8000000) :
    virt_ranges_disjoint vm' := by
  obtain ⟨-, -, -, hcvs, hcve, -, -, hhvs, hhve, -, -, hmve, hmvs, -, -, hsve, hsvs, -⟩ :=
    setup_pcache_fields L g vm vm' hp h
  rw [add64_eq _ _ (by omega)] at hhve
  rw [sub64_eq _ _ (by omega) (by norm_num)] at hmvs hsvs
  unfold virt_ranges_disjoint
  refine ⟨?_, ?_, ?_, ?_, ?_, ?_⟩ <;> apply ranges_disjoint_of_le <;> omega

/-- C10, as stated, fails: with 1 GiB of memory and a stack region of 256 MiB the
configuration is accepted, yet address `0x7ffff7fff000` lies in the mmap range and in
the stack range. -/
theorem setup_pcache_virt_overlap :
    ∃ vm', setup_pcache 12 big_stack vm_1GiB = .ok vm' ∧ ¬ virt_ranges_disjoint vm' := by
  refine ⟨(setup_pcache 12 big_stack vm_1GiB).getD vm_1GiB, by decide, ?_⟩
  intro hd
  exact hd.2.2.2.2.2 0x7ffff7fff000 (by decide)

theorem layout_C_virt_disjoint : virt_ranges_disjoint layout_C :=
  ⟨ranges_disjoint_of_le _ _ _ _ (by decide), ranges_disjoint_of_le _ _ _ _ (by decide),
    ranges_disjoint_of_le _ _ _ _ (by decide), ranges_disjoint_of_le _ _ _ _ (by decide),
    ranges_disjoint_of_le _ _ _ _ (by decide), ranges_disjoint_of_le _ _ _ _ (by decide)⟩

theorem setup_pcache_virt_disjoint_witness :
    (scenario_C.use_pcache ≠ 0 ∧ setup_pcache 12 scenario_C vm_1GiB = .ok layout_C) ∧
      virt_ranges_disjoint layout_C :=
  ⟨⟨by decide, by decide⟩,
   setup_pcache_virt_disjoint 12 scenario_C vm_1GiB layout_C (by decide) (by decide)
     (by decide) (by decide) (by decide)⟩

theorem setup_pcache_phys_layout_witness :
    (scenario_C.use_pcache ≠ 0 ∧ setup_pcache 12 scenario_C vm_1GiB = .ok layout_C) ∧
      (PAGE_SIZE 12 ∣ layout_C.code_phys_start ∧ PAGE_SIZE 12 ∣ layout_C.heap_phys_start ∧
        PAGE_SIZE 12 ∣ layout_C.mmap_phys_start ∧ PAGE_SIZE 12 ∣ layout_C.stack_phys_start) ∧
      phys_ranges_disjoint layout_C :=
  have h := setup_pcache_phys_layout 12 scenario_C vm_1GiB layout_C (by decide) (by decide)
    (by decide) (by decide)
  ⟨⟨by decide, by decide⟩, h.1, h.2.2.2.1⟩

theorem pcache_va_to_pa_segment_offset_witness :
    (scenario_C.use_pcache ≠ 0 ∧ setup_pcache 12 scenario_C vm_1GiB = .ok layout_C) ∧
      pcache_va_to_pa layout_C 0 (layout_C.heap_virt_start + 10)
        = .ok (layout_C.heap_phys_start + 10) ∧
      pcache_va_to_pa layout_C 0 (layout_C.stack_virt_start + 7)
        = .ok ((layout_C.stack_phys_start + (layout_C.stack_virt_start + 7
            - layout_C.stack_virt_start)) % 2 ^ 64) :=
  have h := pcache_va_to_pa_segment_offset 12 scenario_C vm_1GiB layout_C (by decide) (by decide)
  ⟨⟨by decide, by decide⟩,
   h.2 (by decide) (by decide) (by decide) (by decide) (by decide) (by decide) 0,
   (h.1 layout_C_virt_disjoint 0 (layout_C.stack_virt_start + 7)).2.2.2
     (by decide)⟩

theorem pcache_va_to_pa_returns_iff_witness :
    pcache_va_to_pa layout_C 0 layout_C.stack_virt_end = .fault .exit ∧
      pcache_va_to_pa layout_C 0 (layout_C.stack_virt_end + 1) = .fault .exit :=
  have h := pcache_va_to_pa_returns_iff layout_C 0 0
  ⟨h.2.2.1 (by decide) (by decide) (by decide), h.2.2.2 (by decide) (by decide) (by decide)⟩

/-- C4 fails on the code: a translator whose pool holds one page maps virtual page 1
of core 0 with its first call, which empties the pool; the next call for the same
page, `va_to_pa(0, 0x1008)`, reads `front()` of the empty pool and is undefined. -/
theorem va_to_pa_mapped_page_empty_pool :
    ∃ pa vm1, va_to_pa 12 (small_vm 2) 0 0x1000 = .ok (pa, vm1) ∧
      vm1.ppage_free_list = [] ∧
      map_find (0, 0x1008 >>> 12) vm1.vpage_to_ppage_map = some (VMEM_RESERVE_CAPACITY + 4096) ∧
      va_to_pa 12 vm1 0 0x1008 = .fault .undefined := by
  refine ⟨((va_to_pa 12 (small_vm 2) 0 0x1000).getD (0, {})).1,
    ((va_to_pa 12 (small_vm 2) 0 0x1000).getD (0, {})).2, ?_, ?_, ?_, ?_⟩
  · decide
  · decide
  · decide
  · decide

/-- C6 fails on the code: with a pool of two pages the first two calls on distinct
virtual pages return, and the third, on a further page, is undefined behaviour
(`front()` and `pop_front()` of an empty deque), not the reported fatal exit. -/
theorem va_to_pa_exhaustion_undefined :
    (small_vm 3).ppage_free_list.length = 2 ∧
    (va_to_pa_seq 12 (small_vm 3) [(0, 0x1000), (0, 0x2000)]).returns = true ∧
    va_to_pa_seq 12 (small_vm 3) [(0, 0x1000), (0, 0x2000), (0, 0x3000)] = .fault .undefined ∧
    va_to_pa_seq 12 (small_vm 3) [(0, 0x1000), (0, 0x2000), (0, 0x3000)] ≠ .fault .exit := by
  refine ⟨by decide, by decide, by decide, by decide⟩

/-! ## Lemmas: what each stage does to the buffers -/

theorem same_buffers_refl (s : O3_CPU) : same_buffers s s := ⟨rfl, rfl, rfl, rfl, rfl⟩

theorem same_buffers_trans (s1 s2 s3 : O3_CPU) (h1 : same_buffers s1 s2)
    (h2 : same_buffers s2 s3) : same_buffers s1 s3 := by
  unfold same_buffers at *
  obtain ⟨a1, a2, a3, a4, a5⟩ := h1
  obtain ⟨b1, b2, b3, b4, b5⟩ := h2
  exact ⟨b1.trans a1, b2.trans a2, b3.trans a3, b4.trans a4, b5.trans a5⟩

theorem init_fetch_budget_same (P : Params) (s : O3_CPU) :
    same_buffers s (init_fetch_budget P s) := by
  unfold init_fetch_budget same_buffers
  split <;> exact ⟨rfl, rfl, rfl, rfl, rfl⟩

theorem init_destination_same (P : Params) (i : Nat) (a a' : ooo_model_instr)
    (r r' : RegScan) (s s' : O3_CPU) (h : init_destination P i a r s = .ok (a', r', s')) :
    a'.instr_id = a.instr_id ∧ same_buffers s s' := by
  unfold init_destination at h
  simp only at h
  split_ifs at h <;>
    (simp only [Outcome.ok.injEq, Prod.mk.injEq] at h
     obtain ⟨rfl, -, rfl⟩ := h
     exact ⟨rfl, rfl, rfl, rfl, rfl, rfl⟩)

theorem init_destinations_same (P : Params) (l : List Nat) :
    ∀ (a a' : ooo_model_instr) (r r' : RegScan) (s s' : O3_CPU),
      init_destinations P l a r s = .ok (a', r', s') →
      a'.instr_id = a.instr_id ∧ same_buffers s s' := by
  induction l with
  | nil =>
    intro a a' r r' s s' h
    simp only [init_destinations, Outcome.ok.injEq, Prod.mk.injEq] at h
    obtain ⟨rfl, -, rfl⟩ := h
    exact ⟨rfl, same_buffers_refl _⟩
  | cons i rest ih =>
    intro a a' r r' s s' h
    simp only [init_destinations] at h
    split at h
    · exact absurd h (by simp)
    · rename_i a1 r1 s1 h1
      obtain ⟨e1, f1⟩ := init_destination_same P i a a1 r r1 s s1 h1
      obtain ⟨e2, f2⟩ := ih _ _ _ _ _ _ h
      exact ⟨e2.trans e1, same_buffers_trans _ _ _ f1 f2⟩

theorem init_source_id (P : Params) (i : Nat) (a : ooo_model_instr) (r : RegScan) :
    (init_source P i a r).1.instr_id = a.instr_id := by
  unfold init_source
  simp only
  split_ifs <;> rfl

theorem init_sources_id (P : Params) (l : List Nat) :
    ∀ (a : ooo_model_instr) (r : RegScan), (init_sources P l a r).1.instr_id = a.instr_id := by
  induction l with
  | nil => intro a r; rfl
  | cons i rest ih =>
    intro a r
    simp only [init_sources]
    rw [ih, init_source_id]

theorem classify_branch_id (P : Params) (a : ooo_model_instr) (r : RegScan) :
    (classify_branch P a r).instr_id = a.instr_id := by
  unfold classify_branch
  split_ifs <;> rfl

theorem init_classify_id (P : Params) (a : ooo_model_instr) (r : RegScan) :
    (init_classify P a r).instr_id = a.instr_id := by
  unfold init_classify
  rw [classify_branch_id]
  split_ifs <;> rfl

theorem init_clear_target_id (a : ooo_model_instr) :
    (init_clear_target a).instr_id = a.instr_id := by
  unfold init_clear_target
  split_ifs <;> rfl

theorem fold_stack_pointer_id (P : Params) (l : List Nat) :
    ∀ a : ooo_model_instr, (fold_stack_pointer P l a).instr_id = a.instr_id := by
  induction l with
  | nil => intro a; rfl
  | cons i rest ih =>
    intro a
    simp only [fold_stack_pointer]
    split_ifs
    · rw [ih]
    · rw [ih]

theorem init_stack_pointer_folding_id (P : Params) (a : ooo_model_instr) (r : RegScan) :
    (init_stack_pointer_folding P a r).instr_id = a.instr_id := by
  unfold init_stack_pointer_folding
  split_ifs
  · exact fold_stack_pointer_id P _ a
  · rfl

theorem init_branch_prediction_same (a : ooo_model_instr) (s : O3_CPU) (b : Nat × Nat)
    (p : Nat) :
    (init_branch_prediction a s b p).1.instr_id = a.instr_id ∧
      same_buffers s (init_branch_prediction a s b p).2 := by
  unfold init_branch_prediction
  simp only
  split_ifs <;> exact ⟨rfl, rfl, rfl, rfl, rfl, rfl⟩

theorem init_fast_warmup_id (P : Params) (a : ooo_model_instr) (w : Nat) :
    (init_fast_warmup P a w).instr_id = a.instr_id := by
  unfold init_fast_warmup
  split_ifs <;> rfl

theorem init_finish_buffers (P : Params) (a : ooo_model_instr) (s s' : O3_CPU)
    (b : Nat × Nat) (p n : Nat) (h : init_finish P a s b p = .ok (n, s')) :
    (∃ x : ooo_model_instr, x.instr_id = a.instr_id ∧
      s'.IFETCH_BUFFER.entries = s.IFETCH_BUFFER.entries ++ [x]) ∧
    s'.IFETCH_BUFFER.size = s.IFETCH_BUFFER.size ∧
    s.IFETCH_BUFFER.entries.length < s.IFETCH_BUFFER.size ∧
    s'.DECODE_BUFFER = s.DECODE_BUFFER ∧ s'.DISPATCH_BUFFER = s.DISPATCH_BUFFER ∧
    s'.ROB = s.ROB ∧ s'.instr_unique_id = add64 s.instr_unique_id 1 := by
  unfold init_finish at h
  simp only at h
  obtain ⟨hid, hI, hD, hS, hR, hU⟩ := init_branch_prediction_same a s b p
  split at h
  · exact absurd h (by simp)
  rename_i buf hpush
  simp only [Outcome.ok.injEq, Prod.mk.injEq] at h
  obtain ⟨-, rfl⟩ := h
  unfold circular_buffer.push_back circular_buffer.full at hpush
  split_ifs at hpush with hfull
  simp only [Outcome.ok.injEq] at hpush
  subst hpush
  rw [hI] at hfull
  simp only [decide_eq_true_eq, not_le] at hfull
  refine ⟨⟨init_fast_warmup P
      { (init_branch_prediction a s b p).1 with
        event_cycle := (init_branch_prediction a s b p).2.current_core_cycle }
      (init_branch_prediction a s b p).2.warmup_complete, ?_, ?_⟩, ?_, hfull, hD, hS, hR, ?_⟩
  · rw [init_fast_warmup_id]; exact hid
  · simp only [hI]
  · simp only [hI]
  · simp only [hU]

/-- A returning `init_instruction` appends one record, carrying the current
`instr_unique_id`, to the fetch buffer, which had room for it; it leaves the other three
buffers alone and increments `instr_unique_id` within 64 bits. -/
theorem init_instruction_buffers (P : Params) (s s' : O3_CPU) (a : ooo_model_instr)
    (b : Nat × Nat) (p n : Nat) (h : init_instruction P s a b p = .ok (n, s')) :
    (∃ x : ooo_model_instr, x.instr_id = s.instr_unique_id ∧
      s'.IFETCH_BUFFER.entries = s.IFETCH_BUFFER.entries ++ [x]) ∧
    s'.IFETCH_BUFFER.size = s.IFETCH_BUFFER.size ∧
    s.IFETCH_BUFFER.entries.length < s.IFETCH_BUFFER.size ∧
    s'.DECODE_BUFFER = s.DECODE_BUFFER ∧ s'.DISPATCH_BUFFER = s.DISPATCH_BUFFER ∧
    s'.ROB = s.ROB ∧ s'.instr_unique_id = add64 s.instr_unique_id 1 := by
  unfold init_instruction at h
  simp only at h
  split at h
  · exact absurd h (by simp)
  rename_i a1 r1 s2 hd
  obtain ⟨hid1, hs2⟩ := init_destinations_same P _ _ _ _ _ _ _ hd
  obtain ⟨hI, hD, hS, hR, hU⟩ :=
    same_buffers_trans _ _ _ (init_fetch_budget_same P s) hs2
  obtain ⟨⟨x, hx, hxs⟩, h2, h3, h4, h5, h6, h7⟩ := init_finish_buffers P _ _ _ _ _ _ h
  simp only at hxs h2 h3 h4 h5 h6 h7
  rw [init_stack_pointer_folding_id, init_clear_target_id, init_classify_id,
    init_sources_id, hid1] at hx
  simp only at hx
  have hU0 : (init_fetch_budget P s).instr_unique_id = s.instr_unique_id :=
    (init_fetch_budget_same P s).2.2.2.2
  refine ⟨⟨x, hx.trans hU0, ?_⟩, ?_, ?_, ?_, ?_, ?_, ?_⟩
  · rw [hxs, hI]
  · rw [h2, hI]
  · rw [hI] at h3; exact h3
  · rw [h4, hD]
  · rw [h5, hS]
  · rw [h6, hR]
  · rw [h7, hU]

theorem ids_append (l1 l2 : List ooo_model_instr) : ids (l1 ++ l2) = ids l1 ++ ids l2 := by
  unfold ids; exact List.map_append _ _ _

theorem delay_queue_push_entries {α : Type} (q q' : delay_queue α) (x : α)
    (h : q.push_back x = .ok q' ∨ q.push_back_ready x = .ok q') :
    q'.entries.map Prod.fst = q.entries.map Prod.fst ++ [x] ∧ q'.size = q.size ∧
      q'.latency = q.latency ∧ q.entries.length < q.size := by
  unfold delay_queue.push_back delay_queue.push_back_ready delay_queue.full at h
  rcases h with h | h <;>
    (split_ifs at h with hf
     simp only [Outcome.ok.injEq] at h
     subst h
     simp only [decide_eq_true_eq, not_le] at hf
     exact ⟨by simp, rfl, rfl, hf⟩)

theorem delay_queue_pop_entries {α : Type} (q q' : delay_queue α) (x : α)
    (hf : q.front = .ok x) (h : q.pop_front = .ok q') :
    q.entries.map Prod.fst = x :: q'.entries.map Prod.fst ∧ q'.size = q.size ∧
      q'.latency = q.latency := by
  unfold delay_queue.front at hf
  unfold delay_queue.pop_front at h
  cases he : q.entries with
  | nil => rw [he] at h; simp at h
  | cons e rest =>
    rw [he] at h hf
    simp only [Outcome.ok.injEq] at h hf
    subst h; subst hf
    exact ⟨rfl, rfl, rfl⟩

theorem promote_to_decode_loop_buffers (bw : Nat) :
    ∀ s s' : O3_CPU, promote_to_decode_loop bw s = .ok s' →
      ids (s'.DECODE_BUFFER.entries.map Prod.fst) ++ ids s'.IFETCH_BUFFER.entries
        = ids (s.DECODE_BUFFER.entries.map Prod.fst) ++ ids s.IFETCH_BUFFER.entries ∧
      s'.DISPATCH_BUFFER = s.DISPATCH_BUFFER ∧ s'.ROB = s.ROB ∧
      s'.instr_unique_id = s.instr_unique_id := by
  induction bw with
  | zero =>
    intro s s' h
    simp only [promote_to_decode_loop, Outcome.ok.injEq] at h
    subst h; exact ⟨rfl, rfl, rfl, rfl⟩
  | succ bw ih =>
    intro s s' h
    unfold promote_to_decode_loop at h
    cases hI : s.IFETCH_BUFFER.entries with
    | nil =>
      rw [hI] at h
      simp only [Outcome.ok.injEq] at h
      subst h; exact ⟨by rw [hI], rfl, rfl, rfl⟩
    | cons front rest =>
      rw [hI] at h
      simp only at h
      split_ifs at h with hc hw
      · -- push_back_ready
        cases hp : s.DECODE_BUFFER.push_back_ready front with
        | fault e => rw [hp] at h; simp at h
        | ok dq =>
          rw [hp] at h
          simp only [circular_buffer.pop_front, hI] at h
          obtain ⟨h1, h2, h3, h4⟩ := ih _ _ h
          simp only at h1 h2 h3 h4
          obtain ⟨e1, -, -, -⟩ := delay_queue_push_entries _ _ _ (Or.inr hp)
          refine ⟨?_, h2, h3, h4⟩
          rw [h1, e1, ids_append, List.append_assoc]
          rfl
      · cases hp : s.DECODE_BUFFER.push_back front with
        | fault e => rw [hp] at h; simp at h
        | ok dq =>
          rw [hp] at h
          simp only [circular_buffer.pop_front, hI] at h
          obtain ⟨h1, h2, h3, h4⟩ := ih _ _ h
          simp only at h1 h2 h3 h4
          obtain ⟨e1, -, -, -⟩ := delay_queue_push_entries _ _ _ (Or.inl hp)
          refine ⟨?_, h2, h3, h4⟩
          rw [h1, e1, ids_append, List.append_assoc]
          rfl
      · simp only [Outcome.ok.injEq] at h
        subst h; exact ⟨by rw [hI], rfl, rfl, rfl⟩

theorem do_dib_update_same (P : Params) (s s1 : O3_CPU) (x : ooo_model_instr)
    (h : do_dib_update P s x = .ok s1) : ∃ d, s1 = { s with DIB := d } := by
  unfold do_dib_update at h
  simp only at h
  split at h
  · simp at h
  · split at h
    · simp only [Outcome.ok.injEq] at h
      exact ⟨_, h.symm⟩
    · split_ifs at h
      simp only [Outcome.ok.injEq] at h
      exact ⟨_, h.symm⟩

theorem decode_instruction_loop_buffers (P : Params) (bw : Nat) :
    ∀ s s' : O3_CPU, decode_instruction_loop P bw s = .ok s' →
      ids (s'.DISPATCH_BUFFER.entries.map Prod.fst) ++ ids (s'.DECODE_BUFFER.entries.map Prod.fst)
        = ids (s.DISPATCH_BUFFER.entries.map Prod.fst)
            ++ ids (s.DECODE_BUFFER.entries.map Prod.fst) ∧
      s'.IFETCH_BUFFER = s.IFETCH_BUFFER ∧ s'.ROB = s.ROB ∧
      s'.instr_unique_id = s.instr_unique_id := by
  induction bw with
  | zero =>
    intro s s' h
    simp only [decode_instruction_loop, Outcome.ok.injEq] at h
    subst h; exact ⟨rfl, rfl, rfl, rfl⟩
  | succ bw ih =>
    intro s s' h
    unfold decode_instruction_loop at h
    split_ifs at h with hc
    · cases hfr : s.DECODE_BUFFER.front with
      | fault e => rw [hfr] at h; simp at h
      | ok db_entry =>
        rw [hfr] at h
        simp only at h
        cases hdib : do_dib_update P s db_entry with
        | fault e => rw [hdib] at h; simp at h
        | ok s1 =>
          rw [hdib] at h
          simp only at h
          obtain ⟨d, rfl⟩ := do_dib_update_same P s s1 db_entry hdib
          split at h
          · simp at h
          rename_i dq hpush
          split at h
          · simp at h
          rename_i db hpop
          obtain ⟨h1, h2, h3, h4⟩ := ih _ _ h
          simp only at h1 h2 h3 h4
          have hpop' : s.DECODE_BUFFER.pop_front = .ok db := by
            split_ifs at hpop <;> exact hpop
          obtain ⟨p1, -, -⟩ := delay_queue_pop_entries _ _ _ hfr hpop'
          have hpush' : ∃ y : ooo_model_instr, y.instr_id = db_entry.instr_id ∧
              (s.DISPATCH_BUFFER.push_back y = .ok dq ∨
               s.DISPATCH_BUFFER.push_back_ready y = .ok dq) := by
            split_ifs at hpush
            · exact ⟨_, by rfl, Or.inl hpush⟩
            · exact ⟨_, by rfl, Or.inr hpush⟩
            · exact ⟨_, by rfl, Or.inl hpush⟩
            · exact ⟨_, by rfl, Or.inr hpush⟩
          obtain ⟨y, hy, hpy⟩ := hpush'
          obtain ⟨q1, -, -, -⟩ := delay_queue_push_entries _ _ _ hpy
          refine ⟨?_, ?_, ?_, ?_⟩
          · rw [h1, q1, p1, ids_append, List.append_assoc]
            simp only [ids, List.map_cons, List.map_nil, List.singleton_append, hy]
          · rw [h2]; split_ifs <;> rfl
          · rw [h3]; split_ifs <;> rfl
          · rw [h4]; split_ifs <;> rfl
    · simp only [Outcome.ok.injEq] at h
      subst h; exact ⟨rfl, rfl, rfl, rfl⟩

theorem delay_queue_operate_entries {α : Type} (q : delay_queue α) :
    q.operate.entries.map Prod.fst = q.entries.map Prod.fst := by
  unfold delay_queue.operate
  simp only [List.map_map]
  rfl

theorem decode_instruction_buffers (P : Params) (s s' : O3_CPU)
    (h : decode_instruction P s = .ok s') :
    ids (s'.DISPATCH_BUFFER.entries.map Prod.fst) ++ ids (s'.DECODE_BUFFER.entries.map Prod.fst)
        = ids (s.DISPATCH_BUFFER.entries.map Prod.fst)
            ++ ids (s.DECODE_BUFFER.entries.map Prod.fst) ∧
      s'.IFETCH_BUFFER = s.IFETCH_BUFFER ∧ s'.ROB = s.ROB ∧
      s'.instr_unique_id = s.instr_unique_id := by
  unfold decode_instruction at h
  split at h
  · simp at h
  rename_i s1 hl
  simp only [Outcome.ok.injEq] at h
  subst h
  obtain ⟨h1, h2, h3, h4⟩ := decode_instruction_loop_buffers P _ _ _ hl
  simp only [delay_queue_operate_entries]
  exact ⟨h1, h2, h3, h4⟩

theorem circular_buffer_push_entries {α : Type} (b b' : circular_buffer α) (x : α)
    (h : b.push_back x = .ok b') :
    b'.entries = b.entries ++ [x] ∧ b'.size = b.size ∧ b.entries.length < b.size := by
  unfold circular_buffer.push_back circular_buffer.full at h
  split_ifs at h with hf
  simp only [Outcome.ok.injEq] at h
  subst h
  simp only [decide_eq_true_eq, not_le] at hf
  exact ⟨rfl, rfl, hf⟩

theorem dispatch_instruction_loop_buffers (bw : Nat) :
    ∀ s s' : O3_CPU, dispatch_instruction_loop bw s = .ok s' →
      ids s'.ROB.entries ++ ids (s'.DISPATCH_BUFFER.entries.map Prod.fst)
        = ids s.ROB.entries ++ ids (s.DISPATCH_BUFFER.entries.map Prod.fst) ∧
      s'.IFETCH_BUFFER = s.IFETCH_BUFFER ∧ s'.DECODE_BUFFER = s.DECODE_BUFFER ∧
      s'.instr_unique_id = s.instr_unique_id := by
  induction bw with
  | zero =>
    intro s s' h
    simp only [dispatch_instruction_loop, Outcome.ok.injEq] at h
    subst h; exact ⟨rfl, rfl, rfl, rfl⟩
  | succ bw ih =>
    intro s s' h
    unfold dispatch_instruction_loop at h
    split_ifs at h with hc
    · cases hfr : s.DISPATCH_BUFFER.front with
      | fault e => rw [hfr] at h; simp at h
      | ok x =>
        rw [hfr] at h
        simp only at h
        cases hpush : s.ROB.push_back x with
        | fault e => rw [hpush] at h; simp at h
        | ok rob =>
          rw [hpush] at h
          simp only at h
          cases hpop : s.DISPATCH_BUFFER.pop_front with
          | fault e => rw [hpop] at h; simp at h
          | ok dq =>
            rw [hpop] at h
            simp only at h
            obtain ⟨h1, h2, h3, h4⟩ := ih _ _ h
            simp only at h1 h2 h3 h4
            obtain ⟨p1, -, -⟩ := delay_queue_pop_entries _ _ _ hfr hpop
            obtain ⟨q1, -, -⟩ := circular_buffer_push_entries _ _ _ hpush
            refine ⟨?_, h2, h3, h4⟩
            rw [h1, q1, p1, ids_append, List.append_assoc]
            rfl
    · simp only [Outcome.ok.injEq] at h
      subst h; exact ⟨rfl, rfl, rfl, rfl⟩

theorem dispatch_instruction_buffers (P : Params) (s s' : O3_CPU)
    (h : dispatch_instruction P s = .ok s') :
    ids s'.ROB.entries ++ ids (s'.DISPATCH_BUFFER.entries.map Prod.fst)
        = ids s.ROB.entries ++ ids (s.DISPATCH_BUFFER.entries.map Prod.fst) ∧
      s'.IFETCH_BUFFER = s.IFETCH_BUFFER ∧ s'.DECODE_BUFFER = s.DECODE_BUFFER ∧
      s'.instr_unique_id = s.instr_unique_id := by
  unfold dispatch_instruction at h
  split_ifs at h
  · simp only [Outcome.ok.injEq] at h
    subst h; exact ⟨rfl, rfl, rfl, rfl⟩
  · split at h
    · simp at h
    rename_i s1 hl
    simp only [Outcome.ok.injEq] at h
    subst h
    obtain ⟨h1, h2, h3, h4⟩ := dispatch_instruction_loop_buffers _ _ _ hl
    simp only [delay_queue_operate_entries]
    exact ⟨h1, h2, h3, h4⟩

/-! ## Lemmas: retirement -/

theorem pending_zero : pending 0 = 0 := rfl

theorem pending_pos (x : Nat) (h : x ≠ 0) : pending x = 1 := by
  unfold pending; rw [if_pos h]

theorem eq_zero_of_pending (x : Nat) (h : pending x = 0) : x = 0 := by
  by_contra hne
  rw [pending_pos x hne] at h
  exact absurd h (by decide)

theorem accepted_writes_append (l1 l2 : List WqCall) (id i : Nat) :
    accepted_writes (l1 ++ l2) id i = accepted_writes l1 id i + accepted_writes l2 id i := by
  unfold accepted_writes; exact List.countP_append _ _ _

theorem accepted_writes_cons (c : WqCall) (l : List WqCall) (id i : Nat) :
    accepted_writes (c :: l) id i
      = accepted_writes l id i + (if c.rob_id = id ∧ c.operand = i ∧ c.result ≠ -2 then 1 else 0) := by
  unfold accepted_writes
  rw [List.countP_cons]
  simp only [decide_eq_true_eq]

theorem accepted_writes_other (l : List WqCall) (id i : Nat)
    (h : ∀ c ∈ l, c.rob_id ≠ id) : accepted_writes l id i = 0 := by
  unfold accepted_writes
  rw [List.countP_eq_zero]
  intro c hc
  simp only [decide_eq_true_eq, not_and]
  intro h1
  exact absurd h1 (h c hc)

theorem getD_set_self (l : List Nat) (i a d : Nat) (h : i < l.length) :
    (l.set i a).getD i d = a := by
  induction l generalizing i with
  | nil => simp at h
  | cons x xs ih =>
    cases i with
    | zero => simp
    | succ i => simp only [List.set_cons_succ, List.getD_cons_succ]; exact ih i (by simpa using h)

theorem getD_set_other (l : List Nat) (i j a d : Nat) (h : i ≠ j) :
    (l.set i a).getD j d = l.getD j d := by
  induction l generalizing i j with
  | nil => simp
  | cons x xs ih =>
    cases i with
    | zero =>
      cases j with
      | zero => exact absurd rfl h
      | succ j => simp
    | succ i =>
      cases j with
      | zero => simp
      | succ j =>
        simp only [List.set_cons_succ, List.getD_cons_succ]
        exact ih i j (by omega)

theorem lt_length_of_getD_ne (l : List Nat) (i d : Nat) (h : l.getD i d ≠ d) : i < l.length := by
  by_contra hlt
  exact h (List.getD_eq_default _ _ (by omega))

theorem get?_set_self (l : List LSQ_ENTRY) (i : Nat) (a x : LSQ_ENTRY)
    (h : l.get? i = some x) : (l.set i a).get? i = some a := by
  induction l generalizing i with
  | nil => simp at h
  | cons y ys ih =>
    cases i with
    | zero => simp
    | succ i => simp only [List.set_cons_succ, List.get?_cons_succ]; exact ih i (by simpa using h)

theorem get?_set_other (l : List LSQ_ENTRY) (i j : Nat) (a : LSQ_ENTRY) (h : i ≠ j) :
    (l.set i a).get? j = l.get? j := by
  induction l generalizing i j with
  | nil => simp
  | cons y ys ih =>
    cases i with
    | zero =>
      cases j with
      | zero => exact absurd rfl h
      | succ j => simp
    | succ i =>
      cases j with
      | zero => simp
      | succ j =>
        simp only [List.set_cons_succ, List.get?_cons_succ]
        exact ih i j (by omega)

/-- One round of the `for` loop of `retire_rob`: the operand is absent and the loop goes
on unchanged; or its write is accepted, the operand and its slot are cleared and the
loop goes on; or its write is rejected and the loop returns at once. -/
theorem retire_stores_cons (P : Params) (cpu cyc : Nat) (wq : Nat → PACKET → Int)
    (i : Nat) (rest : List Nat) (head : ooo_model_instr) (SQ : List LSQ_ENTRY)
    (log : List WqCall) (r : Bool × ooo_model_instr × List LSQ_ENTRY × List WqCall)
    (h : retire_stores P cpu cyc wq (i :: rest) head SQ log = .ok r) :
    (head.destination_memory.getD i 0 = 0 ∧
      retire_stores P cpu cyc wq rest head SQ log = .ok r) ∨
    (head.destination_memory.getD i 0 ≠ 0 ∧ ∃ slot sq_it call,
      head.sq_index.getD i none = some slot ∧ SQ.get? slot = some sq_it ∧
      call.rob_id = head.instr_id ∧ call.operand = i ∧
      ((call.result ≠ -2 ∧
        retire_stores P cpu cyc wq rest
          { head with destination_memory := head.destination_memory.set i 0 }
          (SQ.set slot {}) (log ++ [call]) = .ok r) ∨
       (call.result = -2 ∧ r = (false, head, SQ, log ++ [call])))) := by
  unfold retire_stores at h
  by_cases hdm : head.destination_memory.getD i 0 = 0
  · rw [if_neg (by simpa using hdm)] at h
    exact Or.inl ⟨hdm, h⟩
  · rw [if_pos hdm] at h
    refine Or.inr ⟨hdm, ?_⟩
    cases hs : head.sq_index.getD i none with
    | none => rw [hs] at h; simp at h
    | some slot =>
      rw [hs] at h
      simp only at h
      cases hq : SQ.get? slot with
      | none => rw [hq] at h; simp at h
      | some sq_it =>
        rw [hq] at h
        simp only at h
        refine ⟨slot, sq_it,
          { rob_id := head.instr_id, operand := i, packet := retire_packet P cpu cyc sq_it
            result := wq log.length (retire_packet P cpu cyc sq_it) }, rfl, hq, rfl, rfl, ?_⟩
        by_cases hres : wq log.length (retire_packet P cpu cyc sq_it) = -2
        · refine Or.inr ⟨hres, ?_⟩
          rw [if_neg (by simpa using hres)] at h
          simp only [Outcome.ok.injEq] at h
          exact h.symm
        · refine Or.inl ⟨hres, ?_⟩
          rw [if_pos hres] at h
          exact h

/-- What the `for` loop of `retire_rob` does to the head, the store queue and the list
of calls. -/
theorem retire_stores_spec (P : Params) (cpu cyc : Nat) (wq : Nat → PACKET → Int)
    (l : List Nat) :
    ∀ (head : ooo_model_instr) (SQ : List LSQ_ENTRY) (log : List WqCall) (done : Bool)
      (head' : ooo_model_instr) (SQ' : List LSQ_ENTRY) (log' : List WqCall),
      retire_stores P cpu cyc wq l head SQ log = .ok (done, head', SQ', log') →
      ∃ extra, log' = log ++ extra ∧
        (∀ c ∈ extra, c.rob_id = head.instr_id ∧ c.operand ∈ l) ∧
        forget_dm head' = forget_dm head ∧
        (∀ j, accepted_writes extra head.instr_id j
            + pending (head'.destination_memory.getD j 0)
              = pending (head.destination_memory.getD j 0)) ∧
        (done = true → (∀ j ∈ l, head'.destination_memory.getD j 0 = 0) ∧
          ∀ c ∈ extra, c.result ≠ -2) ∧
        (done = false → ∃ pre c, extra = pre ++ [c] ∧ c.result = -2 ∧
          head'.destination_memory.getD c.operand 0 ≠ 0 ∧ ∀ c' ∈ pre, c'.result ≠ -2) ∧
        SQ'.length = SQ.length ∧
        (∀ slot, SQ'.get? slot = SQ.get? slot ∨ SQ'.get? slot = some {}) ∧
        (∀ c ∈ extra, c.result ≠ -2 → ∃ slot,
          head.sq_index.getD c.operand none = some slot ∧ SQ'.get? slot = some {}) := by
  induction l with
  | nil =>
    intro head SQ log done head' SQ' log' h
    simp only [retire_stores, Outcome.ok.injEq, Prod.mk.injEq] at h
    obtain ⟨rfl, rfl, rfl, rfl⟩ := h
    refine ⟨[], by simp, by simp, rfl, ?_, ?_, by simp, rfl, fun _ => Or.inl rfl, by simp⟩
    · intro j; simp [accepted_writes]
    · intro _; simp
  | cons i rest ih =>
    intro head SQ log done head' SQ' log' h
    rcases retire_stores_cons P cpu cyc wq i rest head SQ log _ h with
      ⟨hdm, hrest⟩ | ⟨hdm, slot, sq_it, call, hslot, hsq, hcid, hcop, hacc | hrej⟩
    · -- no operand at `i`
      obtain ⟨extra, e1, e2, e3, e4, e5, e6, e7, e8, e9⟩ := ih _ _ _ _ _ _ _ hrest
      refine ⟨extra, e1, ?_, e3, e4, ?_, e6, e7, e8, e9⟩
      · intro c hc
        exact ⟨(e2 c hc).1, List.mem_cons_of_mem _ (e2 c hc).2⟩
      · intro hd
        refine ⟨?_, (e5 hd).2⟩
        intro j hj
        rcases List.mem_cons.mp hj with rfl | hj
        · have := e4 j
          rw [hdm, pending_zero] at this
          exact eq_zero_of_pending _ (by omega)
        · exact (e5 hd).1 j hj
    · -- the write of operand `i` is accepted
      obtain ⟨hres, hrest⟩ := hacc
      obtain ⟨extra, e1, e2, e3, e4, e5, e6, e7, e8, e9⟩ := ih _ _ _ _ _ _ _ hrest
      have hlen : i < head.destination_memory.length := lt_length_of_getD_ne _ _ _ hdm
      have hcount : ∀ j, accepted_writes (call :: extra) head.instr_id j
            + pending (head'.destination_memory.getD j 0)
              = pending (head.destination_memory.getD j 0) := by
        intro j
        have := e4 j
        simp only at this
        rw [accepted_writes_cons]
        by_cases hji : i = j
        · subst hji
          rw [getD_set_self _ _ _ _ hlen, pending_zero] at this
          rw [if_pos ⟨hcid, hcop, hres⟩, pending_pos _ hdm]
          omega
        · rw [getD_set_other _ _ _ _ _ hji] at this
          rw [if_neg (by rw [hcop]; tauto)]
          omega
      refine ⟨call :: extra, ?_, ?_, e3, hcount, ?_, ?_, ?_, ?_, ?_⟩
      · rw [e1, List.append_assoc]; rfl
      · intro c hc
        rcases List.mem_cons.mp hc with rfl | hc
        · exact ⟨hcid, by rw [hcop]; exact List.mem_cons_self _ _⟩
        · exact ⟨(e2 c hc).1, List.mem_cons_of_mem _ (e2 c hc).2⟩
      · intro hd
        refine ⟨?_, ?_⟩
        · intro j hj
          rcases List.mem_cons.mp hj with rfl | hj
          · have := e4 j
            simp only at this
            rw [getD_set_self _ _ _ _ hlen, pending_zero] at this
            exact eq_zero_of_pending _ (by omega)
          · exact (e5 hd).1 j hj
        · intro c hc
          rcases List.mem_cons.mp hc with rfl | hc
          · exact hres
          · exact (e5 hd).2 c hc
      · intro hd
        obtain ⟨pre, c, p1, p2, p3, p4⟩ := e6 hd
        refine ⟨call :: pre, c, by rw [p1]; rfl, p2, p3, ?_⟩
        intro c' hc'
        rcases List.mem_cons.mp hc' with rfl | hc'
        · exact hres
        · exact p4 c' hc'
      · rw [e7, List.length_set]
      · intro s
        rcases e8 s with h1 | h1
        · by_cases hs : slot = s
          · subst hs
            right; rw [h1]; exact get?_set_self _ _ _ _ hsq
          · left; rw [h1]; exact get?_set_other _ _ _ _ hs
        · exact Or.inr h1
      · intro c hc hcr
        rcases List.mem_cons.mp hc with rfl | hc
        · refine ⟨slot, by rw [hcop]; exact hslot, ?_⟩
          rcases e8 slot with h1 | h1
          · rw [h1]; exact get?_set_self _ _ _ _ hsq
          · exact h1
        · exact e9 c hc hcr
    · -- the write of operand `i` is rejected
      obtain ⟨hres, hr⟩ := hrej
      simp only [Prod.mk.injEq] at hr
      obtain ⟨rfl, rfl, rfl, rfl⟩ := hr
      refine ⟨[call], rfl, ?_, rfl, ?_, by simp, ?_, rfl, fun _ => Or.inl rfl, ?_⟩
      · intro c hc
        rw [List.mem_singleton] at hc
        subst hc
        exact ⟨hcid, by rw [hcop]; exact List.mem_cons_self _ _⟩
      · intro j
        rw [accepted_writes_cons, if_neg (by tauto)]
        simp [accepted_writes]
      · intro _
        exact ⟨[], call, rfl, hres, by rw [hcop]; exact hdm, by simp⟩
      · intro c hc hcr
        rw [List.mem_singleton] at hc
        subst hc
        exact absurd hres hcr

/-- One round of the `while` loop of `retire_rob`: the loop ends because the ROB is
empty or its head is not completed; or the head stalls on a rejected write; or the head
is released and the loop goes on. -/
theorem retire_rob_loop_succ (P : Params) (wq : Nat → PACKET → Int) (bw : Nat) (s : O3_CPU)
    (log : List WqCall) (out : List ooo_model_instr)
    (r : O3_CPU × List WqCall × List ooo_model_instr)
    (h : retire_rob_loop P wq (bw + 1) s log out = .ok r) :
    ((s.ROB.entries = [] ∨ ∃ head rest, s.ROB.entries = head :: rest ∧
        head.executed ≠ COMPLETED) ∧ r = (s, log, out)) ∨
    (∃ head rest head1 SQ1 log1, s.ROB.entries = head :: rest ∧ head.executed = COMPLETED ∧
      retire_stores P s.cpu s.current_core_cycle wq (List.range P.MAX_INSTR_DESTINATIONS)
        head s.SQ log = .ok (false, head1, SQ1, log1) ∧
      r = ({ s with ROB := { s.ROB with entries := head1 :: rest }, SQ := SQ1 }, log1, out)) ∨
    (∃ head rest head1 SQ1 log1, s.ROB.entries = head :: rest ∧ head.executed = COMPLETED ∧
      retire_stores P s.cpu s.current_core_cycle wq (List.range P.MAX_INSTR_DESTINATIONS)
        head s.SQ log = .ok (true, head1, SQ1, log1) ∧
      retire_rob_loop P wq bw
        { s with ROB := { s.ROB with entries := rest }
                 SQ := SQ1
                 completed_executions := sub64 s.completed_executions 1
                 num_retired := add64 s.num_retired 1 }
        log1 (out ++ [head1]) = .ok r) := by
  unfold retire_rob_loop at h
  cases hR : s.ROB.entries with
  | nil =>
    rw [hR] at h
    simp only [Outcome.ok.injEq] at h
    exact Or.inl ⟨Or.inl rfl, h.symm⟩
  | cons head rest =>
    rw [hR] at h
    simp only at h
    by_cases hex : head.executed = COMPLETED
    · rw [if_pos hex] at h
      cases hst : retire_stores P s.cpu s.current_core_cycle wq
          (List.range P.MAX_INSTR_DESTINATIONS) head s.SQ log with
      | fault e => rw [hst] at h; simp at h
      | ok res =>
        obtain ⟨done, head1, SQ1, log1⟩ := res
        rw [hst] at h
        cases done with
        | false =>
          simp only [Outcome.ok.injEq] at h
          exact Or.inr (Or.inl ⟨head, rest, head1, SQ1, log1, rfl, hex, hst, h.symm⟩)
        | true =>
          simp only at h
          exact Or.inr (Or.inr ⟨head, rest, head1, SQ1, log1, rfl, hex, hst, h⟩)
    · rw [if_neg hex] at h
      simp only [Outcome.ok.injEq] at h
      exact Or.inl ⟨Or.inr ⟨head, rest, rfl, hex⟩, h.symm⟩

theorem forall₂_forget_refl (l : List ooo_model_instr) :
    List.Forall₂ (fun e0 e => forget_dm e = forget_dm e0) l l := by
  induction l with
  | nil => exact List.Forall₂.nil
  | cons x xs ih => exact List.Forall₂.cons rfl ih

theorem track_refl (L : List WqCall) (l : List ooo_model_instr)
    (h : ∀ e ∈ l, ∀ c ∈ L, c.rob_id ≠ e.instr_id) : List.Forall₂ (track L) l l := by
  induction l with
  | nil => exact List.Forall₂.nil
  | cons x xs ih =>
    refine List.Forall₂.cons ?_ (ih fun e he => h e (List.mem_cons_of_mem _ he))
    intro j
    rw [accepted_writes_other L _ j (h x (List.mem_cons_self _ _))]
    omega

theorem track_shift (L1 L2 : List WqCall) (l1 l2 : List ooo_model_instr)
    (h : List.Forall₂ (track L2) l1 l2)
    (h1 : ∀ e ∈ l1, ∀ c ∈ L1, c.rob_id ≠ e.instr_id) :
    List.Forall₂ (track (L1 ++ L2)) l1 l2 := by
  induction h with
  | nil => exact List.Forall₂.nil
  | cons hab _ ih =>
    refine List.Forall₂.cons ?_ (ih fun e he => h1 e (List.mem_cons_of_mem _ he))
    intro j
    rw [accepted_writes_append, accepted_writes_other L1 _ j (h1 _ (List.mem_cons_self _ _))]
    have := hab j
    omega

theorem not_mem_ids_of_nodup (head : ooo_model_instr) (rest : List ooo_model_instr)
    (h : (ids (head :: rest)).Nodup) : ∀ e ∈ rest, e.instr_id ≠ head.instr_id := by
  intro e he heq
  simp only [ids, List.map_cons, List.nodup_cons] at h
  exact h.1 (List.mem_map.mpr ⟨e, he, heq⟩)

theorem mem_range_lt (n j : Nat) (h : j ∈ List.range n) : j < n := List.mem_range.mp h

/-- What the `while` loop of `retire_rob` does: it releases a prefix of the ROB, no more
records than the bound on its rounds, each completed and with every destination memory
operand cleared; it writes nothing of a record but `destination_memory`; writes are rejected
only as the last call, and then the head it was made for stays in the ROB with that
operand still set. -/
theorem retire_rob_loop_spec (P : Params) (wq : Nat → PACKET → Int) (bw : Nat) :
    ∀ (s s' : O3_CPU) (log log' : List WqCall) (out out' : List ooo_model_instr),
      retire_rob_loop P wq bw s log out = .ok (s', log', out') →
      ∃ released extra, out' = out ++ released ∧ log' = log ++ extra ∧
        released.length ≤ bw ∧
        List.Forall₂ (fun e0 e => forget_dm e = forget_dm e0) s.ROB.entries
          (released ++ s'.ROB.entries) ∧
        (∀ e ∈ released, e.executed = COMPLETED ∧
          ∀ j, j < P.MAX_INSTR_DESTINATIONS → e.destination_memory.getD j 0 = 0) ∧
        (released = [] → s'.num_retired = s.num_retired) ∧
        s'.num_retired % 2 ^ 64 = (s.num_retired + released.length) % 2 ^ 64 ∧
        (s'.ROB.size = s.ROB.size ∧ s'.IFETCH_BUFFER = s.IFETCH_BUFFER ∧
          s'.DECODE_BUFFER = s.DECODE_BUFFER ∧ s'.DISPATCH_BUFFER = s.DISPATCH_BUFFER ∧
          s'.instr_unique_id = s.instr_unique_id) ∧
        (∀ c ∈ extra, c.rob_id ∈ ids s.ROB.entries ∧ c.operand < P.MAX_INSTR_DESTINATIONS) ∧
        ((∀ c ∈ extra, c.result ≠ -2) ∨
          ∃ pre c head' rest', extra = pre ++ [c] ∧ c.result = -2 ∧
            (∀ c' ∈ pre, c'.result ≠ -2) ∧ s'.ROB.entries = head' :: rest' ∧
            c.rob_id = head'.instr_id ∧ head'.executed = COMPLETED ∧
            head'.destination_memory.getD c.operand 0 ≠ 0) ∧
        s'.SQ.length = s.SQ.length ∧
        (∀ slot, s'.SQ.get? slot = s.SQ.get? slot ∨ s'.SQ.get? slot = some {}) ∧
        (∀ c ∈ extra, c.result ≠ -2 → ∃ e0 ∈ s.ROB.entries, e0.instr_id = c.rob_id ∧
          ∃ slot, e0.sq_index.getD c.operand none = some slot ∧
            s'.SQ.get? slot = some {}) ∧
        ((ids s.ROB.entries).Nodup →
          List.Forall₂ (track extra) s.ROB.entries (released ++ s'.ROB.entries)) := by
  induction bw with
  | zero =>
    intro s s' log log' out out' h
    simp only [retire_rob_loop, Outcome.ok.injEq, Prod.mk.injEq] at h
    obtain ⟨rfl, rfl, rfl⟩ := h
    exact ⟨[], [], by simp, by simp, by simp, by simp [forall₂_forget_refl], by simp,
      fun _ => rfl, by simp, ⟨rfl, rfl, rfl, rfl, rfl⟩, by simp, Or.inl (by simp), rfl,
      fun _ => Or.inl rfl, by simp, fun _ => track_refl [] _ (by simp)⟩
  | succ bw ih =>
    intro s s' log log' out out' h
    rcases retire_rob_loop_succ P wq bw s log out _ h with
      ⟨-, hr⟩ | ⟨head, rest, head1, SQ1, log1, hR, hex, hst, hr⟩ |
      ⟨head, rest, head1, SQ1, log1, hR, hex, hst, hrec⟩
    · simp only [Prod.mk.injEq] at hr
      obtain ⟨rfl, rfl, rfl⟩ := hr
      exact ⟨[], [], by simp, by simp, by simp, by simp [forall₂_forget_refl], by simp,
        fun _ => rfl, by simp, ⟨rfl, rfl, rfl, rfl, rfl⟩, by simp, Or.inl (by simp), rfl,
        fun _ => Or.inl rfl, by simp, fun _ => track_refl [] _ (by simp)⟩
    · -- the head stalls
      simp only [Prod.mk.injEq] at hr
      obtain ⟨rfl, rfl, rfl⟩ := hr
      obtain ⟨extra, e1, e2, e3, e4, e5, e6, e7, e8, e9⟩ :=
        retire_stores_spec P _ _ wq _ _ _ _ _ _ _ _ hst
      obtain ⟨pre, c, p1, p2, p3, p4⟩ := e6 rfl
      have hcid : c.rob_id = head.instr_id := (e2 c (by rw [p1]; simp)).1
      have hid1 : head1.instr_id = head.instr_id := by
        have := congrArg ooo_model_instr.instr_id e3
        simpa [forget_dm] using this
      have hex1 : head1.executed = head.executed := by
        have := congrArg ooo_model_instr.executed e3
        simpa [forget_dm] using this
      refine ⟨[], extra, by simp, e1, by simp, ?_, by simp, fun _ => rfl, by simp,
        ⟨rfl, rfl, rfl, rfl, rfl⟩, ?_, ?_, e7, e8, ?_, ?_⟩
      · rw [hR]
        simp only [List.nil_append]
        exact List.Forall₂.cons e3 (forall₂_forget_refl rest)
      · intro c' hc'
        rw [hR]
        exact ⟨by rw [(e2 c' hc').1]; simp [ids], mem_range_lt _ _ (e2 c' hc').2⟩
      · exact Or.inr ⟨pre, c, head1, rest, p1, p2, p4, rfl, by rw [hcid, hid1],
          by rw [hex1]; exact hex, p3⟩
      · intro c' hc' hacc
        obtain ⟨slot, hs1, hs2⟩ := e9 c' hc' hacc
        exact ⟨head, by rw [hR]; exact List.mem_cons_self _ _, (e2 c' hc').1.symm, slot, hs1, hs2⟩
      · intro hnd
        rw [hR] at hnd ⊢
        simp only [List.nil_append]
        refine List.Forall₂.cons e4 (track_refl extra rest ?_)
        intro e he c' hc'
        rw [(e2 c' hc').1]
        exact (not_mem_ids_of_nodup head rest hnd e he).symm
    · -- the head is released
      obtain ⟨extra, e1, e2, e3, e4, e5, e6, e7, e8, e9⟩ :=
        retire_stores_spec P _ _ wq _ _ _ _ _ _ _ _ hst
      obtain ⟨released, extra2, r1, r2, r3, r4, r5, r6, r7, r8, r9, r10, r11, r12, r13, r14⟩ :=
        ih _ _ _ _ _ _ hrec
      simp only at r4 r6 r7 r8 r9 r11 r12 r13 r14
      have hex1 : head1.executed = head.executed := by
        have := congrArg ooo_model_instr.executed e3
        simpa [forget_dm] using this
      refine ⟨head1 :: released, extra ++ extra2, ?_, ?_, ?_, ?_, ?_, ?_, ?_,
        r8, ?_, ?_, ?_, ?_, ?_, ?_⟩
      · rw [r1, List.append_assoc]; rfl
      · rw [r2, e1, List.append_assoc]
      · simp only [List.length_cons]; omega
      · rw [hR]
        exact List.Forall₂.cons e3 r4
      · intro e he
        rcases List.mem_cons.mp he with rfl | he
        · refine ⟨by rw [hex1]; exact hex, ?_⟩
          intro j hj
          exact (e5 rfl).1 j (List.mem_range.mpr hj)
        · exact r5 e he
      · intro hnil; simp at hnil
      · rw [r7]
        simp only [List.length_cons, add64]
        rw [Nat.add_mod, Nat.mod_mod, ← Nat.add_mod]
        congr 1; omega
      · intro c hc
        rw [hR]
        rcases List.mem_append.mp hc with hc | hc
        · exact ⟨by rw [(e2 c hc).1]; simp [ids], mem_range_lt _ _ (e2 c hc).2⟩
        · refine ⟨?_, (r9 c hc).2⟩
          have := (r9 c hc).1
          simp only [ids, List.map_cons, List.mem_cons]
          exact Or.inr this
      · rcases r10 with hall | ⟨pre, c, head', rest', q1, q2, q3, q4, q5, q6, q7⟩
        · left
          intro c hc
          rcases List.mem_append.mp hc with hc | hc
          · exact (e5 rfl).2 c hc
          · exact hall c hc
        · right
          refine ⟨extra ++ pre, c, head', rest', by rw [q1, List.append_assoc], q2, ?_,
            q4, q5, q6, q7⟩
          intro c' hc'
          rcases List.mem_append.mp hc' with hc' | hc'
          · exact (e5 rfl).2 c' hc'
          · exact q3 c' hc'
      · rw [r11, e7]
      · intro slot
        rcases r12 slot with h1 | h1
        · rcases e8 slot with h2 | h2
          · exact Or.inl (h1.trans h2)
          · exact Or.inr (h1.trans h2)
        · exact Or.inr h1
      · intro c hc hacc
        rcases List.mem_append.mp hc with hc | hc
        · obtain ⟨slot, hs1, hs2⟩ := e9 c hc hacc
          refine ⟨head, by rw [hR]; exact List.mem_cons_self _ _, (e2 c hc).1.symm, slot, hs1, ?_⟩
          rcases r12 slot with h1 | h1
          · rw [h1]; exact hs2
          · exact h1
        · obtain ⟨e0, he0, hid, slot, hs1, hs2⟩ := r13 c hc hacc
          exact ⟨e0, by rw [hR]; exact List.mem_cons_of_mem _ he0, hid, slot, hs1, hs2⟩
      · intro hnd
        rw [hR] at hnd ⊢
        have hnd' : (ids rest).Nodup := by
          simp only [ids, List.map_cons, List.nodup_cons] at hnd
          exact hnd.2
        have hne := not_mem_ids_of_nodup head rest hnd
        refine List.Forall₂.cons ?_ ?_
        · intro j
          rw [accepted_writes_append, accepted_writes_other extra2 _ j]
          · exact e4 j
          · intro c hc heq
            obtain ⟨e, he, hid⟩ := List.mem_map.mp (r9 c hc).1
            exact hne e he (hid.trans heq)
        · refine track_shift extra extra2 rest _ (r14 hnd') ?_
          intro e he c hc
          rw [(e2 c hc).1]
          exact (hne e he).symm

theorem ids_of_forall₂_forget (l1 l2 : List ooo_model_instr)
    (h : List.Forall₂ (fun e0 e => forget_dm e = forget_dm e0) l1 l2) : ids l2 = ids l1 := by
  induction h with
  | nil => rfl
  | cons hab _ ih =>
    simp only [ids, List.map_cons] at ih ⊢
    rw [ih]
    have := congrArg ooo_model_instr.instr_id hab
    simp only [forget_dm] at this
    rw [this]

/-- The bound on the rounds of the `while` loop of `retire_rob` is never what ends the
loop: with a bound of at least the number of records of the ROB the loop does what it
does with that number. -/
theorem retire_rob_loop_rounds (P : Params) (wq : Nat → PACKET → Int) (n : Nat) :
    ∀ (s : O3_CPU) (log : List WqCall) (out : List ooo_model_instr),
      s.ROB.entries.length ≤ n →
      retire_rob_loop P wq n s log out
        = retire_rob_loop P wq s.ROB.entries.length s log out := by
  induction n with
  | zero =>
    intro s log out hle
    rw [Nat.le_zero.mp hle]
  | succ n ih =>
    intro s log out hle
    cases hR : s.ROB.entries with
    | nil =>
      rw [List.length_nil]
      unfold retire_rob_loop
      rw [hR]
    | cons head rest =>
      rw [List.length_cons]
      rw [hR, List.length_cons] at hle
      unfold retire_rob_loop
      rw [hR]
      simp only
      split_ifs
      · cases retire_stores P s.cpu s.current_core_cycle wq
            (List.range P.MAX_INSTR_DESTINATIONS) head s.SQ log with
        | fault e => rfl
        | ok res =>
          obtain ⟨done, head1, SQ1, log1⟩ := res
          cases done with
          | false => rfl
          | true =>
            simp only
            rw [ih _ _ _ (by simp only; omega)]
      · rfl

/-- The `while` loop of `retire_rob` ends with an empty ROB, or at a head that is not
completed, or on a rejected write. -/
theorem retire_rob_loop_exit (P : Params) (wq : Nat → PACKET → Int) (n : Nat) :
    ∀ (s s' : O3_CPU) (log log' : List WqCall) (out out' : List ooo_model_instr),
      s.ROB.entries.length ≤ n →
      retire_rob_loop P wq n s log out = .ok (s', log', out') →
      s'.ROB.entries = [] ∨
      (∃ head rest, s'.ROB.entries = head :: rest ∧ head.executed ≠ COMPLETED) ∨
      (∃ pre c, log' = pre ++ [c] ∧ c.result = -2) := by
  induction n with
  | zero =>
    intro s s' log log' out out' hle h
    simp only [retire_rob_loop, Outcome.ok.injEq, Prod.mk.injEq] at h
    obtain ⟨rfl, -, -⟩ := h
    exact Or.inl (List.length_eq_zero.mp (Nat.le_zero.mp hle))
  | succ n ih =>
    intro s s' log log' out out' hle h
    rcases retire_rob_loop_succ P wq n s log out _ h with
      ⟨hidle, hr⟩ | ⟨head, rest, head1, SQ1, log1, hR, -, hst, hr⟩ |
      ⟨head, rest, head1, SQ1, log1, hR, -, hst, hr⟩
    · simp only [Prod.mk.injEq] at hr
      obtain ⟨rfl, -, -⟩ := hr
      rcases hidle with hidle | hidle
      · exact Or.inl hidle
      · exact Or.inr (Or.inl hidle)
    · simp only [Prod.mk.injEq] at hr
      obtain ⟨-, rfl, -⟩ := hr
      obtain ⟨extra, e1, -, -, -, -, e6, -⟩ :=
        retire_stores_spec P _ _ wq _ _ _ _ _ _ _ _ hst
      obtain ⟨pre, c, e7, e8, -⟩ := e6 rfl
      exact Or.inr (Or.inr ⟨log ++ pre, c, by rw [e1, e7, List.append_assoc], e8⟩)
    · apply ih _ _ _ _ _ _ _ hr
      simp only
      rw [hR, List.length_cons] at hle
      omega

/-- The result of `retire_rob` is a result of its `while` loop. -/
theorem retire_rob_as_loop (P : Params) (s : O3_CPU) (wq : Nat → PACKET → Int)
    (r : O3_CPU × List WqCall × List ooo_model_instr) (h : retire_rob P s wq = .ok r) :
    ∃ bw, retire_rob_loop P wq bw s [] [] = .ok r := by
  unfold retire_rob at h
  simp only at h
  split_ifs at h
  · exact ⟨_, h⟩
  · exact ⟨0, h⟩

/-- A call of `retire_rob` ends only where the `while` loop of the code ends: with
`RETIRE_WIDTH` zero, with an empty ROB, at a head that is not completed, or on a
rejected write. The number of records popped is not what ends it. -/
theorem retire_rob_exit (P : Params) (s s' : O3_CPU) (wq : Nat → PACKET → Int)
    (log : List WqCall) (out : List ooo_model_instr)
    (h : retire_rob P s wq = .ok (s', log, out)) :
    P.RETIRE_WIDTH % 2 ^ 32 = 0 ∨ s'.ROB.entries = [] ∨
    (∃ head rest, s'.ROB.entries = head :: rest ∧ head.executed ≠ COMPLETED) ∨
    (∃ pre c, log = pre ++ [c] ∧ c.result = -2) := by
  unfold retire_rob at h
  simp only at h
  split_ifs at h with hw
  · exact Or.inr (retire_rob_loop_exit P wq _ s s' [] log [] out (Nat.le_refl _) h)
  · exact Or.inl (by omega)

theorem retire_rob_buffers (P : Params) (s s' : O3_CPU) (wq : Nat → PACKET → Int)
    (log : List WqCall) (out : List ooo_model_instr)
    (h : retire_rob P s wq = .ok (s', log, out)) :
    ids out ++ pipeline_ids s' = pipeline_ids s ∧ s'.instr_unique_id = s.instr_unique_id := by
  obtain ⟨bw, h⟩ := retire_rob_as_loop P s wq _ h
  obtain ⟨released, extra, r1, -, -, r4, -, -, -, ⟨-, f2, f3, f4, f5⟩, -⟩ :=
    retire_rob_loop_spec P wq _ _ _ _ _ _ _ h
  simp only [List.nil_append] at r1
  subst r1
  have := ids_of_forall₂_forget _ _ r4
  rw [ids_append] at this
  refine ⟨?_, f5⟩
  unfold pipeline_ids
  rw [f2, f3, f4, ← this]
  simp only [List.append_assoc]

/-- Invariant of a tick sequence that starts with empty buffers: the ids released so
far followed by the ids in the pipeline, oldest first, are the consecutive ids handed
out so far, as long as the 64-bit `instr_unique_id` has not wrapped. -/
theorem run_ids (P : Params) (s0 s : O3_CPU) (retired : List ooo_model_instr) (n : Nat)
    (hrun : Run P s0 s retired n) (hempty : pipeline_ids s0 = [])
    (hid : s0.instr_unique_id + n ≤ 2 ^ 64) :
    ids retired ++ pipeline_ids s = List.range' s0.instr_unique_id n ∧
      s.instr_unique_id = if n = 0 then s0.instr_unique_id
        else (s0.instr_unique_id + n) % 2 ^ 64 := by
  induction hrun with
  | start =>
    exact ⟨by simp [ids, hempty], by simp⟩
  | step s s' retired out n k hrun htick ih =>
    obtain ⟨ih1, ih2⟩ := ih (by omega)
    cases htick with
    | init a b p m hinit =>
      obtain ⟨⟨x, hx, hxs⟩, -, -, hD, hS, hR, hU⟩ := init_instruction_buffers P s s' a b p m hinit
      have hlt : s0.instr_unique_id + n < 2 ^ 64 := by omega
      have ih3 : s.instr_unique_id = s0.instr_unique_id + n := by
        rw [ih2]
        split_ifs with h0
        · rw [h0]; rfl
        · exact Nat.mod_eq_of_lt hlt
      refine ⟨?_, ?_⟩
      · rw [List.range'_1_concat, ← ih1]
        unfold pipeline_ids
        rw [hD, hS, hR, hxs, ids_append, ids_append]
        simp only [ids, List.map_cons, List.map_nil, List.append_nil, List.append_assoc, hx, ih3]
      · rw [hU, ih3, if_neg (by omega)]
        unfold add64
        rfl
    | promote h =>
      obtain ⟨h1, h2, h3, h4⟩ := promote_to_decode_loop_buffers _ _ _ h
      simp only [List.append_nil, Nat.add_zero]
      refine ⟨?_, by rw [h4]; exact ih2⟩
      rw [← ih1]
      unfold pipeline_ids
      simp only [List.append_assoc, h1, h2, h3]
    | decode h =>
      obtain ⟨h1, h2, h3, h4⟩ := decode_instruction_buffers P _ _ h
      simp only [List.append_nil, Nat.add_zero]
      refine ⟨?_, by rw [h4]; exact ih2⟩
      rw [← ih1]
      unfold pipeline_ids
      simp only [List.append_assoc, h2, h3]
      rw [← List.append_assoc (ids (List.map Prod.fst s'.DISPATCH_BUFFER.entries)), h1]
      simp only [List.append_assoc]
    | dispatch h =>
      obtain ⟨h1, h2, h3, h4⟩ := dispatch_instruction_buffers P _ _ h
      simp only [List.append_nil, Nat.add_zero]
      refine ⟨?_, by rw [h4]; exact ih2⟩
      rw [← ih1]
      unfold pipeline_ids
      simp only [List.append_assoc, h2, h3]
      rw [← List.append_assoc (ids s'.ROB.entries), h1]
      simp only [List.append_assoc]
    | retire wq log out' h =>
      obtain ⟨h1, h2⟩ := retire_rob_buffers P _ _ wq log _ h
      simp only [Nat.add_zero]
      refine ⟨?_, by rw [h2]; exact ih2⟩
      rw [← ih1, ids_append, List.append_assoc, h1]
    | other h =>
      obtain ⟨h0, h1, h2, h3, h4⟩ := h
      simp only [List.append_nil, Nat.add_zero]
      refine ⟨?_, by rw [h0]; exact ih2⟩
      rw [← ih1]
      unfold pipeline_ids
      simp only [h1, h2, h3, h4]

/-- C1: in every tick sequence that starts with empty buffers and reads no more
instructions than the 64-bit `instr_unique_id` can number, the instructions released
by `retire_rob` leave in strictly increasing `instr_id` order: the ids are pairwise
increasing in release order, each released instruction has a smaller id than the next,
and the released ids are the first ids handed out, without a gap. -/
theorem retire_rob_program_order (P : Params) (s0 s : O3_CPU)
    (retired : List ooo_model_instr) (n : Nat)
    (hrun : Run P s0 s retired n) (hempty : pipeline_ids s0 = [])
    (hid : s0.instr_unique_id + n ≤ 2 ^ 64) :
    (ids retired).Pairwise (fun a b => a < b) ∧
    (∀ i (h : i + 1 < retired.length),
      (retired.get ⟨i, by omega⟩).instr_id < (retired.get ⟨i + 1, h⟩).instr_id) ∧
    ids retired = List.range' s0.instr_unique_id retired.length := by
  obtain ⟨h1, -⟩ := run_ids P s0 s retired n hrun hempty hid
  have hpw : (ids retired).Pairwise (fun a b => a < b) := by
    have := List.pairwise_lt_range' s0.instr_unique_id n
    rw [← h1] at this
    exact (List.pairwise_append.mp this).1
  refine ⟨hpw, ?_, ?_⟩
  · intro i h
    have hlen : (ids retired).length = retired.length := by simp [ids]
    have := List.pairwise_iff_get.mp hpw ⟨i, by omega⟩ ⟨i + 1, by omega⟩ (by simp)
    simpa [ids] using this
  · have hlen : retired.length ≤ n := by
      have := congrArg List.length h1
      simp only [List.length_append, List.length_range', ids, List.length_map] at this
      omega
    have hsplit : List.range' s0.instr_unique_id n
        = List.range' s0.instr_unique_id retired.length
          ++ List.range' (s0.instr_unique_id + retired.length) (n - retired.length) := by
      rw [List.range'_append_1]
      congr 1; omega
    rw [hsplit] at h1
    exact (List.append_inj h1 (by simp [ids])).1

theorem map_forget_of_forall₂ (l1 l2 : List ooo_model_instr)
    (h : List.Forall₂ (fun e0 e => forget_dm e = forget_dm e0) l1 l2) :
    l2.map forget_dm = l1.map forget_dm := by
  induction h with
  | nil => rfl
  | cons hab _ ih => simp only [List.map_cons, ih, hab]

theorem retire_rob_loop_idle (P : Params) (wq : Nat → PACKET → Int) (bw : Nat) (s : O3_CPU)
    (log : List WqCall) (out : List ooo_model_instr)
    (h : s.ROB.entries = [] ∨ ∃ head rest, s.ROB.entries = head :: rest ∧
        head.executed ≠ COMPLETED) :
    retire_rob_loop P wq bw s log out = .ok (s, log, out) := by
  cases bw with
  | zero => rfl
  | succ bw =>
    unfold retire_rob_loop
    rcases h with h | ⟨head, rest, h, hex⟩
    · rw [h]
    · rw [h]
      simp only
      rw [if_neg hex]

/-- With an empty ROB or a head that is not completed `retire_rob` changes nothing. -/
theorem retire_rob_idle (P : Params) (s : O3_CPU) (wq : Nat → PACKET → Int)
    (h : s.ROB.entries = [] ∨ ∃ head rest, s.ROB.entries = head :: rest ∧
        head.executed ≠ COMPLETED) :
    retire_rob P s wq = .ok (s, [], []) := by
  unfold retire_rob
  simp only
  split_ifs
  · exact retire_rob_loop_idle P wq _ s [] [] h
  · rfl

/-- The records that `retire_rob` pops are, in order and apart from their cleared
`destination_memory`, the first records of the ROB as the call found it, so each was the
head when it was popped; each has `executed == COMPLETED`; the rest of the ROB stays in
place; and with an empty ROB or a head that is not completed the call pops nothing and
changes nothing. -/
theorem retire_rob_pops_oldest (P : Params) (s s' : O3_CPU) (wq : Nat → PACKET → Int)
    (log : List WqCall) (out : List ooo_model_instr)
    (h : retire_rob P s wq = .ok (s', log, out)) :
    out.length ≤ s.ROB.entries.length ∧
    out.map forget_dm = (s.ROB.entries.take out.length).map forget_dm ∧
    s'.ROB.entries.map forget_dm = (s.ROB.entries.drop out.length).map forget_dm ∧
    (∀ e ∈ s.ROB.entries.take out.length, e.executed = COMPLETED) ∧
    (∀ e ∈ out, e.executed = COMPLETED) ∧
    ((s.ROB.entries = [] ∨ ∃ head rest, s.ROB.entries = head :: rest ∧
        head.executed ≠ COMPLETED) → out = [] ∧ s' = s) := by
  have h0 := h
  obtain ⟨bw, h⟩ := retire_rob_as_loop P s wq _ h
  obtain ⟨released, extra, r1, -, -, r4, r5, -⟩ := retire_rob_loop_spec P wq _ _ _ _ _ _ _ h
  simp only [List.nil_append] at r1
  subst r1
  have hmap := map_forget_of_forall₂ _ _ r4
  rw [List.map_append] at hmap
  have hlen : out.length ≤ s.ROB.entries.length := by
    have := congrArg List.length hmap
    simp only [List.length_append, List.length_map] at this
    omega
  have htake : out.map forget_dm = (s.ROB.entries.take out.length).map forget_dm := by
    rw [List.map_take, ← hmap]
    have : out.length = (out.map forget_dm).length := by simp
    rw [this, List.take_left]
  have hdrop : s'.ROB.entries.map forget_dm
      = (s.ROB.entries.drop out.length).map forget_dm := by
    rw [List.map_drop, ← hmap]
    have : out.length = (out.map forget_dm).length := by simp
    rw [this, List.drop_left]
  refine ⟨hlen, htake, hdrop, ?_, fun e he => (r5 e he).1, ?_⟩
  · intro e0 he0
    have hm : forget_dm e0 ∈ out.map forget_dm := by
      rw [htake]; exact List.mem_map_of_mem _ he0
    obtain ⟨e, he, hfe⟩ := List.mem_map.mp hm
    have := congrArg ooo_model_instr.executed hfe
    simp only [forget_dm] at this
    rw [← this]
    exact (r5 e he).1
  · intro hidle
    have := retire_rob_idle P s wq hidle
    rw [this] at h0
    simp only [Outcome.ok.injEq, Prod.mk.injEq] at h0
    exact ⟨h0.2.2.symm, h0.1.symm⟩

theorem forall₂_and {α β : Type} (A B : α → β → Prop) (l1 : List α) (l2 : List β)
    (hA : List.Forall₂ A l1 l2) (hB : List.Forall₂ B l1 l2) :
    List.Forall₂ (fun a b => A a b ∧ B a b) l1 l2 := by
  induction hA with
  | nil => exact List.Forall₂.nil
  | cons ha _ ih =>
    cases hB with
    | cons hb hB' => exact List.Forall₂.cons ⟨ha, hb⟩ (ih hB')

theorem forall₂_comp {α : Type} (A B C : α → α → Prop) (l1 l2 l3 : List α)
    (hA : List.Forall₂ A l1 l2) (hB : List.Forall₂ B l2 l3)
    (h : ∀ a b c, A a b → B b c → C a c) : List.Forall₂ C l1 l3 := by
  induction hA generalizing l3 with
  | nil => cases hB; exact List.Forall₂.nil
  | cons ha _ ih =>
    cases hB with
    | cons hb hB' => exact List.Forall₂.cons (h _ _ _ ha hb) (ih _ hB')

theorem forall₂_exists_right {α : Type} (A : α → α → Prop) (l1 l2 : List α)
    (h : List.Forall₂ A l1 l2) : ∀ a ∈ l1, ∃ b ∈ l2, A a b := by
  induction h with
  | nil => intro a ha; simp at ha
  | cons hab _ ih =>
    intro a ha
    rcases List.mem_cons.mp ha with rfl | ha
    · exact ⟨_, List.mem_cons_self _ _, hab⟩
    · obtain ⟨b, hb, hr⟩ := ih a ha
      exact ⟨b, List.mem_cons_of_mem _ hb, hr⟩

theorem forall₂_exists_left {α : Type} (A : α → α → Prop) (l1 l2 : List α)
    (h : List.Forall₂ A l1 l2) : ∀ b ∈ l2, ∃ a ∈ l1, A a b := by
  induction h with
  | nil => intro b hb; simp at hb
  | cons hab _ ih =>
    intro b hb
    rcases List.mem_cons.mp hb with rfl | hb
    · exact ⟨_, List.mem_cons_self _ _, hab⟩
    · obtain ⟨a, ha, hr⟩ := ih b hb
      exact ⟨a, List.mem_cons_of_mem _ ha, hr⟩

theorem follows_id (L : List WqCall) (e0 e : ooo_model_instr) (h : follows L e0 e) :
    e.instr_id = e0.instr_id := by
  have := congrArg ooo_model_instr.instr_id h.1
  simpa [forget_dm] using this

theorem follows_refl (L : List WqCall) (l : List ooo_model_instr)
    (h : ∀ e ∈ l, ∀ c ∈ L, c.rob_id ≠ e.instr_id) : List.Forall₂ (follows L) l l :=
  forall₂_and _ _ _ _ (forall₂_forget_refl l) (track_refl L l h)

theorem follows_more (L1 L2 : List WqCall) (l1 l2 : List ooo_model_instr)
    (h : List.Forall₂ (follows L1) l1 l2)
    (h2 : ∀ e ∈ l1, ∀ c ∈ L2, c.rob_id ≠ e.instr_id) :
    List.Forall₂ (follows (L1 ++ L2)) l1 l2 := by
  induction h with
  | nil => exact List.Forall₂.nil
  | cons hab _ ih =>
    refine List.Forall₂.cons ⟨hab.1, ?_⟩ (ih fun e he => h2 e (List.mem_cons_of_mem _ he))
    intro j
    rw [accepted_writes_append, accepted_writes_other L2 _ j (h2 _ (List.mem_cons_self _ _))]
    have := hab.2 j
    omega

theorem follows_trans (L1 L2 : List WqCall) (a b c : ooo_model_instr)
    (h1 : follows L1 a b) (h2 : follows L2 b c) : follows (L1 ++ L2) a c := by
  refine ⟨h2.1.trans h1.1, ?_⟩
  intro j
  rw [accepted_writes_append]
  have e1 := h1.2 j
  have e2 := h2.2 j
  rw [follows_id L1 a b h1] at e2
  omega

theorem retire_rob_follows (P : Params) (s s' : O3_CPU) (wq : Nat → PACKET → Int)
    (log : List WqCall) (out : List ooo_model_instr)
    (h : retire_rob P s wq = .ok (s', log, out)) (hnd : (ids s.ROB.entries).Nodup) :
    List.Forall₂ (follows log) s.ROB.entries (out ++ s'.ROB.entries) ∧
    (∀ e ∈ out, ∀ j, j < P.MAX_INSTR_DESTINATIONS → e.destination_memory.getD j 0 = 0) ∧
    (∀ c ∈ log, c.rob_id ∈ ids s.ROB.entries) ∧
    s'.SQ.length = s.SQ.length := by
  obtain ⟨bw, h⟩ := retire_rob_as_loop P s wq _ h
  obtain ⟨released, extra, r1, r2, -, r4, r5, -, -, -, r9, -, r11, -, -, r14⟩ :=
    retire_rob_loop_spec P wq _ _ _ _ _ _ _ h
  simp only [List.nil_append] at r1 r2
  subst r1; subst r2
  exact ⟨forall₂_and _ _ _ _ r4 (r14 hnd), fun e he => (r5 e he).2, fun c hc => (r9 c hc).1, r11⟩

theorem nodup_ids_of_follows (L : List WqCall) (l1 l2 : List ooo_model_instr)
    (h : List.Forall₂ (follows L) l1 l2) : ids l2 = ids l1 := by
  induction h with
  | nil => rfl
  | cons hab _ ih =>
    simp only [ids, List.map_cons] at ih ⊢
    rw [ih, follows_id _ _ _ hab]

/-- Over any sequence of `retire_rob` calls, every record of the ROB the sequence
started from is followed by its version in the released list or in the ROB, and the
accepted writes account exactly for the operands cleared. -/
theorem retire_rob_seq_follows (P : Params) (wqs : List (Nat → PACKET → Int)) :
    ∀ (s s' : O3_CPU) (L : List WqCall) (O : List ooo_model_instr),
      retire_rob_seq P wqs s = .ok (s', L, O) → (ids s.ROB.entries).Nodup →
      List.Forall₂ (follows L) s.ROB.entries (O ++ s'.ROB.entries) ∧
      (∀ e ∈ O, ∀ j, j < P.MAX_INSTR_DESTINATIONS → e.destination_memory.getD j 0 = 0) ∧
      (∀ c ∈ L, c.rob_id ∈ ids s.ROB.entries) := by
  induction wqs with
  | nil =>
    intro s s' L O h hnd
    simp only [retire_rob_seq, Outcome.ok.injEq, Prod.mk.injEq] at h
    obtain ⟨rfl, rfl, rfl⟩ := h
    exact ⟨by simpa using follows_refl [] _ (by simp), by simp, by simp⟩
  | cons wq wqs ih =>
    intro s s' L O h hnd
    unfold retire_rob_seq at h
    cases h1 : retire_rob P s wq with
    | fault e => rw [h1] at h; simp at h
    | ok r1 =>
      obtain ⟨s1, log1, out1⟩ := r1
      rw [h1] at h
      simp only at h
      cases h2 : retire_rob_seq P wqs s1 with
      | fault e => rw [h2] at h; simp at h
      | ok r2 =>
        obtain ⟨s2, log2, out2⟩ := r2
        rw [h2] at h
        simp only [Outcome.ok.injEq, Prod.mk.injEq] at h
        obtain ⟨rfl, rfl, rfl⟩ := h
        obtain ⟨f1, z1, i1, -⟩ := retire_rob_follows P s s1 wq log1 out1 h1 hnd
        have hids1 := nodup_ids_of_follows _ _ _ f1
        have hnd1 : (ids (out1 ++ s1.ROB.entries)).Nodup := by rw [hids1]; exact hnd
        rw [ids_append] at hnd1
        obtain ⟨f2, z2, i2⟩ := ih s1 s2 log2 out2 h2 (List.nodup_append.mp hnd1).2.1
        -- split the first relation at the records released by the first call
        have fa := List.forall₂_take_append _ _ _ f1
        have fb := List.forall₂_drop_append _ _ _ f1
        have hsplit := List.take_append_drop out1.length s.ROB.entries
        have hida := nodup_ids_of_follows _ _ _ fa
        have hdisj := (List.nodup_append.mp hnd1).2.2
        refine ⟨?_, ?_, ?_⟩
        · rw [← hsplit, List.append_assoc]
          refine List.rel_append ?_ ?_
          · refine follows_more log1 log2 _ _ fa ?_
            intro e he c hc heq
            have h3 : e.instr_id ∈ ids out1 := by
              rw [hida]; exact List.mem_map_of_mem _ he
            have h4 : e.instr_id ∈ ids s1.ROB.entries := by rw [← heq]; exact i2 c hc
            exact hdisj h3 h4
          · exact forall₂_comp _ _ _ _ _ _ fb f2 (fun a b c => follows_trans log1 log2 a b c)
        · intro e he
          rcases List.mem_append.mp he with he | he
          · exact z1 e he
          · exact z2 e he
        · intro c hc
          rcases List.mem_append.mp hc with hc | hc
          · exact i1 c hc
          · have := i2 c hc
            have h5 : c.rob_id ∈ ids (out1 ++ s1.ROB.entries) := by
              rw [ids_append]; exact List.mem_append_right _ this
            rw [hids1] at h5
            exact h5

theorem retire_stores_returns (P : Params) (cpu cyc : Nat) (wq : Nat → PACKET → Int)
    (l : List Nat) :
    ∀ (head : ooo_model_instr) (SQ : List LSQ_ENTRY) (log : List WqCall),
      (∀ i ∈ l, head.destination_memory.getD i 0 ≠ 0 →
        ∃ slot, head.sq_index.getD i none = some slot ∧ slot < SQ.length) →
      ∃ r, retire_stores P cpu cyc wq l head SQ log = .ok r := by
  induction l with
  | nil => intro head SQ log _; exact ⟨_, rfl⟩
  | cons i rest ih =>
    intro head SQ log hwf
    unfold retire_stores
    by_cases hdm : head.destination_memory.getD i 0 = 0
    · rw [if_neg (by simpa using hdm)]
      exact ih head SQ log (fun j hj => hwf j (List.mem_cons_of_mem _ hj))
    · rw [if_pos hdm]
      obtain ⟨slot, hs, hlt⟩ := hwf i (List.mem_cons_self _ _) hdm
      rw [hs]
      simp only
      have hget : SQ.get? slot = some (SQ.get ⟨slot, hlt⟩) := List.get?_eq_get hlt
      rw [hget]
      simp only
      split_ifs with hres
      · apply ih
        intro j hj hne
        simp only at hne ⊢
        by_cases hji : i = j
        · subst hji
          rw [getD_set_self _ _ _ _ (lt_length_of_getD_ne _ _ _ hdm)] at hne
          exact absurd rfl hne
        · rw [getD_set_other _ _ _ _ _ hji] at hne
          obtain ⟨slot', hs', hlt'⟩ := hwf j (List.mem_cons_of_mem _ hj) hne
          exact ⟨slot', hs', by rw [List.length_set]; exact hlt'⟩
      · exact ⟨_, rfl⟩

theorem retire_rob_loop_returns (P : Params) (wq : Nat → PACKET → Int) (bw : Nat) :
    ∀ (s : O3_CPU) (log : List WqCall) (out : List ooo_model_instr),
      stores_have_slots P s → ∃ r, retire_rob_loop P wq bw s log out = .ok r := by
  induction bw with
  | zero => intro s log out _; exact ⟨_, rfl⟩
  | succ bw ih =>
    intro s log out hwf
    unfold retire_rob_loop
    cases hR : s.ROB.entries with
    | nil => exact ⟨_, rfl⟩
    | cons head rest =>
      simp only
      split_ifs with hex
      · have hhead : ∀ i ∈ List.range P.MAX_INSTR_DESTINATIONS,
            head.destination_memory.getD i 0 ≠ 0 →
            ∃ slot, head.sq_index.getD i none = some slot ∧ slot < s.SQ.length := by
          intro i hi hne
          exact hwf head (by rw [hR]; exact List.mem_cons_self _ _) i (List.mem_range.mp hi) hne
        obtain ⟨⟨done, head1, SQ1, log1⟩, hst⟩ :=
          retire_stores_returns P s.cpu s.current_core_cycle wq _ head s.SQ log hhead
        rw [hst]
        obtain ⟨-, -, -, -, -, -, -, e7, -⟩ := retire_stores_spec P _ _ wq _ _ _ _ _ _ _ _ hst
        cases done with
        | false => exact ⟨_, rfl⟩
        | true =>
          simp only
          apply ih
          intro e he i hi hne
          simp only at he
          obtain ⟨slot, h1, h2⟩ := hwf e (by rw [hR]; exact List.mem_cons_of_mem _ he) i hi hne
          exact ⟨slot, h1, by simp only; rw [e7]; exact h2⟩
      · exact ⟨_, rfl⟩

theorem getLast?_concat_call (pre : List WqCall) (c : WqCall) : (pre ++ [c]).getLast? = some c := by
  simp

/-- C3: when the memory subsystem rejects a write of the ROB head, `retire_rob` returns
with that head still at the front of the ROB, completed and with the rejected operand
still set, and `num_retired` counts only the records popped before it (it is unchanged
when the rejection concerns the head the call found); every operand whose write was
accepted has `destination_memory` cleared and its store-queue slot reset to the empty
entry; over any sequence of retries every operand has at most one accepted write, and
exactly one for each store operand of a record by the time it is released; and the call
returns whenever every operand that is still set has a store-queue slot. -/
theorem retire_rob_rejected_write (P : Params) :
    (∀ (s s' : O3_CPU) (wq : Nat → PACKET → Int) (log : List WqCall)
        (out : List ooo_model_instr) (c : WqCall),
      retire_rob P s wq = .ok (s', log, out) → log.getLast? = some c → c.result = -2 →
      (∃ head' rest', s'.ROB.entries = head' :: rest' ∧ head'.instr_id = c.rob_id ∧
        head'.executed = COMPLETED ∧ head'.destination_memory.getD c.operand 0 ≠ 0) ∧
      out.length + s'.ROB.entries.length = s.ROB.entries.length ∧
      s'.num_retired % 2 ^ 64 = (s.num_retired + out.length) % 2 ^ 64 ∧
      (out = [] → s'.num_retired = s.num_retired) ∧
      ((ids s.ROB.entries).Nodup →
        (∃ head rest, s.ROB.entries = head :: rest ∧ c.rob_id = head.instr_id) → out = [])) ∧
    (∀ (s s' : O3_CPU) (wq : Nat → PACKET → Int) (log : List WqCall)
        (out : List ooo_model_instr) (c : WqCall),
      retire_rob P s wq = .ok (s', log, out) → c ∈ log → c.result ≠ -2 →
      (∃ e0 ∈ s.ROB.entries, e0.instr_id = c.rob_id ∧ ∃ slot,
        e0.sq_index.getD c.operand none = some slot ∧ s'.SQ.get? slot = some {}) ∧
      ((ids s.ROB.entries).Nodup → ∀ e ∈ out ++ s'.ROB.entries, e.instr_id = c.rob_id →
        e.destination_memory.getD c.operand 0 = 0)) ∧
    (∀ (wqs : List (Nat → PACKET → Int)) (s s' : O3_CPU) (L : List WqCall)
        (O : List ooo_model_instr),
      retire_rob_seq P wqs s = .ok (s', L, O) → (ids s.ROB.entries).Nodup →
      ∀ e0 ∈ s.ROB.entries, ∀ j,
        accepted_writes L e0.instr_id j ≤ pending (e0.destination_memory.getD j 0) ∧
        (e0.instr_id ∈ ids O → j < P.MAX_INSTR_DESTINATIONS →
          accepted_writes L e0.instr_id j = pending (e0.destination_memory.getD j 0))) ∧
    (∀ (s : O3_CPU) (wq : Nat → PACKET → Int), stores_have_slots P s →
      (retire_rob P s wq).returns = true) := by
  refine ⟨?_, ?_, ?_, ?_⟩
  · intro s s' wq log out c h hlast hrej
    have h0 := h
    obtain ⟨bw, h⟩ := retire_rob_as_loop P s wq _ h
    obtain ⟨released, extra, r1, r2, r3, r4, r5, r6, r7, r8, r9, r10, -⟩ :=
      retire_rob_loop_spec P wq _ _ _ _ _ _ _ h
    simp only [List.nil_append] at r1 r2
    subst r1; subst r2
    have hlen := r4.length_eq
    rw [List.length_append] at hlen
    rcases r10 with hall | ⟨pre, c', head', rest', q1, q2, q3, q4, q5, q6, q7⟩
    · exact absurd hrej (hall c (List.mem_of_getLast?_eq_some hlast))
    · rw [q1, getLast?_concat_call] at hlast
      injection hlast with hlast
      subst hlast
      refine ⟨⟨head', rest', q4, q5.symm, q6, q7⟩, by omega, r7, r6, ?_⟩
      intro hnd ⟨head, rest, hR, hcid⟩
      by_contra hne
      obtain ⟨o, os, ho⟩ := List.exists_cons_of_ne_nil hne
      have hids := ids_of_forall₂_forget _ _ r4
      rw [ho, hR, q4] at hids
      simp only [ids, List.cons_append, List.map_cons, List.map_append, List.cons.injEq] at hids
      rw [hR] at hnd
      simp only [ids, List.map_cons, List.nodup_cons] at hnd
      apply hnd.1
      rw [← hids.2, ← hcid, q5]
      simp
  · intro s s' wq log out c h hc hacc
    have h0 := h
    obtain ⟨bw, h⟩ := retire_rob_as_loop P s wq _ h
    obtain ⟨released, extra, r1, r2, -, -, -, -, -, -, -, -, -, -, r13, -⟩ :=
      retire_rob_loop_spec P wq _ _ _ _ _ _ _ h
    simp only [List.nil_append] at r1 r2
    subst r1; subst r2
    refine ⟨r13 c hc hacc, ?_⟩
    intro hnd e he hid
    obtain ⟨f1, -, -, -⟩ := retire_rob_follows P s s' wq log out h0 hnd
    obtain ⟨e0, -, hf⟩ := forall₂_exists_left _ _ _ f1 e he
    have hid0 := follows_id _ _ _ hf
    have hcount := hf.2 c.operand
    have hpos : 0 < accepted_writes log e0.instr_id c.operand := by
      unfold accepted_writes
      rw [List.countP_pos_iff]
      refine ⟨c, hc, ?_⟩
      rw [decide_eq_true_eq]
      exact ⟨by rw [← hid0, hid], rfl, hacc⟩
    have hle : pending (e0.destination_memory.getD c.operand 0) ≤ 1 := by
      unfold pending; split_ifs <;> omega
    exact eq_zero_of_pending _ (by omega)
  · intro wqs s s' L O h hnd e0 he0 j
    obtain ⟨f, z, -⟩ := retire_rob_seq_follows P wqs s s' L O h hnd
    obtain ⟨e, he, hf⟩ := forall₂_exists_right _ _ _ f e0 he0
    have hcount := hf.2 j
    refine ⟨by omega, ?_⟩
    intro hin hj
    obtain ⟨e', he', hid'⟩ := List.mem_map.mp hin
    have hids := nodup_ids_of_follows _ _ _ f
    have hnd' : ((O ++ s'.ROB.entries).map fun x => x.instr_id).Nodup := by
      have := hnd; rw [← hids] at this; exact this
    have heq : e = e' :=
      List.inj_on_of_nodup_map hnd' he (List.mem_append_left _ he')
        ((follows_id _ _ _ hf).trans hid'.symm)
    subst heq
    rw [z e he' j hj, pending_zero] at hcount
    omega
  · intro s wq hwf
    unfold retire_rob
    simp only
    split_ifs
    · obtain ⟨r, hr⟩ := retire_rob_loop_returns P wq s.ROB.entries.length s [] [] hwf
      rw [hr]
      rfl
    · rfl

/-! ## Examples on concrete states -/

theorem core_retired_ids : ids core_retired.2.2 = [0, 1] := by decide

theorem core_run :
    Run sample_params core_start core_retired.1 core_retired.2.2 2 := by
  have r0 : Run sample_params core_start core_start [] 0 := Run.start
  have r1 := Run.step _ core_read_one _ _ _ _ r0
    (Tick.init core_start core_read_one { ip := 0x400000 } (0, 0) 0 3 (by decide))
  have r2 := Run.step _ core_read _ _ _ _ r1
    (Tick.init core_read_one core_read { ip := 0x400004 } (0, 0) 0 2 (by decide))
  have r3 := Run.step _ core_fetched _ _ _ _ r2
    (Tick.other core_read core_fetched (by unfold same_order; decide))
  have r4 := Run.step _ core_promoted _ _ _ _ r3
    (Tick.promote core_fetched core_promoted (by decide))
  have r5 := Run.step _ core_decoded _ _ _ _ r4
    (Tick.decode core_promoted core_decoded (by decide))
  have r6 := Run.step _ core_dispatched _ _ _ _ r5
    (Tick.dispatch core_decoded core_dispatched (by decide))
  have r7 := Run.step _ core_executed _ _ _ _ r6
    (Tick.other core_dispatched core_executed (by unfold same_order; decide))
  have r8 := Run.step _ core_retired.1 _ _ _ _ r7
    (Tick.retire core_executed core_retired.1 wq_accept core_retired.2.1 core_retired.2.2
      (by decide))
  exact r8

theorem retire_rob_program_order_witness :
    (pipeline_ids core_start = [] ∧ core_start.instr_unique_id + 2 ≤ 2 ^ 64 ∧
      Run sample_params core_start core_retired.1 core_retired.2.2 2) ∧
    (ids core_retired.2.2).Pairwise (fun a b => a < b) ∧
    ids core_retired.2.2 = List.range' core_start.instr_unique_id core_retired.2.2.length :=
  have h := retire_rob_program_order sample_params core_start core_retired.1 core_retired.2.2 2
    core_run (by decide) (by decide)
  ⟨⟨by decide, by decide, core_run⟩, h.1, h.2.2⟩

theorem retire_rob_pops_oldest_example :
    retire_rob sample_params core_executed wq_accept
      = .ok (core_retired.1, core_retired.2.1, core_retired.2.2) ∧
    core_retired.2.2.map forget_dm
      = (core_executed.ROB.entries.take core_retired.2.2.length).map forget_dm ∧
    (∀ e ∈ core_retired.2.2, e.executed = COMPLETED) :=
  have h := retire_rob_pops_oldest sample_params core_executed core_retired.1 wq_accept
    core_retired.2.1 core_retired.2.2 (by decide)
  ⟨by decide, h.2.1, h.2.2.2.2.1⟩

/-- C2: with `RETIRE_WIDTH = 1` and three records with `executed == COMPLETED` at the
head of the ROB, one call of `retire_rob` pops all three: the local `retire_bandwidth`
is never written after its initialisation, so the number of records popped in a call
is not bounded by `RETIRE_WIDTH`. -/
theorem retire_rob_exceeds_width :
    narrow_params.RETIRE_WIDTH = 1 ∧
    ids core_three.ROB.entries = [0, 1, 2] ∧
    (∀ e ∈ core_three.ROB.entries, e.executed = COMPLETED) ∧
    retire_rob narrow_params core_three wq_accept = .ok core_three_retired ∧
    ids core_three_retired.2.2 = [0, 1, 2] ∧
    core_three_retired.1.ROB.entries = [] ∧
    core_three_retired.1.num_retired = core_three.num_retired + 3 ∧
    narrow_params.RETIRE_WIDTH < core_three_retired.2.2.length := by
  decide

theorem retire_rob_rejected_write_witness :
    (retire_rob sample_params core_store_head wq_first_only
        = .ok (core_stalled.1, core_stalled.2.1, core_stalled.2.2) ∧
      core_stalled.2.1.getLast? = some rejected_call ∧ rejected_call.result = -2 ∧
      retire_rob_seq sample_params [wq_first_only, wq_accept] core_store_head
        = .ok (core_retried.1, core_retried.2.1, core_retried.2.2) ∧
      (ids core_store_head.ROB.entries).Nodup) ∧
    (core_stalled.2.2.length + core_stalled.1.ROB.entries.length
        = core_store_head.ROB.entries.length ∧
      core_stalled.1.num_retired % 2 ^ 64
        = (core_store_head.num_retired + core_stalled.2.2.length) % 2 ^ 64) ∧
    (accepted_writes core_retried.2.1 7 0 = pending 0x1000 ∧
      accepted_writes core_retried.2.1 7 1 = pending 0x2000) :=
  have h := retire_rob_rejected_write sample_params
  have ha := h.1 core_store_head core_stalled.1 wq_first_only core_stalled.2.1 core_stalled.2.2
    rejected_call (by decide) (by decide) (by decide)
  have hc := h.2.2.1 [wq_first_only, wq_accept] core_store_head core_retried.1
    core_retried.2.1 core_retried.2.2 (by decide) (by decide)
  ⟨⟨by decide, by decide, by decide, by decide, by decide⟩, ⟨ha.2.1, ha.2.2.1⟩,
    ⟨(hc _ (List.mem_cons_self _ _) 0).2 (by decide) (by decide),
      (hc _ (List.mem_cons_self _ _) 1).2 (by decide) (by decide)⟩⟩

theorem core_retried_counts :
    core_stalled.2.2 = [] ∧ core_stalled.1.num_retired = 6 ∧
    core_stalled.1.ROB.entries.length = 2 ∧ ids core_retried.2.2 = [7] ∧
    accepted_writes core_retried.2.1 7 0 = 1 ∧ accepted_writes core_retried.2.1 7 1 = 1 ∧
    core_retried.1.num_retired = 7 := by
  decide

theorem va_to_pa_distinct_pages_witness :
    ((∀ l, (shuffle_keep 0 l).Perm l) ∧ VMEM_RESERVE_CAPACITY + 4 * 4096 < 2 ^ 64 ∧
      VirtualMemory.construct 12 shuffle_keep (VMEM_RESERVE_CAPACITY + 4 * 4096) 4096 5 0
        = .ok (small_vm 4) ∧
      va_to_pa_seq 12 (small_vm 4) [(0, 0x1000), (1, 0x1000)] = .ok (two_cores.1, two_cores.2)) ∧
    ppage_number 12 (VMEM_RESERVE_CAPACITY + 4096)
      ≠ ppage_number 12 (VMEM_RESERVE_CAPACITY + 8192) :=
  have h := va_to_pa_distinct_pages 12 shuffle_keep (VMEM_RESERVE_CAPACITY + 4 * 4096) 4096 5 0
    (small_vm 4) two_cores.2 [(0, 0x1000), (1, 0x1000)] two_cores.1
    (fun l => List.Perm.refl l) (by decide) (by decide) (by decide)
  ⟨⟨fun l => List.Perm.refl l, by decide, by decide, by decide⟩,
    h.1 (0, 1) (1, 1) _ _ (by decide) (by decide) (by decide)⟩

/-! ## Lemmas: the page-table walk -/

theorem get_pte_pa_cases (L : Nat) (vm vm1 : VirtualMemory) (c v l pa : Nat)
    (h : get_pte_pa L vm c v l = .ok (pa, vm1)) :
    shamt L vm ((l + 1) % 2 ^ 32) < 64 ∧ shamt L vm l < 64 ∧ vm1.page_size = vm.page_size ∧
    vm1.vpage_to_ppage_map = vm.vpage_to_ppage_map ∧
    ((∃ ppage, map_find (pte_key L vm c v l) vm.page_table = some ppage ∧
        pa = pte_address L vm ppage v l ∧ vm1 = vm) ∨
     (map_find (pte_key L vm c v l) vm.page_table = none ∧
        pa = pte_address L vm vm.next_pte_page v l ∧
        vm1.page_table = (pte_key L vm c v l, vm.next_pte_page) :: vm.page_table)) := by
  unfold get_pte_pa at h
  split_ifs at h with hs
  simp only [not_or, not_le] at hs
  refine ⟨hs.1, hs.2, ?_⟩
  cases hm : map_find (pte_key L vm c v l) vm.page_table with
  | some ppage =>
    simp only [hm, Outcome.ok.injEq, Prod.mk.injEq] at h
    obtain ⟨rfl, rfl⟩ := h
    exact ⟨rfl, rfl, Or.inl ⟨ppage, rfl, rfl, rfl⟩⟩
  | none =>
    simp only [hm] at h
    split_ifs at h with hn
    · cases hp : vm.ppage_free_list with
      | nil => rw [hp] at h; simp at h
      | cons front rest =>
        rw [hp] at h
        simp only [Outcome.ok.injEq, Prod.mk.injEq] at h
        obtain ⟨rfl, rfl⟩ := h
        exact ⟨rfl, rfl, Or.inr ⟨rfl, rfl, rfl⟩⟩
    · simp only [Outcome.ok.injEq, Prod.mk.injEq] at h
      obtain ⟨rfl, rfl⟩ := h
      exact ⟨rfl, rfl, Or.inr ⟨rfl, rfl, rfl⟩⟩

theorem shamt_page_size (L : Nat) (vm vm1 : VirtualMemory) (h : vm1.page_size = vm.page_size)
    (l : Nat) : shamt L vm1 l = shamt L vm l := by
  unfold shamt; rw [h]

theorem pte_key_page_size (L : Nat) (vm vm1 : VirtualMemory) (h : vm1.page_size = vm.page_size)
    (c v l : Nat) : pte_key L vm1 c v l = pte_key L vm c v l := by
  unfold pte_key; rw [shamt_page_size L vm vm1 h]

theorem pte_address_page_size (L : Nat) (vm vm1 : VirtualMemory)
    (h : vm1.page_size = vm.page_size) (p v l : Nat) :
    pte_address L vm1 p v l = pte_address L vm p v l := by
  unfold pte_address get_offset; rw [shamt_page_size L vm vm1 h, h]

/-- A page-table page, once recorded for a key, stays recorded by every later call. -/
theorem translator_call_page_table (L : Nat) (vm vm1 : VirtualMemory) (call : TranslatorCall)
    (pa : Nat) (h : translator_call L vm call = .ok (pa, vm1)) :
    vm1.page_size = vm.page_size ∧
    ∀ key ppage, map_find key vm.page_table = some ppage →
      map_find key vm1.page_table = some ppage := by
  cases call with
  | va c v =>
    simp only [translator_call] at h
    rcases va_to_pa_cases L vm vm1 c v pa h with ⟨front, rest, hp, hc⟩
    rcases hc with ⟨p, _, _, rfl⟩ | ⟨_, _, rfl⟩
    · exact ⟨rfl, fun _ _ hk => hk⟩
    · exact ⟨rfl, fun _ _ hk => hk⟩
  | pte c v l =>
    simp only [translator_call] at h
    obtain ⟨_, _, hps, _, hc⟩ := get_pte_pa_cases L vm vm1 c v l pa h
    refine ⟨hps, ?_⟩
    rcases hc with ⟨p, _, _, rfl⟩ | ⟨hnone, _, hpt⟩
    · exact fun _ _ hk => hk
    · intro key ppage hk
      rw [hpt]
      unfold map_find
      rw [if_neg]
      · exact hk
      · intro heq
        rw [heq, hk] at hnone
        cases hnone

theorem translator_calls_page_table (L : Nat) (calls : List TranslatorCall) :
    ∀ (vm vm1 : VirtualMemory) (pas : List Nat),
      translator_calls L vm calls = .ok (pas, vm1) →
      vm1.page_size = vm.page_size ∧
      ∀ key ppage, map_find key vm.page_table = some ppage →
        map_find key vm1.page_table = some ppage := by
  induction calls with
  | nil =>
    intro vm vm1 pas h
    simp only [translator_calls, Outcome.ok.injEq, Prod.mk.injEq] at h
    obtain ⟨-, rfl⟩ := h
    exact ⟨rfl, fun _ _ hk => hk⟩
  | cons call calls ih =>
    intro vm vm1 pas h
    unfold translator_calls at h
    cases hc : translator_call L vm call with
    | fault e => rw [hc] at h; simp at h
    | ok r =>
      obtain ⟨pa, vma⟩ := r
      rw [hc] at h
      simp only at h
      cases hr : translator_calls L vma calls with
      | fault e => rw [hr] at h; simp at h
      | ok r2 =>
        obtain ⟨pas2, vmb⟩ := r2
        rw [hr] at h
        simp only [Outcome.ok.injEq, Prod.mk.injEq] at h
        obtain ⟨-, rfl⟩ := h
        obtain ⟨a1, a2⟩ := translator_call_page_table L vm vma call pa hc
        obtain ⟨b1, b2⟩ := ih vma vmb pas2 hr
        exact ⟨b1.trans a1, fun key ppage hk => b2 key ppage (a2 key ppage hk)⟩

theorem pte_address_page (L : Nat) (vm : VirtualMemory) (p v l : Nat) :
    pte_address L vm p v l / 2 ^ lg2 vm.page_size = p / 2 ^ lg2 vm.page_size := by
  unfold pte_address
  exact ppage_number_splice_bits _ _ _

/-- C11: when `get_pte_pa(cpu, v1, level)` has returned, a later
`get_pte_pa(cpu, v2, level)` with `v1 >> shamt(level+1) == v2 >> shamt(level+1)`, after
any calls of the translator in between, returns an address with the same bits above
`lg2(page_size)`, and leaves the translator (page-table map, cursor `next_pte_page`, free
pool) as it was; with `v2 = v1` in the state the first call left it returns the identical
address. -/
theorem get_pte_pa_same_range (L : Nat) (vm vm1 vm2 : VirtualMemory)
    (cpu v1 v2 level pa1 : Nat) (between : List TranslatorCall) (pas : List Nat)
    (h1 : get_pte_pa L vm cpu v1 level = .ok (pa1, vm1))
    (hbetween : translator_calls L vm1 between = .ok (pas, vm2))
    (hkey : v1 >>> shamt L vm ((level + 1) % 2 ^ 32) = v2 >>> shamt L vm ((level + 1) % 2 ^ 32)) :
    (∃ pa2, get_pte_pa L vm2 cpu v2 level = .ok (pa2, vm2) ∧
      pa2 / 2 ^ lg2 vm.page_size = pa1 / 2 ^ lg2 vm.page_size ∧ (v2 = v1 → pa2 = pa1)) ∧
    get_pte_pa L vm1 cpu v1 level = .ok (pa1, vm1) := by
  obtain ⟨hs1, hs2, hps, -, hc⟩ := get_pte_pa_cases L vm vm1 cpu v1 level pa1 h1
  obtain ⟨hps2, hstable⟩ := translator_calls_page_table L between vm1 vm2 pas hbetween
  have hkeys : pte_key L vm cpu v2 level = pte_key L vm cpu v1 level := by
    unfold pte_key; rw [hkey]
  -- the page recorded for the key after the first call
  have hrec : ∃ ppage, map_find (pte_key L vm cpu v1 level) vm1.page_table = some ppage ∧
      pa1 = pte_address L vm ppage v1 level := by
    rcases hc with ⟨p, hp, hpa, rfl⟩ | ⟨_, hpa, hpt⟩
    · exact ⟨p, hp, hpa⟩
    · refine ⟨vm.next_pte_page, ?_, hpa⟩
      rw [hpt]; unfold map_find; rw [if_pos rfl]
  obtain ⟨ppage, hfind, hpa1⟩ := hrec
  have again : ∀ (vmx : VirtualMemory) (v : Nat), vmx.page_size = vm.page_size →
      map_find (pte_key L vm cpu v1 level) vmx.page_table = some ppage →
      pte_key L vm cpu v level = pte_key L vm cpu v1 level →
      get_pte_pa L vmx cpu v level = .ok (pte_address L vm ppage v level, vmx) := by
    intro vmx v hpx hfx hk
    unfold get_pte_pa
    rw [shamt_page_size L vm vmx hpx, shamt_page_size L vm vmx hpx, if_neg (by omega)]
    simp only [pte_key_page_size L vm vmx hpx, hk, hfx, pte_address_page_size L vm vmx hpx]
  refine ⟨⟨pte_address L vm ppage v2 level, ?_, ?_, ?_⟩, ?_⟩
  · exact again vm2 v2 (hps2.trans hps) (hstable _ _ hfind) hkeys
  · rw [hpa1, pte_address_page, pte_address_page]
  · intro hv; rw [hpa1, hv]
  · rw [hpa1]; exact again vm1 v1 hps hfind rfl

theorem get_pte_pa_same_range_witness :
    (∃ pa2, get_pte_pa 12 pte_later.2 0 8 0 = .ok (pa2, pte_later.2) ∧
      pa2 / 2 ^ lg2 (small_vm 3).page_size = pte_first.1 / 2 ^ lg2 (small_vm 3).page_size ∧
      (8 = 0 → pa2 = pte_first.1)) ∧
    get_pte_pa 12 pte_first.2 0 0 0 = .ok (pte_first.1, pte_first.2) :=
  get_pte_pa_same_range 12 (small_vm 3) pte_first.2 pte_later.2 0 0 8 0 pte_first.1
    [.va 0 0x5000] pte_later.1 (by decide) (by decide) (by decide)

theorem pte_first_value :
    pte_first.1 = 1048576 ∧ pte_first.2.next_pte_page = 1048576 + 4096 ∧
    pte_first.2.ppage_free_list = [1048576 + 4096, 1048576 + 8192] := by decide

/-- C12: with PTE pages of the size of a page (`page_size == PAGE_SIZE == 4096`) on a
pool of three pages, two page-table walks for different address ranges return: the second
page-table page starts at `0x101000`, the page that is still the front of the free pool,
and the translation of a virtual page that follows hands out the same physical page. -/
theorem get_pte_pa_overlaps_pool :
    (small_vm 3).page_size = PAGE_SIZE 12 ∧
    translator_calls 12 (small_vm 3) [.pte 0 0 0, .pte 0 0x200000 0, .va 0 0x5000]
      = .ok ([0x100000, 0x101000, 0x101000], pte_then_page.2) ∧
    pte_twice.2.page_table = [((0, 1, 0), 0x101000), ((0, 0, 0), 0x100000)] ∧
    pte_twice.2.ppage_free_list = [0x101000, 0x102000] ∧
    pte_then_page.2.vpage_to_ppage_map = [((0, 5), 0x101000)] ∧
    pte_then_page.2.page_table = [((0, 1, 0), 0x101000), ((0, 0, 0), 0x100000)] := by
  decide

/-! ## Lemmas: arrays, queues and iterators into the ROB -/

theorem getD_array_set_self {α : Type} (l : List α) (i : Nat) (v d d' : α) :
    (array_set l i v d).getD i d' = v := by
  unfold array_set
  split_ifs with h
  · rw [List.getD_eq_getElem?_getD, List.getElem?_set, if_pos rfl, if_pos h]; rfl
  · rw [List.getD_eq_getElem?_getD, List.getElem?_append]
    have hl : (l ++ List.replicate (i - l.length) d).length = i := by
      rw [List.length_append, List.length_replicate]; omega
    rw [hl, if_neg (by omega), Nat.sub_self]; rfl

theorem getD_array_set_other {α : Type} (l : List α) (i j : Nat) (v d : α) (h : i ≠ j) :
    (array_set l i v d).getD j d = l.getD j d := by
  unfold array_set
  split_ifs with hi
  · rw [List.getD_eq_getElem?_getD, List.getD_eq_getElem?_getD, List.getElem?_set, if_neg h]
  · have hl : (l ++ List.replicate (i - l.length) d).length = i := by
      rw [List.length_append, List.length_replicate]; omega
    rw [List.getD_eq_getElem?_getD, List.getD_eq_getElem?_getD, List.getElem?_append, hl]
    split_ifs with hj
    · rw [List.getElem?_append]
      split_ifs with hjl
      · rfl
      · rw [List.getElem?_replicate, if_pos (by omega), List.getElem?_eq_none (by omega)]; rfl
    · have hj2 : (j - i) = (j - i - 1) + 1 := by omega
      rw [hj2, List.getElem?_cons_succ, List.getElem?_eq_none (by simp),
        List.getElem?_eq_none (by omega)]

theorem find_if_not_valid_some (q : List LSQ_ENTRY) (i : Nat) (h : find_if_not_valid q = some i) :
    i < q.length ∧ is_valid (q.getD i {}) = false ∧
      ∀ j, j < i → is_valid (q.getD j {}) = true := by
  unfold find_if_not_valid at h
  simp only at h
  split_ifs at h with hlt
  simp only [Option.some.injEq] at h
  subst h
  refine ⟨hlt, ?_, ?_⟩
  · rw [List.getD_eq_getElem _ _ hlt]
    have := @List.findIdx_getElem _ (fun e => !is_valid e) q hlt
    simpa using this
  · intro j hj
    have hjl : j < q.length := lt_trans hj hlt
    rw [List.getD_eq_getElem _ _ hjl]
    have := @List.not_of_lt_findIdx _ (fun e => !is_valid e) q j hj
    simpa using this

theorem find_if_not_valid_of_slot (q : List LSQ_ENTRY) (slot : Nat) (hs : slot < q.length)
    (hv : is_valid (q.getD slot {}) = false) : ∃ i, find_if_not_valid q = some i := by
  unfold find_if_not_valid
  simp only
  have : List.findIdx (fun e => !is_valid e) q < q.length := by
    apply List.findIdx_lt_length_of_exists
    refine ⟨q[slot], List.getElem_mem _, ?_⟩
    rw [List.getD_eq_getElem _ _ hs] at hv
    simp [hv]
  exact ⟨_, by rw [if_pos this]⟩

theorem all_valid_false_iff (q : List LSQ_ENTRY) :
    all_valid q = false ↔ ∃ slot, slot < q.length ∧ is_valid (q.getD slot {}) = false := by
  unfold all_valid
  constructor
  · intro h
    have h2 : ¬ (q.all is_valid = true) := by rw [h]; simp
    rw [List.all_eq_true] at h2
    push_neg at h2
    obtain ⟨e, he, hv⟩ := h2
    obtain ⟨n, hn, rfl⟩ := List.getElem_of_mem he
    refine ⟨n, hn, ?_⟩
    rw [List.getD_eq_getElem _ _ hn]
    simpa using hv
  · rintro ⟨slot, hs, hv⟩
    cases hall : q.all is_valid with
    | false => rfl
    | true =>
      rw [List.all_eq_true] at hall
      have := hall q[slot] (List.getElem_mem _)
      rw [List.getD_eq_getElem _ _ hs] at hv
      rw [hv] at this
      cases this

/-- A transformation of records that keeps the instruction id. -/
theorem rob_find_modify (rob : List ooo_model_instr) (j id : Nat)
    (f : ooo_model_instr → ooo_model_instr) (hf : ∀ e, (f e).instr_id = e.instr_id) :
    rob_find (rob_modify rob j f) id
      = (rob_find rob id).map fun e => if e.instr_id = j then f e else e := by
  unfold rob_find rob_modify
  rw [List.find?_map]
  congr 1
  apply congrArg (fun p => List.find? p rob)
  funext e
  simp only [Function.comp]
  split_ifs
  · rw [hf]
  · rfl

theorem rob_find_id (rob : List ooo_model_instr) (id : Nat) (x : ooo_model_instr)
    (h : rob_find rob id = some x) : x.instr_id = id := by
  unfold rob_find at h
  have := List.find?_some h
  simpa using this

theorem rob_find_mem (rob : List ooo_model_instr) (id : Nat) (x : ooo_model_instr)
    (h : rob_find rob id = some x) : x ∈ rob := List.mem_of_find?_eq_some h

theorem rob_modify_ids (rob : List ooo_model_instr) (j : Nat)
    (f : ooo_model_instr → ooo_model_instr) (hf : ∀ e, (f e).instr_id = e.instr_id) :
    ids (rob_modify rob j f) = ids rob := by
  unfold ids rob_modify
  rw [List.map_map]
  apply List.map_congr_left
  intro e _
  simp only [Function.comp]
  split_ifs
  · exact hf e
  · rfl

theorem rob_modify_length (rob : List ooo_model_instr) (j : Nat)
    (f : ooo_model_instr → ooo_model_instr) : (rob_modify rob j f).length = rob.length := by
  unfold rob_modify; exact List.length_map _ _

theorem load_fields_refl (e : ooo_model_instr) : load_fields e e := rfl

theorem store_fields_refl (e : ooo_model_instr) : store_fields e e := rfl

theorem lsq_fields_refl (e : ooo_model_instr) : lsq_fields e e := rfl

theorem lsq_fields_of_load (e e' : ooo_model_instr) (h : load_fields e e') : lsq_fields e e' := by
  unfold load_fields at h
  unfold lsq_fields
  rw [h]

theorem lsq_fields_of_store (e e' : ooo_model_instr) (h : store_fields e e') :
    lsq_fields e e' := by
  unfold store_fields at h
  unfold lsq_fields
  rw [h]

theorem lsq_fields_trans (a b c : ooo_model_instr) (h1 : lsq_fields a b) (h2 : lsq_fields b c) :
    lsq_fields a c := by
  unfold lsq_fields at h1 h2 ⊢
  rw [h2, h1]

theorem load_fields_trans (a b c : ooo_model_instr) (h1 : load_fields a b)
    (h2 : load_fields b c) : load_fields a c := by
  unfold load_fields at h1 h2 ⊢
  rw [h2, h1]

theorem lsq_fields_id (e e' : ooo_model_instr) (h : lsq_fields e e') :
    e'.instr_id = e.instr_id ∧ e'.scheduled = e.scheduled ∧ e'.executed = e.executed ∧
    e'.is_memory = e.is_memory ∧ e'.num_reg_dependent = e.num_reg_dependent ∧
    e'.destination_memory = e.destination_memory ∧ e'.source_memory = e.source_memory ∧
    e'.branch_mispredicted = e.branch_mispredicted := by
  unfold lsq_fields at h
  rw [h]
  exact ⟨rfl, rfl, rfl, rfl, rfl, rfl, rfl, rfl⟩

theorem load_fields_store (e e' : ooo_model_instr) (h : load_fields e e') :
    e'.instr_id = e.instr_id ∧ e'.destination_added = e.destination_added ∧
    e'.sq_index = e.sq_index ∧ e'.destination_memory = e.destination_memory := by
  unfold load_fields at h
  rw [h]
  exact ⟨rfl, rfl, rfl, rfl⟩

theorem rob_find_map (rob : List ooo_model_instr) (id : Nat)
    (g : ooo_model_instr → ooo_model_instr) (hg : ∀ e, (g e).instr_id = e.instr_id) :
    rob_find (rob.map g) id = (rob_find rob id).map g := by
  unfold rob_find
  rw [List.find?_map]
  congr 1
  apply congrArg (fun p => List.find? p rob)
  funext e
  simp only [Function.comp, hg]

theorem rob_mapped_refl (F : ooo_model_instr → ooo_model_instr → Prop) (hF : ∀ e, F e e)
    (s : O3_CPU) : rob_mapped F s s :=
  ⟨id, hF, by simp⟩

theorem rob_mapped_trans (F : ooo_model_instr → ooo_model_instr → Prop)
    (hF : ∀ a b c, F a b → F b c → F a c) (s1 s2 s3 : O3_CPU)
    (h1 : rob_mapped F s1 s2) (h2 : rob_mapped F s2 s3) : rob_mapped F s1 s3 := by
  obtain ⟨g1, hg1, e1⟩ := h1
  obtain ⟨g2, hg2, e2⟩ := h2
  refine ⟨g2 ∘ g1, fun e => hF _ _ _ (hg1 e) (hg2 (g1 e)), ?_⟩
  rw [e2, e1]
  simp only [List.map_map]

theorem rob_mapped_mono (F G : ooo_model_instr → ooo_model_instr → Prop)
    (hFG : ∀ a b, F a b → G a b) (s s' : O3_CPU) (h : rob_mapped F s s') : rob_mapped G s s' := by
  obtain ⟨g, hg, e⟩ := h
  exact ⟨g, fun e => hFG _ _ (hg e), e⟩

theorem rob_mapped_update (F : ooo_model_instr → ooo_model_instr → Prop) (hF : ∀ e, F e e)
    (s : O3_CPU) (j : Nat) (f : ooo_model_instr → ooo_model_instr) (hf : ∀ e, F e (f e)) :
    rob_mapped F s (update_rob s j f) := by
  refine ⟨fun e => if e.instr_id = j then f e else e, ?_, rfl⟩
  intro e
  simp only
  split_ifs
  · exact hf e
  · exact hF e

/-- The effect of the forwarding on the state, before the load-queue entry is reset. -/
theorem do_sq_forward_to_lq_fill_shape (P : Params) (s s' : O3_CPU) (sq_it lq_it : Nat)
    (h : do_sq_forward_to_lq_fill P s sq_it lq_it = .ok s') :
    ∃ sq_entry lq_entry id x,
      s.SQ.get? sq_it = some sq_entry ∧ s.LQ.get? lq_it = some lq_entry ∧
      lq_entry.rob_index = some id ∧ rob_find s.ROB.entries id = some x ∧
      s' = { update_rob s id (forwarded_instr P s.current_core_cycle) with
             LQ := s.LQ.set lq_it (forwarded_entry P sq_entry lq_entry)
             inflight_mem_executions := s'.inflight_mem_executions } := by
  unfold do_sq_forward_to_lq_fill at h
  cases hsq : s.SQ.get? sq_it with
  | none => rw [hsq] at h; simp at h
  | some sq_entry =>
    cases hlq : s.LQ.get? lq_it with
    | none => rw [hsq, hlq] at h; simp at h
    | some lq_entry =>
      rw [hsq, hlq] at h
      simp only at h
      cases hid : lq_entry.rob_index with
      | none => rw [hid] at h; simp at h
      | some id =>
        rw [hid] at h
        simp only at h
        cases hx : rob_find s.ROB.entries id with
        | none => rw [hx] at h; simp at h
        | some x =>
          rw [hx] at h
          simp only at h
          refine ⟨sq_entry, lq_entry, id, x, rfl, rfl, hid, hx, ?_⟩
          split_ifs at h with h1 h2
          · simp only [Outcome.ok.injEq] at h
            subst h; rfl
          · simp only [Outcome.ok.injEq] at h
            subst h; rfl

theorem forwarded_instr_fields (P : Params) (c : Nat) (e : ooo_model_instr) :
    load_fields e (forwarded_instr P c e) := by
  unfold load_fields forwarded_instr
  simp only
  split_ifs <;> rfl

theorem mark_load_added_fields (i q : Nat) (e : ooo_model_instr) :
    load_fields e (mark_load_added i q e) := rfl

theorem add_dependent_fields (r : Nat) (e : ooo_model_instr) :
    load_fields e (add_dependent r e) := rfl

theorem mark_store_added_fields (i q : Nat) (e : ooo_model_instr) :
    store_fields e (mark_store_added i q e) := rfl

/-- The parts of the state that the forwarding writes. -/
theorem do_sq_forward_to_lq_frame (P : Params) (s s' : O3_CPU) (sq_it lq_it : Nat)
    (h : do_sq_forward_to_lq P s sq_it lq_it = .ok s') :
    s' = { s with ROB := s'.ROB, LQ := s'.LQ
                  inflight_mem_executions := s'.inflight_mem_executions } ∧
    rob_mapped load_fields s s' ∧ s'.LQ = s.LQ.set lq_it {} ∧
    ∃ sq_entry lq_entry id x,
      s.SQ.get? sq_it = some sq_entry ∧ s.LQ.get? lq_it = some lq_entry ∧
      lq_entry.rob_index = some id ∧ rob_find s.ROB.entries id = some x ∧
      s'.ROB = (update_rob s id (forwarded_instr P s.current_core_cycle)).ROB := by
  unfold do_sq_forward_to_lq at h
  cases hf : do_sq_forward_to_lq_fill P s sq_it lq_it with
  | fault e => rw [hf] at h; simp at h
  | ok s1 =>
    rw [hf] at h
    simp only [Outcome.ok.injEq] at h
    obtain ⟨sq_entry, lq_entry, id, x, h1, h2, h3, h4, h5⟩ :=
      do_sq_forward_to_lq_fill_shape P s s1 sq_it lq_it hf
    subst h
    rw [h5]
    refine ⟨rfl, ?_, ?_, sq_entry, lq_entry, id, x, h1, h2, h3, h4, rfl⟩
    · exact rob_mapped_update load_fields load_fields_refl s id _ (forwarded_instr_fields P _)
    · simp only [List.set_set]

/-- The parts of the state that `add_load_queue` writes: the ROB records within
`load_fields`, one slot of `LQ` that was not valid, `RTL0` and a counter. -/
theorem add_load_queue_frame (P : Params) (s s' : O3_CPU) (rob_it i : Nat)
    (h : add_load_queue P s rob_it i = .ok s') :
    s' = { s with ROB := s'.ROB, LQ := s'.LQ, RTL0 := s'.RTL0
                  inflight_mem_executions := s'.inflight_mem_executions } ∧
    rob_mapped load_fields s s' ∧
    ∃ lq_it entry, find_if_not_valid s.LQ = some lq_it ∧ s'.LQ = s.LQ.set lq_it entry := by
  unfold add_load_queue at h
  cases hq : find_if_not_valid s.LQ with
  | none => rw [hq] at h; simp at h
  | some lq_it =>
    rw [hq] at h
    simp only at h
    cases hx : rob_find s.ROB.entries rob_it with
    | none => rw [hx] at h; simp at h
    | some x =>
      rw [hx] at h
      simp only at h
      have hm1 : rob_mapped load_fields s (update_rob s rob_it (mark_load_added i lq_it)) :=
        rob_mapped_update load_fields load_fields_refl s rob_it _ (mark_load_added_fields i lq_it)
      split at h
      · rename_i prior hprior
        have hm2 : rob_mapped load_fields s
            (update_rob (update_rob s rob_it (mark_load_added i lq_it)) prior.instr_id
              (add_dependent rob_it)) :=
          rob_mapped_trans load_fields load_fields_trans _ _ _ hm1
            (rob_mapped_update load_fields load_fields_refl _ _ _ (add_dependent_fields rob_it))
        split_ifs at h with hsq
        · obtain ⟨f1, f2, f3, -⟩ := do_sq_forward_to_lq_frame P _ s' _ _ h
          refine ⟨?_, ?_, lq_it, {}, rfl, ?_⟩
          · rw [f1]; rfl
          · obtain ⟨g, hg, e⟩ := f2
            obtain ⟨g2, hg2, e2⟩ := hm2
            refine ⟨g ∘ g2, fun e => load_fields_trans _ _ _ (hg2 e) (hg (g2 e)), ?_⟩
            rw [e]
            simp only [e2, List.map_map]
          · rw [f3]
            simp only [update_rob, List.set_set]
        · simp only [Outcome.ok.injEq] at h
          subst h
          exact ⟨rfl, hm2, lq_it, _, rfl, rfl⟩
      · simp only [Outcome.ok.injEq] at h
        subst h
        exact ⟨rfl, hm1, lq_it, _, rfl, rfl⟩

/-- The state that `add_store_queue` leaves. -/
theorem add_store_queue_shape (P : Params) (s s' : O3_CPU) (rob_it i : Nat)
    (h : add_store_queue P s rob_it i = .ok s') :
    ∃ sq_it x, find_if_not_valid s.SQ = some sq_it ∧ rob_find s.ROB.entries rob_it = some x ∧
      s' = { update_rob s rob_it (mark_store_added i sq_it) with
             SQ := s.SQ.set sq_it
               (store_queue_entry P s.current_core_cycle (s.SQ.getD sq_it {}) x rob_it i)
             STA := s.STA.set s.STA_head UINT64_MAX
             STA_head := if s.STA_head + 1 = P.STA_SIZE then 0 else s.STA_head + 1
             RTS0 := s.RTS0 ++ [sq_it] } := by
  unfold add_store_queue at h
  cases hq : find_if_not_valid s.SQ with
  | none => rw [hq] at h; simp at h
  | some sq_it =>
    rw [hq] at h
    simp only at h
    by_cases hva : (s.SQ.getD sq_it {}).virtual_address ≠ 0
    · rw [if_pos hva] at h; simp at h
    rw [if_neg hva] at h
    cases hx : rob_find s.ROB.entries rob_it with
    | none => rw [hx] at h; simp at h
    | some x =>
      rw [hx] at h
      simp only [Outcome.ok.injEq] at h
      exact ⟨sq_it, x, rfl, rfl, h.symm⟩

theorem get?_set_ne {α : Type} (l : List α) (i j : Nat) (a : α) (h : j ≠ i) :
    (l.set i a).get? j = l.get? j := by
  rw [List.get?_eq_getElem?, List.get?_eq_getElem?, List.getElem?_set, if_neg (Ne.symm h)]

/-! ## Lemmas: memory scheduling -/

theorem scheduling_fields_refl (e : ooo_model_instr) : scheduling_fields e e :=
  ⟨lsq_fields_refl e, fun _ h => h⟩

theorem scheduling_fields_trans (a b c : ooo_model_instr) (h1 : scheduling_fields a b)
    (h2 : scheduling_fields b c) : scheduling_fields a c :=
  ⟨lsq_fields_trans a b c h1.1 h2.1, fun j h => h2.2 j (h1.2 j h)⟩

theorem scheduling_fields_of_load (e e' : ooo_model_instr) (h : load_fields e e') :
    scheduling_fields e e' := by
  refine ⟨lsq_fields_of_load e e' h, ?_⟩
  intro j hj
  rw [(load_fields_store e e' h).2.1]
  exact hj

theorem scheduling_fields_mark_store (i q : Nat) (e : ooo_model_instr) :
    scheduling_fields e (mark_store_added i q e) := by
  refine ⟨lsq_fields_of_store _ _ (mark_store_added_fields i q e), ?_⟩
  intro j hj
  unfold mark_store_added
  simp only
  by_cases hij : i = j
  · subst hij
    rw [getD_array_set_self]
    decide
  · rw [getD_array_set_other _ _ _ _ _ hij]
    exact hj

/-- The four ways a round of the store loop can go. -/
theorem schedule_store_cases (P : Params) (s s' : O3_CPU) (rob_it i n a n' a' : Nat)
    (h : schedule_store P rob_it i s n a = .ok (s', n', a')) :
    ∃ x, rob_find s.ROB.entries rob_it = some x ∧
      ((x.destination_memory.getD i 0 = 0 ∧ s' = s ∧ n' = n ∧ a' = a) ∨
       (x.destination_memory.getD i 0 ≠ 0 ∧ x.destination_added.getD i 0 ≠ 0 ∧
          s' = s ∧ n' = n + 1 ∧ a' = a + 1) ∨
       (x.destination_memory.getD i 0 ≠ 0 ∧ x.destination_added.getD i 0 = 0 ∧
          all_valid s.SQ = false ∧ s.STA.getD s.STA_head 0 = x.instr_id ∧
          add_store_queue P s rob_it i = .ok s' ∧ n' = n + 1 ∧ a' = a + 1) ∨
       (x.destination_memory.getD i 0 ≠ 0 ∧ x.destination_added.getD i 0 = 0 ∧
          ¬ (all_valid s.SQ = false ∧ s.STA.getD s.STA_head 0 = x.instr_id) ∧
          s' = s ∧ n' = n + 1 ∧ a' = a)) := by
  unfold schedule_store at h
  cases hx : rob_find s.ROB.entries rob_it with
  | none => rw [hx] at h; simp at h
  | some x =>
    rw [hx] at h
    simp only at h
    refine ⟨x, rfl, ?_⟩
    by_cases hm : x.destination_memory.getD i 0 ≠ 0
    · rw [if_pos hm] at h
      by_cases ha : x.destination_added.getD i 0 ≠ 0
      · rw [if_pos ha] at h
        simp only [Outcome.ok.injEq, Prod.mk.injEq] at h
        obtain ⟨rfl, rfl, rfl⟩ := h
        exact Or.inr (Or.inl ⟨hm, ha, rfl, rfl, rfl⟩)
      · rw [if_neg ha] at h
        have ha0 : x.destination_added.getD i 0 = 0 := not_not.mp ha
        by_cases hv : all_valid s.SQ = false
        · rw [if_pos hv] at h
          by_cases hsta : s.STA.getD s.STA_head 0 = x.instr_id
          · rw [if_pos hsta] at h
            cases hadd : add_store_queue P s rob_it i with
            | fault e => rw [hadd] at h; simp at h
            | ok s1 =>
              rw [hadd] at h
              simp only [Outcome.ok.injEq, Prod.mk.injEq] at h
              obtain ⟨rfl, rfl, rfl⟩ := h
              exact Or.inr (Or.inr (Or.inl ⟨hm, ha0, hv, hsta, rfl, rfl, rfl⟩))
          · rw [if_neg hsta] at h
            simp only [Outcome.ok.injEq, Prod.mk.injEq] at h
            obtain ⟨rfl, rfl, rfl⟩ := h
            exact Or.inr (Or.inr (Or.inr ⟨hm, ha0, fun hc => hsta hc.2, rfl, rfl, rfl⟩))
        · rw [if_neg hv] at h
          simp only [Outcome.ok.injEq, Prod.mk.injEq] at h
          obtain ⟨rfl, rfl, rfl⟩ := h
          exact Or.inr (Or.inr (Or.inr ⟨hm, ha0, fun hc => hv hc.1, rfl, rfl, rfl⟩))
    · rw [if_neg hm] at h
      simp only [Outcome.ok.injEq, Prod.mk.injEq] at h
      obtain ⟨rfl, rfl, rfl⟩ := h
      exact Or.inl ⟨not_not.mp hm, rfl, rfl, rfl⟩

theorem mark_store_added_id (i q : Nat) (e : ooo_model_instr) :
    (mark_store_added i q e).instr_id = e.instr_id := rfl

theorem add_store_queue_mapped (P : Params) (s s' : O3_CPU) (rob_it i : Nat)
    (h : add_store_queue P s rob_it i = .ok s') :
    rob_mapped scheduling_fields s s' ∧
    ∀ x', rob_find s'.ROB.entries rob_it = some x' → x'.destination_added.getD i 0 ≠ 0 := by
  obtain ⟨sq_it, x, hq, hx, rfl⟩ := add_store_queue_shape P s s' rob_it i h
  constructor
  · exact rob_mapped_update scheduling_fields scheduling_fields_refl s rob_it _
      (scheduling_fields_mark_store i sq_it)
  · intro x' hx'
    simp only [update_rob] at hx'
    rw [rob_find_modify _ _ _ _ (mark_store_added_id i sq_it), hx] at hx'
    simp only [Option.map_some', Option.some.injEq] at hx'
    rw [if_pos (rob_find_id _ _ _ hx)] at hx'
    subst hx'
    unfold mark_store_added
    simp only
    rw [getD_array_set_self]
    decide

/-- A round of the store loop: the counters, and the operand that is still not added
after the round was counted in `num_mem_ops` only. -/
theorem schedule_store_round (P : Params) (s s' : O3_CPU) (rob_it i n a n' a' : Nat)
    (h : schedule_store P rob_it i s n a = .ok (s', n', a')) :
    rob_mapped scheduling_fields s s' ∧ a' + n ≤ n' + a ∧ n ≤ n' ∧ a ≤ a' ∧
    (∀ x', rob_find s'.ROB.entries rob_it = some x' → x'.destination_memory.getD i 0 ≠ 0 →
      x'.destination_added.getD i 0 = 0 → a' = a ∧ n' = n + 1) := by
  obtain ⟨x, hx, hc⟩ := schedule_store_cases P s s' rob_it i n a n' a' h
  rcases hc with ⟨hm, rfl, rfl, rfl⟩ | ⟨hm, ha, rfl, rfl, rfl⟩ | ⟨hm, ha, hv, hsta, hadd, rfl, rfl⟩ |
    ⟨hm, ha, hno, rfl, rfl, rfl⟩
  · refine ⟨rob_mapped_refl _ scheduling_fields_refl _, by omega, le_refl _, le_refl _, ?_⟩
    intro x' hx' hm' _
    rw [hx] at hx'
    simp only [Option.some.injEq] at hx'
    subst hx'
    exact absurd hm hm'
  · refine ⟨rob_mapped_refl _ scheduling_fields_refl _, by omega, by omega, by omega, ?_⟩
    intro x' hx' _ ha'
    rw [hx] at hx'
    simp only [Option.some.injEq] at hx'
    subst hx'
    exact absurd ha' ha
  · obtain ⟨hmap, hadded⟩ := add_store_queue_mapped P s s' rob_it i hadd
    refine ⟨hmap, by omega, by omega, by omega, ?_⟩
    intro x' hx' _ ha'
    exact absurd ha' (hadded x' hx')
  · exact ⟨rob_mapped_refl _ scheduling_fields_refl _, by omega, by omega, by omega,
      fun _ _ _ _ => ⟨rfl, rfl⟩⟩

theorem scheduling_fields_id (e e' : ooo_model_instr) (h : scheduling_fields e e') :
    e'.instr_id = e.instr_id := (lsq_fields_id e e' h.1).1

theorem rob_find_mapped (F : ooo_model_instr → ooo_model_instr → Prop)
    (hF : ∀ e e', F e e' → e'.instr_id = e.instr_id) (s s' : O3_CPU) (h : rob_mapped F s s')
    (id : Nat) :
    (∀ x, rob_find s.ROB.entries id = some x →
      ∃ x', rob_find s'.ROB.entries id = some x' ∧ F x x') ∧
    (∀ x', rob_find s'.ROB.entries id = some x' →
      ∃ x, rob_find s.ROB.entries id = some x ∧ F x x') := by
  obtain ⟨g, hg, e⟩ := h
  have hfind := rob_find_map s.ROB.entries id g (fun e => hF _ _ (hg e))
  rw [e]
  simp only
  rw [hfind]
  constructor
  · intro x hx
    rw [hx]
    exact ⟨g x, rfl, hg x⟩
  · intro x' hx'
    cases hx : rob_find s.ROB.entries id with
    | none => rw [hx] at hx'; simp at hx'
    | some x =>
      rw [hx] at hx'
      simp only [Option.map_some', Option.some.injEq] at hx'
      subst hx'
      exact ⟨x, rfl, hg x⟩

/-- The store loop: the counters, and an operand that is still not added at the end
keeps `num_added` below `num_mem_ops`. -/
theorem schedule_stores_rounds (P : Params) (rob_it : Nat) (l : List Nat) :
    ∀ (s s' : O3_CPU) (n a n' a' : Nat),
      schedule_stores P rob_it l s n a = .ok (s', n', a') →
      rob_mapped scheduling_fields s s' ∧ a' + n ≤ n' + a ∧
      (∀ j ∈ l, ∀ y', rob_find s'.ROB.entries rob_it = some y' →
        y'.destination_memory.getD j 0 ≠ 0 → y'.destination_added.getD j 0 = 0 →
        a' + n < n' + a) := by
  induction l with
  | nil =>
    intro s s' n a n' a' h
    simp only [schedule_stores, Outcome.ok.injEq, Prod.mk.injEq] at h
    obtain ⟨rfl, rfl, rfl⟩ := h
    exact ⟨rob_mapped_refl _ scheduling_fields_refl _, by omega, fun j hj => by cases hj⟩
  | cons i rest ih =>
    intro s s' n a n' a' h
    unfold schedule_stores at h
    cases hr : schedule_store P rob_it i s n a with
    | fault e => rw [hr] at h; simp at h
    | ok r =>
      obtain ⟨s1, n1, a1⟩ := r
      rw [hr] at h
      simp only at h
      obtain ⟨m1, c1, -, -, k1⟩ := schedule_store_round P s s1 rob_it i n a n1 a1 hr
      obtain ⟨m2, c2, k2⟩ := ih s1 s' n1 a1 n' a' h
      refine ⟨rob_mapped_trans _ scheduling_fields_trans _ _ _ m1 m2, by omega, ?_⟩
      intro j hj y' hy' hm ha
      rcases List.mem_cons.mp hj with rfl | hjr
      · obtain ⟨x1, hx1, hF⟩ :=
          (rob_find_mapped _ scheduling_fields_id s1 s' m2 rob_it).2 y' hy'
        have hm1 : x1.destination_memory.getD j 0 ≠ 0 := by
          rw [← (lsq_fields_id _ _ hF.1).2.2.2.2.2.1]; exact hm
        have ha1 : x1.destination_added.getD j 0 = 0 := by
          by_contra hne
          exact hF.2 j hne ha
        obtain ⟨rfl, rfl⟩ := k1 x1 hx1 hm1 ha1
        omega
      · have := k2 j hjr y' hy' hm ha
        omega

theorem add_load_queue_mapped (P : Params) (s s' : O3_CPU) (rob_it i : Nat)
    (h : add_load_queue P s rob_it i = .ok s') : rob_mapped scheduling_fields s s' :=
  rob_mapped_mono _ _ scheduling_fields_of_load _ _ (add_load_queue_frame P s s' rob_it i h).2.1

/-- A round of the load loop: the counters. -/
theorem schedule_load_round (P : Params) (s s' : O3_CPU) (rob_it i n a n' a' : Nat)
    (h : schedule_load P rob_it i s n a = .ok (s', n', a')) :
    rob_mapped scheduling_fields s s' ∧ a' + n ≤ n' + a := by
  unfold schedule_load at h
  cases hx : rob_find s.ROB.entries rob_it with
  | none => rw [hx] at h; simp at h
  | some x =>
    rw [hx] at h
    simp only at h
    split_ifs at h with hm ha hv
    · simp only [Outcome.ok.injEq, Prod.mk.injEq] at h
      obtain ⟨rfl, rfl, rfl⟩ := h
      exact ⟨rob_mapped_refl _ scheduling_fields_refl _, by omega⟩
    · cases hadd : add_load_queue P s rob_it i with
      | fault e => rw [hadd] at h; simp at h
      | ok s1 =>
        rw [hadd] at h
        simp only [Outcome.ok.injEq, Prod.mk.injEq] at h
        obtain ⟨rfl, rfl, rfl⟩ := h
        exact ⟨add_load_queue_mapped P s s1 rob_it i hadd, by omega⟩
    · simp only [Outcome.ok.injEq, Prod.mk.injEq] at h
      obtain ⟨rfl, rfl, rfl⟩ := h
      exact ⟨rob_mapped_refl _ scheduling_fields_refl _, by omega⟩
    · simp only [Outcome.ok.injEq, Prod.mk.injEq] at h
      obtain ⟨rfl, rfl, rfl⟩ := h
      exact ⟨rob_mapped_refl _ scheduling_fields_refl _, by omega⟩

theorem schedule_loads_rounds (P : Params) (rob_it : Nat) (l : List Nat) :
    ∀ (s s' : O3_CPU) (n a n' a' : Nat),
      schedule_loads P rob_it l s n a = .ok (s', n', a') →
      rob_mapped scheduling_fields s s' ∧ a' + n ≤ n' + a := by
  induction l with
  | nil =>
    intro s s' n a n' a' h
    simp only [schedule_loads, Outcome.ok.injEq, Prod.mk.injEq] at h
    obtain ⟨rfl, rfl, rfl⟩ := h
    exact ⟨rob_mapped_refl _ scheduling_fields_refl _, by omega⟩
  | cons i rest ih =>
    intro s s' n a n' a' h
    unfold schedule_loads at h
    cases hr : schedule_load P rob_it i s n a with
    | fault e => rw [hr] at h; simp at h
    | ok r =>
      obtain ⟨s1, n1, a1⟩ := r
      rw [hr] at h
      simp only at h
      obtain ⟨m1, c1⟩ := schedule_load_round P s s1 rob_it i n a n1 a1 hr
      obtain ⟨m2, c2⟩ := ih s1 s' n1 a1 n' a' h
      exact ⟨rob_mapped_trans _ scheduling_fields_trans _ _ _ m1 m2, by omega⟩

/-- A call of `do_memory_scheduling` that leaves a store operand not added leaves the
record in the state of scheduling it had. -/
theorem do_memory_scheduling_keeps_inflight (P : Params) (t t' : O3_CPU) (rob_it j : Nat)
    (y y' : ooo_model_instr) (h : do_memory_scheduling P t rob_it = .ok t')
    (hy : rob_find t.ROB.entries rob_it = some y)
    (hy' : rob_find t'.ROB.entries rob_it = some y') (hj : j < P.MAX_INSTR_DESTINATIONS)
    (hm : y'.destination_memory.getD j 0 ≠ 0) (ha : y'.destination_added.getD j 0 = 0) :
    lsq_fields y y' := by
  unfold do_memory_scheduling at h
  cases hl : schedule_loads P rob_it (List.range P.NUM_INSTR_SOURCES) t 0 0 with
  | fault e => rw [hl] at h; simp at h
  | ok r =>
    obtain ⟨s1, n1, a1⟩ := r
    rw [hl] at h
    simp only at h
    cases hs : schedule_stores P rob_it (List.range P.MAX_INSTR_DESTINATIONS) s1 n1 a1 with
    | fault e => rw [hs] at h; simp at h
    | ok r2 =>
      obtain ⟨s2, n2, a2⟩ := r2
      rw [hs] at h
      simp only at h
      obtain ⟨m1, c1⟩ := schedule_loads_rounds P rob_it _ t s1 0 0 n1 a1 hl
      obtain ⟨m2, c2, k2⟩ := schedule_stores_rounds P rob_it _ s1 s2 n1 a1 n2 a2 hs
      have m12 := rob_mapped_trans _ scheduling_fields_trans _ _ _ m1 m2
      unfold schedule_finish at h
      split_ifs at h with hgt heq
      · -- every operand counted as added: the operand `j` cannot be left out
        simp only [Outcome.ok.injEq] at h
        subst h
        exfalso
        simp only [update_rob] at hy'
        rw [rob_find_modify _ _ _ mark_scheduled (fun e => rfl)] at hy'
        cases hy2 : rob_find s2.ROB.entries rob_it with
        | none => rw [hy2] at hy'; simp at hy'
        | some y2 =>
          rw [hy2] at hy'
          simp only [Option.map_some', Option.some.injEq] at hy'
          rw [if_pos (rob_find_id _ _ _ hy2)] at hy'
          subst hy'
          have := k2 j (List.mem_range.mpr hj) y2 hy2 hm ha
          omega
      · simp only [Outcome.ok.injEq] at h
        subst h
        obtain ⟨y0, hy0, hF⟩ := (rob_find_mapped _ scheduling_fields_id t _ m12 rob_it).2 y' hy'
        rw [hy] at hy0
        simp only [Option.some.injEq] at hy0
        subst hy0
        exact hF.1

theorem add_store_queue_returns (P : Params) (s : O3_CPU) (rob_it i : Nat) (x : ooo_model_instr)
    (hx : rob_find s.ROB.entries rob_it = some x) (hslot : has_empty_slot s.SQ) :
    ∃ s1, add_store_queue P s rob_it i = .ok s1 := by
  obtain ⟨slot, hs, hv⟩ := hslot
  obtain ⟨sq_it, hq⟩ := find_if_not_valid_of_slot s.SQ slot hs hv
  obtain ⟨-, hinv, -⟩ := find_if_not_valid_some s.SQ sq_it hq
  have hva : (s.SQ.getD sq_it {}).virtual_address = 0 := by
    unfold is_valid at hinv
    simpa using hinv
  unfold add_store_queue
  rw [hq]
  simp only [hva, ne_eq, not_true_eq_false, if_false, hx]
  exact ⟨_, rfl⟩

/-- C13: the round of `do_memory_scheduling` for a store operand `i` of the record `x`
that is not added yet. When the store queue has a slot that is not valid and
`STA[STA_head] == x.instr_id`, the round is a returning call of `add_store_queue`, which
marks `destination_added[i]`; in every other case the round returns the state unchanged
(so `destination_added[i]` stays 0 and the STA ring and the store queue are as before)
and counts the operand in `num_mem_ops` only. A call of `do_memory_scheduling` that leaves
a store operand `j` not added leaves `scheduled`, `is_memory` and `num_reg_dependent` of
the record as they were, so a record with `scheduled == INFLIGHT` keeps it and passes the
test of `schedule_memory_instruction` again. -/
theorem do_memory_scheduling_store_gate (P : Params) (s : O3_CPU) (rob_it i n a : Nat)
    (x : ooo_model_instr) (hx : rob_find s.ROB.entries rob_it = some x)
    (hop : x.destination_memory.getD i 0 ≠ 0) (hnew : x.destination_added.getD i 0 = 0) :
    (has_empty_slot s.SQ ∧ s.STA.getD s.STA_head 0 = x.instr_id →
      ∃ s1, add_store_queue P s rob_it i = .ok s1 ∧
        schedule_store P rob_it i s n a = .ok (s1, n + 1, a + 1) ∧
        ∀ x1, rob_find s1.ROB.entries rob_it = some x1 → x1.destination_added.getD i 0 ≠ 0) ∧
    (¬ (has_empty_slot s.SQ ∧ s.STA.getD s.STA_head 0 = x.instr_id) →
      schedule_store P rob_it i s n a = .ok (s, n + 1, a)) ∧
    (∀ (t t' : O3_CPU) (y y' : ooo_model_instr) (j : Nat),
      do_memory_scheduling P t rob_it = .ok t' →
      rob_find t.ROB.entries rob_it = some y → rob_find t'.ROB.entries rob_it = some y' →
      j < P.MAX_INSTR_DESTINATIONS → y'.destination_memory.getD j 0 ≠ 0 →
      y'.destination_added.getD j 0 = 0 →
      y'.scheduled = y.scheduled ∧ y'.is_memory = y.is_memory ∧
        y'.num_reg_dependent = y.num_reg_dependent) := by
  refine ⟨?_, ?_, ?_⟩
  · rintro ⟨hslot, hsta⟩
    obtain ⟨s1, hadd⟩ := add_store_queue_returns P s rob_it i x hx hslot
    refine ⟨s1, hadd, ?_, (add_store_queue_mapped P s s1 rob_it i hadd).2⟩
    unfold schedule_store
    rw [hx]
    simp only [hop, ne_eq, not_false_eq_true, if_true, hnew, not_true_eq_false, if_false,
      (all_valid_false_iff s.SQ).mpr hslot, hsta, hadd]
  · intro hno
    unfold schedule_store
    rw [hx]
    simp only [hop, ne_eq, not_false_eq_true, if_true, hnew, not_true_eq_false, if_false]
    by_cases hv : all_valid s.SQ = false
    · have hsta : ¬ s.STA.getD s.STA_head 0 = x.instr_id :=
        fun hc => hno ⟨(all_valid_false_iff s.SQ).mp hv, hc⟩
      rw [if_pos hv, if_neg hsta]
    · rw [if_neg hv]
  · intro t t' y y' j h hy hy' hj hm ha
    have hF := do_memory_scheduling_keeps_inflight P t t' rob_it j y y' h hy hy' hj hm ha
    obtain ⟨-, h2, -, h4, h5, -⟩ := lsq_fields_id y y' hF
    exact ⟨h2, h4, h5⟩

theorem do_memory_scheduling_store_gate_witness :
    rob_find lts_load_admitted.ROB.entries 1 = some lts_store_record ∧
    lts_store_record.destination_memory.getD 0 0 ≠ 0 ∧
    lts_store_record.destination_added.getD 0 0 = 0 ∧
    ((has_empty_slot lts_load_admitted.SQ ∧
        lts_load_admitted.STA.getD lts_load_admitted.STA_head 0 = lts_store_record.instr_id →
      ∃ s1, add_store_queue sample_params lts_load_admitted 1 0 = .ok s1 ∧
        schedule_store sample_params 1 0 lts_load_admitted 0 0 = .ok (s1, 0 + 1, 0 + 1) ∧
        ∀ x1, rob_find s1.ROB.entries 1 = some x1 → x1.destination_added.getD 0 0 ≠ 0) ∧
    (¬ (has_empty_slot lts_load_admitted.SQ ∧
        lts_load_admitted.STA.getD lts_load_admitted.STA_head 0 = lts_store_record.instr_id) →
      schedule_store sample_params 1 0 lts_load_admitted 0 0 = .ok (lts_load_admitted, 0 + 1, 0)) ∧
    (∀ (t t' : O3_CPU) (y y' : ooo_model_instr) (j : Nat),
      do_memory_scheduling sample_params t 1 = .ok t' →
      rob_find t.ROB.entries 1 = some y → rob_find t'.ROB.entries 1 = some y' →
      j < sample_params.MAX_INSTR_DESTINATIONS → y'.destination_memory.getD j 0 ≠ 0 →
      y'.destination_added.getD j 0 = 0 →
      y'.scheduled = y.scheduled ∧ y'.is_memory = y.is_memory ∧
        y'.num_reg_dependent = y.num_reg_dependent)) :=
  ⟨by decide, by decide, by decide,
    do_memory_scheduling_store_gate sample_params lts_load_admitted 1 0 0 0 lts_store_record
      (by decide) (by decide) (by decide)⟩

/-- The parts of the state that `add_store_queue` writes, and the slot it fills. -/
theorem add_store_queue_frame (P : Params) (s s' : O3_CPU) (rob_it i : Nat)
    (h : add_store_queue P s rob_it i = .ok s') :
    s' = { s with ROB := s'.ROB, SQ := s'.SQ, STA := s'.STA, STA_head := s'.STA_head
                  RTS0 := s'.RTS0 } ∧
    rob_mapped store_fields s s' ∧
    ∃ sq_it entry, find_if_not_valid s.SQ = some sq_it ∧ s'.SQ = s.SQ.set sq_it entry := by
  obtain ⟨sq_it, x, hq, hx, rfl⟩ := add_store_queue_shape P s s' rob_it i h
  refine ⟨rfl, ?_, sq_it, _, hq, rfl⟩
  exact rob_mapped_update store_fields store_fields_refl s rob_it _
    (mark_store_added_fields i sq_it)

theorem schedule_load_queue_sizes (P : Params) (s s' : O3_CPU) (rob_it i n a n' a' : Nat)
    (h : schedule_load P rob_it i s n a = .ok (s', n', a')) :
    s'.LQ.length = s.LQ.length ∧ s'.SQ = s.SQ := by
  unfold schedule_load at h
  cases hx : rob_find s.ROB.entries rob_it with
  | none => rw [hx] at h; simp at h
  | some x =>
    rw [hx] at h
    simp only at h
    split_ifs at h with hm ha hv
    · simp only [Outcome.ok.injEq, Prod.mk.injEq] at h
      obtain ⟨rfl, rfl, rfl⟩ := h
      exact ⟨rfl, rfl⟩
    · cases hadd : add_load_queue P s rob_it i with
      | fault e => rw [hadd] at h; simp at h
      | ok s1 =>
        rw [hadd] at h
        simp only [Outcome.ok.injEq, Prod.mk.injEq] at h
        obtain ⟨rfl, rfl, rfl⟩ := h
        obtain ⟨hfr, -, lq_it, entry, -, hLQ⟩ := add_load_queue_frame P s s1 rob_it i hadd
        exact ⟨by rw [hLQ, List.length_set], by rw [hfr]⟩
    · simp only [Outcome.ok.injEq, Prod.mk.injEq] at h
      obtain ⟨rfl, rfl, rfl⟩ := h
      exact ⟨rfl, rfl⟩
    · simp only [Outcome.ok.injEq, Prod.mk.injEq] at h
      obtain ⟨rfl, rfl, rfl⟩ := h
      exact ⟨rfl, rfl⟩

theorem schedule_loads_queue_sizes (P : Params) (rob_it : Nat) (l : List Nat) :
    ∀ (s s' : O3_CPU) (n a n' a' : Nat),
      schedule_loads P rob_it l s n a = .ok (s', n', a') →
      s'.LQ.length = s.LQ.length ∧ s'.SQ = s.SQ := by
  induction l with
  | nil =>
    intro s s' n a n' a' h
    simp only [schedule_loads, Outcome.ok.injEq, Prod.mk.injEq] at h
    obtain ⟨rfl, rfl, rfl⟩ := h
    exact ⟨rfl, rfl⟩
  | cons i rest ih =>
    intro s s' n a n' a' h
    unfold schedule_loads at h
    cases hr : schedule_load P rob_it i s n a with
    | fault e => rw [hr] at h; simp at h
    | ok r =>
      obtain ⟨s1, n1, a1⟩ := r
      rw [hr] at h
      simp only at h
      obtain ⟨p1, p2⟩ := schedule_load_queue_sizes P s s1 rob_it i n a n1 a1 hr
      obtain ⟨q1, q2⟩ := ih s1 s' n1 a1 n' a' h
      exact ⟨q1.trans p1, q2.trans p2⟩

theorem schedule_store_queue_sizes (P : Params) (s s' : O3_CPU) (rob_it i n a n' a' : Nat)
    (h : schedule_store P rob_it i s n a = .ok (s', n', a')) :
    s'.SQ.length = s.SQ.length ∧ s'.LQ = s.LQ := by
  obtain ⟨x, hx, hc⟩ := schedule_store_cases P s s' rob_it i n a n' a' h
  rcases hc with ⟨-, rfl, -, -⟩ | ⟨-, -, rfl, -, -⟩ | ⟨-, -, -, -, hadd, -, -⟩ | ⟨-, -, -, rfl, -, -⟩
  · exact ⟨rfl, rfl⟩
  · exact ⟨rfl, rfl⟩
  · obtain ⟨hfr, -, sq_it, entry, -, hSQ⟩ := add_store_queue_frame P s s' rob_it i hadd
    exact ⟨by rw [hSQ, List.length_set], by rw [hfr]⟩
  · exact ⟨rfl, rfl⟩

theorem schedule_stores_queue_sizes (P : Params) (rob_it : Nat) (l : List Nat) :
    ∀ (s s' : O3_CPU) (n a n' a' : Nat),
      schedule_stores P rob_it l s n a = .ok (s', n', a') →
      s'.SQ.length = s.SQ.length ∧ s'.LQ = s.LQ := by
  induction l with
  | nil =>
    intro s s' n a n' a' h
    simp only [schedule_stores, Outcome.ok.injEq, Prod.mk.injEq] at h
    obtain ⟨rfl, rfl, rfl⟩ := h
    exact ⟨rfl, rfl⟩
  | cons i rest ih =>
    intro s s' n a n' a' h
    unfold schedule_stores at h
    cases hr : schedule_store P rob_it i s n a with
    | fault e => rw [hr] at h; simp at h
    | ok r =>
      obtain ⟨s1, n1, a1⟩ := r
      rw [hr] at h
      simp only at h
      obtain ⟨p1, p2⟩ := schedule_store_queue_sizes P s s1 rob_it i n a n1 a1 hr
      obtain ⟨q1, q2⟩ := ih s1 s' n1 a1 n' a' h
      exact ⟨q1.trans p1, q2.trans p2⟩

/-- A call of `do_memory_scheduling` keeps the number of slots of both queues. -/
theorem do_memory_scheduling_queue_sizes (P : Params) (s s' : O3_CPU) (rob_it : Nat)
    (h : do_memory_scheduling P s rob_it = .ok s') :
    s'.LQ.length = s.LQ.length ∧ s'.SQ.length = s.SQ.length := by
  unfold do_memory_scheduling at h
  cases hl : schedule_loads P rob_it (List.range P.NUM_INSTR_SOURCES) s 0 0 with
  | fault e => rw [hl] at h; simp at h
  | ok r =>
    obtain ⟨s1, n1, a1⟩ := r
    rw [hl] at h
    simp only at h
    cases hs : schedule_stores P rob_it (List.range P.MAX_INSTR_DESTINATIONS) s1 n1 a1 with
    | fault e => rw [hs] at h; simp at h
    | ok r2 =>
      obtain ⟨s2, n2, a2⟩ := r2
      rw [hs] at h
      simp only at h
      obtain ⟨p1, p2⟩ := schedule_loads_queue_sizes P rob_it _ s s1 0 0 n1 a1 hl
      obtain ⟨q1, q2⟩ := schedule_stores_queue_sizes P rob_it _ s1 s2 n1 a1 n2 a2 hs
      have hfin : s'.LQ = s2.LQ ∧ s'.SQ = s2.SQ := by
        unfold schedule_finish at h
        split_ifs at h
        · simp only [Outcome.ok.injEq] at h
          subst h; exact ⟨rfl, rfl⟩
        · simp only [Outcome.ok.injEq] at h
          subst h; exact ⟨rfl, rfl⟩
      rw [hfin.1, hfin.2, q2, p1, q1, p2]
      exact ⟨rfl, rfl⟩

/-- C20: `add_load_queue` and `add_store_queue` write one slot of their queue, a slot
that was not valid, and leave every other slot and the other queue as they were (the
guard `!all_of(is_valid)` of `do_memory_scheduling` makes sure that there is such a
slot); when every slot of the load queue (store queue) is valid, the round for a load
(store) operand that is not added returns the state unchanged; and a call of
`do_memory_scheduling` keeps the sizes of both queues, so the valid entries never
outnumber the slots. -/
theorem add_queue_writes_empty_slot (P : Params) (s s' : O3_CPU) (rob_it i n a : Nat)
    (x : ooo_model_instr) (hx : rob_find s.ROB.entries rob_it = some x) :
    (add_load_queue P s rob_it i = .ok s' →
      ∃ lq_it, lq_it < s.LQ.length ∧ is_valid (s.LQ.getD lq_it {}) = false ∧
        (∀ j, j ≠ lq_it → s'.LQ.get? j = s.LQ.get? j) ∧
        s'.LQ.length = s.LQ.length ∧ s'.SQ = s.SQ) ∧
    (add_store_queue P s rob_it i = .ok s' →
      ∃ sq_it, sq_it < s.SQ.length ∧ is_valid (s.SQ.getD sq_it {}) = false ∧
        (∀ j, j ≠ sq_it → s'.SQ.get? j = s.SQ.get? j) ∧
        s'.SQ.length = s.SQ.length ∧ s'.LQ = s.LQ) ∧
    (all_valid s.LQ = false → ∃ lq_it, find_if_not_valid s.LQ = some lq_it) ∧
    (all_valid s.SQ = false → ∃ sq_it, find_if_not_valid s.SQ = some sq_it) ∧
    (all_valid s.LQ = true → x.source_memory.getD i 0 ≠ 0 → x.source_added.getD i 0 = 0 →
      schedule_load P rob_it i s n a = .ok (s, n + 1, a)) ∧
    (all_valid s.SQ = true → x.destination_memory.getD i 0 ≠ 0 →
      x.destination_added.getD i 0 = 0 →
      schedule_store P rob_it i s n a = .ok (s, n + 1, a)) ∧
    (∀ t, do_memory_scheduling P s rob_it = .ok t →
      t.LQ.length = s.LQ.length ∧ t.SQ.length = s.SQ.length ∧
      t.LQ.countP is_valid ≤ s.LQ.length ∧ t.SQ.countP is_valid ≤ s.SQ.length) := by
  refine ⟨?_, ?_, ?_, ?_, ?_, ?_, ?_⟩
  · intro h
    obtain ⟨hfr, -, lq_it, entry, hq, hLQ⟩ := add_load_queue_frame P s s' rob_it i h
    obtain ⟨h1, h2, -⟩ := find_if_not_valid_some s.LQ lq_it hq
    refine ⟨lq_it, h1, h2, ?_, ?_, ?_⟩
    · intro j hj; rw [hLQ]; exact get?_set_ne _ _ _ _ hj
    · rw [hLQ, List.length_set]
    · rw [hfr]
  · intro h
    obtain ⟨hfr, -, sq_it, entry, hq, hSQ⟩ := add_store_queue_frame P s s' rob_it i h
    obtain ⟨h1, h2, -⟩ := find_if_not_valid_some s.SQ sq_it hq
    refine ⟨sq_it, h1, h2, ?_, ?_, ?_⟩
    · intro j hj; rw [hSQ]; exact get?_set_ne _ _ _ _ hj
    · rw [hSQ, List.length_set]
    · rw [hfr]
  · intro hv
    obtain ⟨slot, hs, hi⟩ := (all_valid_false_iff s.LQ).mp hv
    exact find_if_not_valid_of_slot s.LQ slot hs hi
  · intro hv
    obtain ⟨slot, hs, hi⟩ := (all_valid_false_iff s.SQ).mp hv
    exact find_if_not_valid_of_slot s.SQ slot hs hi
  · intro hv hm ha
    unfold schedule_load
    rw [hx]
    simp only [hm, ne_eq, not_false_eq_true, if_true, ha, not_true_eq_false, if_false, hv,
      Bool.true_eq_false]
  · intro hv hm ha
    unfold schedule_store
    rw [hx]
    simp only [hm, ne_eq, not_false_eq_true, if_true, ha, not_true_eq_false, if_false, hv,
      Bool.true_eq_false]
  · intro t ht
    obtain ⟨h1, h2⟩ := do_memory_scheduling_queue_sizes P s t rob_it ht
    refine ⟨h1, h2, ?_, ?_⟩
    · rw [← h1]; exact List.countP_le_length _
    · rw [← h2]; exact List.countP_le_length _

theorem add_queue_writes_empty_slot_witness :
    rob_find load_then_store.ROB.entries 0 = some lts_load_record ∧
    add_load_queue sample_params load_then_store 0 0 = .ok lts_load_queued ∧
    do_memory_scheduling sample_params load_then_store 0 = .ok lts_load_admitted ∧
    ((add_load_queue sample_params load_then_store 0 0 = .ok lts_load_queued →
      ∃ lq_it, lq_it < load_then_store.LQ.length ∧
        is_valid (load_then_store.LQ.getD lq_it {}) = false ∧
        (∀ j, j ≠ lq_it → lts_load_queued.LQ.get? j = load_then_store.LQ.get? j) ∧
        lts_load_queued.LQ.length = load_then_store.LQ.length ∧
        lts_load_queued.SQ = load_then_store.SQ) ∧
    (add_store_queue sample_params load_then_store 0 0 = .ok lts_load_queued →
      ∃ sq_it, sq_it < load_then_store.SQ.length ∧
        is_valid (load_then_store.SQ.getD sq_it {}) = false ∧
        (∀ j, j ≠ sq_it → lts_load_queued.SQ.get? j = load_then_store.SQ.get? j) ∧
        lts_load_queued.SQ.length = load_then_store.SQ.length ∧
        lts_load_queued.LQ = load_then_store.LQ) ∧
    (all_valid load_then_store.LQ = false →
      ∃ lq_it, find_if_not_valid load_then_store.LQ = some lq_it) ∧
    (all_valid load_then_store.SQ = false →
      ∃ sq_it, find_if_not_valid load_then_store.SQ = some sq_it) ∧
    (all_valid load_then_store.LQ = true → lts_load_record.source_memory.getD 0 0 ≠ 0 →
      lts_load_record.source_added.getD 0 0 = 0 →
      schedule_load sample_params 0 0 load_then_store 0 0 = .ok (load_then_store, 0 + 1, 0)) ∧
    (all_valid load_then_store.SQ = true → lts_load_record.destination_memory.getD 0 0 ≠ 0 →
      lts_load_record.destination_added.getD 0 0 = 0 →
      schedule_store sample_params 0 0 load_then_store 0 0 = .ok (load_then_store, 0 + 1, 0)) ∧
    (∀ t, do_memory_scheduling sample_params load_then_store 0 = .ok t →
      t.LQ.length = load_then_store.LQ.length ∧ t.SQ.length = load_then_store.SQ.length ∧
      t.LQ.countP is_valid ≤ load_then_store.LQ.length ∧
      t.SQ.countP is_valid ≤ load_then_store.SQ.length)) :=
  ⟨by decide, by decide, by decide,
    add_queue_writes_empty_slot sample_params load_then_store lts_load_queued 0 0 0 0
      lts_load_record (by decide)⟩

/-! ## Lemmas: the store-address ring -/

theorem ring_mod (n h k : Nat) (hh : h < n) (hk : k ≤ n) :
    (h + k) % n = if h + k < n then h + k else h + k - n := by
  split_ifs with hlt
  · exact Nat.mod_eq_of_lt hlt
  · rw [Nat.mod_eq_sub_mod (by omega)]
    exact Nat.mod_eq_of_lt (by omega)

/-- A write at `STA_tail` appends to the queue when the ring is not full. -/
theorem ring_holds_write (n : Nat) (STA : List Nat) (head tail id : Nat) (q : List Nat)
    (h : ring_holds n STA head tail q) (hroom : q.length < n) :
    ring_holds n (STA.set tail id) head (if tail + 1 = n then 0 else tail + 1) (q ++ [id]) := by
  obtain ⟨hlen, hh, hq, ht, hin, hout⟩ := h
  have htl : tail < n := by rw [ht]; exact Nat.mod_lt _ (by omega)
  have htail := ring_mod n head q.length hh hq
  refine ⟨by rw [List.length_set, hlen], hh, by simp; omega, ?_, ?_, ?_⟩
  · rw [List.length_append, List.length_singleton, ring_mod n head (q.length + 1) hh (by omega)]
    rw [htail] at ht
    split_ifs at ht ⊢ <;> omega
  · intro k hk
    rw [List.length_append, List.length_singleton] at hk
    have hidx := ring_mod n head k hh (by omega)
    by_cases hkq : k < q.length
    · have hne : tail ≠ (head + k) % n := by
        rw [ht, htail, hidx]; split_ifs <;> omega
      rw [getD_set_other _ _ _ _ _ hne, hin k hkq]
      rw [List.getD_eq_getElem?_getD, List.getD_eq_getElem?_getD,
        List.getElem?_append_left hkq]
    · have hk2 : k = q.length := by omega
      subst hk2
      rw [← ht, getD_set_self _ _ _ _ (by rw [hlen]; exact htl)]
      rw [List.getD_eq_getElem?_getD, List.getElem?_append_right (le_refl _), Nat.sub_self]
      rfl
  · intro k hk hkn
    rw [List.length_append, List.length_singleton] at hk
    have hidx := ring_mod n head k hh (by omega)
    have hne : tail ≠ (head + k) % n := by
      rw [ht, htail, hidx]; split_ifs <;> omega
    rw [getD_set_other _ _ _ _ _ hne]
    exact hout k (by omega) hkn

/-- The id at `STA_head` is the oldest of the queue, and its consumption leaves the rest
of the queue, with `UINT64_MAX` in the consumed slot. -/
theorem ring_holds_consume (n : Nat) (STA : List Nat) (head tail y : Nat) (rest : List Nat)
    (h : ring_holds n STA head tail (y :: rest)) :
    STA.getD head 0 = y ∧
    ring_holds n (STA.set head UINT64_MAX) (if head + 1 = n then 0 else head + 1) tail rest := by
  obtain ⟨hlen, hh, hq, ht, hin, hout⟩ := h
  simp only [List.length_cons] at hq ht hin hout
  have h0 := hin 0 (by omega)
  rw [Nat.add_zero, Nat.mod_eq_of_lt hh] at h0
  refine ⟨h0, by rw [List.length_set, hlen], by split_ifs <;> omega, by omega, ?_, ?_, ?_⟩
  · rw [ht, ring_mod n head (rest.length + 1) hh (by omega)]
    by_cases hw : head + 1 = n
    · rw [if_pos hw, Nat.zero_add, Nat.mod_eq_of_lt (by omega)]
      split_ifs <;> omega
    · rw [if_neg hw, ring_mod n (head + 1) rest.length (by omega) (by omega)]
      split_ifs <;> omega
  · intro k hk
    have hold := hin (k + 1) (by omega)
    rw [List.getD_cons_succ] at hold
    have hidx := ring_mod n head (k + 1) hh (by omega)
    have hne : head ≠ (head + (k + 1)) % n := by rw [hidx]; split_ifs <;> omega
    have hsame : ((if head + 1 = n then 0 else head + 1) + k) % n = (head + (k + 1)) % n := by
      rw [hidx]
      by_cases hw : head + 1 = n
      · rw [if_pos hw, Nat.zero_add, Nat.mod_eq_of_lt (by omega)]
        split_ifs <;> omega
      · rw [if_neg hw, ring_mod n (head + 1) k (by omega) (by omega)]
        split_ifs <;> omega
    rw [hsame, getD_set_other _ _ _ _ _ hne, hold]
  · intro k hk hkn
    by_cases hlast : k + 1 = n
    · have hidx : ((if head + 1 = n then 0 else head + 1) + k) % n = head := by
        by_cases hw : head + 1 = n
        · rw [if_pos hw, Nat.zero_add, Nat.mod_eq_of_lt hkn]; omega
        · rw [if_neg hw, ring_mod n (head + 1) k (by omega) (by omega)]
          split_ifs <;> omega
      rw [hidx, getD_set_self _ _ _ _ (by rw [hlen]; exact hh)]
    · have hold := hout (k + 1) (by omega) (by omega)
      have hidx := ring_mod n head (k + 1) hh (by omega)
      have hne : head ≠ (head + (k + 1)) % n := by rw [hidx]; split_ifs <;> omega
      have hsame : ((if head + 1 = n then 0 else head + 1) + k) % n = (head + (k + 1)) % n := by
        rw [hidx]
        by_cases hw : head + 1 = n
        · rw [if_pos hw, Nat.zero_add, Nat.mod_eq_of_lt (by omega)]
          split_ifs <;> omega
        · rw [if_neg hw, ring_mod n (head + 1) k (by omega) (by omega)]
          split_ifs <;> omega
      rw [hsame, getD_set_other _ _ _ _ _ hne, hold]

/-- An empty queue shows `UINT64_MAX` at `STA_head`. -/
theorem ring_holds_empty_head (n : Nat) (STA : List Nat) (head tail : Nat)
    (h : ring_holds n STA head tail []) : STA.getD head 0 = UINT64_MAX := by
  obtain ⟨hlen, hh, hq, ht, hin, hout⟩ := h
  have := hout 0 (by simp) (by omega)
  rwa [Nat.add_zero, Nat.mod_eq_of_lt hh] at this

/-- The effect of one round of the first loop of `init_instruction` on the ring. -/
theorem init_destination_sta (P : Params) (i : Nat) (a a' : ooo_model_instr)
    (r r' : RegScan) (s s' : O3_CPU) (h : init_destination P i a r s = .ok (a', r', s'))
    (hn : 0 ≤ a.num_mem_ops) :
    a'.destination_memory = a.destination_memory ∧ 0 ≤ a'.num_mem_ops ∧
    s'.instr_unique_id = s.instr_unique_id ∧ s'.STA_head = s.STA_head ∧
    (a.destination_memory.getD i 0 = 0 → s'.STA = s.STA ∧ s'.STA_tail = s.STA_tail) ∧
    (a.destination_memory.getD i 0 ≠ 0 →
      s'.STA = s.STA.set s.STA_tail s.instr_unique_id ∧
      s'.STA_tail = if s.STA_tail + 1 = P.STA_SIZE then 0 else s.STA_tail + 1) := by
  unfold init_destination at h
  simp only at h
  by_cases hm : a.destination_memory.getD i 0 ≠ 0
  · have hm1 : (if a.destination_registers.getD i 0 ≠ 0
        then { a with num_reg_ops := a.num_reg_ops + 1 } else a).destination_memory.getD i 0 ≠ 0 := by
      split_ifs <;> exact hm
    have hn1 : (if a.destination_registers.getD i 0 ≠ 0
        then { a with num_reg_ops := a.num_reg_ops + 1 } else a).num_mem_ops + 1 > 0 := by
      split_ifs <;> first | omega | (simp only; omega)
    rw [if_pos hm1, if_pos hn1] at h
    split_ifs at h <;>
      (simp only [Outcome.ok.injEq, Prod.mk.injEq] at h
       obtain ⟨rfl, -, rfl⟩ := h
       refine ⟨rfl, ?_, rfl, rfl, fun h0 => absurd h0 hm, fun _ => ⟨rfl, ?_⟩⟩
       · first | omega | (simp only; omega)
       · first | rfl | (split_ifs; rfl))
  · have hm1 : ¬ (if a.destination_registers.getD i 0 ≠ 0
        then { a with num_reg_ops := a.num_reg_ops + 1 } else a).destination_memory.getD i 0 ≠ 0 := by
      split_ifs <;> exact hm
    rw [if_neg hm1] at h
    split_ifs at h <;>
      (simp only [Outcome.ok.injEq, Prod.mk.injEq] at h
       obtain ⟨rfl, -, rfl⟩ := h
       exact ⟨rfl, hn, rfl, rfl, fun _ => ⟨rfl, rfl⟩, fun h1 => absurd h1 hm⟩)

theorem sum_pending_cons (a : ooo_model_instr) (i : Nat) (rest : List Nat) :
    (((i :: rest).map fun i => pending (a.destination_memory.getD i 0)).sum)
      = pending (a.destination_memory.getD i 0)
        + ((rest.map fun i => pending (a.destination_memory.getD i 0)).sum) := by
  simp only [List.map_cons, List.sum_cons]

/-- The first loop of `init_instruction` appends the new instruction id to the queue of
the ring once per non-zero destination memory operand. -/
theorem init_destinations_ring (P : Params) (l : List Nat) :
    ∀ (a a' : ooo_model_instr) (r r' : RegScan) (s s' : O3_CPU) (q : List Nat),
      init_destinations P l a r s = .ok (a', r', s') → 0 ≤ a.num_mem_ops → sta_ring P s q →
      q.length + (l.map fun i => pending (a.destination_memory.getD i 0)).sum ≤ P.STA_SIZE →
      sta_ring P s'
        (q ++ List.replicate (l.map fun i => pending (a.destination_memory.getD i 0)).sum
          s.instr_unique_id) := by
  induction l with
  | nil =>
    intro a a' r r' s s' q h _ hr _
    simp only [init_destinations, Outcome.ok.injEq, Prod.mk.injEq] at h
    obtain ⟨-, -, rfl⟩ := h
    simpa using hr
  | cons i rest ih =>
    intro a a' r r' s s' q h hn hr hroom
    simp only [init_destinations] at h
    split at h
    · exact absurd h (by simp)
    · rename_i a1 r1 s1 h1
      obtain ⟨e1, e2, e3, e4, e5, e6⟩ := init_destination_sta P i a a1 r r1 s s1 h1 hn
      rw [sum_pending_cons] at hroom ⊢
      have hstep : sta_ring P s1
          (q ++ List.replicate (pending (a.destination_memory.getD i 0)) s.instr_unique_id) := by
        by_cases hm : a.destination_memory.getD i 0 = 0
        · obtain ⟨f1, f2⟩ := e5 hm
          unfold sta_ring
          rw [f1, f2, e4, hm, pending_zero]
          simpa using hr
        · obtain ⟨f1, f2⟩ := e6 hm
          unfold sta_ring
          rw [f1, f2, e4, pending_pos _ hm]
          rw [pending_pos _ hm] at hroom
          exact ring_holds_write _ _ _ _ _ _ hr (by omega)
      have := ih a1 a' r1 r' s1 s' _ h e2 hstep (by
        rw [e1, List.length_append, List.length_replicate]; omega)
      rw [e1, e3, List.append_assoc, ← List.replicate_add] at this
      exact this

theorem init_branch_prediction_sta (a : ooo_model_instr) (s : O3_CPU) (b : Nat × Nat) (p : Nat) :
    (init_branch_prediction a s b p).2.STA = s.STA ∧
    (init_branch_prediction a s b p).2.STA_head = s.STA_head ∧
    (init_branch_prediction a s b p).2.STA_tail = s.STA_tail := by
  unfold init_branch_prediction
  simp only
  split_ifs <;> exact ⟨rfl, rfl, rfl⟩

theorem init_finish_sta (P : Params) (a : ooo_model_instr) (s s' : O3_CPU)
    (b : Nat × Nat) (p n : Nat) (h : init_finish P a s b p = .ok (n, s')) :
    s'.STA = s.STA ∧ s'.STA_head = s.STA_head ∧ s'.STA_tail = s.STA_tail := by
  unfold init_finish at h
  simp only at h
  obtain ⟨h1, h2, h3⟩ := init_branch_prediction_sta a s b p
  split at h
  · exact absurd h (by simp)
  simp only [Outcome.ok.injEq, Prod.mk.injEq] at h
  obtain ⟨-, rfl⟩ := h
  exact ⟨h1, h2, h3⟩

/-- A returning `init_instruction` for a record that has counted no memory operand yet
appends its instruction id to the queue of the ring once per non-zero destination memory
operand, when the ring has room for them. -/
theorem init_instruction_ring (P : Params) (s s' : O3_CPU) (a : ooo_model_instr)
    (b : Nat × Nat) (p n : Nat) (q : List Nat)
    (h : init_instruction P s a b p = .ok (n, s')) (hn : 0 ≤ a.num_mem_ops)
    (hr : sta_ring P s q) (hroom : q.length + store_operands P a ≤ P.STA_SIZE) :
    sta_ring P s' (q ++ List.replicate (store_operands P a) s.instr_unique_id) := by
  unfold init_instruction at h
  simp only at h
  split at h
  · exact absurd h (by simp)
  rename_i a1 r1 s2 hd
  have hr0 : sta_ring P (init_fetch_budget P s) q := by
    unfold init_fetch_budget sta_ring
    simp only
    split_ifs <;> exact hr
  have hU0 : (init_fetch_budget P s).instr_unique_id = s.instr_unique_id :=
    (init_fetch_budget_same P s).2.2.2.2
  have := init_destinations_ring P _ _ _ _ _ _ _ q hd hn hr0 hroom
  obtain ⟨f1, f2, f3⟩ := init_finish_sta P _ _ _ _ _ _ h
  simp only at f1 f2 f3
  unfold sta_ring
  rw [f1, f2, f3, ← hU0]
  exact this

theorem wrap_succ (n x : Nat) (hn : 0 < n) :
    (if x % n + 1 = n then 0 else x % n + 1) = (x + 1) % n := by
  have hx := Nat.mod_lt x hn
  rw [← Nat.mod_add_mod, ring_mod n (x % n) 1 hx (by omega)]
  split_ifs <;> omega

/-- The invariant of a run that starts with an empty ring: the ids written are the ids
consumed followed by the queue that the ring holds, and the head index has advanced once
per consumed id. -/
theorem sta_run_ring (P : Params) (s0 s : O3_CPU) (written consumed : List Nat)
    (hrun : StaRun P s0 s written consumed) (h0 : sta_ring P s0 []) :
    (∃ q, written = consumed ++ q ∧ sta_ring P s q) ∧
    s.STA_head = (s0.STA_head + consumed.length) % P.STA_SIZE := by
  induction hrun with
  | start =>
    refine ⟨⟨[], rfl, h0⟩, ?_⟩
    rw [List.length_nil, Nat.add_zero, Nat.mod_eq_of_lt h0.2.1]
  | step s s' written consumed w c hrun htick hbound ih =>
    obtain ⟨⟨q, hq, hring⟩, hhead⟩ := ih
    cases htick with
    | init arch_instr btb bp n hinit hn =>
      have hroom : q.length + store_operands P arch_instr ≤ P.STA_SIZE := by
        rw [hq] at hbound
        simp only [List.length_append, List.length_replicate, List.length_nil] at hbound
        omega
      have hr' := init_instruction_ring P s s' arch_instr btb bp n q hinit hn hring hroom
      refine ⟨⟨_, ?_, hr'⟩, ?_⟩
      · rw [hq, List.append_nil, List.append_assoc]
      · rw [List.append_nil, ← hhead]
        unfold init_instruction at hinit
        simp only at hinit
        split at hinit
        · exact absurd hinit (by simp)
        rename_i a1 r1 s2 hd
        obtain ⟨-, f2, -⟩ := init_finish_sta P _ _ _ _ _ _ hinit
        simp only at f2
        rw [f2]
        have hfb : (init_fetch_budget P s).STA_head = s.STA_head := by
          unfold init_fetch_budget; simp only; split_ifs <;> rfl
        rw [← hfb]
        clear hinit hring hroom hr' f2 hfb
        generalize init_fetch_budget P s = t at hd
        generalize List.range P.MAX_INSTR_DESTINATIONS = l at hd
        generalize ({ arch_instr with instr_id := _ } : ooo_model_instr) = a0 at hd
        generalize ({} : RegScan) = r0 at hd
        induction l generalizing a0 r0 t with
        | nil =>
          simp only [init_destinations, Outcome.ok.injEq, Prod.mk.injEq] at hd
          rw [hd.2.2]
        | cons i rest ihl =>
          simp only [init_destinations] at hd
          split at hd
          · exact absurd hd (by simp)
          · rename_i a2 r2 t2 h1
            have hstep : t2.STA_head = t.STA_head := by
              unfold init_destination at h1
              simp only at h1
              split_ifs at h1 <;>
                (simp only [Outcome.ok.injEq, Prod.mk.injEq] at h1
                 obtain ⟨-, -, rfl⟩ := h1
                 rfl)
            rw [← hstep]
            exact ihl _ _ _ hd
    | consume rob_it data_index hadd hguard hid =>
      obtain ⟨sq_it, x, -, -, rfl⟩ := add_store_queue_shape P s _ rob_it data_index hadd
      cases q with
      | nil =>
        have := ring_holds_empty_head _ _ _ _ hring
        rw [hguard] at this
        exact absurd this hid
      | cons y rest =>
        obtain ⟨hy, hrest⟩ := ring_holds_consume _ _ _ _ _ _ hring
        rw [hguard] at hy
        subst hy
        refine ⟨⟨rest, ?_, hrest⟩, ?_⟩
        · rw [hq, List.append_nil, List.append_assoc]; rfl
        · simp only [update_rob, List.length_append, List.length_singleton]
          rw [hhead, ← Nat.add_assoc]
          exact wrap_succ _ _ (by have := hring.2.1; omega)
    | other hsta hh ht =>
      refine ⟨⟨q, ?_, ?_⟩, ?_⟩
      · rw [hq, List.append_nil, List.append_nil]
      · unfold sta_ring; rw [hsta, hh, ht]; exact hring
      · rw [hh, hhead, List.append_nil]

/-- C14: in a run of `init_instruction`, `add_store_queue` (called under the test of
`do_memory_scheduling`) and other steps that starts with an empty ring and keeps at most
`STA_SIZE` store operands outstanding, the ids consumed at `STA_head` are, in order, the
first of the ids written at `STA_tail` (one per non-zero destination memory operand, in
the order of the `init_instruction` calls); the ids not consumed yet are the queue that
the ring holds from `STA_head` to `STA_tail`, so each written id is consumed once; the
two indices are the start index advanced by the number of ids consumed and written,
modulo `STA_SIZE`; and `add_store_queue` leaves `UINT64_MAX` in the slot it consumed and
moves `STA_head` from `STA_SIZE - 1` to 0. -/
theorem sta_ring_fifo (P : Params) (s0 s : O3_CPU) (written consumed : List Nat)
    (hrun : StaRun P s0 s written consumed) (h0 : sta_ring P s0 []) :
    (∃ outstanding, written = consumed ++ outstanding ∧ outstanding.length ≤ P.STA_SIZE ∧
      sta_ring P s outstanding) ∧
    s.STA_head = (s0.STA_head + consumed.length) % P.STA_SIZE ∧
    s.STA_tail = (s0.STA_head + written.length) % P.STA_SIZE ∧
    (∀ (t t' : O3_CPU) (rob_it data_index : Nat),
      add_store_queue P t rob_it data_index = .ok t' → t.STA_head < t.STA.length →
      t'.STA.getD t.STA_head 0 = UINT64_MAX ∧
      t'.STA_head = (if t.STA_head + 1 = P.STA_SIZE then 0 else t.STA_head + 1) ∧
      t'.STA_tail = t.STA_tail) := by
  obtain ⟨⟨q, hq, hring⟩, hhead⟩ := sta_run_ring P s0 s written consumed hrun h0
  refine ⟨⟨q, hq, hring.2.2.1, hring⟩, hhead, ?_, ?_⟩
  · rw [hring.2.2.2.1, hhead, hq, List.length_append, Nat.mod_add_mod, Nat.add_assoc]
  · intro t t' rob_it data_index hadd hlt
    obtain ⟨sq_it, x, -, -, rfl⟩ := add_store_queue_shape P t t' rob_it data_index hadd
    exact ⟨getD_set_self _ _ _ _ hlt, rfl, rfl⟩

theorem lts_sta_run : StaRun sample_params lsq_start lts_store_queued [1] [1] := by
  have r0 : StaRun sample_params lsq_start lsq_start [] [] := StaRun.start
  have r1 := StaRun.step _ lts_read_load _ _ _ _ r0
    (StaTick.init lsq_start lts_read_load load_A (0, 0) 0 3 (by decide) (by decide)) (by decide)
  have r2 := StaRun.step _ lts_read_store _ _ _ _ r1
    (StaTick.init lts_read_load lts_read_store store_A (0, 0) 0 2 (by decide) (by decide))
    (by decide)
  have r3 := StaRun.step _ lts_load_admitted _ _ _ _ r2
    (StaTick.other lts_read_store lts_load_admitted (by decide) (by decide) (by decide))
    (by decide)
  have r4 := StaRun.step _ lts_store_queued _ _ _ _ r3
    (StaTick.consume lts_load_admitted lts_store_queued 1 0 (by decide) (by decide) (by decide))
    (by decide)
  exact r4

theorem sta_ring_fifo_witness :
    (StaRun sample_params lsq_start lts_store_queued [1] [1] ∧ sta_ring sample_params lsq_start []) ∧
    (∃ outstanding, [1] = [1] ++ outstanding ∧ outstanding.length ≤ sample_params.STA_SIZE ∧
      sta_ring sample_params lts_store_queued outstanding) ∧
    lts_store_queued.STA_head = (lsq_start.STA_head + 1) % sample_params.STA_SIZE ∧
    lts_store_queued.STA_tail = (lsq_start.STA_head + 1) % sample_params.STA_SIZE :=
  have h0 : sta_ring sample_params lsq_start [] := by
    unfold sta_ring ring_holds
    refine ⟨by decide, by decide, by decide, by decide, fun k hk => absurd hk (by simp), ?_⟩
    intro k _ hk
    have hk4 : k < 4 := hk
    interval_cases k <;> decide
  have h := sta_ring_fifo sample_params lsq_start lts_store_queued [1] [1] lts_sta_run h0
  ⟨⟨lts_sta_run, h0⟩, h.1, h.2.1, h.2.2.1⟩

theorem sta_run_bound (P : Params) (s0 s : O3_CPU) (w c : List Nat)
    (h : StaRun P s0 s w c) : w.length ≤ c.length + P.STA_SIZE := by
  cases h with
  | start => simp
  | step s1 _ w1 c1 w2 c2 _ _ hb => exact hb

theorem sta_run_other (P : Params) (s0 s s' : O3_CPU) (w c : List Nat)
    (h : StaRun P s0 s w c)
    (hf : s'.STA = s.STA ∧ s'.STA_head = s.STA_head ∧ s'.STA_tail = s.STA_tail) :
    StaRun P s0 s' w c := by
  have hb := sta_run_bound P s0 s w c h
  have := StaRun.step s s' w c [] [] h (StaTick.other s s' hf.1 hf.2.1 hf.2.2)
    (by simpa using hb)
  simpa using this

theorem schedule_loads_sta (P : Params) (rob_it : Nat) (l : List Nat) :
    ∀ (s s' : O3_CPU) (n a n' a' : Nat),
      schedule_loads P rob_it l s n a = .ok (s', n', a') →
      s'.STA = s.STA ∧ s'.STA_head = s.STA_head ∧ s'.STA_tail = s.STA_tail := by
  induction l with
  | nil =>
    intro s s' n a n' a' h
    simp only [schedule_loads, Outcome.ok.injEq, Prod.mk.injEq] at h
    obtain ⟨rfl, rfl, rfl⟩ := h
    exact ⟨rfl, rfl, rfl⟩
  | cons i rest ih =>
    intro s s' n a n' a' h
    unfold schedule_loads at h
    cases hr : schedule_load P rob_it i s n a with
    | fault e => rw [hr] at h; simp at h
    | ok r =>
      obtain ⟨s1, n1, a1⟩ := r
      rw [hr] at h
      simp only at h
      obtain ⟨q1, q2, q3⟩ := ih s1 s' n1 a1 n' a' h
      have hstep : s1.STA = s.STA ∧ s1.STA_head = s.STA_head ∧ s1.STA_tail = s.STA_tail := by
        unfold schedule_load at hr
        cases hx : rob_find s.ROB.entries rob_it with
        | none => rw [hx] at hr; simp at hr
        | some x =>
          rw [hx] at hr
          simp only at hr
          split_ifs at hr with hm ha hv
          · simp only [Outcome.ok.injEq, Prod.mk.injEq] at hr
            obtain ⟨rfl, rfl, rfl⟩ := hr
            exact ⟨rfl, rfl, rfl⟩
          · cases hadd : add_load_queue P s rob_it i with
            | fault e => rw [hadd] at hr; simp at hr
            | ok s2 =>
              rw [hadd] at hr
              simp only [Outcome.ok.injEq, Prod.mk.injEq] at hr
              obtain ⟨rfl, rfl, rfl⟩ := hr
              obtain ⟨hfr, -, -⟩ := add_load_queue_frame P s s2 rob_it i hadd
              rw [hfr]
              exact ⟨rfl, rfl, rfl⟩
          · simp only [Outcome.ok.injEq, Prod.mk.injEq] at hr
            obtain ⟨rfl, rfl, rfl⟩ := hr
            exact ⟨rfl, rfl, rfl⟩
          · simp only [Outcome.ok.injEq, Prod.mk.injEq] at hr
            obtain ⟨rfl, rfl, rfl⟩ := hr
            exact ⟨rfl, rfl, rfl⟩
      exact ⟨q1.trans hstep.1, q2.trans hstep.2.1, q3.trans hstep.2.2⟩

theorem schedule_stores_sta_run (P : Params) (rob_it : Nat) (hid : rob_it ≠ UINT64_MAX)
    (l : List Nat) :
    ∀ (s s' : O3_CPU) (n a n' a' : Nat) (s0 : O3_CPU) (w c : List Nat),
      schedule_stores P rob_it l s n a = .ok (s', n', a') → StaRun P s0 s w c →
      ∃ c', (∀ id ∈ c', id = rob_it) ∧ StaRun P s0 s' w (c ++ c') := by
  induction l with
  | nil =>
    intro s s' n a n' a' s0 w c h hrun
    simp only [schedule_stores, Outcome.ok.injEq, Prod.mk.injEq] at h
    obtain ⟨rfl, rfl, rfl⟩ := h
    exact ⟨[], ⟨fun _ hm => absurd hm (List.not_mem_nil _), by simpa using hrun⟩⟩
  | cons i rest ih =>
    intro s s' n a n' a' s0 w c h hrun
    unfold schedule_stores at h
    cases hr : schedule_store P rob_it i s n a with
    | fault e => rw [hr] at h; simp at h
    | ok r =>
      obtain ⟨s1, n1, a1⟩ := r
      rw [hr] at h
      simp only at h
      obtain ⟨x, hx, hc⟩ := schedule_store_cases P s s1 rob_it i n a n1 a1 hr
      have hstep : ∃ c1, (∀ id ∈ c1, id = rob_it) ∧ StaRun P s0 s1 w (c ++ c1) := by
        rcases hc with ⟨-, rfl, -, -⟩ | ⟨-, -, rfl, -, -⟩ | ⟨-, -, -, hsta, hadd, -, -⟩ |
          ⟨-, -, -, rfl, -, -⟩
        · exact ⟨[], ⟨fun _ hm => absurd hm (List.not_mem_nil _), by simpa using hrun⟩⟩
        · exact ⟨[], ⟨fun _ hm => absurd hm (List.not_mem_nil _), by simpa using hrun⟩⟩
        · rw [rob_find_id _ _ _ hx] at hsta
          have hb := sta_run_bound P s0 s w c hrun
          have := StaRun.step s s1 w c [] [rob_it] hrun
            (StaTick.consume s s1 rob_it i hadd hsta hid)
            (by simp only [List.append_nil, List.length_append, List.length_singleton]; omega)
          exact ⟨[rob_it], ⟨fun id hm => by simpa using hm, by simpa using this⟩⟩
        · exact ⟨[], ⟨fun _ hm => absurd hm (List.not_mem_nil _), by simpa using hrun⟩⟩
      obtain ⟨c1, hc1, hrun1⟩ := hstep
      obtain ⟨c2, hc2, hrun2⟩ := ih s1 s' n1 a1 n' a' s0 w (c ++ c1) h hrun1
      refine ⟨c1 ++ c2, ⟨?_, by rw [← List.append_assoc]; exact hrun2⟩⟩
      intro id hm
      rcases List.mem_append.mp hm with h1 | h2
      · exact hc1 id h1
      · exact hc2 id h2

/-- A call of `do_memory_scheduling` for an instruction id other than `UINT64_MAX`
continues a run of the ring: the ids it consumes at `STA_head` are ids of its own
instruction. -/
theorem do_memory_scheduling_sta_run (P : Params) (s0 s s' : O3_CPU) (rob_it : Nat)
    (w c : List Nat) (hrun : StaRun P s0 s w c)
    (h : do_memory_scheduling P s rob_it = .ok s') (hid : rob_it ≠ UINT64_MAX) :
    ∃ c', (∀ id ∈ c', id = rob_it) ∧ StaRun P s0 s' w (c ++ c') := by
  unfold do_memory_scheduling at h
  cases hl : schedule_loads P rob_it (List.range P.NUM_INSTR_SOURCES) s 0 0 with
  | fault e => rw [hl] at h; simp at h
  | ok r =>
    obtain ⟨s1, n1, a1⟩ := r
    rw [hl] at h
    simp only at h
    cases hs : schedule_stores P rob_it (List.range P.MAX_INSTR_DESTINATIONS) s1 n1 a1 with
    | fault e => rw [hs] at h; simp at h
    | ok r2 =>
      obtain ⟨s2, n2, a2⟩ := r2
      rw [hs] at h
      simp only at h
      have hrun1 := sta_run_other P s0 s s1 w c hrun (schedule_loads_sta P rob_it _ _ _ _ _ _ _ hl)
      obtain ⟨c', hc', hrun2⟩ :=
        schedule_stores_sta_run P rob_it hid _ s1 s2 n1 a1 n2 a2 s0 w c hs hrun1
      refine ⟨c', ⟨hc', ?_⟩⟩
      unfold schedule_finish at h
      split_ifs at h
      · simp only [Outcome.ok.injEq] at h
        subst h
        exact sta_run_other P s0 s2 _ w (c ++ c') hrun2 ⟨rfl, rfl, rfl⟩
      · simp only [Outcome.ok.injEq] at h
        subst h
        exact hrun2

/-! ## Lemmas: forwarding -/

theorem executed_fields_refl (c : Nat) (e : ooo_model_instr) : executed_fields c e e :=
  ⟨load_fields_refl e, Or.inl ⟨rfl, rfl⟩⟩

theorem executed_fields_trans (c : Nat) (a b d : ooo_model_instr)
    (h1 : executed_fields c a b) (h2 : executed_fields c b d) : executed_fields c a d := by
  refine ⟨load_fields_trans a b d h1.1 h2.1, ?_⟩
  rcases h2.2 with ⟨n2, e2⟩ | e2
  · rcases h1.2 with ⟨n1, e1⟩ | e1
    · exact Or.inl ⟨n2.trans n1, e2.trans e1⟩
    · exact Or.inr (e2.trans e1)
  · exact Or.inr e2

theorem executed_fields_id (c : Nat) (e e' : ooo_model_instr) (h : executed_fields c e e') :
    e'.instr_id = e.instr_id := (load_fields_store e e' h.1).1

theorem forwarded_instr_executed (P : Params) (c : Nat) (e : ooo_model_instr) :
    executed_fields c e (forwarded_instr P c e) := by
  refine ⟨forwarded_instr_fields P c e, Or.inr ?_⟩
  unfold forwarded_instr
  simp only

theorem forwarded_instr_id (P : Params) (c : Nat) (e : ooo_model_instr) :
    (forwarded_instr P c e).instr_id = e.instr_id :=
  (load_fields_store _ _ (forwarded_instr_fields P c e)).1

theorem rob_find_update_other (s : O3_CPU) (j id : Nat) (f : ooo_model_instr → ooo_model_instr)
    (hf : ∀ e, (f e).instr_id = e.instr_id) (hne : id ≠ j) :
    rob_find (update_rob s j f).ROB.entries id = rob_find s.ROB.entries id := by
  simp only [update_rob]
  rw [rob_find_modify _ _ _ _ hf]
  cases hx : rob_find s.ROB.entries id with
  | none => rfl
  | some x =>
    simp only [Option.map_some', Option.some.injEq]
    rw [if_neg]
    rw [rob_find_id _ _ _ hx]
    exact hne

theorem rob_find_update_self (s : O3_CPU) (id : Nat) (f : ooo_model_instr → ooo_model_instr)
    (hf : ∀ e, (f e).instr_id = e.instr_id) :
    rob_find (update_rob s id f).ROB.entries id = (rob_find s.ROB.entries id).map f := by
  simp only [update_rob]
  rw [rob_find_modify _ _ _ _ hf]
  cases hx : rob_find s.ROB.entries id with
  | none => rfl
  | some x =>
    simp only [Option.map_some', Option.some.injEq]
    rw [if_pos (rob_find_id _ _ _ hx)]

theorem mem_set_empty (q : List LSQ_ENTRY) (i : Nat) (e : LSQ_ENTRY) (h : e ∈ q.set i {}) :
    e ∈ q ∨ e = {} := by
  rcases List.mem_or_eq_of_mem_set h with h1 | h1
  · exact Or.inl h1
  · exact Or.inr h1

/-- One forwarding, as `execute_store` makes it: the entries of the load queue that do
not name the store as producer, and the records that own only such entries, stay as they
are. -/
theorem do_sq_forward_to_lq_others (P : Params) (s s' : O3_CPU) (sq_it lq_it : Nat)
    (sq_entry lq_entry : LSQ_ENTRY) (h : do_sq_forward_to_lq P s sq_it lq_it = .ok s')
    (hsq : s.SQ.get? sq_it = some sq_entry) (hlq : s.LQ.get? lq_it = some lq_entry)
    (hprod : lq_entry.producer_id = sq_entry.instr_id) :
    s'.SQ = s.SQ ∧ s'.RTL0 = s.RTL0 ∧ s'.RTL1 = s.RTL1 ∧
    s'.current_core_cycle = s.current_core_cycle ∧
    rob_mapped (executed_fields s.current_core_cycle) s s' ∧
    (∀ p e, s.LQ.get? p = some e → e.producer_id ≠ sq_entry.instr_id → s'.LQ.get? p = some e) ∧
    (∀ id, no_entry_waits s.LQ id sq_entry.instr_id →
      no_entry_waits s'.LQ id sq_entry.instr_id ∧
      rob_find s'.ROB.entries id = rob_find s.ROB.entries id) := by
  obtain ⟨hfr, -, hLQ, sq2, lq2, id2, x2, h1, h2, h3, h4, hROB⟩ :=
    do_sq_forward_to_lq_frame P s s' sq_it lq_it h
  rw [hlq] at h2
  simp only [Option.some.injEq] at h2
  subst h2
  refine ⟨by rw [hfr], by rw [hfr], by rw [hfr], by rw [hfr], ?_, ?_, ?_⟩
  · refine ⟨fun e => if e.instr_id = id2 then forwarded_instr P s.current_core_cycle e else e,
      ?_, by rw [hROB]; rfl⟩
    intro e
    simp only
    split_ifs
    · exact forwarded_instr_executed P _ e
    · exact executed_fields_refl _ e
  · intro p e hp hne
    rw [hLQ]
    have hpl : p ≠ lq_it := by
      rintro rfl
      rw [hlq] at hp
      simp only [Option.some.injEq] at hp
      subst hp
      exact hne hprod
    rw [get?_set_ne _ _ _ _ hpl]
    exact hp
  · intro id hw
    constructor
    · intro e he hown
      rw [hLQ] at he
      rcases mem_set_empty _ _ _ he with h5 | h5
      · exact hw e h5 hown
      · subst h5
        cases hown
    · have hmem : lq_entry ∈ s.LQ := List.get?_mem hlq
      have hne : id ≠ id2 := by
        rintro rfl
        exact hw lq_entry hmem h3 hprod
      rw [hROB]
      exact rob_find_update_other s id2 id _ (forwarded_instr_id P _) hne

/-- The steps of the loops of `execute_store`. -/
theorem execute_store_forward_cases (P : Params) (s s' : O3_CPU) (sq_it d j : Nat)
    (h : execute_store_forward P sq_it d j s = .ok s') :
    s' = s ∨ ∃ sq_entry lq_it lq_entry, s.SQ.get? sq_it = some sq_entry ∧
      s.LQ.get? lq_it = some lq_entry ∧ lq_entry.producer_id = sq_entry.instr_id ∧
      do_sq_forward_to_lq P s sq_it lq_it = .ok s' := by
  unfold execute_store_forward at h
  cases hsq : s.SQ.get? sq_it with
  | none => rw [hsq] at h; simp at h
  | some sq_entry =>
    cases hd : rob_find s.ROB.entries d with
    | none => rw [hsq, hd] at h; simp at h
    | some dep =>
      rw [hsq, hd] at h
      simp only at h
      split_ifs at h with h1 h2
      · cases hlq : dep.lq_index.getD j none with
        | none => rw [hlq] at h; simp at h
        | some lq_it =>
          rw [hlq] at h
          simp only at h
          cases he : s.LQ.get? lq_it with
          | none => rw [he] at h; simp at h
          | some lq_entry =>
            rw [he] at h
            simp only at h
            split_ifs at h with h3
            · exact Or.inr ⟨sq_entry, lq_it, lq_entry, rfl, he, h3, h⟩
            · simp only [Outcome.ok.injEq] at h
              exact Or.inl h.symm
      · simp only [Outcome.ok.injEq] at h
        exact Or.inl h.symm
      · simp only [Outcome.ok.injEq] at h
        exact Or.inl h.symm

theorem execute_store_forwards_others (P : Params) (sq_it : Nat) (l : List (Nat × Nat)) :
    ∀ (s s' : O3_CPU) (sq_entry : LSQ_ENTRY),
      execute_store_forwards P sq_it l s = .ok s' → s.SQ.get? sq_it = some sq_entry →
      s'.SQ = s.SQ ∧ s'.RTL0 = s.RTL0 ∧ s'.RTL1 = s.RTL1 ∧
      s'.current_core_cycle = s.current_core_cycle ∧
      rob_mapped (executed_fields s.current_core_cycle) s s' ∧
      (∀ p e, s.LQ.get? p = some e → e.producer_id ≠ sq_entry.instr_id →
        s'.LQ.get? p = some e) ∧
      (∀ id, no_entry_waits s.LQ id sq_entry.instr_id →
        no_entry_waits s'.LQ id sq_entry.instr_id ∧
        rob_find s'.ROB.entries id = rob_find s.ROB.entries id) := by
  induction l with
  | nil =>
    intro s s' sq_entry h _
    simp only [execute_store_forwards, Outcome.ok.injEq] at h
    subst h
    exact ⟨rfl, rfl, rfl, rfl, rob_mapped_refl _ (executed_fields_refl _) _,
      fun _ _ hp _ => hp, fun _ hw => ⟨hw, rfl⟩⟩
  | cons dj rest ih =>
    intro s s' sq_entry h hsq
    obtain ⟨d, j⟩ := dj
    unfold execute_store_forwards at h
    cases hstep : execute_store_forward P sq_it d j s with
    | fault e => rw [hstep] at h; simp at h
    | ok s1 =>
      rw [hstep] at h
      simp only at h
      have hone : s1.SQ = s.SQ ∧ s1.RTL0 = s.RTL0 ∧ s1.RTL1 = s.RTL1 ∧
          s1.current_core_cycle = s.current_core_cycle ∧
          rob_mapped (executed_fields s.current_core_cycle) s s1 ∧
          (∀ p e, s.LQ.get? p = some e → e.producer_id ≠ sq_entry.instr_id →
            s1.LQ.get? p = some e) ∧
          (∀ id, no_entry_waits s.LQ id sq_entry.instr_id →
            no_entry_waits s1.LQ id sq_entry.instr_id ∧
            rob_find s1.ROB.entries id = rob_find s.ROB.entries id) := by
        rcases execute_store_forward_cases P s s1 sq_it d j hstep with rfl | hc
        · exact ⟨rfl, rfl, rfl, rfl, rob_mapped_refl _ (executed_fields_refl _) _,
            fun _ _ hp _ => hp, fun _ hw => ⟨hw, rfl⟩⟩
        · obtain ⟨sq2, lq_it, lq_entry, h1, h2, h3, h4⟩ := hc
          rw [hsq] at h1
          simp only [Option.some.injEq] at h1
          subst h1
          exact do_sq_forward_to_lq_others P s s1 sq_it lq_it sq_entry lq_entry h4 hsq h2 h3
      obtain ⟨a1, a2, a3, a4, a5, a6, a7⟩ := hone
      have hsq1 : s1.SQ.get? sq_it = some sq_entry := by rw [a1]; exact hsq
      obtain ⟨b1, b2, b3, b4, b5, b6, b7⟩ := ih s1 s' sq_entry h hsq1
      refine ⟨b1.trans a1, b2.trans a2, b3.trans a3, b4.trans a4, ?_, ?_, ?_⟩
      · rw [a4] at b5
        exact rob_mapped_trans _ (executed_fields_trans _) _ _ _ a5 b5
      · intro p e hp hne
        exact b6 p e (a6 p e hp hne) hne
      · intro id hw
        obtain ⟨w1, r1⟩ := a7 id hw
        obtain ⟨w2, r2⟩ := b7 id w1
        exact ⟨w2, r2.trans r1⟩

theorem store_done_executed (c : Nat) (e : ooo_model_instr) :
    executed_fields c e (store_done c e) := ⟨rfl, Or.inr rfl⟩

theorem execute_store_complete_shape (s s1 : O3_CPU) (sq_it : Nat) (x1 : ooo_model_instr)
    (h : execute_store_complete s sq_it = .ok (s1, x1)) :
    ∃ sq_entry id x, s.SQ.get? sq_it = some sq_entry ∧ sq_entry.rob_index = some id ∧
      rob_find s.ROB.entries id = some x ∧ x1 = store_done s.current_core_cycle x ∧
      s1 = { update_rob s id (store_done s.current_core_cycle) with
             SQ := s.SQ.set sq_it (executed_entry s.current_core_cycle sq_entry)
             inflight_mem_executions := s1.inflight_mem_executions } := by
  unfold execute_store_complete at h
  cases hsq : s.SQ.get? sq_it with
  | none => rw [hsq] at h; simp at h
  | some sq_entry =>
    rw [hsq] at h
    simp only at h
    cases hid : sq_entry.rob_index with
    | none => rw [hid] at h; simp at h
    | some id =>
      rw [hid] at h
      simp only at h
      cases hx : rob_find s.ROB.entries id with
      | none => rw [hx] at h; simp at h
      | some x =>
        rw [hx] at h
        simp only at h
        refine ⟨sq_entry, id, x, rfl, hid, hx, ?_⟩
        split_ifs at h with h1 h2
        · simp only [Outcome.ok.injEq, Prod.mk.injEq] at h
          obtain ⟨rfl, rfl⟩ := h
          exact ⟨rfl, rfl⟩
        · simp only [Outcome.ok.injEq, Prod.mk.injEq] at h
          obtain ⟨rfl, rfl⟩ := h
          exact ⟨rfl, rfl⟩

theorem get?_set_eq_of_lt {α : Type} (l : List α) (i : Nat) (a x : α)
    (h : l.get? i = some x) : (l.set i a).get? i = some a := by
  have hi : i < l.length := by
    rw [List.get?_eq_getElem?] at h
    exact (List.getElem?_eq_some_iff.mp h).1
  rw [List.get?_eq_getElem?, List.getElem?_set, if_pos rfl, if_pos hi]

/-- What `execute_store` leaves alone: the queues `RTL0` and `RTL1`, the entries of the
load queue that do not name the store as producer, and the records, other than the one
of the store, that own only such entries. Every record it writes ends with the current
cycle as its event cycle, the record of the store among them. -/
theorem execute_store_frame (P : Params) (s s' : O3_CPU) (sq_it : Nat)
    (h : execute_store P s sq_it = .ok s') :
    ∃ sq_entry id x, s.SQ.get? sq_it = some sq_entry ∧ sq_entry.rob_index = some id ∧
      rob_find s.ROB.entries id = some x ∧
      s'.RTL0 = s.RTL0 ∧ s'.RTL1 = s.RTL1 ∧ s'.current_core_cycle = s.current_core_cycle ∧
      rob_mapped (executed_fields s.current_core_cycle) s s' ∧
      (∀ p e, s.LQ.get? p = some e → e.producer_id ≠ sq_entry.instr_id →
        s'.LQ.get? p = some e) ∧
      (∀ id', id' ≠ id → no_entry_waits s.LQ id' sq_entry.instr_id →
        rob_find s'.ROB.entries id' = rob_find s.ROB.entries id') ∧
      (∃ x', rob_find s'.ROB.entries id = some x' ∧ x'.event_cycle = s.current_core_cycle) := by
  unfold execute_store at h
  cases hc : execute_store_complete s sq_it with
  | fault e => rw [hc] at h; simp at h
  | ok r =>
    obtain ⟨s1, x1⟩ := r
    rw [hc] at h
    simp only at h
    obtain ⟨sq_entry, id, x, hsq, hid, hx, hx1, hs1⟩ := execute_store_complete_shape s s1 sq_it x1 hc
    have hsq1 : s1.SQ.get? sq_it = some (executed_entry s.current_core_cycle sq_entry) := by
      rw [hs1]; exact get?_set_eq_of_lt _ _ _ _ hsq
    have hcyc : s1.current_core_cycle = s.current_core_cycle := by rw [hs1]; rfl
    have hLQ1 : s1.LQ = s.LQ := by rw [hs1]; rfl
    have hmap1 : rob_mapped (executed_fields s.current_core_cycle) s s1 := by
      have := rob_mapped_update (executed_fields s.current_core_cycle) (executed_fields_refl _) s id
        (store_done s.current_core_cycle) (store_done_executed _)
      obtain ⟨g, hg, e⟩ := this
      exact ⟨g, hg, by rw [hs1]; exact e⟩
    obtain ⟨b1, b2, b3, b4, b5, b6, b7⟩ :=
      execute_store_forwards_others P sq_it _ s1 s' _ h hsq1
    have hid1 : (executed_entry s.current_core_cycle sq_entry).instr_id = sq_entry.instr_id := rfl
    rw [hid1] at b6 b7
    rw [hcyc] at b5
    have hmap := rob_mapped_trans _ (executed_fields_trans _) _ _ _ hmap1 b5
    refine ⟨sq_entry, id, x, hsq, hid, hx, ?_, ?_, b4.trans hcyc, hmap, ?_, ?_, ?_⟩
    · rw [b2, hs1]; rfl
    · rw [b3, hs1]; rfl
    · intro p e hp hne
      exact b6 p e (by rw [hLQ1]; exact hp) hne
    · intro id' hne hw
      rw [(b7 id' (by rw [hLQ1]; exact hw)).2, hs1]
      exact rob_find_update_other s id id' _ (fun e => rfl) hne
    · obtain ⟨x', hx', hF⟩ :=
        (rob_find_mapped _ (executed_fields_id _) s1 s' b5 id).1 (store_done s.current_core_cycle x)
          (by rw [hs1]
              have := rob_find_update_self s id (store_done s.current_core_cycle) (fun e => rfl)
              rw [hx] at this
              exact this)
      refine ⟨x', hx', ?_⟩
      rcases hF.2 with ⟨-, e2⟩ | e2
      · rw [e2]; rfl
      · exact e2

/-- The result of `add_load_queue` when no older record writes the address of the load. -/
theorem add_load_queue_no_producer (P : Params) (s : O3_CPU) (rob_it i lq_it : Nat)
    (x : ooo_model_instr) (hq : find_if_not_valid s.LQ = some lq_it)
    (hx : rob_find s.ROB.entries rob_it = some x)
    (hnone : ∀ e ∈ older_records s.ROB.entries rob_it,
      x.source_memory.getD i 0 ∉ e.destination_memory) :
    add_load_queue P s rob_it i = .ok
      { update_rob s rob_it (mark_load_added i lq_it) with
        LQ := s.LQ.set lq_it
          (load_queue_entry P s.current_core_cycle (s.LQ.getD lq_it {}) x rob_it i)
        RTL0 := s.RTL0 ++ [lq_it] } := by
  unfold add_load_queue
  rw [hq]
  simp only [hx]
  have hfind : (older_records s.ROB.entries rob_it).find?
      (instr_mem_will_produce
        (load_queue_entry P s.current_core_cycle (s.LQ.getD lq_it {}) x rob_it i).virtual_address)
      = none := by
    rw [List.find?_eq_none]
    intro e he
    unfold instr_mem_will_produce load_queue_entry
    simp only [List.contains_eq_any_beq, List.any_eq_true, beq_iff_eq, not_exists, not_and]
    intro y hy hyx
    subst hyx
    exact hnone e he hy
  rw [hfind]
  rfl

/-- C16: when no ROB record older than the load has the virtual address of the load among
its destination memory addresses, `add_load_queue` returns, fills the first slot that is
not valid, leaves `producer_id` as the slot had it (`UINT64_MAX`, unset, in a slot that
was reset to empty), pushes the slot onto `RTL0`, and forwards nothing: the record of the
load gets only its marks `lq_index` and `source_added` (so `num_mem_ops` is as before),
no other record changes and the counter `inflight_mem_executions` stays. A later
`execute_store` of a store whose id is not the producer of the entry, the store being
another instruction and no entry of the load naming it as producer (a younger store is
never the producer of an older load), leaves the entry in the load queue and the whole
record of the load, `num_mem_ops` included, as they were. -/
theorem add_load_queue_without_producer (P : Params) (s : O3_CPU) (rob_it i lq_it : Nat)
    (x : ooo_model_instr) (hq : find_if_not_valid s.LQ = some lq_it)
    (hx : rob_find s.ROB.entries rob_it = some x)
    (hnone : ∀ e ∈ older_records s.ROB.entries rob_it,
      x.source_memory.getD i 0 ∉ e.destination_memory) :
    (∃ s1, add_load_queue P s rob_it i = .ok s1 ∧
      s1.LQ = s.LQ.set lq_it
        (load_queue_entry P s.current_core_cycle (s.LQ.getD lq_it {}) x rob_it i) ∧
      (load_queue_entry P s.current_core_cycle (s.LQ.getD lq_it {}) x rob_it i).producer_id
        = (s.LQ.getD lq_it {}).producer_id ∧
      (s.LQ.getD lq_it {} = {} →
        (load_queue_entry P s.current_core_cycle (s.LQ.getD lq_it {}) x rob_it i).producer_id
          = UINT64_MAX) ∧
      s1.RTL0 = s.RTL0 ++ [lq_it] ∧
      rob_find s1.ROB.entries rob_it = some (mark_load_added i lq_it x) ∧
      (mark_load_added i lq_it x).num_mem_ops = x.num_mem_ops ∧
      (∀ id, id ≠ rob_it → rob_find s1.ROB.entries id = rob_find s.ROB.entries id) ∧
      s1.inflight_mem_executions = s.inflight_mem_executions ∧ s1.SQ = s.SQ) ∧
    (∀ (t t' : O3_CPU) (sq_it p : Nat) (sq_entry e : LSQ_ENTRY) (y : ooo_model_instr),
      t.SQ.get? sq_it = some sq_entry → execute_store P t sq_it = .ok t' →
      t.LQ.get? p = some e → e.producer_id ≠ sq_entry.instr_id →
      rob_find t.ROB.entries rob_it = some y → sq_entry.rob_index ≠ some rob_it →
      no_entry_waits t.LQ rob_it sq_entry.instr_id →
      t'.LQ.get? p = some e ∧ rob_find t'.ROB.entries rob_it = some y) := by
  constructor
  · refine ⟨_, add_load_queue_no_producer P s rob_it i lq_it x hq hx hnone, rfl, rfl, ?_, rfl,
      ?_, rfl, ?_, rfl, rfl⟩
    · intro hempty
      rw [hempty]
      rfl
    · have := rob_find_update_self s rob_it (mark_load_added i lq_it) (fun e => rfl)
      rw [hx] at this
      exact this
    · intro id hne
      exact rob_find_update_other s rob_it id _ (fun e => rfl) hne
  · intro t t' sq_it p sq_entry e y hsq hex hp hprod hy hown hwait
    obtain ⟨sq2, id, x2, h1, h2, h3, -, -, -, -, h8, h9, -⟩ := execute_store_frame P t t' sq_it hex
    rw [hsq] at h1
    simp only [Option.some.injEq] at h1
    subst h1
    refine ⟨h8 p e hp hprod, ?_⟩
    rw [h9 rob_it (fun hc => hown (by rw [h2, hc])) hwait]
    exact hy

theorem add_load_queue_without_producer_witness :
    (find_if_not_valid load_then_store.LQ = some 0 ∧
     rob_find load_then_store.ROB.entries 0 = some lts_load_record ∧
     (∀ e ∈ older_records load_then_store.ROB.entries 0,
        lts_load_record.source_memory.getD 0 0 ∉ e.destination_memory)) ∧
    (lts_store_translated.SQ.get? 0 = some lts_store_entry ∧
     (execute_store sample_params lts_store_translated 0).returns = true ∧
     lts_store_translated.LQ.get? 0 = some lts_load_entry ∧
     lts_load_entry.producer_id ≠ lts_store_entry.instr_id ∧
     rob_find lts_store_translated.ROB.entries 0 = some lts_load_waiting ∧
     lts_store_entry.rob_index ≠ some 0 ∧
     no_entry_waits lts_store_translated.LQ 0 lts_store_entry.instr_id) ∧
    (∃ s1, add_load_queue sample_params load_then_store 0 0 = .ok s1 ∧
      s1.RTL0 = load_then_store.RTL0 ++ [0] ∧
      rob_find s1.ROB.entries 0 = some (mark_load_added 0 0 lts_load_record) ∧
      (mark_load_added 0 0 lts_load_record).num_mem_ops = lts_load_record.num_mem_ops) ∧
    (lts_store_executed.LQ.get? 0 = some lts_load_entry ∧
      rob_find lts_store_executed.ROB.entries 0 = some lts_load_waiting) :=
  have h := add_load_queue_without_producer sample_params load_then_store 0 0 0 lts_load_record
    (by decide) (by decide) (by decide)
  have hw : no_entry_waits lts_store_translated.LQ 0 lts_store_entry.instr_id := by
    unfold no_entry_waits; decide
  ⟨⟨by decide, by decide, by decide⟩,
   ⟨by decide, by decide, by decide, by decide, by decide, by decide, hw⟩,
   (let ⟨s1, a1, _, _, _, a5, a6, a7, _⟩ := h.1; ⟨s1, a1, a5, a6, a7⟩),
   h.2 lts_store_translated lts_store_executed 0 0 lts_store_entry lts_load_entry lts_load_waiting
     (by decide) (by decide) (by decide) (by decide) (by decide) (by decide) hw⟩

theorem do_sq_forward_to_lq_length (P : Params) (s s' : O3_CPU) (sq_it lq_it : Nat)
    (h : do_sq_forward_to_lq P s sq_it lq_it = .ok s') : s'.LQ.length = s.LQ.length := by
  obtain ⟨-, -, hLQ, -⟩ := do_sq_forward_to_lq_frame P s s' sq_it lq_it h
  rw [hLQ, List.length_set]

theorem execute_store_forwards_length (P : Params) (sq_it : Nat) (l : List (Nat × Nat)) :
    ∀ (s s' : O3_CPU), execute_store_forwards P sq_it l s = .ok s' →
      s'.LQ.length = s.LQ.length := by
  induction l with
  | nil =>
    intro s s' h
    simp only [execute_store_forwards, Outcome.ok.injEq] at h
    subst h; rfl
  | cons dj rest ih =>
    intro s s' h
    obtain ⟨d, j⟩ := dj
    unfold execute_store_forwards at h
    cases hstep : execute_store_forward P sq_it d j s with
    | fault e => rw [hstep] at h; simp at h
    | ok s1 =>
      rw [hstep] at h
      simp only at h
      rw [ih s1 s' h]
      rcases execute_store_forward_cases P s s1 sq_it d j hstep with rfl | ⟨_, lq_it, _, _, _, _, h4⟩
      · rfl
      · exact do_sq_forward_to_lq_length P s s1 sq_it lq_it h4

theorem execute_store_length (P : Params) (s s' : O3_CPU) (sq_it : Nat)
    (h : execute_store P s sq_it = .ok s') : s'.LQ.length = s.LQ.length := by
  unfold execute_store at h
  cases hc : execute_store_complete s sq_it with
  | fault e => rw [hc] at h; simp at h
  | ok r =>
    obtain ⟨s1, x1⟩ := r
    rw [hc] at h
    simp only at h
    obtain ⟨_, _, _, _, _, _, _, hs1⟩ := execute_store_complete_shape s s1 sq_it x1 hc
    rw [execute_store_forwards_length P sq_it _ s1 s' h, hs1]
    rfl

/-- With no entry of the load queue naming the store as producer, `execute_store`
forwards nothing. -/
theorem execute_store_forwards_nothing (P : Params) (t t' : O3_CPU) (sq_it : Nat)
    (sq_entry : LSQ_ENTRY) (hsq : t.SQ.get? sq_it = some sq_entry)
    (hex : execute_store P t sq_it = .ok t')
    (hfree : ∀ e ∈ t.LQ, e.producer_id ≠ sq_entry.instr_id) :
    t'.LQ = t.LQ ∧
    ∀ id, sq_entry.rob_index ≠ some id →
      rob_find t'.ROB.entries id = rob_find t.ROB.entries id := by
  obtain ⟨sq2, id, x2, h1, h2, h3, -, -, -, -, h8, h9, -⟩ := execute_store_frame P t t' sq_it hex
  rw [hsq] at h1
  simp only [Option.some.injEq] at h1
  subst h1
  constructor
  · apply List.ext_get?
    intro p
    cases hp : t.LQ.get? p with
    | none =>
      rw [List.get?_eq_none] at hp ⊢
      rw [execute_store_length P t t' sq_it hex]
      exact hp
    | some e => exact h8 p e hp (hfree e (List.get?_mem hp))
  · intro id' hne
    exact h9 id' (fun hc => hne (by rw [h2, hc])) (fun e he _ => hfree e he)

/-- C17 (Scenario A as the code runs it): a load and then a store to the same address in
a ROB of capacity 4. Both calls of `do_memory_scheduling` and the `execute_store` of the
store return; the load is admitted first, without a producer, and goes to `RTL0`; the
store is admitted to the store queue; `execute_store` brings `num_mem_ops` of the store
to zero and forwards nothing: the entry of the load in the load queue is still valid,
not cleared, and `num_mem_ops` of the load is still 1. -/
theorem scenario_A_store_does_not_forward :
    load_then_store.ROB.size = 4 ∧ ids load_then_store.ROB.entries = [0, 1] ∧
    lts_load_record.source_memory = [0x7000] ∧ lts_store_record.destination_memory = [0x7000] ∧
    do_memory_scheduling sample_params load_then_store 0 = .ok lts_load_admitted ∧
    lts_load_admitted.RTL0 = [0] ∧ lts_load_entry.producer_id = UINT64_MAX ∧
    do_memory_scheduling sample_params lts_load_admitted 1 = .ok lts_store_admitted ∧
    lts_store_admitted.RTS0 = [0] ∧
    execute_store sample_params lts_store_translated 0 = .ok lts_store_executed ∧
    lts_store_executed.LQ.get? 0 = some lts_load_entry ∧ is_valid lts_load_entry = true ∧
    lts_load_entry.instr_id = 0 ∧
    (lts_store_executed.ROB.entries.map fun e => (e.instr_id, e.num_mem_ops))
      = [(0, 1), (1, 0)] := by
  decide

/-- C17, the statement that holds: with the load at the head of the ROB (nothing is
older, as in Scenario A) and a slot of the load queue that is not valid,
`add_load_queue` returns, leaves `producer_id` as the slot had it, pushes the slot onto
`RTL0` and leaves `num_mem_ops` of the load alone; and when no entry of the load queue
names the store as its producer, `execute_store` of the store leaves the whole load queue
and every record but the one of the store as they were, so nothing is forwarded to the
load. -/
theorem scenario_A_load_is_not_forwarded (P : Params) (s : O3_CPU) (x : ooo_model_instr)
    (rest : List ooo_model_instr) (i lq_it : Nat) (hrob : s.ROB.entries = x :: rest)
    (hq : find_if_not_valid s.LQ = some lq_it) :
    (∃ s1, add_load_queue P s x.instr_id i = .ok s1 ∧ s1.RTL0 = s.RTL0 ++ [lq_it] ∧
      (s1.LQ.getD lq_it {}).producer_id = (s.LQ.getD lq_it {}).producer_id ∧
      (s1.LQ.getD lq_it {}).instr_id = x.instr_id ∧
      (s1.LQ.getD lq_it {}).virtual_address = x.source_memory.getD i 0 ∧
      ∃ x1, rob_find s1.ROB.entries x.instr_id = some x1 ∧ x1.num_mem_ops = x.num_mem_ops) ∧
    (∀ (t t' : O3_CPU) (sq_it : Nat) (sq_entry : LSQ_ENTRY),
      t.SQ.get? sq_it = some sq_entry → execute_store P t sq_it = .ok t' →
      (∀ e ∈ t.LQ, e.producer_id ≠ sq_entry.instr_id) →
      t'.LQ = t.LQ ∧
      ∀ id, sq_entry.rob_index ≠ some id →
        rob_find t'.ROB.entries id = rob_find t.ROB.entries id) := by
  have hx : rob_find s.ROB.entries x.instr_id = some x := by
    unfold rob_find
    rw [hrob, List.find?_cons]
    simp
  have hold : older_records s.ROB.entries x.instr_id = [] := by
    unfold older_records
    rw [hrob]
    simp [List.findIdx_cons]
  have hlt : lq_it < s.LQ.length := (find_if_not_valid_some s.LQ lq_it hq).1
  constructor
  · refine ⟨_, add_load_queue_no_producer P s x.instr_id i lq_it x hq hx ?_, rfl, ?_, ?_, ?_,
      mark_load_added i lq_it x, ?_, rfl⟩
    · intro e he
      rw [hold] at he
      cases he
    · simp only [update_rob]
      rw [List.getD_eq_getElem?_getD, List.getElem?_set, if_pos rfl, if_pos hlt]
      rfl
    · simp only [update_rob]
      rw [List.getD_eq_getElem?_getD, List.getElem?_set, if_pos rfl, if_pos hlt]
      rfl
    · simp only [update_rob]
      rw [List.getD_eq_getElem?_getD, List.getElem?_set, if_pos rfl, if_pos hlt]
      rfl
    · have := rob_find_update_self s x.instr_id (mark_load_added i lq_it) (fun e => rfl)
      rw [hx] at this
      exact this
  · intro t t' sq_it sq_entry hsq hex hfree
    exact execute_store_forwards_nothing P t t' sq_it sq_entry hsq hex hfree

theorem scenario_A_load_is_not_forwarded_witness :
    (load_then_store.ROB.entries = lts_load_record :: load_then_store.ROB.entries.tail ∧
     find_if_not_valid load_then_store.LQ = some 0) ∧
    (lts_store_translated.SQ.get? 0 = some lts_store_entry ∧
     execute_store sample_params lts_store_translated 0 = .ok lts_store_executed ∧
     ∀ e ∈ lts_store_translated.LQ, e.producer_id ≠ lts_store_entry.instr_id) ∧
    (∃ s1, add_load_queue sample_params load_then_store lts_load_record.instr_id 0 = .ok s1 ∧
      s1.RTL0 = load_then_store.RTL0 ++ [0] ∧
      (s1.LQ.getD 0 {}).producer_id = (load_then_store.LQ.getD 0 {}).producer_id ∧
      (s1.LQ.getD 0 {}).instr_id = lts_load_record.instr_id ∧
      (s1.LQ.getD 0 {}).virtual_address = lts_load_record.source_memory.getD 0 0 ∧
      ∃ x1, rob_find s1.ROB.entries lts_load_record.instr_id = some x1 ∧
        x1.num_mem_ops = lts_load_record.num_mem_ops) ∧
    (lts_store_executed.LQ = lts_store_translated.LQ ∧
      ∀ id, lts_store_entry.rob_index ≠ some id →
        rob_find lts_store_executed.ROB.entries id
          = rob_find lts_store_translated.ROB.entries id) :=
  have h := scenario_A_load_is_not_forwarded sample_params load_then_store lts_load_record
    load_then_store.ROB.entries.tail 0 0 (by decide) (by decide)
  ⟨⟨by decide, by decide⟩, ⟨by decide, by decide, by decide⟩, h.1,
   h.2 lts_store_translated lts_store_executed 0 lts_store_entry (by decide) (by decide)
     (by decide)⟩

theorem splice_bits_same_offset (upper lower bits : Nat)
    (h : upper % 2 ^ bits = lower % 2 ^ bits) : splice_bits upper lower bits = upper := by
  unfold splice_bits
  rw [← h]
  exact Nat.div_add_mod' upper (2 ^ bits)

theorem circular_buffer_pop_entries {α : Type} (b b' : circular_buffer α) (x : α)
    (rest : List α) (he : b.entries = x :: rest) (h : b.pop_front = .ok b') :
    b'.entries = rest ∧ b'.size = b.size := by
  unfold circular_buffer.pop_front at h
  rw [he] at h
  simp only [Outcome.ok.injEq] at h
  subst h
  exact ⟨rfl, rfl⟩

theorem room_cons (old size : Nat) (x : ooo_model_instr) (rest : List ooo_model_instr)
    (h0 : old < size) (h : ∀ k, k < rest.length → old + 1 + k < size) :
    ∀ k, k < (x :: rest).length → old + k < size := by
  intro k hk
  cases k with
  | zero => exact h0
  | succ k =>
    have := h k (by simpa using hk)
    omega

theorem promote_to_decode_loop_moves (bw : Nat) :
    ∀ s s' : O3_CPU, promote_to_decode_loop bw s = .ok s' →
      ∃ moved : List ooo_model_instr,
        s.IFETCH_BUFFER.entries = moved ++ s'.IFETCH_BUFFER.entries ∧
        records s'.DECODE_BUFFER = records s.DECODE_BUFFER ++ moved ∧
        moved.length ≤ bw ∧
        (∀ k, k < moved.length → s.DECODE_BUFFER.entries.length + k < s.DECODE_BUFFER.size) ∧
        s'.DECODE_BUFFER.size = s.DECODE_BUFFER.size ∧
        s'.IFETCH_BUFFER.size = s.IFETCH_BUFFER.size ∧
        s'.DISPATCH_BUFFER = s.DISPATCH_BUFFER ∧ s'.ROB = s.ROB := by
  induction bw with
  | zero =>
    intro s s' h
    simp only [promote_to_decode_loop, Outcome.ok.injEq] at h
    subst h
    exact ⟨[], rfl, by simp, le_refl _, by simp, rfl, rfl, rfl, rfl⟩
  | succ bw ih =>
    intro s s' h
    unfold promote_to_decode_loop at h
    cases hI : s.IFETCH_BUFFER.entries with
    | nil =>
      rw [hI] at h
      simp only [Outcome.ok.injEq] at h
      subst h
      exact ⟨[], by simp [hI], by simp, Nat.zero_le _, by simp, rfl, rfl, rfl, rfl⟩
    | cons front rest =>
      rw [hI] at h
      simp only at h
      by_cases hc : s.DECODE_BUFFER.full = false ∧ front.translated = COMPLETED ∧
          front.fetched = COMPLETED
      · rw [if_pos hc] at h
        split at h
        · simp at h
        rename_i dq hpush
        split at h
        · simp at h
        rename_i ib hpop
        have hpush' : s.DECODE_BUFFER.push_back front = .ok dq ∨
            s.DECODE_BUFFER.push_back_ready front = .ok dq := by
          split_ifs at hpush
          · exact Or.inr hpush
          · exact Or.inl hpush
        obtain ⟨q1, q2, -, q4⟩ := delay_queue_push_entries _ _ _ hpush'
        obtain ⟨p1, p2⟩ := circular_buffer_pop_entries _ _ _ _ hI hpop
        obtain ⟨moved, m1, m2, m3, m4, m5, m6, m7, m8⟩ := ih _ _ h
        simp only at m1 m2 m3 m4 m5 m6 m7 m8
        have hlen : dq.entries.length = s.DECODE_BUFFER.entries.length + 1 := by
          have := congrArg List.length q1
          simpa using this
        refine ⟨front :: moved, ?_, ?_, ?_, ?_, ?_, ?_, m7, m8⟩
        · rw [List.cons_append, ← m1, p1]
        · rw [m2]
          unfold records
          rw [q1, List.append_assoc]
          rfl
        · simp only [List.length_cons]; omega
        · apply room_cons _ _ _ _ q4
          intro k hk
          have := m4 k hk
          rw [hlen, q2] at this
          exact this
        · rw [m5, q2]
        · rw [m6, p2]
      · rw [if_neg hc] at h
        simp only [Outcome.ok.injEq] at h
        subst h
        exact ⟨[], by simp [hI], by simp, Nat.zero_le _, by simp, rfl, rfl, rfl, rfl⟩

theorem decode_push_record (P : Params) (x : ooo_model_instr) :
    (if x.branch_mispredicted ≠ 0 ∧
        (x.branch_type = P.BRANCH_DIRECT_JUMP ∨ x.branch_type = P.BRANCH_DIRECT_CALL)
      then { x with branch_mispredicted := 0 } else x) = decoded_record P x := by
  unfold decoded_record resolved_at_decode
  simp only [decide_eq_true_eq]

theorem decode_instruction_loop_moves (P : Params) (bw : Nat) :
    ∀ s s' : O3_CPU, decode_instruction_loop P bw s = .ok s' →
      ∃ moved : List ooo_model_instr,
        records s.DECODE_BUFFER = moved ++ records s'.DECODE_BUFFER ∧
        records s'.DISPATCH_BUFFER
          = records s.DISPATCH_BUFFER ++ moved.map (decoded_record P) ∧
        moved.length ≤ bw ∧
        (∀ k, k < moved.length →
          s.DISPATCH_BUFFER.entries.length + k < s.DISPATCH_BUFFER.size) ∧
        s'.DISPATCH_BUFFER.size = s.DISPATCH_BUFFER.size ∧
        s'.DECODE_BUFFER.size = s.DECODE_BUFFER.size ∧
        s'.IFETCH_BUFFER = s.IFETCH_BUFFER ∧ s'.ROB = s.ROB ∧
        s'.current_core_cycle = s.current_core_cycle ∧
        s'.fetch_stall = s.fetch_stall ∧
        s'.fetch_resume_cycle
          = (if moved.any (resolved_at_decode P) = true
             then add64 s.current_core_cycle P.BRANCH_MISPREDICT_PENALTY
             else s.fetch_resume_cycle) := by
  induction bw with
  | zero =>
    intro s s' h
    simp only [decode_instruction_loop, Outcome.ok.injEq] at h
    subst h
    exact ⟨[], rfl, by simp, le_refl _, by simp, rfl, rfl, rfl, rfl, rfl, rfl, by simp⟩
  | succ bw ih =>
    intro s s' h
    unfold decode_instruction_loop at h
    by_cases hc : s.DECODE_BUFFER.has_ready = true ∧ s.DISPATCH_BUFFER.full = false
    · rw [if_pos hc] at h
      cases hfr : s.DECODE_BUFFER.front with
      | fault e => rw [hfr] at h; simp at h
      | ok db_entry =>
        rw [hfr] at h
        simp only at h
        cases hdib : do_dib_update P s db_entry with
        | fault e => rw [hdib] at h; simp at h
        | ok s1 =>
          rw [hdib] at h
          simp only at h
          obtain ⟨d, rfl⟩ := do_dib_update_same P s s1 db_entry hdib
          rw [decode_push_record] at h
          split at h
          · simp at h
          rename_i dq hpush
          split at h
          · simp at h
          rename_i db hpop
          have hpop' : s.DECODE_BUFFER.pop_front = .ok db := by
            split_ifs at hpop <;> exact hpop
          obtain ⟨p1, p2, -⟩ := delay_queue_pop_entries _ _ _ hfr hpop'
          have hpush' : s.DISPATCH_BUFFER.push_back (decoded_record P db_entry) = .ok dq ∨
              s.DISPATCH_BUFFER.push_back_ready (decoded_record P db_entry) = .ok dq := by
            split_ifs at hpush
            · exact Or.inl hpush
            · exact Or.inr hpush
            · exact Or.inl hpush
            · exact Or.inr hpush
          obtain ⟨q1, q2, -, q4⟩ := delay_queue_push_entries _ _ _ hpush'
          obtain ⟨moved, m1, m2, m3, m4, m5, m6, m7, m8, m9, m10, m11⟩ := ih _ _ h
          simp only at m1 m2 m3 m4 m5 m6 m7 m8 m9 m10 m11
          have hlen : dq.entries.length = s.DISPATCH_BUFFER.entries.length + 1 := by
            have := congrArg List.length q1
            simpa using this
          refine ⟨db_entry :: moved, ?_, ?_, ?_, ?_, ?_, ?_, ?_, ?_, ?_, ?_, ?_⟩
          · unfold records at m1 ⊢
            rw [List.cons_append, ← m1, p1]
          · rw [m2]
            unfold records
            rw [q1, List.append_assoc]
            rfl
          · simp only [List.length_cons]; omega
          · apply room_cons _ _ _ _ q4
            intro k hk
            have := m4 k hk
            rw [hlen, q2] at this
            exact this
          · rw [m5, q2]
          · rw [m6, p2]
          · rw [m7]; split_ifs <;> rfl
          · rw [m8]; split_ifs <;> rfl
          · rw [m9]; split_ifs <;> rfl
          · rw [m10]; split_ifs <;> rfl
          · rw [m11]
            simp only [List.any_cons, Bool.or_eq_true]
            by_cases hr : db_entry.branch_mispredicted ≠ 0 ∧
                (db_entry.branch_type = P.BRANCH_DIRECT_JUMP ∨
                 db_entry.branch_type = P.BRANCH_DIRECT_CALL)
            · have hr' : resolved_at_decode P db_entry = true := by
                unfold resolved_at_decode; simpa using hr
              simp only [if_pos hr, hr', true_or, if_true]
              split_ifs <;> rfl
            · have hr' : resolved_at_decode P db_entry = false := by
                unfold resolved_at_decode; simpa using hr
              simp only [if_neg hr, hr', false_or, Bool.false_eq_true]
    · rw [if_neg hc] at h
      simp only [Outcome.ok.injEq] at h
      subst h
      exact ⟨[], rfl, by simp, Nat.zero_le _, by simp, rfl, rfl, rfl, rfl, rfl, rfl, by simp⟩

theorem records_operate (q : delay_queue ooo_model_instr) : records q.operate = records q := by
  unfold records
  exact delay_queue_operate_entries q

theorem decode_instruction_moves (P : Params) (s s' : O3_CPU)
    (h : decode_instruction P s = .ok s') :
    ∃ moved : List ooo_model_instr,
      records s.DECODE_BUFFER = moved ++ records s'.DECODE_BUFFER ∧
      records s'.DISPATCH_BUFFER
        = records s.DISPATCH_BUFFER ++ moved.map (decoded_record P) ∧
      moved.length ≤ P.DECODE_WIDTH ∧
      (∀ k, k < moved.length →
        s.DISPATCH_BUFFER.entries.length + k < s.DISPATCH_BUFFER.size) ∧
      s'.DISPATCH_BUFFER.size = s.DISPATCH_BUFFER.size ∧
      s'.DECODE_BUFFER.size = s.DECODE_BUFFER.size ∧
      s'.IFETCH_BUFFER = s.IFETCH_BUFFER ∧ s'.ROB = s.ROB ∧
      s'.current_core_cycle = s.current_core_cycle ∧
      s'.fetch_stall = s.fetch_stall ∧
      s'.fetch_resume_cycle
        = (if moved.any (resolved_at_decode P) = true
           then add64 s.current_core_cycle P.BRANCH_MISPREDICT_PENALTY
           else s.fetch_resume_cycle) := by
  unfold decode_instruction at h
  split at h
  · simp at h
  rename_i s1 hl
  simp only [Outcome.ok.injEq] at h
  subst h
  obtain ⟨moved, m⟩ := decode_instruction_loop_moves P _ _ _ hl
  refine ⟨moved, ?_⟩
  simp only [records_operate]
  exact m

theorem dispatch_instruction_loop_moves (bw : Nat) :
    ∀ s s' : O3_CPU, dispatch_instruction_loop bw s = .ok s' →
      ∃ moved : List ooo_model_instr,
        records s.DISPATCH_BUFFER = moved ++ records s'.DISPATCH_BUFFER ∧
        s'.ROB.entries = s.ROB.entries ++ moved ∧
        moved.length ≤ bw ∧
        (∀ k, k < moved.length → s.ROB.entries.length + k < s.ROB.size) ∧
        s'.ROB.size = s.ROB.size ∧
        s'.DISPATCH_BUFFER.size = s.DISPATCH_BUFFER.size ∧
        s'.IFETCH_BUFFER = s.IFETCH_BUFFER ∧ s'.DECODE_BUFFER = s.DECODE_BUFFER ∧
        s'.fetch_resume_cycle = s.fetch_resume_cycle := by
  induction bw with
  | zero =>
    intro s s' h
    simp only [dispatch_instruction_loop, Outcome.ok.injEq] at h
    subst h
    exact ⟨[], rfl, by simp, le_refl _, by simp, rfl, rfl, rfl, rfl, rfl⟩
  | succ bw ih =>
    intro s s' h
    unfold dispatch_instruction_loop at h
    by_cases hc : s.DISPATCH_BUFFER.has_ready = true ∧ s.ROB.full = false
    · rw [if_pos hc] at h
      cases hfr : s.DISPATCH_BUFFER.front with
      | fault e => rw [hfr] at h; simp at h
      | ok x =>
        rw [hfr] at h
        simp only at h
        cases hpush : s.ROB.push_back x with
        | fault e => rw [hpush] at h; simp at h
        | ok rob =>
          rw [hpush] at h
          simp only at h
          cases hpop : s.DISPATCH_BUFFER.pop_front with
          | fault e => rw [hpop] at h; simp at h
          | ok dq =>
            rw [hpop] at h
            simp only at h
            obtain ⟨p1, p2, -⟩ := delay_queue_pop_entries _ _ _ hfr hpop
            obtain ⟨q1, q2, q3⟩ := circular_buffer_push_entries _ _ _ hpush
            obtain ⟨moved, m1, m2, m3, m4, m5, m6, m7, m8, m9⟩ := ih _ _ h
            simp only at m1 m2 m3 m4 m5 m6 m7 m8 m9
            have hlen : rob.entries.length = s.ROB.entries.length + 1 := by
              rw [q1]; simp
            refine ⟨x :: moved, ?_, ?_, ?_, ?_, ?_, ?_, m7, m8, m9⟩
            · unfold records at m1 ⊢
              rw [List.cons_append, ← m1, p1]
            · rw [m2, q1, List.append_assoc]
              rfl
            · simp only [List.length_cons]; omega
            · apply room_cons _ _ _ _ q3
              intro k hk
              have := m4 k hk
              rw [hlen, q2] at this
              exact this
            · rw [m5, q2]
            · rw [m6, p2]
    · rw [if_neg hc] at h
      simp only [Outcome.ok.injEq] at h
      subst h
      exact ⟨[], rfl, by simp, Nat.zero_le _, by simp, rfl, rfl, rfl, rfl, rfl⟩

theorem dispatch_instruction_moves (P : Params) (s s' : O3_CPU)
    (h : dispatch_instruction P s = .ok s') :
    ∃ moved : List ooo_model_instr,
      records s.DISPATCH_BUFFER = moved ++ records s'.DISPATCH_BUFFER ∧
      s'.ROB.entries = s.ROB.entries ++ moved ∧
      moved.length ≤ P.DISPATCH_WIDTH ∧
      (∀ k, k < moved.length → s.ROB.entries.length + k < s.ROB.size) ∧
      s'.ROB.size = s.ROB.size ∧
      s'.DISPATCH_BUFFER.size = s.DISPATCH_BUFFER.size ∧
      s'.IFETCH_BUFFER = s.IFETCH_BUFFER ∧ s'.DECODE_BUFFER = s.DECODE_BUFFER ∧
      s'.fetch_resume_cycle = s.fetch_resume_cycle := by
  unfold dispatch_instruction at h
  split_ifs at h
  · simp only [Outcome.ok.injEq] at h
    subst h
    exact ⟨[], rfl, by simp, Nat.zero_le _, by simp, rfl, rfl, rfl, rfl, rfl⟩
  · split at h
    · simp at h
    rename_i s1 hl
    simp only [Outcome.ok.injEq] at h
    subst h
    obtain ⟨moved, m⟩ := dispatch_instruction_loop_moves _ _ _ hl
    refine ⟨moved, ?_⟩
    simp only [records_operate]
    exact m

theorem retire_rob_capacity (P : Params) (s s' : O3_CPU) (wq : Nat → PACKET → Int)
    (log : List WqCall) (out : List ooo_model_instr)
    (h : retire_rob P s wq = .ok (s', log, out)) :
    s.ROB.entries.length = out.length + s'.ROB.entries.length ∧ s'.ROB.size = s.ROB.size ∧
      s'.DECODE_BUFFER = s.DECODE_BUFFER ∧ s'.DISPATCH_BUFFER = s.DISPATCH_BUFFER := by
  obtain ⟨bw, h⟩ := retire_rob_as_loop P s wq _ h
  obtain ⟨released, extra, r1, -, -, r4, -, -, -, ⟨f1, -, f3, f4, -⟩, -⟩ :=
    retire_rob_loop_spec P wq _ _ _ _ _ _ _ h
  simp only [List.nil_append] at r1
  subst r1
  have := r4.length_eq
  rw [List.length_append] at this
  exact ⟨this, f1, f3, f4⟩

theorem within_capacity_push (old n size : Nat) (h0 : old ≤ size)
    (h : ∀ k, k < n → old + k < size) : old + n ≤ size := by
  cases n with
  | zero => exact h0
  | succ n =>
    have := h n (Nat.lt_succ_self n)
    omega

theorem length_records (q : delay_queue ooo_model_instr) :
    (records q).length = q.entries.length := by
  unfold records
  exact List.length_map _ _

theorem stage_tick_capacity (P : Params) (s s' : O3_CPU) (h : StageTick P s s')
    (hs : within_capacity s) : within_capacity s' ∧ same_capacity s s' := by
  obtain ⟨c1, c2, c3⟩ := hs
  cases h with
  | init a b p n h =>
    obtain ⟨-, -, -, h4, h5, h6, -⟩ := init_instruction_buffers P _ _ _ _ _ _ h
    unfold within_capacity same_capacity
    rw [h4, h5, h6]
    exact ⟨⟨c1, c2, c3⟩, rfl, rfl, rfl⟩
  | promote h =>
    obtain ⟨moved, -, m2, -, m4, m5, -, m7, m8⟩ := promote_to_decode_loop_moves _ _ _ h
    have hl := congrArg List.length m2
    rw [List.length_append, length_records, length_records] at hl
    have := within_capacity_push _ _ _ c1 m4
    unfold within_capacity same_capacity
    rw [m7, m8, m5, hl]
    exact ⟨⟨this, c2, c3⟩, rfl, rfl, rfl⟩
  | decode h =>
    obtain ⟨moved, m1, m2, -, m4, m5, m6, -, m8, -⟩ := decode_instruction_moves _ _ _ h
    have hl1 := congrArg List.length m1
    have hl2 := congrArg List.length m2
    rw [List.length_append, length_records, length_records] at hl1
    rw [List.length_append, length_records, length_records, List.length_map] at hl2
    have := within_capacity_push _ _ _ c2 m4
    unfold within_capacity same_capacity
    rw [m8, m5, m6, hl2]
    exact ⟨⟨by omega, this, c3⟩, rfl, rfl, rfl⟩
  | dispatch h =>
    obtain ⟨moved, m1, m2, -, m4, m5, m6, -, m8, -⟩ := dispatch_instruction_moves _ _ _ h
    have hl1 := congrArg List.length m1
    rw [List.length_append, length_records, length_records] at hl1
    have := within_capacity_push _ _ _ c3 m4
    unfold within_capacity same_capacity
    rw [m8, m5, m6, m2, List.length_append]
    exact ⟨⟨c1, by omega, this⟩, rfl, rfl, rfl⟩
  | retire wq log out h =>
    obtain ⟨r1, r2, r3, r4⟩ := retire_rob_capacity _ _ _ _ _ _ h
    unfold within_capacity same_capacity
    rw [r2, r3, r4]
    exact ⟨⟨c1, c2, by omega⟩, rfl, rfl, rfl⟩
  | other h =>
    obtain ⟨⟨s1, s2, s3⟩, l1, l2, l3⟩ := h
    unfold within_capacity same_capacity
    rw [s1, s2, s3, l1, l2, l3]
    exact ⟨⟨c1, c2, c3⟩, rfl, rfl, rfl⟩

theorem stage_run_capacity (P : Params) (s0 s : O3_CPU) (hrun : StageRun P s0 s)
    (h0 : within_capacity s0) : within_capacity s ∧ same_capacity s0 s := by
  induction hrun with
  | start => exact ⟨h0, rfl, rfl, rfl⟩
  | step s s' _ htick ih =>
    obtain ⟨i1, j1, j2, j3⟩ := ih
    obtain ⟨i2, k1, k2, k3⟩ := stage_tick_capacity P s s' htick i1
    exact ⟨i2, k1.trans j1, k2.trans j2, k3.trans j3⟩

theorem core_stage_run : StageRun sample_params core_start core_retired.1 := by
  have r0 : StageRun sample_params core_start core_start := StageRun.start
  have r1 := StageRun.step _ core_read_one r0
    (StageTick.init core_start core_read_one { ip := 0x400000 } (0, 0) 0 3 (by decide))
  have r2 := StageRun.step _ core_read r1
    (StageTick.init core_read_one core_read { ip := 0x400004 } (0, 0) 0 2 (by decide))
  have r3 := StageRun.step _ core_fetched r2
    (StageTick.other core_read core_fetched (by unfold same_occupancy same_capacity; decide))
  have r4 := StageRun.step _ core_promoted r3
    (StageTick.promote core_fetched core_promoted (by decide))
  have r5 := StageRun.step _ core_decoded r4
    (StageTick.decode core_promoted core_decoded (by decide))
  have r6 := StageRun.step _ core_dispatched r5
    (StageTick.dispatch core_decoded core_dispatched (by decide))
  have r7 := StageRun.step _ core_executed r6
    (StageTick.other core_dispatched core_executed
      (by unfold same_occupancy same_capacity; decide))
  have r8 := StageRun.step _ core_retired.1 r7
    (StageTick.retire core_executed core_retired.1 wq_accept core_retired.2.1 core_retired.2.2
      (by decide))
  exact r8

/-- C19: on every tick sequence that starts within capacity, the occupancy of
`DECODE_BUFFER`, `DISPATCH_BUFFER` and the ROB stays within the capacity, which no step
changes. A returning `promote_to_decode`, `decode_instruction` or `dispatch_instruction`
moves a list `moved` of at most `FETCH_WIDTH`, `DECODE_WIDTH` or `DISPATCH_WIDTH` records:
the source held `moved` followed by what it holds afterwards, the destination holds what
it held followed by `moved` (for `decode_instruction` each record as `decoded_record`
leaves it), and before push number `k` the destination, holding `k` records more than at
the call, was not full. -/
theorem stage_buffers_within_capacity (P : Params) (s0 s : O3_CPU)
    (hrun : StageRun P s0 s) (h0 : within_capacity s0) :
    (within_capacity s ∧ same_capacity s0 s) ∧
    (∀ t t' : O3_CPU, promote_to_decode P t = .ok t' →
      ∃ moved : List ooo_model_instr,
        t.IFETCH_BUFFER.entries = moved ++ t'.IFETCH_BUFFER.entries ∧
        records t'.DECODE_BUFFER = records t.DECODE_BUFFER ++ moved ∧
        moved.length ≤ P.FETCH_WIDTH ∧
        ∀ k, k < moved.length →
          t.DECODE_BUFFER.entries.length + k < t.DECODE_BUFFER.size) ∧
    (∀ t t' : O3_CPU, decode_instruction P t = .ok t' →
      ∃ moved : List ooo_model_instr,
        records t.DECODE_BUFFER = moved ++ records t'.DECODE_BUFFER ∧
        records t'.DISPATCH_BUFFER
          = records t.DISPATCH_BUFFER ++ moved.map (decoded_record P) ∧
        moved.length ≤ P.DECODE_WIDTH ∧
        ∀ k, k < moved.length →
          t.DISPATCH_BUFFER.entries.length + k < t.DISPATCH_BUFFER.size) ∧
    (∀ t t' : O3_CPU, dispatch_instruction P t = .ok t' →
      ∃ moved : List ooo_model_instr,
        records t.DISPATCH_BUFFER = moved ++ records t'.DISPATCH_BUFFER ∧
        t'.ROB.entries = t.ROB.entries ++ moved ∧
        moved.length ≤ P.DISPATCH_WIDTH ∧
        ∀ k, k < moved.length → t.ROB.entries.length + k < t.ROB.size) := by
  refine ⟨stage_run_capacity P s0 s hrun h0, ?_, ?_, ?_⟩
  · intro t t' h
    obtain ⟨moved, m1, m2, m3, m4, -⟩ := promote_to_decode_loop_moves _ _ _ h
    exact ⟨moved, m1, m2, m3, m4⟩
  · intro t t' h
    obtain ⟨moved, m1, m2, m3, m4, -⟩ := decode_instruction_moves _ _ _ h
    exact ⟨moved, m1, m2, m3, m4⟩
  · intro t t' h
    obtain ⟨moved, m1, m2, m3, m4, -⟩ := dispatch_instruction_moves _ _ _ h
    exact ⟨moved, m1, m2, m3, m4⟩

theorem stage_buffers_within_capacity_witness :
    (StageRun sample_params core_start core_retired.1 ∧ within_capacity core_start) ∧
    within_capacity core_retired.1 ∧ same_capacity core_start core_retired.1 :=
  ⟨⟨core_stage_run, by unfold within_capacity; decide⟩,
    (stage_buffers_within_capacity sample_params core_start core_retired.1 core_stage_run
      (by unfold within_capacity; decide)).1⟩

/-! ## Lemmas: a misprediction from fetch to execution -/

theorem init_destination_warmup (P : Params) (i : Nat) (a a' : ooo_model_instr)
    (r r' : RegScan) (s s' : O3_CPU) (h : init_destination P i a r s = .ok (a', r', s')) :
    s'.warmup_complete = s.warmup_complete := by
  unfold init_destination at h
  simp only at h
  split_ifs at h <;>
    (simp only [Outcome.ok.injEq, Prod.mk.injEq] at h
     obtain ⟨-, -, rfl⟩ := h
     rfl)

theorem init_destinations_warmup (P : Params) (l : List Nat) :
    ∀ (a a' : ooo_model_instr) (r r' : RegScan) (s s' : O3_CPU),
      init_destinations P l a r s = .ok (a', r', s') →
      s'.warmup_complete = s.warmup_complete := by
  induction l with
  | nil =>
    intro a a' r r' s s' h
    simp only [init_destinations, Outcome.ok.injEq, Prod.mk.injEq] at h
    obtain ⟨-, -, rfl⟩ := h
    rfl
  | cons i rest ih =>
    intro a a' r r' s s' h
    simp only [init_destinations] at h
    split at h
    · exact absurd h (by simp)
    · rename_i a1 r1 s1 h1
      exact (ih _ _ _ _ _ _ h).trans (init_destination_warmup P i a a1 r r1 s s1 h1)

theorem init_fetch_budget_warmup (P : Params) (s : O3_CPU) :
    (init_fetch_budget P s).warmup_complete = s.warmup_complete := by
  unfold init_fetch_budget
  simp only
  split <;> rfl

theorem init_branch_prediction_stall (a : ooo_model_instr) (s : O3_CPU) (b : Nat × Nat)
    (p : Nat) :
    (init_branch_prediction a s b p).2.warmup_complete = s.warmup_complete ∧
    (init_branch_prediction a s b p).1.is_branch = a.is_branch ∧
    (init_branch_prediction a s b p).1.branch_target = a.branch_target ∧
    (init_branch_prediction a s b p).1.branch_type = a.branch_type ∧
    (s.warmup_complete ≠ 0 → a.is_branch ≠ 0 → predicted_branch_target b p ≠ a.branch_target →
      (init_branch_prediction a s b p).2.fetch_stall = 1 ∧
      (init_branch_prediction a s b p).2.instrs_to_read_this_cycle = 0 ∧
      (init_branch_prediction a s b p).1.branch_mispredicted = 1) := by
  unfold init_branch_prediction predicted_branch_target
  simp only
  split_ifs <;> refine ⟨rfl, rfl, rfl, rfl, ?_⟩ <;> intro hw hb hp <;>
    first
    | exact ⟨rfl, rfl, rfl⟩
    | exact absurd hw (by assumption)
    | exact absurd (by assumption) hb
    | exact absurd (by assumption) hp
    | (exfalso; simp_all)

theorem init_finish_stall (P : Params) (a : ooo_model_instr) (s s' : O3_CPU)
    (b : Nat × Nat) (p n : Nat) (h : init_finish P a s b p = .ok (n, s'))
    (hw : s.warmup_complete ≠ 0) :
    ∃ x : ooo_model_instr, s'.IFETCH_BUFFER.entries = s.IFETCH_BUFFER.entries ++ [x] ∧
      x.is_branch = a.is_branch ∧ x.branch_target = a.branch_target ∧
      x.branch_type = a.branch_type ∧
      (a.is_branch ≠ 0 → predicted_branch_target b p ≠ a.branch_target →
        s'.fetch_stall = 1 ∧ n = 0 ∧ x.branch_mispredicted = 1) := by
  unfold init_finish at h
  simp only at h
  obtain ⟨-, hI, -⟩ := init_branch_prediction_same a s b p
  obtain ⟨g1, g2, g3, g4, g5⟩ := init_branch_prediction_stall a s b p
  split at h
  · exact absurd h (by simp)
  rename_i buf hpush
  simp only [Outcome.ok.injEq, Prod.mk.injEq] at h
  obtain ⟨hn, rfl⟩ := h
  obtain ⟨q1, -, -⟩ := circular_buffer_push_entries _ _ _ hpush
  have hfw : init_fast_warmup P
      { (init_branch_prediction a s b p).1 with
        event_cycle := (init_branch_prediction a s b p).2.current_core_cycle }
      (init_branch_prediction a s b p).2.warmup_complete
      = { (init_branch_prediction a s b p).1 with
        event_cycle := (init_branch_prediction a s b p).2.current_core_cycle } := by
    unfold init_fast_warmup
    rw [g1, if_neg hw]
  rw [hfw, hI] at q1
  refine ⟨_, q1, g2, g3, g4, ?_⟩
  intro hb hp
  obtain ⟨k1, k2, k3⟩ := g5 hw hb hp
  exact ⟨k1, by rw [← hn]; exact k2, k3⟩

theorem init_instruction_stall (P : Params) (s s' : O3_CPU) (a : ooo_model_instr)
    (b : Nat × Nat) (p n : Nat) (hw : s.warmup_complete ≠ 0)
    (h : init_instruction P s a b p = .ok (n, s')) :
    ∃ x : ooo_model_instr, s'.IFETCH_BUFFER.entries = s.IFETCH_BUFFER.entries ++ [x] ∧
      (x.is_branch ≠ 0 → predicted_branch_target b p ≠ x.branch_target →
        s'.fetch_stall = 1 ∧ n = 0 ∧ x.branch_mispredicted = 1) := by
  unfold init_instruction at h
  simp only at h
  split at h
  · exact absurd h (by simp)
  rename_i a1 r1 s2 hd
  have hw2 : s2.warmup_complete ≠ 0 := by
    rw [init_destinations_warmup P _ _ _ _ _ _ _ hd, init_fetch_budget_warmup]
    exact hw
  obtain ⟨-, hs2⟩ := init_destinations_same P _ _ _ _ _ _ _ hd
  obtain ⟨hI, -⟩ := same_buffers_trans _ _ _ (init_fetch_budget_same P s) hs2
  obtain ⟨x, h1, h2, h3, -, h5⟩ := init_finish_stall P _ _ _ _ _ _ h hw2
  simp only at h1
  refine ⟨x, by rw [h1, hI], ?_⟩
  intro hb hp
  exact h5 (by rw [← h2]; exact hb) (by rw [← h3]; exact hp)

theorem branch_fields_refl (e : ooo_model_instr) : branch_fields e e := ⟨rfl, rfl, rfl⟩

theorem branch_fields_trans (a b c : ooo_model_instr) (h1 : branch_fields a b)
    (h2 : branch_fields b c) : branch_fields a c :=
  ⟨h2.1.trans h1.1, h2.2.1.trans h1.2.1, h2.2.2.trans h1.2.2⟩

theorem release_dependents_frame (l : List Nat) :
    ∀ s s' : O3_CPU, release_dependents l s = .ok s' →
      s'.fetch_resume_cycle = s.fetch_resume_cycle ∧
      s'.current_core_cycle = s.current_core_cycle ∧ rob_mapped branch_fields s s' := by
  induction l with
  | nil =>
    intro s s' h
    simp only [release_dependents, Outcome.ok.injEq] at h
    subst h
    exact ⟨rfl, rfl, rob_mapped_refl _ branch_fields_refl _⟩
  | cons d rest ih =>
    intro s s' h
    simp only [release_dependents] at h
    split at h
    · simp at h
    split_ifs at h
    obtain ⟨h1, h2, h3⟩ := ih _ _ h
    refine ⟨h1, h2, rob_mapped_trans _ branch_fields_trans _ _ _ ?_ h3⟩
    apply rob_mapped_update _ branch_fields_refl
    intro e
    unfold release_dependent
    simp only
    split_ifs <;> exact ⟨rfl, rfl, rfl⟩

theorem count_completed_frame (x : ooo_model_instr) (s : O3_CPU) :
    (count_completed x s).ROB = s.ROB ∧
    (count_completed x s).fetch_resume_cycle = s.fetch_resume_cycle ∧
    (count_completed x s).current_core_cycle = s.current_core_cycle := by
  unfold count_completed
  simp only
  split_ifs <;> exact ⟨rfl, rfl, rfl⟩

theorem do_complete_execution_resume (P : Params) (t t' : O3_CPU) (rob_it : Nat)
    (x : ooo_model_instr) (hx : rob_find t.ROB.entries rob_it = some x)
    (h : do_complete_execution P t rob_it = .ok t') :
    t'.fetch_resume_cycle
      = (if x.branch_mispredicted ≠ 0
         then add64 t.current_core_cycle P.BRANCH_MISPREDICT_PENALTY
         else t.fetch_resume_cycle) := by
  unfold do_complete_execution at h
  rw [hx] at h
  simp only at h
  split at h
  · simp at h
  rename_i s4 hrel
  obtain ⟨f1, f2, f3⟩ := release_dependents_frame _ _ _ hrel
  obtain ⟨c1, c2, c3⟩ := count_completed_frame x (update_rob t rob_it mark_completed)
  split at h
  · simp at h
  rename_i x4 hx4
  have hfind : rob_find (count_completed x (update_rob t rob_it mark_completed)).ROB.entries
      rob_it = some (mark_completed x) := by
    rw [c1, rob_find_update_self t rob_it mark_completed (fun e => rfl), hx]
    rfl
  obtain ⟨y, hy, hyb⟩ :=
    (rob_find_mapped branch_fields (fun e e' hF => hF.1) _ _ f3 rob_it).1 _ hfind
  rw [hx4] at hy
  simp only [Option.some.injEq] at hy
  subst hy
  have hbm : x4.branch_mispredicted = x.branch_mispredicted := hyb.2.1
  have g1 : s4.fetch_resume_cycle = t.fetch_resume_cycle := by
    rw [f1, c2]; rfl
  have g2 : s4.current_core_cycle = t.current_core_cycle := by
    rw [f2, c3]; rfl
  rw [hbm] at h
  split_ifs at h with hm
  · simp only [Outcome.ok.injEq] at h
    subst h
    rw [if_pos hm]
    simp only [g2]
  · simp only [Outcome.ok.injEq] at h
    subst h
    rw [if_neg hm]
    exact g1

theorem decoded_record_cleared (P : Params) (x : ooo_model_instr)
    (h : resolved_at_decode P x = true) :
    decoded_record P x = { x with branch_mispredicted := 0 } := by
  unfold decoded_record
  rw [if_pos h]

/-- C18 (before warmup is complete): `init_instruction` reads the direct jump `jump_B`,
whose predicted target 0 differs from its target `0x500000`, on a core with
`warmup_complete = 0`. The misprediction is counted, but `fetch_stall` stays 0 and the
record enters the fetch buffer with `branch_mispredicted = 0`; `decode_instruction`
then moves the record and leaves `fetch_resume_cycle` as it was. -/
theorem direct_jump_before_warmup_does_not_stall :
    core_start.warmup_complete = 0 ∧ predicted_branch_target (0, 0) 0 = 0 ∧
    init_instruction sample_params core_start jump_B (0, 0) 0 = .ok (3, jump_cold_read) ∧
    (jump_cold_read.IFETCH_BUFFER.entries.map fun x =>
        (x.is_branch, x.branch_type, x.branch_target, x.branch_mispredicted))
      = [(1, sample_params.BRANCH_DIRECT_JUMP, 0x500000, 0)] ∧
    jump_cold_read.branch_mispredictions = 1 ∧ jump_cold_read.fetch_stall = 0 ∧
    decode_instruction sample_params jump_cold_promoted = .ok jump_cold_decoded ∧
    (records jump_cold_decoded.DISPATCH_BUFFER).map (fun x => x.branch_mispredicted) = [0] ∧
    jump_cold_decoded.fetch_resume_cycle = jump_cold_promoted.fetch_resume_cycle := by
  decide

/-- C18, the statement that holds. Once warmup is complete (`warmup_complete ≠ 0`), a
returning `init_instruction` that reads a branch whose predicted target differs from its
target sets `fetch_stall`, returns 0 and pushes the record with `branch_mispredicted = 1`.
A returning `decode_instruction` moves a list of records; a moved record with the flag
set that is a direct jump or a direct call reaches the dispatch buffer with the flag
cleared, and `fetch_resume_cycle` is then the current cycle plus
`BRANCH_MISPREDICT_PENALTY`. `dispatch_instruction` copies the records into the ROB as
they are and leaves `fetch_resume_cycle` alone. A returning `do_complete_execution` of a
record with `branch_mispredicted = 0` leaves `fetch_resume_cycle` unchanged; for a record
with the flag set it writes the current cycle plus the penalty. -/
theorem mispredicted_direct_jump_pays_once (P : Params) :
    (∀ (s s' : O3_CPU) (a : ooo_model_instr) (btb_result : Nat × Nat)
        (branch_prediction n : Nat),
      s.warmup_complete ≠ 0 →
      init_instruction P s a btb_result branch_prediction = .ok (n, s') →
      ∃ x : ooo_model_instr, s'.IFETCH_BUFFER.entries = s.IFETCH_BUFFER.entries ++ [x] ∧
        (x.is_branch ≠ 0 →
          predicted_branch_target btb_result branch_prediction ≠ x.branch_target →
          s'.fetch_stall = 1 ∧ n = 0 ∧ x.branch_mispredicted = 1)) ∧
    (∀ t t' : O3_CPU, decode_instruction P t = .ok t' →
      ∃ moved : List ooo_model_instr,
        records t.DECODE_BUFFER = moved ++ records t'.DECODE_BUFFER ∧
        records t'.DISPATCH_BUFFER
          = records t.DISPATCH_BUFFER ++ moved.map (decoded_record P) ∧
        (∀ x ∈ moved, resolved_at_decode P x = true →
          decoded_record P x = { x with branch_mispredicted := 0 } ∧
          t'.fetch_resume_cycle = add64 t.current_core_cycle P.BRANCH_MISPREDICT_PENALTY) ∧
        ((∀ x ∈ moved, resolved_at_decode P x = false) →
          t'.fetch_resume_cycle = t.fetch_resume_cycle)) ∧
    (∀ t t' : O3_CPU, dispatch_instruction P t = .ok t' →
      ∃ moved : List ooo_model_instr,
        records t.DISPATCH_BUFFER = moved ++ records t'.DISPATCH_BUFFER ∧
        t'.ROB.entries = t.ROB.entries ++ moved ∧
        t'.fetch_resume_cycle = t.fetch_resume_cycle) ∧
    (∀ (t t' : O3_CPU) (rob_it : Nat) (x : ooo_model_instr),
      rob_find t.ROB.entries rob_it = some x → do_complete_execution P t rob_it = .ok t' →
      (x.branch_mispredicted = 0 → t'.fetch_resume_cycle = t.fetch_resume_cycle) ∧
      (x.branch_mispredicted ≠ 0 →
        t'.fetch_resume_cycle = add64 t.current_core_cycle P.BRANCH_MISPREDICT_PENALTY)) := by
  refine ⟨?_, ?_, ?_, ?_⟩
  · intro s s' a b p n hw h
    exact init_instruction_stall P s s' a b p n hw h
  · intro t t' h
    obtain ⟨moved, m1, m2, -, -, -, -, -, -, -, -, m11⟩ := decode_instruction_moves P t t' h
    refine ⟨moved, m1, m2, ?_, ?_⟩
    · intro x hx hr
      refine ⟨decoded_record_cleared P x hr, ?_⟩
      rw [m11, if_pos]
      exact List.any_eq_true.mpr ⟨x, hx, hr⟩
    · intro hnone
      rw [m11, if_neg]
      intro hany
      obtain ⟨x, hx, hr⟩ := List.any_eq_true.mp hany
      rw [hnone x hx] at hr
      exact absurd hr (by simp)
  · intro t t' h
    obtain ⟨moved, m1, m2, -, -, -, -, -, -, m9⟩ := dispatch_instruction_moves P t t' h
    exact ⟨moved, m1, m2, m9⟩
  · intro t t' rob_it x hx h
    have := do_complete_execution_resume P t t' rob_it x hx h
    constructor
    · intro h0
      rw [this, if_neg (by simpa using h0)]
    · intro h1
      rw [this, if_pos h1]

theorem mispredicted_direct_jump_pays_once_witness :
    (core_warm.warmup_complete ≠ 0 ∧
     init_instruction sample_params core_warm jump_B (0, 0) 0 = .ok (0, jump_read) ∧
     jump_read.IFETCH_BUFFER.entries = core_warm.IFETCH_BUFFER.entries ++ [jump_record] ∧
     jump_record.is_branch ≠ 0 ∧
     jump_record.branch_type = sample_params.BRANCH_DIRECT_JUMP ∧
     predicted_branch_target (0, 0) 0 ≠ jump_record.branch_target ∧
     decode_instruction sample_params jump_promoted = .ok jump_decoded ∧
     records jump_promoted.DECODE_BUFFER = [jump_at_decode] ∧
     resolved_at_decode sample_params jump_at_decode = true ∧
     rob_find jump_dispatched.ROB.entries 0 = some jump_in_rob ∧
     jump_in_rob.branch_mispredicted = 0 ∧
     do_complete_execution sample_params jump_dispatched 0 = .ok jump_completed) ∧
    (jump_read.fetch_stall = 1 ∧ jump_record.branch_mispredicted = 1) ∧
    (records jump_decoded.DISPATCH_BUFFER = [{ jump_at_decode with branch_mispredicted := 0 }] ∧
     jump_decoded.fetch_resume_cycle
       = add64 jump_promoted.current_core_cycle sample_params.BRANCH_MISPREDICT_PENALTY) ∧
    jump_completed.fetch_resume_cycle = jump_dispatched.fetch_resume_cycle := by
  have h := mispredicted_direct_jump_pays_once sample_params
  have e1 : jump_read.IFETCH_BUFFER.entries
      = core_warm.IFETCH_BUFFER.entries ++ [jump_record] := by decide
  have e2 : records jump_promoted.DECODE_BUFFER = [jump_at_decode] := by decide
  have e3 : resolved_at_decode sample_params jump_at_decode = true := by decide
  have e4 : rob_find jump_dispatched.ROB.entries 0 = some jump_in_rob := by decide
  have e5 : do_complete_execution sample_params jump_dispatched 0 = .ok jump_completed := by
    decide
  have e6 : decode_instruction sample_params jump_promoted = .ok jump_decoded := by decide
  have e7 : init_instruction sample_params core_warm jump_B (0, 0) 0 = .ok (0, jump_read) := by
    decide
  obtain ⟨x, hx, hstall⟩ := h.1 core_warm jump_read jump_B (0, 0) 0 0 (by decide) e7
  have hx' : x = jump_record := by
    rw [e1] at hx
    have := List.append_cancel_left hx
    simpa using this.symm
  subst hx'
  obtain ⟨moved, m1, m2, m3, -⟩ := h.2.1 jump_promoted jump_decoded e6
  have hm : moved = [jump_at_decode] := by
    have e8 : records jump_decoded.DECODE_BUFFER = [] := by decide
    rw [e2, e8, List.append_nil] at m1
    exact m1.symm
  subst hm
  obtain ⟨d1, d2⟩ := m3 jump_at_decode (List.mem_singleton.mpr rfl) e3
  have e9 : records jump_promoted.DISPATCH_BUFFER = [] := by decide
  rw [e9, List.nil_append, List.map_singleton, d1] at m2
  exact ⟨⟨by decide, e7, e1, by decide, by decide, by decide, e6, e2, e3, e4, by decide, e5⟩,
    ⟨(hstall (by decide) (by decide)).1, (hstall (by decide) (by decide)).2.2⟩,
    ⟨m2, d2⟩, (h.2.2.2 jump_dispatched jump_completed 0 jump_in_rob e4 e5).1 (by decide)⟩

/-! ## Lemmas: the fetch budget -/

theorem init_destination_budget (P : Params) (i : Nat) (a a' : ooo_model_instr)
    (r r' : RegScan) (s s' : O3_CPU) (h : init_destination P i a r s = .ok (a', r', s')) :
    s'.instrs_to_read_this_cycle = s.instrs_to_read_this_cycle ∧
    s'.fetch_stall = s.fetch_stall ∧ s'.branch_mispredictions = s.branch_mispredictions ∧
    a'.branch_mispredicted = a.branch_mispredicted := by
  unfold init_destination at h
  simp only at h
  split_ifs at h <;>
    (simp only [Outcome.ok.injEq, Prod.mk.injEq] at h
     obtain ⟨rfl, -, rfl⟩ := h
     exact ⟨rfl, rfl, rfl, rfl⟩)

theorem init_destinations_budget (P : Params) (l : List Nat) :
    ∀ (a a' : ooo_model_instr) (r r' : RegScan) (s s' : O3_CPU),
      init_destinations P l a r s = .ok (a', r', s') →
      s'.instrs_to_read_this_cycle = s.instrs_to_read_this_cycle ∧
      s'.fetch_stall = s.fetch_stall ∧ s'.branch_mispredictions = s.branch_mispredictions ∧
      a'.branch_mispredicted = a.branch_mispredicted := by
  induction l with
  | nil =>
    intro a a' r r' s s' h
    simp only [init_destinations, Outcome.ok.injEq, Prod.mk.injEq] at h
    obtain ⟨rfl, -, rfl⟩ := h
    exact ⟨rfl, rfl, rfl, rfl⟩
  | cons i rest ih =>
    intro a a' r r' s s' h
    simp only [init_destinations] at h
    split at h
    · exact absurd h (by simp)
    · rename_i a1 r1 s1 h1
      obtain ⟨e1, e2, e3, e4⟩ := init_destination_budget P i a a1 r r1 s s1 h1
      obtain ⟨f1, f2, f3, f4⟩ := ih _ _ _ _ _ _ h
      exact ⟨f1.trans e1, f2.trans e2, f3.trans e3, f4.trans e4⟩

theorem init_source_flag (P : Params) (i : Nat) (a : ooo_model_instr) (r : RegScan) :
    (init_source P i a r).1.branch_mispredicted = a.branch_mispredicted := by
  unfold init_source
  simp only
  split_ifs <;> rfl

theorem init_sources_flag (P : Params) (l : List Nat) :
    ∀ (a : ooo_model_instr) (r : RegScan),
      (init_sources P l a r).1.branch_mispredicted = a.branch_mispredicted := by
  induction l with
  | nil => intro a r; rfl
  | cons i rest ih =>
    intro a r
    simp only [init_sources]
    rw [ih, init_source_flag]

theorem classify_branch_flag (P : Params) (a : ooo_model_instr) (r : RegScan) :
    (classify_branch P a r).branch_mispredicted = a.branch_mispredicted := by
  unfold classify_branch
  split_ifs <;> rfl

theorem init_classify_flag (P : Params) (a : ooo_model_instr) (r : RegScan) :
    (init_classify P a r).branch_mispredicted = a.branch_mispredicted := by
  unfold init_classify
  rw [classify_branch_flag]
  split_ifs <;> rfl

theorem init_clear_target_flag (a : ooo_model_instr) :
    (init_clear_target a).branch_mispredicted = a.branch_mispredicted := by
  unfold init_clear_target
  split_ifs <;> rfl

theorem fold_stack_pointer_flag (P : Params) (l : List Nat) :
    ∀ a : ooo_model_instr,
      (fold_stack_pointer P l a).branch_mispredicted = a.branch_mispredicted := by
  induction l with
  | nil => intro a; rfl
  | cons i rest ih =>
    intro a
    simp only [fold_stack_pointer]
    split_ifs
    · rw [ih]
    · rw [ih]

theorem init_stack_pointer_folding_flag (P : Params) (a : ooo_model_instr) (r : RegScan) :
    (init_stack_pointer_folding P a r).branch_mispredicted = a.branch_mispredicted := by
  unfold init_stack_pointer_folding
  split_ifs
  · rw [fold_stack_pointer_flag]
  · rfl

theorem init_fast_warmup_flag (P : Params) (a : ooo_model_instr) (w : Nat) :
    (init_fast_warmup P a w).branch_mispredicted = a.branch_mispredicted ∧
    (init_fast_warmup P a w).is_branch = a.is_branch ∧
    (init_fast_warmup P a w).branch_target = a.branch_target := by
  unfold init_fast_warmup
  split_ifs <;> exact ⟨rfl, rfl, rfl⟩

/-- What `init_instruction` does before its branch handling: the call is `init_finish`
on a record and a state that carry the flag of the trace record, and the budget,
`fetch_stall`, the counter of mispredictions, `warmup_complete` and the buffers of the
state after `init_fetch_budget`. -/
theorem init_instruction_finish (P : Params) (s s' : O3_CPU) (a : ooo_model_instr)
    (b : Nat × Nat) (p n : Nat) (h : init_instruction P s a b p = .ok (n, s')) :
    ∃ (a6 : ooo_model_instr) (s3 : O3_CPU), init_finish P a6 s3 b p = .ok (n, s') ∧
      a6.branch_mispredicted = a.branch_mispredicted ∧
      s3.instrs_to_read_this_cycle = (init_fetch_budget P s).instrs_to_read_this_cycle ∧
      s3.fetch_stall = s.fetch_stall ∧ s3.branch_mispredictions = s.branch_mispredictions ∧
      s3.warmup_complete = s.warmup_complete ∧ s3.IFETCH_BUFFER = s.IFETCH_BUFFER := by
  unfold init_instruction at h
  simp only at h
  split at h
  · exact absurd h (by simp)
  rename_i a1 r1 s2 hd
  obtain ⟨d1, d2, d3, d4⟩ := init_destinations_budget P _ _ _ _ _ _ _ hd
  have d5 := init_destinations_warmup P _ _ _ _ _ _ _ hd
  obtain ⟨-, hs2⟩ := init_destinations_same P _ _ _ _ _ _ _ hd
  obtain ⟨hI, -⟩ := same_buffers_trans _ _ _ (init_fetch_budget_same P s) hs2
  refine ⟨_, _, h, ?_, d1, ?_, ?_, ?_, hI⟩
  · rw [init_stack_pointer_folding_flag, init_clear_target_flag, init_classify_flag,
      init_sources_flag, d4]
  · rw [d2]; unfold init_fetch_budget; simp only; split <;> rfl
  · rw [d3]; unfold init_fetch_budget; simp only; split <;> rfl
  · rw [d5, init_fetch_budget_warmup]

theorem init_branch_prediction_budget (a : ooo_model_instr) (s : O3_CPU) (b : Nat × Nat)
    (p : Nat) :
    (init_branch_prediction a s b p).2.instrs_to_read_this_cycle
      ≤ s.instrs_to_read_this_cycle := by
  unfold init_branch_prediction
  simp only
  split_ifs <;> first | exact le_refl _ | exact Nat.zero_le _

theorem init_finish_budget (P : Params) (a : ooo_model_instr) (s s' : O3_CPU)
    (b : Nat × Nat) (p n : Nat) (h : init_finish P a s b p = .ok (n, s')) :
    n = s'.instrs_to_read_this_cycle ∧ n ≤ s.instrs_to_read_this_cycle := by
  unfold init_finish at h
  simp only at h
  split at h
  · exact absurd h (by simp)
  simp only [Outcome.ok.injEq, Prod.mk.injEq] at h
  obtain ⟨hn, rfl⟩ := h
  exact ⟨hn.symm, by rw [← hn]; exact init_branch_prediction_budget a s b p⟩

theorem init_fetch_budget_value (P : Params) (s : O3_CPU) :
    (init_fetch_budget P s).instrs_to_read_this_cycle
      = ((if s.instrs_to_read_this_cycle = 0 then min P.FETCH_WIDTH (fetch_room s)
          else s.instrs_to_read_this_cycle) + 2 ^ 32 - 1) % 2 ^ 32 := by
  unfold init_fetch_budget fetch_room
  simp only
  split <;> rfl

theorem init_instruction_budget (P : Params) (s s' : O3_CPU) (a : ooo_model_instr)
    (b : Nat × Nat) (p n : Nat) (h : init_instruction P s a b p = .ok (n, s')) :
    n = s'.instrs_to_read_this_cycle ∧
    n ≤ ((if s.instrs_to_read_this_cycle = 0 then min P.FETCH_WIDTH (fetch_room s)
          else s.instrs_to_read_this_cycle) + 2 ^ 32 - 1) % 2 ^ 32 := by
  obtain ⟨a6, s3, hf, -, e, -⟩ := init_instruction_finish P s s' a b p n h
  obtain ⟨f1, f2⟩ := init_finish_budget P a6 s3 s' b p n hf
  rw [e, init_fetch_budget_value] at f2
  exact ⟨f1, f2⟩

theorem read_loop_budget (P : Params) (s0 s : O3_CPU) (k n : Nat)
    (hloop : ReadLoop P s0 s k n) (h0 : s0.instrs_to_read_this_cycle = 0)
    (hroom : 0 < fetch_room s0) (hw : 0 < P.FETCH_WIDTH) (hw32 : P.FETCH_WIDTH < 2 ^ 32) :
    k + n ≤ min P.FETCH_WIDTH (fetch_room s0) ∧ n = s.instrs_to_read_this_cycle ∧
    s.IFETCH_BUFFER.entries.length = s0.IFETCH_BUFFER.entries.length + k ∧
    s.IFETCH_BUFFER.size = s0.IFETCH_BUFFER.size ∧
    s.instr_unique_id = (s0.instr_unique_id + k) % 2 ^ 64 := by
  induction hloop with
  | first s1 a b p n h =>
    obtain ⟨e1, e2⟩ := init_instruction_budget P s0 s1 a b p n h
    obtain ⟨⟨x, -, hx⟩, b2, -, -, -, -, b7⟩ := init_instruction_buffers P s0 s1 a b p n h
    rw [if_pos h0] at e2
    have hm : 0 < min P.FETCH_WIDTH (fetch_room s0) := by
      rw [Nat.lt_min]; exact ⟨hw, hroom⟩
    have hm2 : min P.FETCH_WIDTH (fetch_room s0) < 2 ^ 32 :=
      lt_of_le_of_lt (Nat.min_le_left _ _) hw32
    refine ⟨?_, e1, by rw [hx]; simp, b2, by rw [b7]; rfl⟩
    have : (min P.FETCH_WIDTH (fetch_room s0) + 2 ^ 32 - 1) % 2 ^ 32
        = min P.FETCH_WIDTH (fetch_room s0) - 1 := by
      omega
    omega
  | next s s' k n n' a b p _ hpos h ih =>
    obtain ⟨i1, i2, i3, i4, i5⟩ := ih
    obtain ⟨e1, e2⟩ := init_instruction_budget P s s' a b p n' h
    obtain ⟨⟨x, -, hx⟩, b2, -, -, -, -, b7⟩ := init_instruction_buffers P s s' a b p n' h
    have hne : s.instrs_to_read_this_cycle ≠ 0 := by omega
    rw [if_neg hne, ← i2] at e2
    have hm2 : min P.FETCH_WIDTH (fetch_room s0) < 2 ^ 32 :=
      lt_of_le_of_lt (Nat.min_le_left _ _) hw32
    refine ⟨?_, e1, by rw [hx, List.length_append, i3]; simp; omega, by rw [b2, i4], ?_⟩
    · have : (n + 2 ^ 32 - 1) % 2 ^ 32 = n - 1 := by omega
      omega
    · rw [b7, i5]
      unfold add64
      omega

/-- C21: the caller starts a tick with `instrs_to_read_this_cycle == 0` and a fetch
buffer with at least one free slot, and calls `init_instruction` again while the value
returned is positive (`FETCH_WIDTH` is positive and fits the 32-bit budget). After `k`
calls with the last value `n`, `k + n` is at most `min(FETCH_WIDTH, f)`, so at most
`min(FETCH_WIDTH, f)` instructions are read; the fetch buffer holds `k` records more,
within its capacity, and `instr_unique_id` has advanced by `k` within 64 bits. Every
returning call pushes one record, which had room, gives it the current `instr_unique_id`
as `instr_id`, and increments `instr_unique_id` by one within 64 bits. -/
theorem init_instruction_fetch_budget (P : Params) (s0 s : O3_CPU) (k n : Nat)
    (hloop : ReadLoop P s0 s k n) (h0 : s0.instrs_to_read_this_cycle = 0)
    (hroom : 0 < fetch_room s0) (hw : 0 < P.FETCH_WIDTH) (hw32 : P.FETCH_WIDTH < 2 ^ 32) :
    (k + n ≤ min P.FETCH_WIDTH (fetch_room s0) ∧
     s.IFETCH_BUFFER.entries.length = s0.IFETCH_BUFFER.entries.length + k ∧
     s.IFETCH_BUFFER.entries.length ≤ s.IFETCH_BUFFER.size ∧
     s.IFETCH_BUFFER.size = s0.IFETCH_BUFFER.size ∧
     s.instr_unique_id = (s0.instr_unique_id + k) % 2 ^ 64) ∧
    (∀ (t t' : O3_CPU) (a : ooo_model_instr) (b : Nat × Nat) (p m : Nat),
      init_instruction P t a b p = .ok (m, t') →
      t.IFETCH_BUFFER.entries.length < t.IFETCH_BUFFER.size ∧
      t'.instr_unique_id = add64 t.instr_unique_id 1 ∧
      ∃ x : ooo_model_instr, x.instr_id = t.instr_unique_id ∧
        t'.IFETCH_BUFFER.entries = t.IFETCH_BUFFER.entries ++ [x]) := by
  obtain ⟨r1, -, r3, r4, r5⟩ := read_loop_budget P s0 s k n hloop h0 hroom hw hw32
  refine ⟨⟨r1, r3, ?_, r4, r5⟩, ?_⟩
  · rw [r3, r4]
    have h1 : k + n ≤ fetch_room s0 := le_trans r1 (Nat.min_le_right _ _)
    have h2 : fetch_room s0 = s0.IFETCH_BUFFER.size - s0.IFETCH_BUFFER.entries.length := rfl
    omega
  · intro t t' a b p m h
    obtain ⟨hx, -, b3, -, -, -, b7⟩ := init_instruction_buffers P t t' a b p m h
    exact ⟨b3, b7, hx⟩

theorem core_read_loop : ReadLoop sample_params core_start core_read 2 2 :=
  ReadLoop.next core_read_one core_read 1 3 2 { ip := 0x400004 } (0, 0) 0
    (ReadLoop.first core_read_one { ip := 0x400000 } (0, 0) 0 3 (by decide)) (by decide)
    (by decide)

theorem init_instruction_fetch_budget_witness :
    (ReadLoop sample_params core_start core_read 2 2 ∧
     core_start.instrs_to_read_this_cycle = 0 ∧ 0 < fetch_room core_start ∧
     0 < sample_params.FETCH_WIDTH ∧ sample_params.FETCH_WIDTH < 2 ^ 32) ∧
    2 + 2 ≤ min sample_params.FETCH_WIDTH (fetch_room core_start) ∧
    core_read.IFETCH_BUFFER.entries.length = core_start.IFETCH_BUFFER.entries.length + 2 ∧
    core_read.IFETCH_BUFFER.entries.length ≤ core_read.IFETCH_BUFFER.size :=
  have h := init_instruction_fetch_budget sample_params core_start core_read 2 2
    core_read_loop (by decide) (by decide) (by decide) (by decide)
  ⟨⟨core_read_loop, by decide, by decide, by decide, by decide⟩, h.1.1, h.1.2.1, h.1.2.2.1⟩

/-! ## Lemmas: the branch handling of `init_instruction` -/

theorem init_branch_prediction_outcome (a : ooo_model_instr) (s : O3_CPU) (b : Nat × Nat)
    (p : Nat) :
    (init_branch_prediction a s b p).1.is_branch = a.is_branch ∧
    (init_branch_prediction a s b p).1.branch_target = a.branch_target ∧
    (init_branch_prediction a s b p).2.warmup_complete = s.warmup_complete ∧
    (s.warmup_complete ≠ 0 → a.is_branch ≠ 0 → predicted_branch_target b p ≠ a.branch_target →
      (init_branch_prediction a s b p).1.branch_mispredicted = 1 ∧
      (init_branch_prediction a s b p).2.fetch_stall = 1 ∧
      (init_branch_prediction a s b p).2.instrs_to_read_this_cycle = 0 ∧
      (init_branch_prediction a s b p).2.branch_mispredictions = s.branch_mispredictions + 1) ∧
    (s.warmup_complete = 0 → a.is_branch ≠ 0 → predicted_branch_target b p ≠ a.branch_target →
      (init_branch_prediction a s b p).1.branch_mispredicted = a.branch_mispredicted ∧
      (init_branch_prediction a s b p).2.fetch_stall = s.fetch_stall ∧
      (init_branch_prediction a s b p).2.instrs_to_read_this_cycle
        = s.instrs_to_read_this_cycle ∧
      (init_branch_prediction a s b p).2.branch_mispredictions = s.branch_mispredictions + 1) ∧
    ((a.is_branch = 0 ∨ predicted_branch_target b p = a.branch_target) →
      (init_branch_prediction a s b p).1.branch_mispredicted = a.branch_mispredicted ∧
      (init_branch_prediction a s b p).2.fetch_stall = s.fetch_stall ∧
      (init_branch_prediction a s b p).2.branch_mispredictions = s.branch_mispredictions) := by
  unfold init_branch_prediction predicted_branch_target
  simp only
  split_ifs <;> refine ⟨rfl, rfl, rfl, ?_, ?_, ?_⟩ <;> intros <;>
    first
    | exact ⟨rfl, rfl, rfl, rfl⟩
    | exact ⟨rfl, rfl, rfl⟩
    | (exfalso; simp_all)

theorem init_finish_outcome (P : Params) (a : ooo_model_instr) (s s' : O3_CPU)
    (b : Nat × Nat) (p n : Nat) (h : init_finish P a s b p = .ok (n, s')) :
    ∃ x : ooo_model_instr, s'.IFETCH_BUFFER.entries = s.IFETCH_BUFFER.entries ++ [x] ∧
      x.is_branch = a.is_branch ∧ x.branch_target = a.branch_target ∧
      (s.warmup_complete ≠ 0 → a.is_branch ≠ 0 →
        predicted_branch_target b p ≠ a.branch_target →
        x.branch_mispredicted = 1 ∧ s'.fetch_stall = 1 ∧ n = 0 ∧
        s'.branch_mispredictions = s.branch_mispredictions + 1) ∧
      (s.warmup_complete = 0 → a.is_branch ≠ 0 →
        predicted_branch_target b p ≠ a.branch_target →
        x.branch_mispredicted = a.branch_mispredicted ∧ s'.fetch_stall = s.fetch_stall ∧
        n = s.instrs_to_read_this_cycle ∧
        s'.branch_mispredictions = s.branch_mispredictions + 1) ∧
      ((a.is_branch = 0 ∨ predicted_branch_target b p = a.branch_target) →
        x.branch_mispredicted = a.branch_mispredicted ∧ s'.fetch_stall = s.fetch_stall ∧
        s'.branch_mispredictions = s.branch_mispredictions) := by
  unfold init_finish at h
  simp only at h
  obtain ⟨-, hI, -⟩ := init_branch_prediction_same a s b p
  obtain ⟨g1, g2, g3, g4, g5, g6⟩ := init_branch_prediction_outcome a s b p
  split at h
  · exact absurd h (by simp)
  rename_i buf hpush
  simp only [Outcome.ok.injEq, Prod.mk.injEq] at h
  obtain ⟨hn, rfl⟩ := h
  obtain ⟨q1, -, -⟩ := circular_buffer_push_entries _ _ _ hpush
  rw [hI] at q1
  obtain ⟨w1, w2, w3⟩ := init_fast_warmup_flag P
    { (init_branch_prediction a s b p).1 with
      event_cycle := (init_branch_prediction a s b p).2.current_core_cycle }
    (init_branch_prediction a s b p).2.warmup_complete
  refine ⟨_, q1, w2.trans g1, w3.trans g2, ?_, ?_, ?_⟩
  · intro hw hb hp
    obtain ⟨k1, k2, k3, k4⟩ := g4 hw hb hp
    exact ⟨w1.trans k1, k2, by rw [← hn]; exact k3, k4⟩
  · intro hw hb hp
    obtain ⟨k1, k2, k3, k4⟩ := g5 hw hb hp
    exact ⟨w1.trans k1, k2, by rw [← hn]; exact k3, k4⟩
  · intro hc
    obtain ⟨k1, k2, k3⟩ := g6 hc
    exact ⟨w1.trans k1, k2, k3⟩

/-- C30 (before warmup is complete): `init_instruction` reads the taken conditional
branch `branch_C`, predicted as not taken (predicted target 0, target `0x400100`), on a
core with `warmup_complete = 0`. The misprediction is counted, the record enters the
fetch buffer with `branch_mispredicted = 0`, `fetch_stall` stays 0, and the call returns
3, so the caller goes on reading. -/
theorem branch_before_warmup_is_not_flagged :
    core_start.warmup_complete = 0 ∧ predicted_branch_target (0, 0) 0 = 0 ∧
    init_instruction sample_params core_start branch_C (0, 0) 0 = .ok (3, branch_cold_read) ∧
    (last_read branch_cold_read).is_branch = 1 ∧
    (last_read branch_cold_read).branch_type = sample_params.BRANCH_CONDITIONAL ∧
    (last_read branch_cold_read).branch_target = 0x400100 ∧
    (last_read branch_cold_read).branch_mispredicted = 0 ∧
    branch_cold_read.fetch_stall = 0 ∧ branch_cold_read.branch_mispredictions = 1 := by
  decide

/-- C30, the statement that holds. A returning `init_instruction` pushes one record `x`.
For a branch whose predicted target (0 when the direction predictor says not taken and
the target predictor does not report always-taken) differs from its target, the
misprediction is counted; once warmup is complete the record is flagged
`branch_mispredicted`, `fetch_stall` is 1 and the call returns 0; before warmup is
complete the flag of the record and `fetch_stall` are as they were and the call returns
what is left of the budget. When the targets agree, or the record is not a branch, the
flag, `fetch_stall` and the counter of mispredictions are as they were. -/
theorem init_instruction_branch_outcome (P : Params) (s s' : O3_CPU) (a : ooo_model_instr)
    (btb_result : Nat × Nat) (branch_prediction n : Nat)
    (h : init_instruction P s a btb_result branch_prediction = .ok (n, s')) :
    ∃ x : ooo_model_instr, s'.IFETCH_BUFFER.entries = s.IFETCH_BUFFER.entries ++ [x] ∧
      (s.warmup_complete ≠ 0 → x.is_branch ≠ 0 →
        predicted_branch_target btb_result branch_prediction ≠ x.branch_target →
        x.branch_mispredicted = 1 ∧ s'.fetch_stall = 1 ∧ n = 0 ∧
        s'.branch_mispredictions = s.branch_mispredictions + 1) ∧
      (s.warmup_complete = 0 → x.is_branch ≠ 0 →
        predicted_branch_target btb_result branch_prediction ≠ x.branch_target →
        x.branch_mispredicted = a.branch_mispredicted ∧ s'.fetch_stall = s.fetch_stall ∧
        n = (init_fetch_budget P s).instrs_to_read_this_cycle ∧
        s'.branch_mispredictions = s.branch_mispredictions + 1) ∧
      ((x.is_branch = 0 ∨
          predicted_branch_target btb_result branch_prediction = x.branch_target) →
        x.branch_mispredicted = a.branch_mispredicted ∧ s'.fetch_stall = s.fetch_stall ∧
        s'.branch_mispredictions = s.branch_mispredictions) := by
  obtain ⟨a6, s3, hf, e1, e2, e3, e4, e5, e6⟩ :=
    init_instruction_finish P s s' a btb_result branch_prediction n h
  obtain ⟨x, x1, x2, x3, x4, x5, x6⟩ :=
    init_finish_outcome P a6 s3 s' btb_result branch_prediction n hf
  refine ⟨x, by rw [x1, e6], ?_, ?_, ?_⟩
  · intro hw hb hp
    have := x4 (by rw [e5]; exact hw) (by rw [← x2]; exact hb) (by rw [← x3]; exact hp)
    rw [e4] at this
    exact this
  · intro hw hb hp
    have := x5 (by rw [e5]; exact hw) (by rw [← x2]; exact hb) (by rw [← x3]; exact hp)
    rw [e1, e3, e2, e4] at this
    exact this
  · intro hc
    have := x6 (by rw [← x2, ← x3]; exact hc)
    rw [e1, e3, e4] at this
    exact this

theorem init_instruction_branch_outcome_witness :
    (init_instruction sample_params core_warm branch_C (0, 0) 0 = .ok (0, branch_warm_read) ∧
     init_instruction sample_params core_warm branch_C (0x400100, 0) 1
       = .ok (0, branch_hit_read) ∧
     core_warm.warmup_complete ≠ 0 ∧ (last_read branch_warm_read).is_branch ≠ 0 ∧
     predicted_branch_target (0, 0) 0 ≠ (last_read branch_warm_read).branch_target ∧
     predicted_branch_target (0x400100, 0) 1 = (last_read branch_hit_read).branch_target) ∧
    ((last_read branch_warm_read).branch_mispredicted = 1 ∧ branch_warm_read.fetch_stall = 1 ∧
      branch_warm_read.branch_mispredictions = core_warm.branch_mispredictions + 1) ∧
    ((last_read branch_hit_read).branch_mispredicted = branch_C.branch_mispredicted ∧
      branch_hit_read.fetch_stall = core_warm.fetch_stall ∧
      branch_hit_read.branch_mispredictions = core_warm.branch_mispredictions) := by
  have e1 : init_instruction sample_params core_warm branch_C (0, 0) 0
      = .ok (0, branch_warm_read) := by decide
  have e2 : init_instruction sample_params core_warm branch_C (0x400100, 0) 1
      = .ok (0, branch_hit_read) := by decide
  obtain ⟨x, hx, h1, -, -⟩ :=
    init_instruction_branch_outcome sample_params core_warm branch_warm_read branch_C (0, 0) 0 0
      e1
  have hx' : x = last_read branch_warm_read := by
    unfold last_read
    rw [hx]
    simp
  subst hx'
  obtain ⟨y, hy, -, -, h3⟩ :=
    init_instruction_branch_outcome sample_params core_warm branch_hit_read branch_C
      (0x400100, 0) 1 0 e2
  have hy' : y = last_read branch_hit_read := by
    unfold last_read
    rw [hy]
    simp
  subst hy'
  have k1 := h1 (by decide) (by decide) (by decide)
  have k3 := h3 (Or.inr (by decide))
  exact ⟨⟨e1, e2, by decide, by decide, by decide, by decide⟩, ⟨k1.1, k1.2.1, k1.2.2.2⟩, k3⟩

/-! ## Examples: the cursor of the page-table pages -/

/-- C26: a `get_pte_pa` call for a tuple not seen before, on a pool whose front is
`0x101000`. With page-table pages of 4096 bytes (`page_size == PAGE_SIZE`) the cursor
advances from `0x100000` to `0x101000`, a multiple of `PAGE_SIZE`, and no page is taken
from the pool, whose front the cursor now equals. With page-table pages of 2048 bytes
the advanced cursor `0x100800` has not crossed a page boundary, and the front of the
pool is popped and becomes the cursor. -/
theorem get_pte_pa_draws_inside_page :
    (small_vm 3).page_size = 4096 ∧ (small_vm 3).next_pte_page = 0x100000 ∧
    (small_vm 3).ppage_free_list = [0x101000, 0x102000] ∧ (small_vm 3).page_table = [] ∧
    get_pte_pa 12 (small_vm 3) 0 0 0 = .ok pte_first ∧
    add64 (small_vm 3).next_pte_page (small_vm 3).page_size % PAGE_SIZE 12 = 0 ∧
    pte_first.2.next_pte_page = 0x101000 ∧
    pte_first.2.ppage_free_list = [0x101000, 0x102000] ∧
    (half_vm 3).page_size = 2048 ∧ (half_vm 3).next_pte_page = 0x100000 ∧
    (half_vm 3).ppage_free_list = [0x101000, 0x102000] ∧ (half_vm 3).page_table = [] ∧
    get_pte_pa 12 (half_vm 3) 0 0 0 = .ok half_first ∧
    add64 (half_vm 3).next_pte_page (half_vm 3).page_size = 0x100800 ∧
    half_first.2.next_pte_page = 0x101000 ∧ half_first.2.ppage_free_list = [0x102000] := by
  decide

/-! ## Lemmas: a load that finds its producer -/

theorem add_load_queue_producer_shape (P : Params) (s : O3_CPU) (rob_it i lq_it : Nat)
    (x prior : ooo_model_instr) (hq : find_if_not_valid s.LQ = some lq_it)
    (hx : rob_find s.ROB.entries rob_it = some x)
    (hprior : (older_records s.ROB.entries rob_it).find?
      (instr_mem_will_produce (x.source_memory.getD i 0)) = some prior) :
    add_load_queue P s rob_it i =
      if s.SQ.findIdx (sq_will_forward prior.instr_id (x.source_memory.getD i 0)) < s.SQ.length
      then do_sq_forward_to_lq P (load_waits P s rob_it i lq_it x prior)
        (s.SQ.findIdx (sq_will_forward prior.instr_id (x.source_memory.getD i 0))) lq_it
      else .ok (load_waits P s rob_it i lq_it x prior) := by
  unfold add_load_queue
  rw [hq]
  simp only [hx]
  have hva : (load_queue_entry P s.current_core_cycle (s.LQ.getD lq_it {}) x rob_it i).virtual_address
      = x.source_memory.getD i 0 := rfl
  rw [hva, hprior]
  rfl

theorem mem_older_records (rob : List ooo_model_instr) (id : Nat) (e : ooo_model_instr)
    (h : e ∈ older_records rob id) : e ∈ rob := by
  unfold older_records at h
  exact List.mem_of_mem_take (List.mem_reverse.mp h)

theorem rob_find_of_mem (rob : List ooo_model_instr) (hn : (ids rob).Nodup)
    (e : ooo_model_instr) (he : e ∈ rob) : rob_find rob e.instr_id = some e := by
  induction rob with
  | nil => exact absurd he (List.not_mem_nil _)
  | cons a rest ih =>
    unfold rob_find
    simp only [ids, List.map_cons, List.nodup_cons, List.mem_map, not_exists, not_and] at hn
    rcases List.mem_cons.mp he with rfl | hmem
    · simp [List.find?_cons]
    · have hne : a.instr_id ≠ e.instr_id := fun heq => hn.1 e hmem heq.symm
      rw [List.find?_cons]
      have : (a.instr_id == e.instr_id) = false := by simpa using hne
      rw [this]
      exact ih hn.2 hmem

theorem sq_findIdx_lt_iff (q : List LSQ_ENTRY) (f : LSQ_ENTRY → Bool) :
    q.findIdx f < q.length ↔ ∃ e ∈ q, f e = true := List.findIdx_lt_length

theorem load_waits_find (P : Params) (s : O3_CPU) (rob_it i lq_it id : Nat)
    (x prior : ooo_model_instr) :
    rob_find (load_waits P s rob_it i lq_it x prior).ROB.entries id
      = (rob_find s.ROB.entries id).map fun e =>
          if (if e.instr_id = rob_it then mark_load_added i lq_it e else e).instr_id
              = prior.instr_id
          then add_dependent rob_it (if e.instr_id = rob_it then mark_load_added i lq_it e else e)
          else (if e.instr_id = rob_it then mark_load_added i lq_it e else e) := by
  unfold load_waits update_rob
  simp only
  rw [rob_find_modify _ _ _ (add_dependent rob_it) (fun e => rfl),
    rob_find_modify _ _ _ (mark_load_added i lq_it) (fun e => rfl), Option.map_map]
  rfl

theorem load_waits_lists (P : Params) (s : O3_CPU) (rob_it i lq_it id : Nat)
    (x prior y : ooo_model_instr) (hy : rob_find s.ROB.entries id = some y) :
    ∃ y', rob_find (load_waits P s rob_it i lq_it x prior).ROB.entries id = some y' ∧
      y'.instr_id = y.instr_id ∧ y'.num_mem_ops = y.num_mem_ops ∧
      y'.event_cycle = y.event_cycle ∧
      y'.memory_instrs_depend_on_me
        = (if id = prior.instr_id then y.memory_instrs_depend_on_me ++ [rob_it]
           else y.memory_instrs_depend_on_me) := by
  have hid := rob_find_id _ _ _ hy
  rw [load_waits_find, hy]
  simp only [Option.map_some', Option.some.injEq, exists_eq_left']
  have h1 : (if y.instr_id = rob_it then mark_load_added i lq_it y else y).instr_id = id := by
    split_ifs <;> exact hid
  rw [h1]
  by_cases hp : id = prior.instr_id
  · rw [if_pos hp, if_pos hp]
    split_ifs <;> exact ⟨rfl, rfl, rfl, rfl⟩
  · rw [if_neg hp, if_neg hp]
    split_ifs <;> exact ⟨rfl, rfl, rfl, rfl⟩

theorem length_set_lq (q : List LSQ_ENTRY) (i : Nat) (e : LSQ_ENTRY) :
    (q.set i e).length = q.length := List.length_set _ _ _

/-- What a returning `add_load_queue` leaves when the load `x` has the producer `prior`:
without a store-queue entry that forwards, the state `load_waits`; with one, that state
after the forwarding to the slot of the load. -/
theorem add_load_queue_producer_cases (P : Params) (s s' : O3_CPU) (rob_it i lq_it : Nat)
    (x prior : ooo_model_instr) (hq : find_if_not_valid s.LQ = some lq_it)
    (hx : rob_find s.ROB.entries rob_it = some x)
    (hprior : (older_records s.ROB.entries rob_it).find?
      (instr_mem_will_produce (x.source_memory.getD i 0)) = some prior)
    (h : add_load_queue P s rob_it i = .ok s') :
    ((∀ e ∈ s.SQ, sq_will_forward prior.instr_id (x.source_memory.getD i 0) e = false) →
      s' = load_waits P s rob_it i lq_it x prior) ∧
    ((∃ e ∈ s.SQ, sq_will_forward prior.instr_id (x.source_memory.getD i 0) e = true) →
      s'.LQ = s.LQ.set lq_it {} ∧ s'.RTL0 = s.RTL0 ∧
      s'.ROB = (update_rob (load_waits P s rob_it i lq_it x prior) rob_it
        (forwarded_instr P s.current_core_cycle)).ROB) := by
  rw [add_load_queue_producer_shape P s rob_it i lq_it x prior hq hx hprior] at h
  have hlt : lq_it < s.LQ.length := (find_if_not_valid_some s.LQ lq_it hq).1
  constructor
  · intro hno
    have : ¬ s.SQ.findIdx (sq_will_forward prior.instr_id (x.source_memory.getD i 0))
        < s.SQ.length := by
      rw [sq_findIdx_lt_iff]
      rintro ⟨e, he, hf⟩
      rw [hno e he] at hf
      exact absurd hf (by simp)
    rw [if_neg this] at h
    simp only [Outcome.ok.injEq] at h
    exact h.symm
  · intro hyes
    rw [if_pos ((sq_findIdx_lt_iff _ _).mpr hyes)] at h
    obtain ⟨hfr, -, hLQ, sq2, lq2, id2, x2, g1, g2, g3, g4, hROB⟩ :=
      do_sq_forward_to_lq_frame P _ s' _ lq_it h
    have hid2 : id2 = rob_it := by
      simp only [load_waits] at g2
      rw [List.get?_eq_getElem?, List.getElem?_set, if_pos rfl, if_pos hlt] at g2
      simp only [Option.some.injEq] at g2
      subst g2
      simp only [waiting_entry, load_queue_entry, Option.some.injEq] at g3
      exact g3.symm
    subst hid2
    refine ⟨?_, by rw [hfr]; rfl, hROB⟩
    rw [hLQ]
    simp only [load_waits, List.set_set]

/-- C23 (forwarding at once): the store to `0x7000` (instruction 0) has been executed,
its store-queue entry is ready, and `add_load_queue` admits the load from `0x7000`
(instruction 1) to slot 0. The store is older and writes the address, and the load is
appended to its `memory_instrs_depend_on_me`; the slot of the load, however, is left
reset to empty: `producer_id` is `UINT64_MAX` and `translated` is 0, not `INFLIGHT`. -/
theorem add_load_queue_forwarded_slot_is_reset :
    find_if_not_valid stl_store_executed.LQ = some 0 ∧
    (older_records stl_store_executed.ROB.entries 1).map
      (fun e => (e.instr_id, e.destination_memory)) = [(0, [0x7000])] ∧
    stl_load_record.source_memory.getD 0 0 = 0x7000 ∧
    (stl_store_executed.SQ.map fun e => (e.instr_id, e.virtual_address, e.fetched))
      = [(0, 0x7000, COMPLETED), (0, 0, 0)] ∧
    add_load_queue sample_params stl_store_executed 1 0 = .ok stl_forwarded_late ∧
    stl_forwarded_late.LQ.get? 0 = some {} ∧
    (stl_forwarded_late.LQ.getD 0 {}).producer_id = UINT64_MAX ∧
    (stl_forwarded_late.LQ.getD 0 {}).translated = 0 ∧
    (stl_forwarded_late.ROB.entries.map fun e => (e.instr_id, e.memory_instrs_depend_on_me))
      = [(0, [1]), (1, [])] ∧
    stl_forwarded_late.RTL0 = [] := by
  decide

/-- C23, the statement that holds. A returning `add_load_queue` for operand `i` of the
record `x` (ROB ids distinct, `lq_it` the first slot that is not valid): when no older
record writes the address, the slot keeps the `producer_id` it had and is pushed onto
`RTL0`, and no dependency list changes. When the older records are `nearer`, then
`prior`, then `farther` (the nearest first), `prior` writes the address and no record of
`nearer` does, the slot is not pushed onto `RTL0`, the record of `prior` has `x` appended
to `memory_instrs_depend_on_me` and no other list changes; without a store-queue entry
that forwards, the slot holds the entry of the load with `producer_id = prior.instr_id`
and `translated = INFLIGHT`; with one, forwarding has left the slot reset to empty. -/
theorem add_load_queue_marks_producer (P : Params) (s s' : O3_CPU) (rob_it i lq_it : Nat)
    (x : ooo_model_instr) (hq : find_if_not_valid s.LQ = some lq_it)
    (hx : rob_find s.ROB.entries rob_it = some x) (hnodup : (ids s.ROB.entries).Nodup)
    (h : add_load_queue P s rob_it i = .ok s') :
    ((∀ e ∈ older_records s.ROB.entries rob_it,
        x.source_memory.getD i 0 ∉ e.destination_memory) →
      s'.LQ.get? lq_it
        = some (load_queue_entry P s.current_core_cycle (s.LQ.getD lq_it {}) x rob_it i) ∧
      (load_queue_entry P s.current_core_cycle (s.LQ.getD lq_it {}) x rob_it i).producer_id
        = (s.LQ.getD lq_it {}).producer_id ∧
      s'.RTL0 = s.RTL0 ++ [lq_it] ∧
      ∀ id y, rob_find s.ROB.entries id = some y →
        ∃ y', rob_find s'.ROB.entries id = some y' ∧
          y'.memory_instrs_depend_on_me = y.memory_instrs_depend_on_me) ∧
    (∀ (prior : ooo_model_instr) (nearer farther : List ooo_model_instr),
      older_records s.ROB.entries rob_it = nearer ++ prior :: farther →
      (∀ e ∈ nearer, x.source_memory.getD i 0 ∉ e.destination_memory) →
      x.source_memory.getD i 0 ∈ prior.destination_memory →
      s'.RTL0 = s.RTL0 ∧
      (∃ y', rob_find s'.ROB.entries prior.instr_id = some y' ∧
        y'.memory_instrs_depend_on_me = prior.memory_instrs_depend_on_me ++ [rob_it]) ∧
      (∀ id y, id ≠ prior.instr_id → rob_find s.ROB.entries id = some y →
        ∃ y', rob_find s'.ROB.entries id = some y' ∧
          y'.memory_instrs_depend_on_me = y.memory_instrs_depend_on_me) ∧
      ((∀ e ∈ s.SQ, sq_will_forward prior.instr_id (x.source_memory.getD i 0) e = false) →
        s'.LQ.get? lq_it = some (waiting_entry
          (load_queue_entry P s.current_core_cycle (s.LQ.getD lq_it {}) x rob_it i) prior)) ∧
      ((∃ e ∈ s.SQ, sq_will_forward prior.instr_id (x.source_memory.getD i 0) e = true) →
        s'.LQ.get? lq_it = some {})) := by
  have hlt : lq_it < s.LQ.length := (find_if_not_valid_some s.LQ lq_it hq).1
  have hget : ∀ e : LSQ_ENTRY, (s.LQ.set lq_it e).get? lq_it = some e := by
    intro e
    rw [List.get?_eq_getElem?, List.getElem?_set, if_pos rfl, if_pos hlt]
  constructor
  · intro hnone
    rw [add_load_queue_no_producer P s rob_it i lq_it x hq hx hnone] at h
    simp only [Outcome.ok.injEq] at h
    subst h
    refine ⟨hget _, rfl, rfl, ?_⟩
    intro id y hy
    simp only [update_rob]
    rw [rob_find_modify _ _ _ (mark_load_added i lq_it) (fun e => rfl), hy]
    simp only [Option.map_some', Option.some.injEq, exists_eq_left']
    split_ifs <;> rfl
  · intro prior nearer farther hsplit hnear hprod
    have hprior : (older_records s.ROB.entries rob_it).find?
        (instr_mem_will_produce (x.source_memory.getD i 0)) = some prior := by
      rw [hsplit, List.find?_append]
      have hn : nearer.find? (instr_mem_will_produce (x.source_memory.getD i 0)) = none := by
        rw [List.find?_eq_none]
        intro e he
        unfold instr_mem_will_produce
        simpa using hnear e he
      rw [hn]
      simp only [Option.none_or, List.find?_cons]
      have : instr_mem_will_produce (x.source_memory.getD i 0) prior = true := by
        unfold instr_mem_will_produce
        simpa using hprod
      rw [this]
    have hmem : prior ∈ s.ROB.entries :=
      mem_older_records _ rob_it _ (by rw [hsplit]; simp)
    have hfind := rob_find_of_mem _ hnodup prior hmem
    obtain ⟨c1, c2⟩ := add_load_queue_producer_cases P s s' rob_it i lq_it x prior hq hx hprior h
    have hlists : ∀ id y, rob_find s.ROB.entries id = some y →
        ∃ y', rob_find s'.ROB.entries id = some y' ∧
          y'.memory_instrs_depend_on_me
            = (if id = prior.instr_id then y.memory_instrs_depend_on_me ++ [rob_it]
               else y.memory_instrs_depend_on_me) := by
      intro id y hy
      obtain ⟨y1, hy1, -, -, -, hl⟩ := load_waits_lists P s rob_it i lq_it id x prior y hy
      by_cases hsq : ∃ e ∈ s.SQ,
          sq_will_forward prior.instr_id (x.source_memory.getD i 0) e = true
      · obtain ⟨-, -, hROB⟩ := c2 hsq
        rw [hROB]
        simp only [update_rob]
        rw [rob_find_modify _ _ _ (forwarded_instr P s.current_core_cycle)
          (forwarded_instr_id P _), hy1]
        simp only [Option.map_some', Option.some.injEq, exists_eq_left']
        rw [← hl]
        unfold forwarded_instr
        split_ifs <;> rfl
      · have hno : ∀ e ∈ s.SQ,
            sq_will_forward prior.instr_id (x.source_memory.getD i 0) e = false := by
          intro e he
          by_contra hc
          exact hsq ⟨e, he, by simpa using hc⟩
        rw [c1 hno]
        exact ⟨y1, hy1, hl⟩
    refine ⟨?_, ?_, ?_, ?_, ?_⟩
    · by_cases hsq : ∃ e ∈ s.SQ,
          sq_will_forward prior.instr_id (x.source_memory.getD i 0) e = true
      · exact (c2 hsq).2.1
      · have hno : ∀ e ∈ s.SQ,
            sq_will_forward prior.instr_id (x.source_memory.getD i 0) e = false := by
          intro e he
          by_contra hc
          exact hsq ⟨e, he, by simpa using hc⟩
        rw [c1 hno]
        rfl
    · obtain ⟨y', hy', hl⟩ := hlists prior.instr_id prior hfind
      rw [if_pos rfl] at hl
      exact ⟨y', hy', hl⟩
    · intro id y hne hy
      obtain ⟨y', hy', hl⟩ := hlists id y hy
      rw [if_neg hne] at hl
      exact ⟨y', hy', hl⟩
    · intro hno
      rw [c1 hno]
      exact hget _
    · intro hyes
      rw [(c2 hyes).1]
      exact hget _

theorem add_load_queue_marks_producer_witness :
    (find_if_not_valid stl_store_translated.LQ = some 0 ∧
     rob_find stl_store_translated.ROB.entries 1 = some stl_load_unqueued ∧
     (ids stl_store_translated.ROB.entries).Nodup ∧
     add_load_queue sample_params stl_store_translated 1 0 = .ok stl_load_queued_early ∧
     older_records stl_store_translated.ROB.entries 1 = [] ++ stl_store_waiting :: [] ∧
     stl_load_unqueued.source_memory.getD 0 0 ∈ stl_store_waiting.destination_memory ∧
     ∀ e ∈ stl_store_translated.SQ,
       sq_will_forward stl_store_waiting.instr_id (stl_load_unqueued.source_memory.getD 0 0) e
         = false) ∧
    stl_load_queued_early.RTL0 = stl_store_translated.RTL0 ∧
    (∃ y', rob_find stl_load_queued_early.ROB.entries stl_store_waiting.instr_id = some y' ∧
      y'.memory_instrs_depend_on_me = stl_store_waiting.memory_instrs_depend_on_me ++ [1]) ∧
    stl_load_queued_early.LQ.get? 0 = some (waiting_entry
      (load_queue_entry sample_params stl_store_translated.current_core_cycle
        (stl_store_translated.LQ.getD 0 {}) stl_load_unqueued 1 0) stl_store_waiting) :=
  have h := (add_load_queue_marks_producer sample_params stl_store_translated
    stl_load_queued_early 1 0 0 stl_load_unqueued (by decide) (by decide) (by decide)
    (by decide)).2 stl_store_waiting [] [] (by decide) (by decide) (by decide)
  ⟨⟨by decide, by decide, by decide, by decide, by decide, by decide, by decide⟩,
    h.1, h.2.1, h.2.2.2.1 (by decide)⟩

/-- C27: a returning `add_load_queue` for operand `i` of the record `x` whose producer
`prior` was found. When some store-queue entry has `fetched == COMPLETED`, the id of the
producer and the virtual address of the load, forwarding happens at once: `num_mem_ops`
of the record of the load is one less, its `event_cycle` is the current cycle, the slot
of the load is reset to the empty entry, every other slot is as before and nothing is
pushed onto `RTL0`. When no store-queue entry is such, nothing is forwarded: the slot
holds the entry of the load with `translated == INFLIGHT`, valid for a non-zero address,
`num_mem_ops` and `event_cycle` of the record and the counter `inflight_mem_executions`
are as before. -/
theorem add_load_queue_forwards_when_ready (P : Params) (s s' : O3_CPU)
    (rob_it i lq_it : Nat) (x prior : ooo_model_instr)
    (hq : find_if_not_valid s.LQ = some lq_it)
    (hx : rob_find s.ROB.entries rob_it = some x)
    (hprior : (older_records s.ROB.entries rob_it).find?
      (instr_mem_will_produce (x.source_memory.getD i 0)) = some prior)
    (h : add_load_queue P s rob_it i = .ok s') :
    ((∃ e ∈ s.SQ, sq_will_forward prior.instr_id (x.source_memory.getD i 0) e = true) →
      s'.LQ = s.LQ.set lq_it {} ∧ s'.RTL0 = s.RTL0 ∧
      ∃ x', rob_find s'.ROB.entries rob_it = some x' ∧
        x'.num_mem_ops = x.num_mem_ops - 1 ∧ x'.event_cycle = s.current_core_cycle) ∧
    ((∀ e ∈ s.SQ, sq_will_forward prior.instr_id (x.source_memory.getD i 0) e = false) →
      s'.LQ = s.LQ.set lq_it (waiting_entry
        (load_queue_entry P s.current_core_cycle (s.LQ.getD lq_it {}) x rob_it i) prior) ∧
      (waiting_entry
        (load_queue_entry P s.current_core_cycle (s.LQ.getD lq_it {}) x rob_it i)
        prior).translated = INFLIGHT ∧
      (x.source_memory.getD i 0 ≠ 0 →
        is_valid (waiting_entry
          (load_queue_entry P s.current_core_cycle (s.LQ.getD lq_it {}) x rob_it i)
          prior) = true) ∧
      s'.inflight_mem_executions = s.inflight_mem_executions ∧
      ∃ x', rob_find s'.ROB.entries rob_it = some x' ∧
        x'.num_mem_ops = x.num_mem_ops ∧ x'.event_cycle = x.event_cycle) := by
  obtain ⟨c1, c2⟩ := add_load_queue_producer_cases P s s' rob_it i lq_it x prior hq hx hprior h
  obtain ⟨x1, hx1, -, n1, n2, -⟩ := load_waits_lists P s rob_it i lq_it rob_it x prior x hx
  constructor
  · intro hyes
    obtain ⟨k1, k2, k3⟩ := c2 hyes
    refine ⟨k1, k2, forwarded_instr P s.current_core_cycle x1, ?_, ?_, ?_⟩
    · rw [k3, rob_find_update_self _ _ _ (forwarded_instr_id P _), hx1]
      rfl
    · rw [← n1]
      unfold forwarded_instr
      split_ifs <;> rfl
    · unfold forwarded_instr
      rfl
  · intro hno
    rw [c1 hno]
    refine ⟨rfl, rfl, ?_, rfl, x1, hx1, n1, n2⟩
    intro hA
    unfold is_valid waiting_entry load_queue_entry
    simpa using hA

theorem add_load_queue_forwards_when_ready_witness :
    (find_if_not_valid stl_store_executed.LQ = some 0 ∧
     rob_find stl_store_executed.ROB.entries 1 = some stl_load_record ∧
     (older_records stl_store_executed.ROB.entries 1).find?
       (instr_mem_will_produce (stl_load_record.source_memory.getD 0 0))
         = some stl_store_record ∧
     add_load_queue sample_params stl_store_executed 1 0 = .ok stl_forwarded_late ∧
     ∃ e ∈ stl_store_executed.SQ,
       sq_will_forward stl_store_record.instr_id (stl_load_record.source_memory.getD 0 0) e
         = true) ∧
    stl_forwarded_late.LQ = stl_store_executed.LQ.set 0 {} ∧
    stl_forwarded_late.RTL0 = stl_store_executed.RTL0 ∧
    ∃ x', rob_find stl_forwarded_late.ROB.entries 1 = some x' ∧
      x'.num_mem_ops = stl_load_record.num_mem_ops - 1 ∧
      x'.event_cycle = stl_store_executed.current_core_cycle :=
  ⟨⟨by decide, by decide, by decide, by decide, by decide⟩,
    (add_load_queue_forwards_when_ready sample_params stl_store_executed stl_forwarded_late
      1 0 0 stl_load_record stl_store_record (by decide) (by decide) (by decide)
      (by decide)).1 (by decide)⟩

/-! ## Lemmas: the slots that a store forwards to -/

theorem forward_fields_refl (e : ooo_model_instr) : forward_fields e e := rfl

theorem forwarded_instr_forward (P : Params) (c : Nat) (e : ooo_model_instr) :
    forward_fields e (forwarded_instr P c e) := by
  unfold forward_fields forwarded_instr
  simp only
  split_ifs <;> rfl

theorem store_done_forward (c : Nat) (e : ooo_model_instr) :
    forward_fields e (store_done c e) := rfl

theorem operand_slot_fields (sq_entry sq_entry1 : LSQ_ENTRY) (e e' : ooo_model_instr) (j : Nat)
    (h : forward_fields e e') (hva : sq_entry1.virtual_address = sq_entry.virtual_address) :
    operand_slot sq_entry1 e' j = operand_slot sq_entry e j := by
  unfold operand_slot
  rw [h, hva]

/-- The slot of a pair depends on the state through the record of the dependent, up to
the fields that forwarding writes, and through the entry of the load queue. -/
theorem forward_target_congr (s s1 : O3_CPU) (sq_entry sq_entry1 : LSQ_ENTRY) (dj : Nat × Nat)
    (o : Nat) (f : ooo_model_instr → ooo_model_instr) (hf : ∀ e, forward_fields e (f e))
    (hid : ∀ e, (f e).instr_id = e.instr_id)
    (hrob : s1.ROB = (update_rob s o f).ROB)
    (hva : sq_entry1.virtual_address = sq_entry.virtual_address)
    (hii : sq_entry1.instr_id = sq_entry.instr_id) :
    forward_target s1 sq_entry1 dj
      = ((rob_find s.ROB.entries dj.1).bind fun dep => operand_slot sq_entry dep dj.2).bind
          (waits_for s1 sq_entry) := by
  unfold forward_target
  have hw : waits_for s1 sq_entry1 = waits_for s1 sq_entry := by
    funext k
    unfold waits_for
    rw [hii]
  rw [hw, hrob]
  simp only [update_rob]
  rw [rob_find_modify _ _ _ f hid]
  cases rob_find s.ROB.entries dj.1 with
  | none => rfl
  | some dep =>
    simp only [Option.map_some', Option.some_bind]
    split_ifs
    · rw [operand_slot_fields sq_entry sq_entry1 dep (f dep) dj.2 (hf dep) hva]
    · rw [operand_slot_fields sq_entry sq_entry1 dep dep dj.2 (forward_fields_refl dep) hva]

theorem waits_for_some (s : O3_CPU) (sq_entry : LSQ_ENTRY) (k k' : Nat)
    (h : waits_for s sq_entry k = some k') :
    k' = k ∧ ∃ e, s.LQ.get? k = some e ∧ e.producer_id = sq_entry.instr_id := by
  unfold waits_for at h
  split at h
  · rename_i e he
    split_ifs at h with hp
    simp only [Option.some.injEq] at h
    exact ⟨h.symm, e, he, hp⟩
  · simp at h

theorem waits_for_reset (s s1 : O3_CPU) (sq_entry : LSQ_ENTRY) (k p : Nat)
    (hLQ : s1.LQ = s.LQ.set k {}) (hmax : sq_entry.instr_id ≠ UINT64_MAX) :
    waits_for s1 sq_entry p = if p = k then none else waits_for s sq_entry p := by
  unfold waits_for
  rw [hLQ]
  by_cases hp : p = k
  · subst hp
    rw [if_pos rfl, List.get?_eq_getElem?, List.getElem?_set]
    simp only [if_true]
    split_ifs with hlt
    · simp only
      rw [if_neg]
      intro h
      exact hmax h.symm
    · rfl
  · rw [if_neg hp, List.get?_eq_getElem?, List.get?_eq_getElem?, List.getElem?_set,
      if_neg (fun h => hp h.symm)]

/-- After the forwarding to slot `k` the pairs have the slots they had, except the pairs
of slot `k`, which have none. -/
theorem forward_target_reset (s s1 : O3_CPU) (sq_entry : LSQ_ENTRY) (dj : Nat × Nat)
    (o k : Nat) (f : ooo_model_instr → ooo_model_instr) (hf : ∀ e, forward_fields e (f e))
    (hid : ∀ e, (f e).instr_id = e.instr_id)
    (hrob : s1.ROB = (update_rob s o f).ROB) (hLQ : s1.LQ = s.LQ.set k {})
    (hmax : sq_entry.instr_id ≠ UINT64_MAX) :
    forward_target s1 sq_entry dj
      = if forward_target s sq_entry dj = some k then none else forward_target s sq_entry dj := by
  rw [forward_target_congr s s1 sq_entry sq_entry dj o f hf hid hrob rfl rfl]
  unfold forward_target
  cases (rob_find s.ROB.entries dj.1).bind fun dep => operand_slot sq_entry dep dj.2 with
  | none => simp
  | some p =>
    simp only [Option.some_bind]
    rw [waits_for_reset s s1 sq_entry k p hLQ hmax]
    by_cases hp : p = k
    · subst hp
      rw [if_pos rfl]
      cases hw : waits_for s sq_entry p with
      | none => simp
      | some q =>
        obtain ⟨rfl, -⟩ := waits_for_some s sq_entry p q hw
        simp
    · rw [if_neg hp]
      cases hw : waits_for s sq_entry p with
      | none => simp
      | some q =>
        obtain ⟨rfl, -⟩ := waits_for_some s sq_entry p q hw
        rw [if_neg]
        simpa using hp

/-- One round of the inner loop of `execute_store` that returns: without a slot for the
pair nothing changes; with the slot `k` the round is the forwarding to `k`. -/
theorem execute_store_forward_target (P : Params) (s s' : O3_CPU) (sq_it d j : Nat)
    (sq_entry : LSQ_ENTRY) (hsq : s.SQ.get? sq_it = some sq_entry)
    (h : execute_store_forward P sq_it d j s = .ok s') :
    (forward_target s sq_entry (d, j) = none ∧ s' = s) ∨
    ∃ k, forward_target s sq_entry (d, j) = some k ∧
      do_sq_forward_to_lq P s sq_it k = .ok s' := by
  unfold execute_store_forward at h
  rw [hsq] at h
  unfold forward_target
  cases hd : rob_find s.ROB.entries d with
  | none => rw [hd] at h; simp at h
  | some dep =>
    rw [hd] at h
    simp only [Option.some_bind] at h ⊢
    unfold operand_slot
    by_cases h1 : dep.source_memory.getD j 0 ≠ 0 ∧ dep.source_added.getD j 0 ≠ 0
    · rw [if_pos h1] at h
      by_cases h2 : dep.source_memory.getD j 0 = sq_entry.virtual_address
      · rw [if_pos h2] at h
        rw [if_pos ⟨h1.1, h1.2, h2⟩]
        cases hl : dep.lq_index.getD j none with
        | none => rw [hl] at h; simp at h
        | some lq_it =>
          rw [hl] at h
          simp only [Option.some_bind] at h ⊢
          unfold waits_for
          cases hq : s.LQ.get? lq_it with
          | none => rw [hq] at h; simp at h
          | some lq_entry =>
            rw [hq] at h
            simp only at h ⊢
            by_cases hp : lq_entry.producer_id = sq_entry.instr_id
            · rw [if_pos hp] at h
              rw [if_pos hp]
              exact Or.inr ⟨lq_it, rfl, h⟩
            · rw [if_neg hp] at h
              rw [if_neg hp]
              simp only [Outcome.ok.injEq] at h
              exact Or.inl ⟨rfl, h.symm⟩
      · rw [if_neg h2] at h
        simp only [Outcome.ok.injEq] at h
        rw [if_neg (fun hc => h2 hc.2.2)]
        exact Or.inl ⟨rfl, h.symm⟩
    · rw [if_neg h1] at h
      simp only [Outcome.ok.injEq] at h
      rw [if_neg (fun hc => h1 ⟨hc.1, hc.2.1⟩)]
      exact Or.inl ⟨rfl, h.symm⟩

theorem forward_target_lt (s : O3_CPU) (sq_entry : LSQ_ENTRY) (dj : Nat × Nat) (k : Nat)
    (h : forward_target s sq_entry dj = some k) :
    ∃ e, s.LQ.get? k = some e ∧ e.producer_id = sq_entry.instr_id := by
  unfold forward_target at h
  cases hb : (rob_find s.ROB.entries dj.1).bind fun dep => operand_slot sq_entry dep dj.2 with
  | none => rw [hb] at h; simp at h
  | some p =>
    rw [hb] at h
    simp only [Option.some_bind] at h
    obtain ⟨rfl, he⟩ := waits_for_some s sq_entry p k h
    exact he

/-- The loops of `execute_store` over a list of pairs: the list `ks` of the slots that
were forwarded to, each once. -/
theorem execute_store_forwards_slots (P : Params) (sq_it : Nat) (sq_entry : LSQ_ENTRY)
    (hmax : sq_entry.instr_id ≠ UINT64_MAX) (l : List (Nat × Nat)) :
    ∀ s s' : O3_CPU, execute_store_forwards P sq_it l s = .ok s' →
      s.SQ.get? sq_it = some sq_entry →
      s'.SQ = s.SQ ∧ s'.current_core_cycle = s.current_core_cycle ∧
      ∃ ks : List Nat, ks.Nodup ∧
        (∀ k, k ∈ ks ↔ ∃ dj ∈ l, forward_target s sq_entry dj = some k) ∧
        (∀ k e, s.LQ.get? k = some e →
          s'.LQ.get? k = some (if k ∈ ks then {} else e)) ∧
        (∀ id y, rob_find s.ROB.entries id = some y →
          ∃ y', rob_find s'.ROB.entries id = some y' ∧ forward_fields y y' ∧
            y'.num_mem_ops = y.num_mem_ops
              - (ks.countP fun k => (s.LQ.getD k {}).rob_index == some id)) := by
  induction l with
  | nil =>
    intro s s' h hsq
    simp only [execute_store_forwards, Outcome.ok.injEq] at h
    subst h
    refine ⟨rfl, rfl, [], List.nodup_nil, by simp, by simp, ?_⟩
    intro id y hy
    exact ⟨y, hy, forward_fields_refl y, by simp⟩
  | cons dj rest ih =>
    intro s s' h hsq
    obtain ⟨d, j⟩ := dj
    simp only [execute_store_forwards] at h
    cases hstep : execute_store_forward P sq_it d j s with
    | fault e => rw [hstep] at h; simp at h
    | ok s1 =>
      rw [hstep] at h
      simp only at h
      rcases execute_store_forward_target P s s1 sq_it d j sq_entry hsq hstep with
        ⟨hnone, rfl⟩ | ⟨k, hk, hfw⟩
      · obtain ⟨i1, i2, ks, n1, n2, n3, n4⟩ := ih _ _ h hsq
        refine ⟨i1, i2, ks, n1, ?_, n3, n4⟩
        intro k
        rw [n2 k]
        constructor
        · rintro ⟨dj, hm, hf⟩
          exact ⟨dj, List.mem_cons_of_mem _ hm, hf⟩
        · rintro ⟨dj, hm, hf⟩
          rcases List.mem_cons.mp hm with rfl | hm'
          · rw [hnone] at hf; simp at hf
          · exact ⟨dj, hm', hf⟩
      · obtain ⟨hfr, -, hLQ, sq2, lq2, o, x2, g1, g2, g3, g4, hROB⟩ :=
          do_sq_forward_to_lq_frame P s s1 sq_it k hfw
        have hsq1 : s1.SQ.get? sq_it = some sq_entry := by rw [hfr]; exact hsq
        obtain ⟨i1, i2, ks, n1, n2, n3, n4⟩ := ih _ _ h hsq1
        have hreset : ∀ dj', forward_target s1 sq_entry dj'
            = if forward_target s sq_entry dj' = some k then none
              else forward_target s sq_entry dj' :=
          fun dj' => forward_target_reset s s1 sq_entry dj' o k
            (forwarded_instr P s.current_core_cycle) (forwarded_instr_forward P _)
            (forwarded_instr_id P _) hROB hLQ hmax
        have hk_not : k ∉ ks := by
          intro hmem
          obtain ⟨dj', -, hf⟩ := (n2 k).mp hmem
          rw [hreset dj'] at hf
          split_ifs at hf with hc
          exact hc hf
        have hklt : k < s.LQ.length := by
          rw [List.get?_eq_getElem?] at g2
          exact (List.getElem?_eq_some_iff.mp g2).1
        refine ⟨by rw [i1, hfr], by rw [i2, hfr], k :: ks,
          List.nodup_cons.mpr ⟨hk_not, n1⟩, ?_, ?_, ?_⟩
        · intro k'
          rw [List.mem_cons, n2 k']
          constructor
          · rintro (rfl | ⟨dj', hm, hf⟩)
            · exact ⟨(d, j), List.mem_cons_self _ _, hk⟩
            · rw [hreset dj'] at hf
              split_ifs at hf with hc
              exact ⟨dj', List.mem_cons_of_mem _ hm, hf⟩
          · rintro ⟨dj', hm, hf⟩
            by_cases hkk : k' = k
            · exact Or.inl hkk
            · right
              rcases List.mem_cons.mp hm with rfl | hm'
              · rw [hk] at hf
                simp only [Option.some.injEq] at hf
                exact absurd hf.symm hkk
              · refine ⟨dj', hm', ?_⟩
                rw [hreset dj', if_neg]
                · exact hf
                · rw [hf]
                  simpa using hkk
        · intro p e hp
          by_cases hpk : p = k
          · subst hpk
            have : s1.LQ.get? p = some {} := by
              rw [hLQ, List.get?_eq_getElem?, List.getElem?_set, if_pos rfl, if_pos hklt]
            rw [n3 p {} this]
            simp
          · have : s1.LQ.get? p = some e := by
              rw [hLQ, List.get?_eq_getElem?, List.getElem?_set, if_neg (fun hc => hpk hc.symm),
                ← List.get?_eq_getElem?]
              exact hp
            rw [n3 p e this]
            simp only [List.mem_cons, hpk, false_or]
        · intro id y hy
          have hy1 : rob_find s1.ROB.entries id
              = some (if y.instr_id = o then forwarded_instr P s.current_core_cycle y else y) := by
            rw [hROB]
            simp only [update_rob]
            rw [rob_find_modify _ _ _ _ (forwarded_instr_id P _), hy]
            rfl
          obtain ⟨y', hy', hff, hnum⟩ := n4 id _ hy1
          have hyid := rob_find_id _ _ _ hy
          have hcount : (ks.countP fun k' => (s1.LQ.getD k' {}).rob_index == some id)
              = ks.countP fun k' => (s.LQ.getD k' {}).rob_index == some id := by
            apply List.countP_congr
            intro k' hk'
            have hne : k' ≠ k := fun hc => hk_not (hc ▸ hk')
            rw [hLQ]
            have : (s.LQ.set k {}).getD k' {} = s.LQ.getD k' {} := by
              rw [List.getD_eq_getElem?_getD, List.getD_eq_getElem?_getD, List.getElem?_set,
                if_neg (fun hc => hne hc.symm)]
            rw [this]
          have hown : (s.LQ.getD k {}).rob_index = some o := by
            rw [List.getD_eq_getElem?_getD, ← List.get?_eq_getElem?, g2]
            exact g3
          refine ⟨y', hy', ?_, ?_⟩
          · by_cases ho : y.instr_id = o
            · rw [if_pos ho] at hff
              have h1 := forwarded_instr_forward P s.current_core_cycle y
              unfold forward_fields at hff h1 ⊢
              rw [hff, h1]
            · rw [if_neg ho] at hff
              exact hff
          · rw [hnum, hcount, List.countP_cons, hown]
            by_cases ho : y.instr_id = o
            · rw [if_pos ho]
              have : (some o == some id) = true := by
                rw [← ho, hyid]; simp
              rw [this]
              have hdec : (forwarded_instr P s.current_core_cycle y).num_mem_ops
                  = y.num_mem_ops - 1 := by
                unfold forwarded_instr
                simp only
                split_ifs <;> rfl
              rw [hdec]
              push_cast
              simp only [if_true]
              omega
            · rw [if_neg ho]
              have : (some o == some id) = false := by
                rw [← hyid]
                simpa using fun hc => ho hc.symm
              rw [this]
              simp

theorem forward_target_some_iff (s : O3_CPU) (sq_entry : LSQ_ENTRY) (d j k : Nat) :
    forward_target s sq_entry (d, j) = some k ↔
      ∃ dep e, rob_find s.ROB.entries d = some dep ∧
        dep.source_memory.getD j 0 ≠ 0 ∧ dep.source_added.getD j 0 ≠ 0 ∧
        dep.source_memory.getD j 0 = sq_entry.virtual_address ∧
        dep.lq_index.getD j none = some k ∧ s.LQ.get? k = some e ∧
        e.producer_id = sq_entry.instr_id := by
  unfold forward_target
  constructor
  · intro h
    cases hd : rob_find s.ROB.entries d with
    | none => rw [hd] at h; simp at h
    | some dep =>
      rw [hd] at h
      simp only [Option.some_bind] at h
      unfold operand_slot at h
      split_ifs at h with hc
      · cases hl : dep.lq_index.getD j none with
        | none => rw [hl] at h; simp at h
        | some p =>
          rw [hl] at h
          simp only [Option.some_bind] at h
          obtain ⟨rfl, e, he, hp⟩ := waits_for_some s sq_entry p k h
          exact ⟨dep, e, rfl, hc.1, hc.2.1, hc.2.2, hl, he, hp⟩
      · simp at h
  · rintro ⟨dep, e, hd, h1, h2, h3, h4, h5, h6⟩
    rw [hd]
    simp only [Option.some_bind]
    unfold operand_slot
    rw [if_pos ⟨h1, h2, h3⟩, h4]
    simp only [Option.some_bind]
    unfold waits_for
    rw [h5]
    simp only
    rw [if_pos h6]

theorem mem_dependent_pairs (l : List Nat) (n : Nat) (dj : Nat × Nat) :
    dj ∈ (l.flatMap fun dependent => (List.range n).map fun j => (dependent, j)) ↔
      dj.1 ∈ l ∧ dj.2 < n := by
  obtain ⟨d, j⟩ := dj
  simp only [List.mem_flatMap, List.mem_map, List.mem_range, Prod.mk.injEq]
  constructor
  · rintro ⟨a, ha, b, hb, rfl, rfl⟩
    exact ⟨ha, hb⟩
  · rintro ⟨h1, h2⟩
    exact ⟨d, h1, j, h2, rfl, rfl⟩

/-- C28: a returning `execute_store` of the store-queue entry `sq_entry` (its id is not
the marker `UINT64_MAX` of an empty entry) with the ROB record `x`. The entry is marked
`fetched == COMPLETED`. There is a list `ks` of slots of the load queue, each once: a
slot `k` is in `ks` exactly when some record `dep` of `x.memory_instrs_depend_on_me` has
a source `j` that is set, was added, reads the virtual address of the store and has
`lq_index[j] = k`, and the entry in slot `k` names the store as its producer. Every slot
of `ks` is reset to the empty entry and every other slot is as before, so an entry with
another producer, or one that no such operand points to, is unchanged. `num_mem_ops` of
a record goes down by one for the store itself and by one for every slot of `ks` that
belongs to the record: no slot is forwarded to twice, however often a dependent is in
the list. The other fields that forwarding writes apart, no record changes. -/
theorem execute_store_forwards_once (P : Params) (t t' : O3_CPU) (sq_it id : Nat)
    (sq_entry : LSQ_ENTRY) (x : ooo_model_instr)
    (hsq : t.SQ.get? sq_it = some sq_entry) (hid : sq_entry.rob_index = some id)
    (hx : rob_find t.ROB.entries id = some x) (hmax : sq_entry.instr_id ≠ UINT64_MAX)
    (h : execute_store P t sq_it = .ok t') :
    t'.SQ = t.SQ.set sq_it (executed_entry t.current_core_cycle sq_entry) ∧
    (executed_entry t.current_core_cycle sq_entry).fetched = COMPLETED ∧
    ∃ ks : List Nat, ks.Nodup ∧
      (∀ k, k ∈ ks ↔ ∃ d ∈ x.memory_instrs_depend_on_me, ∃ j, j < P.NUM_INSTR_SOURCES ∧
        ∃ dep e, rob_find t.ROB.entries d = some dep ∧
          dep.source_memory.getD j 0 ≠ 0 ∧ dep.source_added.getD j 0 ≠ 0 ∧
          dep.source_memory.getD j 0 = sq_entry.virtual_address ∧
          dep.lq_index.getD j none = some k ∧ t.LQ.get? k = some e ∧
          e.producer_id = sq_entry.instr_id) ∧
      (∀ k e, t.LQ.get? k = some e → t'.LQ.get? k = some (if k ∈ ks then {} else e)) ∧
      (∀ k e, t.LQ.get? k = some e → e.producer_id ≠ sq_entry.instr_id →
        t'.LQ.get? k = some e) ∧
      (∀ k e, t.LQ.get? k = some e →
        (∀ d j dep, rob_find t.ROB.entries d = some dep →
          dep.lq_index.getD j none = some k →
          dep.source_memory.getD j 0 ≠ sq_entry.virtual_address) →
        t'.LQ.get? k = some e) ∧
      (∀ id' y, rob_find t.ROB.entries id' = some y →
        ∃ y', rob_find t'.ROB.entries id' = some y' ∧ forward_fields y y' ∧
          y'.num_mem_ops = y.num_mem_ops - (if id' = id then 1 else 0)
            - (ks.countP fun k => (t.LQ.getD k {}).rob_index == some id')) := by
  unfold execute_store at h
  cases hc : execute_store_complete t sq_it with
  | fault e => rw [hc] at h; simp at h
  | ok r =>
    obtain ⟨s1, x1⟩ := r
    rw [hc] at h
    simp only at h
    obtain ⟨sq2, id2, x2, hsq2, hid2, hx2, hx1, hs1⟩ :=
      execute_store_complete_shape t s1 sq_it x1 hc
    rw [hsq] at hsq2
    simp only [Option.some.injEq] at hsq2
    subst hsq2
    rw [hid] at hid2
    simp only [Option.some.injEq] at hid2
    subst hid2
    rw [hx] at hx2
    simp only [Option.some.injEq] at hx2
    subst hx2
    have hsq1 : s1.SQ.get? sq_it = some (executed_entry t.current_core_cycle sq_entry) := by
      rw [hs1]; exact get?_set_eq_of_lt _ _ _ _ hsq
    have hLQ1 : s1.LQ = t.LQ := by rw [hs1]; rfl
    have hROB1 : s1.ROB = (update_rob t id (store_done t.current_core_cycle)).ROB := by
      rw [hs1]
    have hSQ1 : s1.SQ = t.SQ.set sq_it (executed_entry t.current_core_cycle sq_entry) := by
      rw [hs1]
    obtain ⟨i1, -, ks, n1, n2, n3, n4⟩ :=
      execute_store_forwards_slots P sq_it (executed_entry t.current_core_cycle sq_entry)
        hmax _ s1 t' h hsq1
    have hft : ∀ dj, forward_target s1 (executed_entry t.current_core_cycle sq_entry) dj
        = forward_target t sq_entry dj := by
      intro dj
      rw [forward_target_congr t s1 sq_entry (executed_entry t.current_core_cycle sq_entry) dj
        id (store_done t.current_core_cycle) (store_done_forward _) (fun e => rfl) hROB1 rfl rfl]
      unfold forward_target
      congr 1
      funext k
      unfold waits_for
      rw [hLQ1]
    have hmem : ∀ k, k ∈ ks ↔ ∃ d ∈ x.memory_instrs_depend_on_me, ∃ j,
        j < P.NUM_INSTR_SOURCES ∧ forward_target t sq_entry (d, j) = some k := by
      intro k
      rw [n2 k]
      constructor
      · rintro ⟨dj, hdj, hf⟩
        rw [mem_dependent_pairs, hx1] at hdj
        rw [hft] at hf
        exact ⟨dj.1, hdj.1, dj.2, hdj.2, hf⟩
      · rintro ⟨d, hd, j, hj, hf⟩
        refine ⟨(d, j), ?_, ?_⟩
        · rw [mem_dependent_pairs, hx1]
          exact ⟨hd, hj⟩
        · rw [hft]; exact hf
    have hslots : ∀ k e, t.LQ.get? k = some e →
        t'.LQ.get? k = some (if k ∈ ks then {} else e) := by
      intro k e he
      exact n3 k e (by rw [hLQ1]; exact he)
    refine ⟨by rw [i1, hSQ1], rfl, ks, n1, ?_, hslots, ?_, ?_, ?_⟩
    · intro k
      rw [hmem k]
      constructor
      · rintro ⟨d, hd, j, hj, hf⟩
        exact ⟨d, hd, j, hj, (forward_target_some_iff t sq_entry d j k).mp hf⟩
      · rintro ⟨d, hd, j, hj, hf⟩
        exact ⟨d, hd, j, hj, (forward_target_some_iff t sq_entry d j k).mpr hf⟩
    · intro k e he hne
      rw [hslots k e he, if_neg]
      intro hk
      obtain ⟨d, -, j, -, hf⟩ := (hmem k).mp hk
      obtain ⟨dep, e', -, -, -, -, -, he', hp⟩ := (forward_target_some_iff t sq_entry d j k).mp hf
      rw [he] at he'
      simp only [Option.some.injEq] at he'
      subst he'
      exact hne hp
    · intro k e he hno
      rw [hslots k e he, if_neg]
      intro hk
      obtain ⟨d, -, j, -, hf⟩ := (hmem k).mp hk
      obtain ⟨dep, e', hd, -, -, hva, hl, -, -⟩ :=
        (forward_target_some_iff t sq_entry d j k).mp hf
      exact hno d j dep hd hl hva
    · intro id' y hy
      have hy1 : rob_find s1.ROB.entries id'
          = some (if y.instr_id = id then store_done t.current_core_cycle y else y) := by
        rw [hROB1]
        simp only [update_rob]
        rw [rob_find_modify _ _ _ (store_done t.current_core_cycle) (fun e => rfl), hy]
        rfl
      obtain ⟨y', hy', hff, hnum⟩ := n4 id' _ hy1
      have hyid := rob_find_id _ _ _ hy
      refine ⟨y', hy', ?_, ?_⟩
      · by_cases ho : y.instr_id = id
        · rw [if_pos ho] at hff
          have h1 := store_done_forward t.current_core_cycle y
          unfold forward_fields at hff h1 ⊢
          rw [hff, h1]
        · rw [if_neg ho] at hff
          exact hff
      · rw [hnum, hLQ1]
        by_cases ho : y.instr_id = id
        · rw [if_pos ho, if_pos (hyid ▸ ho)]
          rfl
        · rw [if_neg ho, if_neg (fun hc => ho (hyid.trans hc))]
          simp

theorem execute_store_forwards_once_witness :
    (stl2_waiting.SQ.get? 0 = some stl2_store_entry ∧ stl2_store_entry.rob_index = some 0 ∧
     rob_find stl2_waiting.ROB.entries 0 = some stl2_store_record ∧
     stl2_store_entry.instr_id ≠ UINT64_MAX ∧
     execute_store sample_params stl2_waiting 0 = .ok stl2_forwarded ∧
     stl2_store_record.memory_instrs_depend_on_me = [1, 1] ∧
     rob_find stl2_waiting.ROB.entries 1 = some stl2_load_record ∧
     stl2_load_record.num_mem_ops = 2 ∧
     (stl2_waiting.LQ.map fun e => (e.rob_index, e.producer_id, e.virtual_address))
       = [(some 1, 0, 0x7000), (some 1, 0, 0x7000)]) ∧
    stl2_forwarded.SQ
      = stl2_waiting.SQ.set 0 (executed_entry stl2_waiting.current_core_cycle stl2_store_entry) ∧
    stl2_forwarded.LQ = [{}, {}] ∧
    (stl2_forwarded.ROB.entries.map fun e => (e.instr_id, e.num_mem_ops)) = [(0, 0), (1, 0)] ∧
    ∃ ks : List Nat, ks.Nodup ∧
      ∀ id' y, rob_find stl2_waiting.ROB.entries id' = some y →
        ∃ y', rob_find stl2_forwarded.ROB.entries id' = some y' ∧ forward_fields y y' ∧
          y'.num_mem_ops = y.num_mem_ops - (if id' = 0 then 1 else 0)
            - (ks.countP fun k => (stl2_waiting.LQ.getD k {}).rob_index == some id') :=
  have h := execute_store_forwards_once sample_params stl2_waiting stl2_forwarded 0 0
    stl2_store_entry stl2_store_record (by decide) (by decide) (by decide) (by decide)
    (by decide)
  ⟨⟨by decide, by decide, by decide, by decide, by decide, by decide, by decide, by decide,
      by decide⟩,
    h.1, by decide, by decide,
    h.2.2.elim fun ks hk => ⟨ks, hk.1, hk.2.2.2.2.2⟩⟩

/-! ## Lemmas and examples: a rejected translation request -/

/-- In the default translation mode a rejected translation request of the load at the
head of `RTL0` ends the loop with the state as it was. -/
theorem operate_lsq_translate_loads_rejected (P : Params) (vm : VirtualMemory)
    (add_rq : Nat → Bus → PACKET → Int) (n : Nat) (s : O3_CPU) (log : List RqCall)
    (front : Nat) (rest : List Nat) (e : LSQ_ENTRY)
    (h1 : P.use_pcache = 0) (h2 : P.use_direct_segment = 0) (h3 : P.use_smm = 0)
    (hq : s.RTL0 = front :: rest) (he : s.LQ.get? front = some e)
    (hrej : add_rq log.length .DTLB
      { lsq_packet P s.cpu (translation_address P e) P.LOAD e with
        lq_index_depend_on_me := [front] } = -2) :
    ∃ call, operate_lsq_translate_loads P vm add_rq (n + 1) s log = .ok (s, log ++ [call]) ∧
      call.bus = .DTLB ∧ call.result = -2 := by
  unfold operate_lsq_translate_loads
  rw [hq]
  simp only [h1, h2, h3, ne_eq, not_true_eq_false, if_false]
  unfold do_translate_load
  rw [he]
  simp only [h3, ne_eq, not_true_eq_false, false_and, if_false, hrej]
  unfold mark_translating
  simp only [ne_eq, not_true_eq_false, if_false, if_true]
  exact ⟨_, rfl, rfl, rfl⟩

/-- C22 (flat-segment mode, `use_pcache`): the load from `0x555555554010` is at the head
of `RTL0` with nothing in `RTL1`, and the memory subsystem rejects every request. The
first `operate_lsq` writes the physical address of the entry and pushes the load onto
`RTL1` before the translation request is made and rejected; the load stays at the head of
`RTL0`. The second `operate_lsq` pushes the load onto `RTL1` again, which then holds it
twice. -/
theorem operate_lsq_rejected_load_is_queued :
    pc_load_admitted.RTL0 = [0] ∧ pc_load_admitted.RTL1 = [] ∧
    (pc_load_admitted.LQ.map fun e => (e.virtual_address, e.physical_address, e.translated))
      = [(0x555555554010, 0, 0), (0, 0, 0)] ∧
    operate_lsq pcache_params layout_C rq_reject pc_load_admitted = .ok pc_rejected_once ∧
    (pc_rejected_once.2.map fun c => (c.bus, c.packet.instr_id, c.result))
      = [(Bus.L1P, 0, -2), (Bus.L1D, 0, -2)] ∧
    pc_rejected_once.1.RTL0 = [0] ∧ pc_rejected_once.1.RTL1 = [0] ∧
    (pc_rejected_once.1.LQ.map fun e => (e.virtual_address, e.physical_address, e.translated))
      = [(0x555555554010, layout_C.heap_phys_start + 0x10, 0), (0, 0, 0)] ∧
    layout_C.heap_phys_start + 0x10 ≠ 0 ∧
    operate_lsq pcache_params layout_C rq_reject pc_rejected_once.1 = .ok pc_rejected_twice ∧
    pc_rejected_twice.1.RTL0 = [0] ∧ pc_rejected_twice.1.RTL1 = [0, 0] := by
  decide

/-! ## Lemmas: the run of a translation request -/

theorem mark_inflight_get? (deps : List Nat) :
    ∀ (entries : List ooo_model_instr) (i : Nat),
      (mark_inflight deps entries).get? i
        = (entries.get? i).map fun x =>
            if i ∈ deps then { x with translated := INFLIGHT } else x := by
  induction deps with
  | nil =>
    intro entries i
    simp [mark_inflight]
  | cons d rest ih =>
    intro entries i
    have hstep : mark_inflight (d :: rest) entries
        = mark_inflight rest (entries.set d { entries.getD d {} with translated := INFLIGHT }) :=
      rfl
    rw [hstep, ih]
    by_cases hid : i = d
    · subst hid
      rw [List.get?_eq_getElem?, List.get?_eq_getElem?, List.getElem?_set]
      simp only [if_true, List.mem_cons, true_or]
      by_cases hlt : i < entries.length
      · rw [if_pos hlt, List.getElem?_eq_getElem hlt, List.getD_eq_getElem _ _ hlt]
        simp only [Option.map_some', Option.some.injEq]
        split_ifs <;> rfl
      · rw [if_neg hlt, List.getElem?_eq_none (not_lt.mp hlt)]
        rfl
    · rw [List.get?_eq_getElem?, List.get?_eq_getElem?, List.getElem?_set,
        if_neg (fun hc => hid hc.symm)]
      cases entries[i]? with
      | none => rfl
      | some x =>
        simp only [Option.map_some', Option.some.injEq, List.mem_cons, hid, false_or]

theorem itlb_req_begin_spec (entries : List ooo_model_instr) (first : ooo_model_instr)
    (h : entries.get? (itlb_req_begin entries) = some first) :
    first.translated = 0 ∧
    ∀ i x, i < itlb_req_begin entries → entries.get? i = some x → x.translated ≠ 0 := by
  unfold itlb_req_begin at h ⊢
  rw [List.get?_eq_getElem?] at h
  obtain ⟨hlt, hget⟩ := List.getElem?_eq_some_iff.mp h
  constructor
  · have := @List.findIdx_getElem _ (fun x : ooo_model_instr => x.translated == 0) entries hlt
    rw [hget] at this
    simpa using this
  · intro i x hi hx
    rw [List.get?_eq_getElem?] at hx
    obtain ⟨hil, hxg⟩ := List.getElem?_eq_some_iff.mp hx
    have := @List.not_of_lt_findIdx _ (fun x : ooo_model_instr => x.translated == 0) entries i hi
    rw [hxg] at this
    simpa using this

theorem itlb_req_end_spec (P : Params) (entries : List ooo_model_instr) (begin_ : Nat)
    (first : ooo_model_instr) (h : entries.get? begin_ = some first) :
    begin_ < itlb_req_end P entries begin_ first.ip ∧
    itlb_req_end P entries begin_ first.ip ≤ entries.length ∧
    (∀ i x, begin_ ≤ i → i < itlb_req_end P entries begin_ first.ip →
      entries.get? i = some x →
      x.ip >>> P.LOG2_PAGE_SIZE = first.ip >>> P.LOG2_PAGE_SIZE) ∧
    (∀ x, entries.get? (itlb_req_end P entries begin_ first.ip) = some x →
      x.ip >>> P.LOG2_PAGE_SIZE ≠ first.ip >>> P.LOG2_PAGE_SIZE) := by
  rw [List.get?_eq_getElem?] at h
  obtain ⟨hlt, hget⟩ := List.getElem?_eq_some_iff.mp h
  have hdrop : entries.drop begin_ = first :: entries.drop (begin_ + 1) := by
    rw [← hget]
    exact List.drop_eq_getElem_cons hlt
  have hle : (entries.drop begin_).findIdx (fun x =>
      (first.ip >>> P.LOG2_PAGE_SIZE) != (x.ip >>> P.LOG2_PAGE_SIZE))
      ≤ (entries.drop begin_).length := List.findIdx_le_length _
  rw [List.length_drop] at hle
  unfold itlb_req_end
  refine ⟨?_, by omega, ?_, ?_⟩
  · rw [hdrop, List.findIdx_cons]
    simp
  · intro i x hbi hie hx
    rw [List.get?_eq_getElem?] at hx
    obtain ⟨hil, hxg⟩ := List.getElem?_eq_some_iff.mp hx
    have hlt2 : i - begin_ < (entries.drop begin_).findIdx (fun x =>
        (first.ip >>> P.LOG2_PAGE_SIZE) != (x.ip >>> P.LOG2_PAGE_SIZE)) := by omega
    have hlen : i - begin_ < (entries.drop begin_).length := by
      rw [List.length_drop]; omega
    have := @List.not_of_lt_findIdx _ (fun x : ooo_model_instr =>
      (first.ip >>> P.LOG2_PAGE_SIZE) != (x.ip >>> P.LOG2_PAGE_SIZE)) (entries.drop begin_)
      (i - begin_) hlt2
    have hel : (entries.drop begin_)[i - begin_] = x := by
      rw [List.getElem_drop]
      rw [← hxg]
      congr 1
      omega
    rw [hel] at this
    simp only [bne_iff_ne, ne_eq, Decidable.not_not, Bool.not_eq_true, bne_eq_false_iff_eq] at this
    exact this.symm
  · intro x hx
    rw [List.get?_eq_getElem?] at hx
    obtain ⟨hil, hxg⟩ := List.getElem?_eq_some_iff.mp hx
    have hlen : (entries.drop begin_).findIdx (fun x =>
        (first.ip >>> P.LOG2_PAGE_SIZE) != (x.ip >>> P.LOG2_PAGE_SIZE))
        < (entries.drop begin_).length := by
      rw [List.length_drop]; omega
    have := @List.findIdx_getElem _ (fun x : ooo_model_instr =>
      (first.ip >>> P.LOG2_PAGE_SIZE) != (x.ip >>> P.LOG2_PAGE_SIZE)) (entries.drop begin_) hlen
    have hel : (entries.drop begin_)[(entries.drop begin_).findIdx (fun x =>
        (first.ip >>> P.LOG2_PAGE_SIZE) != (x.ip >>> P.LOG2_PAGE_SIZE))] = x := by
      rw [List.getElem_drop]
      exact hxg
    rw [hel] at this
    simp only [bne_iff_ne, ne_eq] at this
    exact fun hc => this hc.symm

theorem send_trace_packet_spec (add_rq : Nat → Bus → PACKET → Int) (s : O3_CPU) (bus : Bus)
    (p : PACKET) (begin_ n : Nat) (hp : p.instr_depend_on_me = List.range' begin_ n) :
    ∃ call, (send_trace_packet add_rq s bus p).2 = [call] ∧ call.packet = p ∧ call.bus = bus ∧
      (call.result = -2 → (send_trace_packet add_rq s bus p).1 = s) ∧
      (call.result ≠ -2 →
        (send_trace_packet add_rq s bus p).1
          = { s with IFETCH_BUFFER := { s.IFETCH_BUFFER with
                entries := (send_trace_packet add_rq s bus p).1.IFETCH_BUFFER.entries } } ∧
        ∀ i x, s.IFETCH_BUFFER.entries.get? i = some x →
          (send_trace_packet add_rq s bus p).1.IFETCH_BUFFER.entries.get? i
            = some (if begin_ ≤ i ∧ i < begin_ + n then { x with translated := INFLIGHT }
                    else x)) := by
  unfold send_trace_packet
  simp only
  refine ⟨_, rfl, rfl, rfl, ?_, ?_⟩
  · intro hr
    simp only at hr
    rw [if_neg (by simpa using hr)]
  · intro hr
    simp only at hr
    rw [if_pos hr]
    refine ⟨rfl, ?_⟩
    intro i x hx
    simp only
    rw [mark_inflight_get?, hx, hp]
    simp only [Option.map_some', List.mem_range'_1]

/-- C29 (a hit in the decoded-instruction buffer behind a miss): the fetch buffer holds
instruction 0 at `0x400000`, whose translation has not started, and instruction 1 at
`0x400040` on the same page, which `check_dib` has marked `translated = COMPLETED`.
`translate_fetch` attaches both to its request, and on acceptance both are marked
`INFLIGHT`: instruction 1 loses the flag `COMPLETED`. -/
theorem translate_fetch_marks_translated_record :
    check_dib sample_params tf_read = .ok tf_checked ∧
    (tf_checked.IFETCH_BUFFER.entries.map fun e => (e.instr_id, e.ip, e.translated))
      = [(0, 0x400000, 0), (1, 0x400040, COMPLETED)] ∧
    translate_fetch sample_params {} rq_accept tf_checked = .ok tf_translated ∧
    (tf_translated.2.map fun c => (c.bus, c.packet.instr_depend_on_me, c.result))
      = [(Bus.ITLB, [0, 1], 0)] ∧
    (tf_translated.1.IFETCH_BUFFER.entries.map fun e => (e.instr_id, e.ip, e.translated))
      = [(0, 0x400000, INFLIGHT), (1, 0x400040, INFLIGHT)] := by
  decide

/-- C29, the statement that holds. A returning `translate_fetch` makes at most one
request. The run attached to it goes from `begin_`, the first record of the fetch buffer
whose translation has not started, to `end_`, the first later record on another page or
the end of the buffer, and holds every record in between, whatever its flag `translated`
is; a request is made only when the run ends before the end of the buffer or starts at
its front. A rejected request leaves the state as it was; an accepted one changes
nothing but the flag `translated` of the records of the run, which all become
`INFLIGHT`, also a record that was `COMPLETED`. -/
theorem translate_fetch_run (P : Params) (vm : VirtualMemory)
    (add_rq : Nat → Bus → PACKET → Int) (s s' : O3_CPU) (log : List RqCall)
    (h : translate_fetch P vm add_rq s = .ok (s', log)) :
    (log = [] ∧ s' = s) ∨
    ∃ (call : RqCall) (first : ooo_model_instr) (begin_ end_ : Nat), log = [call] ∧
      s.IFETCH_BUFFER.entries.get? begin_ = some first ∧ first.translated = 0 ∧
      (∀ i x, i < begin_ → s.IFETCH_BUFFER.entries.get? i = some x → x.translated ≠ 0) ∧
      begin_ < end_ ∧ end_ ≤ s.IFETCH_BUFFER.entries.length ∧
      (∀ i x, begin_ ≤ i → i < end_ → s.IFETCH_BUFFER.entries.get? i = some x →
        x.ip >>> P.LOG2_PAGE_SIZE = first.ip >>> P.LOG2_PAGE_SIZE) ∧
      (∀ x, s.IFETCH_BUFFER.entries.get? end_ = some x →
        x.ip >>> P.LOG2_PAGE_SIZE ≠ first.ip >>> P.LOG2_PAGE_SIZE) ∧
      (end_ ≠ s.IFETCH_BUFFER.entries.length ∨ begin_ = 0) ∧
      call.packet.instr_depend_on_me = List.range' begin_ (end_ - begin_) ∧
      call.packet.instr_id = first.instr_id ∧
      (call.result = -2 → s' = s) ∧
      (call.result ≠ -2 →
        s' = { s with IFETCH_BUFFER := { s.IFETCH_BUFFER with
                 entries := s'.IFETCH_BUFFER.entries } } ∧
        ∀ i x, s.IFETCH_BUFFER.entries.get? i = some x →
          s'.IFETCH_BUFFER.entries.get? i
            = some (if begin_ ≤ i ∧ i < end_ then { x with translated := INFLIGHT }
                    else x)) := by
  unfold translate_fetch at h
  by_cases hempty : s.IFETCH_BUFFER.empty = true
  · rw [if_pos hempty] at h
    simp only [Outcome.ok.injEq, Prod.mk.injEq] at h
    exact Or.inl ⟨h.2.symm, h.1.symm⟩
  · rw [if_neg hempty] at h
    simp only at h
    cases hfirst : s.IFETCH_BUFFER.entries.get? (itlb_req_begin s.IFETCH_BUFFER.entries) with
    | none =>
      rw [hfirst] at h
      simp only [Outcome.ok.injEq, Prod.mk.injEq] at h
      exact Or.inl ⟨h.2.symm, h.1.symm⟩
    | some first =>
      rw [hfirst] at h
      simp only at h
      obtain ⟨b1, b2⟩ := itlb_req_begin_spec _ first hfirst
      obtain ⟨e1, e2, e3, e4⟩ := itlb_req_end_spec P _ _ first hfirst
      by_cases hcond : itlb_req_end P s.IFETCH_BUFFER.entries
            (itlb_req_begin s.IFETCH_BUFFER.entries) first.ip
          ≠ s.IFETCH_BUFFER.entries.length ∨ itlb_req_begin s.IFETCH_BUFFER.entries = 0
      · rw [if_pos hcond] at h
        have hsum : itlb_req_begin s.IFETCH_BUFFER.entries
            + (itlb_req_end P s.IFETCH_BUFFER.entries
                (itlb_req_begin s.IFETCH_BUFFER.entries) first.ip
              - itlb_req_begin s.IFETCH_BUFFER.entries)
            = itlb_req_end P s.IFETCH_BUFFER.entries
                (itlb_req_begin s.IFETCH_BUFFER.entries) first.ip := by omega
        have key : ∀ (bus : Bus) (address : Nat),
            .ok (send_trace_packet add_rq s bus
              (trace_packet P s address first (itlb_req_begin s.IFETCH_BUFFER.entries)
                (itlb_req_end P s.IFETCH_BUFFER.entries
                  (itlb_req_begin s.IFETCH_BUFFER.entries) first.ip)))
              = Outcome.ok (s', log) →
            ∃ (call : RqCall), log = [call] ∧
              call.packet.instr_depend_on_me
                = List.range' (itlb_req_begin s.IFETCH_BUFFER.entries)
                    (itlb_req_end P s.IFETCH_BUFFER.entries
                      (itlb_req_begin s.IFETCH_BUFFER.entries) first.ip
                    - itlb_req_begin s.IFETCH_BUFFER.entries) ∧
              call.packet.instr_id = first.instr_id ∧
              (call.result = -2 → s' = s) ∧
              (call.result ≠ -2 →
                s' = { s with IFETCH_BUFFER := { s.IFETCH_BUFFER with
                         entries := s'.IFETCH_BUFFER.entries } } ∧
                ∀ i x, s.IFETCH_BUFFER.entries.get? i = some x →
                  s'.IFETCH_BUFFER.entries.get? i
                    = some (if itlb_req_begin s.IFETCH_BUFFER.entries ≤ i ∧
                        i < itlb_req_end P s.IFETCH_BUFFER.entries
                          (itlb_req_begin s.IFETCH_BUFFER.entries) first.ip
                      then { x with translated := INFLIGHT } else x)) := by
          intro bus address hk
          simp only [Outcome.ok.injEq] at hk
          obtain ⟨call, c1, c2, -, c4, c5⟩ := send_trace_packet_spec add_rq s bus
            (trace_packet P s address first (itlb_req_begin s.IFETCH_BUFFER.entries)
              (itlb_req_end P s.IFETCH_BUFFER.entries
                (itlb_req_begin s.IFETCH_BUFFER.entries) first.ip))
            (itlb_req_begin s.IFETCH_BUFFER.entries)
            (itlb_req_end P s.IFETCH_BUFFER.entries
                (itlb_req_begin s.IFETCH_BUFFER.entries) first.ip
              - itlb_req_begin s.IFETCH_BUFFER.entries) rfl
          rw [hk] at c1 c4 c5
          simp only at c1 c4 c5
          rw [hsum] at c5
          exact ⟨call, c1, by rw [c2]; rfl, by rw [c2]; rfl, c4, c5⟩
        have hk : ∃ (bus : Bus) (address : Nat),
            .ok (send_trace_packet add_rq s bus
              (trace_packet P s address first (itlb_req_begin s.IFETCH_BUFFER.entries)
                (itlb_req_end P s.IFETCH_BUFFER.entries
                  (itlb_req_begin s.IFETCH_BUFFER.entries) first.ip)))
              = Outcome.ok (s', log) := by
          by_cases hpc : P.use_pcache ≠ 0
          · rw [if_pos hpc] at h
            unfold do_translate_fetch_pcache at h
            rw [hfirst] at h
            simp only at h
            split at h
            · simp at h
            · split_ifs at h
              exact ⟨_, _, h⟩
          · rw [if_neg hpc] at h
            unfold do_translate_fetch at h
            rw [hfirst] at h
            exact ⟨_, _, h⟩
        obtain ⟨bus, address, hk⟩ := hk
        obtain ⟨call, hc1, hc2, hc3, hc4, hc5⟩ := key bus address hk
        exact Or.inr ⟨call, first, _, _, hc1, hfirst, b1, b2, e1, e2, e3, e4, hcond,
          hc2, hc3, hc4, hc5⟩
      · rw [if_neg hcond] at h
        simp only [Outcome.ok.injEq, Prod.mk.injEq] at h
        exact Or.inl ⟨h.2.symm, h.1.symm⟩

theorem translate_fetch_run_witness :
    translate_fetch sample_params {} rq_accept tf_checked
      = .ok (tf_translated.1, tf_translated.2) ∧
    ((tf_translated.2 = [] ∧ tf_translated.1 = tf_checked) ∨
    ∃ (call : RqCall) (first : ooo_model_instr) (begin_ end_ : Nat),
      tf_translated.2 = [call] ∧
      tf_checked.IFETCH_BUFFER.entries.get? begin_ = some first ∧ first.translated = 0 ∧
      (∀ i x, i < begin_ → tf_checked.IFETCH_BUFFER.entries.get? i = some x →
        x.translated ≠ 0) ∧
      begin_ < end_ ∧ end_ ≤ tf_checked.IFETCH_BUFFER.entries.length ∧
      (∀ i x, begin_ ≤ i → i < end_ → tf_checked.IFETCH_BUFFER.entries.get? i = some x →
        x.ip >>> sample_params.LOG2_PAGE_SIZE = first.ip >>> sample_params.LOG2_PAGE_SIZE) ∧
      (∀ x, tf_checked.IFETCH_BUFFER.entries.get? end_ = some x →
        x.ip >>> sample_params.LOG2_PAGE_SIZE ≠ first.ip >>> sample_params.LOG2_PAGE_SIZE) ∧
      (end_ ≠ tf_checked.IFETCH_BUFFER.entries.length ∨ begin_ = 0) ∧
      call.packet.instr_depend_on_me = List.range' begin_ (end_ - begin_) ∧
      call.packet.instr_id = first.instr_id ∧
      (call.result = -2 → tf_translated.1 = tf_checked) ∧
      (call.result ≠ -2 →
        tf_translated.1 = { tf_checked with IFETCH_BUFFER := { tf_checked.IFETCH_BUFFER with
                 entries := tf_translated.1.IFETCH_BUFFER.entries } } ∧
        ∀ i x, tf_checked.IFETCH_BUFFER.entries.get? i = some x →
          tf_translated.1.IFETCH_BUFFER.entries.get? i
            = some (if begin_ ≤ i ∧ i < end_ then { x with translated := INFLIGHT }
                    else x))) :=
  ⟨by decide,
    translate_fetch_run sample_params {} rq_accept tf_checked tf_translated.1 tf_translated.2
      (by decide)⟩

/-! ## Lemmas: the producers of a record -/

theorem findIdx_map_id (rob : List ooo_model_instr) (id : Nat)
    (g : ooo_model_instr → ooo_model_instr) (hg : ∀ e, (g e).instr_id = e.instr_id) :
    (rob.map g).findIdx (fun e => e.instr_id == id) = rob.findIdx fun e => e.instr_id == id := by
  induction rob with
  | nil => rfl
  | cons a l ih =>
    rw [List.map_cons, List.findIdx_cons, List.findIdx_cons, ih, hg]

theorem older_records_map (rob : List ooo_model_instr) (id : Nat)
    (g : ooo_model_instr → ooo_model_instr) (hg : ∀ e, (g e).instr_id = e.instr_id) :
    older_records (rob.map g) id = (older_records rob id).map g := by
  unfold older_records
  rw [findIdx_map_id rob id g hg, ← List.map_take, List.map_reverse]

theorem reg_producer_map (rob : List ooo_model_instr) (id r : Nat)
    (g : ooo_model_instr → ooo_model_instr) (hg : ∀ e, (g e).instr_id = e.instr_id)
    (hp : ∀ e, instr_reg_will_produce r (g e) = instr_reg_will_produce r e) :
    reg_producer (rob.map g) id r = (reg_producer rob id r).map g := by
  unfold reg_producer
  rw [older_records_map rob id g hg, List.find?_map]
  have : (instr_reg_will_produce r ∘ g) = instr_reg_will_produce r := funext hp
  rw [this]

theorem older_records_id (rob : List ooo_model_instr) (id : Nat) (p : ooo_model_instr)
    (h : p ∈ older_records rob id) : p.instr_id ≠ id := by
  unfold older_records at h
  rw [List.mem_reverse, List.mem_take_iff_getElem] at h
  obtain ⟨i, hi, hp⟩ := h
  have hlt : i < rob.findIdx fun e => e.instr_id == id := lt_of_lt_of_le hi (min_le_left _ _)
  have := @List.not_of_lt_findIdx _ (fun e : ooo_model_instr => e.instr_id == id) rob i hlt
  rw [hp] at this
  simpa using this

theorem reg_producer_mem (rob : List ooo_model_instr) (id r : Nat) (p : ooo_model_instr)
    (h : reg_producer rob id r = some p) : p ∈ older_records rob id :=
  List.mem_of_find?_eq_some h

theorem older_records_position (rob : List ooo_model_instr) (id : Nat) (p : ooo_model_instr)
    (h : p ∈ older_records rob id) :
    ∃ i, i < rob.findIdx (fun e => e.instr_id == id) ∧ rob.get? i = some p := by
  unfold older_records at h
  rw [List.mem_reverse, List.mem_take_iff_getElem] at h
  obtain ⟨i, hi, hp⟩ := h
  have hl : i < rob.length := lt_of_lt_of_le hi (min_le_right _ _)
  refine ⟨i, lt_of_lt_of_le hi (min_le_left _ _), ?_⟩
  rw [List.get?_eq_getElem?, List.getElem?_eq_getElem hl, hp]

/-- The record that `std::find_if` selects is the nearest older record that will
produce the register. -/
theorem reg_producer_nearest (rob : List ooo_model_instr) (id r : Nat) (p : ooo_model_instr)
    (h : reg_producer rob id r = some p) :
    instr_reg_will_produce r p = true ∧
    ∃ i, i < rob.findIdx (fun e => e.instr_id == id) ∧ rob.get? i = some p ∧
      ∀ k q, i < k → k < rob.findIdx (fun e => e.instr_id == id) → rob.get? k = some q →
        instr_reg_will_produce r q = false := by
  unfold reg_producer older_records at h
  obtain ⟨hp, as, bs, hsplit, hno⟩ := List.find?_eq_some.mp h
  refine ⟨hp, bs.length, ?_⟩
  have htake : rob.take (rob.findIdx fun e => e.instr_id == id)
      = bs.reverse ++ p :: as.reverse := by
    have := congrArg List.reverse hsplit
    rw [List.reverse_reverse] at this
    rw [this]
    simp
  have hlen : (rob.take (rob.findIdx fun e => e.instr_id == id)).length
      = rob.findIdx fun e => e.instr_id == id := by
    rw [List.length_take]
    exact min_eq_left (List.findIdx_le_length _)
  have hn : rob.findIdx (fun e => e.instr_id == id) = bs.length + (as.length + 1) := by
    rw [← hlen, htake]
    simp
  have hrob : rob = (bs.reverse ++ p :: as.reverse)
      ++ rob.drop (rob.findIdx fun e => e.instr_id == id) := by
    rw [← htake, List.take_append_drop]
  refine ⟨by omega, ?_, ?_⟩
  · rw [hrob, List.get?_eq_getElem?, List.append_assoc,
      List.getElem?_append_right (by simp)]
    simp
  · intro k q hik hk hq
    rw [hrob, List.get?_eq_getElem?, List.append_assoc,
      List.getElem?_append_right (by simp; omega)] at hq
    rw [List.length_reverse] at hq
    have hk2 : k - bs.length - 1 < as.reverse.length := by
      rw [List.length_reverse]; omega
    have hq2 : as.reverse[k - bs.length - 1]? = some q := by
      rw [show k - bs.length = (k - bs.length - 1) + 1 by omega, List.cons_append,
        List.getElem?_cons_succ, List.getElem?_append_left hk2] at hq
      exact hq
    have hmem : q ∈ as := by
      obtain ⟨hl, hg⟩ := List.getElem?_eq_some_iff.mp hq2
      exact List.mem_reverse.mp (List.mem_iff_getElem.mpr ⟨_, hl, hg⟩)
    have := hno q hmem
    simpa using this

/-- When `std::find_if` returns `ROB.rend()`, no older record will produce the
register. -/
theorem reg_producer_none (rob : List ooo_model_instr) (id r : Nat)
    (h : reg_producer rob id r = none) :
    ∀ k q, k < rob.findIdx (fun e => e.instr_id == id) → rob.get? k = some q →
      instr_reg_will_produce r q = false := by
  intro k q hk hq
  unfold reg_producer at h
  rw [List.find?_eq_none] at h
  have hmem : q ∈ older_records rob id := by
    unfold older_records
    rw [List.mem_reverse, List.mem_take_iff_getElem]
    rw [List.get?_eq_getElem?] at hq
    obtain ⟨hl, hg⟩ := List.getElem?_eq_some_iff.mp hq
    exact ⟨k, lt_min hk hl, hg⟩
  have := h q hmem
  simpa using this

/-! ## Lemmas: what `do_scheduling` does to the ROB -/

theorem register_on_id (rob_it : Nat) (D : List Nat) (e : ooo_model_instr) :
    (register_on rob_it D e).instr_id = e.instr_id := by
  unfold register_on add_reg_dependent add_reg_count
  split_ifs <;> rfl

theorem register_on_produce (rob_it : Nat) (D : List Nat) (r : Nat) (e : ooo_model_instr) :
    instr_reg_will_produce r (register_on rob_it D e) = instr_reg_will_produce r e := by
  unfold register_on add_reg_dependent add_reg_count instr_reg_will_produce
  split_ifs <;> rfl

theorem add_reg_count_zero (e : ooo_model_instr) : add_reg_count 0 e = e := by
  unfold add_reg_count
  simp

theorem count_add_reg_count (n : Nat) (e : ooo_model_instr) :
    count_reg_dependent (add_reg_count n e) = add_reg_count (n + 1) e := by
  unfold count_reg_dependent add_reg_count
  simp [add_assoc]

theorem register_on_nil (rob_it : Nat) (e : ooo_model_instr) : register_on rob_it [] e = e := by
  unfold register_on
  split_ifs with h1 h2
  · exact add_reg_count_zero e
  · simp at h2
  · rfl

theorem map_rob_register_nil (rob_it : Nat) (s : O3_CPU) :
    map_rob s (register_on rob_it []) = s := by
  unfold map_rob
  have : s.ROB.entries.map (register_on rob_it []) = s.ROB.entries := by
    rw [List.map_congr_left (fun e _ => register_on_nil rob_it e), List.map_id']
  rw [this]

theorem register_more (rob_it pid : Nat) (D : List Nat) (hne : pid ≠ rob_it) (hD : pid ∉ D)
    (e : ooo_model_instr) :
    (fun e1 : ooo_model_instr => if e1.instr_id = rob_it then count_reg_dependent e1 else e1)
      ((fun e1 : ooo_model_instr => if e1.instr_id = pid then add_reg_dependent rob_it e1 else e1)
        (register_on rob_it D e))
      = register_on rob_it (D ++ [pid]) e := by
  simp only
  by_cases hx : e.instr_id = rob_it
  · have h1 : register_on rob_it D e = add_reg_count D.length e := by
      unfold register_on; rw [if_pos hx]
    have h2 : register_on rob_it (D ++ [pid]) e = add_reg_count (D ++ [pid]).length e := by
      unfold register_on; rw [if_pos hx]
    have hp : ¬ e.instr_id = pid := fun hc => hne (hc.symm.trans hx)
    have hid : (add_reg_count D.length e).instr_id = e.instr_id := rfl
    rw [h1, h2, hid, if_neg hp, hid, if_pos hx, count_add_reg_count, List.length_append,
      List.length_singleton]
  · by_cases hp : e.instr_id = pid
    · have hnD : e.instr_id ∉ D := hp ▸ hD
      have h1 : register_on rob_it D e = e := by
        unfold register_on; rw [if_neg hx, if_neg hnD]
      have h2 : register_on rob_it (D ++ [pid]) e = add_reg_dependent rob_it e := by
        unfold register_on
        rw [if_neg hx, if_pos (by rw [hp]; simp)]
      rw [h1, h2, if_pos hp]
      have : (add_reg_dependent rob_it e).instr_id = e.instr_id := rfl
      rw [this, if_neg hx]
    · by_cases hd : e.instr_id ∈ D
      · have h1 : register_on rob_it D e = add_reg_dependent rob_it e := by
          unfold register_on; rw [if_neg hx, if_pos hd]
        have h2 : register_on rob_it (D ++ [pid]) e = add_reg_dependent rob_it e := by
          unfold register_on
          rw [if_neg hx, if_pos (List.mem_append_left _ hd)]
        rw [h1, h2]
        have : (add_reg_dependent rob_it e).instr_id = e.instr_id := rfl
        rw [this, if_neg hp, this, if_neg hx]
      · have h1 : register_on rob_it D e = e := by
          unfold register_on; rw [if_neg hx, if_neg hd]
        have h2 : register_on rob_it (D ++ [pid]) e = e := by
          unfold register_on
          rw [if_neg hx, if_neg (by simp [hd, hp])]
        rw [h1, h2, if_neg hp, if_neg hx]

theorem do_scheduling_register_step (rob_it : Nat) (s0 : O3_CPU) (D : List Nat) (r : Nat)
    (hfresh : ∀ p ∈ older_records s0.ROB.entries rob_it,
      p.registers_instrs_depend_on_me.getLast? ≠ some rob_it) :
    do_scheduling_register rob_it (map_rob s0 (register_on rob_it D)) r
      = map_rob s0 (register_on rob_it (distinct_producers s0.ROB.entries rob_it [r] D)) := by
  unfold do_scheduling_register
  by_cases hr : r ≠ 0
  · rw [if_pos hr]
    have hmap : (map_rob s0 (register_on rob_it D)).ROB.entries
        = s0.ROB.entries.map (register_on rob_it D) := rfl
    rw [hmap, reg_producer_map _ _ _ _ (register_on_id rob_it D) (register_on_produce rob_it D r)]
    cases hprod : reg_producer s0.ROB.entries rob_it r with
    | none =>
      simp only [Option.map_none', distinct_producers, hr, hprod, if_true, ne_eq,
        not_false_eq_true]
    | some prior =>
      have hmem := reg_producer_mem _ _ _ _ hprod
      have hne : prior.instr_id ≠ rob_it := older_records_id _ _ _ hmem
      simp only [Option.map_some']
      by_cases hD : prior.instr_id ∈ D
      · have h1 : register_on rob_it D prior = add_reg_dependent rob_it prior := by
          unfold register_on; rw [if_neg hne, if_pos hD]
        have hd : distinct_producers s0.ROB.entries rob_it [r] D = D := by
          simp only [distinct_producers, hr, hprod, hD, if_true, ne_eq, not_false_eq_true]
        rw [h1, hd, if_neg]
        simp [add_reg_dependent]
      · have h1 : register_on rob_it D prior = prior := by
          unfold register_on; rw [if_neg hne, if_neg hD]
        have hd : distinct_producers s0.ROB.entries rob_it [r] D = D ++ [prior.instr_id] := by
          simp only [distinct_producers, hr, hprod, hD, if_true, if_false, ne_eq,
            not_false_eq_true]
        rw [h1, hd, if_pos (Or.inr (hfresh prior hmem))]
        unfold update_rob map_rob rob_modify
        simp only [List.map_map]
        congr 2
        apply List.map_congr_left
        intro e _
        exact register_more rob_it prior.instr_id D hne hD e
  · rw [if_neg hr]
    simp only [distinct_producers, hr, if_false]

theorem distinct_producers_cons (rob : List ooo_model_instr) (rob_it r : Nat)
    (rest D : List Nat) :
    distinct_producers rob rob_it (r :: rest) D
      = distinct_producers rob rob_it rest (distinct_producers rob rob_it [r] D) := by
  simp only [distinct_producers]
  split_ifs with h1
  · cases reg_producer rob rob_it r with
    | none => rfl
    | some prior =>
      simp only
      split_ifs <;> rfl
  · rfl

theorem do_scheduling_registers_fold (rob_it : Nat) (s0 : O3_CPU)
    (hfresh : ∀ p ∈ older_records s0.ROB.entries rob_it,
      p.registers_instrs_depend_on_me.getLast? ≠ some rob_it) (rs : List Nat) :
    ∀ D : List Nat,
      rs.foldl (do_scheduling_register rob_it) (map_rob s0 (register_on rob_it D))
        = map_rob s0 (register_on rob_it (distinct_producers s0.ROB.entries rob_it rs D)) := by
  induction rs with
  | nil => intro D; rfl
  | cons r rest ih =>
    intro D
    rw [List.foldl_cons, do_scheduling_register_step rob_it s0 D r hfresh, ih,
      ← distinct_producers_cons]

/-- What a returning `do_scheduling` leaves: the records of the ROB changed by
`scheduled_on` for the distinct producers selected. -/
theorem do_scheduling_spec (P : Params) (s s' : O3_CPU) (rob_it : Nat) (x : ooo_model_instr)
    (h : do_scheduling P s rob_it = .ok s')
    (hx : rob_find s.ROB.entries rob_it = some x)
    (hfresh : ∀ p ∈ older_records s.ROB.entries rob_it,
      p.registers_instrs_depend_on_me.getLast? ≠ some rob_it) :
    s' = map_rob s (scheduled_on P s.warmup_complete s.current_core_cycle rob_it
      (distinct_producers s.ROB.entries rob_it x.source_registers [])) := by
  unfold do_scheduling at h
  rw [hx] at h
  simp only [Outcome.ok.injEq] at h
  rw [← h]
  have hfold := do_scheduling_registers_fold rob_it s hfresh x.source_registers []
  rw [map_rob_register_nil] at hfold
  rw [hfold]
  unfold update_rob map_rob rob_modify
  simp only [List.map_map]
  congr 2
  apply List.map_congr_left
  intro e _
  simp only [Function.comp, scheduled_on, register_on_id]

theorem distinct_producers_nodup (rob : List ooo_model_instr) (rob_it : Nat) (rs : List Nat) :
    ∀ D : List Nat, D.Nodup → (distinct_producers rob rob_it rs D).Nodup := by
  induction rs with
  | nil => intro D hD; exact hD
  | cons r rest ih =>
    intro D hD
    simp only [distinct_producers]
    split_ifs with h1
    · cases reg_producer rob rob_it r with
      | none => exact ih D hD
      | some prior =>
        simp only
        split_ifs with h2
        · exact ih D hD
        · apply ih
          rw [List.nodup_append]
          exact ⟨hD, List.nodup_singleton _, by simpa using h2⟩
    · exact ih D hD

theorem distinct_producers_mem (rob : List ooo_model_instr) (rob_it : Nat) (rs : List Nat) :
    ∀ (D : List Nat) (d : Nat),
      d ∈ distinct_producers rob rob_it rs D ↔
        d ∈ D ∨ ∃ r ∈ rs, r ≠ 0 ∧ ∃ p, reg_producer rob rob_it r = some p ∧ p.instr_id = d := by
  induction rs with
  | nil => intro D d; simp [distinct_producers]
  | cons r rest ih =>
    intro D d
    simp only [distinct_producers]
    by_cases h1 : r ≠ 0
    · rw [if_pos h1]
      cases hprod : reg_producer rob rob_it r with
      | none =>
        simp only
        rw [ih]
        constructor
        · rintro (h | ⟨r', hr', h0, p, hp, hd⟩)
          · exact Or.inl h
          · exact Or.inr ⟨r', List.mem_cons_of_mem _ hr', h0, p, hp, hd⟩
        · rintro (h | ⟨r', hr', h0, p, hp, hd⟩)
          · exact Or.inl h
          · rcases List.mem_cons.mp hr' with rfl | hr'
            · rw [hprod] at hp; cases hp
            · exact Or.inr ⟨r', hr', h0, p, hp, hd⟩
      | some prior =>
        simp only
        by_cases h2 : prior.instr_id ∈ D
        · rw [if_pos h2, ih]
          constructor
          · rintro (h | ⟨r', hr', h0, p, hp, hd⟩)
            · exact Or.inl h
            · exact Or.inr ⟨r', List.mem_cons_of_mem _ hr', h0, p, hp, hd⟩
          · rintro (h | ⟨r', hr', h0, p, hp, hd⟩)
            · exact Or.inl h
            · rcases List.mem_cons.mp hr' with rfl | hr'
              · rw [hprod] at hp
                cases hp
                exact Or.inl (hd ▸ h2)
              · exact Or.inr ⟨r', hr', h0, p, hp, hd⟩
        · rw [if_neg h2, ih]
          constructor
          · rintro (h | ⟨r', hr', h0, p, hp, hd⟩)
            · rcases List.mem_append.mp h with h | h
              · exact Or.inl h
              · rw [List.mem_singleton] at h
                exact Or.inr ⟨r, List.mem_cons_self _ _, h1, prior, hprod, h.symm⟩
            · exact Or.inr ⟨r', List.mem_cons_of_mem _ hr', h0, p, hp, hd⟩
          · rintro (h | ⟨r', hr', h0, p, hp, hd⟩)
            · exact Or.inl (List.mem_append_left _ h)
            · rcases List.mem_cons.mp hr' with rfl | hr'
              · rw [hprod] at hp
                cases hp
                exact Or.inl (List.mem_append_right _ (by rw [List.mem_singleton]; exact hd.symm))
              · exact Or.inr ⟨r', hr', h0, p, hp, hd⟩
    · rw [if_neg h1, ih]
      constructor
      · rintro (h | ⟨r', hr', h0, p, hp, hd⟩)
        · exact Or.inl h
        · exact Or.inr ⟨r', List.mem_cons_of_mem _ hr', h0, p, hp, hd⟩
      · rintro (h | ⟨r', hr', h0, p, hp, hd⟩)
        · exact Or.inl h
        · rcases List.mem_cons.mp hr' with rfl | hr'
          · exact absurd h0 h1
          · exact Or.inr ⟨r', hr', h0, p, hp, hd⟩

theorem distinct_producers_older (rob : List ooo_model_instr) (rob_it : Nat) (rs : List Nat)
    (d : Nat) (h : d ∈ distinct_producers rob rob_it rs []) :
    ∃ p ∈ older_records rob rob_it, p.instr_id = d ∧ p.executed ≠ COMPLETED := by
  rcases (distinct_producers_mem rob rob_it rs [] d).mp h with h | ⟨r, _, _, p, hp, hd⟩
  · cases h
  · refine ⟨p, reg_producer_mem _ _ _ _ hp, hd, ?_⟩
    have := List.find?_some hp
    unfold instr_reg_will_produce at this
    simp only [Bool.and_eq_true, bne_iff_ne, ne_eq] at this
    exact this.1

theorem scheduled_on_fields (P : Params) (w c rob_it : Nat) (D : List Nat)
    (hD : rob_it ∉ D) (e : ooo_model_instr) :
    (scheduled_on P w c rob_it D e).instr_id = e.instr_id ∧
    (scheduled_on P w c rob_it D e).executed = e.executed ∧
    (scheduled_on P w c rob_it D e).registers_instrs_depend_on_me
      = e.registers_instrs_depend_on_me ++ (if e.instr_id ∈ D then [rob_it] else []) ∧
    (scheduled_on P w c rob_it D e).num_reg_dependent
      = e.num_reg_dependent + (if e.instr_id = rob_it then (D.length : Int) else 0) ∧
    (e.instr_id ≠ rob_it → (scheduled_on P w c rob_it D e).scheduled = e.scheduled) ∧
    (e.instr_id = rob_it → (scheduled_on P w c rob_it D e).scheduled
      = if e.is_memory ≠ 0 then INFLIGHT else COMPLETED) := by
  unfold scheduled_on
  unfold register_on
  by_cases hx : e.instr_id = rob_it
  · have hnD : e.instr_id ∉ D := hx ▸ hD
    rw [if_pos hx, if_pos hx, if_neg hnD, if_pos hx]
    unfold scheduled_record add_reg_count
    refine ⟨?_, ?_, ?_, ?_, fun hc => absurd hx hc, fun _ => ?_⟩ <;>
      split_ifs <;> simp
  · rw [if_neg hx, if_neg hx, if_neg hx]
    unfold add_reg_dependent
    refine ⟨?_, ?_, ?_, ?_, fun _ => ?_, fun hc => absurd hc hx⟩ <;>
      split_ifs <;> simp

/-- C24: `do_scheduling` for the record `x` of the ROB (iterator `rob_it`), when `x` is
not the last dependent of an older record. For a source register `r` the search selects
the nearest older record that has `r` among its destination registers and has
`executed != COMPLETED`, or none when no older record is such. With `D` the distinct
producers selected for the non-zero source registers, a returning call leaves every
record `e` of the ROB with `rob_it` appended once to its dependent list when `e` is in
`D` and with the list unchanged otherwise, and `num_reg_dependent` of `x` is larger by
the number of producers in `D` while that of the other records is unchanged; when no
source register has a producer, no counter and no list changes. -/
theorem do_scheduling_registers_once (P : Params) (s s' : O3_CPU) (rob_it : Nat)
    (x : ooo_model_instr)
    (hx : rob_find s.ROB.entries rob_it = some x)
    (hfresh : ∀ p ∈ older_records s.ROB.entries rob_it,
      p.registers_instrs_depend_on_me.getLast? ≠ some rob_it)
    (h : do_scheduling P s rob_it = .ok s') :
    (∀ r p, reg_producer s.ROB.entries rob_it r = some p →
      p.executed ≠ COMPLETED ∧ r ∈ p.destination_registers ∧
      ∃ i, i < s.ROB.entries.findIdx (fun e => e.instr_id == rob_it) ∧
        s.ROB.entries.get? i = some p ∧
        ∀ k q, i < k → k < s.ROB.entries.findIdx (fun e => e.instr_id == rob_it) →
          s.ROB.entries.get? k = some q →
          ¬ (q.executed ≠ COMPLETED ∧ r ∈ q.destination_registers)) ∧
    (∀ r, reg_producer s.ROB.entries rob_it r = none →
      ∀ k q, k < s.ROB.entries.findIdx (fun e => e.instr_id == rob_it) →
        s.ROB.entries.get? k = some q →
        ¬ (q.executed ≠ COMPLETED ∧ r ∈ q.destination_registers)) ∧
    ∃ (D : List Nat) (g : ooo_model_instr → ooo_model_instr),
      D.Nodup ∧
      (∀ d, d ∈ D ↔ ∃ r ∈ x.source_registers, r ≠ 0 ∧
        ∃ p, reg_producer s.ROB.entries rob_it r = some p ∧ p.instr_id = d) ∧
      s'.ROB.entries = s.ROB.entries.map g ∧
      (∀ e, (g e).instr_id = e.instr_id ∧
        (g e).registers_instrs_depend_on_me
          = e.registers_instrs_depend_on_me ++ (if e.instr_id ∈ D then [rob_it] else []) ∧
        (g e).num_reg_dependent
          = e.num_reg_dependent + (if e.instr_id = rob_it then (D.length : Int) else 0)) ∧
      ((∀ r ∈ x.source_registers, r ≠ 0 → reg_producer s.ROB.entries rob_it r = none) →
        ∀ e, (g e).num_reg_dependent = e.num_reg_dependent ∧
          (g e).registers_instrs_depend_on_me = e.registers_instrs_depend_on_me) := by
  have hwp : ∀ (r : Nat) (q : ooo_model_instr),
      instr_reg_will_produce r q = true ↔
        (q.executed ≠ COMPLETED ∧ r ∈ q.destination_registers) := by
    intro r q
    unfold instr_reg_will_produce
    simp
  refine ⟨?_, ?_, ?_⟩
  · intro r p hp
    obtain ⟨h1, i, hi, hg, hbetween⟩ := reg_producer_nearest _ _ _ _ hp
    refine ⟨((hwp r p).mp h1).1, ((hwp r p).mp h1).2, i, hi, hg, ?_⟩
    intro k q hik hk hq hc
    have := hbetween k q hik hk hq
    rw [(hwp r q).mpr hc] at this
    cases this
  · intro r hr k q hk hq hc
    have := reg_producer_none _ _ _ hr k q hk hq
    rw [(hwp r q).mpr hc] at this
    cases this
  · have hspec := do_scheduling_spec P s s' rob_it x h hx hfresh
    have hD : rob_it ∉ distinct_producers s.ROB.entries rob_it x.source_registers [] := by
      intro hc
      obtain ⟨p, hp, hid, -⟩ := distinct_producers_older _ _ _ _ hc
      exact older_records_id _ _ _ hp hid
    refine ⟨distinct_producers s.ROB.entries rob_it x.source_registers [],
      scheduled_on P s.warmup_complete s.current_core_cycle rob_it
        (distinct_producers s.ROB.entries rob_it x.source_registers []),
      distinct_producers_nodup _ _ _ _ List.nodup_nil, ?_, by rw [hspec]; rfl, ?_, ?_⟩
    · intro d
      rw [distinct_producers_mem]
      simp
    · intro e
      have := scheduled_on_fields P s.warmup_complete s.current_core_cycle rob_it _ hD e
      exact ⟨this.1, this.2.2.1, this.2.2.2.1⟩
    · intro hnone e
      have hnil : distinct_producers s.ROB.entries rob_it x.source_registers [] = [] := by
        apply List.eq_nil_iff_forall_not_mem.mpr
        intro d hd
        rcases (distinct_producers_mem _ _ _ [] d).mp hd with h1 | ⟨r, hr, h0, p, hp, -⟩
        · cases h1
        · rw [hnone r hr h0] at hp
          cases hp
      have := scheduled_on_fields P s.warmup_complete s.current_core_cycle rob_it _ hD e
      rw [hnil] at this ⊢
      refine ⟨?_, ?_⟩
      · rw [this.2.2.2.1]
        simp
      · rw [this.2.2.1]
        simp

theorem do_scheduling_registers_once_witness :
    (rob_find reg_core.ROB.entries 2 = some reg_X ∧
     (∀ p ∈ older_records reg_core.ROB.entries 2,
       p.registers_instrs_depend_on_me.getLast? ≠ some 2) ∧
     do_scheduling sample_params reg_core 2 = .ok reg_scheduled ∧
     reg_X.source_registers = [3, 7, 3, 0] ∧
     (reg_scheduled.ROB.entries.map fun e =>
        (e.instr_id, e.registers_instrs_depend_on_me, e.num_reg_dependent))
       = [(0, [2], 0), (1, [2], 0), (2, [], 2)]) ∧
    (∀ r p, reg_producer reg_core.ROB.entries 2 r = some p →
      p.executed ≠ COMPLETED ∧ r ∈ p.destination_registers ∧
      ∃ i, i < reg_core.ROB.entries.findIdx (fun e => e.instr_id == 2) ∧
        reg_core.ROB.entries.get? i = some p ∧
        ∀ k q, i < k → k < reg_core.ROB.entries.findIdx (fun e => e.instr_id == 2) →
          reg_core.ROB.entries.get? k = some q →
          ¬ (q.executed ≠ COMPLETED ∧ r ∈ q.destination_registers)) ∧
    (∀ r, reg_producer reg_core.ROB.entries 2 r = none →
      ∀ k q, k < reg_core.ROB.entries.findIdx (fun e => e.instr_id == 2) →
        reg_core.ROB.entries.get? k = some q →
        ¬ (q.executed ≠ COMPLETED ∧ r ∈ q.destination_registers)) ∧
    ∃ (D : List Nat) (g : ooo_model_instr → ooo_model_instr),
      D.Nodup ∧
      (∀ d, d ∈ D ↔ ∃ r ∈ reg_X.source_registers, r ≠ 0 ∧
        ∃ p, reg_producer reg_core.ROB.entries 2 r = some p ∧ p.instr_id = d) ∧
      reg_scheduled.ROB.entries = reg_core.ROB.entries.map g ∧
      (∀ e, (g e).instr_id = e.instr_id ∧
        (g e).registers_instrs_depend_on_me
          = e.registers_instrs_depend_on_me ++ (if e.instr_id ∈ D then [2] else []) ∧
        (g e).num_reg_dependent
          = e.num_reg_dependent + (if e.instr_id = 2 then (D.length : Int) else 0)) ∧
      ((∀ r ∈ reg_X.source_registers, r ≠ 0 → reg_producer reg_core.ROB.entries 2 r = none) →
        ∀ e, (g e).num_reg_dependent = e.num_reg_dependent ∧
          (g e).registers_instrs_depend_on_me = e.registers_instrs_depend_on_me) :=
  ⟨⟨by decide, by decide, by decide, by decide, by decide⟩,
    do_scheduling_registers_once sample_params reg_core reg_scheduled 2 reg_X (by decide)
      (by decide) (by decide)⟩

/-! ## Lemmas: the invariant of register dependencies -/

theorem get?_id_inj (rob : List ooo_model_instr) (hn : (ids rob).Nodup) (i j : Nat)
    (a b : ooo_model_instr) (ha : rob.get? i = some a) (hb : rob.get? j = some b)
    (hid : a.instr_id = b.instr_id) : i = j := by
  rw [List.get?_eq_getElem?] at ha hb
  obtain ⟨hi, hga⟩ := List.getElem?_eq_some_iff.mp ha
  obtain ⟨hj, hgb⟩ := List.getElem?_eq_some_iff.mp hb
  have hi2 : i < (ids rob).length := by unfold ids; rw [List.length_map]; exact hi
  have hj2 : j < (ids rob).length := by unfold ids; rw [List.length_map]; exact hj
  have h1 : (ids rob)[i] = a.instr_id := by unfold ids; rw [List.getElem_map, hga]
  have h2 : (ids rob)[j] = b.instr_id := by unfold ids; rw [List.getElem_map, hgb]
  exact (List.Nodup.getElem_inj_iff hn).mp (by rw [h1, h2, hid])

theorem mem_iff_get? (rob : List ooo_model_instr) (p : ooo_model_instr) :
    p ∈ rob ↔ ∃ i, rob.get? i = some p := by
  rw [List.mem_iff_getElem?]
  simp only [List.get?_eq_getElem?]

theorem dependent_in_rob (rob : List ooo_model_instr) (q : List Nat) (h : dep_inv rob q)
    (p : ooo_model_instr) (hp : p ∈ rob) (d : Nat)
    (hd : d ∈ p.registers_instrs_depend_on_me) :
    ∃ y, y ∈ rob ∧ y.instr_id = d ∧ y.instr_id ≠ p.instr_id ∧ rob_find rob d = some y := by
  obtain ⟨i, hi⟩ := (mem_iff_get? rob p).mp hp
  obtain ⟨j, y, hij, hy, hid⟩ := h.younger i p hi d hd
  have hmem : y ∈ rob := (mem_iff_get? rob y).mpr ⟨j, hy⟩
  refine ⟨y, hmem, hid, ?_, ?_⟩
  · intro hc
    have := get?_id_inj rob h.ids_nodup j i y p hy hi hc
    omega
  · rw [← hid]
    exact rob_find_of_mem rob h.ids_nodup y hmem

theorem not_self_dependent (rob : List ooo_model_instr) (q : List Nat) (h : dep_inv rob q)
    (p : ooo_model_instr) (hp : p ∈ rob) : p.instr_id ∉ p.registers_instrs_depend_on_me := by
  intro hc
  obtain ⟨y, -, hid, hne, -⟩ := dependent_in_rob rob q h p hp _ hc
  exact hne hid

theorem mem_of_rob_find (rob : List ooo_model_instr) (id : Nat) (x : ooo_model_instr)
    (h : rob_find rob id = some x) : x ∈ rob ∧ x.instr_id = id :=
  ⟨rob_find_mem rob id x h, rob_find_id rob id x h⟩

theorem countP_flip (l : List ooo_model_instr) (hn : (ids l).Nodup) (p0 : ooo_model_instr)
    (hp0 : p0 ∈ l) (f f' : ooo_model_instr → Bool) (h1 : f p0 = true) (h2 : f' p0 = false)
    (hrest : ∀ p ∈ l, p.instr_id ≠ p0.instr_id → f' p = f p) :
    l.countP f = l.countP f' + 1 := by
  induction l with
  | nil => exact absurd hp0 (List.not_mem_nil _)
  | cons a rest ih =>
    simp only [ids, List.map_cons, List.nodup_cons, List.mem_map, not_exists, not_and] at hn
    rw [List.countP_cons, List.countP_cons]
    rcases List.mem_cons.mp hp0 with rfl | hmem
    · have hsame : rest.countP f = rest.countP f' := by
        apply List.countP_congr
        intro p hp
        have hne : p.instr_id ≠ p0.instr_id := fun hc => hn.1 p hp hc
        rw [hrest p (List.mem_cons_of_mem _ hp) hne]
      rw [h1, h2, hsame]
      simp
    · have hne : a.instr_id ≠ p0.instr_id := fun hc => hn.1 p0 hmem hc.symm
      have := ih hn.2 hmem (fun p hp => hrest p (List.mem_cons_of_mem _ hp))
      rw [this, hrest a (List.mem_cons_self _ _) hne]
      omega

theorem countP_ids_mem (l : List ooo_model_instr) (hn : (ids l).Nodup) (D : List Nat)
    (hD : D.Nodup) (hsub : ∀ d ∈ D, d ∈ ids l) :
    l.countP (fun p => decide (p.instr_id ∈ D)) = D.length := by
  have h1 : l.countP (fun p => decide (p.instr_id ∈ D))
      = (ids l).countP (fun d => decide (d ∈ D)) := by
    unfold ids
    rw [List.countP_map]
    rfl
  rw [h1, List.countP_eq_length_filter]
  apply List.Perm.length_eq
  rw [List.perm_ext_iff_of_nodup (hn.filter _) hD]
  intro d
  simp only [List.mem_filter, decide_eq_true_eq]
  exact ⟨fun h => h.2, fun h => ⟨hsub d h, h⟩⟩

theorem holds_back_pos (rob : List ooo_model_instr) (q : List Nat) (h : dep_inv rob q)
    (p : ooo_model_instr) (hp : p ∈ rob) (hpend : p.executed ≠ COMPLETED)
    (x : ooo_model_instr) (hx : x ∈ rob)
    (hd : x.instr_id ∈ p.registers_instrs_depend_on_me) : 1 ≤ x.num_reg_dependent := by
  rw [h.counted x hx]
  have : 0 < rob.countP (holds_back x.instr_id) := by
    rw [List.countP_pos_iff]
    exact ⟨p, hp, by unfold holds_back; simp [hpend, hd]⟩
  exact_mod_cast this

/-- The invariant reads only the fields of `dep_view`. -/
theorem dep_inv_map_iff (g : ooo_model_instr → ooo_model_instr)
    (hg : ∀ e, dep_view (g e) = dep_view e) (rob : List ooo_model_instr) (q : List Nat) :
    dep_inv (rob.map g) q ↔ dep_inv rob q := by
  have hid : ∀ e, (g e).instr_id = e.instr_id := fun e => congrArg (fun v => v.1) (hg e)
  have hex : ∀ e, (g e).executed = e.executed := fun e => congrArg (fun v => v.2.1) (hg e)
  have hsc : ∀ e, (g e).scheduled = e.scheduled := fun e => congrArg (fun v => v.2.2.1) (hg e)
  have hnum : ∀ e, (g e).num_reg_dependent = e.num_reg_dependent :=
    fun e => congrArg (fun v => v.2.2.2.1) (hg e)
  have hls : ∀ e, (g e).registers_instrs_depend_on_me = e.registers_instrs_depend_on_me :=
    fun e => congrArg (fun v => v.2.2.2.2) (hg e)
  have hids : ids (rob.map g) = ids rob := by
    unfold ids
    rw [List.map_map]
    exact List.map_congr_left fun e _ => hid e
  have hhb : ∀ id e, holds_back id (g e) = holds_back id e := by
    intro id e
    unfold holds_back
    rw [hex, hls]
  have hcount : ∀ id, (rob.map g).countP (holds_back id) = rob.countP (holds_back id) := by
    intro id
    rw [List.countP_map]
    exact List.countP_congr fun e _ => by simp [hhb]
  have hget : ∀ i, (rob.map g).get? i = (rob.get? i).map g := fun i => by
    rw [List.get?_eq_getElem?, List.get?_eq_getElem?, List.getElem?_map]
  constructor
  · intro h
    refine ⟨hids ▸ h.ids_nodup, ?_, ?_, ?_, ?_, ?_, h.queue_nodup, ?_⟩
    · intro i p hp d hd
      obtain ⟨j, y, hij, hy, hyd⟩ := h.younger i (g p) (by rw [hget, hp]; rfl) d (by rw [hls]; exact hd)
      rw [hget] at hy
      cases hy2 : rob.get? j with
      | none => rw [hy2] at hy; cases hy
      | some y0 =>
        rw [hy2] at hy
        simp only [Option.map_some', Option.some.injEq] at hy
        exact ⟨j, y0, hij, hy2, by rw [← hid y0, hy, hyd]⟩
    · intro p hp
      rw [← hls]
      exact h.lists_nodup (g p) (List.mem_map_of_mem g hp)
    · intro x hx
      rw [← hnum, ← hid x, ← hcount]
      exact h.counted (g x) (List.mem_map_of_mem g hx)
    · intro x hx hs p hp
      rw [← hid x, ← hls p]
      exact h.unscheduled (g x) (List.mem_map_of_mem g hx) (by rw [hsc]; exact hs) (g p)
        (List.mem_map_of_mem g hp)
    · intro x hx he
      rw [← hsc, ← hnum]
      exact h.started (g x) (List.mem_map_of_mem g hx) (by rw [hex]; exact he)
    · intro id hq
      obtain ⟨x, hx, h1, h2, h3⟩ := h.queued id hq
      rw [rob_find_map rob id g hid] at hx
      cases hx2 : rob_find rob id with
      | none => rw [hx2] at hx; cases hx
      | some x0 =>
        rw [hx2] at hx
        simp only [Option.map_some', Option.some.injEq] at hx
        subst hx
        exact ⟨x0, rfl, by rw [← hex]; exact h1, by rw [← hsc]; exact h2,
          by rw [← hnum]; exact h3⟩
  · intro h
    refine ⟨hids.symm ▸ h.ids_nodup, ?_, ?_, ?_, ?_, ?_, h.queue_nodup, ?_⟩
    · intro i p hp d hd
      rw [hget] at hp
      cases hp2 : rob.get? i with
      | none => rw [hp2] at hp; cases hp
      | some p0 =>
        rw [hp2] at hp
        simp only [Option.map_some', Option.some.injEq] at hp
        subst hp
        rw [hls] at hd
        obtain ⟨j, y, hij, hy, hyd⟩ := h.younger i p0 hp2 d hd
        exact ⟨j, g y, hij, by rw [hget, hy]; rfl, by rw [hid, hyd]⟩
    · intro p hp
      obtain ⟨p0, hp0, rfl⟩ := List.mem_map.mp hp
      rw [hls]
      exact h.lists_nodup p0 hp0
    · intro x hx
      obtain ⟨x0, hx0, rfl⟩ := List.mem_map.mp hx
      rw [hnum, hid, hcount]
      exact h.counted x0 hx0
    · intro x hx hs p hp
      obtain ⟨x0, hx0, rfl⟩ := List.mem_map.mp hx
      obtain ⟨p0, hp0, rfl⟩ := List.mem_map.mp hp
      rw [hid, hls]
      rw [hsc] at hs
      exact h.unscheduled x0 hx0 hs p0 hp0
    · intro x hx he
      obtain ⟨x0, hx0, rfl⟩ := List.mem_map.mp hx
      rw [hsc, hnum]
      rw [hex] at he
      exact h.started x0 hx0 he
    · intro id hq
      obtain ⟨x, hx, h1, h2, h3⟩ := h.queued id hq
      refine ⟨g x, by rw [rob_find_map rob id g hid, hx]; rfl, ?_, ?_, ?_⟩
      · rw [hex]; exact h1
      · rw [hsc]; exact h2
      · rw [hnum]; exact h3

/-- The oldest record leaves the ROB once it has completed. -/
theorem dep_inv_tail (head : ooo_model_instr) (rest : List ooo_model_instr) (q : List Nat)
    (h : dep_inv (head :: rest) q) (hc : head.executed = COMPLETED) : dep_inv rest q := by
  have hn := h.ids_nodup
  simp only [ids, List.map_cons, List.nodup_cons] at hn
  refine ⟨hn.2, ?_, ?_, ?_, ?_, ?_, h.queue_nodup, ?_⟩
  · intro i p hp d hd
    obtain ⟨j, y, hij, hy, hyd⟩ := h.younger (i + 1) p (by simpa using hp) d hd
    obtain ⟨j', rfl⟩ : ∃ j', j = j' + 1 := ⟨j - 1, by omega⟩
    exact ⟨j', y, by omega, by simpa using hy, hyd⟩
  · intro p hp
    exact h.lists_nodup p (List.mem_cons_of_mem _ hp)
  · intro x hx
    have := h.counted x (List.mem_cons_of_mem _ hx)
    rw [List.countP_cons] at this
    have hb : holds_back x.instr_id head = false := by
      unfold holds_back
      simp [hc]
    rw [hb] at this
    simpa using this
  · intro x hx hs p hp
    exact h.unscheduled x (List.mem_cons_of_mem _ hx) hs p (List.mem_cons_of_mem _ hp)
  · intro x hx he
    exact h.started x (List.mem_cons_of_mem _ hx) he
  · intro id hq
    obtain ⟨x, hx, h1, h2, h3⟩ := h.queued id hq
    refine ⟨x, ?_, h1, h2, h3⟩
    unfold rob_find at hx ⊢
    rw [List.find?_cons] at hx
    cases hhead : (head.instr_id == id) with
    | true =>
      rw [hhead] at hx
      simp only [Option.some.injEq] at hx
      rw [← hx, hc] at h1
      exact absurd h1 (by decide)
    | false =>
      rw [hhead] at hx
      exact hx

/-- The records of a completed front leave the ROB. -/
theorem dep_inv_drop (released rest : List ooo_model_instr) (q : List Nat)
    (h : dep_inv (released ++ rest) q) (hc : ∀ e ∈ released, e.executed = COMPLETED) :
    dep_inv rest q := by
  induction released with
  | nil => exact h
  | cons a l ih =>
    exact ih (dep_inv_tail a (l ++ rest) q h (hc a (List.mem_cons_self _ _)))
      (fun e he => hc e (List.mem_cons_of_mem _ he))

/-- A record that has not been scheduled enters the ROB at the back. -/
theorem dep_inv_enter (rob : List ooo_model_instr) (q : List Nat) (e : ooo_model_instr)
    (h : dep_inv rob q) (hs : e.scheduled = 0) (hx : e.executed = 0)
    (hnum : e.num_reg_dependent = 0) (hl : e.registers_instrs_depend_on_me = [])
    (hid : e.instr_id ∉ ids rob) : dep_inv (rob ++ [e]) q := by
  have hfree : ∀ p ∈ rob, e.instr_id ∉ p.registers_instrs_depend_on_me := by
    intro p hp hc
    obtain ⟨y, hy, hyd, -, -⟩ := dependent_in_rob rob q h p hp _ hc
    exact hid (by unfold ids; exact List.mem_map.mpr ⟨y, hy, hyd⟩)
  have hbe : ∀ id, holds_back id e = false := by
    intro id
    unfold holds_back
    simp [hl]
  have hcount : ∀ id, (rob ++ [e]).countP (holds_back id) = rob.countP (holds_back id) := by
    intro id
    rw [List.countP_append, List.countP_cons, hbe]
    simp
  refine ⟨?_, ?_, ?_, ?_, ?_, ?_, h.queue_nodup, ?_⟩
  · rw [ids_append, List.nodup_append]
    refine ⟨h.ids_nodup, by simp [ids], ?_⟩
    intro a ha hb
    simp only [ids, List.map_cons, List.map_nil, List.mem_singleton] at hb
    subst hb
    exact hid ha
  · intro i p hp d hd
    rw [List.get?_eq_getElem?] at hp
    by_cases hi : i < rob.length
    · rw [List.getElem?_append_left hi] at hp
      obtain ⟨j, y, hij, hy, hyd⟩ := h.younger i p (by rw [List.get?_eq_getElem?]; exact hp) d hd
      rw [List.get?_eq_getElem?] at hy
      have hj : j < rob.length := (List.getElem?_eq_some_iff.mp hy).1
      exact ⟨j, y, hij, by rw [List.get?_eq_getElem?, List.getElem?_append_left hj]; exact hy,
        hyd⟩
    · rw [List.getElem?_append_right (not_lt.mp hi)] at hp
      have : p = e := by
        cases hk : i - rob.length with
        | zero => rw [hk] at hp; simpa using hp.symm
        | succ k => rw [hk] at hp; simp at hp
      subst this
      rw [hl] at hd
      cases hd
  · intro p hp
    rcases List.mem_append.mp hp with hp | hp
    · exact h.lists_nodup p hp
    · rw [List.mem_singleton] at hp
      subst hp
      rw [hl]
      exact List.nodup_nil
  · intro x hx
    rw [hcount]
    rcases List.mem_append.mp hx with hx | hx
    · exact h.counted x hx
    · rw [List.mem_singleton] at hx
      subst hx
      rw [hnum]
      have : rob.countP (holds_back x.instr_id) = 0 := by
        rw [List.countP_eq_zero]
        intro p hp
        unfold holds_back
        simp [hfree p hp]
      rw [this]
      rfl
  · intro x hx1 hsx p hp1
    rcases List.mem_append.mp hp1 with hp2 | hp2
    · rcases List.mem_append.mp hx1 with hx2 | hx2
      · exact h.unscheduled x hx2 hsx p hp2
      · rw [List.mem_singleton] at hx2
        rw [hx2]
        exact hfree p hp2
    · rw [List.mem_singleton] at hp2
      rw [hp2, hl]
      exact List.not_mem_nil _
  · intro x hx1 he
    rcases List.mem_append.mp hx1 with hx2 | hx2
    · exact h.started x hx2 he
    · rw [List.mem_singleton] at hx2
      rw [hx2] at he
      exact absurd hx he
  · intro id hq
    obtain ⟨x, hx, h1, h2, h3⟩ := h.queued id hq
    refine ⟨x, ?_, h1, h2, h3⟩
    unfold rob_find at hx ⊢
    rw [List.find?_append, hx]
    rfl

theorem rob_find_position (rob : List ooo_model_instr) (id : Nat) (x : ooo_model_instr)
    (h : rob_find rob id = some x) :
    rob.get? (rob.findIdx fun e => e.instr_id == id) = some x := by
  induction rob with
  | nil => cases h
  | cons a rest ih =>
    unfold rob_find at h
    rw [List.find?_cons] at h
    rw [List.findIdx_cons]
    cases ha : (a.instr_id == id) with
    | true =>
      rw [ha] at h
      simp only [Option.some.injEq] at h
      simp [h]
    | false =>
      rw [ha] at h
      simpa using ih h

theorem eq_of_same_id (rob : List ooo_model_instr) (hn : (ids rob).Nodup)
    (a b : ooo_model_instr) (ha : a ∈ rob) (hb : b ∈ rob) (hid : a.instr_id = b.instr_id) :
    a = b := by
  have h1 := rob_find_of_mem rob hn a ha
  have h2 := rob_find_of_mem rob hn b hb
  rw [hid, h2] at h1
  exact (Option.some.inj h1).symm

/-- A record that is ready joins the queue. -/
theorem dep_inv_push (rob : List ooo_model_instr) (q : List Nat) (id : Nat)
    (x : ooo_model_instr) (h : dep_inv rob q) (hfind : rob_find rob id = some x)
    (hx0 : x.executed = 0) (hsc : x.scheduled = COMPLETED) (hnum : x.num_reg_dependent = 0)
    (hnq : id ∉ q) : dep_inv rob (q ++ [id]) := by
  refine ⟨h.ids_nodup, h.younger, h.lists_nodup, h.counted, h.unscheduled, h.started, ?_, ?_⟩
  · rw [List.nodup_append]
    refine ⟨h.queue_nodup, List.nodup_singleton _, ?_⟩
    intro a ha hb
    rw [List.mem_singleton] at hb
    exact hnq (hb ▸ ha)
  · intro id' hq
    rcases List.mem_append.mp hq with hq | hq
    · exact h.queued id' hq
    · rw [List.mem_singleton] at hq
      rw [hq]
      exact ⟨x, hfind, hx0, hsc, hnum⟩

/-- The queue is shorter than the ROB while a record of the ROB is not in it. -/
theorem queue_length_lt (rob : List ooo_model_instr) (q : List Nat) (id : Nat)
    (h : dep_inv rob q) (hid : id ∈ ids rob) (hnq : id ∉ q) : q.length < rob.length := by
  have hnd : (id :: q).Nodup := List.nodup_cons.mpr ⟨hnq, h.queue_nodup⟩
  have hsub : (id :: q) ⊆ ids rob := by
    intro a ha
    rcases List.mem_cons.mp ha with rfl | ha
    · exact hid
    · obtain ⟨x, hx, -⟩ := h.queued a ha
      obtain ⟨hm, hxid⟩ := mem_of_rob_find rob a x hx
      unfold ids
      exact List.mem_map.mpr ⟨x, hm, hxid⟩
  have := (List.subperm_of_subset hnd hsub).length_le
  simp only [List.length_cons, ids, List.length_map] at this
  omega

/-- What `do_scheduling` leaves of the invariant, for a record that has not been
scheduled. -/
theorem dep_inv_scheduled (P : Params) (w c : Nat) (rob : List ooo_model_instr)
    (q : List Nat) (rob_it : Nat) (x : ooo_model_instr) (h : dep_inv rob q)
    (hx : rob_find rob rob_it = some x) (hs : x.scheduled = 0) :
    dep_inv (rob.map (scheduled_on P w c rob_it
      (distinct_producers rob rob_it x.source_registers []))) q := by
  obtain ⟨hxm, hxid⟩ := mem_of_rob_find rob rob_it x hx
  have hfree : ∀ p ∈ rob, rob_it ∉ p.registers_instrs_depend_on_me := by
    intro p hp
    rw [← hxid]
    exact h.unscheduled x hxm hs p hp
  have hDold := distinct_producers_older rob rob_it x.source_registers
  have hDnot : rob_it ∉ distinct_producers rob rob_it x.source_registers [] := by
    intro hc
    obtain ⟨p, hp, hid, -⟩ := hDold _ hc
    exact older_records_id _ _ _ hp hid
  have hDnd := distinct_producers_nodup rob rob_it x.source_registers [] List.nodup_nil
  have hf := scheduled_on_fields P w c rob_it
    (distinct_producers rob rob_it x.source_registers []) hDnot
  have hDpend : ∀ p ∈ rob, p.instr_id ∈ distinct_producers rob rob_it x.source_registers [] →
      p.executed ≠ COMPLETED ∧
      ∃ i, i < rob.findIdx (fun e => e.instr_id == rob_it) ∧ rob.get? i = some p := by
    intro p hp hd
    obtain ⟨p0, hp0, hid, hpend⟩ := hDold _ hd
    have : p0 = p := eq_of_same_id rob h.ids_nodup p0 p (mem_older_records _ _ _ hp0) hp hid
    subst this
    exact ⟨hpend, older_records_position _ _ _ hp0⟩
  have hids : ids (rob.map (scheduled_on P w c rob_it
      (distinct_producers rob rob_it x.source_registers []))) = ids rob := by
    unfold ids
    rw [List.map_map]
    exact List.map_congr_left fun e _ => (hf e).1
  have hget : ∀ i, (rob.map (scheduled_on P w c rob_it
      (distinct_producers rob rob_it x.source_registers []))).get? i
      = (rob.get? i).map (scheduled_on P w c rob_it
          (distinct_producers rob rob_it x.source_registers [])) := fun i => by
    rw [List.get?_eq_getElem?, List.get?_eq_getElem?, List.getElem?_map]
  have hxnum : x.num_reg_dependent = 0 := by
    rw [h.counted x hxm]
    have : rob.countP (holds_back x.instr_id) = 0 := by
      rw [List.countP_eq_zero]
      intro p hp
      unfold holds_back
      rw [hxid]
      simp [hfree p hp]
    rw [this]
    rfl
  have hother : ∀ y ∈ rob, y.scheduled ≠ 0 → y.instr_id ≠ rob_it := by
    intro y hy hys hc
    have : y = x := eq_of_same_id rob h.ids_nodup y x hy hxm (hc.trans hxid.symm)
    exact hys (this ▸ hs)
  refine ⟨hids ▸ h.ids_nodup, ?_, ?_, ?_, ?_, ?_, h.queue_nodup, ?_⟩
  · intro i p' hp' d hd
    rw [hget] at hp'
    cases hp2 : rob.get? i with
    | none => rw [hp2] at hp'; cases hp'
    | some p =>
      rw [hp2] at hp'
      simp only [Option.map_some', Option.some.injEq] at hp'
      subst hp'
      rw [(hf p).2.2.1] at hd
      rcases List.mem_append.mp hd with hd | hd
      · obtain ⟨j, y, hij, hy, hyd⟩ := h.younger i p hp2 d hd
        exact ⟨j, _, hij, by rw [hget, hy]; rfl, by rw [(hf y).1, hyd]⟩
      · have hpm : p ∈ rob := (mem_iff_get? rob p).mpr ⟨i, hp2⟩
        by_cases hD : p.instr_id ∈ distinct_producers rob rob_it x.source_registers []
        · rw [if_pos hD, List.mem_singleton] at hd
          obtain ⟨-, i0, hi0, hg0⟩ := hDpend p hpm hD
          have : i = i0 := get?_id_inj rob h.ids_nodup i i0 p p hp2 hg0 rfl
          subst this
          exact ⟨_, _, hi0, by rw [hget, rob_find_position rob rob_it x hx]; rfl,
            by rw [(hf x).1, hxid, hd]⟩
        · rw [if_neg hD] at hd
          cases hd
  · intro p' hp'
    obtain ⟨p, hp, rfl⟩ := List.mem_map.mp hp'
    rw [(hf p).2.2.1, List.nodup_append]
    refine ⟨h.lists_nodup p hp, by split_ifs <;> simp, ?_⟩
    intro a ha hb
    split_ifs at hb
    · rw [List.mem_singleton] at hb
      exact hfree p hp (hb ▸ ha)
    · cases hb
  · intro y' hy'
    obtain ⟨y, hy, rfl⟩ := List.mem_map.mp hy'
    rw [(hf y).2.2.2.1, (hf y).1, List.countP_map]
    by_cases hyx : y.instr_id = rob_it
    · have hyeq : y = x := eq_of_same_id rob h.ids_nodup y x hy hxm (hyx.trans hxid.symm)
      rw [if_pos hyx, hyeq, hxnum, hxid]
      have : rob.countP (holds_back rob_it ∘ scheduled_on P w c rob_it
          (distinct_producers rob rob_it x.source_registers []))
          = rob.countP (fun p => decide
              (p.instr_id ∈ distinct_producers rob rob_it x.source_registers [])) := by
        apply List.countP_congr
        intro p hp
        simp only [Function.comp, holds_back, (hf p).2.1, (hf p).2.2.1, decide_eq_true_eq,
          List.mem_append]
        constructor
        · rintro ⟨-, hl | hl⟩
          · exact absurd hl (hfree p hp)
          · split_ifs at hl with hD
            · exact hD
            · cases hl
        · intro hD
          exact ⟨(hDpend p hp hD).1, Or.inr (by rw [if_pos hD]; exact List.mem_singleton_self _)⟩
      rw [this, countP_ids_mem rob h.ids_nodup _ hDnd]
      · simp
      · intro d hd
        obtain ⟨p0, hp0, hid, -⟩ := hDold _ hd
        unfold ids
        exact List.mem_map.mpr ⟨p0, mem_older_records _ _ _ hp0, hid⟩
    · rw [if_neg hyx, add_zero, h.counted y hy]
      congr 1
      apply List.countP_congr
      intro p hp
      simp only [Function.comp, holds_back, (hf p).2.1, (hf p).2.2.1, decide_eq_true_eq,
        List.mem_append]
      constructor
      · rintro ⟨h1, hl⟩
        exact ⟨h1, Or.inl hl⟩
      · rintro ⟨h1, hl | hl⟩
        · exact ⟨h1, hl⟩
        · split_ifs at hl
          · rw [List.mem_singleton] at hl
            exact absurd hl hyx
          · cases hl
  · intro y' hy' hys p' hp'
    obtain ⟨y, hy, rfl⟩ := List.mem_map.mp hy'
    obtain ⟨p, hp, rfl⟩ := List.mem_map.mp hp'
    have hyx : y.instr_id ≠ rob_it := by
      intro hc
      rw [(hf y).2.2.2.2.2 hc] at hys
      split_ifs at hys
      · exact absurd hys (by decide)
      · exact absurd hys (by decide)
    rw [(hf y).2.2.2.2.1 hyx] at hys
    rw [(hf y).1, (hf p).2.2.1, List.mem_append]
    rintro (hl | hl)
    · exact h.unscheduled y hy hys p hp hl
    · split_ifs at hl
      · rw [List.mem_singleton] at hl
        exact hyx hl
      · cases hl
  · intro y' hy' hye
    obtain ⟨y, hy, rfl⟩ := List.mem_map.mp hy'
    rw [(hf y).2.1] at hye
    obtain ⟨h1, h2⟩ := h.started y hy hye
    have hyx : y.instr_id ≠ rob_it := hother y hy (by rw [h1]; decide)
    rw [(hf y).2.2.2.2.1 hyx, (hf y).2.2.2.1, if_neg hyx]
    exact ⟨h1, by rw [h2]; rfl⟩
  · intro id hq
    obtain ⟨y, hy, h1, h2, h3⟩ := h.queued id hq
    obtain ⟨hym, hyid⟩ := mem_of_rob_find rob id y hy
    have hyx : y.instr_id ≠ rob_it := hother y hym (by rw [h2]; decide)
    refine ⟨_, by rw [rob_find_map rob id _ (fun e => (hf e).1), hy]; rfl, ?_, ?_, ?_⟩
    · rw [(hf y).2.1]; exact h1
    · rw [(hf y).2.2.2.2.1 hyx]; exact h2
    · rw [(hf y).2.2.2.1, if_neg hyx, h3]; rfl

/-- What `do_execution` of the front of the queue and `pop()` leave of the invariant. -/
theorem dep_inv_executed (P : Params) (w c : Nat) (rob : List ooo_model_instr)
    (front : Nat) (rest : List Nat) (h : dep_inv rob (front :: rest)) :
    dep_inv (rob_modify rob front (executed_record P w c)) rest := by
  obtain ⟨x, hx, hx0, hxs, hxn⟩ := h.queued front (List.mem_cons_self _ _)
  obtain ⟨hxm, hxid⟩ := mem_of_rob_find rob front x hx
  have hfid : ∀ e, (executed_record P w c e).instr_id = e.instr_id := fun e => rfl
  have hself : ∀ y ∈ rob, y.instr_id = front → y = x := fun y hy hc =>
    eq_of_same_id rob h.ids_nodup y x hy hxm (hc.trans hxid.symm)
  have hhb : ∀ id, ∀ p ∈ rob,
      holds_back id (if p.instr_id = front then executed_record P w c p else p)
        = holds_back id p := by
    intro id p hp
    by_cases hpf : p.instr_id = front
    · rw [if_pos hpf]
      have hpx := hself p hp hpf
      unfold holds_back executed_record
      rw [hpx]
      simp only [hx0]
      have e1 : INFLIGHT ≠ COMPLETED := by decide
      have e2 : (0 : Nat) ≠ COMPLETED := by decide
      simp only [e1, e2, ne_eq, not_false_eq_true, true_and]
    · rw [if_neg hpf]
  have hqn := h.queue_nodup
  rw [List.nodup_cons] at hqn
  unfold rob_modify
  refine ⟨?_, ?_, ?_, ?_, ?_, ?_, hqn.2, ?_⟩
  · have := rob_modify_ids rob front (executed_record P w c) hfid
    unfold rob_modify at this
    rw [this]
    exact h.ids_nodup
  · intro i p' hp' d hd
    rw [List.get?_eq_getElem?, List.getElem?_map] at hp'
    cases hp2 : rob[i]? with
    | none => rw [hp2] at hp'; cases hp'
    | some p =>
      rw [hp2] at hp'
      simp only [Option.map_some', Option.some.injEq] at hp'
      subst hp'
      have hd2 : d ∈ p.registers_instrs_depend_on_me := by
        split_ifs at hd
        · exact hd
        · exact hd
      obtain ⟨j, y, hij, hy, hyd⟩ := h.younger i p (by rw [List.get?_eq_getElem?]; exact hp2) d hd2
      rw [List.get?_eq_getElem?] at hy
      refine ⟨j, _, hij, by rw [List.get?_eq_getElem?, List.getElem?_map, hy]; rfl, ?_⟩
      beta_reduce
      split_ifs
      · exact hyd
      · exact hyd
  · intro p' hp'
    obtain ⟨p, hp, rfl⟩ := List.mem_map.mp hp'
    split_ifs
    · exact h.lists_nodup p hp
    · exact h.lists_nodup p hp
  · intro y' hy'
    obtain ⟨y, hy, rfl⟩ := List.mem_map.mp hy'
    rw [List.countP_map]
    have h1 : (if y.instr_id = front then executed_record P w c y else y).num_reg_dependent
        = y.num_reg_dependent := by split_ifs <;> rfl
    have h2 : (if y.instr_id = front then executed_record P w c y else y).instr_id
        = y.instr_id := by split_ifs <;> rfl
    rw [h1, h2, h.counted y hy]
    congr 1
    apply List.countP_congr
    intro p hp
    simp only [Function.comp, hhb _ p hp]
  · intro y' hy' hys p' hp'
    obtain ⟨y, hy, rfl⟩ := List.mem_map.mp hy'
    obtain ⟨p, hp, rfl⟩ := List.mem_map.mp hp'
    have h1 : (if y.instr_id = front then executed_record P w c y else y).scheduled
        = y.scheduled := by split_ifs <;> rfl
    have h2 : (if y.instr_id = front then executed_record P w c y else y).instr_id
        = y.instr_id := by split_ifs <;> rfl
    have h3 : (if p.instr_id = front then executed_record P w c p else p).registers_instrs_depend_on_me
        = p.registers_instrs_depend_on_me := by split_ifs <;> rfl
    rw [h1] at hys
    rw [h2, h3]
    exact h.unscheduled y hy hys p hp
  · intro y' hy' hye
    obtain ⟨y, hy, rfl⟩ := List.mem_map.mp hy'
    have h1 : (if y.instr_id = front then executed_record P w c y else y).scheduled
        = y.scheduled := by split_ifs <;> rfl
    have h2 : (if y.instr_id = front then executed_record P w c y else y).num_reg_dependent
        = y.num_reg_dependent := by split_ifs <;> rfl
    rw [h1, h2]
    by_cases hyf : y.instr_id = front
    · rw [hself y hy hyf]
      exact ⟨hxs, hxn⟩
    · rw [if_neg hyf] at hye
      exact h.started y hy hye
  · intro id hq
    obtain ⟨y, hy, h1, h2, h3⟩ := h.queued id (List.mem_cons_of_mem _ hq)
    have hne : id ≠ front := fun hc => hqn.1 (hc ▸ hq)
    refine ⟨y, ?_, h1, h2, h3⟩
    have := rob_find_modify rob front id (executed_record P w c) hfid
    unfold rob_modify at this
    rw [this, hy]
    have hyid := (mem_of_rob_find rob id y hy).2
    simp only [Option.map_some', Option.some.injEq]
    rw [if_neg (by rw [hyid]; exact hne)]

/-! ## Lemmas: completion -/

theorem release_dependent_id (e : ooo_model_instr) :
    (release_dependent e).instr_id = e.instr_id := by
  unfold release_dependent
  simp only
  split_ifs <;> rfl

theorem release_dependent_fields (e : ooo_model_instr) :
    (release_dependent e).instr_id = e.instr_id ∧
    (release_dependent e).executed = e.executed ∧
    (release_dependent e).registers_instrs_depend_on_me = e.registers_instrs_depend_on_me ∧
    (release_dependent e).num_reg_dependent = e.num_reg_dependent - 1 ∧
    (e.scheduled ≠ 0 → (release_dependent e).scheduled ≠ 0) := by
  unfold release_dependent
  simp only
  refine ⟨?_, ?_, ?_, ?_, ?_⟩ <;> split_ifs <;> first | rfl | skip
  · intro _; show INFLIGHT ≠ 0; decide
  · intro _; show COMPLETED ≠ 0; decide
  · exact fun h => h

theorem release_dependents_spec (L : List Nat) :
    ∀ s : O3_CPU, L.Nodup →
      (∀ d ∈ L, ∃ e, rob_find s.ROB.entries d = some e ∧ 1 ≤ e.num_reg_dependent) →
      release_dependents L s = .ok (map_rob s (release_all L)) := by
  induction L with
  | nil =>
    intro s _ _
    unfold release_dependents map_rob
    have : s.ROB.entries.map (release_all []) = s.ROB.entries := by
      rw [List.map_congr_left (g := id) (fun e _ => by unfold release_all; simp), List.map_id]
    rw [this]
  | cons d rest ih =>
    intro s hnd hall
    rw [List.nodup_cons] at hnd
    obtain ⟨e, he, hnum⟩ := hall d (List.mem_cons_self _ _)
    unfold release_dependents
    rw [he]
    simp only
    rw [if_neg (by omega)]
    rw [ih (update_rob s d release_dependent) hnd.2]
    · unfold map_rob update_rob rob_modify
      simp only [List.map_map]
      congr 3
      apply List.map_congr_left
      intro a _
      simp only [Function.comp, release_all]
      by_cases had : a.instr_id = d
      · rw [if_pos had, release_dependent_id, if_neg (by rw [had]; exact hnd.1),
          if_pos (by rw [had]; exact List.mem_cons_self _ _)]
      · rw [if_neg had]
        by_cases har : a.instr_id ∈ rest
        · rw [if_pos har, if_pos (List.mem_cons_of_mem _ har)]
        · rw [if_neg har, if_neg (by simp [had, har])]
    · intro d' hd'
      obtain ⟨e', he', hnum'⟩ := hall d' (List.mem_cons_of_mem _ hd')
      have hne : d' ≠ d := fun hc => hnd.1 (hc ▸ hd')
      exact ⟨e', by rw [rob_find_update_other s d d' release_dependent release_dependent_id hne]; exact he',
        hnum'⟩

theorem completed_on_fields (rob_it : Nat) (L : List Nat) (hL : rob_it ∉ L)
    (e : ooo_model_instr) :
    (completed_on rob_it L e).instr_id = e.instr_id ∧
    (completed_on rob_it L e).registers_instrs_depend_on_me = e.registers_instrs_depend_on_me ∧
    (completed_on rob_it L e).executed
      = (if e.instr_id = rob_it then COMPLETED else e.executed) ∧
    (completed_on rob_it L e).num_reg_dependent
      = e.num_reg_dependent - (if e.instr_id ∈ L then 1 else 0) ∧
    (e.scheduled ≠ 0 → (completed_on rob_it L e).scheduled ≠ 0) ∧
    (e.instr_id ∉ L → (completed_on rob_it L e).scheduled = e.scheduled) := by
  unfold completed_on release_all
  have hr := release_dependent_fields e
  by_cases hx : e.instr_id = rob_it
  · have hnL : e.instr_id ∉ L := hx ▸ hL
    rw [if_pos hx, if_pos hx, if_neg hnL]
    unfold mark_completed
    exact ⟨rfl, rfl, rfl, by simp, fun h => h, fun _ => rfl⟩
  · rw [if_neg hx, if_neg hx]
    by_cases hl : e.instr_id ∈ L
    · rw [if_pos hl, if_pos hl]
      exact ⟨hr.1, hr.2.2.1, hr.2.1, hr.2.2.2.1, hr.2.2.2.2, fun hc => absurd hl hc⟩
    · rw [if_neg hl, if_neg hl]
      exact ⟨rfl, rfl, rfl, by simp, fun h => h, fun _ => rfl⟩

theorem count_completed_queue (x : ooo_model_instr) (s : O3_CPU) :
    (count_completed x s).ready_to_execute = s.ready_to_execute := by
  unfold count_completed
  simp only
  split_ifs <;> rfl

theorem rob_find_of_mem_ids (rob : List ooo_model_instr) (id : Nat) (h : id ∈ ids rob) :
    ∃ x, rob_find rob id = some x := by
  unfold ids at h
  obtain ⟨y, hy, hid⟩ := List.mem_map.mp h
  unfold rob_find
  cases hf : rob.find? fun e => e.instr_id == id with
  | some x => exact ⟨x, rfl⟩
  | none =>
    rw [List.find?_eq_none] at hf
    exact absurd (by simpa using hid) (hf y hy)

theorem mem_ids_of_rob_find (rob : List ooo_model_instr) (id : Nat) (x : ooo_model_instr)
    (h : rob_find rob id = some x) : id ∈ ids rob := by
  obtain ⟨hm, hid⟩ := mem_of_rob_find rob id x h
  unfold ids
  exact List.mem_map.mpr ⟨x, hm, hid⟩

/-- A call of `do_complete_execution` for a record that has not completed returns: no
dependent has a counter below one. -/
theorem do_complete_execution_returns (P : Params) (s : O3_CPU) (rob_it : Nat)
    (x : ooo_model_instr) (h : dep_inv s.ROB.entries s.ready_to_execute)
    (hx : rob_find s.ROB.entries rob_it = some x) (hpend : x.executed ≠ COMPLETED) :
    ∃ s', do_complete_execution P s rob_it = .ok s' ∧
      s'.ROB.entries
        = s.ROB.entries.map (completed_on rob_it x.registers_instrs_depend_on_me) ∧
      s'.ROB.size = s.ROB.size ∧
      s'.ready_to_execute = s.ready_to_execute ∧
      s'.current_core_cycle = s.current_core_cycle := by
  obtain ⟨hxm, hxid⟩ := mem_of_rob_find s.ROB.entries rob_it x hx
  have hself : rob_it ∉ x.registers_instrs_depend_on_me := by
    rw [← hxid]
    exact not_self_dependent _ _ h x hxm
  have hmid : ∀ e, (mark_completed e).instr_id = e.instr_id := fun e => rfl
  have hf3 := count_completed_frame x (update_rob s rob_it mark_completed)
  have hq3 := count_completed_queue x (update_rob s rob_it mark_completed)
  have hrel := release_dependents_spec x.registers_instrs_depend_on_me
    (count_completed x (update_rob s rob_it mark_completed)) (h.lists_nodup x hxm) (by
      intro d hd
      obtain ⟨y, hy, hyd, -, hfind⟩ := dependent_in_rob _ _ h x hxm d hd
      have hne : d ≠ rob_it := fun hc => hself (hc ▸ hd)
      refine ⟨y, ?_, holds_back_pos _ _ h x hxm hpend y hy (by rw [hyd]; exact hd)⟩
      rw [hf3.1, rob_find_update_other s rob_it d mark_completed hmid hne]
      exact hfind)
  have hsize4 : (map_rob (count_completed x (update_rob s rob_it mark_completed))
      (release_all x.registers_instrs_depend_on_me)).ROB.size = s.ROB.size := by
    unfold map_rob
    simp only [hf3.1]
    rfl
  have hrob4 : (map_rob (count_completed x (update_rob s rob_it mark_completed))
      (release_all x.registers_instrs_depend_on_me)).ROB.entries
      = s.ROB.entries.map (completed_on rob_it x.registers_instrs_depend_on_me) := by
    unfold map_rob
    simp only [hf3.1]
    unfold update_rob rob_modify
    simp only [List.map_map]
    apply List.map_congr_left
    intro e _
    simp only [Function.comp, completed_on]
    by_cases he : e.instr_id = rob_it
    · rw [if_pos he, if_pos he]
      unfold release_all
      rw [if_neg (by rw [hmid, he]; exact hself)]
    · rw [if_neg he, if_neg he]
  have hfind4 : ∃ x4, rob_find (map_rob (count_completed x (update_rob s rob_it mark_completed))
      (release_all x.registers_instrs_depend_on_me)).ROB.entries rob_it = some x4 := by
    rw [hrob4]
    rw [rob_find_map _ _ _ (fun e => (completed_on_fields rob_it _ hself e).1), hx]
    exact ⟨_, rfl⟩
  obtain ⟨x4, hx4⟩ := hfind4
  unfold do_complete_execution
  rw [hx]
  simp only
  rw [hrel]
  simp only
  rw [hx4]
  simp only
  split_ifs
  · exact ⟨_, rfl, hrob4, hsize4, hq3.trans rfl, hf3.2.2.trans rfl⟩
  · exact ⟨_, rfl, hrob4, hsize4, hq3.trans rfl, hf3.2.2.trans rfl⟩

/-- What `do_complete_execution` leaves of the invariant, for a record in execution. -/
theorem dep_inv_completed (rob : List ooo_model_instr) (q : List Nat) (rob_it : Nat)
    (x : ooo_model_instr) (h : dep_inv rob q) (hx : rob_find rob rob_it = some x)
    (hinf : x.executed = INFLIGHT) :
    dep_inv (rob.map (completed_on rob_it x.registers_instrs_depend_on_me)) q := by
  obtain ⟨hxm, hxid⟩ := mem_of_rob_find rob rob_it x hx
  have hpend : x.executed ≠ COMPLETED := by rw [hinf]; decide
  have hself : rob_it ∉ x.registers_instrs_depend_on_me := by
    rw [← hxid]
    exact not_self_dependent _ _ h x hxm
  have hf := completed_on_fields rob_it x.registers_instrs_depend_on_me hself
  obtain ⟨hxs, hxn⟩ := h.started x hxm (by rw [hinf]; decide)
  have hisx : ∀ y ∈ rob, y.instr_id = rob_it → y = x := fun y hy hc =>
    eq_of_same_id rob h.ids_nodup y x hy hxm (hc.trans hxid.symm)
  have hdep : ∀ y ∈ rob, y.instr_id ∈ x.registers_instrs_depend_on_me →
      1 ≤ y.num_reg_dependent := fun y hy hd => holds_back_pos _ _ h x hxm hpend y hy hd
  have hids : ids (rob.map (completed_on rob_it x.registers_instrs_depend_on_me)) = ids rob := by
    unfold ids
    rw [List.map_map]
    exact List.map_congr_left fun e _ => (hf e).1
  refine ⟨hids ▸ h.ids_nodup, ?_, ?_, ?_, ?_, ?_, h.queue_nodup, ?_⟩
  · intro i p' hp' d hd
    rw [List.get?_eq_getElem?, List.getElem?_map] at hp'
    cases hp2 : rob[i]? with
    | none => rw [hp2] at hp'; cases hp'
    | some p =>
      rw [hp2] at hp'
      simp only [Option.map_some', Option.some.injEq] at hp'
      subst hp'
      rw [(hf p).2.1] at hd
      obtain ⟨j, y, hij, hy, hyd⟩ := h.younger i p (by rw [List.get?_eq_getElem?]; exact hp2) d hd
      rw [List.get?_eq_getElem?] at hy
      exact ⟨j, _, hij, by rw [List.get?_eq_getElem?, List.getElem?_map, hy]; rfl,
        by rw [(hf y).1, hyd]⟩
  · intro p' hp'
    obtain ⟨p, hp, rfl⟩ := List.mem_map.mp hp'
    rw [(hf p).2.1]
    exact h.lists_nodup p hp
  · intro y' hy'
    obtain ⟨y, hy, rfl⟩ := List.mem_map.mp hy'
    rw [(hf y).2.2.2.1, (hf y).1, List.countP_map, h.counted y hy]
    by_cases hyl : y.instr_id ∈ x.registers_instrs_depend_on_me
    · rw [if_pos hyl]
      have := countP_flip rob h.ids_nodup x hxm (holds_back y.instr_id)
        (holds_back y.instr_id ∘ completed_on rob_it x.registers_instrs_depend_on_me)
        (by unfold holds_back; simp [hpend, hyl])
        (by
          simp only [Function.comp, holds_back, (hf x).2.2.1, hxid, if_true]
          simp)
        (by
          intro p hp hne
          simp only [Function.comp, holds_back, (hf p).2.2.1, (hf p).2.1]
          rw [if_neg (by rw [← hxid]; exact hne)])
      rw [this]
      push_cast
      ring
    · rw [if_neg hyl, sub_zero]
      congr 1
      apply List.countP_congr
      intro p hp
      simp only [Function.comp, holds_back, (hf p).2.2.1, (hf p).2.1, decide_eq_true_eq]
      by_cases hpx : p.instr_id = rob_it
      · rw [if_pos hpx, hisx p hp hpx]
        constructor
        · rintro ⟨-, hl⟩; exact absurd hl hyl
        · rintro ⟨hc, -⟩; exact absurd rfl hc
      · rw [if_neg hpx]
  · intro y' hy' hys p' hp'
    obtain ⟨y, hy, rfl⟩ := List.mem_map.mp hy'
    obtain ⟨p, hp, rfl⟩ := List.mem_map.mp hp'
    have hy0 : y.scheduled = 0 := by
      by_contra hc
      exact (hf y).2.2.2.2.1 hc hys
    rw [(hf y).1, (hf p).2.1]
    exact h.unscheduled y hy hy0 p hp
  · intro y' hy' hye
    obtain ⟨y, hy, rfl⟩ := List.mem_map.mp hy'
    rw [(hf y).2.2.1] at hye
    by_cases hyx : y.instr_id = rob_it
    · have hyeq := hisx y hy hyx
      have hnl : y.instr_id ∉ x.registers_instrs_depend_on_me := by rw [hyx]; exact hself
      rw [(hf y).2.2.2.2.2 hnl, (hf y).2.2.2.1, if_neg hnl, hyeq]
      exact ⟨hxs, by rw [hxn]; rfl⟩
    · rw [if_neg hyx] at hye
      obtain ⟨h1, h2⟩ := h.started y hy hye
      have hnl : y.instr_id ∉ x.registers_instrs_depend_on_me := by
        intro hc
        have := hdep y hy hc
        omega
      rw [(hf y).2.2.2.2.2 hnl, (hf y).2.2.2.1, if_neg hnl]
      exact ⟨h1, by rw [h2]; rfl⟩
  · intro id hq
    obtain ⟨y, hy, h1, h2, h3⟩ := h.queued id hq
    obtain ⟨hym, hyid⟩ := mem_of_rob_find rob id y hy
    have hyx : y.instr_id ≠ rob_it := by
      intro hc
      have := hisx y hym hc
      rw [this, hinf] at h1
      exact absurd h1 (by decide)
    have hnl : y.instr_id ∉ x.registers_instrs_depend_on_me := by
      intro hc
      have := hdep y hym hc
      omega
    refine ⟨_, by rw [rob_find_map rob id _ (fun e => (hf e).1), hy]; rfl, ?_, ?_, ?_⟩
    · rw [(hf y).2.2.1, if_neg hyx]; exact h1
    · rw [(hf y).2.2.2.2.2 hnl]; exact h2
    · rw [(hf y).2.2.2.1, if_neg hnl, h3]; rfl

/-! ## Lemmas: the stages keep the invariant -/

theorem push_ready_dependents_inv (P : Params) (L : List Nat) :
    ∀ s : O3_CPU, reg_inv P s → L.Nodup →
      (∀ d ∈ L, d ∉ s.ready_to_execute ∧
        ∃ e, rob_find s.ROB.entries d = some e ∧ e.executed = 0) →
      ∃ s', push_ready_dependents P L s = .ok s' ∧ reg_inv P s' ∧ s'.ROB = s.ROB := by
  induction L with
  | nil =>
    intro s h _ _
    exact ⟨s, rfl, h, rfl⟩
  | cons d rest ih =>
    intro s h hnd hall
    rw [List.nodup_cons] at hnd
    obtain ⟨hdq, e, he, he0⟩ := hall d (List.mem_cons_self _ _)
    unfold push_ready_dependents
    rw [he]
    simp only
    by_cases hready : e.scheduled = COMPLETED ∧ e.num_reg_dependent = 0
    · rw [if_pos hready]
      have hlt := queue_length_lt _ _ d h.1 (mem_ids_of_rob_find _ _ _ he) hdq
      have hcap : s.ready_to_execute.length < P.ROB_SIZE :=
        lt_of_lt_of_le hlt (le_trans h.2.1 h.2.2)
      rw [if_pos hcap]
      have hinv : reg_inv P { s with ready_to_execute := s.ready_to_execute ++ [d] } :=
        ⟨dep_inv_push _ _ d e h.1 he he0 hready.1 hready.2 hdq, h.2.1, h.2.2⟩
      obtain ⟨s', h1, h2, h3⟩ := ih _ hinv hnd.2 (by
        intro d' hd'
        obtain ⟨hq', e', he', he0'⟩ := hall d' (List.mem_cons_of_mem _ hd')
        refine ⟨?_, e', he', he0'⟩
        intro hc
        rcases List.mem_append.mp hc with hc | hc
        · exact hq' hc
        · rw [List.mem_singleton] at hc
          exact hnd.1 (hc ▸ hd'))
      exact ⟨s', h1, h2, h3⟩
    · rw [if_neg hready]
      exact ih s h hnd.2 (fun d' hd' => hall d' (List.mem_cons_of_mem _ hd'))

theorem complete_one_inv (P : Params) (s : O3_CPU) (rob_it : Nat) (x : ooo_model_instr)
    (h : reg_inv P s) (hx : rob_find s.ROB.entries rob_it = some x)
    (hinf : x.executed = INFLIGHT) :
    ∃ s', complete_one P s rob_it x = .ok s' ∧ reg_inv P s' ∧
      ids s'.ROB.entries = ids s.ROB.entries := by
  obtain ⟨hxm, hxid⟩ := mem_of_rob_find s.ROB.entries rob_it x hx
  have hpend : x.executed ≠ COMPLETED := by rw [hinf]; decide
  have hself : rob_it ∉ x.registers_instrs_depend_on_me := by
    rw [← hxid]
    exact not_self_dependent _ _ h.1 x hxm
  have hf := completed_on_fields rob_it x.registers_instrs_depend_on_me hself
  have hdeps : ∀ d ∈ x.registers_instrs_depend_on_me, d ∉ s.ready_to_execute ∧
      ∃ e, rob_find s.ROB.entries d = some e ∧ e.executed = 0 ∧ e.instr_id ≠ rob_it := by
    intro d hd
    obtain ⟨y, hy, hyd, hne, hfind⟩ := dependent_in_rob _ _ h.1 x hxm d hd
    have hnum := holds_back_pos _ _ h.1 x hxm hpend y hy (by rw [hyd]; exact hd)
    refine ⟨?_, y, hfind, ?_, by rw [← hxid]; exact hne⟩
    · intro hq
      obtain ⟨y', hy', -, -, h3⟩ := h.1.queued d hq
      rw [hfind] at hy'
      cases hy'
      omega
    · by_contra hc
      have := (h.1.started y hy hc).2
      omega
  have hgate : ∃ s1, complete_gated P s rob_it x = .ok s1 ∧ reg_inv P s1 ∧
      ids s1.ROB.entries = ids s.ROB.entries ∧
      s1.ready_to_execute = s.ready_to_execute ∧
      (∃ x1, rob_find s1.ROB.entries rob_it = some x1 ∧
        x1.registers_instrs_depend_on_me = x.registers_instrs_depend_on_me) ∧
      (∀ d ∈ x.registers_instrs_depend_on_me,
        ∃ e, rob_find s1.ROB.entries d = some e ∧ e.executed = 0) := by
    have hskip : ∃ s1, Outcome.ok s = .ok s1 ∧ reg_inv P s1 ∧
        ids s1.ROB.entries = ids s.ROB.entries ∧
        s1.ready_to_execute = s.ready_to_execute ∧
        (∃ x1, rob_find s1.ROB.entries rob_it = some x1 ∧
          x1.registers_instrs_depend_on_me = x.registers_instrs_depend_on_me) ∧
        (∀ d ∈ x.registers_instrs_depend_on_me,
          ∃ e, rob_find s1.ROB.entries d = some e ∧ e.executed = 0) :=
      ⟨s, rfl, h, rfl, rfl, ⟨x, hx, rfl⟩, fun d hd =>
        (hdeps d hd).2.imp fun e he => ⟨he.1, he.2.1⟩⟩
    have hdo : ∃ s1, do_complete_execution P s rob_it = .ok s1 ∧ reg_inv P s1 ∧
        ids s1.ROB.entries = ids s.ROB.entries ∧
        s1.ready_to_execute = s.ready_to_execute ∧
        (∃ x1, rob_find s1.ROB.entries rob_it = some x1 ∧
          x1.registers_instrs_depend_on_me = x.registers_instrs_depend_on_me) ∧
        (∀ d ∈ x.registers_instrs_depend_on_me,
          ∃ e, rob_find s1.ROB.entries d = some e ∧ e.executed = 0) := by
      obtain ⟨s1, h1, hrob, hsize, hq, -⟩ :=
        do_complete_execution_returns P s rob_it x h.1 hx hpend
      have hids : ids s1.ROB.entries = ids s.ROB.entries := by
        rw [hrob]
        unfold ids
        rw [List.map_map]
        exact List.map_congr_left fun e _ => (hf e).1
      refine ⟨s1, h1, ⟨?_, ?_, ?_⟩, hids, hq, ?_, ?_⟩
      · rw [hrob, hq]
        exact dep_inv_completed _ _ rob_it x h.1 hx hinf
      · rw [hrob, hsize, List.length_map]
        exact h.2.1
      · rw [hsize]
        exact h.2.2
      · refine ⟨_, by rw [hrob, rob_find_map _ _ _ (fun e => (hf e).1), hx]; rfl, (hf x).2.1⟩
      · intro d hd
        obtain ⟨-, e, he, he0, hne⟩ := hdeps d hd
        refine ⟨_, by rw [hrob, rob_find_map _ _ _ (fun e => (hf e).1), he]; rfl, ?_⟩
        rw [(hf e).2.2.1, if_neg hne]
        exact he0
    unfold complete_gated
    split_ifs
    · exact hdo
    · exact hskip
    · exact hdo
    · exact hskip
    · exact hdo
  obtain ⟨s1, hg, hinv1, hids1, hq1, ⟨x1, hx1, hl1⟩, hd1⟩ := hgate
  unfold complete_one
  rw [hg]
  simp only
  rw [hx1]
  simp only
  rw [hl1]
  obtain ⟨s', h1, h2, h3⟩ := push_ready_dependents_inv P x.registers_instrs_depend_on_me s1
    hinv1 (h.1.lists_nodup x hxm) (fun d hd => ⟨by rw [hq1]; exact (hdeps d hd).1, hd1 d hd⟩)
  exact ⟨s', h1, h2, by rw [h3, hids1]⟩

theorem complete_inflight_loop_inv (P : Params) (L : List Nat) :
    ∀ (bw : Nat) (s : O3_CPU), reg_inv P s → (∀ id ∈ L, id ∈ ids s.ROB.entries) →
      ∃ s', complete_inflight_loop P L bw s = .ok s' ∧ reg_inv P s' := by
  induction L with
  | nil =>
    intro bw s h _
    exact ⟨s, by unfold complete_inflight_loop; rfl, h⟩
  | cons rob_it rest ih =>
    intro bw s h hall
    cases bw with
    | zero => exact ⟨s, by unfold complete_inflight_loop; rfl, h⟩
    | succ bw =>
      obtain ⟨x, hx⟩ := rob_find_of_mem_ids _ _ (hall rob_it (List.mem_cons_self _ _))
      unfold complete_inflight_loop
      rw [hx]
      simp only
      by_cases hc : x.executed = INFLIGHT ∧ x.event_cycle ≤ s.current_core_cycle ∧
          x.num_mem_ops = 0
      · rw [if_pos hc]
        obtain ⟨s1, h1, h2, h3⟩ := complete_one_inv P s rob_it x h hx hc.1
        rw [h1]
        simp only
        exact ih bw s1 h2 (fun id hid => by rw [h3]; exact hall id (List.mem_cons_of_mem _ hid))
      · rw [if_neg hc]
        exact ih (bw + 1) s h (fun id hid => hall id (List.mem_cons_of_mem _ hid))

theorem complete_inflight_instruction_inv (P : Params) (s : O3_CPU) (h : reg_inv P s) :
    ∃ s', complete_inflight_instruction P s = .ok s' ∧ reg_inv P s' := by
  unfold complete_inflight_instruction
  split_ifs
  · exact complete_inflight_loop_inv P _ _ s h (fun id hid => hid)
  · exact ⟨s, rfl, h⟩

theorem schedule_one_inv (P : Params) (s : O3_CPU) (rob_it : Nat) (x : ooo_model_instr)
    (h : reg_inv P s) (hx : rob_find s.ROB.entries rob_it = some x) (hs : x.scheduled = 0) :
    ∃ s', schedule_one P s rob_it = .ok s' ∧ reg_inv P s' ∧
      ids s'.ROB.entries = ids s.ROB.entries := by
  obtain ⟨hxm, hxid⟩ := mem_of_rob_find s.ROB.entries rob_it x hx
  have hx0 : x.executed = 0 := by
    by_contra hc
    have := (h.1.started x hxm hc).1
    rw [hs] at this
    exact absurd this (by decide)
  have hnq : rob_it ∉ s.ready_to_execute := by
    intro hq
    obtain ⟨y, hy, -, h2, -⟩ := h.1.queued rob_it hq
    rw [hx] at hy
    cases hy
    rw [hs] at h2
    exact absurd h2 (by decide)
  have hfresh : ∀ p ∈ older_records s.ROB.entries rob_it,
      p.registers_instrs_depend_on_me.getLast? ≠ some rob_it := by
    intro p hp hc
    have hmem : rob_it ∈ p.registers_instrs_depend_on_me := List.mem_of_mem_getLast? hc
    rw [← hxid] at hmem
    exact h.1.unscheduled x hxm hs p (mem_older_records _ _ _ hp) hmem
  have hret : ∃ s1, do_scheduling P s rob_it = .ok s1 := by
    unfold do_scheduling
    rw [hx]
    exact ⟨_, rfl⟩
  obtain ⟨s1, hs1⟩ := hret
  have hspec := do_scheduling_spec P s s1 rob_it x hs1 hx hfresh
  have hDnot : rob_it ∉ distinct_producers s.ROB.entries rob_it x.source_registers [] := by
    intro hc
    obtain ⟨p, hp, hid, -⟩ := distinct_producers_older _ _ _ _ hc
    exact older_records_id _ _ _ hp hid
  have hf := scheduled_on_fields P s.warmup_complete s.current_core_cycle rob_it
    (distinct_producers s.ROB.entries rob_it x.source_registers []) hDnot
  have hinv1 := dep_inv_scheduled P s.warmup_complete s.current_core_cycle s.ROB.entries
    s.ready_to_execute rob_it x h.1 hx hs
  have hrob1 : s1.ROB.entries = s.ROB.entries.map
      (scheduled_on P s.warmup_complete s.current_core_cycle rob_it
        (distinct_producers s.ROB.entries rob_it x.source_registers [])) := by
    rw [hspec]; rfl
  have hsize1 : s1.ROB.size = s.ROB.size := by rw [hspec]; rfl
  have hq1 : s1.ready_to_execute = s.ready_to_execute := by rw [hspec]; rfl
  have hids1 : ids s1.ROB.entries = ids s.ROB.entries := by
    rw [hrob1]
    unfold ids
    rw [List.map_map]
    exact List.map_congr_left fun e _ => (hf e).1
  have hfind1 : rob_find s1.ROB.entries rob_it = some
      (scheduled_on P s.warmup_complete s.current_core_cycle rob_it
        (distinct_producers s.ROB.entries rob_it x.source_registers []) x) := by
    rw [hrob1, rob_find_map _ _ _ (fun e => (hf e).1), hx]
    rfl
  have hreg1 : reg_inv P s1 := by
    refine ⟨?_, ?_, ?_⟩
    · rw [hrob1, hq1]; exact hinv1
    · rw [hrob1, hsize1, List.length_map]; exact h.2.1
    · rw [hsize1]; exact h.2.2
  unfold schedule_one
  rw [hs1]
  simp only
  unfold schedule_ready
  rw [hfind1]
  simp only
  split_ifs with hready hcap
  · refine ⟨_, rfl, ⟨?_, hreg1.2.1, hreg1.2.2⟩, hids1⟩
    refine dep_inv_push _ _ rob_it _ hreg1.1 hfind1 ?_ hready.1 hready.2 (by rw [hq1]; exact hnq)
    rw [(hf x).2.1]
    exact hx0
  · exfalso
    have hlt := queue_length_lt _ _ rob_it hreg1.1
      (by rw [hids1]; exact mem_ids_of_rob_find _ _ _ hx) (by rw [hq1]; exact hnq)
    have := hreg1.2.1
    omega
  · exact ⟨s1, rfl, hreg1, hids1⟩

theorem schedule_instruction_loop_inv (P : Params) (L : List Nat) :
    ∀ (bw : Nat) (s : O3_CPU), reg_inv P s → (∀ id ∈ L, id ∈ ids s.ROB.entries) →
      ∃ s', schedule_instruction_loop P L bw s = .ok s' ∧ reg_inv P s' := by
  induction L with
  | nil =>
    intro bw s h _
    exact ⟨s, by unfold schedule_instruction_loop; rfl, h⟩
  | cons rob_it rest ih =>
    intro bw s h hall
    cases bw with
    | zero => exact ⟨s, by unfold schedule_instruction_loop; rfl, h⟩
    | succ bw =>
      obtain ⟨x, hx⟩ := rob_find_of_mem_ids _ _ (hall rob_it (List.mem_cons_self _ _))
      have hstep : ∃ s1, (if x.scheduled = 0 then schedule_one P s rob_it else .ok s) = .ok s1 ∧
          reg_inv P s1 ∧ ids s1.ROB.entries = ids s.ROB.entries := by
        by_cases hs : x.scheduled = 0
        · rw [if_pos hs]
          exact schedule_one_inv P s rob_it x h hx hs
        · rw [if_neg hs]
          exact ⟨s, rfl, h, rfl⟩
      obtain ⟨s1, h1, h2, h3⟩ := hstep
      obtain ⟨x1, hx1⟩ := rob_find_of_mem_ids s1.ROB.entries rob_it
        (by rw [h3]; exact hall rob_it (List.mem_cons_self _ _))
      unfold schedule_instruction_loop
      rw [hx]
      simp only
      rw [h1]
      simp only
      rw [hx1]
      simp only
      exact ih _ s1 h2 (fun id hid => by rw [h3]; exact hall id (List.mem_cons_of_mem _ hid))

theorem schedule_instruction_inv (P : Params) (s : O3_CPU) (h : reg_inv P s) :
    ∃ s', schedule_instruction P s = .ok s' ∧ reg_inv P s' :=
  schedule_instruction_loop_inv P _ _ s h (fun _ hid => hid)

theorem execute_instruction_loop_inv (P : Params) (n : Nat) :
    ∀ s : O3_CPU, reg_inv P s →
      ∃ s', execute_instruction_loop P n s = .ok s' ∧ reg_inv P s' := by
  induction n with
  | zero =>
    intro s h
    exact ⟨s, rfl, h⟩
  | succ n ih =>
    intro s h
    unfold execute_instruction_loop
    cases hq : s.ready_to_execute with
    | nil => exact ⟨s, rfl, h⟩
    | cons front rest =>
      simp only
      have hinv := h.1
      rw [hq] at hinv
      obtain ⟨x, hx, -⟩ := hinv.queued front (List.mem_cons_self _ _)
      unfold do_execution
      rw [hx]
      simp only
      apply ih
      refine ⟨?_, ?_, h.2.2⟩
      · have := dep_inv_executed P s.warmup_complete s.current_core_cycle _ front rest hinv
        unfold pop_ready count_execution update_rob
        simp only [hq, List.tail_cons]
        exact this
      · unfold pop_ready count_execution update_rob
        simp only [rob_modify_length]
        exact h.2.1

theorem execute_instruction_inv (P : Params) (s : O3_CPU) (h : reg_inv P s) :
    ∃ s', execute_instruction P s = .ok s' ∧ reg_inv P s' :=
  execute_instruction_loop_inv P _ s h

theorem retire_rob_loop_inv (P : Params) (wq : Nat → PACKET → Int) (bw : Nat) :
    ∀ (s s' : O3_CPU) (log log' : List WqCall) (out out' : List ooo_model_instr),
      reg_inv P s → retire_rob_loop P wq bw s log out = .ok (s', log', out') →
      reg_inv P s' := by
  induction bw with
  | zero =>
    intro s s' log log' out out' hinv h
    simp only [retire_rob_loop, Outcome.ok.injEq, Prod.mk.injEq] at h
    rw [← h.1]
    exact hinv
  | succ bw ih =>
    intro s s' log log' out out' hinv h
    rcases retire_rob_loop_succ P wq bw s log out _ h with
      ⟨-, hr⟩ | ⟨head, rest, head1, SQ1, log1, hR, hex, hst, hr⟩ |
      ⟨head, rest, head1, SQ1, log1, hR, hex, hst, hrec⟩
    · simp only [Prod.mk.injEq] at hr
      rw [hr.1]
      exact hinv
    · simp only [Prod.mk.injEq] at hr
      rw [hr.1]
      obtain ⟨extra, -, -, e3, -⟩ := retire_stores_spec P _ _ wq _ _ _ _ _ _ _ _ hst
      have hv : ∀ e, dep_view (forget_dm e) = dep_view e := fun e => rfl
      have hmap : (head1 :: rest).map forget_dm = (head :: rest).map forget_dm := by
        rw [List.map_cons, List.map_cons, e3]
      have hd := hinv.1
      rw [hR] at hd
      refine ⟨?_, ?_, hinv.2.2⟩
      · show dep_inv (head1 :: rest) s.ready_to_execute
        rw [← dep_inv_map_iff forget_dm hv, hmap, dep_inv_map_iff forget_dm hv]
        exact hd
      · show (head1 :: rest).length ≤ s.ROB.size
        have := hinv.2.1
        rw [hR] at this
        exact this
    · apply ih _ _ _ _ _ _ _ hrec
      have hd := hinv.1
      rw [hR] at hd
      refine ⟨?_, ?_, hinv.2.2⟩
      · show dep_inv rest s.ready_to_execute
        exact dep_inv_tail head rest _ hd hex
      · show rest.length ≤ s.ROB.size
        have := hinv.2.1
        rw [hR] at this
        simp only [List.length_cons] at this
        omega

theorem dep_inv_nil : dep_inv [] [] := by
  refine ⟨List.nodup_nil, ?_, ?_, ?_, ?_, ?_, List.nodup_nil, ?_⟩
  · intro i p hp; cases hp
  · intro p hp; cases hp
  · intro x hx; cases hx
  · intro x hx; cases hx
  · intro x hx; cases hx
  · intro id hq; cases hq

theorem schedule_load_ready (P : Params) (s s' : O3_CPU) (rob_it i n a n' a' : Nat)
    (h : schedule_load P rob_it i s n a = .ok (s', n', a')) :
    s'.ready_to_execute = s.ready_to_execute := by
  unfold schedule_load at h
  cases hx : rob_find s.ROB.entries rob_it with
  | none => rw [hx] at h; simp at h
  | some x =>
    rw [hx] at h
    simp only at h
    split_ifs at h with hm ha hv
    · simp only [Outcome.ok.injEq, Prod.mk.injEq] at h
      obtain ⟨rfl, rfl, rfl⟩ := h
      rfl
    · cases hadd : add_load_queue P s rob_it i with
      | fault e => rw [hadd] at h; simp at h
      | ok s1 =>
        rw [hadd] at h
        simp only [Outcome.ok.injEq, Prod.mk.injEq] at h
        obtain ⟨rfl, rfl, rfl⟩ := h
        obtain ⟨hfr, -⟩ := add_load_queue_frame P s s1 rob_it i hadd
        rw [hfr]
    · simp only [Outcome.ok.injEq, Prod.mk.injEq] at h
      obtain ⟨rfl, rfl, rfl⟩ := h
      rfl
    · simp only [Outcome.ok.injEq, Prod.mk.injEq] at h
      obtain ⟨rfl, rfl, rfl⟩ := h
      rfl

theorem schedule_loads_ready (P : Params) (rob_it : Nat) (l : List Nat) :
    ∀ (s s' : O3_CPU) (n a n' a' : Nat),
      schedule_loads P rob_it l s n a = .ok (s', n', a') →
      s'.ready_to_execute = s.ready_to_execute := by
  induction l with
  | nil =>
    intro s s' n a n' a' h
    simp only [schedule_loads, Outcome.ok.injEq, Prod.mk.injEq] at h
    obtain ⟨rfl, rfl, rfl⟩ := h
    rfl
  | cons i rest ih =>
    intro s s' n a n' a' h
    unfold schedule_loads at h
    cases hr : schedule_load P rob_it i s n a with
    | fault e => rw [hr] at h; simp at h
    | ok r =>
      obtain ⟨s1, n1, a1⟩ := r
      rw [hr] at h
      simp only at h
      exact (ih s1 s' n1 a1 n' a' h).trans (schedule_load_ready P s s1 rob_it i n a n1 a1 hr)

theorem schedule_store_ready (P : Params) (s s' : O3_CPU) (rob_it i n a n' a' : Nat)
    (h : schedule_store P rob_it i s n a = .ok (s', n', a')) :
    s'.ready_to_execute = s.ready_to_execute := by
  obtain ⟨x, hx, hc⟩ := schedule_store_cases P s s' rob_it i n a n' a' h
  rcases hc with ⟨-, rfl, -, -⟩ | ⟨-, -, rfl, -, -⟩ | ⟨-, -, -, -, hadd, -, -⟩ | ⟨-, -, -, rfl, -, -⟩
  · rfl
  · rfl
  · obtain ⟨hfr, -⟩ := add_store_queue_frame P s s' rob_it i hadd
    rw [hfr]
  · rfl

theorem schedule_stores_ready (P : Params) (rob_it : Nat) (l : List Nat) :
    ∀ (s s' : O3_CPU) (n a n' a' : Nat),
      schedule_stores P rob_it l s n a = .ok (s', n', a') →
      s'.ready_to_execute = s.ready_to_execute := by
  induction l with
  | nil =>
    intro s s' n a n' a' h
    simp only [schedule_stores, Outcome.ok.injEq, Prod.mk.injEq] at h
    obtain ⟨rfl, rfl, rfl⟩ := h
    rfl
  | cons i rest ih =>
    intro s s' n a n' a' h
    unfold schedule_stores at h
    cases hr : schedule_store P rob_it i s n a with
    | fault e => rw [hr] at h; simp at h
    | ok r =>
      obtain ⟨s1, n1, a1⟩ := r
      rw [hr] at h
      simp only at h
      exact (ih s1 s' n1 a1 n' a' h).trans (schedule_store_ready P s s1 rob_it i n a n1 a1 hr)

theorem lsq_fields_view (e e' : ooo_model_instr) (h : lsq_fields e e') :
    dep_view e' = dep_view e := by
  unfold lsq_fields at h
  unfold dep_view
  rw [h]

/-- What a call of `do_memory_scheduling` does to the ROB and the queue
`ready_to_execute`: the records change in the fields of `lsq_fields`, and the record
`rob_it` is marked by `mark_scheduled` when all its memory operands are added. -/
theorem do_memory_scheduling_view (P : Params) (s s' : O3_CPU) (rob_it : Nat)
    (h : do_memory_scheduling P s rob_it = .ok s') :
    s'.ready_to_execute = s.ready_to_execute ∧
    ∃ g : ooo_model_instr → ooo_model_instr, (∀ e, lsq_fields e (g e)) ∧
      (s'.ROB = { s.ROB with entries := s.ROB.entries.map g } ∨
       s'.ROB = { s.ROB with
         entries := rob_modify (s.ROB.entries.map g) rob_it mark_scheduled }) := by
  unfold do_memory_scheduling at h
  cases hl : schedule_loads P rob_it (List.range P.NUM_INSTR_SOURCES) s 0 0 with
  | fault e => rw [hl] at h; simp at h
  | ok r =>
    obtain ⟨s1, n1, a1⟩ := r
    rw [hl] at h
    simp only at h
    cases hs : schedule_stores P rob_it (List.range P.MAX_INSTR_DESTINATIONS) s1 n1 a1 with
    | fault e => rw [hs] at h; simp at h
    | ok r2 =>
      obtain ⟨s2, n2, a2⟩ := r2
      rw [hs] at h
      simp only at h
      obtain ⟨m1, -⟩ := schedule_loads_rounds P rob_it _ s s1 0 0 n1 a1 hl
      obtain ⟨m2, -, -⟩ := schedule_stores_rounds P rob_it _ s1 s2 n1 a1 n2 a2 hs
      obtain ⟨g, hg, hrob⟩ := rob_mapped_trans _ scheduling_fields_trans _ _ _ m1 m2
      have hq : s2.ready_to_execute = s.ready_to_execute :=
        (schedule_stores_ready P rob_it _ s1 s2 n1 a1 n2 a2 hs).trans
          (schedule_loads_ready P rob_it _ s s1 0 0 n1 a1 hl)
      unfold schedule_finish at h
      split_ifs at h
      · simp only [Outcome.ok.injEq] at h
        subst h
        refine ⟨hq, g, fun e => (hg e).1, Or.inr ?_⟩
        show { s2.ROB with entries := rob_modify s2.ROB.entries rob_it mark_scheduled } = _
        rw [hrob]
      · simp only [Outcome.ok.injEq] at h
        subst h
        exact ⟨hq, g, fun e => (hg e).1, Or.inl hrob⟩

/-- The invariant under a change of the records through iterators that keeps ids, lists
and counters, keeps a record completed or not, marks no record unscheduled, and leaves
the records as the invariant wants a started record and a queued record to be. -/
theorem dep_inv_map_of (g : ooo_model_instr → ooo_model_instr) (rob : List ooo_model_instr)
    (q : List Nat) (h : dep_inv rob q)
    (hid : ∀ e, (g e).instr_id = e.instr_id)
    (hls : ∀ e, (g e).registers_instrs_depend_on_me = e.registers_instrs_depend_on_me)
    (hnum : ∀ e, (g e).num_reg_dependent = e.num_reg_dependent)
    (hdone : ∀ e, (g e).executed = COMPLETED ↔ e.executed = COMPLETED)
    (hsc0 : ∀ e, (g e).scheduled = 0 → e.scheduled = 0)
    (hst : ∀ e ∈ rob, (g e).executed ≠ 0 →
      (g e).scheduled = COMPLETED ∧ (g e).num_reg_dependent = 0)
    (hq : ∀ id ∈ q, ∀ x, rob_find rob id = some x →
      (g x).executed = 0 ∧ (g x).scheduled = COMPLETED) :
    dep_inv (rob.map g) q := by
  have hids : ids (rob.map g) = ids rob := by
    unfold ids
    rw [List.map_map]
    exact List.map_congr_left fun e _ => hid e
  have hhb : ∀ id e, holds_back id (g e) = holds_back id e := by
    intro id e
    unfold holds_back
    rw [hls]
    simp only [ne_eq, hdone]
  have hcount : ∀ id, (rob.map g).countP (holds_back id) = rob.countP (holds_back id) := by
    intro id
    rw [List.countP_map]
    exact List.countP_congr fun e _ => by simp [hhb]
  have hget : ∀ i, (rob.map g).get? i = (rob.get? i).map g := fun i => by
    rw [List.get?_eq_getElem?, List.get?_eq_getElem?, List.getElem?_map]
  refine ⟨hids.symm ▸ h.ids_nodup, ?_, ?_, ?_, ?_, ?_, h.queue_nodup, ?_⟩
  · intro i p hp d hd
    rw [hget] at hp
    cases hp2 : rob.get? i with
    | none => rw [hp2] at hp; cases hp
    | some p0 =>
      rw [hp2] at hp
      simp only [Option.map_some', Option.some.injEq] at hp
      subst hp
      rw [hls] at hd
      obtain ⟨j, y, hij, hy, hyd⟩ := h.younger i p0 hp2 d hd
      exact ⟨j, g y, hij, by rw [hget, hy]; rfl, by rw [hid, hyd]⟩
  · intro p hp
    obtain ⟨p0, hp0, rfl⟩ := List.mem_map.mp hp
    rw [hls]
    exact h.lists_nodup p0 hp0
  · intro x hx
    obtain ⟨x0, hx0, rfl⟩ := List.mem_map.mp hx
    rw [hnum, hid, hcount]
    exact h.counted x0 hx0
  · intro x hx hs p hp
    obtain ⟨x0, hx0, rfl⟩ := List.mem_map.mp hx
    obtain ⟨p0, hp0, rfl⟩ := List.mem_map.mp hp
    rw [hid, hls]
    exact h.unscheduled x0 hx0 (hsc0 x0 hs) p0 hp0
  · intro x hx he
    obtain ⟨x0, hx0, rfl⟩ := List.mem_map.mp hx
    exact hst x0 hx0 he
  · intro id hqm
    obtain ⟨x, hx, -, -, h3⟩ := h.queued id hqm
    obtain ⟨k1, k2⟩ := hq id hqm x hx
    exact ⟨g x, by rw [rob_find_map rob id g hid, hx]; rfl, k1, k2, by rw [hnum]; exact h3⟩

/-- The invariant under lines 839-842 of `do_memory_scheduling`, for a record that
`schedule_memory_instruction` passes on. -/
theorem dep_inv_mark_scheduled (rob : List ooo_model_instr) (q : List Nat) (rob_it : Nat)
    (x : ooo_model_instr) (h : dep_inv rob q) (hx : rob_find rob rob_it = some x)
    (hnum : x.num_reg_dependent = 0) (hs : x.scheduled = INFLIGHT) :
    dep_inv (rob_modify rob rob_it mark_scheduled) q := by
  obtain ⟨hxm, hxid⟩ := mem_of_rob_find rob rob_it x hx
  have hself : ∀ y ∈ rob, y.instr_id = rob_it → y = x := fun y hy hc =>
    eq_of_same_id rob h.ids_nodup y x hy hxm (hc.trans hxid.symm)
  unfold rob_modify
  apply dep_inv_map_of _ rob q h
  · intro e; split_ifs <;> rfl
  · intro e; split_ifs <;> rfl
  · intro e; split_ifs <;> rfl
  · intro e
    split_ifs
    · unfold mark_scheduled
      simp only
      split_ifs with h0
      · rw [h0]
        constructor <;> intro hc <;> exact absurd hc (by decide)
      · rfl
    · rfl
  · intro e
    split_ifs
    · intro hc
      have hc2 : COMPLETED = 0 := hc
      exact absurd hc2 (by decide)
    · exact id
  · intro e he
    split_ifs with hid
    · intro _
      rw [hself e he hid]
      exact ⟨rfl, hnum⟩
    · exact h.started e he
  · intro id hqm y hy
    obtain ⟨y2, hy2, k1, k2, -⟩ := h.queued id hqm
    rw [hy] at hy2
    simp only [Option.some.injEq] at hy2
    subst hy2
    have hne : ¬y.instr_id = rob_it := by
      intro hc
      have := hself y (mem_of_rob_find rob id y hy).1 hc
      rw [this, hs] at k2
      exact absurd k2 (by decide)
    rw [if_neg hne]
    exact ⟨k1, k2⟩

theorem do_memory_scheduling_inv (P : Params) (s s' : O3_CPU) (rob_it : Nat)
    (x : ooo_model_instr) (h : reg_inv P s) (hx : rob_find s.ROB.entries rob_it = some x)
    (hnum : x.num_reg_dependent = 0) (hs : x.scheduled = INFLIGHT)
    (hm : do_memory_scheduling P s rob_it = .ok s') :
    reg_inv P s' ∧ ids s'.ROB.entries = ids s.ROB.entries := by
  obtain ⟨hq, g, hg, hrob⟩ := do_memory_scheduling_view P s s' rob_it hm
  have hv : ∀ e, dep_view (g e) = dep_view e := fun e => lsq_fields_view _ _ (hg e)
  have hid : ∀ e, (g e).instr_id = e.instr_id := fun e => congrArg (fun v => v.1) (hv e)
  have hinv : dep_inv (s.ROB.entries.map g) s.ready_to_execute :=
    (dep_inv_map_iff g hv _ _).mpr h.1
  have hids : ids (s.ROB.entries.map g) = ids s.ROB.entries := by
    unfold ids
    rw [List.map_map]
    exact List.map_congr_left fun e _ => hid e
  rcases hrob with hrob | hrob
  · unfold reg_inv
    rw [hrob, hq]
    exact ⟨⟨hinv, by rw [List.length_map]; exact h.2.1, h.2.2⟩, hids⟩
  · have hgx : rob_find (s.ROB.entries.map g) rob_it = some (g x) := by
      rw [rob_find_map _ _ g hid, hx]
      rfl
    have hnum2 : (g x).num_reg_dependent = 0 := by
      rw [← hnum]
      exact congrArg (fun v => v.2.2.2.1) (hv x)
    have hs2 : (g x).scheduled = INFLIGHT := by
      rw [← hs]
      exact congrArg (fun v => v.2.2.1) (hv x)
    have hinv2 := dep_inv_mark_scheduled _ _ rob_it (g x) hinv hgx hnum2 hs2
    unfold reg_inv
    rw [hrob, hq]
    refine ⟨⟨hinv2, ?_, h.2.2⟩, ?_⟩
    · show (rob_modify (s.ROB.entries.map g) rob_it mark_scheduled).length ≤ s.ROB.size
      rw [rob_modify_length, List.length_map]
      exact h.2.1
    · show ids (rob_modify (s.ROB.entries.map g) rob_it mark_scheduled) = _
      rw [rob_modify_ids _ rob_it mark_scheduled (fun e => rfl), hids]

theorem schedule_memory_instruction_loop_inv (P : Params) (L : List Nat) :
    ∀ (bw : Nat) (s s' : O3_CPU), reg_inv P s →
      schedule_memory_instruction_loop P L bw s = .ok s' → reg_inv P s' := by
  induction L with
  | nil =>
    intro bw s s' h hl
    simp only [schedule_memory_instruction_loop, Outcome.ok.injEq] at hl
    subst hl
    exact h
  | cons rob_it rest ih =>
    intro bw s s' h hl
    cases bw with
    | zero =>
      simp only [schedule_memory_instruction_loop, Outcome.ok.injEq] at hl
      subst hl
      exact h
    | succ bw =>
      simp only [schedule_memory_instruction_loop] at hl
      split at hl
      · simp at hl
      rename_i x hx
      split at hl
      · simp at hl
      rename_i s1 hstep
      have h1 : reg_inv P s1 := by
        split_ifs at hstep with hguard
        · exact (do_memory_scheduling_inv P s s1 rob_it x h hx hguard.2.1 hguard.2.2 hstep).1
        · simp only [Outcome.ok.injEq] at hstep
          subst hstep
          exact h
      split at hl
      · simp at hl
      exact ih _ s1 s' h1 hl

/-- A returning call of `schedule_memory_instruction` keeps the invariant. -/
theorem schedule_memory_instruction_inv (P : Params) (s s' : O3_CPU) (h : reg_inv P s)
    (hm : schedule_memory_instruction P s = .ok s') : reg_inv P s' :=
  schedule_memory_instruction_loop_inv P _ _ s s' h hm

theorem ids_of_view (rob rob' : List ooo_model_instr)
    (hv : rob'.map dep_view = rob.map dep_view) : ids rob' = ids rob := by
  have := congrArg (List.map fun v : Nat × Nat × Nat × Int × List Nat => v.1) hv
  simp only [List.map_map] at this
  exact this

/-- The invariant reads the fields of `dep_view` only: a ROB with the same views, record
by record, has it as well. -/
theorem dep_inv_of_view (rob rob' : List ooo_model_instr) (q : List Nat)
    (h : dep_inv rob q) (hv : rob'.map dep_view = rob.map dep_view) : dep_inv rob' q := by
  have hids := ids_of_view rob rob' hv
  have hnd : (ids rob').Nodup := hids ▸ h.ids_nodup
  have hlen : rob'.length = rob.length := by
    have := congrArg List.length hv
    simpa using this
  let g : ooo_model_instr → ooo_model_instr := fun e =>
    match rob_find rob' e.instr_id with
    | some e' => if dep_view e' = dep_view e then e' else e
    | none => e
  have hg : ∀ e, dep_view (g e) = dep_view e := by
    intro e
    show dep_view (match rob_find rob' e.instr_id with
      | some e' => if dep_view e' = dep_view e then e' else e
      | none => e) = dep_view e
    split
    · split_ifs with hc
      · exact hc
      · rfl
    · rfl
  have hmap : rob.map g = rob' := by
    apply List.ext_getElem
    · rw [List.length_map, hlen]
    · intro i h1 h2
      rw [List.getElem_map]
      have hi : i < rob.length := by rw [List.length_map] at h1; exact h1
      have hview : dep_view rob'[i] = dep_view rob[i] := by
        have e1 : (rob'.map dep_view)[i]? = (rob.map dep_view)[i]? := by rw [hv]
        rw [List.getElem?_map, List.getElem?_map, List.getElem?_eq_getElem h2,
          List.getElem?_eq_getElem hi] at e1
        simpa using e1
      have hid : rob'[i].instr_id = rob[i].instr_id := congrArg (fun v => v.1) hview
      have hfind : rob_find rob' rob[i].instr_id = some rob'[i] := by
        rw [← hid]
        exact rob_find_of_mem rob' hnd _ (List.getElem_mem _)
      show (match rob_find rob' rob[i].instr_id with
        | some e' => if dep_view e' = dep_view rob[i] then e' else rob[i]
        | none => rob[i]) = rob'[i]
      rw [hfind]
      simp only
      rw [if_pos hview]
  rw [← hmap]
  exact (dep_inv_map_iff g hg rob q).mpr h

/-- A step of a stage that writes none of the fields of `dep_view`, pushes and pops no
record of the ROB and leaves the queue `ready_to_execute` alone keeps the invariant. -/
theorem reg_inv_of_view (P : Params) (s s' : O3_CPU) (h : reg_inv P s)
    (hv : s'.ROB.entries.map dep_view = s.ROB.entries.map dep_view)
    (hsize : s'.ROB.size = s.ROB.size) (hq : s'.ready_to_execute = s.ready_to_execute) :
    reg_inv P s' := by
  unfold reg_inv
  rw [hq, hsize]
  refine ⟨dep_inv_of_view _ _ _ h.1 hv, ?_, h.2.2⟩
  have := congrArg List.length hv
  simp only [List.length_map] at this
  rw [this]
  exact h.2.1

theorem execute_store_forwards_ready (P : Params) (sq_it : Nat) (l : List (Nat × Nat)) :
    ∀ (s s' : O3_CPU), execute_store_forwards P sq_it l s = .ok s' →
      s'.ready_to_execute = s.ready_to_execute := by
  induction l with
  | nil =>
    intro s s' h
    simp only [execute_store_forwards, Outcome.ok.injEq] at h
    subst h; rfl
  | cons dj rest ih =>
    intro s s' h
    obtain ⟨d, j⟩ := dj
    unfold execute_store_forwards at h
    cases hstep : execute_store_forward P sq_it d j s with
    | fault e => rw [hstep] at h; simp at h
    | ok s1 =>
      rw [hstep] at h
      simp only at h
      rw [ih s1 s' h]
      rcases execute_store_forward_cases P s s1 sq_it d j hstep with rfl | ⟨_, lq_it, _, _, _, _, h4⟩
      · rfl
      · obtain ⟨hfr, -⟩ := do_sq_forward_to_lq_frame P s s1 sq_it lq_it h4
        rw [hfr]

theorem execute_store_ready (P : Params) (s s' : O3_CPU) (sq_it : Nat)
    (h : execute_store P s sq_it = .ok s') : s'.ready_to_execute = s.ready_to_execute := by
  unfold execute_store at h
  cases hc : execute_store_complete s sq_it with
  | fault e => rw [hc] at h; simp at h
  | ok r =>
    obtain ⟨s1, x1⟩ := r
    rw [hc] at h
    simp only at h
    obtain ⟨sq_entry, id, x, -, -, -, -, hs1⟩ := execute_store_complete_shape s s1 sq_it x1 hc
    rw [execute_store_forwards_ready P sq_it _ s1 s' h, hs1]
    rfl

/-- A returning call of `execute_store` is a step of another stage: it writes no field
of `dep_view`, keeps the records of the ROB in place and leaves the queue
`ready_to_execute` alone. -/
theorem execute_store_other (P : Params) (s s' : O3_CPU) (sq_it : Nat)
    (h : execute_store P s sq_it = .ok s') :
    s'.ROB.entries.map dep_view = s.ROB.entries.map dep_view ∧ s'.ROB.size = s.ROB.size ∧
    s'.ready_to_execute = s.ready_to_execute := by
  obtain ⟨-, -, -, -, -, -, -, -, -, ⟨g, hg, hrob⟩, -⟩ := execute_store_frame P s s' sq_it h
  refine ⟨?_, by rw [hrob], execute_store_ready P s s' sq_it h⟩
  rw [hrob]
  simp only [List.map_map]
  apply List.map_congr_left
  intro e _
  have := (hg e).1
  unfold load_fields at this
  simp only [Function.comp]
  unfold dep_view
  rw [this]

theorem reg_tick_inv (P : Params) (s s' : O3_CPU) (h : reg_inv P s) (ht : RegTick P s s') :
    reg_inv P s' := by
  cases ht with
  | enter x rob hs hx hn hl hid hpush =>
    unfold circular_buffer.push_back at hpush
    split_ifs at hpush with hfull
    simp only [Outcome.ok.injEq] at hpush
    rw [← hpush]
    have hlen : s.ROB.entries.length < s.ROB.size := by
      unfold circular_buffer.full at hfull
      simpa using hfull
    refine ⟨?_, ?_, h.2.2⟩
    · show dep_inv (s.ROB.entries ++ [x]) s.ready_to_execute
      exact dep_inv_enter _ _ x h.1 hs hx hn hl hid
    · show (s.ROB.entries ++ [x]).length ≤ s.ROB.size
      rw [List.length_append, List.length_singleton]
      omega
  | schedule _ hs =>
    obtain ⟨s1, h1, h2⟩ := schedule_instruction_inv P s h
    rw [h1] at hs
    cases hs
    exact h2
  | execute _ hs =>
    obtain ⟨s1, h1, h2⟩ := execute_instruction_inv P s h
    rw [h1] at hs
    cases hs
    exact h2
  | schedule_memory _ hs => exact schedule_memory_instruction_inv P s s' h hs
  | complete _ hs =>
    obtain ⟨s1, h1, h2⟩ := complete_inflight_instruction_inv P s h
    rw [h1] at hs
    cases hs
    exact h2
  | retire _ add_wq log out hs =>
    obtain ⟨bw, hl⟩ := retire_rob_as_loop P s add_wq _ hs
    exact retire_rob_loop_inv P add_wq bw s s' [] log [] out h hl
  | other _ hv hsize hq => exact reg_inv_of_view P s s' h hv hsize hq

theorem reg_run_inv (P : Params) (s0 s : O3_CPU) (h0 : s0.ROB.entries = [])
    (hq0 : s0.ready_to_execute = []) (hcap : s0.ROB.size ≤ P.ROB_SIZE)
    (hrun : RegRun P s0 s) : reg_inv P s := by
  induction hrun with
  | start =>
    refine ⟨?_, ?_, hcap⟩
    · rw [h0, hq0]; exact dep_inv_nil
    · rw [h0]; exact Nat.zero_le _
  | step s s' _ ht ih => exact reg_tick_inv P s s' ih ht

/-- C25: in every state `s` that the register pipeline reaches from a state with an empty
ROB and an empty queue `ready_to_execute`, through `schedule_instruction`,
`execute_instruction`, `schedule_memory_instruction`, `complete_inflight_instruction`,
`retire_rob` and the stages that write other fields of the records, while records enter
the ROB unscheduled, the counter `num_reg_dependent` of every record `x` of the ROB is
the number of records of the ROB that have `executed != COMPLETED` and hold `x` in their
list `registers_instrs_depend_on_me`. Hence `do_complete_execution` returns for every
record that has not completed, `complete_inflight_instruction` returns, and every record
in `ready_to_execute` has a counter of zero, every record of the ROB that lists it having
completed. -/
theorem reg_dependents_counted (P : Params) (s0 s : O3_CPU) (h0 : s0.ROB.entries = [])
    (hq0 : s0.ready_to_execute = []) (hcap : s0.ROB.size ≤ P.ROB_SIZE)
    (hrun : RegRun P s0 s) :
    (∀ x ∈ s.ROB.entries,
      x.num_reg_dependent = ((s.ROB.entries.countP (holds_back x.instr_id) : Nat) : Int)) ∧
    (∀ rob_it p, rob_find s.ROB.entries rob_it = some p → p.executed ≠ COMPLETED →
      ∃ s', do_complete_execution P s rob_it = .ok s') ∧
    (∃ s', complete_inflight_instruction P s = .ok s') ∧
    (∀ id ∈ s.ready_to_execute, ∃ x, rob_find s.ROB.entries id = some x ∧
      x.num_reg_dependent = 0 ∧
      ∀ p ∈ s.ROB.entries, id ∈ p.registers_instrs_depend_on_me → p.executed = COMPLETED) := by
  have hinv := reg_run_inv P s0 s h0 hq0 hcap hrun
  refine ⟨hinv.1.counted, ?_, ?_, ?_⟩
  · intro rob_it p hp hpend
    obtain ⟨s', h1, -⟩ := do_complete_execution_returns P s rob_it p hinv.1 hp hpend
    exact ⟨s', h1⟩
  · obtain ⟨s', h1, -⟩ := complete_inflight_instruction_inv P s hinv
    exact ⟨s', h1⟩
  · intro id hq
    obtain ⟨x, hx, -, -, hnum⟩ := hinv.1.queued id hq
    obtain ⟨hxm, hxid⟩ := mem_of_rob_find _ _ _ hx
    refine ⟨x, hx, hnum, ?_⟩
    intro p hp hl
    by_contra hpend
    have := holds_back_pos _ _ hinv.1 p hp hpend x hxm (by rw [hxid]; exact hl)
    omega

theorem reg_dependents_counted_witness :
    (mem_start.ROB.entries = [] ∧ mem_start.ready_to_execute = [] ∧
     mem_start.ROB.size ≤ sample_params.ROB_SIZE ∧
     RegRun sample_params mem_start mem_stored ∧
     RegRun sample_params mem_start mem_retired.1 ∧
     (mem_ready.ROB.entries.map dep_view)
       = [(0, 0, COMPLETED, 0, [1]), (1, 0, INFLIGHT, 1, [2]), (2, 0, COMPLETED, 1, [])] ∧
     mem_ready.ready_to_execute = [0] ∧
     (mem_admitted.ROB.entries.map dep_view)
       = [(0, COMPLETED, COMPLETED, 0, [1]), (1, INFLIGHT, COMPLETED, 0, [2]),
          (2, 0, COMPLETED, 1, [])] ∧
     (mem_stored.ROB.entries.map fun e =>
        (e.instr_id, e.executed, e.num_reg_dependent, e.registers_instrs_depend_on_me,
          e.num_mem_ops))
       = [(0, COMPLETED, 0, [1], 0), (1, INFLIGHT, 0, [2], 0), (2, 0, 1, [], 0)] ∧
     mem_stored.ready_to_execute = [] ∧
     (mem_completed.ROB.entries.map dep_view)
       = [(0, COMPLETED, COMPLETED, 0, [1]), (1, COMPLETED, COMPLETED, 0, [2]),
          (2, 0, COMPLETED, 0, [])] ∧
     mem_completed.ready_to_execute = [2] ∧
     ids mem_retired.2.2 = [0, 1] ∧ ids mem_retired.1.ROB.entries = [2]) ∧
    (∀ x ∈ mem_stored.ROB.entries,
      x.num_reg_dependent
        = ((mem_stored.ROB.entries.countP (holds_back x.instr_id) : Nat) : Int)) ∧
    (∀ rob_it p, rob_find mem_stored.ROB.entries rob_it = some p →
      p.executed ≠ COMPLETED →
      ∃ s', do_complete_execution sample_params mem_stored rob_it = .ok s') ∧
    (∃ s', complete_inflight_instruction sample_params mem_stored = .ok s') ∧
    (∀ id ∈ mem_stored.ready_to_execute,
      ∃ x, rob_find mem_stored.ROB.entries id = some x ∧ x.num_reg_dependent = 0 ∧
        ∀ p ∈ mem_stored.ROB.entries, id ∈ p.registers_instrs_depend_on_me →
          p.executed = COMPLETED) :=
  have r1 : RegRun sample_params mem_start (enter_rob mem_start reg_P) :=
    .step _ _ .start (.enter mem_start reg_P ((mem_start.ROB.push_back reg_P).getD mem_start.ROB)
      (by decide) (by decide) (by decide) (by decide) (by decide) (by decide))
  have r2 : RegRun sample_params mem_start (enter_rob (enter_rob mem_start reg_P) mem_S) :=
    .step _ _ r1 (.enter (enter_rob mem_start reg_P) mem_S
      (((enter_rob mem_start reg_P).ROB.push_back mem_S).getD (enter_rob mem_start reg_P).ROB)
      (by decide) (by decide) (by decide) (by decide) (by decide) (by decide))
  have r3 : RegRun sample_params mem_start mem_entered :=
    .step _ _ r2 (.enter (enter_rob (enter_rob mem_start reg_P) mem_S) mem_X
      (((enter_rob (enter_rob mem_start reg_P) mem_S).ROB.push_back mem_X).getD
        (enter_rob (enter_rob mem_start reg_P) mem_S).ROB)
      (by decide) (by decide) (by decide) (by decide) (by decide) (by decide))
  have r4 : RegRun sample_params mem_start mem_ready :=
    .step _ _ r3 (.schedule mem_entered mem_ready (by decide))
  have r5 : RegRun sample_params mem_start mem_ready :=
    .step _ _ r4 (.schedule_memory mem_ready mem_ready (by decide))
  have r6 : RegRun sample_params mem_start
      (after (execute_instruction sample_params mem_ready) mem_ready) :=
    .step _ _ r5 (.execute mem_ready _ (by decide))
  have r7 : RegRun sample_params mem_start mem_executing :=
    .step _ _ r6 (.other _ mem_executing rfl rfl rfl)
  have r8 : RegRun sample_params mem_start mem_released :=
    .step _ _ r7 (.complete mem_executing mem_released (by decide))
  have r9 : RegRun sample_params mem_start mem_admitted :=
    .step _ _ r8 (.schedule_memory mem_released mem_admitted (by decide))
  have r10 : RegRun sample_params mem_start mem_translated :=
    .step _ _ r9 (.other mem_admitted mem_translated rfl rfl rfl)
  have hst := execute_store_other sample_params mem_translated mem_stored 0 (by decide)
  have r11 : RegRun sample_params mem_start mem_stored :=
    .step _ _ r10 (.other mem_translated mem_stored hst.1 hst.2.1 hst.2.2)
  have r12 : RegRun sample_params mem_start mem_completed :=
    .step _ _ r11 (.complete mem_stored mem_completed (by decide))
  have r13 : RegRun sample_params mem_start mem_retired.1 :=
    .step _ _ r12 (.retire mem_completed mem_retired.1 wq_accept mem_retired.2.1
      mem_retired.2.2 (by decide))
  ⟨⟨by decide, by decide, by decide, r11, r13, by decide, by decide, by decide, by decide,
      by decide, by decide, by decide, by decide, by decide⟩,
    reg_dependents_counted sample_params mem_start mem_stored (by decide) (by decide)
      (by decide) r11⟩

/-! ## Lemmas: the pool after construction -/

theorem populate_free_list_eq (L count : Nat)
    (h : VMEM_RESERVE_CAPACITY + count * 2 ^ L ≤ 2 ^ 64) :
    populate_free_list L count
      = (List.range count).map fun i => VMEM_RESERVE_CAPACITY + i * PAGE_SIZE L := by
  unfold populate_free_list
  apply List.map_congr_left
  intro i hi
  rw [List.mem_range] at hi
  apply add64_eq
  unfold PAGE_SIZE
  have : (i + 1) * 2 ^ L ≤ count * 2 ^ L := Nat.mul_le_mul_right _ hi
  have h2 : 0 < 2 ^ L := Nat.pow_pos (by norm_num)
  nlinarith

/-- C38: construction with a capacity (a `uint64_t`) that is a multiple of `PAGE_SIZE`
and at least `VMEM_RESERVE_CAPACITY + PAGE_SIZE`, a page-table page size that passes the
assertion, and a shuffle that permutes, whatever the seed. The constructor returns, and
`next_pte_page` followed by `ppage_free_list` is a permutation of the addresses
`VMEM_RESERVE_CAPACITY + i * PAGE_SIZE` for `i` below
`(capacity - VMEM_RESERVE_CAPACITY) / PAGE_SIZE`: the pages are pairwise distinct, at or
above the reserve and below the capacity, and page-aligned when `PAGE_SIZE` divides the
reserve of one megabyte (`LOG2_PAGE_SIZE ≤ 20`). -/
theorem construct_pool_is_permutation (L : Nat) (shuffle : Nat → List Nat → List Nat)
    (capacity pg_size levels seed : Nat)
    (hperm : ∀ l, (shuffle seed l).Perm l) (hL : L ≤ 20) (hcap : capacity < 2 ^ 64)
    (hmult : capacity % PAGE_SIZE L = 0)
    (hmin : VMEM_RESERVE_CAPACITY + PAGE_SIZE L ≤ capacity)
    (hpg : pg_size = 2 ^ lg2 pg_size ∧ pg_size > 1024) :
    ∃ vm, VirtualMemory.construct L shuffle capacity pg_size levels seed = .ok vm ∧
      (vm.next_pte_page :: vm.ppage_free_list).Perm
        ((List.range ((capacity - VMEM_RESERVE_CAPACITY) / PAGE_SIZE L)).map
          fun i => VMEM_RESERVE_CAPACITY + i * PAGE_SIZE L) ∧
      (vm.next_pte_page :: vm.ppage_free_list).Nodup ∧
      ∀ p ∈ vm.next_pte_page :: vm.ppage_free_list,
        PAGE_SIZE L ∣ p ∧ VMEM_RESERVE_CAPACITY ≤ p ∧ p < capacity := by
  have hpos : 0 < PAGE_SIZE L := Nat.pow_pos (by norm_num)
  have hres : VMEM_RESERVE_CAPACITY ≤ capacity := le_trans (Nat.le_add_right _ _) hmin
  have hsub : sub64 capacity VMEM_RESERVE_CAPACITY = capacity - VMEM_RESERVE_CAPACITY :=
    sub64_eq _ _ hres hcap
  have hcount : 0 < (capacity - VMEM_RESERVE_CAPACITY) / PAGE_SIZE L := by
    apply Nat.div_pos _ hpos
    omega
  have hfit : VMEM_RESERVE_CAPACITY
      + (capacity - VMEM_RESERVE_CAPACITY) / PAGE_SIZE L * PAGE_SIZE L ≤ capacity := by
    have := Nat.div_mul_le_self (capacity - VMEM_RESERVE_CAPACITY) (PAGE_SIZE L)
    omega
  have hlist := populate_free_list_eq L ((capacity - VMEM_RESERVE_CAPACITY) / PAGE_SIZE L)
    (le_trans hfit (le_of_lt hcap))
  have hp := hperm (populate_free_list L ((capacity - VMEM_RESERVE_CAPACITY) / PAGE_SIZE L))
  have hfacts : ∀ p ∈ (List.range ((capacity - VMEM_RESERVE_CAPACITY) / PAGE_SIZE L)).map
      (fun i => VMEM_RESERVE_CAPACITY + i * PAGE_SIZE L),
      PAGE_SIZE L ∣ p ∧ VMEM_RESERVE_CAPACITY ≤ p ∧ p < capacity := by
    intro p hp
    obtain ⟨i, hi, rfl⟩ := List.mem_map.mp hp
    rw [List.mem_range] at hi
    refine ⟨?_, Nat.le_add_right _ _, ?_⟩
    · apply Nat.dvd_add _ (Nat.dvd_mul_left _ _)
      have : VMEM_RESERVE_CAPACITY = 2 ^ 20 := by decide
      rw [this]
      exact Nat.pow_dvd_pow 2 hL
    · have : (i + 1) * PAGE_SIZE L
          ≤ (capacity - VMEM_RESERVE_CAPACITY) / PAGE_SIZE L * PAGE_SIZE L :=
        Nat.mul_le_mul_right _ hi
      nlinarith
  have hnodup : ((List.range ((capacity - VMEM_RESERVE_CAPACITY) / PAGE_SIZE L)).map
      (fun i => VMEM_RESERVE_CAPACITY + i * PAGE_SIZE L)).Nodup := by
    apply List.Nodup.map _ (List.nodup_range _)
    intro a b hab
    simp only [add_right_inj] at hab
    exact Nat.eq_of_mul_eq_mul_right hpos hab
  unfold VirtualMemory.construct
  rw [if_neg (by omega)]
  simp only [hsub]
  rw [if_neg (by simpa using hmult), if_neg (by simpa using hpg), if_neg (by omega)]
  rw [hlist] at hp ⊢
  cases hsh : shuffle seed ((List.range ((capacity - VMEM_RESERVE_CAPACITY) / PAGE_SIZE L)).map
      fun i => VMEM_RESERVE_CAPACITY + i * PAGE_SIZE L) with
  | nil =>
    rw [hsh] at hp
    have := hp.length_eq
    simp only [List.length_nil, List.length_map, List.length_range] at this
    omega
  | cons p rest =>
    rw [hsh] at hp
    exact ⟨_, rfl, hp, hp.nodup_iff.mpr hnodup, fun a ha => hfacts a (hp.subset ha)⟩

theorem construct_pool_is_permutation_witness :
    ((∀ l, (shuffle_keep 0 l).Perm l) ∧ 12 ≤ 20 ∧
      VMEM_RESERVE_CAPACITY + 3 * 4096 < 2 ^ 64 ∧
      (VMEM_RESERVE_CAPACITY + 3 * 4096) % PAGE_SIZE 12 = 0 ∧
      VMEM_RESERVE_CAPACITY + PAGE_SIZE 12 ≤ VMEM_RESERVE_CAPACITY + 3 * 4096 ∧
      (4096 = 2 ^ lg2 4096 ∧ 4096 > 1024) ∧
      VirtualMemory.construct 12 shuffle_keep (VMEM_RESERVE_CAPACITY + 3 * 4096) 4096 5 0
        = .ok (small_vm 3) ∧
      (small_vm 3).next_pte_page :: (small_vm 3).ppage_free_list
        = [0x100000, 0x101000, 0x102000]) ∧
    ∃ vm, VirtualMemory.construct 12 shuffle_keep (VMEM_RESERVE_CAPACITY + 3 * 4096) 4096 5 0
        = .ok vm ∧
      (vm.next_pte_page :: vm.ppage_free_list).Perm
        ((List.range ((VMEM_RESERVE_CAPACITY + 3 * 4096 - VMEM_RESERVE_CAPACITY)
            / PAGE_SIZE 12)).map
          fun i => VMEM_RESERVE_CAPACITY + i * PAGE_SIZE 12) ∧
      (vm.next_pte_page :: vm.ppage_free_list).Nodup ∧
      ∀ p ∈ vm.next_pte_page :: vm.ppage_free_list,
        PAGE_SIZE 12 ∣ p ∧ VMEM_RESERVE_CAPACITY ≤ p ∧
          p < VMEM_RESERVE_CAPACITY + 3 * 4096 :=
  ⟨⟨fun l => List.Perm.refl l, by decide, by decide, by decide, by decide, by decide,
      by decide, by decide⟩,
    construct_pool_is_permutation 12 shuffle_keep (VMEM_RESERVE_CAPACITY + 3 * 4096) 4096 5 0
      (fun l => List.Perm.refl l) (by decide) (by decide) (by decide) (by decide)
      (by decide)⟩

/-! ## Examples: the page-permission table and the segments -/

/-- C36: with 1 GiB of memory `setup_pcache` puts the page-permission table at
`[0x2000, 0x42000)` and the code segment at `PAGE_ALIGN(ptable_size) = 0x40000`, inside
the table: for four regions of 4096 bytes the code segment `[0x40000, 0x41000)` lies in
the table region. With a heap of 992 MiB the configuration is accepted as well, and the
table entry `va_to_ptable_pa` of the heap address `0x555555554000 + 0x3dfbf000` is the
physical address `0x40000`, which is also the physical address of the code address 0. -/
theorem ptable_region_overlaps_code :
    setup_pcache 12 scenario_C vm_1GiB = .ok layout_C ∧
    layout_C.ptable_start = 0x2000 ∧ layout_C.ptable_size = 0x40000 ∧
    layout_C.code_phys_start = 0x40000 ∧ layout_C.code_phys_end = 0x41000 ∧
    in_range layout_C.ptable_start (layout_C.ptable_start + layout_C.ptable_size)
      layout_C.code_phys_start ∧
    layout_C.code_phys_end ≤ layout_C.ptable_start + layout_C.ptable_size ∧
    va_to_ptable_pa 12 layout_C 0 = .ok 0x2040 ∧
    setup_pcache 12 big_heap vm_1GiB = .ok layout_big_heap ∧
    layout_big_heap.ptable_start = 0x2000 ∧ layout_big_heap.ptable_size = 0x40000 ∧
    in_range layout_big_heap.heap_virt_start layout_big_heap.heap_virt_end
      (0x555555554000 + 0x3dfbf000) ∧
    va_to_ptable_pa 12 layout_big_heap (0x555555554000 + 0x3dfbf000) = .ok 0x40000 ∧
    in_range layout_big_heap.code_virt_start layout_big_heap.code_virt_end 0 ∧
    pcache_va_to_pa layout_big_heap 0 0 = .ok 0x40000 := by
  unfold in_range
  decide

/-! ## Lemmas: the page offset in the flat-segment mode -/

theorem segment_offset_kept (L phys virt vaddr : Nat) (hL : L ≤ 64) (hphys : 2 ^ L ∣ phys)
    (hvirt : 2 ^ L ∣ virt) (hge : virt ≤ vaddr) :
    ((phys + (vaddr - virt)) % 2 ^ 64) % 2 ^ L = vaddr % 2 ^ L := by
  rw [Nat.mod_mod_of_dvd _ (Nat.pow_dvd_pow 2 hL)]
  obtain ⟨a, rfl⟩ := hphys
  obtain ⟨b, rfl⟩ := hvirt
  obtain ⟨d, rfl⟩ := Nat.exists_eq_add_of_le hge
  rw [Nat.add_sub_cancel_left, Nat.mul_add_mod, Nat.mul_add_mod]

theorem segment_page_kept (L phys virt v1 v2 : Nat) (hL : L ≤ 64) (hphys : 2 ^ L ∣ phys)
    (hvirt : 2 ^ L ∣ virt) (h1 : virt ≤ v1) (h2 : virt ≤ v2) (hpage : v1 / 2 ^ L = v2 / 2 ^ L) :
    ((phys + (v1 - virt)) % 2 ^ 64) / 2 ^ L = ((phys + (v2 - virt)) % 2 ^ 64) / 2 ^ L := by
  have hpos : 0 < 2 ^ L := Nat.pow_pos (by norm_num)
  have h64 : 2 ^ 64 = 2 ^ L * 2 ^ (64 - L) := by
    rw [← pow_add]
    congr 1
    omega
  rw [h64, Nat.mod_mul_right_div_self, Nat.mod_mul_right_div_self]
  congr 1
  obtain ⟨a, rfl⟩ := hphys
  obtain ⟨b, rfl⟩ := hvirt
  obtain ⟨d1, rfl⟩ := Nat.exists_eq_add_of_le h1
  obtain ⟨d2, rfl⟩ := Nat.exists_eq_add_of_le h2
  rw [Nat.add_sub_cancel_left, Nat.add_sub_cancel_left, Nat.mul_add_div hpos,
    Nat.mul_add_div hpos]
  rw [Nat.mul_add_div hpos, Nat.mul_add_div hpos] at hpage
  omega

theorem sub64_dvd (L a b : Nat) (hL : L ≤ 64) (ha : 2 ^ L ∣ a) (hb : 2 ^ L ∣ b)
    (hb64 : b < 2 ^ 64) : 2 ^ L ∣ sub64 a b := by
  unfold sub64
  have h64 : 2 ^ L ∣ 2 ^ 64 := Nat.pow_dvd_pow 2 hL
  rw [Nat.dvd_mod_iff h64]
  exact (Nat.dvd_sub (by omega) (Nat.dvd_add ha h64) hb)

theorem setup_pcache_starts_aligned (L : Nat) (g : Globals) (vm vm' : VirtualMemory)
    (hL : L ≤ 12) (hp : g.use_pcache ≠ 0) (h : setup_pcache L g vm = .ok vm')
    (hm : g.mmap_size % PAGE_SIZE L = 0) (hs : g.stack_size % PAGE_SIZE L = 0)
    (hm64 : g.mmap_size < 2 ^ 64) (hs64 : g.stack_size < 2 ^ 64) :
    (2 ^ L ∣ vm'.code_virt_start ∧ 2 ^ L ∣ vm'.code_phys_start) ∧
    (2 ^ L ∣ vm'.heap_virt_start ∧ 2 ^ L ∣ vm'.heap_phys_start) ∧
    (2 ^ L ∣ vm'.mmap_virt_start ∧ 2 ^ L ∣ vm'.mmap_phys_start) ∧
    (2 ^ L ∣ vm'.stack_virt_start ∧ 2 ^ L ∣ vm'.stack_phys_start) := by
  have hL64 : L ≤ 64 := by omega
  have f := setup_pcache_fields L g vm vm' hp h
  obtain ⟨-, -, -, f4, -, f6, -, f8, -, f10, -, -, f13, f14, -, -, f17, f18, -, -⟩ := f
  have h12 : 2 ^ L ∣ 2 ^ 12 := Nat.pow_dvd_pow 2 hL
  have a1 : (2 : Nat) ^ 12 ∣ 0x555555554000 := by decide
  have a2 : (2 : Nat) ^ 12 ∣ 0x7ffff8000000 := by decide
  have a3 : (2 : Nat) ^ 12 ∣ 0x7ffffffff000 := by decide
  refine ⟨⟨?_, ?_⟩, ⟨?_, ?_⟩, ⟨?_, ?_⟩, ⟨?_, ?_⟩⟩
  · rw [f4]; exact dvd_zero _
  · rw [f6]; exact PAGE_ALIGN_dvd L _ hL64
  · rw [f8]; exact dvd_trans h12 a1
  · rw [f10]; exact PAGE_ALIGN_dvd L _ hL64
  · rw [f13]
    exact sub64_dvd L _ _ hL64 (dvd_trans h12 a2) (Nat.dvd_of_mod_eq_zero hm) hm64
  · rw [f14]; exact PAGE_ALIGN_dvd L _ hL64
  · rw [f17]
    exact sub64_dvd L _ _ hL64 (dvd_trans h12 a3) (Nat.dvd_of_mod_eq_zero hs) hs64
  · rw [f18]; exact PAGE_ALIGN_dvd L _ hL64

theorem pcache_va_to_pa_segment (vm : VirtualMemory) (cpu vaddr pa : Nat)
    (h : pcache_va_to_pa vm cpu vaddr = .ok pa) :
    (pcache_segment vm vaddr = some 0 ∧ vm.code_virt_start ≤ vaddr ∧
      pa = (vm.code_phys_start + (vaddr - vm.code_virt_start)) % 2 ^ 64) ∨
    (pcache_segment vm vaddr = some 1 ∧ vm.heap_virt_start ≤ vaddr ∧
      pa = (vm.heap_phys_start + (vaddr - vm.heap_virt_start)) % 2 ^ 64) ∨
    (pcache_segment vm vaddr = some 2 ∧ vm.mmap_virt_start ≤ vaddr ∧
      pa = (vm.mmap_phys_start + (vaddr - vm.mmap_virt_start)) % 2 ^ 64) ∨
    (pcache_segment vm vaddr = some 3 ∧ vm.stack_virt_start ≤ vaddr ∧
      pa = (vm.stack_phys_start + (vaddr - vm.stack_virt_start)) % 2 ^ 64) := by
  unfold pcache_segment
  by_cases hc : in_range vm.code_virt_start vm.code_virt_end vaddr
  · rw [pcache_va_to_pa_code vm cpu vaddr hc] at h
    cases h
    exact Or.inl ⟨by rw [if_pos ⟨hc.1, hc.2⟩], hc.1, rfl⟩
  · by_cases hh : in_range vm.heap_virt_start vm.heap_virt_end vaddr
    · rw [pcache_va_to_pa_heap vm cpu vaddr hc hh] at h
      cases h
      exact Or.inr (Or.inl ⟨by rw [if_neg (fun x => hc ⟨x.1, x.2⟩), if_pos ⟨hh.1, hh.2⟩],
        hh.1, rfl⟩)
    · by_cases hm : in_range vm.mmap_virt_start vm.mmap_virt_end vaddr
      · rw [pcache_va_to_pa_mmap vm cpu vaddr hc hh hm] at h
        cases h
        exact Or.inr (Or.inr (Or.inl ⟨by
          rw [if_neg (fun x => hc ⟨x.1, x.2⟩), if_neg (fun x => hh ⟨x.1, x.2⟩),
            if_pos ⟨hm.1, hm.2⟩], hm.1, rfl⟩))
      · by_cases hs : in_range vm.stack_virt_start vm.stack_virt_end vaddr
        · rw [pcache_va_to_pa_stack vm cpu vaddr hc hh hm hs] at h
          cases h
          exact Or.inr (Or.inr (Or.inr ⟨by
            rw [if_neg (fun x => hc ⟨x.1, x.2⟩), if_neg (fun x => hh ⟨x.1, x.2⟩),
              if_neg (fun x => hm ⟨x.1, x.2⟩), if_pos ⟨hs.1, hs.2⟩], hs.1, rfl⟩))
        · rw [pcache_va_to_pa_outside vm cpu vaddr (by
            unfold in_some_virt_range
            tauto)] at h
          cases h

/-- C37 (an mmap region of one page and a half): `setup_pcache` accepts the
configuration, and the mmap range starts at `0x7ffff7ffe800`, in the middle of a page,
while its physical segment starts at the page `0x42000`. The address `0x7ffff7ffe800`
is translated to `0x42000`, whose low 12 bits are 0 and not `0x800`: the splice of
`prefetch_code_line` turns the translation into `0x42800`. The addresses
`0x7ffff7fff000` and `0x7ffff7ffffff` of one virtual page are translated to `0x42800`
and `0x437ff`, in two physical pages. -/
theorem pcache_va_to_pa_shifts_offset :
    setup_pcache 12 odd_mmap vm_1GiB = .ok layout_odd_mmap ∧
    odd_mmap.mmap_size = 0x1800 ∧
    layout_odd_mmap.mmap_virt_start = 0x7ffff7ffe800 ∧
    layout_odd_mmap.mmap_virt_end = 0x7ffff8000000 ∧
    layout_odd_mmap.mmap_phys_start = 0x42000 ∧
    pcache_va_to_pa layout_odd_mmap 0 0x7ffff7ffe800 = .ok 0x42000 ∧
    0x42000 % 2 ^ 12 = 0 ∧ 0x7ffff7ffe800 % 2 ^ 12 = 0x800 ∧
    splice_bits 0x42000 0x7ffff7ffe800 12 = 0x42800 ∧
    pcache_va_to_pa layout_odd_mmap 0 0x7ffff7fff000 = .ok 0x42800 ∧
    pcache_va_to_pa layout_odd_mmap 0 0x7ffff7ffffff = .ok 0x437ff ∧
    0x7ffff7fff000 >>> 12 = 0x7ffff7ffffff >>> 12 ∧ 0x42800 >>> 12 ≠ 0x437ff >>> 12 := by
  decide

/-- C37, the statement that holds. For every configuration that `setup_pcache` accepts
with `mmap_size` and `stack_size` (two `uint64_t`) multiples of `PAGE_SIZE`, pages of
at most 4096 bytes, and whatever the sizes of code and heap: a translation
`pcache_va_to_pa(cpu, vaddr)` that returns has the low `LOG2_PAGE_SIZE` bits of `vaddr`,
so the splice of `prefetch_code_line` leaves it unchanged, and two addresses of one
virtual page for which the same branch of `pcache_va_to_pa` decides are translated into
one physical page. -/
theorem pcache_va_to_pa_keeps_offset (L : Nat) (g : Globals) (vm vm' : VirtualMemory)
    (cpu vaddr pa : Nat) (hL : L ≤ 12) (hp : g.use_pcache ≠ 0)
    (h : setup_pcache L g vm = .ok vm')
    (hm : g.mmap_size % PAGE_SIZE L = 0) (hs : g.stack_size % PAGE_SIZE L = 0)
    (hm64 : g.mmap_size < 2 ^ 64) (hs64 : g.stack_size < 2 ^ 64)
    (hpa : pcache_va_to_pa vm' cpu vaddr = .ok pa) :
    pa % 2 ^ L = vaddr % 2 ^ L ∧ splice_bits pa vaddr L = pa ∧
    ∀ v2 pa2, pcache_va_to_pa vm' cpu v2 = .ok pa2 →
      pcache_segment vm' v2 = pcache_segment vm' vaddr →
      v2 >>> L = vaddr >>> L → pa2 >>> L = pa >>> L := by
  have hL64 : L ≤ 64 := by omega
  obtain ⟨⟨c1, c2⟩, ⟨e1, e2⟩, ⟨m1, m2⟩, ⟨s1, s2⟩⟩ :=
    setup_pcache_starts_aligned L g vm vm' hL hp h hm hs hm64 hs64
  have hoff : pa % 2 ^ L = vaddr % 2 ^ L := by
    rcases pcache_va_to_pa_segment vm' cpu vaddr pa hpa with
      ⟨-, hge, rfl⟩ | ⟨-, hge, rfl⟩ | ⟨-, hge, rfl⟩ | ⟨-, hge, rfl⟩
    · exact segment_offset_kept L _ _ _ hL64 c2 c1 hge
    · exact segment_offset_kept L _ _ _ hL64 e2 e1 hge
    · exact segment_offset_kept L _ _ _ hL64 m2 m1 hge
    · exact segment_offset_kept L _ _ _ hL64 s2 s1 hge
  refine ⟨hoff, splice_bits_same_offset pa vaddr L hoff, ?_⟩
  intro v2 pa2 hpa2 hseg hpage
  simp only [Nat.shiftRight_eq_div_pow] at hpage ⊢
  rcases pcache_va_to_pa_segment vm' cpu vaddr pa hpa with
    ⟨g1, hge, rfl⟩ | ⟨g1, hge, rfl⟩ | ⟨g1, hge, rfl⟩ | ⟨g1, hge, rfl⟩ <;>
  rcases pcache_va_to_pa_segment vm' cpu v2 pa2 hpa2 with
    ⟨g2, hge2, rfl⟩ | ⟨g2, hge2, rfl⟩ | ⟨g2, hge2, rfl⟩ | ⟨g2, hge2, rfl⟩ <;>
  first
    | exact segment_page_kept L _ _ _ _ hL64 c2 c1 hge2 hge hpage
    | exact segment_page_kept L _ _ _ _ hL64 e2 e1 hge2 hge hpage
    | exact segment_page_kept L _ _ _ _ hL64 m2 m1 hge2 hge hpage
    | exact segment_page_kept L _ _ _ _ hL64 s2 s1 hge2 hge hpage
    | (rw [g1, g2] at hseg; cases hseg)

theorem pcache_va_to_pa_keeps_offset_witness :
    ((12 ≤ 12) ∧ scenario_C.use_pcache ≠ 0 ∧
      setup_pcache 12 scenario_C vm_1GiB = .ok layout_C ∧
      scenario_C.mmap_size % PAGE_SIZE 12 = 0 ∧ scenario_C.stack_size % PAGE_SIZE 12 = 0 ∧
      scenario_C.mmap_size < 2 ^ 64 ∧ scenario_C.stack_size < 2 ^ 64 ∧
      pcache_va_to_pa layout_C 0 (0x555555554000 + 10)
        = .ok (layout_C.heap_phys_start + 10)) ∧
    (layout_C.heap_phys_start + 10) % 2 ^ 12 = (0x555555554000 + 10) % 2 ^ 12 ∧
    splice_bits (layout_C.heap_phys_start + 10) (0x555555554000 + 10) 12
      = layout_C.heap_phys_start + 10 ∧
    ∀ v2 pa2, pcache_va_to_pa layout_C 0 v2 = .ok pa2 →
      pcache_segment layout_C v2 = pcache_segment layout_C (0x555555554000 + 10) →
      v2 >>> 12 = (0x555555554000 + 10) >>> 12 →
      pa2 >>> 12 = (layout_C.heap_phys_start + 10) >>> 12 :=
  ⟨⟨by decide, by decide, by decide, by decide, by decide, by decide, by decide, by decide⟩,
    pcache_va_to_pa_keeps_offset 12 scenario_C vm_1GiB layout_C 0 (0x555555554000 + 10)
      (layout_C.heap_phys_start + 10) (by decide) (by decide) (by decide) (by decide)
      (by decide) (by decide) (by decide) (by decide)⟩

/-! ## Lemmas: the operand loops of `init_instruction` -/

theorem operand_counts_refl (a : ooo_model_instr) : operand_counts a a := rfl

theorem operand_counts_trans (a b c : ooo_model_instr) (h1 : operand_counts a b)
    (h2 : operand_counts b c) : operand_counts a c := by
  unfold operand_counts at *
  rw [h2, h1]

theorem operand_counts_fields (a a' : ooo_model_instr) (h : operand_counts a a') :
    a'.destination_registers = a.destination_registers ∧
    a'.source_registers = a.source_registers ∧
    a'.destination_memory = a.destination_memory ∧ a'.source_memory = a.source_memory ∧
    a'.is_branch = a.is_branch ∧ a'.branch_taken = a.branch_taken ∧
    a'.branch_type = a.branch_type ∧ a'.branch_target = a.branch_target ∧
    a'.instr_id = a.instr_id := by
  unfold operand_counts at h
  refine ⟨?_, ?_, ?_, ?_, ?_, ?_, ?_, ?_, ?_⟩ <;> (rw [h])

theorem init_destination_scan (P : Params) (i : Nat) (a a' : ooo_model_instr)
    (r r' : RegScan) (s s' : O3_CPU) (hd : distinct_registers P)
    (h : init_destination P i a r s = .ok (a', r', s')) :
    operand_counts a a' ∧
    a'.num_reg_ops = a.num_reg_ops + (if a.destination_registers.getD i 0 ≠ 0 then 1 else 0) ∧
    a'.num_mem_ops = a.num_mem_ops + (if a.destination_memory.getD i 0 ≠ 0 then 1 else 0) ∧
    r' = { r with
      writes_sp := r.writes_sp || (a.destination_registers.getD i 0 == P.REG_STACK_POINTER)
      writes_ip := r.writes_ip
        || (a.destination_registers.getD i 0 == P.REG_INSTRUCTION_POINTER) } ∧
    s'.warmup_complete = s.warmup_complete ∧
    s'.current_core_cycle = s.current_core_cycle := by
  obtain ⟨sp0, fl0, ip0, spfl, spip, flip⟩ := hd
  have hr : (if a.destination_registers.getD i 0 = 0 then r
      else if a.destination_registers.getD i 0 = P.REG_STACK_POINTER
        then { r with writes_sp := true }
      else if a.destination_registers.getD i 0 = P.REG_INSTRUCTION_POINTER
        then { r with writes_ip := true }
      else r)
      = { r with
          writes_sp := r.writes_sp || (a.destination_registers.getD i 0 == P.REG_STACK_POINTER)
          writes_ip := r.writes_ip
            || (a.destination_registers.getD i 0 == P.REG_INSTRUCTION_POINTER) } := by
    by_cases h0 : a.destination_registers.getD i 0 = 0
    · rw [if_pos h0, h0]
      have e1 : ((0 : Nat) == P.REG_STACK_POINTER) = false := by simpa using sp0.symm
      have e2 : ((0 : Nat) == P.REG_INSTRUCTION_POINTER) = false := by simpa using ip0.symm
      rw [e1, e2]
      simp
    · rw [if_neg h0]
      by_cases h1 : a.destination_registers.getD i 0 = P.REG_STACK_POINTER
      · rw [if_pos h1, h1]
        have e2 : (P.REG_STACK_POINTER == P.REG_INSTRUCTION_POINTER) = false := by
          simpa using spip
        rw [e2]
        simp
      · rw [if_neg h1]
        have e1 : (a.destination_registers.getD i 0 == P.REG_STACK_POINTER) = false := by
          simpa using h1
        by_cases h2 : a.destination_registers.getD i 0 = P.REG_INSTRUCTION_POINTER
        · rw [if_pos h2, e1, h2]
          simp
        · rw [if_neg h2, e1]
          have e2 : (a.destination_registers.getD i 0 == P.REG_INSTRUCTION_POINTER) = false := by
            simpa using h2
          rw [e2]
          simp
  unfold init_destination at h
  simp only at h
  rw [hr] at h
  split_ifs at h with c1 c2 c3 c4 <;>
    (simp only [Outcome.ok.injEq, Prod.mk.injEq] at h
     obtain ⟨rfl, rfl, rfl⟩ := h
     try dsimp only at *
     refine ⟨rfl, ?_, ?_, rfl, rfl, rfl⟩ <;>
       simp only [*, if_true, if_false, ne_eq, not_false_eq_true, not_true_eq_false,
         add_zero, Decidable.not_not])

theorem count_set_cons (i : Nat) (l arr : List Nat) :
    count_set (i :: l) arr = (if arr.getD i 0 ≠ 0 then 1 else 0) + count_set l arr := by
  unfold count_set
  rw [List.countP_cons, Nat.add_comm]
  congr 1
  by_cases h : arr.getD i 0 = 0
  · rw [h]; rfl
  · rw [if_pos (by simpa using h), if_pos h]

theorem init_destinations_scan (P : Params) (hd : distinct_registers P) (l : List Nat) :
    ∀ (a a' : ooo_model_instr) (r r' : RegScan) (s s' : O3_CPU),
      init_destinations P l a r s = .ok (a', r', s') →
      operand_counts a a' ∧
      a'.num_reg_ops = a.num_reg_ops + count_set l a.destination_registers ∧
      a'.num_mem_ops = a.num_mem_ops + count_set l a.destination_memory ∧
      r' = { r with
        writes_sp := r.writes_sp
          || l.any fun i => a.destination_registers.getD i 0 == P.REG_STACK_POINTER
        writes_ip := r.writes_ip
          || l.any fun i => a.destination_registers.getD i 0 == P.REG_INSTRUCTION_POINTER } := by
  induction l with
  | nil =>
    intro a a' r r' s s' h
    simp only [init_destinations, Outcome.ok.injEq, Prod.mk.injEq] at h
    obtain ⟨rfl, rfl, rfl⟩ := h
    refine ⟨operand_counts_refl _, by simp [count_set], by simp [count_set], ?_⟩
    simp only [List.any_nil, Bool.or_false]
  | cons i rest ih =>
    intro a a' r r' s s' h
    rw [init_destinations] at h
    split at h
    · exact absurd h (by simp)
    rename_i a1 r1 s1 h1
    obtain ⟨o1, n1, m1, q1, -, -⟩ := init_destination_scan P i a a1 r r1 s s1 hd h1
    obtain ⟨o2, n2, m2, q2⟩ := ih a1 a' r1 r' s1 s' h
    obtain ⟨e1, -, e3, -⟩ := operand_counts_fields a a1 o1
    refine ⟨operand_counts_trans _ _ _ o1 o2, ?_, ?_, ?_⟩
    · rw [n2, n1, e1, count_set_cons]
      split_ifs <;> push_cast <;> ring
    · rw [m2, m1, e3, count_set_cons]
      split_ifs <;> push_cast <;> ring
    · rw [q2, q1, e1]
      simp only [List.any_cons, Bool.or_assoc]

theorem init_source_scan (P : Params) (i : Nat) (a : ooo_model_instr) (r : RegScan)
    (hd : distinct_registers P) :
    operand_counts a (init_source P i a r).1 ∧
    (init_source P i a r).1.num_reg_ops
      = a.num_reg_ops + (if a.source_registers.getD i 0 ≠ 0 then 1 else 0) ∧
    (init_source P i a r).1.num_mem_ops
      = a.num_mem_ops + (if a.source_memory.getD i 0 ≠ 0 then 1 else 0) ∧
    (init_source P i a r).2 = { r with
      reads_sp := r.reads_sp || (a.source_registers.getD i 0 == P.REG_STACK_POINTER)
      reads_flags := r.reads_flags || (a.source_registers.getD i 0 == P.REG_FLAGS)
      reads_ip := r.reads_ip || (a.source_registers.getD i 0 == P.REG_INSTRUCTION_POINTER)
      reads_other := r.reads_other || other_reg P (a.source_registers.getD i 0) } := by
  obtain ⟨sp0, fl0, ip0, spfl, spip, flip⟩ := hd
  unfold init_source
  simp only
  refine ⟨?_, ?_, ?_, ?_⟩
  · unfold operand_counts
    split_ifs <;> rfl
  · split_ifs <;> simp
  · split_ifs <;> simp
  · generalize a.source_registers.getD i 0 = d
    unfold other_reg
    by_cases h0 : d = 0
    · subst h0
      rw [if_pos rfl]
      have e1 : ((0 : Nat) == P.REG_STACK_POINTER) = false := by simpa using sp0.symm
      have e2 : ((0 : Nat) == P.REG_FLAGS) = false := by simpa using fl0.symm
      have e3 : ((0 : Nat) == P.REG_INSTRUCTION_POINTER) = false := by simpa using ip0.symm
      rw [e1, e2, e3]
      simp
    · rw [if_neg h0]
      by_cases h1 : d = P.REG_STACK_POINTER
      · subst h1
        rw [if_pos rfl]
        have e2 : (P.REG_STACK_POINTER == P.REG_FLAGS) = false := by simpa using spfl
        have e3 : (P.REG_STACK_POINTER == P.REG_INSTRUCTION_POINTER) = false := by
          simpa using spip
        rw [e2, e3]
        simp
      · rw [if_neg h1]
        have e1 : (d == P.REG_STACK_POINTER) = false := by simpa using h1
        by_cases h2 : d = P.REG_FLAGS
        · subst h2
          rw [if_pos rfl, e1]
          have e3 : (P.REG_FLAGS == P.REG_INSTRUCTION_POINTER) = false := by simpa using flip
          rw [e3]
          simp
        · rw [if_neg h2]
          have e2 : (d == P.REG_FLAGS) = false := by simpa using h2
          by_cases h3 : d = P.REG_INSTRUCTION_POINTER
          · subst h3
            rw [if_pos rfl, e1, e2]
            simp
          · rw [if_neg h3]
            have e3 : (d == P.REG_INSTRUCTION_POINTER) = false := by simpa using h3
            rw [e1, e2, e3]
            simp [h0, h1, h2, h3]

theorem init_sources_scan (P : Params) (hd : distinct_registers P) (l : List Nat) :
    ∀ (a : ooo_model_instr) (r : RegScan),
      operand_counts a (init_sources P l a r).1 ∧
      (init_sources P l a r).1.num_reg_ops
        = a.num_reg_ops + count_set l a.source_registers ∧
      (init_sources P l a r).1.num_mem_ops
        = a.num_mem_ops + count_set l a.source_memory ∧
      (init_sources P l a r).2 = { r with
        reads_sp := r.reads_sp
          || l.any fun i => a.source_registers.getD i 0 == P.REG_STACK_POINTER
        reads_flags := r.reads_flags
          || l.any fun i => a.source_registers.getD i 0 == P.REG_FLAGS
        reads_ip := r.reads_ip
          || l.any fun i => a.source_registers.getD i 0 == P.REG_INSTRUCTION_POINTER
        reads_other := r.reads_other
          || l.any fun i => other_reg P (a.source_registers.getD i 0) } := by
  induction l with
  | nil =>
    intro a r
    refine ⟨operand_counts_refl _, by simp [init_sources, count_set],
      by simp [init_sources, count_set], ?_⟩
    simp only [init_sources, List.any_nil, Bool.or_false]
  | cons i rest ih =>
    intro a r
    obtain ⟨o1, n1, m1, q1⟩ := init_source_scan P i a r hd
    obtain ⟨o2, n2, m2, q2⟩ := ih (init_source P i a r).1 (init_source P i a r).2
    obtain ⟨-, e2, -, e4, -⟩ := operand_counts_fields a _ o1
    rw [init_sources]
    refine ⟨operand_counts_trans _ _ _ o1 o2, ?_, ?_, ?_⟩
    · rw [n2, n1, e2, count_set_cons]
      split_ifs <;> push_cast <;> ring
    · rw [m2, m1, e4, count_set_cons]
      split_ifs <;> push_cast <;> ring
    · rw [q2, q1, e2]
      simp only [List.any_cons, Bool.or_assoc]

theorem getD_set_zero (l : List Nat) (i j : Nat) :
    (l.set i 0).getD j 0 = if i = j then 0 else l.getD j 0 := by
  rw [List.getD_eq_getElem?_getD, List.getD_eq_getElem?_getD, List.getElem?_set]
  split_ifs <;> rfl

theorem fold_stack_pointer_spec (P : Params) (l : List Nat) :
    ∀ a : ooo_model_instr, l.Nodup →
      fold_stack_pointer P l a = { a with
        destination_registers := (fold_stack_pointer P l a).destination_registers
        num_reg_ops := (fold_stack_pointer P l a).num_reg_ops } ∧
      (fold_stack_pointer P l a).destination_registers.length
        = a.destination_registers.length ∧
      (∀ j, (fold_stack_pointer P l a).destination_registers.getD j 0
        = if j ∈ l ∧ a.destination_registers.getD j 0 = P.REG_STACK_POINTER then 0
          else a.destination_registers.getD j 0) ∧
      (fold_stack_pointer P l a).num_reg_ops = a.num_reg_ops
        - l.countP fun i => a.destination_registers.getD i 0 == P.REG_STACK_POINTER := by
  induction l with
  | nil =>
    intro a _
    refine ⟨rfl, rfl, ?_, by simp [fold_stack_pointer]⟩
    intro j
    simp only [fold_stack_pointer, List.not_mem_nil, false_and, if_false]
  | cons i rest ih =>
    intro a hn
    obtain ⟨hi, hrest⟩ := List.nodup_cons.mp hn
    rw [fold_stack_pointer]
    by_cases hit : a.destination_registers.getD i 0 = P.REG_STACK_POINTER
    · rw [if_pos hit]
      obtain ⟨k1, k2, k3, k4⟩ := ih
        { a with destination_registers := a.destination_registers.set i 0
                 num_reg_ops := a.num_reg_ops - 1 } hrest
      refine ⟨k1, ?_, ?_, ?_⟩
      · rw [k2]
        exact List.length_set _ _ _
      · intro j
        rw [k3 j]
        show (if j ∈ rest ∧ (a.destination_registers.set i 0).getD j 0 = P.REG_STACK_POINTER
          then 0 else (a.destination_registers.set i 0).getD j 0) = _
        rw [getD_set_zero]
        by_cases hj : i = j
        · subst hj
          have hR : (if i ∈ i :: rest ∧ a.destination_registers.getD i 0 = P.REG_STACK_POINTER
              then 0 else a.destination_registers.getD i 0) = 0 :=
            if_pos ⟨List.mem_cons_self _ _, hit⟩
          rw [hR, if_pos rfl]
          split_ifs <;> rfl
        · rw [if_neg hj]
          have hm : j ∈ i :: rest ↔ j ∈ rest := by
            rw [List.mem_cons]
            exact ⟨fun h => h.resolve_left (Ne.symm hj), Or.inr⟩
          simp only [hm]
      · rw [k4, List.countP_cons]
        show a.num_reg_ops - 1 - List.countP
          (fun k => (a.destination_registers.set i 0).getD k 0 == P.REG_STACK_POINTER) rest = _
        have hc : List.countP
            (fun k => (a.destination_registers.set i 0).getD k 0 == P.REG_STACK_POINTER) rest
            = List.countP
              (fun k => a.destination_registers.getD k 0 == P.REG_STACK_POINTER) rest := by
          apply List.countP_congr
          intro k hk
          have hne : i ≠ k := fun e => hi (e ▸ hk)
          rw [getD_set_zero, if_neg hne]
        rw [hc, if_pos (by simpa using hit)]
        push_cast
        ring
    · rw [if_neg hit]
      obtain ⟨k1, k2, k3, k4⟩ := ih a hrest
      refine ⟨k1, k2, ?_, ?_⟩
      · intro j
        rw [k3 j]
        by_cases hj : j = i
        · subst hj
          rw [if_neg (fun h => hit h.2), if_neg (fun h => hit h.2)]
        · have hm : j ∈ i :: rest ↔ j ∈ rest := by
            rw [List.mem_cons]
            exact ⟨fun h => h.resolve_left hj, Or.inr⟩
          simp only [hm]
      · rw [k4, List.countP_cons, if_neg (by simpa using hit), Nat.add_zero]

theorem init_branch_prediction_fields (a : ooo_model_instr) (s : O3_CPU) (b : Nat × Nat)
    (p : Nat) :
    (init_branch_prediction a s b p).1.is_branch = a.is_branch ∧
    (init_branch_prediction a s b p).1.branch_taken = a.branch_taken ∧
    (init_branch_prediction a s b p).1.branch_type = a.branch_type ∧
    (init_branch_prediction a s b p).1.branch_target = a.branch_target ∧
    (init_branch_prediction a s b p).1.num_mem_ops = a.num_mem_ops ∧
    (init_branch_prediction a s b p).1.destination_registers = a.destination_registers ∧
    (init_branch_prediction a s b p).1.num_reg_ops = a.num_reg_ops ∧
    (init_branch_prediction a s b p).2.warmup_complete = s.warmup_complete := by
  unfold init_branch_prediction
  simp only
  split_ifs <;> exact ⟨rfl, rfl, rfl, rfl, rfl, rfl, rfl, rfl⟩

theorem init_fast_warmup_fields (P : Params) (a : ooo_model_instr) (w : Nat) :
    (init_fast_warmup P a w).is_branch = a.is_branch ∧
    (init_fast_warmup P a w).branch_taken = a.branch_taken ∧
    (init_fast_warmup P a w).branch_type = a.branch_type ∧
    (init_fast_warmup P a w).branch_target = a.branch_target ∧
    (init_fast_warmup P a w).num_mem_ops = a.num_mem_ops ∧
    (w ≠ 0 → init_fast_warmup P a w = a) := by
  unfold init_fast_warmup
  split_ifs with hw
  · exact ⟨rfl, rfl, rfl, rfl, rfl, fun h => absurd hw h⟩
  · exact ⟨rfl, rfl, rfl, rfl, rfl, fun _ => rfl⟩

theorem init_finish_record (P : Params) (a : ooo_model_instr) (s s' : O3_CPU)
    (b : Nat × Nat) (p n : Nat) (h : init_finish P a s b p = .ok (n, s')) :
    ∃ x : ooo_model_instr, s'.IFETCH_BUFFER.entries = s.IFETCH_BUFFER.entries ++ [x] ∧
      x.is_branch = a.is_branch ∧ x.branch_taken = a.branch_taken ∧
      x.branch_type = a.branch_type ∧ x.branch_target = a.branch_target ∧
      x.num_mem_ops = a.num_mem_ops ∧
      (s.warmup_complete ≠ 0 →
        x.destination_registers = a.destination_registers ∧ x.num_reg_ops = a.num_reg_ops) := by
  unfold init_finish at h
  simp only at h
  obtain ⟨-, hI, -⟩ := init_branch_prediction_same a s b p
  obtain ⟨g1, g2, g3, g4, g5, g6, g7, g8⟩ := init_branch_prediction_fields a s b p
  split at h
  · exact absurd h (by simp)
  rename_i buf hpush
  simp only [Outcome.ok.injEq, Prod.mk.injEq] at h
  obtain ⟨-, rfl⟩ := h
  obtain ⟨q1, -, -⟩ := circular_buffer_push_entries _ _ _ hpush
  rw [hI] at q1
  obtain ⟨w1, w2, w3, w4, w5, w6⟩ := init_fast_warmup_fields P
    { (init_branch_prediction a s b p).1 with
      event_cycle := (init_branch_prediction a s b p).2.current_core_cycle }
    (init_branch_prediction a s b p).2.warmup_complete
  refine ⟨_, q1, w1.trans g1, w2.trans g2, w3.trans g3, w4.trans g4, w5.trans g5, ?_⟩
  intro hw
  rw [w6 (by rw [g8]; exact hw)]
  exact ⟨g6, g7⟩

theorem init_instruction_scan (P : Params) (s s' : O3_CPU) (arch : ooo_model_instr)
    (b : Nat × Nat) (p n : Nat) (hd : distinct_registers P)
    (h : init_instruction P s arch b p = .ok (n, s')) :
    ∃ (a3 : ooo_model_instr) (s3 : O3_CPU),
      init_finish P (init_stack_pointer_folding P
        (init_clear_target (init_classify P a3 (scan_registers P arch)))
        (scan_registers P arch)) s3 b p = .ok (n, s') ∧
      operand_counts { arch with instr_id := (init_fetch_budget P s).instr_unique_id } a3 ∧
      a3.num_reg_ops = arch.num_reg_ops
        + count_set (List.range P.MAX_INSTR_DESTINATIONS) arch.destination_registers
        + count_set (List.range P.NUM_INSTR_SOURCES) arch.source_registers ∧
      a3.num_mem_ops = arch.num_mem_ops
        + count_set (List.range P.MAX_INSTR_DESTINATIONS) arch.destination_memory
        + count_set (List.range P.NUM_INSTR_SOURCES) arch.source_memory ∧
      s3.warmup_complete = s.warmup_complete ∧ s3.IFETCH_BUFFER = s.IFETCH_BUFFER := by
  unfold init_instruction at h
  simp only at h
  split at h
  · exact absurd h (by simp)
  rename_i a1 r1 s2 hdl
  obtain ⟨o1, n1, m1, q1⟩ := init_destinations_scan P hd _ _ _ _ _ _ _ hdl
  obtain ⟨o2, n2, m2, q2⟩ := init_sources_scan P hd (List.range P.NUM_INSTR_SOURCES) a1 r1
  have d5 := init_destinations_warmup P _ _ _ _ _ _ _ hdl
  obtain ⟨-, hs2⟩ := init_destinations_same P _ _ _ _ _ _ _ hdl
  obtain ⟨hI, -⟩ := same_buffers_trans _ _ _ (init_fetch_budget_same P s) hs2
  obtain ⟨-, e2, -, e4, -⟩ := operand_counts_fields _ _ o1
  have hscan : (init_sources P (List.range P.NUM_INSTR_SOURCES) a1 r1).2
      = scan_registers P arch := by
    rw [q2, q1, e2]
    simp only [scan_registers, writes_reg, reads_reg, reads_other_reg, Bool.false_or]
  rw [hscan] at h
  refine ⟨_, _, h, operand_counts_trans _ _ _ o1 o2, ?_, ?_, ?_, hI⟩
  · rw [n2, n1, e2]
  · rw [m2, m1, e4]
  · exact d5.trans (init_fetch_budget_warmup P s)

theorem classify_branch_spec (P : Params) (a : ooo_model_instr) (r : RegScan) :
    (classify_branch P a r).num_mem_ops = a.num_mem_ops ∧
    (classify_branch P a r).num_reg_ops = a.num_reg_ops ∧
    (classify_branch P a r).destination_registers = a.destination_registers ∧
    (classify_branch P a r).branch_target = a.branch_target ∧
    (r.writes_ip = true → (classify_branch P a r).is_branch = 1 ∧
      (∀ a0, (classify_branch P a r).branch_type = (classify_branch P a0 r).branch_type) ∧
      (classify_branch P a r).branch_type ∈ [P.BRANCH_DIRECT_JUMP, P.BRANCH_INDIRECT,
        P.BRANCH_CONDITIONAL, P.BRANCH_DIRECT_CALL, P.BRANCH_INDIRECT_CALL, P.BRANCH_RETURN,
        P.BRANCH_OTHER]) ∧
    (r.writes_ip = false → classify_branch P a r = a) := by
  rcases r with ⟨rs, ws, rf, ri, wi, ro⟩
  cases rs <;> cases ws <;> cases rf <;> cases ri <;> cases wi <;> cases ro <;>
    simp [classify_branch]

theorem init_classify_spec (P : Params) (a : ooo_model_instr) (r : RegScan) :
    (init_classify P a r).num_mem_ops = a.num_mem_ops ∧
    (init_classify P a r).num_reg_ops = a.num_reg_ops ∧
    (init_classify P a r).destination_registers = a.destination_registers ∧
    (init_classify P a r).branch_target = a.branch_target ∧
    (r.writes_ip = true → (init_classify P a r).is_branch = 1 ∧
      (∀ a0, (init_classify P a r).branch_type = (classify_branch P a0 r).branch_type) ∧
      (init_classify P a r).branch_type ∈ [P.BRANCH_DIRECT_JUMP, P.BRANCH_INDIRECT,
        P.BRANCH_CONDITIONAL, P.BRANCH_DIRECT_CALL, P.BRANCH_INDIRECT_CALL, P.BRANCH_RETURN,
        P.BRANCH_OTHER]) ∧
    (r.writes_ip = false → (init_classify P a r).is_branch = a.is_branch ∧
      (init_classify P a r).branch_type = a.branch_type ∧
      (init_classify P a r).branch_taken = a.branch_taken) := by
  unfold init_classify
  obtain ⟨c1, c2, c3, c4, c5, c6⟩ := classify_branch_spec P
    (if a.num_mem_ops > 0 then { a with is_memory := 1 } else a) r
  refine ⟨?_, ?_, ?_, ?_, ?_, ?_⟩
  · rw [c1]; split_ifs <;> rfl
  · rw [c2]; split_ifs <;> rfl
  · rw [c3]; split_ifs <;> rfl
  · rw [c4]; split_ifs <;> rfl
  · exact c5
  · intro hw
    rw [c6 hw]
    split_ifs <;> exact ⟨rfl, rfl, rfl⟩

theorem init_clear_target_spec (a : ooo_model_instr) :
    (init_clear_target a).num_mem_ops = a.num_mem_ops ∧
    (init_clear_target a).num_reg_ops = a.num_reg_ops ∧
    (init_clear_target a).destination_registers = a.destination_registers ∧
    (init_clear_target a).is_branch = a.is_branch ∧
    (init_clear_target a).branch_taken = a.branch_taken ∧
    (init_clear_target a).branch_type = a.branch_type ∧
    ((a.is_branch ≠ 1 ∨ a.branch_taken ≠ 1) → (init_clear_target a).branch_target = 0) := by
  unfold init_clear_target
  split_ifs with hc
  · exact ⟨rfl, rfl, rfl, rfl, rfl, rfl, fun _ => rfl⟩
  · exact ⟨rfl, rfl, rfl, rfl, rfl, rfl, fun h => absurd h hc⟩

theorem init_stack_pointer_folding_spec (P : Params) (a : ooo_model_instr) (r : RegScan) :
    (init_stack_pointer_folding P a r).num_mem_ops = a.num_mem_ops ∧
    (init_stack_pointer_folding P a r).is_branch = a.is_branch ∧
    (init_stack_pointer_folding P a r).branch_taken = a.branch_taken ∧
    (init_stack_pointer_folding P a r).branch_type = a.branch_type ∧
    (init_stack_pointer_folding P a r).branch_target = a.branch_target := by
  unfold init_stack_pointer_folding
  split_ifs
  · obtain ⟨k1, -⟩ := fold_stack_pointer_spec P (List.range P.MAX_INSTR_DESTINATIONS) a
      (List.nodup_range _)
    rw [k1]
    exact ⟨rfl, rfl, rfl, rfl, rfl⟩
  · exact ⟨rfl, rfl, rfl, rfl, rfl⟩

/-! ## Theorems: the register scan of `init_instruction` (C32, C39) -/

/-- C32: stack-pointer folding. The register constants are pairwise different and
non-zero, warmup is complete, and the stack pointer is among the first
`MAX_INSTR_DESTINATIONS` destination registers of the instruction. A returning
`init_instruction` pushes one record `x`, whose `num_mem_ops` is the input value plus the
number of non-zero memory operands. If `x` is a branch, or has a memory operand, or no
source register is other than the stack pointer, the flags and the instruction pointer,
then every destination register below `MAX_INSTR_DESTINATIONS` that was the stack
pointer is 0 in `x`, the other destination registers are as they were, no destination
register below `MAX_INSTR_DESTINATIONS` is the stack pointer, and `num_reg_ops` is the
count of non-zero register operands minus the number of registers cleared. Otherwise the
destination registers are unchanged and `num_reg_ops` counts all non-zero register
operands. -/
theorem init_instruction_folds_stack_pointer (P : Params) (s s' : O3_CPU)
    (arch : ooo_model_instr) (btb_result : Nat × Nat) (branch_prediction n : Nat)
    (hd : distinct_registers P) (hw : s.warmup_complete ≠ 0)
    (hsp : writes_reg P arch P.REG_STACK_POINTER = true)
    (h : init_instruction P s arch btb_result branch_prediction = .ok (n, s')) :
    ∃ x : ooo_model_instr, s'.IFETCH_BUFFER.entries = s.IFETCH_BUFFER.entries ++ [x] ∧
      x.num_mem_ops = arch.num_mem_ops
        + count_set (List.range P.MAX_INSTR_DESTINATIONS) arch.destination_memory
        + count_set (List.range P.NUM_INSTR_SOURCES) arch.source_memory ∧
      ((x.is_branch ≠ 0 ∨ x.num_mem_ops > 0 ∨ reads_other_reg P arch = false) →
        x.destination_registers.length = arch.destination_registers.length ∧
        (∀ i, x.destination_registers.getD i 0
          = if i < P.MAX_INSTR_DESTINATIONS
              ∧ arch.destination_registers.getD i 0 = P.REG_STACK_POINTER then 0
            else arch.destination_registers.getD i 0) ∧
        (∀ i, i < P.MAX_INSTR_DESTINATIONS →
          x.destination_registers.getD i 0 ≠ P.REG_STACK_POINTER) ∧
        x.num_reg_ops = arch.num_reg_ops
          + count_set (List.range P.MAX_INSTR_DESTINATIONS) arch.destination_registers
          + count_set (List.range P.NUM_INSTR_SOURCES) arch.source_registers
          - count_sp P arch) ∧
      (x.is_branch = 0 → x.num_mem_ops = 0 → reads_other_reg P arch = true →
        x.destination_registers = arch.destination_registers ∧
        x.num_reg_ops = arch.num_reg_ops
          + count_set (List.range P.MAX_INSTR_DESTINATIONS) arch.destination_registers
          + count_set (List.range P.NUM_INSTR_SOURCES) arch.source_registers) := by
  obtain ⟨a3, s3, hf, o3, n3, m3, w3, i3⟩ :=
    init_instruction_scan P s s' arch btb_result branch_prediction n hd h
  obtain ⟨x, x1, x2, -, -, -, x6, x7⟩ :=
    init_finish_record P _ s3 s' btb_result branch_prediction n hf
  have y1 := x7 (by rw [w3]; exact hw)
  have y2 := x2
  have y3 := x6
  have y4 := hd.1
  obtain ⟨f1, f2, -⟩ := init_stack_pointer_folding_spec P
    (init_clear_target (init_classify P a3 (scan_registers P arch))) (scan_registers P arch)
  obtain ⟨t1, t2, t3, t4, -⟩ := init_clear_target_spec
    (init_classify P a3 (scan_registers P arch))
  obtain ⟨c1, c2, c3, -⟩ := init_classify_spec P a3 (scan_registers P arch)
  obtain ⟨e1, -⟩ := operand_counts_fields _ _ o3
  have hdest : (init_clear_target (init_classify P a3 (scan_registers P arch))).destination_registers
      = arch.destination_registers := by rw [t3, c3, e1]
  have hnro : (init_clear_target (init_classify P a3 (scan_registers P arch))).num_reg_ops
      = a3.num_reg_ops := by rw [t2, c2]
  have hmem : x.num_mem_ops = a3.num_mem_ops := by rw [y3, f1, t1, c1]
  have hbr : x.is_branch
      = (init_clear_target (init_classify P a3 (scan_registers P arch))).is_branch := by
    rw [y2, f2]
  have hmem5 : x.num_mem_ops
      = (init_clear_target (init_classify P a3 (scan_registers P arch))).num_mem_ops := by
    rw [y3, f1]
  refine ⟨x, by rw [x1, i3], by rw [hmem, m3], ?_, ?_⟩
  · intro hc
    have hfold : init_stack_pointer_folding P
        (init_clear_target (init_classify P a3 (scan_registers P arch)))
        (scan_registers P arch)
        = fold_stack_pointer P (List.range P.MAX_INSTR_DESTINATIONS)
          (init_clear_target (init_classify P a3 (scan_registers P arch))) := by
      unfold init_stack_pointer_folding
      rw [if_pos]
      refine ⟨hsp, ?_⟩
      rw [← hbr, ← hmem5]
      exact hc
    obtain ⟨-, k2, k3, k4⟩ := fold_stack_pointer_spec P (List.range P.MAX_INSTR_DESTINATIONS)
      (init_clear_target (init_classify P a3 (scan_registers P arch))) (List.nodup_range _)
    rw [hfold] at y1
    have hget : ∀ i, x.destination_registers.getD i 0
        = if i < P.MAX_INSTR_DESTINATIONS
            ∧ arch.destination_registers.getD i 0 = P.REG_STACK_POINTER then 0
          else arch.destination_registers.getD i 0 := by
      intro i
      rw [y1.1, k3 i, hdest]
      simp only [List.mem_range]
    refine ⟨by rw [y1.1, k2, hdest], hget, ?_, ?_⟩
    · intro i hi
      rw [hget i]
      split_ifs with hq
      · exact fun e => y4 e.symm
      · exact fun e => hq ⟨hi, e⟩
    · rw [y1.2, k4, hnro, n3, hdest]
      rfl
  · intro hb hm hr
    have hkeep : init_stack_pointer_folding P
        (init_clear_target (init_classify P a3 (scan_registers P arch)))
        (scan_registers P arch)
        = init_clear_target (init_classify P a3 (scan_registers P arch)) := by
      unfold init_stack_pointer_folding
      rw [if_neg]
      rintro ⟨-, hc | hc | hc⟩
      · exact hc (by rw [← hbr]; exact hb)
      · rw [← hmem5, hm] at hc
        exact absurd hc (by decide)
      · have hr2 : (scan_registers P arch).reads_other = true := hr
        rw [hr2] at hc
        exact absurd hc (by decide)
    rw [hkeep] at y1
    exact ⟨by rw [y1.1, hdest], by rw [y1.2, hnro, n3]⟩

theorem init_instruction_folds_stack_pointer_witness :
    distinct_registers sample_params ∧ core_warm.warmup_complete ≠ 0 ∧
    writes_reg sample_params push_A sample_params.REG_STACK_POINTER = true ∧
    init_instruction sample_params core_warm push_A (0, 0) 0 = .ok (3, push_read) ∧
    ∃ x : ooo_model_instr,
      push_read.IFETCH_BUFFER.entries = core_warm.IFETCH_BUFFER.entries ++ [x] ∧
      x.num_mem_ops = push_A.num_mem_ops
        + count_set (List.range sample_params.MAX_INSTR_DESTINATIONS) push_A.destination_memory
        + count_set (List.range sample_params.NUM_INSTR_SOURCES) push_A.source_memory ∧
      ((x.is_branch ≠ 0 ∨ x.num_mem_ops > 0 ∨ reads_other_reg sample_params push_A = false) →
        x.destination_registers.length = push_A.destination_registers.length ∧
        (∀ i, x.destination_registers.getD i 0
          = if i < sample_params.MAX_INSTR_DESTINATIONS
              ∧ push_A.destination_registers.getD i 0 = sample_params.REG_STACK_POINTER then 0
            else push_A.destination_registers.getD i 0) ∧
        (∀ i, i < sample_params.MAX_INSTR_DESTINATIONS →
          x.destination_registers.getD i 0 ≠ sample_params.REG_STACK_POINTER) ∧
        x.num_reg_ops = push_A.num_reg_ops
          + count_set (List.range sample_params.MAX_INSTR_DESTINATIONS)
              push_A.destination_registers
          + count_set (List.range sample_params.NUM_INSTR_SOURCES) push_A.source_registers
          - count_sp sample_params push_A) ∧
      (x.is_branch = 0 → x.num_mem_ops = 0 → reads_other_reg sample_params push_A = true →
        x.destination_registers = push_A.destination_registers ∧
        x.num_reg_ops = push_A.num_reg_ops
          + count_set (List.range sample_params.MAX_INSTR_DESTINATIONS)
              push_A.destination_registers
          + count_set (List.range sample_params.NUM_INSTR_SOURCES)
              push_A.source_registers) :=
  ⟨by unfold distinct_registers; decide, by decide, by decide, by decide,
    init_instruction_folds_stack_pointer sample_params core_warm push_read push_A (0, 0) 0 3
      (by unfold distinct_registers; decide) (by decide) (by decide) (by decide)⟩

/-- C39: branch classification. The register constants are pairwise different and
non-zero. A returning `init_instruction` pushes one record `x`. If the instruction
pointer is among the first `MAX_INSTR_DESTINATIONS` destination registers, `is_branch`
of `x` is 1 and its `branch_type` is one of the seven branch types, the one that
`classify_branch` computes from the scan of the registers alone, whatever the record.
If it is not, `is_branch`, `branch_type` and `branch_taken` of `x` are the input values.
In both cases a record with `is_branch != 1` or `branch_taken != 1` has
`branch_target == 0`. -/
theorem init_instruction_classifies_branch (P : Params) (s s' : O3_CPU)
    (arch : ooo_model_instr) (btb_result : Nat × Nat) (branch_prediction n : Nat)
    (hd : distinct_registers P)
    (h : init_instruction P s arch btb_result branch_prediction = .ok (n, s')) :
    ∃ x : ooo_model_instr, s'.IFETCH_BUFFER.entries = s.IFETCH_BUFFER.entries ++ [x] ∧
      (writes_reg P arch P.REG_INSTRUCTION_POINTER = true →
        x.is_branch = 1 ∧
        (∀ a0, x.branch_type = (classify_branch P a0 (scan_registers P arch)).branch_type) ∧
        x.branch_type ∈ [P.BRANCH_DIRECT_JUMP, P.BRANCH_INDIRECT, P.BRANCH_CONDITIONAL,
          P.BRANCH_DIRECT_CALL, P.BRANCH_INDIRECT_CALL, P.BRANCH_RETURN, P.BRANCH_OTHER]) ∧
      (writes_reg P arch P.REG_INSTRUCTION_POINTER = false →
        x.is_branch = arch.is_branch ∧ x.branch_type = arch.branch_type ∧
        x.branch_taken = arch.branch_taken) ∧
      ((x.is_branch ≠ 1 ∨ x.branch_taken ≠ 1) → x.branch_target = 0) := by
  obtain ⟨a3, s3, hf, o3, -, -, -, i3⟩ :=
    init_instruction_scan P s s' arch btb_result branch_prediction n hd h
  obtain ⟨x, x1, x2, x3, x4, x5, -, -⟩ :=
    init_finish_record P _ s3 s' btb_result branch_prediction n hf
  obtain ⟨-, f2, f3, f4, f5⟩ := init_stack_pointer_folding_spec P
    (init_clear_target (init_classify P a3 (scan_registers P arch))) (scan_registers P arch)
  obtain ⟨-, -, -, t4, t5, t6, t7⟩ := init_clear_target_spec
    (init_classify P a3 (scan_registers P arch))
  obtain ⟨-, -, -, -, c5, c6⟩ := init_classify_spec P a3 (scan_registers P arch)
  obtain ⟨-, -, -, -, e5, e6, e7, -⟩ := operand_counts_fields _ _ o3
  have hbr : x.is_branch = (init_classify P a3 (scan_registers P arch)).is_branch := by
    rw [x2, f2, t4]
  have hty : x.branch_type = (init_classify P a3 (scan_registers P arch)).branch_type := by
    rw [x4, f4, t6]
  have htk : x.branch_taken = (init_classify P a3 (scan_registers P arch)).branch_taken := by
    rw [x3, f3, t5]
  refine ⟨x, by rw [x1, i3], ?_, ?_, ?_⟩
  · intro hip
    obtain ⟨g1, g2, g3⟩ := c5 hip
    exact ⟨hbr.trans g1, fun a0 => hty.trans (g2 a0), by rw [hty]; exact g3⟩
  · intro hip
    obtain ⟨g1, g2, g3⟩ := c6 hip
    exact ⟨hbr.trans (g1.trans e5), hty.trans (g2.trans e7), htk.trans (g3.trans e6)⟩
  · intro hc
    rw [x5, f5]
    apply t7
    rw [← t4, ← t5, ← f2, ← f3, ← x2, ← x3]
    exact hc

theorem init_instruction_classifies_branch_witness :
    distinct_registers sample_params ∧
    init_instruction sample_params core_warm branch_C (0, 0) 0 = .ok (0, branch_warm_read) ∧
    ∃ x : ooo_model_instr,
      branch_warm_read.IFETCH_BUFFER.entries = core_warm.IFETCH_BUFFER.entries ++ [x] ∧
      (writes_reg sample_params branch_C sample_params.REG_INSTRUCTION_POINTER = true →
        x.is_branch = 1 ∧
        (∀ a0, x.branch_type
          = (classify_branch sample_params a0 (scan_registers sample_params branch_C)).branch_type) ∧
        x.branch_type ∈ [sample_params.BRANCH_DIRECT_JUMP, sample_params.BRANCH_INDIRECT,
          sample_params.BRANCH_CONDITIONAL, sample_params.BRANCH_DIRECT_CALL,
          sample_params.BRANCH_INDIRECT_CALL, sample_params.BRANCH_RETURN,
          sample_params.BRANCH_OTHER]) ∧
      (writes_reg sample_params branch_C sample_params.REG_INSTRUCTION_POINTER = false →
        x.is_branch = branch_C.is_branch ∧ x.branch_type = branch_C.branch_type ∧
        x.branch_taken = branch_C.branch_taken) ∧
      ((x.is_branch ≠ 1 ∨ x.branch_taken ≠ 1) → x.branch_target = 0) :=
  ⟨by unfold distinct_registers; decide, by decide,
    init_instruction_classifies_branch sample_params core_warm branch_warm_read branch_C
      (0, 0) 0 0 (by unfold distinct_registers; decide) (by decide)⟩

/-! ## Lemmas: the decoded-instruction buffer -/

theorem holds_window_iff_tags (shamt ip : Nat) (dib_set : List dib_entry_t) :
    holds_window shamt ip dib_set ↔ tags_hold shamt ip (dib_tags dib_set) := by
  unfold holds_window tags_hold dib_tags
  constructor
  · rintro ⟨w, hw, h1, h2⟩
    exact ⟨(w.valid, w.address), List.mem_map.mpr ⟨w, hw, rfl⟩, h1, h2⟩
  · rintro ⟨t, ht, h1, h2⟩
    obtain ⟨w, hw, rfl⟩ := List.mem_map.mp ht
    exact ⟨w, hw, h1, h2⟩

theorem tags_hold_window (shamt ip ip' : Nat) (tags : List (Bool × Nat))
    (h : ip >>> shamt = ip' >>> shamt) : tags_hold shamt ip tags ↔ tags_hold shamt ip' tags := by
  unfold tags_hold
  rw [h]

theorem dib_find_none_iff (shamt ip : Nat) (dib_set : List dib_entry_t) :
    dib_find shamt ip dib_set = none ↔ ¬holds_window shamt ip dib_set := by
  unfold dib_find holds_window
  simp only
  split_ifs with h
  · rw [List.findIdx_lt_length] at h
    obtain ⟨w, hw, hp⟩ := h
    simp only [Bool.and_eq_true, beq_iff_eq] at hp
    constructor
    · intro hc
      exact absurd hc (by simp)
    · intro hc
      exact absurd ⟨w, hw, hp⟩ hc
  · rw [List.findIdx_lt_length] at h
    constructor
    · rintro - ⟨w, hw, h1, h2⟩
      exact h ⟨w, hw, by simp only [Bool.and_eq_true, beq_iff_eq]; exact ⟨h1, h2⟩⟩
    · intro _
      rfl

theorem dib_find_some (shamt ip way : Nat) (dib_set : List dib_entry_t)
    (h : dib_find shamt ip dib_set = some way) : holds_window shamt ip dib_set := by
  by_contra hc
  rw [(dib_find_none_iff shamt ip dib_set).mpr hc] at h
  exact absurd h (by simp)

theorem dib_tags_promote (val : Nat) (dib_set : List dib_entry_t) :
    dib_tags (dib_promote val dib_set) = dib_tags dib_set := by
  unfold dib_tags dib_promote
  rw [List.map_map]
  apply List.map_congr_left
  intro w _
  simp only [Function.comp]
  split_ifs <;> rfl

theorem set_get_self {α : Type} (l : List α) (i : Nat) (a : α) (h : l.get? i = some a) :
    l.set i a = l := by
  apply List.ext_getElem?
  intro j
  rw [List.getElem?_set]
  rw [List.get?_eq_getElem?] at h
  split_ifs with h1 h2
  · subst h1
    exact h.symm
  · subst h1
    rw [List.getElem?_eq_none (by omega)]
  · rfl

theorem dib_map_set_same (dib : List (List dib_entry_t)) (idx : Nat)
    (dib_set new_set : List dib_entry_t) (h : dib.get? idx = some dib_set)
    (ht : dib_tags new_set = dib_tags dib_set) :
    (dib.set idx new_set).map dib_tags = dib.map dib_tags := by
  rw [List.map_set, ht]
  apply set_get_self
  rw [List.get?_eq_getElem?, List.getElem?_map, ← List.get?_eq_getElem?, h]
  rfl

theorem foldl_max_ge (l : List Nat) :
    ∀ init : Nat, init ≤ l.foldl max init ∧ ∀ x ∈ l, x ≤ l.foldl max init := by
  induction l with
  | nil => intro init; exact ⟨le_refl _, fun x hx => absurd hx (List.not_mem_nil x)⟩
  | cons a rest ih =>
    intro init
    obtain ⟨h1, h2⟩ := ih (max init a)
    rw [List.foldl_cons]
    refine ⟨le_trans (le_max_left _ _) h1, ?_⟩
    intro x hx
    rcases List.mem_cons.mp hx with rfl | hx
    · exact le_trans (le_max_right _ _) h1
    · exact h2 x hx

theorem foldl_max_mem (l : List Nat) :
    ∀ init : Nat, l.foldl max init = init ∨ l.foldl max init ∈ l := by
  induction l with
  | nil => intro init; exact Or.inl rfl
  | cons a rest ih =>
    intro init
    rw [List.foldl_cons]
    rcases ih (max init a) with h | h
    · rw [h]
      rcases max_choice init a with hm | hm
      · exact Or.inl hm
      · exact Or.inr (by rw [hm]; exact List.mem_cons_self _ _)
    · exact Or.inr (List.mem_cons_of_mem _ h)

theorem dib_victim_spec (dib_set : List dib_entry_t) (hne : dib_set ≠ []) :
    dib_victim dib_set < dib_set.length ∧
    ∀ w ∈ dib_set, w.lru ≤ (dib_set.getD (dib_victim dib_set) {}).lru := by
  have hge := (foldl_max_ge (dib_set.map fun w => w.lru) 0).2
  have hmem : (dib_set.map fun w => w.lru).foldl max 0 ∈ dib_set.map fun w => w.lru := by
    rcases foldl_max_mem (dib_set.map fun w => w.lru) 0 with h | h
    · obtain ⟨w0, rest, rfl⟩ := List.exists_cons_of_ne_nil hne
      have h0 := hge w0.lru (by simp)
      rw [h] at h0 ⊢
      have : w0.lru = 0 := Nat.le_zero.mp h0
      simp only [List.map_cons, List.mem_cons]
      exact Or.inl this.symm
    · exact h
  obtain ⟨w1, hw1, e1⟩ := List.mem_map.mp hmem
  have hlt : dib_victim dib_set < dib_set.length := by
    unfold dib_victim
    simp only
    rw [List.findIdx_lt_length]
    exact ⟨w1, hw1, by simp only [beq_iff_eq]; exact e1⟩
  refine ⟨hlt, ?_⟩
  intro w hw
  rw [List.getD_eq_getElem _ _ hlt]
  have hp : (dib_set[dib_victim dib_set].lru == (dib_set.map fun w => w.lru).foldl max 0) = true := by
    have := @List.findIdx_getElem _
      (fun w : dib_entry_t => w.lru == (dib_set.map fun w => w.lru).foldl max 0) dib_set hlt
    exact this
  rw [beq_iff_eq] at hp
  rw [hp]
  exact hge w.lru (List.mem_map.mpr ⟨w, hw, rfl⟩)

theorem do_check_dib_spec (P : Params) (s : O3_CPU) (pos : Nat) (instr : ooo_model_instr)
    (dib_set : List dib_entry_t) (hpos : s.IFETCH_BUFFER.entries.get? pos = some instr)
    (hset : s.DIB.get? (dib_index P instr.ip) = some dib_set) :
    (holds_window P.LOG2_DIB_WINDOW_SIZE instr.ip dib_set →
      ∃ s', do_check_dib P s pos = .ok s' ∧
        s'.IFETCH_BUFFER.entries
          = s.IFETCH_BUFFER.entries.set pos (dib_hit_record instr s.current_core_cycle) ∧
        s'.DIB.map dib_tags = s.DIB.map dib_tags) ∧
    (¬holds_window P.LOG2_DIB_WINDOW_SIZE instr.ip dib_set → do_check_dib P s pos = .ok s) := by
  unfold dib_index at hset
  unfold do_check_dib
  rw [hpos]
  simp only
  rw [hset]
  simp only
  cases hf : dib_find P.LOG2_DIB_WINDOW_SIZE instr.ip dib_set with
  | none =>
    have hn := (dib_find_none_iff _ _ _).mp hf
    exact ⟨fun hh => absurd hh hn, fun _ => rfl⟩
  | some way =>
    have hh := dib_find_some _ _ _ _ hf
    refine ⟨fun _ => ⟨_, rfl, rfl, ?_⟩, fun hn => absurd hh hn⟩
    exact dib_map_set_same _ _ _ _ hset (dib_tags_promote _ _)

theorem do_check_dib_tags (P : Params) (s s' : O3_CPU) (pos : Nat)
    (h : do_check_dib P s pos = .ok s') : s'.DIB.map dib_tags = s.DIB.map dib_tags := by
  unfold do_check_dib at h
  cases hpos : s.IFETCH_BUFFER.entries.get? pos with
  | none => rw [hpos] at h; exact absurd h (by simp)
  | some instr =>
    rw [hpos] at h
    simp only at h
    cases hset : s.DIB.get? ((instr.ip >>> P.LOG2_DIB_WINDOW_SIZE) % P.DIB_SET) with
    | none => rw [hset] at h; exact absurd h (by simp)
    | some dib_set =>
      rw [hset] at h
      simp only at h
      cases hf : dib_find P.LOG2_DIB_WINDOW_SIZE instr.ip dib_set with
      | none =>
        rw [hf] at h
        simp only [Outcome.ok.injEq] at h
        rw [← h]
      | some way =>
        rw [hf] at h
        simp only [Outcome.ok.injEq] at h
        rw [← h]
        exact dib_map_set_same _ _ _ _ hset (dib_tags_promote _ _)

theorem do_dib_update_spec (P : Params) (s s' : O3_CPU) (k : ooo_model_instr)
    (h : do_dib_update P s k = .ok s') :
    ∃ dib_set, s.DIB.get? (dib_index P k.ip) = some dib_set ∧
      ((holds_window P.LOG2_DIB_WINDOW_SIZE k.ip dib_set ∧
          s'.DIB.map dib_tags = s.DIB.map dib_tags) ∨
       (¬holds_window P.LOG2_DIB_WINDOW_SIZE k.ip dib_set ∧ dib_set ≠ [] ∧
          s'.DIB.map dib_tags = (s.DIB.map dib_tags).set (dib_index P k.ip)
            ((dib_tags dib_set).set (dib_victim dib_set) (true, k.ip)))) := by
  unfold do_dib_update at h
  unfold dib_index
  simp only at h
  cases hset : s.DIB.get? ((k.ip >>> P.LOG2_DIB_WINDOW_SIZE) % P.DIB_SET) with
  | none => rw [hset] at h; exact absurd h (by simp)
  | some dib_set =>
    rw [hset] at h
    simp only at h
    refine ⟨dib_set, rfl, ?_⟩
    cases hf : dib_find P.LOG2_DIB_WINDOW_SIZE k.ip dib_set with
    | none =>
      rw [hf] at h
      simp only at h
      split_ifs at h with hne
      simp only [Outcome.ok.injEq] at h
      rw [← h]
      refine Or.inr ⟨(dib_find_none_iff _ _ _).mp hf, hne, ?_⟩
      simp only [List.map_set, dib_tags_promote]
      congr 1
      unfold dib_tags
      rw [List.map_set]
    | some way =>
      rw [hf] at h
      simp only [Outcome.ok.injEq] at h
      rw [← h]
      exact Or.inl ⟨dib_find_some _ _ _ _ hf,
        dib_map_set_same _ _ _ _ hset (dib_tags_promote _ _)⟩

theorem window_cached_iff (P : Params) (s : O3_CPU) (ip : Nat) :
    window_cached P s ip ↔ ∃ tags, (s.DIB.map dib_tags).get? (dib_index P ip) = some tags ∧
      tags_hold P.LOG2_DIB_WINDOW_SIZE ip tags := by
  unfold window_cached
  simp only [List.get?_eq_getElem?, List.getElem?_map]
  constructor
  · rintro ⟨dib_set, h1, h2⟩
    exact ⟨dib_tags dib_set, by rw [h1]; rfl, (holds_window_iff_tags _ _ _).mp h2⟩
  · rintro ⟨tags, h1, h2⟩
    cases hg : s.DIB[dib_index P ip]? with
    | none => rw [hg] at h1; exact absurd h1 (by simp)
    | some dib_set =>
      rw [hg] at h1
      simp only [Option.map_some', Option.some.injEq] at h1
      exact ⟨dib_set, rfl, (holds_window_iff_tags _ _ _).mpr (by rw [h1]; exact h2)⟩

theorem window_cached_congr (P : Params) (s s' : O3_CPU) (ip : Nat)
    (h : s'.DIB.map dib_tags = s.DIB.map dib_tags) :
    window_cached P s' ip ↔ window_cached P s ip := by
  rw [window_cached_iff, window_cached_iff, h]

theorem tags_hold_set (shamt ip a v : Nat) (tags : List (Bool × Nat)) (hv : v < tags.length) :
    tags_hold shamt ip (tags.set v (true, a)) ↔
      (a >>> shamt = ip >>> shamt ∨
        ∃ way t, way ≠ v ∧ tags.get? way = some t ∧ t.1 = true ∧ t.2 >>> shamt = ip >>> shamt) := by
  unfold tags_hold
  simp only [List.mem_iff_getElem?, List.getElem?_set, List.get?_eq_getElem?]
  constructor
  · rintro ⟨t, ⟨n, hn⟩, h1, h2⟩
    by_cases hvn : v = n
    · rw [if_pos hvn, if_pos hv] at hn
      simp only [Option.some.injEq] at hn
      subst hn
      exact Or.inl h2
    · rw [if_neg hvn] at hn
      exact Or.inr ⟨n, t, fun e => hvn e.symm, hn, h1, h2⟩
  · rintro (h | ⟨way, t, hne, hg, h1, h2⟩)
    · exact ⟨(true, a), ⟨v, by rw [if_pos rfl, if_pos hv]⟩, rfl, h⟩
    · exact ⟨t, ⟨way, by rw [if_neg (fun e => hne e.symm)]; exact hg⟩, h1, h2⟩

theorem kept_by_victim_tags (shamt ip : Nat) (dib_set : List dib_entry_t) :
    kept_by_victim shamt ip dib_set ↔
      ∃ way t, way ≠ dib_victim dib_set ∧ (dib_tags dib_set).get? way = some t ∧ t.1 = true ∧
        t.2 >>> shamt = ip >>> shamt := by
  unfold kept_by_victim dib_tags
  simp only [List.get?_eq_getElem?, List.getElem?_map]
  constructor
  · rintro ⟨way, w, h1, h2, h3, h4⟩
    exact ⟨way, (w.valid, w.address), h1, by rw [h2]; rfl, h3, h4⟩
  · rintro ⟨way, t, h1, h2, h3, h4⟩
    cases hg : dib_set[way]? with
    | none => rw [hg] at h2; exact absurd h2 (by simp)
    | some w =>
      rw [hg] at h2
      simp only [Option.map_some', Option.some.injEq] at h2
      subst h2
      exact ⟨way, w, h1, hg, h3, h4⟩

theorem dib_index_window (P : Params) (ip ip' : Nat)
    (h : ip >>> P.LOG2_DIB_WINDOW_SIZE = ip' >>> P.LOG2_DIB_WINDOW_SIZE) :
    dib_index P ip = dib_index P ip' := by
  unfold dib_index
  rw [h]

theorem window_cached_window (P : Params) (s : O3_CPU) (ip ip' : Nat)
    (h : ip >>> P.LOG2_DIB_WINDOW_SIZE = ip' >>> P.LOG2_DIB_WINDOW_SIZE) :
    window_cached P s ip ↔ window_cached P s ip' := by
  unfold window_cached holds_window
  rw [dib_index_window P ip ip' h, h]

theorem get_set_self {α : Type} (l : List α) (i : Nat) (a b : α) (h : l.get? i = some a) :
    (l.set i b).get? i = some b := by
  rw [List.get?_eq_getElem?] at h ⊢
  obtain ⟨hi, -⟩ := List.getElem?_eq_some.mp h
  rw [List.getElem?_set, if_pos rfl, if_pos hi]

theorem get_set_other {α : Type} (l : List α) (i j : Nat) (b : α) (h : i ≠ j) :
    (l.set i b).get? j = l.get? j := by
  rw [List.get?_eq_getElem?, List.get?_eq_getElem?, List.getElem?_set, if_neg h]

theorem dib_tags_length (dib_set : List dib_entry_t) :
    (dib_tags dib_set).length = dib_set.length := by
  unfold dib_tags
  exact List.length_map _ _

theorem dib_tags_get (dib : List (List dib_entry_t)) (idx : Nat) (dib_set : List dib_entry_t)
    (h : dib.get? idx = some dib_set) :
    (dib.map dib_tags).get? idx = some (dib_tags dib_set) := by
  rw [List.get?_eq_getElem?] at h ⊢
  rw [List.getElem?_map, h]
  rfl

theorem do_dib_update_caches (P : Params) (s s' : O3_CPU) (k : ooo_model_instr) (ip : Nat)
    (h : do_dib_update P s k = .ok s')
    (hwin : ip >>> P.LOG2_DIB_WINDOW_SIZE = k.ip >>> P.LOG2_DIB_WINDOW_SIZE) :
    window_cached P s' ip := by
  rw [window_cached_window P s' ip k.ip hwin]
  obtain ⟨dib_set, hset, hc | hc⟩ := do_dib_update_spec P s s' k h
  · obtain ⟨hh, ht⟩ := hc
    rw [window_cached_congr P s s' k.ip ht]
    exact ⟨dib_set, hset, hh⟩
  · obtain ⟨-, hne, ht⟩ := hc
    rw [window_cached_iff, ht]
    refine ⟨_, get_set_self _ _ _ _ (dib_tags_get _ _ _ hset), ?_⟩
    rw [tags_hold_set _ _ _ _ _ (by rw [dib_tags_length]; exact (dib_victim_spec _ hne).1)]
    exact Or.inl rfl

theorem do_dib_update_keeps (P : Params) (s s' : O3_CPU) (k : ooo_model_instr) (ip : Nat)
    (h : do_dib_update P s k = .ok s') (hc : window_cached P s ip)
    (hk : window_cached P s k.ip ∨ dib_index P k.ip ≠ dib_index P ip ∨
      k.ip >>> P.LOG2_DIB_WINDOW_SIZE = ip >>> P.LOG2_DIB_WINDOW_SIZE ∨
      ∃ dib_set, s.DIB.get? (dib_index P ip) = some dib_set ∧
        kept_by_victim P.LOG2_DIB_WINDOW_SIZE ip dib_set) :
    window_cached P s' ip := by
  obtain ⟨dib_set, hset, hs | hs⟩ := do_dib_update_spec P s s' k h
  · rw [window_cached_congr P s s' ip hs.2]
    exact hc
  · obtain ⟨hmiss, hne, ht⟩ := hs
    have hother : dib_index P k.ip ≠ dib_index P ip → window_cached P s' ip := by
      intro hi
      rw [window_cached_iff] at hc ⊢
      rw [ht, get_set_other _ _ _ _ hi]
      exact hc
    rcases hk with hk | hk | hk | hk
    · obtain ⟨d2, g1, g2⟩ := hk
      rw [hset] at g1
      simp only [Option.some.injEq] at g1
      subst g1
      exact absurd g2 hmiss
    · exact hother hk
    · exact do_dib_update_caches P s s' k ip h hk.symm
    · by_cases hi : dib_index P k.ip = dib_index P ip
      · obtain ⟨d2, g1, g2⟩ := hk
        rw [← hi, hset] at g1
        simp only [Option.some.injEq] at g1
        subst g1
        rw [window_cached_iff, ht, ← hi]
        refine ⟨_, get_set_self _ _ _ _ (dib_tags_get _ _ _ hset), ?_⟩
        rw [tags_hold_set _ _ _ _ _ (by rw [dib_tags_length]; exact (dib_victim_spec _ hne).1)]
        exact Or.inr ((kept_by_victim_tags _ _ _).mp g2)
      · exact hother hi

theorem do_dib_update_evicts (P : Params) (s s' : O3_CPU) (k : ooo_model_instr) (ip : Nat)
    (dib_set : List dib_entry_t) (h : do_dib_update P s k = .ok s')
    (hmiss : ¬window_cached P s k.ip) (hi : dib_index P k.ip = dib_index P ip)
    (hw : k.ip >>> P.LOG2_DIB_WINDOW_SIZE ≠ ip >>> P.LOG2_DIB_WINDOW_SIZE)
    (hset : s.DIB.get? (dib_index P ip) = some dib_set)
    (hv : ¬kept_by_victim P.LOG2_DIB_WINDOW_SIZE ip dib_set) :
    ¬window_cached P s' ip := by
  obtain ⟨d2, g1, hs | hs⟩ := do_dib_update_spec P s s' k h
  · exact absurd ⟨d2, g1, hs.1⟩ hmiss
  · obtain ⟨-, hne, ht⟩ := hs
    rw [hi, hset] at g1
    simp only [Option.some.injEq] at g1
    subst g1
    rw [window_cached_iff, ht, hi]
    rintro ⟨tags, g3, g4⟩
    rw [get_set_self _ _ _ _ (dib_tags_get _ _ _ hset)] at g3
    simp only [Option.some.injEq] at g3
    subst g3
    rw [tags_hold_set _ _ _ _ _ (by rw [dib_tags_length]; exact (dib_victim_spec _ hne).1)] at g4
    rcases g4 with g4 | g4
    · exact hw g4
    · exact hv ((kept_by_victim_tags _ _ _).mpr g4)

theorem dib_keeps_cached (P : Params) (ip : Nat) (s t : O3_CPU) (hrun : DibKeeps P ip s t)
    (hc : window_cached P s ip) : window_cached P t ip := by
  induction hrun with
  | start => exact hc
  | check t t' pos _ hstep ih =>
    rw [window_cached_congr P t t' ip (do_check_dib_tags P t t' pos hstep)]
    exact ih
  | update t t' k _ hstep hk ih => exact do_dib_update_keeps P t t' k ip hstep ih hk
  | other t t' _ hd ih =>
    rw [window_cached_congr P t t' ip (by rw [hd])]
    exact ih

theorem unique_tags_set (shamt a v : Nat) (tags : List (Bool × Nat))
    (hu : tags.Pairwise fun x y => ¬(x.1 = true ∧ y.1 = true ∧ x.2 >>> shamt = y.2 >>> shamt))
    (hmiss : ¬tags_hold shamt a tags) :
    (tags.set v (true, a)).Pairwise
      fun x y => ¬(x.1 = true ∧ y.1 = true ∧ x.2 >>> shamt = y.2 >>> shamt) := by
  rw [List.pairwise_iff_getElem] at hu ⊢
  intro i j hi hj hij
  rw [List.length_set] at hi hj
  rw [List.getElem_set, List.getElem_set]
  have hno : ∀ n (hn : n < tags.length),
      ¬(tags[n].1 = true ∧ tags[n].2 >>> shamt = a >>> shamt) := by
    intro n hn hh
    exact hmiss ⟨tags[n], List.getElem_mem _, hh.1, hh.2⟩
  split_ifs with h1 h2 h2
  · omega
  · rintro ⟨-, q1, q2⟩
    exact hno j hj ⟨q1, q2.symm⟩
  · rintro ⟨q1, -, q2⟩
    exact hno i hi ⟨q1, q2⟩
  · exact hu i j hi hj hij

theorem dib_run_unique (P : Params) (s t : O3_CPU) (hrun : DibRun P s t)
    (hinit : ∀ dib_set ∈ s.DIB, ∀ w ∈ dib_set, w.valid = false) :
    ∀ dib_set ∈ t.DIB, unique_windows P.LOG2_DIB_WINDOW_SIZE dib_set := by
  have key : ∀ u : O3_CPU, (∀ dib_set ∈ u.DIB, unique_windows P.LOG2_DIB_WINDOW_SIZE dib_set) ↔
      ∀ tags ∈ u.DIB.map dib_tags, tags.Pairwise fun x y =>
        ¬(x.1 = true ∧ y.1 = true
          ∧ x.2 >>> P.LOG2_DIB_WINDOW_SIZE = y.2 >>> P.LOG2_DIB_WINDOW_SIZE) := by
    intro u
    rw [List.forall_mem_map]
    rfl
  induction hrun with
  | start =>
    intro dib_set hd
    unfold unique_windows dib_tags
    rw [List.pairwise_map]
    rw [List.pairwise_iff_getElem]
    intro i j hi hj _
    rintro ⟨q1, -, -⟩
    have := hinit dib_set hd dib_set[i] (List.getElem_mem _)
    have q2 : dib_set[i].valid = true := q1
    rw [this] at q2
    exact Bool.noConfusion q2
  | check t t' pos _ hstep ih =>
    rw [key, do_check_dib_tags P t t' pos hstep, ← key]
    exact ih
  | update t t' k _ hstep ih =>
    obtain ⟨dib_set, hset, hs | hs⟩ := do_dib_update_spec P t t' k hstep
    · rw [key, hs.2, ← key]
      exact ih
    · obtain ⟨hmiss, hne, ht⟩ := hs
      rw [key, ht]
      intro tags hmem
      rcases List.mem_or_eq_of_mem_set hmem with hm | hm
      · exact (key t).mp ih tags hm
      · rw [hm]
        apply unique_tags_set
        · have hin : dib_set ∈ t.DIB := by
            rw [List.get?_eq_getElem?] at hset
            exact List.mem_iff_getElem?.mpr ⟨_, hset⟩
          exact ih dib_set hin
        · rw [← holds_window_iff_tags]
          exact hmiss
  | other t t' _ hd ih =>
    rw [hd]
    exact ih

/-! ## Theorems: the decoded-instruction buffer (C33, C34, C35) -/

/-- C33: `do_check_dib` on the record `instr` at position `pos` of the fetch buffer, with
a DIB of `DIB_SET` sets. If the set with index `(instr.ip >> LOG2_DIB_WINDOW_SIZE) %
DIB_SET` holds a valid way whose address lies in the aligned window of `instr.ip`, the
call returns, the record at `pos` becomes `x` with `translated`, `fetched` and `decoded`
equal to `COMPLETED` and `event_cycle` equal to the current cycle, every other field of
the record and every other record are as they were, and no valid bit and no address of
the DIB changes. If the set holds no such way, the call returns the state it was given:
the instruction and every DIB way are unchanged. -/
theorem do_check_dib_hit_or_miss (P : Params) (s : O3_CPU) (pos : Nat)
    (instr : ooo_model_instr) (hpos : s.IFETCH_BUFFER.entries.get? pos = some instr)
    (hsets : s.DIB.length = P.DIB_SET) (hpos0 : 0 < P.DIB_SET) :
    ∃ dib_set, s.DIB.get? (dib_index P instr.ip) = some dib_set ∧
      (holds_window P.LOG2_DIB_WINDOW_SIZE instr.ip dib_set →
        ∃ s' x, do_check_dib P s pos = .ok s' ∧
          s'.IFETCH_BUFFER.entries = s.IFETCH_BUFFER.entries.set pos x ∧
          x = dib_hit_record instr s.current_core_cycle ∧
          x.translated = COMPLETED ∧ x.fetched = COMPLETED ∧ x.decoded = COMPLETED ∧
          x.event_cycle = s.current_core_cycle ∧
          s'.DIB.map dib_tags = s.DIB.map dib_tags) ∧
      (¬holds_window P.LOG2_DIB_WINDOW_SIZE instr.ip dib_set →
        do_check_dib P s pos = .ok s) := by
  have hlt : dib_index P instr.ip < s.DIB.length := by
    rw [hsets]
    exact Nat.mod_lt _ hpos0
  have hset : s.DIB.get? (dib_index P instr.ip) = some (s.DIB[dib_index P instr.ip]) := by
    rw [List.get?_eq_getElem?]
    exact List.getElem?_eq_getElem hlt
  obtain ⟨k1, k2⟩ := do_check_dib_spec P s pos instr _ hpos hset
  refine ⟨_, hset, ?_, k2⟩
  intro hh
  obtain ⟨s', e1, e2, e3⟩ := k1 hh
  exact ⟨s', _, e1, e2, rfl, rfl, rfl, rfl, rfl, e3⟩

theorem do_check_dib_hit_or_miss_witness :
    dib_after_A.IFETCH_BUFFER.entries.get? 1 = some { ip := 0x400008 } ∧
    dib_after_A.DIB.length = sample_params.DIB_SET ∧ 0 < sample_params.DIB_SET ∧
    ∃ dib_set, dib_after_A.DIB.get? (dib_index sample_params 0x400008) = some dib_set ∧
      (holds_window sample_params.LOG2_DIB_WINDOW_SIZE 0x400008 dib_set →
        ∃ s' x, do_check_dib sample_params dib_after_A 1 = .ok s' ∧
          s'.IFETCH_BUFFER.entries = dib_after_A.IFETCH_BUFFER.entries.set 1 x ∧
          x = dib_hit_record { ip := 0x400008 } dib_after_A.current_core_cycle ∧
          x.translated = COMPLETED ∧ x.fetched = COMPLETED ∧ x.decoded = COMPLETED ∧
          x.event_cycle = dib_after_A.current_core_cycle ∧
          s'.DIB.map dib_tags = dib_after_A.DIB.map dib_tags) ∧
      (¬holds_window sample_params.LOG2_DIB_WINDOW_SIZE 0x400008 dib_set →
        do_check_dib sample_params dib_after_A 1 = .ok dib_after_A) :=
  ⟨by decide, by decide, by decide,
    do_check_dib_hit_or_miss sample_params dib_after_A 1 { ip := 0x400008 } (by decide)
      (by decide) (by decide)⟩

/-- C34 (eviction after one installation): on a DIB of two sets with two ways, empty,
with ranks 0 and 1 in each set, the windows of `0x400020`, `0x400000` and `0x400040`
share set 0. After `do_dib_update` for `dib_B` and for `dib_A`, `do_check_dib` hits for
the record at `0x400008`, in the window of `dib_A`. A `do_check_dib` hit for the record
at `0x400024`, in the window of `dib_B`, then makes the way of `dib_A` the
least-recently-used one, and the single `do_dib_update` for `dib_C` evicts it: the
following `do_check_dib` for the record at `0x400008` leaves the state as it is, the
record is not marked. One other window was installed after `dib_A`, the set has two
ways. -/
theorem dib_window_evicted_after_one_install :
    do_dib_update sample_params dib_ranked dib_B = .ok dib_after_B ∧
    do_dib_update sample_params dib_after_B dib_A = .ok dib_after_A ∧
    dib_after_A.DIB.map List.length = [2, 2] ∧
    dib_index sample_params dib_A.ip = 0 ∧ dib_index sample_params dib_B.ip = 0 ∧
    dib_index sample_params dib_C.ip = 0 ∧
    (0x400008 : Nat) >>> sample_params.LOG2_DIB_WINDOW_SIZE
      = dib_A.ip >>> sample_params.LOG2_DIB_WINDOW_SIZE ∧
    (after (do_check_dib sample_params dib_after_A 1) dib_after_A).IFETCH_BUFFER.entries.get? 1
      = some (dib_hit_record { ip := 0x400008 } 5) ∧
    do_check_dib sample_params dib_after_A 0 = .ok dib_after_hit ∧
    dib_after_hit.IFETCH_BUFFER.entries.get? 0 = some (dib_hit_record { ip := 0x400024 } 5) ∧
    do_dib_update sample_params dib_after_hit dib_C = .ok dib_after_C ∧
    dib_after_C.DIB.get? 0
      = some [{ valid := true, lru := 0, address := 0x400040 },
              { valid := true, lru := 1, address := 0x400020 }] ∧
    do_check_dib sample_params dib_after_C 1 = .ok dib_after_C ∧
    dib_after_C.IFETCH_BUFFER.entries.get? 1 = some { ip := 0x400008 } := by
  decide

/-- C34, the statement that holds. After a returning `do_dib_update(i)`, and after any
later calls of `do_check_dib`, steps of other stages, and calls of `do_dib_update` that
hit, or address another set, or install the window of `i` itself, or find the window of
`i` in a way that is not the victim, `do_check_dib` hits for every record `j` of the
fetch buffer whose `ip` lies in the aligned window of `i.ip`: the call returns, the
record is marked translated, fetched and decoded, and the window is still held. A later
`do_dib_update(k)` that misses in the set of `i`, for another window, while no way other
than the victim holds the window of `i`, evicts it: the window of `i` is no longer held
afterwards, however few windows were installed in between. -/
theorem dib_update_then_check_hits (P : Params) (s s1 t : O3_CPU) (i j : ooo_model_instr)
    (pos : Nat) (h : do_dib_update P s i = .ok s1) (hrun : DibKeeps P i.ip s1 t)
    (hj : t.IFETCH_BUFFER.entries.get? pos = some j)
    (hwin : j.ip >>> P.LOG2_DIB_WINDOW_SIZE = i.ip >>> P.LOG2_DIB_WINDOW_SIZE) :
    (∃ t' x, do_check_dib P t pos = .ok t' ∧
      t'.IFETCH_BUFFER.entries = t.IFETCH_BUFFER.entries.set pos x ∧
      x = dib_hit_record j t.current_core_cycle ∧
      x.translated = COMPLETED ∧ x.fetched = COMPLETED ∧ x.decoded = COMPLETED ∧
      window_cached P t' i.ip) ∧
    (∀ (k : ooo_model_instr) (t2 : O3_CPU) (dib_set : List dib_entry_t),
      do_dib_update P t k = .ok t2 → ¬window_cached P t k.ip →
      dib_index P k.ip = dib_index P i.ip →
      k.ip >>> P.LOG2_DIB_WINDOW_SIZE ≠ i.ip >>> P.LOG2_DIB_WINDOW_SIZE →
      t.DIB.get? (dib_index P i.ip) = some dib_set →
      ¬kept_by_victim P.LOG2_DIB_WINDOW_SIZE i.ip dib_set →
      ¬window_cached P t2 i.ip) := by
  have hc1 : window_cached P s1 i.ip := do_dib_update_caches P s s1 i i.ip h rfl
  have hct : window_cached P t i.ip := dib_keeps_cached P i.ip s1 t hrun hc1
  have hcj : window_cached P t j.ip := (window_cached_window P t j.ip i.ip hwin).mpr hct
  obtain ⟨dib_set, hset, hh⟩ := hcj
  obtain ⟨k1, -⟩ := do_check_dib_spec P t pos j dib_set hj hset
  obtain ⟨t', e1, e2, e3⟩ := k1 hh
  refine ⟨⟨t', _, e1, e2, rfl, rfl, rfl, rfl, ?_⟩, ?_⟩
  · rw [window_cached_congr P t t' i.ip e3]
    exact hct
  · intro k t2 d2 hk hmiss hi hw hd hv
    exact do_dib_update_evicts P t t2 k i.ip d2 hk hmiss hi hw hd hv

theorem dib_update_then_check_hits_witness :
    do_dib_update sample_params dib_after_B dib_A = .ok dib_after_A ∧
    do_check_dib sample_params dib_after_A 0 = .ok dib_after_hit ∧
    dib_after_hit.IFETCH_BUFFER.entries.get? 1 = some { ip := 0x400008 } ∧
    (0x400008 : Nat) >>> sample_params.LOG2_DIB_WINDOW_SIZE
      = dib_A.ip >>> sample_params.LOG2_DIB_WINDOW_SIZE ∧
    (∃ t' x, do_check_dib sample_params dib_after_hit 1 = .ok t' ∧
      t'.IFETCH_BUFFER.entries = dib_after_hit.IFETCH_BUFFER.entries.set 1 x ∧
      x = dib_hit_record { ip := 0x400008 } dib_after_hit.current_core_cycle ∧
      x.translated = COMPLETED ∧ x.fetched = COMPLETED ∧ x.decoded = COMPLETED ∧
      window_cached sample_params t' dib_A.ip) ∧
    (∀ (k : ooo_model_instr) (t2 : O3_CPU) (dib_set : List dib_entry_t),
      do_dib_update sample_params dib_after_hit k = .ok t2 →
      ¬window_cached sample_params dib_after_hit k.ip →
      dib_index sample_params k.ip = dib_index sample_params dib_A.ip →
      k.ip >>> sample_params.LOG2_DIB_WINDOW_SIZE
        ≠ dib_A.ip >>> sample_params.LOG2_DIB_WINDOW_SIZE →
      dib_after_hit.DIB.get? (dib_index sample_params dib_A.ip) = some dib_set →
      ¬kept_by_victim sample_params.LOG2_DIB_WINDOW_SIZE dib_A.ip dib_set →
      ¬window_cached sample_params t2 dib_A.ip) :=
  ⟨by decide, by decide, by decide, by decide,
    dib_update_then_check_hits sample_params dib_after_B dib_after_A dib_after_hit dib_A
      { ip := 0x400008 } 1 (by decide)
      (DibKeeps.check _ _ _ 0 (DibKeeps.start _) (by decide)) (by decide) (by decide)⟩

/-- C35: `do_dib_update` from a state reached from a DIB without valid ways by calls of
`do_check_dib` and `do_dib_update` and steps of other stages. On a miss the way
`dib_victim` of the indexed set, a way of that set whose LRU rank is maximal in the set,
gets `(valid, instr.ip)`, and the valid bits and addresses of the other ways of the set
and of every other set are as they were: the list of (valid, address) pairs of the DIB
changes at that one position only. On a hit the list does not change. Before and after
the call no set holds two valid ways for the same aligned window. -/
theorem do_dib_update_frame (P : Params) (s0 s s' : O3_CPU) (instr : ooo_model_instr)
    (hinit : ∀ dib_set ∈ s0.DIB, ∀ w ∈ dib_set, w.valid = false) (hrun : DibRun P s0 s)
    (h : do_dib_update P s instr = .ok s') :
    ∃ dib_set, s.DIB.get? (dib_index P instr.ip) = some dib_set ∧
      (¬holds_window P.LOG2_DIB_WINDOW_SIZE instr.ip dib_set →
        dib_victim dib_set < dib_set.length ∧
        (∀ w ∈ dib_set, w.lru ≤ (dib_set.getD (dib_victim dib_set) {}).lru) ∧
        s'.DIB.map dib_tags = (s.DIB.map dib_tags).set (dib_index P instr.ip)
          ((dib_tags dib_set).set (dib_victim dib_set) (true, instr.ip))) ∧
      (holds_window P.LOG2_DIB_WINDOW_SIZE instr.ip dib_set →
        s'.DIB.map dib_tags = s.DIB.map dib_tags) ∧
      (∀ d ∈ s.DIB, unique_windows P.LOG2_DIB_WINDOW_SIZE d) ∧
      (∀ d ∈ s'.DIB, unique_windows P.LOG2_DIB_WINDOW_SIZE d) := by
  have u1 := dib_run_unique P s0 s hrun hinit
  have u2 := dib_run_unique P s0 s' (DibRun.update _ _ _ instr hrun h) hinit
  obtain ⟨dib_set, hset, hs | hs⟩ := do_dib_update_spec P s s' instr h
  · exact ⟨dib_set, hset, fun hn => absurd hs.1 hn, fun _ => hs.2, u1, u2⟩
  · obtain ⟨hmiss, hne, ht⟩ := hs
    obtain ⟨v1, v2⟩ := dib_victim_spec dib_set hne
    exact ⟨dib_set, hset, fun _ => ⟨v1, v2, ht⟩, fun hh => absurd hh hmiss, u1, u2⟩

theorem do_dib_update_frame_witness :
    (∀ dib_set ∈ dib_ranked.DIB, ∀ w ∈ dib_set, w.valid = false) ∧
    do_dib_update sample_params dib_ranked dib_B = .ok dib_after_B ∧
    do_dib_update sample_params dib_after_B dib_A = .ok dib_after_A ∧
    ∃ dib_set, dib_after_B.DIB.get? (dib_index sample_params dib_A.ip) = some dib_set ∧
      (¬holds_window sample_params.LOG2_DIB_WINDOW_SIZE dib_A.ip dib_set →
        dib_victim dib_set < dib_set.length ∧
        (∀ w ∈ dib_set, w.lru ≤ (dib_set.getD (dib_victim dib_set) {}).lru) ∧
        dib_after_A.DIB.map dib_tags
          = (dib_after_B.DIB.map dib_tags).set (dib_index sample_params dib_A.ip)
            ((dib_tags dib_set).set (dib_victim dib_set) (true, dib_A.ip))) ∧
      (holds_window sample_params.LOG2_DIB_WINDOW_SIZE dib_A.ip dib_set →
        dib_after_A.DIB.map dib_tags = dib_after_B.DIB.map dib_tags) ∧
      (∀ d ∈ dib_after_B.DIB, unique_windows sample_params.LOG2_DIB_WINDOW_SIZE d) ∧
      (∀ d ∈ dib_after_A.DIB, unique_windows sample_params.LOG2_DIB_WINDOW_SIZE d) :=
  ⟨by decide, by decide, by decide,
    do_dib_update_frame sample_params dib_ranked dib_after_B dib_after_A dib_A (by decide)
      (DibRun.update _ _ _ dib_B (DibRun.start _) (by decide)) (by decide)⟩

/-! ## Lemmas: execution and completion of register instructions -/

theorem completes_refl (cycle : Nat) (e : ooo_model_instr) : completes cycle e e :=
  ⟨rfl, rfl, rfl, Or.inl rfl⟩

theorem completes_trans (cycle : Nat) (a b c : ooo_model_instr) (h1 : completes cycle a b)
    (h2 : completes cycle b c) : completes cycle a c := by
  obtain ⟨a1, a2, a3, a4⟩ := h1
  obtain ⟨b1, b2, b3, b4⟩ := h2
  refine ⟨b1.trans a1, b2.trans a2, b3.trans a3, ?_⟩
  rcases b4 with b4 | ⟨q1, q2, q3, q4⟩
  · rcases a4 with a4 | a4
    · exact Or.inl (b4.trans a4)
    · exact Or.inr ⟨b4.trans a4.1, a4.2⟩
  · rcases a4 with a4 | a4
    · exact Or.inr ⟨q1, a4 ▸ q2, a2 ▸ q3, a3 ▸ q4⟩
    · rw [a4.1] at q2
      exact absurd q2 (by decide)

theorem exec_fields_completes (cycle : Nat) (a b : ooo_model_instr) (h : exec_fields a b) :
    completes cycle a b :=
  ⟨h.1, h.2.1, h.2.2.1, Or.inl h.2.2.2⟩

theorem forall₂_trans_of (F : ooo_model_instr → ooo_model_instr → Prop)
    (hF : ∀ a b c, F a b → F b c → F a c) (l1 l2 l3 : List ooo_model_instr)
    (h1 : List.Forall₂ F l1 l2) (h2 : List.Forall₂ F l2 l3) : List.Forall₂ F l1 l3 := by
  induction h1 generalizing l3 with
  | nil => cases h2; exact List.Forall₂.nil
  | cons hab _ ih =>
    cases h2 with
    | cons hbc hrest => exact List.Forall₂.cons (hF _ _ _ hab hbc) (ih _ hrest)

theorem forall₂_completes_ids (cycle : Nat) (l1 l2 : List ooo_model_instr)
    (h : List.Forall₂ (completes cycle) l1 l2) : ids l2 = ids l1 := by
  induction h with
  | nil => rfl
  | cons hab _ ih =>
    unfold ids at ih ⊢
    simp only [List.map_cons]
    rw [ih, hab.1]

theorem forall₂_map_of_mem (F : ooo_model_instr → ooo_model_instr → Prop)
    (g : ooo_model_instr → ooo_model_instr) (l : List ooo_model_instr)
    (h : ∀ e ∈ l, F e (g e)) : List.Forall₂ F l (l.map g) := by
  induction l with
  | nil => exact List.Forall₂.nil
  | cons a rest ih =>
    exact List.Forall₂.cons (h a (List.mem_cons_self _ _))
      (ih fun e he => h e (List.mem_cons_of_mem _ he))

theorem release_dependents_exec (l : List Nat) :
    ∀ s s' : O3_CPU, release_dependents l s = .ok s' →
      s'.current_core_cycle = s.current_core_cycle ∧
      List.Forall₂ exec_fields s.ROB.entries s'.ROB.entries := by
  induction l with
  | nil =>
    intro s s' h
    simp only [release_dependents, Outcome.ok.injEq] at h
    subst h
    refine ⟨rfl, ?_⟩
    have := forall₂_map_of_mem exec_fields id s.ROB.entries (fun e _ => ⟨rfl, rfl, rfl, rfl⟩)
    rw [List.map_id] at this
    exact this
  | cons d rest ih =>
    intro s s' h
    simp only [release_dependents] at h
    split at h
    · simp at h
    split_ifs at h
    obtain ⟨h1, h2⟩ := ih _ _ h
    refine ⟨h1, ?_⟩
    have hstep : List.Forall₂ exec_fields s.ROB.entries
        (update_rob s d release_dependent).ROB.entries := by
      apply forall₂_map_of_mem
      intro e _
      show exec_fields e (if e.instr_id = d then release_dependent e else e)
      split_ifs
      · unfold release_dependent
        simp only
        split_ifs <;> exact ⟨rfl, rfl, rfl, rfl⟩
      · exact ⟨rfl, rfl, rfl, rfl⟩
    exact forall₂_trans_of exec_fields
      (fun a b c hab hbc => ⟨hbc.1.trans hab.1, hbc.2.1.trans hab.2.1,
        hbc.2.2.1.trans hab.2.2.1, hbc.2.2.2.trans hab.2.2.2⟩) _ _ _ hstep h2

theorem push_ready_dependents_frame (P : Params) (L : List Nat) :
    ∀ s s' : O3_CPU, push_ready_dependents P L s = .ok s' →
      s'.ROB = s.ROB ∧ s'.current_core_cycle = s.current_core_cycle := by
  induction L with
  | nil =>
    intro s s' h
    simp only [push_ready_dependents, Outcome.ok.injEq] at h
    subst h
    exact ⟨rfl, rfl⟩
  | cons d rest ih =>
    intro s s' h
    simp only [push_ready_dependents] at h
    split at h
    · simp at h
    split_ifs at h
    · have := ih _ _ h
      exact this
    · exact ih _ _ h

theorem forall₂_completes_refl (cycle : Nat) (l : List ooo_model_instr) :
    List.Forall₂ (completes cycle) l l := by
  have := forall₂_map_of_mem (completes cycle) id l (fun e _ => completes_refl cycle e)
  rw [List.map_id] at this
  exact this

theorem do_complete_execution_completes (P : Params) (s s' : O3_CPU) (rob_it : Nat)
    (x : ooo_model_instr) (hn : (ids s.ROB.entries).Nodup)
    (hx : rob_find s.ROB.entries rob_it = some x)
    (hready : x.executed = INFLIGHT ∧ x.event_cycle ≤ s.current_core_cycle ∧ x.num_mem_ops = 0)
    (h : do_complete_execution P s rob_it = .ok s') :
    s'.current_core_cycle = s.current_core_cycle ∧
    List.Forall₂ (completes s.current_core_cycle) s.ROB.entries s'.ROB.entries := by
  unfold do_complete_execution at h
  rw [hx] at h
  simp only at h
  split at h
  · simp at h
  rename_i s4 hrel
  obtain ⟨f1, f2⟩ := release_dependents_exec _ _ _ hrel
  obtain ⟨c1, -, c3⟩ := count_completed_frame x (update_rob s rob_it mark_completed)
  rw [c1] at f2
  have hmark : List.Forall₂ (completes s.current_core_cycle) s.ROB.entries
      (update_rob s rob_it mark_completed).ROB.entries := by
    apply forall₂_map_of_mem
    intro e he
    show completes s.current_core_cycle e (if e.instr_id = rob_it then mark_completed e else e)
    split_ifs with hid
    · have hf := rob_find_of_mem _ hn e he
      rw [hid, hx] at hf
      simp only [Option.some.injEq] at hf
      subst hf
      exact ⟨rfl, rfl, rfl, Or.inr ⟨rfl, hready⟩⟩
    · exact completes_refl _ _
  have hall : List.Forall₂ (completes s.current_core_cycle) s.ROB.entries s4.ROB.entries :=
    forall₂_trans_of _ (completes_trans _) _ _ _ hmark
      (List.Forall₂.imp (fun a b hab => exec_fields_completes _ a b hab) f2)
  have hcyc : s4.current_core_cycle = s.current_core_cycle := by
    rw [f1, c3]
    rfl
  split at h
  · simp at h
  split_ifs at h
  · simp only [Outcome.ok.injEq] at h
    subst h
    exact ⟨hcyc, hall⟩
  · simp only [Outcome.ok.injEq] at h
    subst h
    exact ⟨hcyc, hall⟩

theorem complete_one_completes (P : Params) (s s' : O3_CPU) (rob_it : Nat)
    (x : ooo_model_instr) (hn : (ids s.ROB.entries).Nodup)
    (hx : rob_find s.ROB.entries rob_it = some x)
    (hready : x.executed = INFLIGHT ∧ x.event_cycle ≤ s.current_core_cycle ∧ x.num_mem_ops = 0)
    (h : complete_one P s rob_it x = .ok s') :
    s'.current_core_cycle = s.current_core_cycle ∧
    List.Forall₂ (completes s.current_core_cycle) s.ROB.entries s'.ROB.entries := by
  unfold complete_one at h
  split at h
  · simp at h
  rename_i s1 hg
  have hs1 : s1.current_core_cycle = s.current_core_cycle ∧
      List.Forall₂ (completes s.current_core_cycle) s.ROB.entries s1.ROB.entries := by
    unfold complete_gated at hg
    split_ifs at hg
    · exact do_complete_execution_completes P s s1 rob_it x hn hx hready hg
    · simp only [Outcome.ok.injEq] at hg
      subst hg
      exact ⟨rfl, forall₂_completes_refl _ _⟩
    · exact do_complete_execution_completes P s s1 rob_it x hn hx hready hg
    · simp only [Outcome.ok.injEq] at hg
      subst hg
      exact ⟨rfl, forall₂_completes_refl _ _⟩
    · exact do_complete_execution_completes P s s1 rob_it x hn hx hready hg
  split at h
  · simp at h
  obtain ⟨p1, p2⟩ := push_ready_dependents_frame P _ _ _ h
  rw [p1, p2]
  exact hs1

theorem complete_inflight_loop_completes (P : Params) (L : List Nat) :
    ∀ (bw : Nat) (s s' : O3_CPU), (ids s.ROB.entries).Nodup →
      complete_inflight_loop P L bw s = .ok s' →
      s'.current_core_cycle = s.current_core_cycle ∧
      List.Forall₂ (completes s.current_core_cycle) s.ROB.entries s'.ROB.entries := by
  induction L with
  | nil =>
    intro bw s s' _ h
    simp only [complete_inflight_loop, Outcome.ok.injEq] at h
    subst h
    exact ⟨rfl, forall₂_completes_refl _ _⟩
  | cons rob_it rest ih =>
    intro bw s s' hn h
    cases bw with
    | zero =>
      simp only [complete_inflight_loop, Outcome.ok.injEq] at h
      subst h
      exact ⟨rfl, forall₂_completes_refl _ _⟩
    | succ bw =>
      simp only [complete_inflight_loop] at h
      split at h
      · simp at h
      rename_i x hx
      split_ifs at h with hready
      · split at h
        · simp at h
        rename_i s1 hone
        obtain ⟨o1, o2⟩ := complete_one_completes P s s1 rob_it x hn hx hready hone
        have hn1 : (ids s1.ROB.entries).Nodup := by
          rw [forall₂_completes_ids _ _ _ o2]
          exact hn
        obtain ⟨r1, r2⟩ := ih bw s1 s' hn1 h
        rw [o1] at r2
        exact ⟨r1.trans o1, forall₂_trans_of _ (completes_trans _) _ _ _ o2 r2⟩
      · exact ih (bw + 1) s s' hn h

theorem complete_inflight_instruction_completes (P : Params) (s s' : O3_CPU)
    (hn : (ids s.ROB.entries).Nodup) (h : complete_inflight_instruction P s = .ok s') :
    List.Forall₂ (completes s.current_core_cycle) s.ROB.entries s'.ROB.entries := by
  unfold complete_inflight_instruction at h
  split_ifs at h
  · exact (complete_inflight_loop_completes P _ _ s s' hn h).2
  · simp only [Outcome.ok.injEq] at h
    subst h
    exact forall₂_completes_refl _ _

theorem forall₂_get (F : ooo_model_instr → ooo_model_instr → Prop)
    (l1 l2 : List ooo_model_instr) (h : List.Forall₂ F l1 l2) :
    ∀ (i : Nat) (y y' : ooo_model_instr), l1.get? i = some y → l2.get? i = some y' → F y y' := by
  induction h with
  | nil => intro i y y' h1; simp at h1
  | cons hab _ ih =>
    intro i y y' h1 h2
    cases i with
    | zero =>
      simp only [List.get?_cons_zero, Option.some.injEq] at h1 h2
      subst h1 h2
      exact hab
    | succ i =>
      simp only [List.get?_cons_succ] at h1 h2
      exact ih i y y' h1 h2

/-! ## Theorems: execution and completion of register instructions (C31) -/

/-- C31: `do_execution` for the iterator `rob_it`, which points to the record `x` of the
ROB, returns; the record is then `INFLIGHT`, its event cycle is `max(old event cycle,
current cycle) + EXEC_LATENCY` on 64 bits once warmup is complete and `max(old event
cycle, current cycle)` during warmup, and `inflight_reg_executions` has grown by one on
its 32 bits. A returning `complete_inflight_instruction` on a ROB `t` with distinct
instruction ids keeps the ids, and a record that is `COMPLETED` afterwards was
`COMPLETED` before or was `INFLIGHT` with `event_cycle <= current cycle` and
`num_mem_ops == 0`. -/
theorem do_execution_then_complete (P : Params) (s : O3_CPU) (rob_it : Nat)
    (x : ooo_model_instr) (t t' : O3_CPU) (hx : rob_find s.ROB.entries rob_it = some x)
    (hn : (ids t.ROB.entries).Nodup) (hc : complete_inflight_instruction P t = .ok t') :
    (∃ s' x', do_execution P s rob_it = .ok s' ∧ rob_find s'.ROB.entries rob_it = some x' ∧
      x'.executed = INFLIGHT ∧
      (s.warmup_complete ≠ 0 → x'.event_cycle
        = (max x.event_cycle s.current_core_cycle + P.EXEC_LATENCY) % 2 ^ 64) ∧
      (s.warmup_complete = 0 → x'.event_cycle = max x.event_cycle s.current_core_cycle) ∧
      s'.inflight_reg_executions = (s.inflight_reg_executions + 1) % 2 ^ 32) ∧
    ids t'.ROB.entries = ids t.ROB.entries ∧
    (∀ (i : Nat) (y y' : ooo_model_instr), t.ROB.entries.get? i = some y →
      t'.ROB.entries.get? i = some y' → y'.executed = COMPLETED →
      y.executed = COMPLETED ∨
        (y.executed = INFLIGHT ∧ y.event_cycle ≤ t.current_core_cycle ∧ y.num_mem_ops = 0)) := by
  have hall := complete_inflight_instruction_completes P t t' hn hc
  refine ⟨?_, forall₂_completes_ids _ _ _ hall, ?_⟩
  · refine ⟨count_execution
        (update_rob s rob_it (executed_record P s.warmup_complete s.current_core_cycle)),
      executed_record P s.warmup_complete s.current_core_cycle x, ?_, ?_, rfl, ?_, ?_, rfl⟩
    · unfold do_execution
      rw [hx]
    · show rob_find (update_rob s rob_it
        (executed_record P s.warmup_complete s.current_core_cycle)).ROB.entries rob_it = _
      rw [rob_find_update_self s rob_it
        (executed_record P s.warmup_complete s.current_core_cycle) (fun e => rfl), hx]
      rfl
    · intro hw
      unfold executed_record add64
      simp only
      rw [if_pos hw]
      split_ifs with hlt
      · rw [max_eq_right (le_of_lt hlt)]
      · rw [max_eq_left (not_lt.mp hlt)]
    · intro hw
      unfold executed_record
      simp only
      rw [if_neg (not_not.mpr hw)]
      split_ifs with hlt
      · rw [max_eq_right (le_of_lt hlt)]
      · rw [max_eq_left (not_lt.mp hlt)]
  · intro i y y' h1 h2 hdone
    obtain ⟨-, -, -, q | q⟩ := forall₂_get _ _ _ hall i y y' h1 h2
    · exact Or.inl (q ▸ hdone)
    · exact Or.inr q.2

theorem do_execution_then_complete_witness :
    rob_find reg_ready.ROB.entries 0 = some (reg_ready.ROB.entries.getD 0 {}) ∧
    (ids reg_executing.ROB.entries).Nodup ∧
    complete_inflight_instruction sample_params reg_executing = .ok reg_completed ∧
    (∃ s' x', do_execution sample_params reg_ready 0 = .ok s' ∧
      rob_find s'.ROB.entries 0 = some x' ∧ x'.executed = INFLIGHT ∧
      (reg_ready.warmup_complete ≠ 0 → x'.event_cycle
        = (max (reg_ready.ROB.entries.getD 0 {}).event_cycle reg_ready.current_core_cycle
            + sample_params.EXEC_LATENCY) % 2 ^ 64) ∧
      (reg_ready.warmup_complete = 0 → x'.event_cycle
        = max (reg_ready.ROB.entries.getD 0 {}).event_cycle reg_ready.current_core_cycle) ∧
      s'.inflight_reg_executions = (reg_ready.inflight_reg_executions + 1) % 2 ^ 32) ∧
    ids reg_completed.ROB.entries = ids reg_executing.ROB.entries ∧
    (∀ (i : Nat) (y y' : ooo_model_instr), reg_executing.ROB.entries.get? i = some y →
      reg_completed.ROB.entries.get? i = some y' → y'.executed = COMPLETED →
      y.executed = COMPLETED ∨
        (y.executed = INFLIGHT ∧ y.event_cycle ≤ reg_executing.current_core_cycle ∧
          y.num_mem_ops = 0)) :=
  ⟨by decide, by decide, by decide,
    do_execution_then_complete sample_params reg_ready 0 (reg_ready.ROB.entries.getD 0 {})
      reg_executing reg_completed (by decide) (by decide) (by decide)⟩

end ChampSim
